import Mathlib

/-!
# SourcePawn recursive-descent parser (`compiler/new-parser.cpp`)

A shallow embedding of the expression and statement grammar and of the
top-level declarations of `Parser`, with `CompileContext::ChangePragmaDynamic`
of `v2/compile-context.cpp`, and theorems about them.

* The token source (`lex`, `lexpush`, `matchtoken`, `needtoken`, ...) lives in
  `lexer.cpp`, which is not part of the sources at hand; it is modelled from the
  specification's description of the token source adapter.
* The error sink (`error`, `errorset`) lives in `errors.cpp`, which is not part
  of the sources either; it is modelled from the specification: under
  `sc_one_error_per_statement` a statement reports at most one error.
* The operator tables `list3` .. `list12` are declared elsewhere as well; they
  are a parameter (`OpLists`) of every production.
* Collaborators that parse declarators, evaluate constant expressions or
  intern tags are a parameter too (`Externals`), and so are those of the
  top-level productions (`TopExternals`).
* The constant `sDIMEN_MAX` is declared elsewhere; it is the parameter
  `dimen_max` of `parse_post_dims`, whose stores into the fixed-size arrays are
  checked against it.
* The constant `kMB` and the width of `size_t` are declared elsewhere; they are
  parameters of `ChangePragmaDynamic`.
* Recursion is bounded by a fuel argument: a production called with fuel `0`
  yields `none`; every call and every loop iteration spends one unit.
-/

namespace SourcePawn

/-! ## Tokens -/

/-- Token kinds. The single-character tokens of the source (written `'('`,
`'+'`, ... there) have the `ch_` names; `tEOF` is the value `0` that `lex`
returns at end of input. -/
inductive TokenKind where
  | tEOF
  | ch_lparen | ch_rparen | ch_lbracket | ch_rbracket | ch_lbrace | ch_rbrace
  | ch_comma | ch_semicolon | ch_colon | ch_question | ch_dot | ch_underscore
  | ch_assign | ch_plus | ch_minus | ch_star | ch_slash | ch_percent
  | ch_tilde | ch_excl | ch_lt | ch_gt | ch_amp | ch_caret | ch_bar
  | taMULT | taDIV | taMOD | taADD | taSUB | taSHL | taSHRU | taSHR
  | taAND | taXOR | taOR
  | tlOR | tlAND | tlEQ | tlNE | tlLE | tlGE
  | tSHL | tSHRU | tSHR | tINC | tDEC | tELLIPS | tDBLDOT | tDBLCOLON
  | tASSERT | tBREAK | tCASE | tCHAR | tCONST | tCONTINUE | tDECL | tDEFAULT
  | tDEFINED | tDELETE | tDO | tELSE | tENUM | tEXIT | tFOR | tFORWARD
  | tFUNCENUM | tFUNCTAG | tIF | tINT | tMETHODMAP | tNATIVE | tNEW | tNULL
  | tOBJECT | tOPERATOR | tPUBLIC | tRETURN | tSIZEOF | tSTATIC
  | tSTATIC_ASSERT | tSTOCK | tSTRUCT | tSWITCH | tTHIS | tTYPEDEF | tTYPESET
  | tUSING | tVIEW_AS | tVOID | tWHILE
  | tNUMBER | tRATIONAL | tSYMBOL | tLABEL | tSTRING
  | tENDEXPR | tTERM | tNEWDECL
  deriving DecidableEq, Repr

/-- Source position of a token: line and column. -/
structure token_pos_t where
  line : Nat
  col : Nat
  deriving DecidableEq, Repr

/-- Modelled from the spec: a token is a lexeme carrying a kind tag, a source
position, an optional integer value and an optional string slice (the type is
declared in `lexer.h`). -/
structure token_t where
  id : TokenKind
  value : Int
  str : String
  start : token_pos_t
  deriving DecidableEq, Repr

/-- The token `lex` hands out once the input is exhausted. -/
def eof_token : token_t := ⟨TokenKind.tEOF, 0, "", ⟨0, 0⟩⟩

/-! ## Syntax trees -/

/-- Expression nodes built by the parser (the classes of `parse-node.h`, each
with the arguments its constructor receives in `new-parser.cpp`). A
`ChainedCompareExpr` holds its `CompareOp`s as triples position, operator,
right operand; a `CallExpr` holds its arguments as pairs of an optional name
and an optional expression. -/
inductive Expr where
  | ErrorExpr
  | NullExpr (pos : token_pos_t)
  | NumberExpr (pos : token_pos_t) (val : Int)
  | FloatExpr (pos : token_pos_t) (val : Int)
  | StringExpr (pos : token_pos_t) (str : String)
  | ThisExpr (pos : token_pos_t)
  | SymbolExpr (pos : token_pos_t) (name : String)
  | ArrayExpr (pos : token_pos_t) (exprs : List Expr) (ellipses : Bool)
  | StructExpr (pos : token_pos_t) (fields : List (String × Expr))
  | NewArrayExpr (pos : token_pos_t) (tag : Int) (exprs : List Expr)
  | CommaExpr (pos : token_pos_t) (exprs : List Expr)
  | UnaryExpr (pos : token_pos_t) (tok : TokenKind) (expr : Expr)
  | PreIncExpr (pos : token_pos_t) (tok : TokenKind) (expr : Expr)
  | PostIncExpr (pos : token_pos_t) (tok : TokenKind) (expr : Expr)
  | BinaryExpr (pos : token_pos_t) (tok : TokenKind) (left right : Expr)
  | LogicalExpr (pos : token_pos_t) (tok : TokenKind) (left right : Expr)
  | TernaryExpr (pos : token_pos_t) (first second third : Expr)
  | ChainedCompareExpr (pos : token_pos_t) (first : Expr)
      (ops : List (token_pos_t × TokenKind × Expr))
  | CastExpr (pos : token_pos_t) (tok : TokenKind) (tag : Int) (expr : Expr)
  | SizeofExpr (pos : token_pos_t) (name : String) (field : Option String)
      (tok : TokenKind) (array_levels : Nat)
  | IsDefinedExpr (pos : token_pos_t) (name : String)
  | FieldAccessExpr (pos : token_pos_t) (tok : TokenKind) (base : Expr) (name : String)
  | IndexExpr (pos : token_pos_t) (base inner : Expr)
  | CallExpr (pos : token_pos_t) (tok : TokenKind) (target : Expr)
      (args : List (Option String × Option Expr))
  deriving Repr

/-! ### Decidable equality of expressions -/

/-- A first-order code for syntax trees, used to decide equality of trees. -/
inductive Code where
  | I (i : Int)
  | S (s : String)
  | K (k : TokenKind)
  | N (n : Nat)
  | nil
  | cons (a b : Code)
  deriving DecidableEq

/-- Code of a position. -/
def token_pos_t.encode (p : token_pos_t) : Code := Code.cons (Code.N p.line) (Code.N p.col)

/-- Code of an optional name. -/
def encodeName : Option String → Code
  | none => Code.nil
  | some n => Code.S n

mutual
/-- Code of an expression. -/
def Expr.encode : Expr → Code
  | .ErrorExpr => .cons (.N 0) .nil
  | .NullExpr p => .cons (.N 1) p.encode
  | .NumberExpr p v => .cons (.N 2) (.cons p.encode (.I v))
  | .FloatExpr p v => .cons (.N 3) (.cons p.encode (.I v))
  | .StringExpr p v => .cons (.N 4) (.cons p.encode (.S v))
  | .ThisExpr p => .cons (.N 5) p.encode
  | .SymbolExpr p v => .cons (.N 6) (.cons p.encode (.S v))
  | .ArrayExpr p es e => .cons (.N 7) (.cons p.encode (.cons (Expr.encodeList es) (.N (cond e 1 0))))
  | .StructExpr p fs => .cons (.N 8) (.cons p.encode (Expr.encodeFields fs))
  | .NewArrayExpr p t es => .cons (.N 9) (.cons p.encode (.cons (.I t) (Expr.encodeList es)))
  | .CommaExpr p es => .cons (.N 10) (.cons p.encode (Expr.encodeList es))
  | .UnaryExpr p t e => .cons (.N 11) (.cons p.encode (.cons (.K t) e.encode))
  | .PreIncExpr p t e => .cons (.N 12) (.cons p.encode (.cons (.K t) e.encode))
  | .PostIncExpr p t e => .cons (.N 13) (.cons p.encode (.cons (.K t) e.encode))
  | .BinaryExpr p t a b => .cons (.N 14) (.cons p.encode (.cons (.K t) (.cons a.encode b.encode)))
  | .LogicalExpr p t a b => .cons (.N 15) (.cons p.encode (.cons (.K t) (.cons a.encode b.encode)))
  | .TernaryExpr p a b c => .cons (.N 16) (.cons p.encode (.cons a.encode (.cons b.encode c.encode)))
  | .ChainedCompareExpr p a os => .cons (.N 17) (.cons p.encode (.cons a.encode (Expr.encodeOps os)))
  | .CastExpr p t g e => .cons (.N 18) (.cons p.encode (.cons (.K t) (.cons (.I g) e.encode)))
  | .SizeofExpr p n f t l =>
    .cons (.N 19) (.cons p.encode (.cons (.S n) (.cons (encodeName f) (.cons (.K t) (.N l)))))
  | .IsDefinedExpr p n => .cons (.N 20) (.cons p.encode (.S n))
  | .FieldAccessExpr p t e n => .cons (.N 21) (.cons p.encode (.cons (.K t) (.cons e.encode (.S n))))
  | .IndexExpr p a b => .cons (.N 22) (.cons p.encode (.cons a.encode b.encode))
  | .CallExpr p t e as =>
    .cons (.N 23) (.cons p.encode (.cons (.K t) (.cons e.encode (Expr.encodeArgs as))))
/-- Code of a list of expressions. -/
def Expr.encodeList : List Expr → Code
  | [] => .nil
  | e :: es => .cons e.encode (Expr.encodeList es)
/-- Code of the fields of a struct initialiser. -/
def Expr.encodeFields : List (String × Expr) → Code
  | [] => .nil
  | (n, e) :: es => .cons (.cons (.S n) e.encode) (Expr.encodeFields es)
/-- Code of the operators of a chained comparison. -/
def Expr.encodeOps : List (token_pos_t × TokenKind × Expr) → Code
  | [] => .nil
  | (p, t, e) :: es => .cons (.cons p.encode (.cons (.K t) e.encode)) (Expr.encodeOps es)
/-- Code of the arguments of a call. -/
def Expr.encodeArgs : List (Option String × Option Expr) → Code
  | [] => .nil
  | (n, none) :: es => .cons (.cons (encodeName n) .nil) (Expr.encodeArgs es)
  | (n, some e) :: es => .cons (.cons (encodeName n) (.cons (.N 0) e.encode)) (Expr.encodeArgs es)
end

theorem token_pos_t.encode_pos_inj {p q : token_pos_t} (h : p.encode = q.encode) : p = q := by
  cases p; cases q; simp only [token_pos_t.encode, Code.cons.injEq, Code.N.injEq] at h
  obtain ⟨rfl, rfl⟩ := h; rfl

theorem encodeName_inj {p q : Option String} (h : encodeName p = encodeName q) : p = q := by
  cases p <;> cases q <;> simp_all [encodeName]

set_option maxHeartbeats 4000000 in
mutual
theorem Expr.encode_inj : ∀ (a b : Expr), a.encode = b.encode → a = b
  | .ErrorExpr, b, h => by cases b <;> simp_all [Expr.encode]
  | .NullExpr p, b, h => by
    cases b <;> simp [Expr.encode] at h
    rw [token_pos_t.encode_pos_inj h]
  | .NumberExpr p v, b, h => by
    cases b <;> simp [Expr.encode] at h
    rw [token_pos_t.encode_pos_inj h.1, h.2]
  | .FloatExpr p v, b, h => by
    cases b <;> simp [Expr.encode] at h
    rw [token_pos_t.encode_pos_inj h.1, h.2]
  | .StringExpr p v, b, h => by
    cases b <;> simp [Expr.encode] at h
    rw [token_pos_t.encode_pos_inj h.1, h.2]
  | .ThisExpr p, b, h => by
    cases b <;> simp [Expr.encode] at h
    rw [token_pos_t.encode_pos_inj h]
  | .SymbolExpr p v, b, h => by
    cases b <;> simp [Expr.encode] at h
    rw [token_pos_t.encode_pos_inj h.1, h.2]
  | .ArrayExpr p es e, b, h => by
    cases b <;> simp [Expr.encode] at h
    obtain ⟨hp, hes, he⟩ := h
    rw [token_pos_t.encode_pos_inj hp, Expr.encodeList_inj _ _ hes]
    rename_i e2
    cases e <;> cases e2 <;> simp_all
  | .StructExpr p fs, b, h => by
    cases b <;> simp [Expr.encode] at h
    rw [token_pos_t.encode_pos_inj h.1, Expr.encodeFields_inj _ _ h.2]
  | .NewArrayExpr p t es, b, h => by
    cases b <;> simp [Expr.encode] at h
    rw [token_pos_t.encode_pos_inj h.1, h.2.1, Expr.encodeList_inj _ _ h.2.2]
  | .CommaExpr p es, b, h => by
    cases b <;> simp [Expr.encode] at h
    rw [token_pos_t.encode_pos_inj h.1, Expr.encodeList_inj _ _ h.2]
  | .UnaryExpr p t e, b, h => by
    cases b <;> simp [Expr.encode] at h
    rw [token_pos_t.encode_pos_inj h.1, h.2.1, Expr.encode_inj _ _ h.2.2]
  | .PreIncExpr p t e, b, h => by
    cases b <;> simp [Expr.encode] at h
    rw [token_pos_t.encode_pos_inj h.1, h.2.1, Expr.encode_inj _ _ h.2.2]
  | .PostIncExpr p t e, b, h => by
    cases b <;> simp [Expr.encode] at h
    rw [token_pos_t.encode_pos_inj h.1, h.2.1, Expr.encode_inj _ _ h.2.2]
  | .BinaryExpr p t x y, b, h => by
    cases b <;> simp [Expr.encode] at h
    rw [token_pos_t.encode_pos_inj h.1, h.2.1, Expr.encode_inj _ _ h.2.2.1,
      Expr.encode_inj _ _ h.2.2.2]
  | .LogicalExpr p t x y, b, h => by
    cases b <;> simp [Expr.encode] at h
    rw [token_pos_t.encode_pos_inj h.1, h.2.1, Expr.encode_inj _ _ h.2.2.1,
      Expr.encode_inj _ _ h.2.2.2]
  | .TernaryExpr p x y z, b, h => by
    cases b <;> simp [Expr.encode] at h
    rw [token_pos_t.encode_pos_inj h.1, Expr.encode_inj _ _ h.2.1, Expr.encode_inj _ _ h.2.2.1,
      Expr.encode_inj _ _ h.2.2.2]
  | .ChainedCompareExpr p x os, b, h => by
    cases b <;> simp [Expr.encode] at h
    rw [token_pos_t.encode_pos_inj h.1, Expr.encode_inj _ _ h.2.1, Expr.encodeOps_inj _ _ h.2.2]
  | .CastExpr p t g e, b, h => by
    cases b <;> simp [Expr.encode] at h
    rw [token_pos_t.encode_pos_inj h.1, h.2.1, h.2.2.1, Expr.encode_inj _ _ h.2.2.2]
  | .SizeofExpr p n f t l, b, h => by
    cases b <;> simp [Expr.encode] at h
    rw [token_pos_t.encode_pos_inj h.1, h.2.1, encodeName_inj h.2.2.1, h.2.2.2.1, h.2.2.2.2]
  | .IsDefinedExpr p n, b, h => by
    cases b <;> simp [Expr.encode] at h
    rw [token_pos_t.encode_pos_inj h.1, h.2]
  | .FieldAccessExpr p t e n, b, h => by
    cases b <;> simp [Expr.encode] at h
    rw [token_pos_t.encode_pos_inj h.1, h.2.1, Expr.encode_inj _ _ h.2.2.1, h.2.2.2]
  | .IndexExpr p x y, b, h => by
    cases b <;> simp [Expr.encode] at h
    rw [token_pos_t.encode_pos_inj h.1, Expr.encode_inj _ _ h.2.1, Expr.encode_inj _ _ h.2.2]
  | .CallExpr p t e as, b, h => by
    cases b <;> simp [Expr.encode] at h
    rw [token_pos_t.encode_pos_inj h.1, h.2.1, Expr.encode_inj _ _ h.2.2.1,
      Expr.encodeArgs_inj _ _ h.2.2.2]
theorem Expr.encodeList_inj : ∀ (a b : List Expr), Expr.encodeList a = Expr.encodeList b → a = b
  | [], [], _ => rfl
  | [], _ :: _, h => by simp [Expr.encodeList] at h
  | _ :: _, [], h => by simp [Expr.encodeList] at h
  | a :: as, b :: bs, h => by
    simp only [Expr.encodeList, Code.cons.injEq] at h
    rw [Expr.encode_inj a b h.1, Expr.encodeList_inj as bs h.2]
theorem Expr.encodeFields_inj :
    ∀ (a b : List (String × Expr)), Expr.encodeFields a = Expr.encodeFields b → a = b
  | [], [], _ => rfl
  | [], _ :: _, h => by simp [Expr.encodeFields] at h
  | _ :: _, [], h => by simp [Expr.encodeFields] at h
  | (n, a) :: as, (m, b) :: bs, h => by
    simp only [Expr.encodeFields, Code.cons.injEq, Code.S.injEq] at h
    rw [h.1.1, Expr.encode_inj a b h.1.2, Expr.encodeFields_inj as bs h.2]
theorem Expr.encodeOps_inj :
    ∀ (a b : List (token_pos_t × TokenKind × Expr)), Expr.encodeOps a = Expr.encodeOps b → a = b
  | [], [], _ => rfl
  | [], _ :: _, h => by simp [Expr.encodeOps] at h
  | _ :: _, [], h => by simp [Expr.encodeOps] at h
  | (p, t, a) :: as, (q, u, b) :: bs, h => by
    simp only [Expr.encodeOps, Code.cons.injEq, Code.K.injEq] at h
    rw [token_pos_t.encode_pos_inj h.1.1, h.1.2.1, Expr.encode_inj a b h.1.2.2,
      Expr.encodeOps_inj as bs h.2]
theorem Expr.encodeArgs_inj :
    ∀ (a b : List (Option String × Option Expr)),
      Expr.encodeArgs a = Expr.encodeArgs b → a = b
  | [], [], _ => rfl
  | [], (_, none) :: _, h => by simp [Expr.encodeArgs] at h
  | [], (_, some _) :: _, h => by simp [Expr.encodeArgs] at h
  | (_, none) :: _, [], h => by simp [Expr.encodeArgs] at h
  | (_, some _) :: _, [], h => by simp [Expr.encodeArgs] at h
  | (n, none) :: as, (m, some _) :: bs, h => by simp [Expr.encodeArgs] at h
  | (n, some _) :: as, (m, none) :: bs, h => by simp [Expr.encodeArgs] at h
  | (n, none) :: as, (m, none) :: bs, h => by
    simp only [Expr.encodeArgs, Code.cons.injEq, and_true] at h
    rw [encodeName_inj h.1, Expr.encodeArgs_inj as bs h.2]
  | (n, some a) :: as, (m, some b) :: bs, h => by
    simp only [Expr.encodeArgs, Code.cons.injEq, true_and] at h
    rw [encodeName_inj h.1.1, Expr.encode_inj a b h.1.2, Expr.encodeArgs_inj as bs h.2]
end

/-- Equality of expressions is decidable: compare the codes. -/
instance : DecidableEq Expr := fun a b =>
  decidable_of_iff (a.encode = b.encode) ⟨Expr.encode_inj a b, fun h => by rw [h]⟩


/-! ## Parser state and the token source -/

/-- The state the productions thread through: the token stream as a zipper
(`consumed` holds what `lex` has handed out, most recent first, `none` marking
a read at end of input; `rest` is what is still to come), the error sink with
its latch `errflag`, and the process-wide flags the parser reads and writes. -/
structure ParserState where
  consumed : List (Option token_t)
  rest : List token_t
  errors : List Nat
  sc_needsemicolon : Bool
  sc_intest : Bool
  sc_allowtags : Bool
  sc_require_newdecls : Bool
  sc_one_error_per_statement : Bool
  in_loop_ : Bool
  indent_nowarn : Bool
  stmtindent : Int
  sc_tabsize : Int
  fline : Nat
  errflag : Bool
  deriving DecidableEq, Repr

/-- A production: a state transformer that yields `none` only when it runs out
of fuel or where an assertion of the source fails. -/
abbrev P (α : Type) := StateT ParserState Option α

/-- Modelled from the spec: `error(code)` hands a numbered diagnostic to the
error sink, an append-only list (`errors.cpp` is not part of the sources). Each
statement emits at most one error under `sc_one_error_per_statement`: an error
reported while that flag is set sets the latch `errflag`, and an error handed
over while the latch is set is dropped. The codes from 200 on are the warnings
(211, 217, 228, 240 and 243 in the parser); they are reported in any case and
leave the latch alone. -/
def error (code : Nat) : P Unit :=
  modify fun s =>
    if 200 ≤ code then { s with errors := s.errors ++ [code] }
    else if s.errflag then s
    else { s with errors := s.errors ++ [code], errflag := s.sc_one_error_per_statement }

/-- Modelled from the spec: `errorset(sRESET, 0)` clears the latch of the error
sink, so that the statement that starts may report an error. -/
def errorset_sRESET : P Unit :=
  modify fun s => { s with errflag := false }

/-- Modelled from the spec: `current_token()`, the most recent token handed
out by `lex` and not pushed back. -/
def current_token (s : ParserState) : token_t :=
  match s.consumed with
  | some t :: _ => t
  | _ => eof_token

/-- Modelled from the spec: `current_pos()`, the position of `current_token()`. -/
def current_pos : P token_pos_t := do
  return (current_token (← get)).start

/-- Modelled from the spec: `freading`, true while not at end of input. -/
def freading : P Bool := do
  return !(← get).rest.isEmpty

/-- Modelled from the spec: `lextok`/`lex` hand out the next token of the
stream, or the sentinel of kind `0` at end of input. Reading the first token of
a line sets `stmtindent` to its column; `fline` follows the token read. -/
def lextok : P token_t := fun s =>
  match s.rest with
  | [] => some (eof_token, { s with consumed := none :: s.consumed })
  | t :: r =>
    some (t, { s with
      consumed := some t :: s.consumed
      rest := r
      fline := t.start.line
      stmtindent :=
        if t.start.line = (current_token s).start.line then s.stmtindent else t.start.col })

/-- The source's `lex(&val, &st)`: the token read carries kind, value and string. -/
def lex : P token_t := lextok

/-- Modelled from the spec: `lexpush()` pushes the most recent token back, so
that `lexpush` followed by `lex` returns the same token. -/
def lexpush : P Unit := modify fun s =>
  match s.consumed with
  | [] => s
  | none :: c => { s with consumed := c }
  | some t :: c => { s with consumed := c, rest := t :: s.rest }

/-- Modelled from the spec: `lexpeek(kind)` tests the next token without
consuming it. -/
def lexpeek (kind : TokenKind) : P Bool := do
  let tok ← lextok
  lexpush
  return decide (tok.id = kind)

/-- Modelled from the spec: `matchtoken(kind)` consumes the next token when it
has the given kind and pushes it back otherwise. For `tTERM` it consumes a
semicolon (or the end-of-expression mark), and where semicolons are optional a
line break or the end of input stands for the terminator, consuming no token. -/
def matchtoken (kind : TokenKind) : P Bool := do
  let s ← get
  let tok ← lextok
  if tok.id = kind then
    return true
  else if kind = TokenKind.tTERM ∧
      (tok.id = TokenKind.ch_semicolon ∨ tok.id = TokenKind.tENDEXPR) then
    return true
  else if kind = TokenKind.tTERM ∧ s.sc_needsemicolon = false ∧
      (s.rest.isEmpty = true ∨ tok.start.line ≠ (current_token s).start.line) then
    lexpush
    return true
  else
    lexpush
    return false

/-- Modelled from the spec: `needtoken(kind)` is `matchtoken` that reports the
missing-token error (number 1) on a miss. -/
def needtoken (kind : TokenKind) : P Bool := do
  if (← matchtoken kind) then
    return true
  else
    error 1
    return false

/-- Modelled from the spec: `matchsymbol(&ident)` consumes an identifier when
one is next and yields its name. -/
def matchsymbol : P (Option String) := do
  if (← matchtoken TokenKind.tSYMBOL) then
    return some (current_token (← get)).str
  else
    return none

/-- Modelled from the spec: `needsymbol(&ident)` is `matchsymbol` that reports
the missing-token error on a miss. -/
def needsymbol : P (Option String) := do
  if (← needtoken TokenKind.tSYMBOL) then
    return some (current_token (← get)).str
  else
    return none

/-- Modelled from the spec: `lexclr(clreol)` clears the push-back of `lex`
(nothing to do in the zipper, where `needtoken` has consumed or restored the
token) and, with `clreol` set, drops the rest of the current line. -/
def lexclr (clreol : Bool) : P Unit := modify fun s =>
  if clreol then
    { s with rest := s.rest.dropWhile fun t => decide (t.start.line = s.fline) }
  else s

/-- Modelled from the spec: `nextop(&opidx, opstr)` looks for the next token in
the operator table and consumes it; the result is the index of the operator
found, `none` for the source's return value 0. -/
def nextop_from (idx : Nat) : List TokenKind → P (Option Nat)
  | [] => pure none
  | op :: ops => do
    if (← matchtoken op) then
      return some idx
    else
      nextop_from (idx + 1) ops

/-- The source's `nextop`, counting from index 0. -/
def nextop (opstr : List TokenKind) : P (Option Nat) := nextop_from 0 opstr

/-- The scoped guard `ke::SaveAndSet<bool>`: run `body` with the flag set to
`v` and put the old value back when the scope is left. -/
def SaveAndSet {α : Type} (getf : ParserState → Bool)
    (setf : Bool → ParserState → ParserState) (v : Bool) (body : P α) : P α := fun s =>
  match body (setf v s) with
  | none => none
  | some (a, s') => some (a, setf (getf s) s')

/-- Writes `sc_intest`. -/
def set_sc_intest (v : Bool) (s : ParserState) : ParserState := { s with sc_intest := v }
/-- Writes `sc_allowtags`. -/
def set_sc_allowtags (v : Bool) (s : ParserState) : ParserState := { s with sc_allowtags := v }
/-- Writes `in_loop_`. -/
def set_in_loop (v : Bool) (s : ParserState) : ParserState := { s with in_loop_ := v }
/-- Writes `sc_one_error_per_statement`. -/
def set_one_error (v : Bool) (s : ParserState) : ParserState :=
  { s with sc_one_error_per_statement := v }

/-- The operator tables `list3` .. `list12` of the binary levels (declared
outside the sources at hand, hence a parameter). -/
structure OpLists where
  list3 : List TokenKind
  list4 : List TokenKind
  list5 : List TokenKind
  list6 : List TokenKind
  list7 : List TokenKind
  list8 : List TokenKind
  list9 : List TokenKind
  list10 : List TokenKind
  list11 : List TokenKind
  list12 : List TokenKind

/-- Modelled from the spec: the type reference of a declarator (declared in
`sc.h`): tag id, ident kind, constness and newness flags, post-dims flag,
dimension count with the constant extents and index tags, and the optional
per-dimension extent expressions. -/
structure typeinfo_t where
  tag : Int
  ident : Nat
  is_const : Bool
  is_new : Bool
  has_postdims : Bool
  numdim : Nat
  dim : List Int
  idxtag : List Int
  dim_exprs : Option (List (Option Expr))
  deriving DecidableEq, Repr

/-- Modelled from the spec: a declarator in progress (declared in `sc.h`):
name, type reference and the operator-token slot (`tEOF`, the value 0, when
the declarator is no operator overload). -/
structure declinfo_t where
  name : String
  type : typeinfo_t
  opertok : TokenKind
  deriving DecidableEq, Repr

/-- The zero-initialised `typeinfo_t` of `typeinfo_t type = {}`. -/
def typeinfo_zero : typeinfo_t := ⟨0, 0, false, false, false, 0, [], [], none⟩

/-- The zero-initialised `declinfo_t` of `declinfo_t decl = {}`. -/
def declinfo_zero : declinfo_t := ⟨"", typeinfo_zero, TokenKind.tEOF⟩

/-- The `DECLFLAG_*` bits handed to the declarator parser. -/
inductive DeclFlag where
  | MAYBE_FUNCTION | VARIABLE | ENUMROOT | OLD | NEW | FIELD | ARGUMENT
  deriving DecidableEq, Repr

/-- Collaborators of the parser that are defined outside `new-parser.cpp`; each
is a total function on the parser state. `parse_new_typename tok` is the
two-argument overload (result flag and the tag it stores, starting from 0),
`parse_new_typename1` the overload that returns the tag; `exprconst` yields the
result flag, the value and the tag; `cell_bits` is the bit width of a `cell`. -/
structure Externals where
  parse_new_typename : Option token_t → ParserState → (Bool × Int) × ParserState
  parse_new_typename1 : token_t → ParserState → Int × ParserState
  pc_addtag : String → Int
  parse_decl : declinfo_t → List DeclFlag → ParserState → (Bool × declinfo_t) × ParserState
  reparse_new_decl : declinfo_t → List DeclFlag → ParserState → declinfo_t × ParserState
  reparse_old_decl : declinfo_t → List DeclFlag → ParserState → declinfo_t × ParserState
  exprconst : ParserState → (Bool × Int × Int) × ParserState
  cell_bits : Nat

/-- Runs a total collaborator as a production. -/
def liftE {α : Type} (f : ParserState → α × ParserState) : P α := fun s => some (f s)

/-! ## Expression grammar -/

/-- The loop of `plnge`: `do { ... } while (nextop(&opidx, opstr))`, entered
with the operator at `opidx` already consumed. -/
def plnge_loop (opstr : List TokenKind) (hier : P Expr) : Nat → Expr → Nat → P Expr
  | 0, _, _ => failure
  | fuel + 1, node, opidx => do
    let pos ← current_pos
    let right ← hier
    let token := opstr.getD opidx TokenKind.tEOF
    let node :=
      if token = TokenKind.tlOR ∨ token = TokenKind.tlAND then
        Expr.LogicalExpr pos token node right
      else
        Expr.BinaryExpr pos token node right
    match (← nextop opstr) with
    | some opidx => plnge_loop opstr hier fuel node opidx
    | none => return node

/-- The source's `Parser::plnge(opstr, hier)`. -/
def plnge (opstr : List TokenKind) (hier : P Expr) (fuel : Nat) : P Expr := do
  let node ← hier
  match (← nextop opstr) with
  | none => return node
  | some opidx => plnge_loop opstr hier fuel node opidx

/-- The loop of `plnge_rel`, collecting the `CompareOp`s pushed onto the chain. -/
def plnge_rel_loop (opstr : List TokenKind) (hier : P Expr) :
    Nat → List (token_pos_t × TokenKind × Expr) → Nat →
      P (List (token_pos_t × TokenKind × Expr))
  | 0, _, _ => failure
  | fuel + 1, ops, opidx => do
    let pos ← current_pos
    let right ← hier
    let ops := ops ++ [(pos, opstr.getD opidx TokenKind.tEOF, right)]
    match (← nextop opstr) with
    | some opidx => plnge_rel_loop opstr hier fuel ops opidx
    | none => return ops

/-- The source's `Parser::plnge_rel(opstr, hier)`. -/
def plnge_rel (opstr : List TokenKind) (hier : P Expr) (fuel : Nat) : P Expr := do
  let first ← hier
  match (← nextop opstr) with
  | none => return first
  | some opidx =>
    let chainpos ← current_pos
    let ops ← plnge_rel_loop opstr hier fuel [] opidx
    return Expr.ChainedCompareExpr chainpos first ops

/-- The loop `while (matchtoken(tok)) count++`. -/
def count_matches (tok : TokenKind) : Nat → Nat → P Nat
  | 0, _ => failure
  | fuel + 1, count => do
    if (← matchtoken tok) then count_matches tok fuel (count + 1) else return count

/-- The loop `while (parens--) needtoken(')')`. -/
def close_parens : Nat → P Unit
  | 0 => return ()
  | parens + 1 => do
    let _ ← needtoken TokenKind.ch_rparen
    close_parens parens

/-- The loop `while (matchtoken('[')) { array_levels++; needtoken(']'); }`. -/
def sizeof_levels : Nat → Nat → P Nat
  | 0, _ => failure
  | fuel + 1, levels => do
    if (← matchtoken TokenKind.ch_lbracket) then
      let _ ← needtoken TokenKind.ch_rbracket
      sizeof_levels fuel (levels + 1)
    else return levels

/-- The assignment operators `hier14` accepts. -/
def assign_ops : List TokenKind :=
  [TokenKind.taOR, TokenKind.taXOR, TokenKind.taAND, TokenKind.taADD, TokenKind.taSUB,
   TokenKind.taMULT, TokenKind.taDIV, TokenKind.taMOD, TokenKind.taSHRU, TokenKind.taSHR,
   TokenKind.taSHL]

/-! The productions below `hier14` reach `hier14` again for the expressions
nested in them (parenthesised expressions, indices, call arguments, array
literals). They take that production as the parameter `h14`; `hier14` ties the
knot. -/

/-- The array-literal loop of `constant`; the flag tells whether the ellipsis
was seen. -/
def constant_loop (h14 : P Expr) : Nat → List Expr → P (List Expr × Bool)
  | 0, _ => failure
  | fuel + 1, exprs => do
    if (← matchtoken TokenKind.tELLIPS) then
      return (exprs, true)
    else
      let child ← h14
      let exprs := exprs ++ [child]
      if (← matchtoken TokenKind.ch_comma) then constant_loop h14 fuel exprs
      else return (exprs, false)

/-- The source's `Parser::constant`. -/
def constant (h14 : P Expr) (fuel : Nat) : P Expr := do
  let tok ← lex
  let pos ← current_pos
  if tok.id = TokenKind.tNULL then
    return Expr.NullExpr pos
  else if tok.id = TokenKind.tNUMBER then
    return Expr.NumberExpr pos tok.value
  else if tok.id = TokenKind.tRATIONAL then
    return Expr.FloatExpr pos tok.value
  else if tok.id = TokenKind.tSTRING then
    return Expr.StringExpr pos (current_token (← get)).str
  else if tok.id = TokenKind.ch_lbrace then
    let (exprs, ellipses) ← constant_loop h14 fuel []
    if !(← needtoken TokenKind.ch_rbrace) then lexclr false
    return Expr.ArrayExpr pos exprs ellipses
  else
    error 29
    return Expr.ErrorExpr

/-- The argument loop of `parse_call`, carrying `named_params` and the
arguments collected so far. -/
def parse_call_loop (h14 : P Expr) :
    Nat → Bool → List (Option String × Option Expr) →
      P (List (Option String × Option Expr))
  | 0, _, _ => failure
  | fuel + 1, named_params, args => do
    let body : Bool → Option String → P (List (Option String × Option Expr)) :=
      fun named_params name => do
        let expr ← (do
          if (← matchtoken TokenKind.ch_underscore) then return none
          else return some (← h14))
        let args := args ++ [(name, expr)]
        if (← matchtoken TokenKind.ch_rparen) then
          return args
        else if !(← needtoken TokenKind.ch_comma) then
          return args
        else if (← freading) then
          if (← matchtoken TokenKind.tENDEXPR) then return args
          else parse_call_loop h14 fuel named_params args
        else
          return args
    if (← matchtoken TokenKind.ch_dot) then
      match (← needsymbol) with
      | none => return args
      | some ident =>
        let _ ← needtoken TokenKind.ch_assign
        body true (some ident)
    else
      if named_params then error 44
      body named_params none

/-- The source's `Parser::parse_call`, entered after the opening parenthesis. -/
def parse_call (h14 : P Expr) (fuel : Nat) (pos : token_pos_t) (tok : TokenKind)
    (target : Expr) : P Expr := do
  if (← matchtoken TokenKind.ch_rparen) then
    return Expr.CallExpr pos tok target []
  else
    let args ← parse_call_loop h14 fuel false []
    return Expr.CallExpr pos tok target args

/-- The source's `Parser::parse_view_as`, entered after `view_as`. -/
def parse_view_as (E : Externals) (h14 : P Expr) : P Expr := do
  let pos ← current_pos
  let _ ← needtoken TokenKind.ch_lt
  let tok ← lextok
  let (ok, tag) ← liftE (E.parse_new_typename (some tok))
  let tag := if ok then tag else 0
  let _ ← needtoken TokenKind.ch_gt
  let paren ← needtoken TokenKind.ch_lparen
  let expr ← h14
  if paren then
    let _ ← needtoken TokenKind.ch_rparen
  else
    let _ ← matchtoken TokenKind.ch_rparen
  return Expr.CastExpr pos TokenKind.tVIEW_AS tag expr

/-- The dimension loop of `parse_new_array`. -/
def parse_new_array_loop (h14 : P Expr) : Nat → List Expr → P (List Expr)
  | 0, _ => failure
  | fuel + 1, exprs => do
    let child ← h14
    let exprs := exprs ++ [child]
    let _ ← needtoken TokenKind.ch_rbracket
    if (← matchtoken TokenKind.ch_lbracket) then parse_new_array_loop h14 fuel exprs
    else return exprs

/-- The source's `Parser::parse_new_array`, entered after the first `[`. -/
def parse_new_array (h14 : P Expr) (fuel : Nat) (pos : token_pos_t) (tag : Int) : P Expr := do
  let exprs ← parse_new_array_loop h14 fuel []
  return Expr.NewArrayExpr pos tag exprs

/-- The `do { ... } while (matchtoken(','))` loop of `primary`. -/
def primary_loop (h14 : P Expr) : Nat → List Expr → P (List Expr)
  | 0, _ => failure
  | fuel + 1, exprs => do
    let child ← h14
    let exprs := exprs ++ [child]
    if (← matchtoken TokenKind.ch_comma) then primary_loop h14 fuel exprs
    else return exprs

/-- The source's `Parser::primary`. -/
def primary (h14 : P Expr) (fuel : Nat) : P Expr := do
  if (← matchtoken TokenKind.ch_lparen) then
    SaveAndSet (·.sc_intest) set_sc_intest false
      (SaveAndSet (·.sc_allowtags) set_sc_allowtags true (do
        let pos ← current_pos
        let exprs ← primary_loop h14 fuel []
        let _ ← needtoken TokenKind.ch_rparen
        lexclr false
        return Expr.CommaExpr pos exprs))
  else
    let tok ← lex
    if tok.id = TokenKind.tTHIS then
      return Expr.ThisExpr (← current_pos)
    else if tok.id = TokenKind.tSYMBOL then
      return Expr.SymbolExpr (← current_pos) tok.str
    else
      lexpush
      constant h14 fuel

/-- The `for (;;)` loop of `hier1`. -/
def hier1_loop (h14 : P Expr) : Nat → Expr → P Expr
  | 0, _ => failure
  | fuel + 1, base => do
    let tok ← lex
    if tok.id = TokenKind.ch_dot ∨ tok.id = TokenKind.tDBLCOLON then
      let pos ← current_pos
      match (← needsymbol) with
      | none => return base
      | some ident => hier1_loop h14 fuel (Expr.FieldAccessExpr pos tok.id base ident)
    else if tok.id = TokenKind.ch_lbracket then
      let pos ← current_pos
      let inner ← h14
      let base := Expr.IndexExpr pos base inner
      let _ ← needtoken TokenKind.ch_rbracket
      hier1_loop h14 fuel base
    else if tok.id = TokenKind.ch_lparen then
      let pos ← current_pos
      let base ← parse_call h14 fuel pos tok.id base
      hier1_loop h14 fuel base
    else
      lexpush
      return base

/-- The source's `Parser::hier1`: a primary or `view_as`, then the postfix chain. -/
def hier1 (E : Externals) (h14 : P Expr) (fuel : Nat) : P Expr := do
  let base ← (do
    if (← matchtoken TokenKind.tVIEW_AS) then parse_view_as E h14
    else primary h14 fuel)
  hier1_loop h14 fuel base

/-- The source's `Parser::hier2`: prefix operators, `new`, tag casts,
`defined`, `sizeof`, and the postfix `++`/`--` after a level-1 operand. -/
def hier2 (E : Externals) (h14 : P Expr) : Nat → P Expr
  | 0 => failure
  | fuel + 1 => do
    let tok ← lex
    let pos ← current_pos
    if tok.id = TokenKind.tINC ∨ tok.id = TokenKind.tDEC then
      let node ← hier2 E h14 fuel
      return Expr.PreIncExpr pos tok.id node
    else if tok.id = TokenKind.ch_tilde ∨ tok.id = TokenKind.ch_minus ∨
        tok.id = TokenKind.ch_excl then
      let node ← hier2 E h14 fuel
      return Expr.UnaryExpr pos tok.id node
    else if tok.id = TokenKind.tNEW then
      let new_array : P Expr := do
        let (_, tag) ← liftE (E.parse_new_typename none)
        if (← needtoken TokenKind.ch_lbracket) then
          parse_new_array h14 fuel pos tag
        else
          return Expr.ErrorExpr
      match (← matchsymbol) with
      | some ident =>
        if (← matchtoken TokenKind.ch_lparen) then
          let target := Expr.SymbolExpr (← current_pos) ident
          parse_call h14 fuel pos tok.id target
        else
          lexpush
          new_array
      | none => new_array
    else if tok.id = TokenKind.tLABEL then
      let tag := E.pc_addtag tok.str
      if (← get).sc_require_newdecls then error 240
      let expr ← hier2 E h14 fuel
      return Expr.CastExpr pos tok.id tag expr
    else if tok.id = TokenKind.tDEFINED then
      let parens ← count_matches TokenKind.ch_lparen fuel 0
      match (← needsymbol) with
      | none => return Expr.ErrorExpr
      | some ident =>
        close_parens parens
        return Expr.IsDefinedExpr pos ident
    else if tok.id = TokenKind.tSIZEOF then
      let parens ← count_matches TokenKind.ch_lparen fuel 0
      let ident ← (do
        if (← matchtoken TokenKind.tTHIS) then return some "this" else needsymbol)
      match ident with
      | none => return Expr.ErrorExpr
      | some ident =>
        let array_levels ← sizeof_levels fuel 0
        let token ← lex
        if token.id = TokenKind.tDBLCOLON ∨ token.id = TokenKind.ch_dot then
          match (← needsymbol) with
          | none => return Expr.ErrorExpr
          | some field_name =>
            close_parens parens
            return Expr.SizeofExpr pos ident (some field_name) token.id array_levels
        else
          lexpush
          close_parens parens
          return Expr.SizeofExpr pos ident none TokenKind.tEOF array_levels
    else
      lexpush
      let node ← hier1 E h14 fuel
      if (← matchtoken TokenKind.ch_semicolon) then
        lexpush
        return node
      else if (← matchtoken TokenKind.tTERM) then
        return node
      else
        let tok ← lex
        if tok.id = TokenKind.tINC ∨ tok.id = TokenKind.tDEC then
          return Expr.PostIncExpr (← current_pos) tok.id node
        else
          lexpush
          return node

/-- The source's `Parser::hier3`. -/
def hier3 (L : OpLists) (E : Externals) (h14 : P Expr) (fuel : Nat) : P Expr :=
  plnge L.list3 (hier2 E h14 fuel) fuel

/-- The source's `Parser::hier4`. -/
def hier4 (L : OpLists) (E : Externals) (h14 : P Expr) (fuel : Nat) : P Expr :=
  plnge L.list4 (hier3 L E h14 fuel) fuel

/-- The source's `Parser::hier5`. -/
def hier5 (L : OpLists) (E : Externals) (h14 : P Expr) (fuel : Nat) : P Expr :=
  plnge L.list5 (hier4 L E h14 fuel) fuel

/-- The source's `Parser::hier6`. -/
def hier6 (L : OpLists) (E : Externals) (h14 : P Expr) (fuel : Nat) : P Expr :=
  plnge L.list6 (hier5 L E h14 fuel) fuel

/-- The source's `Parser::hier7`. -/
def hier7 (L : OpLists) (E : Externals) (h14 : P Expr) (fuel : Nat) : P Expr :=
  plnge L.list7 (hier6 L E h14 fuel) fuel

/-- The source's `Parser::hier8`. -/
def hier8 (L : OpLists) (E : Externals) (h14 : P Expr) (fuel : Nat) : P Expr :=
  plnge L.list8 (hier7 L E h14 fuel) fuel

/-- The source's `Parser::hier9`, the level built with `plnge_rel`. -/
def hier9 (L : OpLists) (E : Externals) (h14 : P Expr) (fuel : Nat) : P Expr :=
  plnge_rel L.list9 (hier8 L E h14 fuel) fuel

/-- The source's `Parser::hier10`. -/
def hier10 (L : OpLists) (E : Externals) (h14 : P Expr) (fuel : Nat) : P Expr :=
  plnge L.list10 (hier9 L E h14 fuel) fuel

/-- The source's `Parser::hier11`. -/
def hier11 (L : OpLists) (E : Externals) (h14 : P Expr) (fuel : Nat) : P Expr :=
  plnge L.list11 (hier10 L E h14 fuel) fuel

/-- The source's `Parser::hier12`. -/
def hier12 (L : OpLists) (E : Externals) (h14 : P Expr) (fuel : Nat) : P Expr :=
  plnge L.list12 (hier11 L E h14 fuel) fuel

/-- The source's `Parser::hier13`: the ternary operator. -/
def hier13 (L : OpLists) (E : Externals) (h14 : P Expr) : Nat → P Expr
  | 0 => failure
  | fuel + 1 => do
    let node ← hier12 L E h14 fuel
    if (← matchtoken TokenKind.ch_question) then
      let pos ← current_pos
      let left ← SaveAndSet (·.sc_allowtags) set_sc_allowtags false (hier13 L E h14 fuel)
      let _ ← needtoken TokenKind.ch_colon
      let right ← hier13 L E h14 fuel
      return Expr.TernaryExpr pos node left right
    else
      return node

/-- The source's `Parser::hier14`: assignment, right-associative. -/
def hier14 (L : OpLists) (E : Externals) : Nat → P Expr
  | 0 => failure
  | fuel + 1 => do
    let node ← hier13 L E (hier14 L E fuel) fuel
    let tok ← lex
    let pos ← current_pos
    if tok.id ∈ assign_ops then
      let right ← hier14 L E fuel
      return Expr.BinaryExpr pos tok.id node right
    else if tok.id = TokenKind.ch_assign then
      if (← get).sc_intest then error 211
      let right ← hier14 L E fuel
      return Expr.BinaryExpr pos tok.id node right
    else
      lexpush
      return node

/-! ## Statement grammar -/

/-- Storage classes handed to the declaration productions. -/
inductive StorageClass where
  | sGLOBAL | sLOCAL | sSTATIC
  deriving DecidableEq, Repr

/-- The function type descriptor that `parse_function_type` returns (the type is
declared outside the sources at hand); the parser only stores it. -/
structure TypedefInfo where
  id : Nat
  deriving DecidableEq, Repr

/-- Statement and declaration nodes built by the parser. An `Expr*` that the
parser never leaves null is an `Expr`; one that may be null is an
`Option Expr`. A `SwitchStmt` holds its cases as pairs of the label list and the
statement; an `EnumDecl` holds its fields as triples position, name, value, a
`PstructDecl` as triples position, name, type. -/
inductive Stmt where
  | StmtList (pos : token_pos_t) (stmts : List Stmt)
  | BlockStmt (pos : token_pos_t) (stmts : List Stmt)
  | ExprStmt (pos : token_pos_t) (expr : Expr)
  | IfStmt (pos : token_pos_t) (cond : Expr) (on_true : Stmt) (on_false : Option Stmt)
  | DoWhileStmt (pos : token_pos_t) (tok : TokenKind) (cond : Expr) (body : Stmt)
  | ForStmt (pos : token_pos_t) (init : Option Stmt) (cond advance : Option Expr) (body : Stmt)
  | SwitchStmt (pos : token_pos_t) (cond : Expr) (cases : List (List Expr × Stmt))
      (default_case : Option Stmt)
  | LoopControlStmt (pos : token_pos_t) (tok : TokenKind)
  | ReturnStmt (pos : token_pos_t) (expr : Option Expr)
  | AssertStmt (pos : token_pos_t) (expr : Expr)
  | DeleteStmt (pos : token_pos_t) (expr : Expr)
  | ExitStmt (pos : token_pos_t) (expr : Option Expr)
  | VarDecl (pos : token_pos_t) (name : String) (type : typeinfo_t) (vclass : StorageClass)
      (is_public is_static is_stock : Bool) (init : Option Expr) (autozero : Bool)
  | ConstDecl (pos : token_pos_t) (name : String) (type : typeinfo_t) (vclass : StorageClass)
      (expr_tag expr_val : Int)
  | EnumDecl (pos : token_pos_t) (vclass : StorageClass) (label name : Option String)
      (increment multiplier : Int) (fields : List (token_pos_t × String × Option Expr))
  | StaticAssertStmt (pos : token_pos_t) (val : Int) (text : Option String)
  | PstructDecl (pos : token_pos_t) (name : String)
      (fields : List (token_pos_t × String × typeinfo_t))
  | TypedefDecl (pos : token_pos_t) (name : String) (type : TypedefInfo)
  | TypesetDecl (pos : token_pos_t) (name : String) (types : List TypedefInfo)
  | UsingDecl (pos : token_pos_t)
  | ErrorDecl
  deriving Repr

/-! ### Decidable equality of statements -/

/-- A first-order code for statement trees, used to decide their equality. -/
inductive StmtCode where
  | P (p : token_pos_t)
  | E (e : Expr)
  | OE (e : Option Expr)
  | ES (es : List Expr)
  | T (t : typeinfo_t)
  | K (k : TokenKind)
  | S (s : String)
  | OS (s : Option String)
  | I (i : Int)
  | B (b : Bool)
  | C (c : StorageClass)
  | F (fields : List (token_pos_t × String × Option Expr))
  | SF (fields : List (token_pos_t × String × typeinfo_t))
  | TS (types : List TypedefInfo)
  | nil
  | cons (a b : StmtCode)
  deriving DecidableEq

mutual
/-- Code of a statement. -/
def Stmt.encode : Stmt → StmtCode
  | .StmtList p ss => .cons (.I 0) (.cons (.P p) (Stmt.encodeList ss))
  | .BlockStmt p ss => .cons (.I 1) (.cons (.P p) (Stmt.encodeList ss))
  | .ExprStmt p e => .cons (.I 2) (.cons (.P p) (.E e))
  | .IfStmt p c t f => .cons (.I 3) (.cons (.P p) (.cons (.E c) (.cons t.encode (Stmt.encodeOpt f))))
  | .DoWhileStmt p k c b => .cons (.I 4) (.cons (.P p) (.cons (.K k) (.cons (.E c) b.encode)))
  | .ForStmt p i c a b =>
    .cons (.I 5) (.cons (.P p) (.cons (Stmt.encodeOpt i) (.cons (.OE c) (.cons (.OE a) b.encode))))
  | .SwitchStmt p c cs d =>
    .cons (.I 6) (.cons (.P p) (.cons (.E c) (.cons (Stmt.encodeCases cs) (Stmt.encodeOpt d))))
  | .LoopControlStmt p k => .cons (.I 7) (.cons (.P p) (.K k))
  | .ReturnStmt p e => .cons (.I 8) (.cons (.P p) (.OE e))
  | .AssertStmt p e => .cons (.I 9) (.cons (.P p) (.E e))
  | .DeleteStmt p e => .cons (.I 10) (.cons (.P p) (.E e))
  | .ExitStmt p e => .cons (.I 11) (.cons (.P p) (.OE e))
  | .VarDecl p n t c pu st sk i az =>
    .cons (.I 12) (.cons (.P p) (.cons (.S n) (.cons (.T t) (.cons (.C c)
      (.cons (.B pu) (.cons (.B st) (.cons (.B sk) (.cons (.OE i) (.B az)))))))))
  | .ConstDecl p n t c g v =>
    .cons (.I 13) (.cons (.P p) (.cons (.S n) (.cons (.T t) (.cons (.C c)
      (.cons (.I g) (.I v))))))
  | .EnumDecl p c l n i m fs =>
    .cons (.I 14) (.cons (.P p) (.cons (.C c) (.cons (.OS l) (.cons (.OS n)
      (.cons (.I i) (.cons (.I m) (.F fs)))))))
  | .StaticAssertStmt p v t => .cons (.I 15) (.cons (.P p) (.cons (.I v) (.OS t)))
  | .PstructDecl p n fs => .cons (.I 16) (.cons (.P p) (.cons (.S n) (.SF fs)))
  | .TypedefDecl p n t => .cons (.I 17) (.cons (.P p) (.cons (.S n) (.TS [t])))
  | .TypesetDecl p n ts => .cons (.I 18) (.cons (.P p) (.cons (.S n) (.TS ts)))
  | .UsingDecl p => .cons (.I 19) (.P p)
  | .ErrorDecl => .cons (.I 20) .nil
/-- Code of an optional statement. -/
def Stmt.encodeOpt : Option Stmt → StmtCode
  | none => .nil
  | some st => .cons (.I 0) st.encode
/-- Code of a list of statements. -/
def Stmt.encodeList : List Stmt → StmtCode
  | [] => .nil
  | st :: ss => .cons st.encode (Stmt.encodeList ss)
/-- Code of the cases of a switch. -/
def Stmt.encodeCases : List (List Expr × Stmt) → StmtCode
  | [] => .nil
  | (es, st) :: cs => .cons (.cons (.ES es) st.encode) (Stmt.encodeCases cs)
end

set_option maxHeartbeats 4000000 in
mutual
theorem Stmt.encode_stmt_inj : ∀ (a b : Stmt), a.encode = b.encode → a = b
  | .StmtList p ss, b, h => by
    cases b <;> simp [Stmt.encode] at h
    rw [h.1, Stmt.encodeStmts_inj _ _ h.2]
  | .BlockStmt p ss, b, h => by
    cases b <;> simp [Stmt.encode] at h
    rw [h.1, Stmt.encodeStmts_inj _ _ h.2]
  | .ExprStmt p e, b, h => by
    cases b <;> simp [Stmt.encode] at h
    rw [h.1, h.2]
  | .IfStmt p c t f, b, h => by
    cases b <;> simp [Stmt.encode] at h
    rw [h.1, h.2.1, Stmt.encode_stmt_inj _ _ h.2.2.1, Stmt.encodeOpt_inj _ _ h.2.2.2]
  | .DoWhileStmt p k c t, b, h => by
    cases b <;> simp [Stmt.encode] at h
    rw [h.1, h.2.1, h.2.2.1, Stmt.encode_stmt_inj _ _ h.2.2.2]
  | .ForStmt p i c a t, b, h => by
    cases b <;> simp [Stmt.encode] at h
    rw [h.1, Stmt.encodeOpt_inj _ _ h.2.1, h.2.2.1, h.2.2.2.1, Stmt.encode_stmt_inj _ _ h.2.2.2.2]
  | .SwitchStmt p c cs d, b, h => by
    cases b <;> simp [Stmt.encode] at h
    rw [h.1, h.2.1, Stmt.encodeCases_inj _ _ h.2.2.1, Stmt.encodeOpt_inj _ _ h.2.2.2]
  | .LoopControlStmt p k, b, h => by
    cases b <;> simp [Stmt.encode] at h
    rw [h.1, h.2]
  | .ReturnStmt p e, b, h => by
    cases b <;> simp [Stmt.encode] at h
    rw [h.1, h.2]
  | .AssertStmt p e, b, h => by
    cases b <;> simp [Stmt.encode] at h
    rw [h.1, h.2]
  | .DeleteStmt p e, b, h => by
    cases b <;> simp [Stmt.encode] at h
    rw [h.1, h.2]
  | .ExitStmt p e, b, h => by
    cases b <;> simp [Stmt.encode] at h
    rw [h.1, h.2]
  | .VarDecl p n t c pu st sk i az, b, h => by
    cases b <;> simp [Stmt.encode] at h
    obtain ⟨rfl, rfl, rfl, rfl, rfl, rfl, rfl, rfl, rfl⟩ := h
    rfl
  | .ConstDecl p n t c g v, b, h => by
    cases b <;> simp [Stmt.encode] at h
    obtain ⟨rfl, rfl, rfl, rfl, rfl, rfl⟩ := h
    rfl
  | .EnumDecl p c l n i m fs, b, h => by
    cases b <;> simp [Stmt.encode] at h
    obtain ⟨rfl, rfl, rfl, rfl, rfl, rfl, rfl⟩ := h
    rfl
  | .StaticAssertStmt p v t, b, h => by
    cases b <;> simp [Stmt.encode] at h
    obtain ⟨rfl, rfl, rfl⟩ := h
    rfl
  | .PstructDecl p n fs, b, h => by
    cases b <;> simp [Stmt.encode] at h
    obtain ⟨rfl, rfl, rfl⟩ := h
    rfl
  | .TypedefDecl p n t, b, h => by
    cases b <;> simp [Stmt.encode] at h
    obtain ⟨rfl, rfl, rfl⟩ := h
    rfl
  | .TypesetDecl p n ts, b, h => by
    cases b <;> simp [Stmt.encode] at h
    obtain ⟨rfl, rfl, rfl⟩ := h
    rfl
  | .UsingDecl p, b, h => by
    cases b <;> simp [Stmt.encode] at h
    rw [h]
  | .ErrorDecl, b, h => by
    cases b <;> simp [Stmt.encode] at h
    rfl
theorem Stmt.encodeOpt_inj :
    ∀ (a b : Option Stmt), Stmt.encodeOpt a = Stmt.encodeOpt b → a = b
  | none, none, _ => rfl
  | none, some _, h => by simp [Stmt.encodeOpt] at h
  | some _, none, h => by simp [Stmt.encodeOpt] at h
  | some a, some b, h => by
    simp only [Stmt.encodeOpt, StmtCode.cons.injEq, true_and] at h
    rw [Stmt.encode_stmt_inj a b h]
theorem Stmt.encodeStmts_inj : ∀ (a b : List Stmt), Stmt.encodeList a = Stmt.encodeList b → a = b
  | [], [], _ => rfl
  | [], _ :: _, h => by simp [Stmt.encodeList] at h
  | _ :: _, [], h => by simp [Stmt.encodeList] at h
  | a :: as, b :: bs, h => by
    simp only [Stmt.encodeList, StmtCode.cons.injEq] at h
    rw [Stmt.encode_stmt_inj a b h.1, Stmt.encodeStmts_inj as bs h.2]
theorem Stmt.encodeCases_inj :
    ∀ (a b : List (List Expr × Stmt)), Stmt.encodeCases a = Stmt.encodeCases b → a = b
  | [], [], _ => rfl
  | [], _ :: _, h => by simp [Stmt.encodeCases] at h
  | _ :: _, [], h => by simp [Stmt.encodeCases] at h
  | (es, a) :: as, (fs, b) :: bs, h => by
    simp only [Stmt.encodeCases, StmtCode.cons.injEq, StmtCode.ES.injEq] at h
    rw [h.1.1, Stmt.encode_stmt_inj a b h.1.2, Stmt.encodeCases_inj as bs h.2]
end

/-- Equality of statements is decidable: compare the codes. -/
instance : DecidableEq Stmt := fun a b =>
  decidable_of_iff (a.encode = b.encode) ⟨Stmt.encode_stmt_inj a b, fun h => by rw [h]⟩

/-- The `pos()` accessor of an expression node; an `ErrorExpr` is built without
a position. -/
def Expr.pos : Expr → token_pos_t
  | .ErrorExpr => ⟨0, 0⟩
  | .NullExpr p | .NumberExpr p _ | .FloatExpr p _ | .StringExpr p _ | .ThisExpr p
  | .SymbolExpr p _ | .ArrayExpr p _ _ | .StructExpr p _ | .NewArrayExpr p _ _
  | .CommaExpr p _ | .UnaryExpr p _ _ | .PreIncExpr p _ _ | .PostIncExpr p _ _
  | .BinaryExpr p _ _ _ | .LogicalExpr p _ _ _ | .TernaryExpr p _ _ _
  | .ChainedCompareExpr p _ _ | .CastExpr p _ _ _ | .SizeofExpr p _ _ _ _
  | .IsDefinedExpr p _ | .FieldAccessExpr p _ _ _ | .IndexExpr p _ _ | .CallExpr p _ _ _ => p

/-- The `pos()` accessor of a statement node; an `ErrorDecl` is built without a
position. -/
def Stmt.pos : Stmt → token_pos_t
  | .ErrorDecl => ⟨0, 0⟩
  | .StmtList p _ | .BlockStmt p _ | .ExprStmt p _ | .IfStmt p _ _ _ | .DoWhileStmt p _ _ _
  | .ForStmt p _ _ _ _ | .SwitchStmt p _ _ _ | .LoopControlStmt p _ | .ReturnStmt p _
  | .AssertStmt p _ | .DeleteStmt p _ | .ExitStmt p _ | .VarDecl p _ _ _ _ _ _ _ _
  | .ConstDecl p _ _ _ _ _ | .EnumDecl p _ _ _ _ _ _ | .StaticAssertStmt p _ _
  | .PstructDecl p _ _ | .TypedefDecl p _ _ | .TypesetDecl p _ _ | .UsingDecl p => p

/-- The list loop of `var_init`; `vi` parses one element, the flag tells whether
the ellipsis was seen. -/
def var_init_loop (vi : P Expr) : Nat → List Expr → P (List Expr × Bool)
  | 0, _ => failure
  | fuel + 1, exprs => do
    if (← lexpeek TokenKind.ch_rbrace) then
      return (exprs, false)
    else if (← matchtoken TokenKind.tELLIPS) then
      return (exprs, true)
    else
      let child ← vi
      let exprs := exprs ++ [child]
      if (← matchtoken TokenKind.ch_comma) then var_init_loop vi fuel exprs
      else return (exprs, false)

/-- The source's `Parser::var_init`: a brace-enclosed initialiser list, a
string, or an expression. -/
def var_init (h14 : P Expr) : Nat → P Expr
  | 0 => failure
  | fuel + 1 => do
    if (← matchtoken TokenKind.ch_lbrace) then
      let pos ← current_pos
      let (exprs, ellipses) ← var_init_loop (var_init h14 fuel) fuel []
      let _ ← needtoken TokenKind.ch_rbrace
      return Expr.ArrayExpr pos exprs ellipses
    else if (← matchtoken TokenKind.tSTRING) then
      let tok := current_token (← get)
      return Expr.StringExpr tok.start tok.str
    else
      h14

/-- The store `arr[i] = v` into an array of `cap` entries that is held as the list of its
leading entries, entries beyond the list being `dflt`; `none` when the index is out of
bounds. -/
def store_at {α : Type} (cap : Nat) (dflt : α) (arr : List α) (i : Nat) (v : α) :
    Option (List α) :=
  if i < cap then some ((arr ++ List.replicate (i + 1 - arr.length) dflt).set i v) else none

/-- The branch `if (matchtoken(']')) ... else ...` in the loop of `parse_post_dims`: the
entry stored into `old_dims`, and whether it is an expression. -/
def post_dim_entry (h14 : P Expr) : P (Option Expr) := do
  if (← matchtoken TokenKind.ch_rbracket) then
    return none
  else
    let e ← h14
    let _ ← needtoken TokenKind.ch_rbracket
    return some e

/-- The loop `do { ... } while (matchtoken('['))` of `parse_post_dims`, carrying `*type`,
the local array `old_dims` and `has_old_dims`; `sDIMEN_MAX` (declared outside the sources at
hand) is the parameter `dimen_max`, the capacity of `dim`, `idxtag` and `old_dims`. The
result is `none` when a store is out of bounds. -/
def parse_post_dims_loop (dimen_max : Nat) (h14 : P Expr) :
    Nat → typeinfo_t → List (Option Expr) → Bool →
      P (Option (typeinfo_t × List (Option Expr) × Bool))
  | 0, _, _, _ => failure
  | fuel + 1, type, old_dims, has_old_dims => do
    if type.numdim = dimen_max then
      error 53
      return some (type, old_dims, has_old_dims)
    else
      match store_at dimen_max 0 type.idxtag type.numdim 0,
          store_at dimen_max 0 type.dim type.numdim 0 with
      | some idxtag, some dim =>
        let type := { type with idxtag := idxtag, dim := dim }
        let entry ← post_dim_entry h14
        let has_old_dims := has_old_dims || entry.isSome
        match store_at dimen_max none old_dims type.numdim entry with
        | some old_dims =>
          let type := { type with numdim := type.numdim + 1 }
          if (← matchtoken TokenKind.ch_lbracket) then
            parse_post_dims_loop dimen_max h14 fuel type old_dims has_old_dims
          else
            return some (type, old_dims, has_old_dims)
        | none => return none
      | _, _ => return none

/-- The source's `Parser::parse_post_dims(type)`, entered after the first `[`: the updated
`*type`, or `none` when a store is out of bounds. The local array `old_dims` is not
initialised in the source; here it starts with no entry, and an entry never stored reads as
null. -/
def parse_post_dims (dimen_max : Nat) (h14 : P Expr) (fuel : Nat) (type : typeinfo_t) :
    P (Option typeinfo_t) := do
  match (← parse_post_dims_loop dimen_max h14 fuel type [] false) with
  | none => return none
  | some (type, old_dims, has_old_dims) =>
    if has_old_dims then
      return some { type with
        dim_exprs := some ((old_dims ++ List.replicate (type.numdim - old_dims.length) none).take
          type.numdim) }
    else
      return some type

/-- The source's `Parser::parse_expr(parens)`: one or more `hier14` separated by
commas, a `CommaExpr` when there is more than one. -/
def parse_expr_loop (h14 : P Expr) : Nat → Option (token_pos_t × List Expr) → P Expr
  | 0, _ => failure
  | fuel + 1, comma => do
    let expr ← h14
    let comma := comma.map fun c => (c.1, c.2 ++ [expr])
    if (← matchtoken TokenKind.ch_comma) then
      let comma :=
        match comma with
        | some c => some c
        | none => some (expr.pos, [expr])
      parse_expr_loop h14 fuel comma
    else
      match comma with
      | some c => return Expr.CommaExpr c.1 c.2
      | none => return expr

/-- The source's `Parser::parse_expr`. -/
def parse_expr (h14 : P Expr) (fuel : Nat) (parens : Bool) : P Expr :=
  SaveAndSet (·.sc_intest) set_sc_intest parens (do
    if parens then
      let _ ← needtoken TokenKind.ch_lparen
    let expr ← parse_expr_loop h14 fuel none
    if parens then
      let _ ← needtoken TokenKind.ch_rparen
    return expr)

/-- The `VarParams` of `parse_var`. -/
structure VarParams where
  vclass : StorageClass
  is_public : Bool := false
  is_static : Bool := false
  is_stock : Bool := false
  autozero : Bool := true

/-- The `for (;;)` loop of `parse_var`, carrying `decl`, the first declaration
`stmt` and the `list` opened for the second one. -/
def parse_var_loop (E : Externals) (h14 : P Expr) (params : VarParams) :
    Nat → declinfo_t → Option Stmt → Option (token_pos_t × List Stmt) →
      P (Option Stmt × Option (token_pos_t × List Stmt))
  | 0, _, _, _ => failure
  | fuel + 1, decl, stmt, list => do
    let pos ← current_pos
    let init ← (do
      if (← matchtoken TokenKind.ch_assign) then return some (← var_init h14 fuel)
      else return none)
    let var := Stmt.VarDecl pos decl.name decl.type params.vclass params.is_public
      params.is_static params.is_stock init params.autozero
    let (stmt, list) :=
      match stmt with
      | some first =>
        match list with
        | some l => (some first, some (l.1, l.2 ++ [var]))
        | none => (some first, some (var.pos, [first, var]))
      | none => (some var, list)
    if (← matchtoken TokenKind.ch_comma) then
      let decl ← (if decl.type.is_new then
          liftE (E.reparse_new_decl decl [DeclFlag.VARIABLE, DeclFlag.ENUMROOT])
        else
          liftE (E.reparse_old_decl decl [DeclFlag.VARIABLE, DeclFlag.ENUMROOT]))
      parse_var_loop E h14 params fuel decl stmt list
    else
      return (stmt, list)

/-- The source's `Parser::parse_var`. -/
def parse_var (E : Externals) (h14 : P Expr) (fuel : Nat) (decl : declinfo_t)
    (params : VarParams) : P (Option Stmt) := do
  let (stmt, list) ← parse_var_loop E h14 params fuel decl none none
  let _ ← needtoken TokenKind.tTERM
  match list with
  | some l => return some (Stmt.StmtList l.1 l.2)
  | none => return stmt

/-- The source's `Parser::parse_local_decl`. -/
def parse_local_decl (E : Externals) (h14 : P Expr) (fuel : Nat) (tokid : TokenKind)
    (autozero : Bool) : P (Option Stmt) := do
  let declflags :=
    if tokid = TokenKind.tNEW ∨ tokid = TokenKind.tDECL then
      [DeclFlag.VARIABLE, DeclFlag.ENUMROOT, DeclFlag.OLD]
    else if tokid = TokenKind.tNEWDECL then
      [DeclFlag.VARIABLE, DeclFlag.ENUMROOT, DeclFlag.NEW]
    else
      [DeclFlag.VARIABLE, DeclFlag.ENUMROOT]
  let (_, decl) ← liftE (E.parse_decl declinfo_zero declflags)
  let params : VarParams :=
    { vclass := if tokid = TokenKind.tSTATIC then StorageClass.sSTATIC else StorageClass.sLOCAL
      autozero := autozero }
  parse_var E h14 fuel decl params

/-- The `do { ... } while (matchtoken(','))` loop of `parse_const`, carrying the
first declaration `decl` and the `list` opened for the second one. -/
def parse_const_loop (E : Externals) (vclass : StorageClass) :
    Nat → Option Stmt → Option (token_pos_t × List Stmt) →
      P (Option Stmt × Option (token_pos_t × List Stmt))
  | 0, _, _ => failure
  | fuel + 1, decl, list => do
    let pos ← current_pos
    let tok ← lextok
    let tag ← (do
      if tok.id = TokenKind.tINT ∨ tok.id = TokenKind.tOBJECT ∨ tok.id = TokenKind.tCHAR then
        liftE (E.parse_new_typename1 tok)
      else if tok.id = TokenKind.tLABEL then
        return E.pc_addtag tok.str
      else if tok.id = TokenKind.tSYMBOL then
        if (← lexpeek TokenKind.tSYMBOL) then
          liftE (E.parse_new_typename1 tok)
        else
          lexpush
          return 0
      else
        error 122
        return 0)
    let name ← needsymbol
    let _ ← needtoken TokenKind.ch_assign
    let (_, expr_val, expr_tag) ← liftE E.exprconst
    let type : typeinfo_t := { typeinfo_zero with tag := tag, is_const := true }
    let (decl, list) :=
      match name with
      | none => (decl, list)
      | some name =>
        let var := Stmt.ConstDecl pos name type vclass expr_tag expr_val
        match decl with
        | some first =>
          match list with
          | some l => (some first, some (l.1, l.2 ++ [var]))
          | none => (some first, some (var.pos, [first, var]))
        | none => (some var, list)
    if (← matchtoken TokenKind.ch_comma) then parse_const_loop E vclass fuel decl list
    else return (decl, list)

/-- The source's `Parser::parse_const`. -/
def parse_const (E : Externals) (fuel : Nat) (vclass : StorageClass) : P (Option Stmt) := do
  let (decl, list) ← parse_const_loop E vclass fuel none none
  let _ ← needtoken TokenKind.tTERM
  match list with
  | some l => return some (Stmt.StmtList l.1 l.2)
  | none => return decl

/-- A `cell` value reduced to the `w`-bit two's complement range. -/
def wrap_cell (w : Nat) (x : Int) : Int :=
  (x + 2 ^ (w - 1)) % 2 ^ w - 2 ^ (w - 1)

/-- The loop `while (val-- > 0) multiplier *= 2` of `parse_enum` on `w`-bit cells. -/
def enum_shift (w : Nat) : Nat → Int → Int
  | 0, multiplier => multiplier
  | val + 1, multiplier => enum_shift w val (wrap_cell w (multiplier * 2))

/-- The field loop of `parse_enum`. -/
def parse_enum_loop (E : Externals) (h14 : P Expr) :
    Nat → List (token_pos_t × String × Option Expr) →
      P (List (token_pos_t × String × Option Expr))
  | 0, _ => failure
  | fuel + 1, fields => do
    if (← matchtoken TokenKind.ch_rbrace) then
      lexpush
      return fields
    else
      if (← matchtoken TokenKind.tLABEL) then error 153
      let field_name ← needsymbol
      let pos ← current_pos
      if (← matchtoken TokenKind.ch_lbracket) then
        error 153
        let _ ← liftE E.exprconst
        let _ ← needtoken TokenKind.ch_rbracket
      let value ← (do
        if (← matchtoken TokenKind.ch_assign) then return some (← h14)
        else return none)
      let fields :=
        match field_name with
        | some n => fields ++ [(pos, n, value)]
        | none => fields
      if (← matchtoken TokenKind.ch_comma) then parse_enum_loop E h14 fuel fields
      else return fields

/-- The source's `Parser::parse_enum`. -/
def parse_enum (E : Externals) (h14 : P Expr) (fuel : Nat) (vclass : StorageClass) :
    P Stmt := do
  let pos ← current_pos
  let tok ← lex
  let label ← (do
    if tok.id = TokenKind.tLABEL then return some tok.str
    else
      lexpush
      return none)
  let tok ← lex
  let name ← (do
    if tok.id = TokenKind.tSYMBOL then return some tok.str
    else
      lexpush
      return none)
  let (increment, multiplier) ← (do
    if (← matchtoken TokenKind.ch_lparen) then
      error 228
      let r ← (do
        if (← matchtoken TokenKind.taADD) then
          let (_, v, _) ← liftE E.exprconst
          return (v, (1 : Int))
        else if (← matchtoken TokenKind.taMULT) then
          let (_, v, _) ← liftE E.exprconst
          return ((1 : Int), v)
        else if (← matchtoken TokenKind.taSHL) then
          let (_, v, _) ← liftE E.exprconst
          return ((1 : Int), enum_shift E.cell_bits v.toNat 1)
        else
          return ((1 : Int), (1 : Int)))
      let _ ← needtoken TokenKind.ch_rparen
      return r
    else
      return ((1 : Int), (1 : Int)))
  let _ ← needtoken TokenKind.ch_lbrace
  let fields ← parse_enum_loop E h14 fuel []
  let _ ← needtoken TokenKind.ch_rbrace
  let _ ← matchtoken TokenKind.ch_semicolon
  return Stmt.EnumDecl pos vclass label name increment multiplier fields

/-! The statement productions reach `parse_stmt` again for nested statements;
they take it as the parameter `pstmt` (arguments `lastindent` and `allow_decl`,
result the statement and the updated `*lastindent`), and `parse_stmt` ties the
knot. The calls `insert_dbgline` and `setline` of `parse_stmt` act on the code
emitter and leave the parser state alone; they have no counterpart here. -/

/-- The result of `parse_stmt`: the statement (null is `none`) and the value
left in `*lastindent`. -/
abbrev StmtResult := Option Stmt × Option Int

/-- The statement loop of `parse_compound`, carrying `indent` and the
statements of the block. -/
def parse_compound_loop (pstmt : Option Int → Bool → P StmtResult) :
    Nat → Int → List Stmt → P (List Stmt)
  | 0, _, _ => failure
  | fuel + 1, indent, stmts => do
    if (← matchtoken TokenKind.ch_rbrace) then
      return stmts
    else if !(← freading) then
      error 30
      return stmts
    else
      let (stmt, lastindent) ← pstmt (some indent) true
      let stmts :=
        match stmt with
        | some st => stmts ++ [st]
        | none => stmts
      parse_compound_loop pstmt fuel (lastindent.getD indent) stmts

/-- The walk `while (*p != '{') p--` of `parse_compound` over the tokens of the
line `line` that the lexer has handed out, most recent first; `next` is the
token after the one looked at. The result is the column of the first token
after the brace found, `none` when the line holds no brace (the assertion
`p > pline` of the source fails). -/
def brace_indent (line : Nat) : List (Option token_t) → token_t → Option Int
  | some c :: cs, next =>
    if c.start.line ≠ line then none
    else if c.id = TokenKind.ch_lbrace then some next.start.col
    else brace_indent line cs c
  | _, _ => none

/-- The statement indent that `parse_compound` computes with `sameline`: it walks
back from the read position `lptr` to the nearest `{` and takes the column of
the first non-blank after it. The caller `parse_stmt` has looked at the token
after the opening brace, so `lptr` stands after that token. When that token is
a `{` itself it is the nearest brace, and the column is that of the token after
it on the line; `none` when no token follows it there (the assertion
`*p != '\0'` of the source fails). Otherwise the walk goes back over the tokens
of the line (`brace_indent`; a token other than `{` is taken to hold no brace
character). At the end of input no token follows the brace, and the result is
`none` as well. The columns are those of the tokens, as for the indent that
`lex` sets. -/
def sameline_indent (s : ParserState) : Option Int :=
  match s.rest with
  | [] => none
  | t :: r =>
    if t.id = TokenKind.ch_lbrace then
      match r with
      | [] => none
      | t2 :: _ => if t2.start.line = t.start.line then some t2.start.col else none
    else brace_indent t.start.line s.consumed t

/-- The block `if (sameline) { ... }` of `parse_compound` that adjusts the
statement indent. -/
def adjust_stmtindent : P Unit := fun s =>
  match sameline_indent s with
  | some c => some ((), { s with stmtindent := c })
  | none => none

/-- The source's `Parser::parse_compound`. -/
def parse_compound (pstmt : Option Int → Bool → P StmtResult) (fuel : Nat)
    (sameline : Bool) : P Stmt := do
  let pos ← current_pos
  if sameline then
    adjust_stmtindent
  let stmts ← parse_compound_loop pstmt fuel (-1) []
  return Stmt.BlockStmt pos stmts

/-- The source's `Parser::parse_if`. -/
def parse_if (h14 : P Expr) (pstmt : Option Int → Bool → P StmtResult) (fuel : Nat) :
    P (Option Stmt) := do
  let ifindent := (← get).stmtindent
  let pos ← current_pos
  let expr ← parse_expr h14 fuel true
  let (stmt, _) ← pstmt none false
  if (← matchtoken TokenKind.tELSE) then
    let s ← get
    if s.stmtindent < ifindent ∧ s.sc_tabsize > 0 then error 217
    let (else_stmt, _) ← pstmt none false
    match else_stmt, stmt with
    | none, _ => return none
    | some _, none => return none
    | some e, some st => return some (Stmt.IfStmt pos expr st (some e))
  else
    match stmt with
    | none => return none
    | some st => return some (Stmt.IfStmt pos expr st none)

/-- The expression statement both `parse_stmt` (after `default:`) and
`parse_for` (in the init clause) fall back to: `parse_expr(false)`, the
terminator `endtok`, and the `ExprStmt` at the position of the expression. -/
def parse_expr_stmt (h14 : P Expr) (fuel : Nat) (endtok : TokenKind) : P (Option Stmt) := do
  let expr ← parse_expr h14 fuel false
  let _ ← needtoken endtok
  return some (Stmt.ExprStmt expr.pos expr)

/-- The init clause of `parse_for`: the block `if (!matchtoken(';')) { ... }`. -/
def parse_for_init (E : Externals) (h14 : P Expr) (fuel : Nat) : P (Option Stmt) := do
  if (← matchtoken TokenKind.ch_semicolon) then
    return none
  else
    let tok ← lextok
    let expr_init : P (Option Stmt) := do
      lexpush
      parse_expr_stmt h14 fuel TokenKind.ch_semicolon
    if tok.id = TokenKind.tINT ∨ tok.id = TokenKind.tCHAR ∨ tok.id = TokenKind.tOBJECT ∨
        tok.id = TokenKind.tVOID then
      lexpush
      parse_local_decl E h14 fuel tok.id true
    else if tok.id = TokenKind.tNEW then
      parse_local_decl E h14 fuel tok.id true
    else if tok.id = TokenKind.tSYMBOL then
      let is_decl ← (do
        if (← matchtoken TokenKind.ch_lbracket) then
          let b ← lexpeek TokenKind.ch_rbracket
          lexpush
          return b
        else
          lexpeek TokenKind.tSYMBOL)
      if is_decl then
        lexpush
        parse_local_decl E h14 fuel TokenKind.tSYMBOL true
      else
        expr_init
    else
      expr_init

/-- The source's `Parser::parse_for`. -/
def parse_for (E : Externals) (h14 : P Expr) (pstmt : Option Int → Bool → P StmtResult)
    (fuel : Nat) : P (Option Stmt) := do
  let pos ← current_pos
  let endtok ← (do
    if (← matchtoken TokenKind.ch_lparen) then return TokenKind.ch_rparen
    else return TokenKind.tDO)
  if endtok ≠ TokenKind.ch_rparen then error 243
  let init ← parse_for_init E h14 fuel
  let cond ← (do
    if (← matchtoken TokenKind.ch_semicolon) then return none
    else
      let cond ← parse_expr h14 fuel false
      let _ ← needtoken TokenKind.ch_semicolon
      return some cond)
  let advance ← (do
    if (← matchtoken endtok) then return none
    else
      let advance ← parse_expr h14 fuel false
      let _ ← needtoken endtok
      return some advance)
  let (body, _) ← SaveAndSet (·.in_loop_) set_in_loop true (pstmt none false)
  match body with
  | none => return none
  | some body => return some (Stmt.ForStmt pos init cond advance body)

/-- The source's `Parser::parse_case`: the result is the case added to the
switch by `AddCase`, if any. -/
def parse_case_loop (h14 : P Expr) : Nat → List Expr → P (List Expr)
  | 0, _ => failure
  | fuel + 1, exprs => do
    let expr ← SaveAndSet (·.sc_allowtags) set_sc_allowtags false (do
      let expr ← h14
      if (← matchtoken TokenKind.tDBLDOT) then error 1
      return expr)
    let exprs := exprs ++ [expr]
    if (← matchtoken TokenKind.ch_comma) then parse_case_loop h14 fuel exprs
    else return exprs

/-- The source's `Parser::parse_case`. -/
def parse_case (h14 : P Expr) (pstmt : Option Int → Bool → P StmtResult) (fuel : Nat) :
    P (Option (List Expr × Stmt)) := do
  let exprs ← parse_case_loop h14 fuel []
  let _ ← needtoken TokenKind.ch_colon
  let (stmt, _) ← pstmt none false
  match stmt with
  | none => return none
  | some st => if exprs.isEmpty then return none else return some (exprs, st)

/-- The `while (true)` loop over the body of a switch, carrying the cases and
the default case of the `SwitchStmt` under construction. -/
def parse_switch_loop (h14 : P Expr) (pstmt : Option Int → Bool → P StmtResult) :
    Nat → List (List Expr × Stmt) → Option Stmt →
      P (List (List Expr × Stmt) × Option Stmt)
  | 0, _, _ => failure
  | fuel + 1, cases, default_case => do
    let tok ← lex
    if tok.id = TokenKind.tCASE then
      if default_case.isSome then error 15
      let cases :=
        match (← parse_case h14 pstmt fuel) with
        | some c => cases ++ [c]
        | none => cases
      parse_switch_loop h14 pstmt fuel cases default_case
    else if tok.id = TokenKind.tDEFAULT then
      let _ ← needtoken TokenKind.ch_colon
      let (stmt, _) ← pstmt none false
      match stmt with
      | some st =>
        if default_case.isSome then
          error 16
          parse_switch_loop h14 pstmt fuel cases default_case
        else
          parse_switch_loop h14 pstmt fuel cases (some st)
      | none => parse_switch_loop h14 pstmt fuel cases default_case
    else
      if tok.id ≠ TokenKind.ch_rbrace then
        error 2
        modify fun s => { s with indent_nowarn := true }
      return (cases, default_case)

/-- The source's `Parser::parse_switch`. -/
def parse_switch (h14 : P Expr) (pstmt : Option Int → Bool → P StmtResult) (fuel : Nat) :
    P (Option Stmt) := do
  let pos ← current_pos
  let endtok ← (do
    if (← matchtoken TokenKind.ch_lparen) then return TokenKind.ch_rparen
    else return TokenKind.tDO)
  if endtok ≠ TokenKind.ch_rparen then error 243
  let cond ← parse_expr h14 fuel false
  let _ ← needtoken endtok
  let _ ← needtoken TokenKind.ch_lbrace
  let (cases, default_case) ← parse_switch_loop h14 pstmt fuel [] none
  return some (Stmt.SwitchStmt pos cond cases default_case)

/-- The source's `Parser::parse_stmt(lastindent, allow_decl)`. -/
def parse_stmt (L : OpLists) (E : Externals) : Nat → Option Int → Bool → P StmtResult
  | 0, _, _ => failure
  | fuel + 1, lastindent, allow_decl =>
    SaveAndSet (·.sc_one_error_per_statement) set_one_error true (do
      if !(← freading) then
        error 36
        return (none, lastindent)
      else
        errorset_sRESET
        let tok ← lex
        let lastindent ← (do
          match lastindent with
          | some li =>
            if tok.id ≠ TokenKind.tLABEL then
              let s ← get
              if li ≥ 0 ∧ li ≠ s.stmtindent ∧ s.indent_nowarn = false ∧ s.sc_tabsize > 0 then
                error 217
              modify fun s => { s with indent_nowarn := false }
              return some s.stmtindent
            else
              return some li
          | none => return none)
        let is_decl ← (do
          if tok.id = TokenKind.tSYMBOL then
            if (← matchtoken TokenKind.ch_lbracket) then
              let b ← lexpeek TokenKind.ch_rbracket
              lexpush
              return b
            else
              lexpeek TokenKind.tSYMBOL
          else
            return false)
        let h14 := hier14 L E fuel
        if is_decl then
          if !allow_decl then
            error 3
            return (none, lastindent)
          else
            lexpush
            return (← parse_local_decl E h14 fuel TokenKind.tNEWDECL true, lastindent)
        else
          let expr_stmt : P (Option Stmt) := do
            lexpush
            parse_expr_stmt h14 fuel TokenKind.tTERM
          let stmt ← (do
            if tok.id = TokenKind.tEOF then
              return none
            else if tok.id = TokenKind.tINT ∨ tok.id = TokenKind.tVOID ∨
                tok.id = TokenKind.tCHAR ∨ tok.id = TokenKind.tOBJECT ∨
                tok.id = TokenKind.tDECL ∨ tok.id = TokenKind.tSTATIC ∨
                tok.id = TokenKind.tNEW then
              if tok.id = TokenKind.tINT ∨ tok.id = TokenKind.tVOID ∨
                  tok.id = TokenKind.tCHAR ∨ tok.id = TokenKind.tOBJECT then
                lexpush
              let is_call ← (do
                if tok.id = TokenKind.tNEW then
                  if (← matchtoken TokenKind.tSYMBOL) then
                    let b ← lexpeek TokenKind.ch_lparen
                    lexpush
                    return b
                  else
                    return false
                else
                  return false)
              if is_call then
                expr_stmt
              else if !allow_decl then
                error 3
                return none
              else
                parse_local_decl E h14 fuel tok.id (decide (tok.id ≠ TokenKind.tDECL))
            else if tok.id = TokenKind.tIF then
              parse_if h14 (parse_stmt L E fuel) fuel
            else if tok.id = TokenKind.tCONST then
              parse_const E fuel StorageClass.sLOCAL
            else if tok.id = TokenKind.tENUM then
              return some (← parse_enum E h14 fuel StorageClass.sLOCAL)
            else if tok.id = TokenKind.tCASE ∨ tok.id = TokenKind.tDEFAULT then
              error 14
              return none
            else if tok.id = TokenKind.ch_lbrace then
              let save := (← get).fline
              if (← matchtoken TokenKind.ch_rbrace) then
                return some (Stmt.StmtList (← current_pos) [])
              else
                let sameline := decide (save = (← get).fline)
                return some (← parse_compound (parse_stmt L E fuel) fuel sameline)
            else if tok.id = TokenKind.ch_semicolon then
              error 36
              return none
            else if tok.id = TokenKind.tBREAK ∨ tok.id = TokenKind.tCONTINUE then
              let pos ← current_pos
              let _ ← needtoken TokenKind.tTERM
              if !(← get).in_loop_ then
                error 24
                return none
              else
                return some (Stmt.LoopControlStmt pos tok.id)
            else if tok.id = TokenKind.tRETURN then
              let pos ← current_pos
              if (← matchtoken TokenKind.tTERM) then
                return some (Stmt.ReturnStmt pos none)
              else
                let expr ← h14
                let _ ← needtoken TokenKind.tTERM
                return some (Stmt.ReturnStmt pos (some expr))
            else if tok.id = TokenKind.tASSERT then
              let pos ← current_pos
              let expr ← parse_expr h14 fuel true
              let _ ← needtoken TokenKind.tTERM
              return some (Stmt.AssertStmt pos expr)
            else if tok.id = TokenKind.tDELETE then
              let pos ← current_pos
              let expr ← parse_expr h14 fuel false
              let _ ← needtoken TokenKind.tTERM
              return some (Stmt.DeleteStmt pos expr)
            else if tok.id = TokenKind.tEXIT then
              let pos ← current_pos
              if (← matchtoken TokenKind.tTERM) then
                let expr ← parse_expr h14 fuel false
                let _ ← needtoken TokenKind.tTERM
                return some (Stmt.ExitStmt pos (some expr))
              else
                return some (Stmt.ExitStmt pos none)
            else if tok.id = TokenKind.tDO then
              let pos ← current_pos
              let (stmt, _) ←
                SaveAndSet (·.in_loop_) set_in_loop true (parse_stmt L E fuel none false)
              let _ ← needtoken TokenKind.tWHILE
              let parens ← matchtoken TokenKind.ch_lparen
              let cond ← parse_expr h14 fuel false
              if parens then
                let _ ← needtoken TokenKind.ch_rparen
              else
                error 243
              let _ ← needtoken TokenKind.tTERM
              match stmt with
              | none => return none
              | some st => return some (Stmt.DoWhileStmt pos tok.id cond st)
            else if tok.id = TokenKind.tWHILE then
              let pos ← current_pos
              let cond ← parse_expr h14 fuel true
              let (stmt, _) ←
                SaveAndSet (·.in_loop_) set_in_loop true (parse_stmt L E fuel none false)
              match stmt with
              | none => return none
              | some st => return some (Stmt.DoWhileStmt pos tok.id cond st)
            else if tok.id = TokenKind.tFOR then
              parse_for E h14 (parse_stmt L E fuel) fuel
            else if tok.id = TokenKind.tSWITCH then
              parse_switch h14 (parse_stmt L E fuel) fuel
            else
              expr_stmt)
          return (stmt, lastindent))

/-! ## Top-level declarations -/

/-- The terminator policies handed to `require_newline`. -/
inductive TerminatorPolicy where
  | Semicolon | NewlineOrSemicolon
  deriving DecidableEq, Repr

/-- Collaborators of the top-level productions that are defined outside
`new-parser.cpp`; each is a total function on the parser state. `is_struct_tag`
stands for the test `gTypes.find(tag)` with `kind() == TypeKind::Struct`,
`process` for the `Process()` method of a declaration node, `iVARIABLE` and
`fatal_error_funcenum` for the constants of these names. -/
structure TopExternals where
  funcstub : TokenKind → declinfo_t → ParserState → ParserState
  newfunc : declinfo_t → Bool → Bool → Bool → ParserState → Bool × ParserState
  is_struct_tag : Int → Bool
  parse_function_type : ParserState → TypedefInfo × ParserState
  parse_new_decl : declinfo_t → List DeclFlag → ParserState → (Bool × declinfo_t) × ParserState
  require_newline : TerminatorPolicy → ParserState → ParserState
  decl_enumstruct : ParserState → ParserState
  domethodmap : ParserState → ParserState
  process : Stmt → ParserState → ParserState
  iVARIABLE : Nat
  fatal_error_funcenum : Nat

/-- The `do { ... } while (matchtoken(',') && !lexpeek('}'))` loop of
`struct_init`, carrying the fields pushed so far. -/
def struct_init_loop : Nat → List (String × Expr) → P (List (String × Expr))
  | 0, _ => failure
  | fuel + 1, fields => do
    let name ← needsymbol
    let _ ← needtoken TokenKind.ch_assign
    let pos ← current_pos
    let tok ← lex
    let expr ← (do
      if tok.id = TokenKind.tSTRING then
        return some (Expr.StringExpr pos (current_token (← get)).str)
      else if tok.id = TokenKind.tNUMBER then
        return some (Expr.NumberExpr pos tok.value)
      else if tok.id = TokenKind.tRATIONAL then
        return some (Expr.FloatExpr pos tok.value)
      else
        error 1
        return none)
    let fields :=
      match name, expr with
      | some n, some e => fields ++ [(n, e)]
      | _, _ => fields
    if (← matchtoken TokenKind.ch_comma) then
      if !(← lexpeek TokenKind.ch_rbrace) then struct_init_loop fuel fields
      else return fields
    else
      return fields

/-- The source's `Parser::struct_init`, entered after the opening brace. -/
def struct_init (fuel : Nat) : P Expr := do
  let pos ← current_pos
  let fields ← struct_init_loop fuel []
  let _ ← needtoken TokenKind.ch_rbrace
  return Expr.StructExpr pos fields

/-- The source's `Parser::parse_unknown_decl(tok)`. The `declinfo_t` handed to
`parse_decl` starts out zeroed. -/
def parse_unknown_decl (E : Externals) (T : TopExternals) (h14 : P Expr) (fuel : Nat)
    (tok : token_t) : P (Option Stmt) := do
  if tok.id = TokenKind.tNATIVE ∨ tok.id = TokenKind.tFORWARD then
    let (_, decl) ← liftE (E.parse_decl declinfo_zero [DeclFlag.MAYBE_FUNCTION])
    modify (T.funcstub tok.id decl)
    return none
  else
    let pos ← current_pos
    let (fpublic, fstock, fstatic) ← (do
      if tok.id = TokenKind.tPUBLIC then
        return (true, false, false)
      else if tok.id = TokenKind.tSTOCK then
        if (← matchtoken TokenKind.tSTATIC) then return (false, true, true)
        else return (false, true, false)
      else if tok.id = TokenKind.tSTATIC then
        if (← matchtoken TokenKind.tSTOCK) then return (false, true, true)
        else return (false, false, true)
      else
        return (false, false, false))
    let flags :=
      if tok.id = TokenKind.tNEW then
        [DeclFlag.MAYBE_FUNCTION, DeclFlag.VARIABLE, DeclFlag.ENUMROOT, DeclFlag.OLD]
      else
        [DeclFlag.MAYBE_FUNCTION, DeclFlag.VARIABLE, DeclFlag.ENUMROOT]
    let (ok, decl) ← liftE (E.parse_decl declinfo_zero flags)
    let decl : declinfo_t := if ok then decl else { decl with type := { decl.type with tag := 0 } }
    let probablyVariable ← (do
      if tok.id = TokenKind.tNEW then return true
      else if decl.type.has_postdims then return true
      else if !(← lexpeek TokenKind.ch_lparen) then return true
      else return decl.type.is_const)
    if decl.opertok = TokenKind.tEOF ∧ probablyVariable = true then
      if tok.id = TokenKind.tNEW ∧ decl.type.is_new = true then error 143
      if T.is_struct_tag decl.type.tag then
        let init ← (do
          if (← matchtoken TokenKind.ch_assign) then
            let _ ← needtoken TokenKind.ch_lbrace
            return some (← struct_init fuel)
          else
            return none)
        let _ ← matchtoken TokenKind.ch_semicolon
        return some (Stmt.VarDecl pos decl.name decl.type StorageClass.sGLOBAL
          (fpublic && init.isSome) false init.isNone init true)
      else
        let params : VarParams :=
          { vclass := StorageClass.sGLOBAL, is_public := fpublic, is_static := fstatic,
            is_stock := fstock }
        parse_var E h14 fuel decl params
    else
      let ok ← liftE (T.newfunc decl fpublic fstatic fstock)
      if !ok then
        error 10
        lexclr true
      return none

/-- The field loop of `parse_pstruct`, carrying the fields pushed so far; the
`continue` of the source leads to the loop condition. -/
def parse_pstruct_loop (T : TopExternals) :
    Nat → List (token_pos_t × String × typeinfo_t) →
      P (List (token_pos_t × String × typeinfo_t))
  | 0, _ => failure
  | fuel + 1, fields => do
    if (← matchtoken TokenKind.ch_rbrace) then
      lexpush
      return fields
    else
      let decl : declinfo_t :=
        { declinfo_zero with type := { typeinfo_zero with ident := T.iVARIABLE } }
      let _ ← needtoken TokenKind.tPUBLIC
      let pos ← current_pos
      let (ok, decl) ← liftE (T.parse_new_decl decl [DeclFlag.FIELD])
      let fields ← (do
        if !ok then
          lexclr true
          return fields
        else
          modify (T.require_newline TerminatorPolicy.NewlineOrSemicolon)
          return fields ++ [(pos, decl.name, decl.type)])
      if !(← lexpeek TokenKind.ch_rbrace) then parse_pstruct_loop T fuel fields
      else return fields

/-- The source's `Parser::parse_pstruct`; without a name there is no node. -/
def parse_pstruct (T : TopExternals) (fuel : Nat) : P (Option Stmt) := do
  let pos ← current_pos
  let ident ← needsymbol
  let _ ← needtoken TokenKind.ch_lbrace
  let fields ← parse_pstruct_loop T fuel []
  let _ ← needtoken TokenKind.ch_rbrace
  let _ ← matchtoken TokenKind.ch_semicolon
  match ident with
  | some name => return some (Stmt.PstructDecl pos name fields)
  | none => return none

/-- The source's `Parser::parse_typedef`. -/
def parse_typedef (T : TopExternals) : P Stmt := do
  let pos ← current_pos
  match (← needsymbol) with
  | none => return Stmt.ErrorDecl
  | some ident =>
    let _ ← needtoken TokenKind.ch_assign
    let type ← liftE T.parse_function_type
    return Stmt.TypedefDecl pos ident type

/-- The loop `while (!matchtoken('}'))` of `parse_typeset`, carrying the types
pushed so far. -/
def parse_typeset_loop (T : TopExternals) : Nat → List TypedefInfo → P (List TypedefInfo)
  | 0, _ => failure
  | fuel + 1, types => do
    if (← matchtoken TokenKind.ch_rbrace) then
      return types
    else
      let type ← liftE T.parse_function_type
      parse_typeset_loop T fuel (types ++ [type])

/-- The source's `Parser::parse_typeset`. -/
def parse_typeset (T : TopExternals) (fuel : Nat) : P Stmt := do
  let pos ← current_pos
  match (← needsymbol) with
  | none => return Stmt.ErrorDecl
  | some ident =>
    let _ ← needtoken TokenKind.ch_lbrace
    let types ← parse_typeset_loop T fuel []
    modify (T.require_newline TerminatorPolicy.NewlineOrSemicolon)
    return Stmt.TypesetDecl pos ident types

/-- The lambda `validate` of `parse_using`. -/
def parse_using_validate : P Bool := do
  match (← needsymbol) with
  | none => return false
  | some ident =>
    if ident ≠ "__intrinsics__" then
      error 156
      return false
    else if !(← needtoken TokenKind.ch_dot) then
      return false
    else
      match (← needsymbol) with
      | none => return false
      | some ident =>
        if ident ≠ "Handle" then
          error 156
          return false
        else
          return true

/-- The source's `Parser::parse_using`. -/
def parse_using (T : TopExternals) : P Stmt := do
  let pos ← current_pos
  if !(← parse_using_validate) then
    lexclr true
    return Stmt.ErrorDecl
  else
    modify (T.require_newline TerminatorPolicy.Semicolon)
    return Stmt.UsingDecl pos

/-- The source's `Parser::parse_static_assert`. -/
def parse_static_assert (E : Externals) (T : TopExternals) : P (Option Stmt) := do
  let pos ← current_pos
  let _ ← needtoken TokenKind.ch_lparen
  let (is_const, expr_val, _) ← liftE E.exprconst
  let text ← (do
    if (← matchtoken TokenKind.ch_comma) then
      if (← needtoken TokenKind.tSTRING) then
        return some (current_token (← get)).str
      else
        return none
    else
      return none)
  let _ ← needtoken TokenKind.ch_rparen
  modify (T.require_newline TerminatorPolicy.NewlineOrSemicolon)
  if !is_const then
    return none
  else
    return some (Stmt.StaticAssertStmt pos expr_val text)

/-- The `switch (lextok(&tok))` of `Parser::parse`: one top-level declaration,
`none` where the source leaves `decl` null. -/
def parse_toplevel (L : OpLists) (E : Externals) (T : TopExternals) (fuel : Nat) :
    P (Option Stmt) := do
  let tok ← lextok
  let h14 := hier14 L E fuel
  if tok.id = TokenKind.tEOF then
    return none
  else if tok.id = TokenKind.tSYMBOL ∨ tok.id = TokenKind.tINT ∨ tok.id = TokenKind.tOBJECT ∨
      tok.id = TokenKind.tCHAR ∨ tok.id = TokenKind.tVOID ∨ tok.id = TokenKind.tLABEL then
    lexpush
    parse_unknown_decl E T h14 fuel tok
  else if tok.id = TokenKind.tNEW ∨ tok.id = TokenKind.tSTATIC ∨ tok.id = TokenKind.tPUBLIC ∨
      tok.id = TokenKind.tSTOCK ∨ tok.id = TokenKind.tOPERATOR ∨ tok.id = TokenKind.tNATIVE ∨
      tok.id = TokenKind.tFORWARD then
    parse_unknown_decl E T h14 fuel tok
  else if tok.id = TokenKind.tSTATIC_ASSERT then
    parse_static_assert E T
  else if tok.id = TokenKind.tFUNCENUM ∨ tok.id = TokenKind.tFUNCTAG then
    error T.fatal_error_funcenum
    return none
  else if tok.id = TokenKind.tTYPEDEF then
    return some (← parse_typedef T)
  else if tok.id = TokenKind.tTYPESET then
    return some (← parse_typeset T fuel)
  else if tok.id = TokenKind.tSTRUCT then
    parse_pstruct T fuel
  else if tok.id = TokenKind.tCONST then
    parse_const E fuel StorageClass.sGLOBAL
  else if tok.id = TokenKind.tENUM then
    if (← matchtoken TokenKind.tSTRUCT) then
      modify T.decl_enumstruct
      return none
    else
      return some (← parse_enum E h14 fuel StorageClass.sGLOBAL)
  else if tok.id = TokenKind.tMETHODMAP then
    modify T.domethodmap
    return none
  else if tok.id = TokenKind.tUSING then
    return some (← parse_using T)
  else if tok.id = TokenKind.ch_rbrace then
    error 54
    return none
  else if tok.id = TokenKind.ch_lbrace then
    error 55
    return none
  else
    if (← freading) then
      error 10
      lexclr true
    return none

/-- The loop `while (freading)` of `Parser::parse`. The source returns nothing;
the list carried and returned here records the nodes on which `Process()` was
called, in the order of the calls. -/
def parse_loop (L : OpLists) (E : Externals) (T : TopExternals) :
    Nat → List Stmt → P (List Stmt)
  | 0, _ => failure
  | fuel + 1, processed => do
    if !(← freading) then
      return processed
    else
      match (← parse_toplevel L E T fuel) with
      | some decl =>
        modify (T.process decl)
        parse_loop L E T fuel (processed ++ [decl])
      | none => parse_loop L E T fuel processed

/-- The source's `Parser::parse`. -/
def parse (L : OpLists) (E : Externals) (T : TopExternals) (fuel : Nat) : P (List Stmt) :=
  SaveAndSet (·.sc_one_error_per_statement) set_one_error true (parse_loop L E T fuel [])

/-! ## The compile context (`v2/compile-context.cpp`) -/

/-- The messages that `ChangePragmaDynamic` reports (the message table
`messages.tbl` is outside the sources at hand). -/
inductive Message where
  | Message_PragmaDynamicIsNegative
  | Message_PragmaDynamicIsTooLarge
  deriving DecidableEq, Repr

/-- One entry of `CompileContext::errors_`, as `reportErrorVa` builds it: the
location and the message; the entry's `type` and text are read off the message
table at `msg`. -/
structure CompileError where
  loc : Nat
  msg : Message
  deriving DecidableEq, Repr

/-- The field of `CompileContext::options_` that `ChangePragmaDynamic` writes. -/
structure CompileOptions where
  PragmaDynamic : Nat
  deriving DecidableEq, Repr

/-- The part of a `CompileContext` that `ChangePragmaDynamic` and the error
reports touch. -/
structure CompileContext where
  options_ : CompileOptions
  errors_ : List CompileError
  deriving DecidableEq, Repr

/-- The fields of a `ReportingContext` next to its reference `cc_` to the
compile context (the constructor of `CompileContext` asserts that there is one
context only, so `cc_` is the context at hand). -/
structure ReportingContext where
  loc_ : Nat
  should_error_ : Bool
  deriving DecidableEq, Repr

/-- The source's `CompileContext::reportErrorVa(loc, msg, ap)`: one report is
appended to `errors_`. -/
def CompileContext.reportErrorVa (cc : CompileContext) (loc : Nat) (msg : Message) :
    CompileContext :=
  { cc with errors_ := cc.errors_ ++ [⟨loc, msg⟩] }

/-- The source's `ReportingContext::reportError(msg, ...)`, on the context that
`cc_` refers to. -/
def ReportingContext.reportError (rc : ReportingContext) (cc : CompileContext)
    (msg : Message) : CompileContext :=
  if !rc.should_error_ then cc
  else cc.reportErrorVa rc.loc_ msg

/-- The source's `CompileContext::ChangePragmaDynamic(rc, value)` on an
`int64_t value`: the result and the context afterwards. The constant `kMB` and
the bit width `size_bits` of `size_t` are declared outside the sources at hand
and are parameters; `64 * kMB` is a `size_t` product, `uint64_t(value)` and
`size_t(value)` reduce the value modulo `2 ^ 64` and `2 ^ size_bits`. -/
def CompileContext.ChangePragmaDynamic (kMB size_bits : Nat) (cc : CompileContext)
    (rc : ReportingContext) (value : Int) : Bool × CompileContext :=
  if value < 0 then
    (false, rc.reportError cc Message.Message_PragmaDynamicIsNegative)
  else if (value % 2 ^ 64).toNat ≥ (64 * kMB) % 2 ^ size_bits then
    (false, rc.reportError cc Message.Message_PragmaDynamicIsTooLarge)
  else
    (true, { cc with options_ := { cc.options_ with
      PragmaDynamic := (value % 2 ^ size_bits).toNat } })

/-! ## Definitions used by the statements

Node predicates of the expression grammar, the states the lexer primitives lead
to, the courses of the loops, and sample inputs. -/

/-- The operator tables of the levels 3 to 12, tightest level first. -/
def OpLists.tables (L : OpLists) : List (List TokenKind) :=
  [L.list3, L.list4, L.list5, L.list6, L.list7, L.list8, L.list9, L.list10, L.list11,
   L.list12]

/-- The operator table of level `k`. -/
def OpLists.table (L : OpLists) (k : Nat) : List TokenKind :=
  if k < 3 then [] else L.tables.getD (k - 3) []

/-- The index of the first table that holds the token. -/
def firstTable (t : TokenKind) : List (List TokenKind) → Option Nat
  | [] => none
  | l :: ls => if t ∈ l then some 0 else (firstTable t ls).map (· + 1)

/-- The level, 3 to 12, of the first operator table that holds the token. -/
def OpLists.level (L : OpLists) (t : TokenKind) : Option Nat :=
  (firstTable t L.tables).map (· + 3)

/-- The level of an expression whose top node is a `BinaryExpr` or `LogicalExpr`
with an operator of the levels 3 to 12. -/
def Expr.binLevel (L : OpLists) : Expr → Option Nat
  | .BinaryExpr _ t _ _ => L.level t
  | .LogicalExpr _ t _ _ => L.level t
  | _ => none

/-- The top node is a `BinaryExpr`, `LogicalExpr` or `ChainedCompareExpr`. -/
def Expr.isOperatorNode : Expr → Bool
  | .BinaryExpr _ _ _ _ | .LogicalExpr _ _ _ _ | .ChainedCompareExpr _ _ _ => true
  | _ => false

mutual
/-- The node predicate `p` holds at every node of the tree. -/
def Expr.allNodes (p : Expr → Bool) : Expr → Bool
  | .ErrorExpr => p .ErrorExpr
  | .NullExpr q => p (.NullExpr q)
  | .NumberExpr q v => p (.NumberExpr q v)
  | .FloatExpr q v => p (.FloatExpr q v)
  | .StringExpr q v => p (.StringExpr q v)
  | .ThisExpr q => p (.ThisExpr q)
  | .SymbolExpr q v => p (.SymbolExpr q v)
  | .SizeofExpr q n f t l => p (.SizeofExpr q n f t l)
  | .IsDefinedExpr q n => p (.IsDefinedExpr q n)
  | .ArrayExpr q es b => p (.ArrayExpr q es b) && Expr.allNodesList p es
  | .StructExpr q fs => p (.StructExpr q fs) && Expr.allNodesFields p fs
  | .NewArrayExpr q t es => p (.NewArrayExpr q t es) && Expr.allNodesList p es
  | .CommaExpr q es => p (.CommaExpr q es) && Expr.allNodesList p es
  | .UnaryExpr q t e => p (.UnaryExpr q t e) && e.allNodes p
  | .PreIncExpr q t e => p (.PreIncExpr q t e) && e.allNodes p
  | .PostIncExpr q t e => p (.PostIncExpr q t e) && e.allNodes p
  | .BinaryExpr q t l r => p (.BinaryExpr q t l r) && l.allNodes p && r.allNodes p
  | .LogicalExpr q t l r => p (.LogicalExpr q t l r) && l.allNodes p && r.allNodes p
  | .TernaryExpr q a b c => p (.TernaryExpr q a b c) && a.allNodes p && b.allNodes p && c.allNodes p
  | .ChainedCompareExpr q a os => p (.ChainedCompareExpr q a os) && a.allNodes p && Expr.allNodesOps p os
  | .CastExpr q t g e => p (.CastExpr q t g e) && e.allNodes p
  | .FieldAccessExpr q t e n => p (.FieldAccessExpr q t e n) && e.allNodes p
  | .IndexExpr q a b => p (.IndexExpr q a b) && a.allNodes p && b.allNodes p
  | .CallExpr q t e as => p (.CallExpr q t e as) && e.allNodes p && Expr.allNodesArgs p as
/-- `allNodes` on a list of expressions. -/
def Expr.allNodesList (p : Expr → Bool) : List Expr → Bool
  | [] => true
  | e :: es => e.allNodes p && Expr.allNodesList p es
/-- `allNodes` on the fields of a struct initialiser. -/
def Expr.allNodesFields (p : Expr → Bool) : List (String × Expr) → Bool
  | [] => true
  | (_, e) :: es => e.allNodes p && Expr.allNodesFields p es
/-- `allNodes` on the operands of a chained comparison. -/
def Expr.allNodesOps (p : Expr → Bool) : List (token_pos_t × TokenKind × Expr) → Bool
  | [] => true
  | (_, _, e) :: es => e.allNodes p && Expr.allNodesOps p es
/-- `allNodes` on the arguments of a call. -/
def Expr.allNodesArgs (p : Expr → Bool) : List (Option String × Option Expr) → Bool
  | [] => true
  | (_, none) :: es => Expr.allNodesArgs p es
  | (_, some e) :: es => e.allNodes p && Expr.allNodesArgs p es
end

/-- Partial correctness of a production: every value it returns satisfies `Q`. -/
def Post {α : Type} (m : P α) (Q : α → Prop) : Prop :=
  ∀ s a s', m s = some (a, s') → Q a

/-- The top node is no binary node of a level above `k`. -/
def Expr.Low (L : OpLists) (k : Nat) (e : Expr) : Prop :=
  ∀ j, e.binLevel L = some j → j ≤ k

/-- What a node predicate `p` must satisfy at the places where the parser
builds nodes: plain nodes, the assignments of `hier14`, the binary nodes of the
`plnge` levels and the chains of the `plnge_rel` level. -/
structure NodeRules (L : OpLists) (p : Expr → Bool) : Prop where
  plain : ∀ e : Expr, e.isOperatorNode = false → p e = true
  assign : ∀ q t l r, (t ∈ assign_ops ∨ t = TokenKind.ch_assign) →
    p (Expr.BinaryExpr q t l r) = true
  binary : ∀ k t, t ∈ L.table k → k ≠ 9 → ∀ q l r, Expr.Low L k l → Expr.Low L (k - 1) r →
    p (Expr.BinaryExpr q t l r) = true ∧ p (Expr.LogicalExpr q t l r) = true
  chain : ∀ q first ops, ops ≠ [] → (∀ o ∈ ops, o.2.1 ∈ L.list9) →
    p (Expr.ChainedCompareExpr q first ops) = true

/-- A child of a node of level `k` respects precedence: when it is itself a
binary node of the levels 3 to 12, its level is below `k`, or equal to `k`
where `strict` is off. -/
def childOK (L : OpLists) (k : Nat) (strict : Bool) (c : Expr) : Bool :=
  match c.binLevel L with
  | none => true
  | some j => if strict then decide (j < k) else decide (j ≤ k)

/-- The precedence condition at a `BinaryExpr`/`LogicalExpr` whose operator
belongs to a level `k` of 3 to 12: the left child is of level `k` or tighter, the
right child strictly tighter. Other nodes carry no condition. -/
def precNode (L : OpLists) : Expr → Bool
  | .BinaryExpr _ t l r | .LogicalExpr _ t l r =>
    match L.level t with
    | none => true
    | some k => childOK L k false l && childOK L k true r
  | _ => true

/-- A token of the given kind on line 1 at the given column. -/
def tk (id : TokenKind) (col : Nat) : token_t := ⟨id, 0, "", ⟨1, col⟩⟩

/-- A number token on line 1. -/
def num (v : Int) (col : Nat) : token_t := ⟨TokenKind.tNUMBER, v, "", ⟨1, col⟩⟩

/-- An identifier token on line 1. -/
def sym (name : String) (col : Nat) : token_t := ⟨TokenKind.tSYMBOL, 0, name, ⟨1, col⟩⟩

/-- The state in which parsing of a token stream starts: nothing consumed or
reported, semicolons required, tag casts allowed, all other flags off. -/
def init_state (toks : List token_t) : ParserState :=
  { consumed := [], rest := toks, errors := [], sc_needsemicolon := true,
    sc_intest := false, sc_allowtags := true, sc_require_newdecls := false,
    sc_one_error_per_statement := false, in_loop_ := false, indent_nowarn := false,
    stmtindent := 0, sc_tabsize := 8, fline := 0, errflag := false }

/-- Operator tables with the additive and multiplicative operators at levels 4
and 3, the relational operators at the level built with `plnge_rel`, and one
operator family at each other level. -/
def sample_lists : OpLists :=
  { list3 := [TokenKind.ch_star, TokenKind.ch_slash, TokenKind.ch_percent]
    list4 := [TokenKind.ch_plus, TokenKind.ch_minus]
    list5 := [TokenKind.tSHL, TokenKind.tSHR, TokenKind.tSHRU]
    list6 := [TokenKind.ch_amp]
    list7 := [TokenKind.ch_caret]
    list8 := [TokenKind.ch_bar]
    list9 := [TokenKind.tlLE, TokenKind.tlGE, TokenKind.ch_lt, TokenKind.ch_gt]
    list10 := [TokenKind.tlEQ, TokenKind.tlNE]
    list11 := [TokenKind.tlAND]
    list12 := [TokenKind.tlOR] }

/-- Collaborators for the sample runs: the type-name and declarator parsers
consume nothing, `exprconst` yields the constant 0, cells have 32 bits. -/
def sample_externals : Externals :=
  { parse_new_typename := fun _ s => ((true, 0), s)
    parse_new_typename1 := fun _ s => (0, s)
    pc_addtag := fun _ => 0
    parse_decl := fun d _ s => ((true, d), s)
    reparse_new_decl := fun d _ s => (d, s)
    reparse_old_decl := fun d _ s => (d, s)
    exprconst := fun s => ((true, 0, 0), s)
    cell_bits := 32 }

/-- The state reached from `init_state toks` once the first `n` tokens, all on
line 1, have been consumed and nothing was reported. -/
def consumed_state (toks : List token_t) (n : Nat) : ParserState :=
  { init_state (toks.drop n) with
    consumed := (toks.take n).reverse.map some
    fline := 1 }

open TokenKind

/-- The tokens of `a - b * (c + d) - e ;`. -/
def c1_tokens : List token_t :=
  [sym "a" 0, tk ch_minus 1, sym "b" 2, tk ch_star 3, tk ch_lparen 4, sym "c" 5, tk ch_plus 6,
   sym "d" 7, tk ch_rparen 8, tk ch_minus 9, sym "e" 10, tk ch_semicolon 11]

/-- The tree `hier12` builds for `c1_tokens`: `(a - b * (c + d)) - e`. -/
def c1_tree : Expr :=
  .BinaryExpr ⟨1, 9⟩ ch_minus
    (.BinaryExpr ⟨1, 1⟩ ch_minus (.SymbolExpr ⟨1, 0⟩ "a")
      (.BinaryExpr ⟨1, 3⟩ ch_star (.SymbolExpr ⟨1, 2⟩ "b")
        (.CommaExpr ⟨1, 4⟩
          [.BinaryExpr ⟨1, 6⟩ ch_plus (.SymbolExpr ⟨1, 5⟩ "c") (.SymbolExpr ⟨1, 7⟩ "d")])))
    (.SymbolExpr ⟨1, 10⟩ "e")

/-- The token `lex` hands out next. -/
def ParserState.peekTok (s : ParserState) : token_t := s.rest.headD eof_token

/-- The state after `lextok`. -/
def ParserState.adv (s : ParserState) : ParserState :=
  match s.rest with
  | [] => { s with consumed := none :: s.consumed }
  | t :: r =>
    { s with
      consumed := some t :: s.consumed
      rest := r
      fline := t.start.line
      stmtindent :=
        if t.start.line = (current_token s).start.line then s.stmtindent else t.start.col }

/-- The state after `lexpush`. -/
def ParserState.unlex (s : ParserState) : ParserState :=
  match s.consumed with
  | [] => s
  | none :: c => { s with consumed := c }
  | some t :: c => { s with consumed := c, rest := t :: s.rest }

/-- The state after a look at the next token: `lextok` followed by `lexpush`. -/
def ParserState.peeked (s : ParserState) : ParserState := s.adv.unlex

/-- The state after `error code`. -/
def ParserState.report (s : ParserState) (code : Nat) : ParserState :=
  if 200 ≤ code then { s with errors := s.errors ++ [code] }
  else if s.errflag then s
  else { s with errors := s.errors ++ [code], errflag := s.sc_one_error_per_statement }

/-- The state after `errorset(sRESET, 0)`. -/
def ParserState.reset (s : ParserState) : ParserState := { s with errflag := false }

/-- The flags of the parser state. -/
def ParserState.flags (s : ParserState) : Bool × Bool × Bool × Bool × Bool × Bool × Bool × Int :=
  (s.sc_needsemicolon, s.sc_intest, s.sc_allowtags, s.sc_require_newdecls,
   s.sc_one_error_per_statement, s.in_loop_, s.indent_nowarn, s.sc_tabsize)

/-- The expression a single number or identifier token stands for. -/
def operand (a : token_t) : Expr :=
  if a.id = tSYMBOL then Expr.SymbolExpr a.start a.str else Expr.NumberExpr a.start a.value

/-- A token that cannot follow an operand as a postfix operator and is not
swallowed as a statement terminator. -/
def after_operand (t : token_t) : Prop :=
  t.id ∉ [ch_dot, tDBLCOLON, ch_lbracket, ch_lparen, tINC, tDEC, tTERM, tENDEXPR]

/-- The node `plnge` builds for an operator token. -/
def mk_binary (pos : token_pos_t) (token : TokenKind) (left right : Expr) : Expr :=
  if token = tlOR ∨ token = tlAND then Expr.LogicalExpr pos token left right
  else Expr.BinaryExpr pos token left right

/-- The state in which `hier14` parses the right operand of an assignment: the
operator is consumed, and warning 211 is reported for `=` in a test. -/
def ParserState.afterAssign (s : ParserState) : ParserState :=
  if s.peekTok.id = ch_assign ∧ s.sc_intest = true then s.adv.report 211 else s.adv

/-- The tokens of `1 + 2 * 3 ;`. -/
def c2_tokens : List token_t :=
  [num 1 0, tk ch_plus 1, num 2 2, tk ch_star 3, num 3 4, tk ch_semicolon 5]

/-- The tokens of `a = b += c ;`. -/
def c3_tokens : List token_t :=
  [sym "a" 0, tk ch_assign 1, sym "b" 2, tk taADD 3, sym "c" 4, tk ch_semicolon 5]

/-- The course of the loop of `plnge_rel` entered in state `s` with the operator
of index `i` just consumed: each step parses one operand with `hier` and asks
`nextop` for a further operator; `ops` are the entries pushed and `s'` is the
state in which `nextop` finds no operator. -/
inductive CompareRun (opstr : List TokenKind) (hier : P Expr) :
    Nat → ParserState → List (token_pos_t × TokenKind × Expr) → ParserState → Prop
  | last (i : Nat) (s s1 s2 : ParserState) (e : Expr) :
      hier s = some (e, s1) → nextop opstr s1 = some (none, s2) →
      CompareRun opstr hier i s [((current_token s).start, opstr.getD i tEOF, e)] s2
  | more (i j : Nat) (s s1 s2 s3 : ParserState) (e : Expr)
      (ops : List (token_pos_t × TokenKind × Expr)) :
      hier s = some (e, s1) → nextop opstr s1 = some (some j, s2) →
      CompareRun opstr hier j s2 ops s3 →
      CompareRun opstr hier i s (((current_token s).start, opstr.getD i tEOF, e) :: ops) s3

/-- The condition on a `ChainedCompareExpr` node: at least one entry, every
operator out of `list9`. Other nodes carry no condition. -/
def chainNode (L : OpLists) : Expr → Bool
  | .ChainedCompareExpr _ _ ops => !ops.isEmpty && ops.all fun o => decide (o.2.1 ∈ L.list9)
  | _ => true

/-- The tokens of `a < b < c )`. -/
def c4_tokens : List token_t :=
  [sym "a" 0, tk ch_lt 1, sym "b" 2, tk ch_lt 3, sym "c" 4, tk ch_rparen 5]

/-- The operand level below the chained comparisons, for the sample tables. -/
def c4_hier8 : P Expr :=
  hier8 sample_lists sample_externals (hier14 sample_lists sample_externals 20) 20

/-- The entries of the chain for `c4_tokens`. -/
def c4_ops : List (token_pos_t × TokenKind × Expr) :=
  [(⟨1, 1⟩, ch_lt, Expr.SymbolExpr ⟨1, 2⟩ "b"), (⟨1, 3⟩, ch_lt, Expr.SymbolExpr ⟨1, 4⟩ "c")]

/-- The levels whose nodes are `BinaryExpr` or `LogicalExpr`: 3 to 12 without 9. -/
def plnge_levels : List Nat := [3, 4, 5, 6, 7, 8, 10, 11, 12]

/-- The condition on the operator of a node: a `BinaryExpr` carries an assignment
operator or an operator of a level other than 9, a `LogicalExpr` an operator of a
level other than 9, a `ChainedCompareExpr` at least one entry and operators of
`list9` only. -/
def levelNode (L : OpLists) : Expr → Bool
  | .BinaryExpr _ t _ _ =>
    decide (t ∈ assign_ops ∨ t = ch_assign) || plnge_levels.any fun k => decide (t ∈ L.table k)
  | .LogicalExpr _ t _ _ => plnge_levels.any fun k => decide (t ∈ L.table k)
  | .ChainedCompareExpr _ _ ops => !ops.isEmpty && ops.all fun o => decide (o.2.1 ∈ L.list9)
  | _ => true

/-- The tokens of `a & b < c ;`. -/
def c5_tokens : List token_t :=
  [sym "a" 0, tk ch_amp 1, sym "b" 2, tk ch_lt 3, sym "c" 4, tk ch_semicolon 5]

/-- The tokens of `a & b & c ;`. -/
def c5_amp_tokens : List token_t :=
  [sym "a" 0, tk ch_amp 1, sym "b" 2, tk ch_amp 3, sym "c" 4, tk ch_semicolon 5]

/-- Operator tables with the relational operators in `list6`. -/
def c5_rel_lists : OpLists := { sample_lists with list6 := [tlLE, tlGE, ch_lt, ch_gt], list9 := [ch_amp] }

/-- The tokens of `a < b < c ;`. -/
def c5_lt_tokens : List token_t :=
  [sym "a" 0, tk ch_lt 1, sym "b" 2, tk ch_lt 3, sym "c" 4, tk ch_semicolon 5]

/-- The tree of `a & b < c` under the sample tables. -/
def c5_tree : Expr :=
  .ChainedCompareExpr ⟨1, 3⟩
    (.BinaryExpr ⟨1, 1⟩ ch_amp (.SymbolExpr ⟨1, 0⟩ "a") (.SymbolExpr ⟨1, 2⟩ "b"))
    [(⟨1, 3⟩, ch_lt, .SymbolExpr ⟨1, 4⟩ "c")]

/-- The course of the loop of `primary` entered in state `s`: each step parses
one element with `h14`; a comma after it leads to the next element, any other
token ends the loop after a look at it. `es` are the elements pushed. -/
inductive CommaRun (h14 : P Expr) : ParserState → List Expr → ParserState → Prop
  | last (s s1 : ParserState) (e : Expr) :
      h14 s = some (e, s1) → s1.peekTok.id ≠ ch_comma → CommaRun h14 s [e] s1.peeked
  | more (s s1 s3 : ParserState) (e : Expr) (es : List Expr) :
      h14 s = some (e, s1) → s1.peekTok.id = ch_comma → CommaRun h14 s1.adv es s3 →
      CommaRun h14 s (e :: es) s3

/-- The tokens of `( a ) ;`. -/
def c6_tokens : List token_t :=
  [tk ch_lparen 0, sym "a" 1, tk ch_rparen 2, tk ch_semicolon 3]

/-- The tokens of `( a , b ) ;`. -/
def c6_pair_tokens : List token_t :=
  [tk ch_lparen 0, sym "a" 1, tk ch_comma 2, sym "b" 3, tk ch_rparen 4, tk ch_semicolon 5]

/-- The look-ahead rule in the words of the specification: after a first
identifier, the statement is a declaration when the next token is another
identifier, or when the next two tokens are `[` and `]`. -/
def spec_is_decl (r : List token_t) : Bool :=
  match r with
  | [] => false
  | b :: r' =>
    decide (b.id = tSYMBOL) ||
      (decide (b.id = ch_lbracket) && decide ((r'.headD eof_token).id = ch_rbracket))

/-- The tokens of `a [ ] b ;` after the identifier `a`. -/
def c7_rest : List token_t :=
  [tk ch_lbracket 1, tk ch_rbracket 2, sym "b" 3, tk ch_semicolon 4]

/-- An entry of `CallExpr.args` that carries a name. -/
def arg_named (a : Option String × Option Expr) : Bool := a.1.isSome

/-- The start of one argument, in the words of the specification: `.name =`
introduces a named argument; any other start is a positional argument, for which
error 44 is reported exactly when an earlier argument of the call was named. -/
inductive ArgHead : Bool → ParserState → Option String → ParserState → Prop
  | named (earlier : Bool) (s : ParserState) :
      s.peekTok.id = ch_dot → s.adv.peekTok.id = tSYMBOL → s.adv.adv.peekTok.id = ch_assign →
      ArgHead earlier s (some s.adv.peekTok.str) s.adv.adv.adv
  | positional (earlier : Bool) (s : ParserState) :
      s.peekTok.id ≠ ch_dot →
      ArgHead earlier s none (if earlier then s.peeked.report 44 else s.peeked)

/-- The value of one argument: the placeholder `_`, or an expression parsed by
`h14`. -/
inductive ArgValue (h14 : P Expr) : ParserState → Option Expr → ParserState → Prop
  | skip (s : ParserState) : s.peekTok.id = ch_underscore → ArgValue h14 s none s.adv
  | expr (s s1 : ParserState) (e : Expr) :
      s.peekTok.id ≠ ch_underscore → h14 s.peeked = some (e, s1) → ArgValue h14 s (some e) s1

/-- A well-formed argument list `arg, ..., arg )` read from state `s` after the
arguments `prev`: the arguments in source order and the state after the closing
parenthesis. -/
inductive ArgRun (h14 : P Expr) :
    List (Option String × Option Expr) → ParserState →
      List (Option String × Option Expr) → ParserState → Prop
  | last (prev : List (Option String × Option Expr)) (s sa sb : ParserState)
      (name : Option String) (expr : Option Expr) :
      ArgHead (prev.any arg_named) s name sa → ArgValue h14 sa expr sb →
      sb.peekTok.id = ch_rparen → ArgRun h14 prev s [(name, expr)] sb.adv
  | more (prev new : List (Option String × Option Expr)) (s sa sb s' : ParserState)
      (name : Option String) (expr : Option Expr) :
      ArgHead (prev.any arg_named) s name sa → ArgValue h14 sa expr sb →
      sb.peekTok.id = ch_comma → sb.adv.rest ≠ [] → sb.adv.peekTok.id ≠ tENDEXPR →
      ArgRun h14 (prev ++ [(name, expr)]) sb.adv.peeked new s' →
      ArgRun h14 prev s ((name, expr) :: new) s'

/-- The number of reports of error 44 so far. -/
def count44 (s : ParserState) : Nat := s.errors.count 44

/-- The number of positional entries that come after a named one; `named` tells
whether a named entry precedes the list. -/
def late_positional : Bool → List (Option String × Option Expr) → Nat
  | _, [] => 0
  | named, a :: rest =>
    (if named && !arg_named a then 1 else 0) + late_positional (named || arg_named a) rest

/-- The sum of a measure `v` over the expressions of the entries. -/
def arg_sum (v : Expr → Nat) (args : List (Option String × Option Expr)) : Nat :=
  (args.map fun a => match a.2 with
    | some e => v e
    | none => 0).sum

/-- Every outcome of `m` from state `s` satisfies `Q`. -/
def Tr {α : Type} (m : P α) (s : ParserState) (Q : α → ParserState → Prop) : Prop :=
  ∀ a s', m s = some (a, s') → Q a s'

/-- The reports of `s'` are the ones of `s` followed by `w`, and a pending
error in `s'` was pending in `s` already or comes with a report. -/
def Extends (s s' : ParserState) : Prop :=
  ∃ w, s'.errors = s.errors ++ w ∧ (s'.errflag = true → s.errflag = true ∨ w ≠ [])

/-- The production only adds reports, and leaves an error pending only when one
was pending before or when it has added a report. -/
def Grows {α : Type} (m : P α) : Prop :=
  ∀ s a s', m s = some (a, s') → Extends s s'

/-- The accounting of the late positional arguments under the latch: the state
extends, and when `k` is positive an error was pending before or a report was
added. -/
def LateRel (k : Nat) (s s' : ParserState) : Prop :=
  ∃ w, s'.errors = s.errors ++ w ∧ (s'.errflag = true → s.errflag = true ∨ w ≠ []) ∧
    (0 < k → s.errflag = true ∨ w ≠ [])

/-- The tokens of the argument list `1, .k = 2, 3)` and the `;` after it. -/
def c8_tokens : List token_t :=
  [num 1 0, tk ch_comma 1, tk ch_dot 2, sym "k" 3, tk ch_assign 4, num 2 5, tk ch_comma 6,
   num 3 7, tk ch_rparen 8, tk ch_semicolon 9]

/-- The entries of the call for `c8_tokens`. -/
def c8_args : List (Option String × Option Expr) :=
  [(none, some (Expr.NumberExpr ⟨1, 0⟩ 1)), (some "k", some (Expr.NumberExpr ⟨1, 5⟩ 2)),
   (none, some (Expr.NumberExpr ⟨1, 7⟩ 3))]

/-- The state after `n` tokens of `c8_tokens` with error 44 reported. -/
def c8_state (n : Nat) : ParserState := { consumed_state c8_tokens n with errors := [44] }

/-- The tokens of the statement `f(.k = 1, 2, 3);`. -/
def c8_pending_tokens : List token_t :=
  [sym "f" 0, tk ch_lparen 1, tk ch_dot 2, sym "k" 3, tk ch_assign 4, num 1 5, tk ch_comma 6,
   num 2 7, tk ch_comma 8, num 3 9, tk ch_rparen 10, tk ch_semicolon 11]

/-- The entries of the call for `c8_pending_tokens`. -/
def c8_pending_args : List (Option String × Option Expr) :=
  [(some "k", some (Expr.NumberExpr ⟨1, 5⟩ 1)), (none, some (Expr.NumberExpr ⟨1, 7⟩ 2)),
   (none, some (Expr.NumberExpr ⟨1, 9⟩ 3))]

/-- The tokens of the statement `f(.k = ], 2);`. -/
def c8_bracket_tokens : List token_t :=
  [sym "f" 0, tk ch_lparen 1, tk ch_dot 2, sym "k" 3, tk ch_assign 4, tk ch_rbracket 5,
   tk ch_comma 6, num 2 7, tk ch_rparen 8, tk ch_semicolon 9]

/-- The entries of the call for `c8_bracket_tokens`. -/
def c8_bracket_args : List (Option String × Option Expr) :=
  [(some "k", some Expr.ErrorExpr), (none, some (Expr.NumberExpr ⟨1, 7⟩ 2))]

/-- An operand parser that takes one token as a number. -/
def c8_h14 : P Expr := do
  let t ← lex
  return Expr.NumberExpr t.start t.value

/-- Collaborators for the sample runs with declarations: the declarator parser
takes one token as the type and the next as the name. -/
def decl_externals : Externals :=
  { sample_externals with
    parse_decl := fun d _ s =>
      match s.rest with
      | _ :: nm :: _ => ((true, { d with name := nm.str }), s.adv.adv)
      | _ => ((false, d), s) }

/-- The tokens of `for (int i = 0; i < n; i++) break;`. -/
def c9_tokens : List token_t :=
  [tk tFOR 0, tk ch_lparen 1, tk tINT 2, sym "i" 3, tk ch_assign 4, num 0 5, tk ch_semicolon 6,
   sym "i" 7, tk ch_lt 8, sym "n" 9, tk ch_semicolon 10, sym "i" 11, tk tINC 12,
   tk ch_rparen 13, tk tBREAK 14, tk ch_semicolon 15]

/-- The statement `parse_stmt` builds for `c9_tokens`. -/
def c9_tree : Stmt :=
  .ForStmt ⟨1, 0⟩
    (some (.VarDecl ⟨1, 3⟩ "i" typeinfo_zero StorageClass.sLOCAL false false false
      (some (.NumberExpr ⟨1, 5⟩ 0)) true))
    (some (.ChainedCompareExpr ⟨1, 8⟩ (.SymbolExpr ⟨1, 7⟩ "i")
      [(⟨1, 8⟩, ch_lt, .SymbolExpr ⟨1, 9⟩ "n")]))
    (some (.PostIncExpr ⟨1, 12⟩ tINC (.SymbolExpr ⟨1, 11⟩ "i")))
    (.LoopControlStmt ⟨1, 14⟩ tBREAK)

/-- The state in which the body of the loop of `c9_tokens` is parsed. -/
def c9_body_state : ParserState := set_in_loop true (consumed_state c9_tokens 14)

/-- The tokens of `switch (x) { default: a; case 1: b; }`. -/
def c10_tokens : List token_t :=
  [tk tSWITCH 0, tk ch_lparen 1, sym "x" 2, tk ch_rparen 3, tk ch_lbrace 4, tk tDEFAULT 5,
   tk ch_colon 6, sym "a" 7, tk ch_semicolon 8, tk tCASE 9, num 1 10, tk ch_colon 11,
   sym "b" 12, tk ch_semicolon 13, tk ch_rbrace 14]

/-- The tokens of `switch (x) { default: a case 1: b; }`, the `;` after `a`
missing. -/
def c10_pending_tokens : List token_t :=
  [tk tSWITCH 0, tk ch_lparen 1, sym "x" 2, tk ch_rparen 3, tk ch_lbrace 4, tk tDEFAULT 5,
   tk ch_colon 6, sym "a" 7, tk tCASE 9, num 1 10, tk ch_colon 11, sym "b" 12,
   tk ch_semicolon 13, tk ch_rbrace 14]

/-- The statement of the default clause of `c10_tokens`. -/
def c10_default : Stmt := .ExprStmt ⟨1, 7⟩ (.SymbolExpr ⟨1, 7⟩ "a")

/-- The statement of the case clause of `c10_tokens`. -/
def c10_case : Stmt := .ExprStmt ⟨1, 12⟩ (.SymbolExpr ⟨1, 12⟩ "b")

/-- The state after `n` tokens of `c10_tokens` with error 15 reported. -/
def c10_state (n : Nat) : ParserState := { consumed_state c10_tokens n with errors := [15] }

/-- The course of the label loop of `parse_case` entered in state `s`: each
label is one call of `h14`, made with tag names not allowed and followed by a
look for `..`; a comma after it leads to the next label, a colon ends the list
after a look at it. `es` are the labels pushed. -/
inductive LabelRun (h14 : P Expr) : ParserState → List Expr → ParserState → Prop
  | last (s s1 : ParserState) (e : Expr) :
      h14 (set_sc_allowtags false s) = some (e, s1) → s1.peekTok.id = ch_colon →
      LabelRun h14 s [e] (set_sc_allowtags s.sc_allowtags s1.peeked).peeked
  | more (s s1 s3 : ParserState) (e : Expr) (es : List Expr) :
      h14 (set_sc_allowtags false s) = some (e, s1) → s1.peekTok.id = ch_comma →
      LabelRun h14 (set_sc_allowtags s.sc_allowtags s1.peeked).adv es s3 →
      LabelRun h14 s (e :: es) s3

/-- The tokens of `switch (x) { case 1, 2: a(); default: b(); }`. -/
def c11_tokens : List token_t :=
  [tk tSWITCH 0, tk ch_lparen 1, sym "x" 2, tk ch_rparen 3, tk ch_lbrace 4, tk tCASE 5,
   num 1 6, tk ch_comma 7, num 2 8, tk ch_colon 9, sym "a" 10, tk ch_lparen 11,
   tk ch_rparen 12, tk ch_semicolon 13, tk tDEFAULT 14, tk ch_colon 15, sym "b" 16,
   tk ch_lparen 17, tk ch_rparen 18, tk ch_semicolon 19, tk ch_rbrace 20]

/-- The statement of the case clause of `c11_tokens`. -/
def c11_case : Stmt :=
  .ExprStmt ⟨1, 11⟩ (.CallExpr ⟨1, 11⟩ ch_lparen (.SymbolExpr ⟨1, 10⟩ "a") [])

/-- The statement of the default clause of `c11_tokens`. -/
def c11_default : Stmt :=
  .ExprStmt ⟨1, 17⟩ (.CallExpr ⟨1, 17⟩ ch_lparen (.SymbolExpr ⟨1, 16⟩ "b") [])

/-- The labels of the case clause of `c11_tokens`. -/
def c11_labels : List Expr := [.NumberExpr ⟨1, 6⟩ 1, .NumberExpr ⟨1, 8⟩ 2]

/-- The block of `parse_for` that fills the slots `cond` and `advance`:
`if (!matchtoken(endtok)) { e = parse_expr(false); needtoken(endtok); }`. -/
def parse_for_slot (h14 : P Expr) (fuel : Nat) (endtok : TokenKind) : P (Option Expr) := do
  if (← matchtoken endtok) then return none
  else
    let e ← parse_expr h14 fuel false
    let _ ← needtoken endtok
    return some e

/-- The tokens of `for ( ; ; ) { }`. -/
def c12_tokens : List token_t :=
  [tk tFOR 0, tk ch_lparen 1, tk ch_semicolon 2, tk ch_semicolon 3, tk ch_rparen 4,
   tk ch_lbrace 5, tk ch_rbrace 6]

/-- The tokens of `exit ; x ;`. -/
def c13_tokens : List token_t :=
  [tk tEXIT 0, tk ch_semicolon 1, sym "x" 2, tk ch_semicolon 3]

/-- The tokens of `return ; x ;`. -/
def c13_return_tokens : List token_t :=
  [tk tRETURN 0, tk ch_semicolon 1, sym "x" 2, tk ch_semicolon 3]

/-- The tokens of `exit x ;`. -/
def c13_value_tokens : List token_t :=
  [tk tEXIT 0, sym "x" 1, tk ch_semicolon 2]

/-- The state in which the statement loop of `parse_compound` starts: with
`sameline` the statement indent is the one that `sameline_indent` gives, and
there is no such state where an assertion of that walk fails. -/
def compound_entry (sameline : Bool) (s : ParserState) : Option ParserState :=
  if sameline then (sameline_indent s).map fun c => { s with stmtindent := c }
  else some s

/-- The course of the statement loop of `parse_compound` from state `s` with the
indent `indent`, as long as it goes on: the next token is no `}`, the input is
not at its end, and `pstmt` parses one statement. `rs` are the results of these
calls in source order (`none` for a null statement) and the last state is the
one in which the loop looks for `}` again. -/
inductive BlockRun (pstmt : Option Int → Bool → P StmtResult) :
    Int → ParserState → List (Option Stmt) → ParserState → Prop
  | done (indent : Int) (s : ParserState) : BlockRun pstmt indent s [] s
  | step (indent : Int) (s s1 s' : ParserState) (stmt : Option Stmt) (li : Option Int)
      (rs : List (Option Stmt)) :
      s.peekTok.id ≠ ch_rbrace → s.rest ≠ [] →
      pstmt (some indent) true s.peeked = some ((stmt, li), s1) →
      BlockRun pstmt (li.getD indent) s1 rs s' → BlockRun pstmt indent s (stmt :: rs) s'

/-- The tokens of `{ a ; b ;` with the end of input in place of the `}`. -/
def c14_tokens : List token_t :=
  [tk ch_lbrace 0, sym "a" 1, tk ch_semicolon 2, sym "b" 3, tk ch_semicolon 4]

/-- The tokens of `{ a ; b ; }`. -/
def c14_closed_tokens : List token_t := c14_tokens ++ [tk ch_rbrace 5]

/-- The state after `n` tokens of `c14_tokens`, the statement indent at the
column of the first statement. -/
def c14_state (n : Nat) : ParserState := { consumed_state c14_tokens n with stmtindent := 1 }

/-- The state after `n` tokens of `c14_closed_tokens`, the statement indent at
the column of the first statement. -/
def c14_closed_state (n : Nat) : ParserState :=
  { consumed_state c14_closed_tokens n with stmtindent := 1 }

/-- The tokens of `{ a`, the input ending there. -/
def c14_open_tokens : List token_t := [tk ch_lbrace 0, sym "a" 1]

/-- The tokens of `{ {` and, on the next line, `a ;`, the input ending there. -/
def c14_split_tokens : List token_t :=
  [tk ch_lbrace 0, tk ch_lbrace 2, ⟨tSYMBOL, 0, "a", ⟨2, 4⟩⟩, ⟨ch_semicolon, 0, "", ⟨2, 6⟩⟩]

/-- The tokens of `{ { a ; } b ; }` on one line. -/
def c14_nested_tokens : List token_t :=
  [tk ch_lbrace 0, tk ch_lbrace 2, sym "a" 4, tk ch_semicolon 6, tk ch_rbrace 8, sym "b" 10,
   tk ch_semicolon 12, tk ch_rbrace 14]

/-- The statements of the block of `c14_tokens`. -/
def c14_stmts : List Stmt :=
  [.ExprStmt ⟨1, 1⟩ (.SymbolExpr ⟨1, 1⟩ "a"), .ExprStmt ⟨1, 3⟩ (.SymbolExpr ⟨1, 3⟩ "b")]

/-- Collaborators of the top-level productions for the sample runs: a function
type is one token, a field declarator a type token and a name, `require_newline`
takes a semicolon when one is next, `newfunc` takes the rest of the line, and
`Process()` leaves the mark 1000 in the error sink. -/
def sample_top : TopExternals :=
  { funcstub := fun _ _ s => s
    newfunc := fun _ _ _ _ s => (true, { s with rest := [] })
    is_struct_tag := fun _ => false
    parse_function_type := fun s => (⟨s.peekTok.value.toNat⟩, s.adv)
    parse_new_decl := fun d _ s =>
      match s.rest with
      | _ :: nm :: _ => ((true, { d with name := nm.str }), s.adv.adv)
      | _ => ((false, d), s)
    require_newline := fun _ s => if s.peekTok.id = ch_semicolon then s.adv else s
    decl_enumstruct := fun s => s
    domethodmap := fun s => s
    process := fun _ s => s.report 1000
    iVARIABLE := 1
    fatal_error_funcenum := 0 }

/-- The tokens of `typeset T {`, the input ending there. -/
def c15_tokens : List token_t := [tk tTYPESET 0, sym "T" 1, tk ch_lbrace 2]

/-- The state after `lexclr(TRUE)`: the rest of the current line is dropped. -/
def ParserState.dropLine (s : ParserState) : ParserState :=
  { s with rest := s.rest.dropWhile fun t => decide (t.start.line = s.fline) }

/-- The storage flags `(fpublic, fstock, fstatic)` that `parse_unknown_decl`
takes from the leading keyword `tok`, and the state after its look for a second
keyword. -/
def decl_storage (tok : token_t) (s : ParserState) : (Bool × Bool × Bool) × ParserState :=
  if tok.id = tPUBLIC then ((true, false, false), s)
  else if tok.id = tSTOCK then
    if s.peekTok.id = tSTATIC then ((false, true, true), s.adv)
    else ((false, true, false), s.peeked)
  else if tok.id = tSTATIC then
    if s.peekTok.id = tSTOCK then ((false, true, true), s.adv)
    else ((false, false, true), s.peeked)
  else ((false, false, false), s)

/-- The flags `parse_unknown_decl` hands to `parse_decl`. -/
def decl_flags (tok : token_t) : List DeclFlag :=
  if tok.id = tNEW then
    [DeclFlag.MAYBE_FUNCTION, DeclFlag.VARIABLE, DeclFlag.ENUMROOT, DeclFlag.OLD]
  else
    [DeclFlag.MAYBE_FUNCTION, DeclFlag.VARIABLE, DeclFlag.ENUMROOT]

/-- The declarator `parse_unknown_decl` goes on with: the tag is reset when
`parse_decl` failed. -/
def checked_decl (ok : Bool) (d : declinfo_t) : declinfo_t :=
  if ok then d else { d with type := { d.type with tag := 0 } }

/-- The hints of the specification: the declarator has post-dims, or the next
token is not `(`, or the declarator is const, or the keyword was `new`. -/
def probably_variable (tok : token_t) (d : declinfo_t) (s : ParserState) : Bool :=
  d.type.has_postdims || decide (s.peekTok.id ≠ ch_lparen) || d.type.is_const ||
    decide (tok.id = tNEW)

/-- The state after the hints are evaluated: the next token is looked at unless
the keyword `new` or the post-dims have settled the matter. -/
def hint_state (tok : token_t) (d : declinfo_t) (s : ParserState) : ParserState :=
  if tok.id = tNEW ∨ d.type.has_postdims = true then s else s.peeked

/-- The state in which a variable is parsed: error 143 is reported for a
new-style declarator after `new`. -/
def var_state (tok : token_t) (d : declinfo_t) (s : ParserState) : ParserState :=
  if tok.id = tNEW ∧ d.type.is_new = true then s.report 143 else s

/-- The state after the function path: when `newfunc` fails, error 10 is
reported and the rest of the line is dropped. -/
def func_state (T : TopExternals) (d : declinfo_t) (fpublic fstatic fstock : Bool)
    (s : ParserState) : ParserState :=
  if (T.newfunc d fpublic fstatic fstock s).1 then (T.newfunc d fpublic fstatic fstock s).2
  else ((T.newfunc d fpublic fstatic fstock s).2.report 10).dropLine

/-- The tokens of `int x = 5 ;` and of `int f ( ) ;`. -/
def c16_var_tokens : List token_t :=
  [tk tINT 0, sym "x" 1, tk ch_assign 2, num 5 3, tk ch_semicolon 4]

/-- The tokens of `int f ( ) ;`. -/
def c16_func_tokens : List token_t :=
  [tk tINT 0, sym "f" 1, tk ch_lparen 2, tk ch_rparen 3, tk ch_semicolon 4]

/-- The state after a top-level production has returned `r`: `Process()` runs on
a node, nothing happens for a null result. -/
def delivered (T : TopExternals) (r : Option Stmt) (s : ParserState) : ParserState :=
  match r with
  | some decl => T.process decl s
  | none => s

/-- The course of the loop of `Parser::parse` from state `s` with the given
fuel: as long as the input has not ended, the next top-level production runs
from the state left by the delivery of the one before. `rs` are the results of
the productions in source order, the last state is the one at the end of input. -/
inductive TopRun (L : OpLists) (E : Externals) (T : TopExternals) :
    Nat → ParserState → List (Option Stmt) → ParserState → Prop
  | done (fuel : Nat) (s : ParserState) : s.rest = [] → TopRun L E T (fuel + 1) s [] s
  | step (fuel : Nat) (s s1 s' : ParserState) (r : Option Stmt) (rs : List (Option Stmt)) :
      s.rest ≠ [] → parse_toplevel L E T fuel s = some (r, s1) →
      TopRun L E T fuel (delivered T r s1) rs s' → TopRun L E T (fuel + 1) s (r :: rs) s'

/-- The leading tokens for which the switch of `Parser::parse` leaves `decl`
null whatever follows. -/
def no_node_kinds : List TokenKind :=
  [tNATIVE, tFORWARD, tFUNCENUM, tFUNCTAG, tMETHODMAP, ch_rbrace, ch_lbrace]

/-- Collaborators for the sample runs with constants: `exprconst` takes one
token, which is a constant when it is a number, and yields its value and the tag
7; the tag name `Float` has the tag 5. -/
def const_externals : Externals :=
  { decl_externals with
    exprconst := fun s => ((decide (s.peekTok.id = tNUMBER), s.peekTok.value, 7), s.adv)
    pc_addtag := fun name => if name = "Float" then 5 else 0 }

/-- Collaborators of the top-level productions for the sample runs in which
`funcstub` takes one token, the terminator. -/
def stub_top : TopExternals := { sample_top with funcstub := fun _ _ s => s.adv }

/-- The tokens of `const a = 1 ; native int f ; const b = 2 ;`. -/
def c17_tokens : List token_t :=
  [tk tCONST 0, sym "a" 1, tk ch_assign 2, num 1 3, tk ch_semicolon 4, tk tNATIVE 5, tk tINT 6,
   sym "f" 7, tk ch_semicolon 8, tk tCONST 9, sym "b" 10, tk ch_assign 11, num 2 12,
   tk ch_semicolon 13]

/-- The type of an untagged constant. -/
def const_type : typeinfo_t := { typeinfo_zero with is_const := true }

/-- The first declaration of `c17_tokens`. -/
def c17_a : Stmt := .ConstDecl ⟨1, 0⟩ "a" const_type StorageClass.sGLOBAL 7 1

/-- The last declaration of `c17_tokens`. -/
def c17_b : Stmt := .ConstDecl ⟨1, 9⟩ "b" const_type StorageClass.sGLOBAL 7 2

/-- The state after `n` tokens of `c17_tokens` with `k` marks of `Process()`,
inside `Parser::parse`. -/
def c17_state (n k : Nat) : ParserState :=
  { consumed_state c17_tokens n with
    errors := List.replicate k 1000, sc_one_error_per_statement := true }

/-- The tokens of `enum { A }` and, on the next line, `const b = 2 ;`. -/
def c17_enum_tokens : List token_t :=
  [tk tENUM 0, tk ch_lbrace 5, sym "A" 7, tk ch_rbrace 9, ⟨tCONST, 0, "", ⟨2, 0⟩⟩,
   ⟨tSYMBOL, 0, "b", ⟨2, 6⟩⟩, ⟨ch_assign, 0, "", ⟨2, 8⟩⟩, ⟨tNUMBER, 2, "", ⟨2, 10⟩⟩,
   ⟨ch_semicolon, 0, "", ⟨2, 12⟩⟩]

/-- The declaration of line 1 of `c17_enum_tokens`. -/
def c17_enum : Stmt :=
  .EnumDecl ⟨1, 0⟩ StorageClass.sGLOBAL none none 1 1 [(⟨1, 7⟩, "A", none)]

/-- The declaration of line 2 of `c17_enum_tokens`. -/
def c17_const : Stmt := .ConstDecl ⟨2, 0⟩ "b" const_type StorageClass.sGLOBAL 7 2

/-- Collaborators of the top-level productions for the sample runs in which
`Process()` records the line the lexer is on: the mark is 1000 plus `fline`. -/
def line_top : TopExternals := { stub_top with process := fun _ s => s.report (1000 + s.fline) }

/-- The tag part of one entry of a `const` declaration read in state `s`, with
the tag it denotes and the state before the name: a label `Tag:`, whose tag is
`pc_addtag` of the label; nothing, for a name that no identifier follows, with
the tag 0; or a type name, handed to `parse_new_typename`. -/
inductive ConstTag (E : Externals) : ParserState → Int → ParserState → Prop
  | label (s : ParserState) :
      s.peekTok.id = tLABEL → ConstTag E s (E.pc_addtag s.peekTok.str) s.adv
  | plain (s : ParserState) :
      s.peekTok.id = tSYMBOL → s.adv.peekTok.id ≠ tSYMBOL →
      ConstTag E s 0 s.adv.peeked.unlex
  | keyword (s : ParserState) :
      s.peekTok.id = tINT ∨ s.peekTok.id = tOBJECT ∨ s.peekTok.id = tCHAR →
      ConstTag E s (E.parse_new_typename1 s.peekTok s.adv).1
        (E.parse_new_typename1 s.peekTok s.adv).2
  | typename (s : ParserState) :
      s.peekTok.id = tSYMBOL → s.adv.peekTok.id = tSYMBOL →
      ConstTag E s (E.parse_new_typename1 s.peekTok s.adv.peeked).1
        (E.parse_new_typename1 s.peekTok s.adv.peeked).2

/-- One entry `[tag:] name = const-expr` of a `const` declaration read in state
`s`: the `ConstDecl` it stands for, with the name of the entry, the tag of its
tag part in a const type, the storage class, and the value and tag that
`exprconst` reports for the initialiser; and the state after the initialiser. -/
inductive ConstEntry (E : Externals) (vclass : StorageClass) :
    ParserState → Stmt → ParserState → Prop
  | mk (s sT : ParserState) (tag : Int) :
      ConstTag E s tag sT → sT.peekTok.id = tSYMBOL → sT.adv.peekTok.id = ch_assign →
      ConstEntry E vclass s
        (Stmt.ConstDecl (current_token s).start sT.peekTok.str
          { typeinfo_zero with tag := tag, is_const := true } vclass
          (E.exprconst sT.adv.adv).1.2.2 (E.exprconst sT.adv.adv).1.2.1)
        (E.exprconst sT.adv.adv).2

/-- The entries `entry, ..., entry` of a `const` declaration read from state `s`:
their `ConstDecl`s in source order and the state after a look at the token that
follows the last one, which is no comma. -/
inductive ConstRun (E : Externals) (vclass : StorageClass) :
    ParserState → List Stmt → ParserState → Prop
  | last (s sE : ParserState) (d : Stmt) :
      ConstEntry E vclass s d sE → sE.peekTok.id ≠ ch_comma →
      ConstRun E vclass s [d] sE.peeked
  | more (s sE s' : ParserState) (d : Stmt) (ds : List Stmt) :
      ConstEntry E vclass s d sE → sE.peekTok.id = ch_comma →
      ConstRun E vclass sE.adv ds s' → ConstRun E vclass s (d :: ds) s'

/-- What `parse_const` returns for the declarations of its entries: the single
one, or the `StmtList` of all at the position of the second. -/
def const_result : List Stmt → Option Stmt
  | [] => none
  | [d] => some d
  | d1 :: d2 :: ds => some (Stmt.StmtList d2.pos (d1 :: d2 :: ds))

/-- The bookkeeping of `parse_const` for one more declaration `var`. -/
def const_push (acc : Option Stmt × Option (token_pos_t × List Stmt)) (var : Stmt) :
    Option Stmt × Option (token_pos_t × List Stmt) :=
  match acc.1 with
  | some first =>
    match acc.2 with
    | some l => (some first, some (l.1, l.2 ++ [var]))
    | none => (some first, some (var.pos, [first, var]))
  | none => (some var, acc.2)

/-- The tokens of `const Float:pi = 314 ;`. -/
def c18_tokens : List token_t :=
  [tk tCONST 0, ⟨tLABEL, 0, "Float", ⟨1, 1⟩⟩, sym "pi" 2, tk ch_assign 3, num 314 4,
   tk ch_semicolon 5]

/-- The tokens of `const a = 1 , Float:b = 2 ;`. -/
def c18_pair_tokens : List token_t :=
  [tk tCONST 0, sym "a" 1, tk ch_assign 2, num 1 3, tk ch_comma 4, ⟨tLABEL, 0, "Float", ⟨1, 5⟩⟩,
   sym "b" 6, tk ch_assign 7, num 2 8, tk ch_semicolon 9]

/-- The declaration of `c18_tokens`. -/
def c18_pi : Stmt :=
  .ConstDecl ⟨1, 0⟩ "pi" { typeinfo_zero with tag := 5, is_const := true }
    StorageClass.sGLOBAL 7 314

/-- The tokens of `static_assert ( 1 , "msg" ) ;`. -/
def c19_tokens : List token_t :=
  [tk tSTATIC_ASSERT 0, tk ch_lparen 1, num 1 2, tk ch_comma 3, ⟨tSTRING, 0, "msg", ⟨1, 4⟩⟩,
   tk ch_rparen 5, tk ch_semicolon 6]

/-- The tokens of `static_assert ( x ) ;`. -/
def c19_var_tokens : List token_t :=
  [tk tSTATIC_ASSERT 0, tk ch_lparen 1, sym "x" 2, tk ch_rparen 3, tk ch_semicolon 4]

/-- The tokens after `using` are the identifier `__intrinsics__`, a dot and the
identifier `Handle`. -/
def using_handle (s : ParserState) : Prop :=
  s.peekTok.id = tSYMBOL ∧ s.peekTok.str = "__intrinsics__" ∧ s.adv.peekTok.id = ch_dot ∧
    s.adv.adv.peekTok.id = tSYMBOL ∧ s.adv.adv.peekTok.str = "Handle"

instance (s : ParserState) : Decidable (using_handle s) := by
  unfold using_handle
  infer_instance

/-- The tokens of `using __intrinsics__ . Handle ;`. -/
def c20_tokens : List token_t :=
  [tk tUSING 0, sym "__intrinsics__" 1, tk ch_dot 2, sym "Handle" 3, tk ch_semicolon 4]

/-- The tokens of `using __intrinsics__ . Other ;` and a brace on the next line. -/
def c20_other_tokens : List token_t :=
  [tk tUSING 0, sym "__intrinsics__" 1, tk ch_dot 2, sym "Other" 3, tk ch_semicolon 4,
   ⟨ch_rbrace, 0, "", ⟨2, 0⟩⟩]

/-- After `using`, an identifier stands where `__intrinsics__` or `Handle` is
expected, but it is another name. -/
def using_mismatch (s : ParserState) : Prop :=
  (s.peekTok.id = tSYMBOL ∧ s.peekTok.str ≠ "__intrinsics__") ∨
    (s.peekTok.id = tSYMBOL ∧ s.peekTok.str = "__intrinsics__" ∧ s.adv.peekTok.id = ch_dot ∧
      s.adv.adv.peekTok.id = tSYMBOL ∧ s.adv.adv.peekTok.str ≠ "Handle")

instance (s : ParserState) : Decidable (using_mismatch s) := by
  unfold using_mismatch
  infer_instance

/-- The tokens of `using 5 ;`. -/
def c21_tokens : List token_t := [tk tUSING 0, num 5 1, tk ch_semicolon 2]

/-- The tokens of `using Other ;` and, on the next line, `using Another ;`. -/
def c21_two_tokens : List token_t :=
  [tk tUSING 0, sym "Other" 1, tk ch_semicolon 2, ⟨tUSING, 0, "", ⟨2, 0⟩⟩,
   ⟨tSYMBOL, 0, "Another", ⟨2, 6⟩⟩, ⟨ch_semicolon, 0, "", ⟨2, 14⟩⟩]

/-- One field of an enum body, as the loop of `parse_enum` reads it between the
look for `}` and the look for a comma: the field that is pushed, `none` when the
name is missing. -/
def parse_enum_field (E : Externals) (h14 : P Expr) :
    P (Option (token_pos_t × String × Option Expr)) := do
  if (← matchtoken TokenKind.tLABEL) then error 153
  let field_name ← needsymbol
  let pos ← current_pos
  if (← matchtoken TokenKind.ch_lbracket) then
    error 153
    let _ ← liftE E.exprconst
    let _ ← needtoken TokenKind.ch_rbracket
  let value ← (do
    if (← matchtoken TokenKind.ch_assign) then return some (← h14)
    else return none)
  match field_name with
  | some n => return some (pos, n, value)
  | none => return none

/-- An optional token of kind `k` at the head of an enum declaration, as
`parse_enum` reads its label and its name: the string of the token when it is
there, and the state after it, or after it was pushed back. -/
def enum_optional (k : TokenKind) (s : ParserState) : Option String × ParserState :=
  if s.peekTok.id = k then (some s.peekTok.str, s.adv) else (none, s.peeked)

/-- The course of the field loop of `parse_enum` from state `s`: a `}` ends it
at once; otherwise one field is read, and a comma after it leads to the next
turn. `fs` are the results of the fields in source order (`none` for a field
without a name), the last state is the one in which the loop is left. -/
inductive EnumRun (E : Externals) (h14 : P Expr) :
    ParserState → List (Option (token_pos_t × String × Option Expr)) → ParserState → Prop
  | close (s : ParserState) : s.peekTok.id = ch_rbrace → EnumRun E h14 s [] s.peeked
  | last (s s1 : ParserState) (f : Option (token_pos_t × String × Option Expr)) :
      s.peekTok.id ≠ ch_rbrace → parse_enum_field E h14 s.peeked = some (f, s1) →
      s1.peekTok.id ≠ ch_comma → EnumRun E h14 s [f] s1.peeked
  | more (s s1 s' : ParserState) (f : Option (token_pos_t × String × Option Expr))
      (fs : List (Option (token_pos_t × String × Option Expr))) :
      s.peekTok.id ≠ ch_rbrace → parse_enum_field E h14 s.peeked = some (f, s1) →
      s1.peekTok.id = ch_comma → EnumRun E h14 s1.adv fs s' → EnumRun E h14 s (f :: fs) s'

/-- The state after `matchtoken(';')`. -/
def ParserState.skipSemicolon (s : ParserState) : ParserState :=
  if s.peekTok.id = ch_semicolon then s.adv else s.peeked

/-- The tokens of `enum Color { } ;`. -/
def c22_tokens : List token_t :=
  [tk tENUM 0, sym "Color" 1, tk ch_lbrace 2, tk ch_rbrace 3, tk ch_semicolon 4]

/-- The tokens of `enum { A , B = 2 } ;`. -/
def c22_pair_tokens : List token_t :=
  [tk tENUM 0, tk ch_lbrace 1, sym "A" 2, tk ch_comma 3, sym "B" 4, tk ch_assign 5, num 2 6,
   tk ch_rbrace 7, tk ch_semicolon 8]

/-- The elements `e1, ..., en` of an array literal read from state `s` with the
element parser `elem`: no element starts with the ellipsis or the closing
brace, a comma leads to the next element, and the last state is the one right
after the last element. `es` are the elements in source order. -/
inductive ElemRun (elem : P Expr) : ParserState → List Expr → ParserState → Prop
  | one (s s1 : ParserState) (e : Expr) :
      s.peekTok.id ≠ tELLIPS → s.peekTok.id ≠ ch_rbrace → elem s.peeked = some (e, s1) →
      ElemRun elem s [e] s1
  | more (s s1 s' : ParserState) (e : Expr) (es : List Expr) :
      s.peekTok.id ≠ tELLIPS → s.peekTok.id ≠ ch_rbrace → elem s.peeked = some (e, s1) →
      s1.peekTok.id = ch_comma → ElemRun elem s1.adv es s' → ElemRun elem s (e :: es) s'

/-- The tokens of `{ 1 , 2 , ... } ;`. -/
def c23_tokens : List token_t :=
  [tk ch_lbrace 0, num 1 1, tk ch_comma 2, num 2 3, tk ch_comma 4, tk tELLIPS 5,
   tk ch_rbrace 6, tk ch_semicolon 7]

/-- The tokens of `{ 1 , 2 } ;`. -/
def c23_plain_tokens : List token_t :=
  [tk ch_lbrace 0, num 1 1, tk ch_comma 2, num 2 3, tk ch_rbrace 4, tk ch_semicolon 5]

/-- The elements of both literals. -/
def c23_elems : List Expr := [.NumberExpr ⟨1, 1⟩ 1, .NumberExpr ⟨1, 3⟩ 2]

/-- The tokens of `if ( a = b ) c ;`. -/
def c24_if_tokens : List token_t :=
  [tk tIF 0, tk ch_lparen 1, sym "a" 2, tk ch_assign 3, sym "b" 4, tk ch_rparen 5, sym "c" 6,
   tk ch_semicolon 7]

/-- The tokens of `while ( a = b ) c ;`. -/
def c24_while_tokens : List token_t :=
  [tk tWHILE 0, tk ch_lparen 1, sym "a" 2, tk ch_assign 3, sym "b" 4, tk ch_rparen 5, sym "c" 6,
   tk ch_semicolon 7]

/-- The tokens of `if ( a += b ) c ;`. -/
def c24_add_tokens : List token_t :=
  [tk tIF 0, tk ch_lparen 1, sym "a" 2, tk taADD 3, sym "b" 4, tk ch_rparen 5, sym "c" 6,
   tk ch_semicolon 7]

/-- The tokens of `a = b ;`. -/
def c24_stmt_tokens : List token_t :=
  [sym "a" 0, tk ch_assign 1, sym "b" 2, tk ch_semicolon 3]

/-- The assignment of `a` and `b` at columns 2 and 4 with the operator `op`. -/
def c24_assign (op : TokenKind) : Expr :=
  .BinaryExpr ⟨1, 3⟩ op (.SymbolExpr ⟨1, 2⟩ "a") (.SymbolExpr ⟨1, 4⟩ "b")

/-- The flags that the scoped guards `ke::SaveAndSet` of the parser write: `in_loop_`,
`sc_intest`, `sc_allowtags`, `sc_one_error_per_statement`, and with them
`sc_require_newdecls`, which the parser only reads. -/
def ParserState.guard (s : ParserState) : Bool × Bool × Bool × Bool × Bool :=
  (s.in_loop_, s.sc_intest, s.sc_allowtags, s.sc_one_error_per_statement, s.sc_require_newdecls)

/-- The production returns with the guarded flags as they were on entry. -/
def Keeps {α : Type} (m : P α) : Prop :=
  ∀ s a s', m s = some (a, s') → s'.guard = s.guard

/-- The collaborators of the expression and statement productions leave the
guarded flags unchanged. -/
def Externals.keeps (E : Externals) : Prop :=
  (∀ o s, (E.parse_new_typename o s).2.guard = s.guard) ∧
  (∀ t s, (E.parse_new_typename1 t s).2.guard = s.guard) ∧
  (∀ d f s, (E.parse_decl d f s).2.guard = s.guard) ∧
  (∀ d f s, (E.reparse_new_decl d f s).2.guard = s.guard) ∧
  (∀ d f s, (E.reparse_old_decl d f s).2.guard = s.guard) ∧
  (∀ s, (E.exprconst s).2.guard = s.guard)

/-- The collaborators of the top-level productions leave the guarded flags
unchanged. -/
def TopExternals.keeps (T : TopExternals) : Prop :=
  (∀ k d s, (T.funcstub k d s).guard = s.guard) ∧
  (∀ d a b c s, (T.newfunc d a b c s).2.guard = s.guard) ∧
  (∀ s, (T.parse_function_type s).2.guard = s.guard) ∧
  (∀ d f s, (T.parse_new_decl d f s).2.guard = s.guard) ∧
  (∀ p s, (T.require_newline p s).guard = s.guard) ∧
  (∀ s, (T.decl_enumstruct s).guard = s.guard) ∧
  (∀ s, (T.domethodmap s).guard = s.guard) ∧
  (∀ d s, (T.process d s).guard = s.guard)

/-- The tokens of `while ( ( a ? b : c ) ) { break ; }`. -/
def c27_tokens : List token_t :=
  [tk tWHILE 0, tk ch_lparen 1, tk ch_lparen 2, sym "a" 3, tk ch_question 4, sym "b" 5,
   tk ch_colon 6, sym "c" 7, tk ch_rparen 8, tk ch_rparen 9, tk ch_lbrace 10, tk tBREAK 11,
   tk ch_semicolon 12, tk ch_rbrace 13]

/-- A state on `c27_tokens` in which `sc_intest` is set and `sc_allowtags` is not. -/
def c27_state : ParserState :=
  { init_state c27_tokens with sc_intest := true, sc_allowtags := false }

/-- The production `m` restricted to the entry states in which `ok` holds: entered in any
other state it yields nothing. -/
def watched {α : Type} (ok : ParserState → Bool) (m : P α) : P α := fun s =>
  if ok s then m s else none

/-- The tokens of `a ? b : c ? d : e ;`. -/
def c25_tokens : List token_t :=
  [sym "a" 0, tk ch_question 1, sym "b" 2, tk ch_colon 3, sym "c" 4, tk ch_question 5, sym "d" 6,
   tk ch_colon 7, sym "e" 8, tk ch_semicolon 9]

/-- The tokens of `a ? ( b ) : c ;`. -/
def c25_paren_tokens : List token_t :=
  [sym "a" 0, tk ch_question 1, tk ch_lparen 2, sym "b" 3, tk ch_rparen 4, tk ch_colon 5,
   sym "c" 6, tk ch_semicolon 7]

/-- The state in which `hier13` parses the then-branch of `c25_paren_tokens`: `a ?` is
consumed and `sc_allowtags` is cleared. -/
def c25_then_state : ParserState :=
  set_sc_allowtags false (consumed_state c25_paren_tokens 2)

/-- The indentation check at the start of `parse_stmt` for a first token other than a
label: the value left in `*lastindent` and the state, in which warning 217 is reported for a
statement off the indentation of the one before and `indent_nowarn` is cleared. -/
def indent_check (lastindent : Option Int) (s : ParserState) : Option Int × ParserState :=
  match lastindent with
  | none => (none, s)
  | some li =>
    (some s.stmtindent,
      { (if li ≥ 0 ∧ li ≠ s.stmtindent ∧ s.indent_nowarn = false ∧ s.sc_tabsize > 0 then
          s.report 217 else s) with indent_nowarn := false })

/-- The state in which `parse_call` starts for a statement `new Name ( ...` read by
`parse_stmt` from `s`: the pending error is cleared, the indentation is checked after
`new`, the look-ahead at `Name (` is undone, `new` is pushed back, and `parse_expr(false)`
reads the three tokens again. -/
def new_call_entry (lastindent : Option Int) (s : ParserState) : ParserState :=
  (set_sc_intest false
    (indent_check lastindent (set_one_error true s).reset.adv).2.adv.peeked.unlex.unlex).adv.adv.adv

/-- The tokens of `new Foo ( 1 , . k = 2 ) ;`. -/
def c26_tokens : List token_t :=
  [tk tNEW 0, sym "Foo" 1, tk ch_lparen 2, num 1 3, tk ch_comma 4, tk ch_dot 5, sym "k" 6,
   tk ch_assign 7, num 2 8, tk ch_rparen 9, tk ch_semicolon 10]

/-- The state after `n` tokens of `c26_tokens` inside `parse_stmt`. -/
def c26_state (n : Nat) : ParserState :=
  { consumed_state c26_tokens n with sc_one_error_per_statement := true }

/-- The arguments of the call in `c26_tokens`. -/
def c26_args : List (Option String × Option Expr) :=
  [(none, some (.NumberExpr ⟨1, 3⟩ 1)), (some "k", some (.NumberExpr ⟨1, 8⟩ 2))]

/-- The statement of `c26_tokens`. -/
def c26_stmt : Stmt :=
  .ExprStmt ⟨1, 0⟩ (.CallExpr ⟨1, 0⟩ tNEW (.SymbolExpr ⟨1, 2⟩ "Foo") c26_args)

/-- The order of source positions: `p` is at or before `q`. -/
def token_pos_t.le (p q : token_pos_t) : Bool :=
  decide (p.line < q.line ∨ (p.line = q.line ∧ p.col ≤ q.col))

/-- The position of the first token of an expression that starts with its left operand:
that of the leftmost operand, which for the other nodes is taken to be the node itself. -/
def Expr.leftmost : Expr → token_pos_t
  | .BinaryExpr _ _ l _ => l.leftmost
  | .LogicalExpr _ _ l _ => l.leftmost
  | e => e.pos

/-- The property of the specification for one node: a `BinaryExpr` or `LogicalExpr` carries
a position at or before its first token. -/
def Expr.posAtStart : Expr → Bool
  | .BinaryExpr pos _ l _ => pos.le l.leftmost
  | .LogicalExpr pos _ l _ => pos.le l.leftmost
  | _ => true

/-- The course of the loop of `plnge` entered in state `s` with the operator of index `i` just
consumed and the tree `node` built so far: each step parses the right operand with `hier`,
builds the node of the operator at the position current on entry, and asks `nextop` for a
further operator; `k` counts the operators, `e` is the tree returned and `s'` the state in
which `nextop` finds no operator. -/
inductive BinaryRun (opstr : List TokenKind) (hier : P Expr) :
    Nat → ParserState → Expr → Nat → Expr → ParserState → Prop
  | last (i : Nat) (s s1 s2 : ParserState) (node right : Expr) :
      hier s = some (right, s1) → nextop opstr s1 = some (none, s2) →
      BinaryRun opstr hier i s node 1
        (mk_binary (current_token s).start (opstr.getD i tEOF) node right) s2
  | more (i j k : Nat) (s s1 s2 s3 : ParserState) (node right e : Expr) :
      hier s = some (right, s1) → nextop opstr s1 = some (some j, s2) →
      BinaryRun opstr hier j s2
        (mk_binary (current_token s).start (opstr.getD i tEOF) node right) k e s3 →
      BinaryRun opstr hier i s node (k + 1) e s3

/-- The tokens of `x = a || b + c ;`. -/
def c29_tokens : List token_t :=
  [sym "x" 0, tk ch_assign 1, sym "a" 2, tk tlOR 3, sym "b" 4, tk ch_plus 5, sym "c" 6,
   tk ch_semicolon 7]

/-- The sum `b + c` of `c29_tokens`. -/
def c29_sum : Expr := .BinaryExpr ⟨1, 5⟩ ch_plus (.SymbolExpr ⟨1, 4⟩ "b") (.SymbolExpr ⟨1, 6⟩ "c")

/-- The disjunction `a || b + c` of `c29_tokens`. -/
def c29_or : Expr := .LogicalExpr ⟨1, 3⟩ tlOR (.SymbolExpr ⟨1, 2⟩ "a") c29_sum

/-- The tree of `c29_tokens`. -/
def c29_tree : Expr := .BinaryExpr ⟨1, 1⟩ ch_assign (.SymbolExpr ⟨1, 0⟩ "x") c29_or

/-- The case `tWHILE` of `parse_stmt`, with the parser `h14` of the expressions and the
parser `pbody` of the body as parameters. -/
def stmt_while (h14 : P Expr) (pbody : P StmtResult) (fuel : Nat) : P (Option Stmt) := do
  let pos ← current_pos
  let cond ← parse_expr h14 fuel true
  let (stmt, _) ← SaveAndSet (·.in_loop_) set_in_loop true pbody
  match stmt with
  | none => return none
  | some st => return some (Stmt.DoWhileStmt pos tWHILE cond st)

/-- The case `tDO` of `parse_stmt`, with the parser `h14` of the expressions and the parser
`pbody` of the body as parameters. -/
def stmt_do (h14 : P Expr) (pbody : P StmtResult) (fuel : Nat) : P (Option Stmt) := do
  let pos ← current_pos
  let (stmt, _) ← SaveAndSet (·.in_loop_) set_in_loop true pbody
  let _ ← needtoken TokenKind.tWHILE
  let parens ← matchtoken TokenKind.ch_lparen
  let cond ← parse_expr h14 fuel false
  if parens then
    let _ ← needtoken TokenKind.ch_rparen
  else
    error 243
  let _ ← needtoken TokenKind.tTERM
  match stmt with
  | none => return none
  | some st => return some (Stmt.DoWhileStmt pos tDO cond st)

/-- The case `'{'` of `parse_stmt`, with the statement parser as a parameter. -/
def stmt_block (pstmt : Option Int → Bool → P StmtResult) (fuel : Nat) : P (Option Stmt) := do
  let save := (← get).fline
  if (← matchtoken TokenKind.ch_rbrace) then
    return some (Stmt.StmtList (← current_pos) [])
  else
    let sameline := decide (save = (← get).fline)
    return some (← parse_compound pstmt fuel sameline)

/-- The tokens of `do { if ( a ) break ; while ( b ) continue ; } while ( c ) ;`. -/
def c28_tokens : List token_t :=
  [tk tDO 0, tk ch_lbrace 1, tk tIF 2, tk ch_lparen 3, sym "a" 4, tk ch_rparen 5, tk tBREAK 6,
   tk ch_semicolon 7, tk tWHILE 8, tk ch_lparen 9, sym "b" 10, tk ch_rparen 11, tk tCONTINUE 12,
   tk ch_semicolon 13, tk ch_rbrace 14, tk tWHILE 15, tk ch_lparen 16, sym "c" 17,
   tk ch_rparen 18, tk ch_semicolon 19]

/-- The tokens of `if ( a ) { break ; }`. -/
def c28_if_tokens : List token_t :=
  [tk tIF 0, tk ch_lparen 1, sym "a" 2, tk ch_rparen 3, tk ch_lbrace 4, tk tBREAK 5,
   tk ch_semicolon 6, tk ch_rbrace 7]

/-- The productions `m1` and `m2` yield the same from every state in which `in_loop_` is `b`,
and return with `in_loop_` equal to `b` again. -/
def SameIn {α : Type} (b : Bool) (m1 m2 : P α) : Prop :=
  ∀ s, s.in_loop_ = b → m1 s = m2 s ∧ ∀ a s', m2 s = some (a, s') → s'.in_loop_ = b

/-- The tokens `1 ] [ ] [ 3 ] ;` after the first `[` of the dimensions `[1][][3]`. -/
def c30_tokens : List token_t :=
  [num 1 0, tk ch_rbracket 1, tk ch_lbracket 2, tk ch_rbracket 3, tk ch_lbracket 4, num 3 5,
   tk ch_rbracket 6, tk ch_semicolon 7]


/-- The course of the loop of `parse_post_dims` entered in state `s`, after a `[`: each
dimension is one run of `post_dim_entry`, and a `[` after it leads to the next one. `es` are
the entries stored into `old_dims` and `s'` is the state after the last dimension. -/
inductive DimRun (h14 : P Expr) : ParserState → List (Option Expr) → ParserState → Prop
  | one (s s1 : ParserState) (e : Option Expr) :
      post_dim_entry h14 s = some (e, s1) → DimRun h14 s [e] s1
  | more (s s1 s' : ParserState) (e : Option Expr) (es : List (Option Expr)) :
      post_dim_entry h14 s = some (e, s1) → s1.peekTok.id = ch_lbracket →
      DimRun h14 s1.adv es s' → DimRun h14 s (e :: es) s'

/-- The tokens `] [ ] ;` after the first `[` of the dimensions `[][]`. -/
def c30_empty_tokens : List token_t :=
  [tk ch_rbracket 0, tk ch_lbracket 1, tk ch_rbracket 2, tk ch_semicolon 3]

/-- The entries of `c30_tokens`. -/
def c30_entries : List (Option Expr) :=
  [some (.NumberExpr ⟨1, 0⟩ 1), none, some (.NumberExpr ⟨1, 5⟩ 3)]

/-- The loop `while (val-- > 0) multiplier *= 2` of `parse_enum` step by step on
`w`-bit cells, `n` counting the times the body has run: the multiplier after
the loop and the count; `none` when the fuel runs out. -/
def enum_shift_while (w : Nat) : Nat → Int → Int → Nat → Option (Int × Nat)
  | 0, _, _, _ => none
  | fuel + 1, val, multiplier, n =>
    if val > 0 then
      enum_shift_while w fuel (wrap_cell w (val - 1)) (wrap_cell w (multiplier * 2)) (n + 1)
    else some (multiplier, n)

/-- The increment and the multiplier that `parse_enum` stores for the modifier
`( op N )` on `w`-bit cells, `op` one of `+=`, `*=` and `<<=` and `N` the value
that `exprconst` yields. -/
def enum_modifier (w : Nat) (op : TokenKind) (N : Int) : Int × Int :=
  if op = taADD then (N, 1)
  else if op = taMULT then (1, N)
  else (1, enum_shift w N.toNat 1)

/-- The tokens of `enum ( <<= 3 ) { A } ;`. -/
def c33_tokens : List token_t :=
  [tk tENUM 0, tk ch_lparen 1, tk taSHL 2, num 3 3, tk ch_rparen 4, tk ch_lbrace 5, sym "A" 6,
   tk ch_rbrace 7, tk ch_semicolon 8]

/-- The state after `n` tokens of `c33_tokens`, error 228 reported. -/
def c33_state (n : Nat) : ParserState := { consumed_state c33_tokens n with errors := [228] }

/-- The tokens of `enum ( += 5 ) { A } ;`. -/
def c33_add_tokens : List token_t :=
  [tk tENUM 0, tk ch_lparen 1, tk taADD 2, num 5 3, tk ch_rparen 4, tk ch_lbrace 5, sym "A" 6,
   tk ch_rbrace 7, tk ch_semicolon 8]

/-- The tokens of `enum ( *= 5 ) { A } ;`. -/
def c33_mult_tokens : List token_t :=
  [tk tENUM 0, tk ch_lparen 1, tk taMULT 2, num 5 3, tk ch_rparen 4, tk ch_lbrace 5, sym "A" 6,
   tk ch_rbrace 7, tk ch_semicolon 8]

/-- The tokens of `switch (x) { default: a; default: b; default: c; }`. -/
def c34_tokens : List token_t :=
  [tk tSWITCH 0, tk ch_lparen 1, sym "x" 2, tk ch_rparen 3, tk ch_lbrace 4, tk tDEFAULT 5,
   tk ch_colon 6, sym "a" 7, tk ch_semicolon 8, tk tDEFAULT 9, tk ch_colon 10, sym "b" 11,
   tk ch_semicolon 12, tk tDEFAULT 13, tk ch_colon 14, sym "c" 15, tk ch_semicolon 16,
   tk ch_rbrace 17]

/-- The tokens of `switch (x) { default: a; default: b }`, the `;` after `b`
missing. -/
def c34_pending_tokens : List token_t :=
  [tk tSWITCH 0, tk ch_lparen 1, sym "x" 2, tk ch_rparen 3, tk ch_lbrace 4, tk tDEFAULT 5,
   tk ch_colon 6, sym "a" 7, tk ch_semicolon 8, tk tDEFAULT 9, tk ch_colon 10, sym "b" 11,
   tk ch_rbrace 12]

/-- The statement `name ;` of `c34_tokens` at column `col`. -/
def c34_stmt (name : String) (col : Nat) : Stmt := .ExprStmt ⟨1, col⟩ (.SymbolExpr ⟨1, col⟩ name)

/-- The state after `n` tokens of `c34_tokens`, inside a statement, with the
errors `errs` reported. -/
def c34_state (n : Nat) (errs : List Nat) : ParserState :=
  { consumed_state c34_tokens n with errors := errs, sc_one_error_per_statement := true }

/-- The tokens of `if ( ( a = b ) ) c ;`. -/
def c35_if_tokens : List token_t :=
  [tk tIF 0, tk ch_lparen 1, tk ch_lparen 2, sym "a" 3, tk ch_assign 4, sym "b" 5,
   tk ch_rparen 6, tk ch_rparen 7, sym "c" 8, tk ch_semicolon 9]

/-- The tokens of `while ( ( a = b ) ) c ;`. -/
def c35_while_tokens : List token_t :=
  [tk tWHILE 0, tk ch_lparen 1, tk ch_lparen 2, sym "a" 3, tk ch_assign 4, sym "b" 5,
   tk ch_rparen 6, tk ch_rparen 7, sym "c" 8, tk ch_semicolon 9]

/-- The tokens of `if ( ( a ) = b ) c ;`. -/
def c35_after_tokens : List token_t :=
  [tk tIF 0, tk ch_lparen 1, tk ch_lparen 2, sym "a" 3, tk ch_rparen 4, tk ch_assign 5,
   sym "b" 6, tk ch_rparen 7, sym "c" 8, tk ch_semicolon 9]

/-- The state in which `primary` is entered for the inner parenthesis of
`c35_if_tokens`: the `if (` is consumed and `sc_intest` is set. -/
def c35_inner_state : ParserState :=
  { consumed_state c35_if_tokens 2 with sc_intest := true, sc_one_error_per_statement := true }

/-- The `ConstDecl` of a bare entry `name = const-expr` of a `const` declaration
read in state `s`: the tag is 0. -/
def bare_const (E : Externals) (vclass : StorageClass) (s : ParserState) : Stmt :=
  Stmt.ConstDecl (current_token s).start s.peekTok.str
    { typeinfo_zero with tag := 0, is_const := true } vclass
    (E.exprconst s.adv.peeked.unlex.adv.adv).1.2.2 (E.exprconst s.adv.peeked.unlex.adv.adv).1.2.1

/-- The tokens of `const Float:a = 1 , b = 2 ;`. -/
def c37_tokens : List token_t :=
  [tk tCONST 0, ⟨tLABEL, 0, "Float", ⟨1, 1⟩⟩, sym "a" 2, tk ch_assign 3, num 1 4, tk ch_comma 5,
   sym "b" 6, tk ch_assign 7, num 2 8, tk ch_semicolon 9]

/-- The declaration of `a` in `c37_tokens`. -/
def c37_a : Stmt :=
  .ConstDecl ⟨1, 0⟩ "a" { typeinfo_zero with tag := 5, is_const := true } StorageClass.sGLOBAL 7 1

/-- The declaration of `b` in `c37_tokens`. -/
def c37_b : Stmt :=
  .ConstDecl ⟨1, 5⟩ "b" { typeinfo_zero with tag := 0, is_const := true } StorageClass.sGLOBAL 7 2

/-- The part of the parser state that the token source reads and writes: the
zipper over the token stream and the terminator policy. -/
structure Stream where
  consumed : List (Option token_t)
  rest : List token_t
  needsemi : Bool
  deriving DecidableEq, Repr

/-- The token source of a parser state. -/
def ParserState.stream (s : ParserState) : Stream := ⟨s.consumed, s.rest, s.sc_needsemicolon⟩

/-- The next token. -/
def Stream.peek (st : Stream) : token_t := st.rest.headD eof_token

/-- The most recent token handed out and not pushed back. -/
def Stream.current (st : Stream) : token_t :=
  match st.consumed with
  | some t :: _ => t
  | _ => eof_token

/-- The token source after `lextok`. -/
def Stream.adv (st : Stream) : Stream :=
  match st.rest with
  | [] => { st with consumed := none :: st.consumed }
  | t :: r => { st with consumed := some t :: st.consumed, rest := r }

/-- The token source after `lexpush`. -/
def Stream.unlex (st : Stream) : Stream :=
  match st.consumed with
  | [] => st
  | none :: c => { st with consumed := c }
  | some t :: c => { st with consumed := c, rest := t :: st.rest }

/-- The outcome of `matchtoken(kind)` on a token source. -/
def Stream.matchtoken (kind : TokenKind) (st : Stream) : Bool × Stream :=
  if st.peek.id = kind then (true, st.adv)
  else if kind = tTERM ∧ (st.peek.id = ch_semicolon ∨ st.peek.id = tENDEXPR) then (true, st.adv)
  else if kind = tTERM ∧ st.needsemi = false ∧
      (st.rest.isEmpty = true ∨ st.peek.start.line ≠ st.current.start.line) then (true, st)
  else (false, st)

/-- From every state with the token source `st` the production returns, with a
result and a token source that satisfy `Q`. -/
def Go {α : Type} (m : P α) (st : Stream) (Q : α → Stream → Prop) : Prop :=
  ∀ s : ParserState, s.stream = st → ∃ a s', m s = some (a, s') ∧ Q a s'.stream

/-- The entries that reads have pushed onto `consumed`, most recent first: a
token, or `none` for a read at the end of input. Once the end of input has been
read only such marks follow. -/
def MarksOk : List (Option token_t) → Prop
  | [] => True
  | none :: ms => MarksOk ms
  | some _ :: ms => none ∉ ms

/-- The number of tokens among the marks. -/
def reals (ms : List (Option token_t)) : Nat := ms.reduceOption.length

/-- The token source `st` is reached from `st0` by reads that are not pushed
back: `ms` are the entries pushed onto `consumed` since `st0`, and their tokens
are what has been taken from the front of the input. -/
def Ahead (st0 st : Stream) (ms : List (Option token_t)) : Prop :=
  st.consumed = ms ++ st0.consumed ∧ st0.rest = ms.reduceOption.reverse ++ st.rest ∧
    (none ∈ ms → st.rest = []) ∧ MarksOk ms

/-- Total correctness relative to a base: from a token source that is `ms`
ahead of a base with at most `k` tokens left, the production returns, with a
result and a token source ahead of the base by marks that satisfy `Q`. -/
def Tot {α : Type} (k : Nat) (m : P α) (ms : List (Option token_t))
    (Q : α → List (Option token_t) → Prop) : Prop :=
  ∀ st0 st : Stream, st0.rest.length ≤ k → Ahead st0 st ms →
    Go m st (fun a st' => ∃ ms', Ahead st0 st' ms' ∧ Q a ms')

/-- The marks `ms'` are `ms` with at least one more entry on top. -/
def Ext1 (ms ms' : List (Option token_t)) : Prop := ∃ extra, extra ≠ [] ∧ ms' = extra ++ ms

/-- The marks `ms'` are `ms` with further entries on top. -/
def Ext (ms ms' : List (Option token_t)) : Prop := ∃ extra, ms' = extra ++ ms

/-- Progress: with at most `k` tokens left the production returns and has read
at least once without pushing back. -/
def Prog {α : Type} (k : Nat) (m : P α) : Prop := Tot k m [] (fun _ ms' => ms' ≠ [])

/-- The production returns from every state and leaves the token source as it
is. -/
def Still {α : Type} (m : P α) : Prop := ∀ st, Go m st (fun _ st' => st' = st)

/-- The type-name parser only reads ahead. -/
def Externals.forward (E : Externals) : Prop :=
  ∀ o s, ∃ extra, Ahead s.stream (E.parse_new_typename o s).2.stream extra

/-- The tokens `) a`: the first one cannot start an expression. -/
def c36_tokens : List token_t := [tk ch_rparen 0, sym "a" 1]

/-- The tokens `( a , b , ) c`. -/
def c36_list_tokens : List token_t :=
  [tk ch_lparen 0, sym "a" 1, tk ch_comma 2, sym "b" 3, tk ch_comma 4, tk ch_rparen 5, sym "c" 6]

/-- The kinds of tokens with a meaning of their own after an operand, which an
operator table of the binary levels must not hold. -/
def reserved_kinds : List TokenKind :=
  [ch_dot, tDBLCOLON, ch_lbracket, ch_lparen, tTERM, tENDEXPR, tINC, tDEC, ch_question, ch_colon,
   ch_assign, ch_comma, ch_rparen, ch_rbracket, ch_rbrace] ++ assign_ops

/-- The operator tables hold binary operators only, each at one level. -/
def OpLists.proper (L : OpLists) : Prop :=
  (∀ l ∈ L.tables, ∀ k ∈ l, k ∉ reserved_kinds) ∧
    L.tables.Pairwise (fun l1 l2 => ∀ k ∈ l1, k ∉ l2)

instance (L : OpLists) : Decidable L.proper := by
  unfold OpLists.proper
  infer_instance

/-- A token that does not continue the postfix chain of `hier1`. -/
def stop1 (t : token_t) : Prop := t.id ∉ [ch_dot, tDBLCOLON, ch_lbracket, ch_lparen]

/-- A token that continues no expression of the levels 2 to `k`: it is no
postfix operator, no terminator mark, and no operator of the levels 3 to `k`. -/
def stopk (L : OpLists) (k : Nat) (t : token_t) : Prop :=
  after_operand t ∧ ∀ j, 3 ≤ j → j ≤ k → t.id ∉ L.table j

/-- A token that continues no expression of `hier13`. -/
def stop13 (L : OpLists) (t : token_t) : Prop := stopk L 12 t ∧ t.id ≠ ch_question

/-- A token that cannot continue an expression and is no terminator mark (the
kinds `tTERM` and `tENDEXPR`): no postfix operator, no binary operator, no `?`
and no assignment operator. -/
def stop14 (L : OpLists) (t : token_t) : Prop :=
  stop13 L t ∧ t.id ∉ assign_ops ∧ t.id ≠ ch_assign

/-- The tokens `tys` are what the type-name parser reads, from any state in
which they come next. -/
def TypeSpan (E : Externals) (o : Option token_t) (tys : List token_t) : Prop :=
  ∀ (s : ParserState) (post : List token_t), s.rest = tys ++ post →
    (E.parse_new_typename o s).2.stream =
      ⟨tys.reverse.map some ++ s.consumed, post, s.sc_needsemicolon⟩

/-- The pairs `[ ]` after the operand of `sizeof`. -/
def bracket_pairs : List token_t → Prop
  | [] => True
  | [_] => False
  | lb :: rb :: r => lb.id = ch_lbracket ∧ rb.id = ch_rbracket ∧ bracket_pairs r

/-- The field part `:: name` or `. name` after the operand of `sizeof`, or
nothing. -/
def sizeof_field (fld : List token_t) : Prop :=
  fld = [] ∨ ∃ d nm, fld = [d, nm] ∧ (d.id = tDBLCOLON ∨ d.id = ch_dot) ∧ nm.id = tSYMBOL

/-- The syntactic categories of the expression grammar, one for each
production and loop of the expression parser. -/
inductive Form where
  | expr | tern | lvl (k : Nat) | ltail (k : Nat) | post | base | ptail | prim | elems | arr
  | args | arglist | argv | dims
  deriving DecidableEq, Repr

/-- The well-formed expressions, as token sequences: `WellFormed L E b f toks`
says that `toks` is of the category `f`, for the operator tables `L`, the
type-name parser of `E` and the terminator policy `b` (semicolons required).
`expr` is an assignment expression (`hier14`), `tern` a conditional one
(`hier13`), `lvl k` an expression of the binary level `k` from 3 to 12 or a
unary one for `k = 2` (`hier2`), `ltail k` the operators and operands after the
first operand of level `k`, `post` a postfix expression (`hier1`), `base` its
first part, `ptail` the postfix operators, `prim` a primary, `elems` the
elements between parentheses, `arr` those of an array literal, `args` the
arguments of a call up to and with the closing parenthesis, `arglist` the
arguments from one of them on, `argv` those from the value of one of them on,
`dims` the dimensions of `new T[...]` after the first bracket. -/
inductive WellFormed (L : OpLists) (E : Externals) (b : Bool) : Form → List token_t → Prop
  | atom (a : token_t) : a.id ∈ [tTHIS, tSYMBOL, tNULL, tNUMBER, tRATIONAL, tSTRING] →
      WellFormed L E b .prim [a]
  | paren (lp rp : token_t) (es : List token_t) : lp.id = ch_lparen →
      WellFormed L E b .elems es → rp.id = ch_rparen → WellFormed L E b .prim (lp :: es ++ [rp])
  | array (lb rb : token_t) (body : List token_t) : lb.id = ch_lbrace →
      WellFormed L E b .arr body → rb.id = ch_rbrace → WellFormed L E b .prim (lb :: body ++ [rb])
  | elems_one (e : List token_t) : WellFormed L E b .expr e → WellFormed L E b .elems e
  | elems_more (e : List token_t) (cm : token_t) (es : List token_t) :
      WellFormed L E b .expr e → cm.id = ch_comma → WellFormed L E b .elems es →
      WellFormed L E b .elems (e ++ cm :: es)
  | arr_ellipsis (el : token_t) : el.id = tELLIPS → WellFormed L E b .arr [el]
  | arr_one (e : List token_t) : WellFormed L E b .expr e → WellFormed L E b .arr e
  | arr_more (e : List token_t) (cm : token_t) (body : List token_t) :
      WellFormed L E b .expr e → cm.id = ch_comma → WellFormed L E b .arr body →
      WellFormed L E b .arr (e ++ cm :: body)
  | base_prim (p : List token_t) : WellFormed L E b .prim p → WellFormed L E b .base p
  | view_as (va lt ty : token_t) (tys : List token_t) (gt lp : token_t) (e : List token_t)
      (rp : token_t) : va.id = tVIEW_AS → lt.id = ch_lt → TypeSpan E (some ty) tys →
      gt.id = ch_gt → lp.id = ch_lparen → WellFormed L E b .expr e → rp.id = ch_rparen →
      WellFormed L E b .base (va :: lt :: ty :: tys ++ gt :: lp :: e ++ [rp])
  | ptail_nil : WellFormed L E b .ptail []
  | field (d nm : token_t) (tl : List token_t) : d.id = ch_dot ∨ d.id = tDBLCOLON →
      nm.id = tSYMBOL → WellFormed L E b .ptail tl → WellFormed L E b .ptail (d :: nm :: tl)
  | index (lb : token_t) (e : List token_t) (rb : token_t) (tl : List token_t) :
      lb.id = ch_lbracket → WellFormed L E b .expr e → rb.id = ch_rbracket →
      WellFormed L E b .ptail tl → WellFormed L E b .ptail (lb :: e ++ rb :: tl)
  | call (lp : token_t) (as tl : List token_t) : lp.id = ch_lparen →
      WellFormed L E b .args as → WellFormed L E b .ptail tl →
      WellFormed L E b .ptail (lp :: as ++ tl)
  | post_chain (bs tl : List token_t) : WellFormed L E b .base bs → WellFormed L E b .ptail tl →
      WellFormed L E b .post (bs ++ tl)
  | args_none (rp : token_t) : rp.id = ch_rparen → WellFormed L E b .args [rp]
  | args_some (al : List token_t) : WellFormed L E b .arglist al → WellFormed L E b .args al
  | arg_plain (v : List token_t) : WellFormed L E b .argv v → WellFormed L E b .arglist v
  | arg_named (d nm eq : token_t) (v : List token_t) : d.id = ch_dot → nm.id = tSYMBOL →
      eq.id = ch_assign → WellFormed L E b .argv v → WellFormed L E b .arglist (d :: nm :: eq :: v)
  | argv_skip_last (us rp : token_t) : us.id = ch_underscore → rp.id = ch_rparen →
      WellFormed L E b .argv [us, rp]
  | argv_expr_last (e : List token_t) (rp : token_t) : WellFormed L E b .expr e →
      rp.id = ch_rparen → WellFormed L E b .argv (e ++ [rp])
  | argv_skip_more (us cm : token_t) (al : List token_t) : us.id = ch_underscore →
      cm.id = ch_comma → WellFormed L E b .arglist al → WellFormed L E b .argv (us :: cm :: al)
  | argv_expr_more (e : List token_t) (cm : token_t) (al : List token_t) :
      WellFormed L E b .expr e → cm.id = ch_comma → WellFormed L E b .arglist al →
      WellFormed L E b .argv (e ++ cm :: al)
  | dims_last (e : List token_t) (rb : token_t) : WellFormed L E b .expr e →
      rb.id = ch_rbracket → WellFormed L E b .dims (e ++ [rb])
  | dims_more (e : List token_t) (rb lb : token_t) (ds : List token_t) :
      WellFormed L E b .expr e → rb.id = ch_rbracket → lb.id = ch_lbracket →
      WellFormed L E b .dims ds → WellFormed L E b .dims (e ++ rb :: lb :: ds)
  | pre (op : token_t) (u : List token_t) :
      op.id ∈ [tINC, tDEC, ch_tilde, ch_minus, ch_excl] → WellFormed L E b (.lvl 2) u →
      WellFormed L E b (.lvl 2) (op :: u)
  | cast (lb : token_t) (u : List token_t) : lb.id = tLABEL → WellFormed L E b (.lvl 2) u →
      WellFormed L E b (.lvl 2) (lb :: u)
  | new_call (nw nm lp : token_t) (as : List token_t) : nw.id = tNEW → nm.id = tSYMBOL →
      lp.id = ch_lparen → WellFormed L E b .args as →
      WellFormed L E b (.lvl 2) (nw :: nm :: lp :: as)
  | new_array (nw : token_t) (tys : List token_t) (lb : token_t) (ds : List token_t) :
      nw.id = tNEW → TypeSpan E none tys →
      (∀ a a2 r, tys = a :: a2 :: r → a.id = tSYMBOL → a2.id ≠ ch_lparen) →
      lb.id = ch_lbracket → WellFormed L E b .dims ds →
      WellFormed L E b (.lvl 2) (nw :: tys ++ lb :: ds)
  | defined (df : token_t) (lps : List token_t) (nm : token_t) (rps : List token_t) :
      df.id = tDEFINED → (∀ p ∈ lps, p.id = ch_lparen) → nm.id = tSYMBOL →
      (∀ p ∈ rps, p.id = ch_rparen) → rps.length = lps.length →
      WellFormed L E b (.lvl 2) (df :: lps ++ nm :: rps)
  | sizeof (sz : token_t) (lps : List token_t) (nm : token_t) (lvls fld rps : List token_t) :
      sz.id = tSIZEOF → (∀ p ∈ lps, p.id = ch_lparen) → nm.id = tTHIS ∨ nm.id = tSYMBOL →
      bracket_pairs lvls → sizeof_field fld → (∀ p ∈ rps, p.id = ch_rparen) →
      rps.length = lps.length →
      WellFormed L E b (.lvl 2) (sz :: lps ++ nm :: lvls ++ fld ++ rps)
  | of_post (p : List token_t) : WellFormed L E b .post p → WellFormed L E b (.lvl 2) p
  | post_inc (p : List token_t) (op : token_t) : WellFormed L E b .post p →
      op.id = tINC ∨ op.id = tDEC →
      (b = true ∨ ∀ a ∈ p.getLast?, op.start.line = a.start.line) →
      WellFormed L E b (.lvl 2) (p ++ [op])
  | chain (k : Nat) (c tl : List token_t) : 2 ≤ k → k ≤ 11 → WellFormed L E b (.lvl k) c →
      WellFormed L E b (.ltail (k + 1)) tl → WellFormed L E b (.lvl (k + 1)) (c ++ tl)
  | ltail_nil (k : Nat) : WellFormed L E b (.ltail k) []
  | ltail_cons (k : Nat) (op : token_t) (d tl : List token_t) : op.id ∈ L.table (k + 1) →
      WellFormed L E b (.lvl k) d → WellFormed L E b (.ltail (k + 1)) tl →
      WellFormed L E b (.ltail (k + 1)) (op :: d ++ tl)
  | tern_pass (c : List token_t) : WellFormed L E b (.lvl 12) c → WellFormed L E b .tern c
  | tern_cond (c : List token_t) (q : token_t) (a : List token_t) (cl : token_t)
      (e : List token_t) : WellFormed L E b (.lvl 12) c → q.id = ch_question →
      WellFormed L E b .tern a → cl.id = ch_colon → WellFormed L E b .tern e →
      WellFormed L E b .tern (c ++ q :: a ++ cl :: e)
  | expr_pass (c : List token_t) : WellFormed L E b .tern c → WellFormed L E b .expr c
  | assign (c : List token_t) (op : token_t) (r : List token_t) : WellFormed L E b .tern c →
      op.id ∈ assign_ops ∨ op.id = ch_assign → WellFormed L E b .expr r →
      WellFormed L E b .expr (c ++ op :: r)

/-- The production reads exactly the tokens `toks` when the token `t` follows
them: from every state in which `toks` and then `t` come next it returns, with
`toks` consumed and `t` next. -/
def Reads {α : Type} (b : Bool) (m : P α) (toks : List token_t) (t : token_t) : Prop :=
  ∀ (c : List (Option token_t)) (post : List token_t),
    Go m ⟨c, toks ++ t :: post, b⟩
      (fun _ st' => st' = ⟨toks.reverse.map some ++ c, t :: post, b⟩)

/-- The kinds of tokens a primary starts with. -/
def prim_heads : List TokenKind :=
  [tTHIS, tSYMBOL, tNULL, tNUMBER, tRATIONAL, tSTRING, ch_lparen, ch_lbrace]

/-- The kinds of tokens a postfix expression starts with. -/
def base_heads : List TokenKind := tVIEW_AS :: prim_heads

/-- The kinds of tokens an expression starts with. -/
def expr_heads : List TokenKind :=
  [tINC, tDEC, ch_tilde, ch_minus, ch_excl, tLABEL, tNEW, tDEFINED, tSIZEOF] ++ base_heads

/-- The token sequence starts with a token of one of the kinds `S`. -/
def HeadIn (S : List TokenKind) (toks : List token_t) : Prop :=
  ∃ a r, toks = a :: r ∧ a.id ∈ S

/-- The first part of `hier1`: `view_as<T>(e)` or a primary. -/
def hier1_base (E : Externals) (h14 : P Expr) (fuel : Nat) : P Expr := do
  if (← matchtoken TokenKind.tVIEW_AS) then parse_view_as E h14
  else primary h14 fuel

/-- The body of the loop of `parse_call` from the value of an argument on. -/
def call_arg_body (h14 : P Expr) (fuel : Nat) (args : List (Option String × Option Expr))
    (named_params : Bool) (name : Option String) : P (List (Option String × Option Expr)) := do
  let expr ← (do
    if (← matchtoken TokenKind.ch_underscore) then return none
    else return some (← h14))
  let args := args ++ [(name, expr)]
  if (← matchtoken TokenKind.ch_rparen) then
    return args
  else if !(← needtoken TokenKind.ch_comma) then
    return args
  else if (← freading) then
    if (← matchtoken TokenKind.tENDEXPR) then return args
    else parse_call_loop h14 fuel named_params args
  else
    return args

/-- The part of `plnge` after an operand: the test of the loop and the loop. -/
def plnge_tail (opstr : List TokenKind) (hier : P Expr) (fuel : Nat) (node : Expr) : P Expr := do
  match (← nextop opstr) with
  | none => return node
  | some opidx => plnge_loop opstr hier fuel node opidx

/-- The part of the loop of `plnge_rel` after an operand. -/
def plnge_rel_tail (opstr : List TokenKind) (hier : P Expr) (fuel : Nat)
    (ops : List (token_pos_t × TokenKind × Expr)) : P (List (token_pos_t × TokenKind × Expr)) := do
  match (← nextop opstr) with
  | some opidx => plnge_rel_loop opstr hier fuel ops opidx
  | none => return ops

/-- The part of `plnge_rel` after the first operand. -/
def plnge_rel_top (opstr : List TokenKind) (hier : P Expr) (fuel : Nat) (first : Expr) :
    P Expr := do
  match (← nextop opstr) with
  | none => return first
  | some opidx =>
    let chainpos ← current_pos
    let ops ← plnge_rel_loop opstr hier fuel [] opidx
    return Expr.ChainedCompareExpr chainpos first ops

/-- The production of the level `k` from 2 to 12. -/
def hier_at (L : OpLists) (E : Externals) (h14 : P Expr) (fuel : Nat) : Nat → P Expr
  | 2 => hier2 E h14 fuel
  | 3 => hier3 L E h14 fuel
  | 4 => hier4 L E h14 fuel
  | 5 => hier5 L E h14 fuel
  | 6 => hier6 L E h14 fuel
  | 7 => hier7 L E h14 fuel
  | 8 => hier8 L E h14 fuel
  | 9 => hier9 L E h14 fuel
  | 10 => hier10 L E h14 fuel
  | 11 => hier11 L E h14 fuel
  | 12 => hier12 L E h14 fuel
  | _ => failure

/-- What the alignment of the stream says of an expression: `hier14` reads it. -/
def ExprOk (L : OpLists) (E : Externals) (b : Bool) (toks : List token_t) : Prop :=
  HeadIn expr_heads toks ∧ ∀ n t, toks.length + 4 ≤ n → stop14 L t →
    Reads b (hier14 L E n) toks t

/-- What the alignment says of a conditional expression: `hier13` reads it. -/
def TernOk (L : OpLists) (E : Externals) (b : Bool) (toks : List token_t) : Prop :=
  HeadIn expr_heads toks ∧ ∀ n f t, toks.length + 3 ≤ n → toks.length + 3 ≤ f → stop13 L t →
    Reads b (hier13 L E (hier14 L E n) f) toks t

/-- What the alignment says of an expression of level `k`. -/
def LvlOk (L : OpLists) (E : Externals) (b : Bool) (k : Nat) (toks : List token_t) : Prop :=
  HeadIn expr_heads toks ∧ ∀ n f t, toks.length + 3 ≤ n → toks.length + 2 ≤ f → stopk L k t →
    Reads b (hier_at L E (hier14 L E n) f k) toks t

/-- What the alignment says of the operators and operands after the first
operand of level `k`: the loops of `plnge` and `plnge_rel` read them. -/
def TailOk (L : OpLists) (E : Externals) (b : Bool) (k : Nat) (toks : List token_t) : Prop :=
  (toks = [] ∨ HeadIn (L.table k) toks) ∧
    ∀ n f g t, toks.length + 3 ≤ n → toks.length + 2 ≤ f → toks.length ≤ g → stopk L k t →
      (∀ node,
        Reads b (plnge_tail (L.table k) (hier_at L E (hier14 L E n) f (k - 1)) g node) toks t) ∧
      (∀ ops,
        Reads b (plnge_rel_tail (L.table k) (hier_at L E (hier14 L E n) f (k - 1)) g ops)
          toks t) ∧
      (∀ first,
        Reads b (plnge_rel_top (L.table k) (hier_at L E (hier14 L E n) f (k - 1)) g first)
          toks t)

/-- What the alignment says of a postfix expression: `hier1` reads it. -/
def PostOk (L : OpLists) (E : Externals) (b : Bool) (toks : List token_t) : Prop :=
  HeadIn base_heads toks ∧ ∀ n f t, toks.length + 3 ≤ n → toks.length + 1 ≤ f → stop1 t →
    Reads b (hier1 E (hier14 L E n) f) toks t

/-- What the alignment says of the first part of a postfix expression. -/
def BaseOk (L : OpLists) (E : Externals) (b : Bool) (toks : List token_t) : Prop :=
  HeadIn base_heads toks ∧ ∀ n f t, toks.length + 3 ≤ n → toks.length ≤ f →
    Reads b (hier1_base E (hier14 L E n) f) toks t

/-- What the alignment says of postfix operators: the loop of `hier1` reads them. -/
def PtailOk (L : OpLists) (E : Externals) (b : Bool) (toks : List token_t) : Prop :=
  ∀ n f t base, toks.length + 4 ≤ n → toks.length + 1 ≤ f → stop1 t →
    Reads b (hier1_loop (hier14 L E n) f base) toks t

/-- What the alignment says of a primary: `primary` reads it. -/
def PrimOk (L : OpLists) (E : Externals) (b : Bool) (toks : List token_t) : Prop :=
  HeadIn prim_heads toks ∧ ∀ n f t, toks.length + 3 ≤ n → toks.length ≤ f →
    Reads b (primary (hier14 L E n) f) toks t

/-- What the alignment says of the elements between parentheses. -/
def ElemsOk (L : OpLists) (E : Externals) (b : Bool) (toks : List token_t) : Prop :=
  HeadIn expr_heads toks ∧ ∀ n f t acc, toks.length + 4 ≤ n → toks.length ≤ f → stop14 L t →
    t.id ≠ ch_comma → Reads b (primary_loop (hier14 L E n) f acc) toks t

/-- What the alignment says of the elements of an array literal. -/
def ArrOk (L : OpLists) (E : Externals) (b : Bool) (toks : List token_t) : Prop :=
  HeadIn (tELLIPS :: expr_heads) toks ∧
    ∀ n f t acc, toks.length + 4 ≤ n → toks.length ≤ f → stop14 L t → t.id ≠ ch_comma →
      Reads b (constant_loop (hier14 L E n) f acc) toks t

/-- What the alignment says of the arguments of a call. -/
def ArgsOk (L : OpLists) (E : Externals) (b : Bool) (toks : List token_t) : Prop :=
  toks ≠ [] ∧ ∀ n f t pos tok target, toks.length + 4 ≤ n → toks.length ≤ f →
    Reads b (parse_call (hier14 L E n) f pos tok target) toks t

/-- What the alignment says of the arguments from one of them on. -/
def ArglistOk (L : OpLists) (E : Externals) (b : Bool) (toks : List token_t) : Prop :=
  HeadIn (ch_dot :: ch_underscore :: expr_heads) toks ∧
    ∀ n f t named acc, toks.length + 4 ≤ n → toks.length ≤ f →
      Reads b (parse_call_loop (hier14 L E n) f named acc) toks t

/-- What the alignment says of the arguments from the value of one of them on. -/
def ArgvOk (L : OpLists) (E : Externals) (b : Bool) (toks : List token_t) : Prop :=
  HeadIn (ch_underscore :: expr_heads) toks ∧
    ∀ n f t named acc name, toks.length + 4 ≤ n → toks.length ≤ f + 1 →
      Reads b (call_arg_body (hier14 L E n) f acc named name) toks t

/-- What the alignment says of the dimensions of `new T[...]`. -/
def DimsOk (L : OpLists) (E : Externals) (b : Bool) (toks : List token_t) : Prop :=
  HeadIn expr_heads toks ∧ ∀ n f t acc, toks.length + 4 ≤ n → toks.length ≤ f →
    t.id ≠ ch_lbracket → Reads b (parse_new_array_loop (hier14 L E n) f acc) toks t

/-- What the alignment of the stream says of a token sequence of a category:
the production of the category reads exactly these tokens, whatever admissible
token follows. -/
def Aligned (L : OpLists) (E : Externals) (b : Bool) : Form → List token_t → Prop
  | .expr, toks => ExprOk L E b toks
  | .tern, toks => TernOk L E b toks
  | .lvl k, toks => LvlOk L E b k toks
  | .ltail k, toks => TailOk L E b k toks
  | .post, toks => PostOk L E b toks
  | .base, toks => BaseOk L E b toks
  | .ptail, toks => PtailOk L E b toks
  | .prim, toks => PrimOk L E b toks
  | .elems, toks => ElemsOk L E b toks
  | .arr, toks => ArrOk L E b toks
  | .args, toks => ArgsOk L E b toks
  | .arglist, toks => ArglistOk L E b toks
  | .argv, toks => ArgvOk L E b toks
  | .dims, toks => DimsOk L E b toks

/-- The tokens `a <end of expression> ;`. -/
def c31_end_tokens : List token_t := [sym "a" 0, tk tENDEXPR 1, tk ch_semicolon 2]

/-- The tokens `a + f ( 1 , b [ 2 ] ) * - c` followed by `)`. -/
def c31_tokens : List token_t :=
  [sym "a" 0, tk ch_plus 1, sym "f" 2, tk ch_lparen 3, num 1 4, tk ch_comma 5, sym "b" 6,
   tk ch_lbracket 7, num 2 8, tk ch_rbracket 9, tk ch_rparen 10, tk ch_star 11, tk ch_minus 12,
   sym "c" 13]


/-! ## Theorems -/

theorem Post.pure {α : Type} {Q : α → Prop} {a : α} (h : Q a) : Post (pure a : P α) Q := by
  intro s b s' hb
  simp only [Pure.pure, StateT.pure, Option.some.injEq, Prod.mk.injEq] at hb
  exact hb.1 ▸ h

theorem Post.bind {α β : Type} {m : P α} {f : α → P β} {Q : α → Prop} {R : β → Prop}
    (h1 : Post m Q) (h2 : ∀ a, Q a → Post (f a) R) : Post (m >>= f) R := by
  intro s b s' hb
  simp only [Bind.bind, StateT.bind] at hb
  cases hm : m s with
  | none => simp [hm, Option.bind] at hb
  | some r =>
    obtain ⟨a, s1⟩ := r
    simp only [hm, Option.bind] at hb
    exact h2 a (h1 s a s1 hm) s1 b s' hb

theorem Post.any {α : Type} (m : P α) : Post m (fun _ => True) := fun _ _ _ _ => True.intro

theorem Post.bind_any {α β : Type} {m : P α} {f : α → P β} {R : β → Prop}
    (h2 : ∀ a, Post (f a) R) : Post (m >>= f) R :=
  Post.bind (Post.any m) (fun a _ => h2 a)

theorem Post.failure {α : Type} {Q : α → Prop} : Post (failure : P α) Q := by
  intro s a s' h
  simp [Alternative.failure, StateT.failure] at h

theorem Post.mono {α : Type} {m : P α} {Q R : α → Prop} (h : Post m Q) (hqr : ∀ a, Q a → R a) :
    Post m R := fun s a s' hm => hqr a (h s a s' hm)

theorem Post.SaveAndSet {α : Type} {m : P α} {Q : α → Prop} (g : ParserState → Bool)
    (st : Bool → ParserState → ParserState) (v : Bool) (h : Post m Q) :
    Post (SaveAndSet g st v m) Q := by
  intro s a s' hs
  unfold SourcePawn.SaveAndSet at hs
  cases hm : m (st v s) with
  | none => simp [hm] at hs
  | some r =>
    obtain ⟨a1, s1⟩ := r
    simp only [hm, Option.some.injEq, Prod.mk.injEq] at hs
    exact hs.1 ▸ h _ _ _ hm

theorem Expr.allNodesList_append (p : Expr → Bool) (a b : List Expr) :
    Expr.allNodesList p (a ++ b) = (Expr.allNodesList p a && Expr.allNodesList p b) := by
  induction a with
  | nil => simp [Expr.allNodesList]
  | cons x xs ih => simp [Expr.allNodesList, ih, Bool.and_assoc]

theorem Expr.allNodesOps_append (p : Expr → Bool) (a b : List (token_pos_t × TokenKind × Expr)) :
    Expr.allNodesOps p (a ++ b) = (Expr.allNodesOps p a && Expr.allNodesOps p b) := by
  induction a with
  | nil => simp [Expr.allNodesOps]
  | cons x xs ih => obtain ⟨q, t, e⟩ := x; simp [Expr.allNodesOps, ih, Bool.and_assoc]

theorem Expr.allNodesArgs_append (p : Expr → Bool) (a b : List (Option String × Option Expr)) :
    Expr.allNodesArgs p (a ++ b) = (Expr.allNodesArgs p a && Expr.allNodesArgs p b) := by
  induction a with
  | nil => simp [Expr.allNodesArgs]
  | cons x xs ih =>
    obtain ⟨n, e⟩ := x
    cases e <;> simp [Expr.allNodesArgs, ih, Bool.and_assoc]

theorem Expr.Low_of_plain (L : OpLists) (k : Nat) {e : Expr} (h : e.isOperatorNode = false) :
    e.Low L k := by
  intro j hj
  cases e <;> simp [Expr.binLevel, Expr.isOperatorNode] at hj h

theorem Expr.Low.weaken {L : OpLists} {k m : Nat} {e : Expr} (h : e.Low L k) (hkm : k ≤ m) :
    e.Low L m := fun j hj => Nat.le_trans (h j hj) hkm

theorem nextop_from_lt (opstr : List TokenKind) :
    ∀ idx, Post (nextop_from idx opstr)
      (fun r => ∀ i, r = some i → idx ≤ i ∧ i < idx + opstr.length) := by
  induction opstr with
  | nil =>
    intro idx
    unfold nextop_from
    exact Post.pure (by simp)
  | cons op ops ih =>
    intro idx
    unfold nextop_from
    refine Post.bind_any fun b => ?_
    split
    · exact Post.pure (by intro i hi; simp at hi; subst hi; simp)
    · refine Post.mono (ih (idx + 1)) ?_
      intro r hr i hi
      have := hr i hi
      simp only [List.length_cons]
      omega

theorem nextop_lt (opstr : List TokenKind) :
    Post (nextop opstr) (fun r => ∀ i, r = some i → i < opstr.length) := by
  refine Post.mono (nextop_from_lt opstr 0) ?_
  intro r hr i hi
  have := hr i hi
  omega

theorem getD_mem_of_lt (opstr : List TokenKind) (i : Nat) (h : i < opstr.length) :
    opstr.getD i TokenKind.tEOF ∈ opstr := by
  rw [List.getD_eq_getElem _ _ h]
  exact List.getElem_mem h

section invariant

variable (p : Expr → Bool) (hp : ∀ e : Expr, e.isOperatorNode = false → p e = true)

include hp

omit hp in
theorem constant_loop_all (h14 : P Expr) (h : Post h14 (fun e => e.allNodes p = true)) :
    ∀ fuel es, Expr.allNodesList p es = true →
      Post (constant_loop h14 fuel es) (fun r => Expr.allNodesList p r.1 = true) := by
  intro fuel
  induction fuel with
  | zero => intro es _; exact Post.failure
  | succ n ih =>
    intro es hes
    unfold constant_loop
    refine Post.bind_any fun b => ?_
    split
    · exact Post.pure hes
    · refine Post.bind h fun child hc => ?_
      refine Post.bind_any fun b => ?_
      split
      · exact ih _ (by simp [Expr.allNodesList_append, Expr.allNodesList, hes, hc])
      · exact Post.pure (by simp [Expr.allNodesList_append, Expr.allNodesList, hes, hc])

theorem constant_all (h14 : P Expr) (h : Post h14 (fun e => e.allNodes p = true)) (fuel : Nat) :
    Post (constant h14 fuel) (fun e => e.allNodes p = true ∧ e.isOperatorNode = false) := by
  have hloop := constant_loop_all p h14 h fuel [] rfl
  unfold constant
  refine Post.bind_any fun tok => ?_
  refine Post.bind_any fun pos => ?_
  repeat (first
    | exact Post.pure (by simp [Expr.allNodes, Expr.isOperatorNode, hp, *])
    | refine Post.bind hloop fun _ _ => ?_
    | split
    | refine Post.bind_any fun _ => ?_)

omit hp in
theorem parse_call_loop_all (h14 : P Expr) (h : Post h14 (fun e => e.allNodes p = true)) :
    ∀ fuel named args, Expr.allNodesArgs p args = true →
      Post (parse_call_loop h14 fuel named args) (fun r => Expr.allNodesArgs p r = true) := by
  intro fuel
  induction fuel with
  | zero => intro _ es _; exact Post.failure
  | succ n ih =>
    intro named args hargs
    have hnone : ∀ name : Option String,
        Expr.allNodesArgs p (args ++ [(name, none)]) = true := by
      intro name
      simp [Expr.allNodesArgs_append, Expr.allNodesArgs, hargs]
    have hsome : ∀ (name : Option String) (e : Expr), e.allNodes p = true →
        Expr.allNodesArgs p (args ++ [(name, some e)]) = true := by
      intro name e he
      simp [Expr.allNodesArgs_append, Expr.allNodesArgs, hargs, he]
    have hexpr : Post (do
          if (← matchtoken TokenKind.ch_underscore) then return none
          else return some (← h14) : P (Option Expr))
        (fun r => ∀ name : Option String,
          Expr.allNodesArgs p (args ++ [(name, r)]) = true) := by
      refine Post.bind_any fun b => ?_
      split
      · exact Post.pure hnone
      · refine Post.bind h fun e he => ?_
        exact Post.pure (fun name => hsome name e he)
    unfold parse_call_loop
    have htail : ∀ (nm : Bool) (args' : List (Option String × Option Expr)),
        Expr.allNodesArgs p args' = true → Post (do
          if (← matchtoken TokenKind.ch_rparen) then
            return args'
          else if !(← needtoken TokenKind.ch_comma) then
            return args'
          else if (← freading) then
            if (← matchtoken TokenKind.tENDEXPR) then return args'
            else parse_call_loop h14 n nm args'
          else
            return args' : P (List (Option String × Option Expr)))
          (fun r => Expr.allNodesArgs p r = true) := by
      intro nm args' ha
      repeat (first
        | exact Post.pure ha
        | exact ih _ _ ha
        | split
        | refine Post.bind_any fun _ => ?_)
    refine Post.bind_any fun b => ?_
    split
    · refine Post.bind_any fun ident => ?_
      split
      · exact Post.pure hargs
      · refine Post.bind_any fun _ => ?_
        refine Post.bind hexpr fun x hx => ?_
        exact htail _ _ (hx _)
    · dsimp only
      split
      · refine Post.bind_any fun _ => ?_
        refine Post.bind hexpr fun x hx => ?_
        exact htail _ _ (hx _)
      · refine Post.bind_any fun _ => ?_
        refine Post.bind hexpr fun x hx => ?_
        exact htail _ _ (hx _)

theorem parse_call_all (h14 : P Expr) (h : Post h14 (fun e => e.allNodes p = true)) (fuel : Nat)
    (pos : token_pos_t) (tok : TokenKind) (target : Expr) (ht : target.allNodes p = true) :
    Post (parse_call h14 fuel pos tok target)
      (fun e => e.allNodes p = true ∧ e.isOperatorNode = false) := by
  have hloop := parse_call_loop_all p h14 h fuel false [] rfl
  unfold parse_call
  repeat (first
    | exact Post.pure (by simp [Expr.allNodes, Expr.isOperatorNode, Expr.allNodesArgs, hp, *])
    | refine Post.bind hloop fun _ _ => ?_
    | split
    | refine Post.bind_any fun _ => ?_)

theorem parse_view_as_all (E : Externals) (h14 : P Expr)
    (h : Post h14 (fun e => e.allNodes p = true)) :
    Post (parse_view_as E h14) (fun e => e.allNodes p = true ∧ e.isOperatorNode = false) := by
  unfold parse_view_as
  repeat (first
    | exact Post.pure (by simp [Expr.allNodes, Expr.isOperatorNode, hp, *])
    | refine Post.bind h fun _ _ => ?_
    | split
    | refine Post.bind_any fun _ => ?_)

omit hp in
theorem parse_new_array_loop_all (h14 : P Expr) (h : Post h14 (fun e => e.allNodes p = true)) :
    ∀ fuel es, Expr.allNodesList p es = true →
      Post (parse_new_array_loop h14 fuel es) (fun r => Expr.allNodesList p r = true) := by
  intro fuel
  induction fuel with
  | zero => intro es _; exact Post.failure
  | succ n ih =>
    intro es hes
    unfold parse_new_array_loop
    refine Post.bind h fun child hc => ?_
    have hes' : Expr.allNodesList p (es ++ [child]) = true := by
      simp [Expr.allNodesList_append, Expr.allNodesList, hes, hc]
    repeat (first
      | exact Post.pure hes'
      | exact ih _ hes'
      | split
      | refine Post.bind_any fun _ => ?_)

theorem parse_new_array_all (h14 : P Expr) (h : Post h14 (fun e => e.allNodes p = true))
    (fuel : Nat) (pos : token_pos_t) (tag : Int) :
    Post (parse_new_array h14 fuel pos tag)
      (fun e => e.allNodes p = true ∧ e.isOperatorNode = false) := by
  have hloop := parse_new_array_loop_all p h14 h fuel [] rfl
  unfold parse_new_array
  refine Post.bind hloop fun _ _ => ?_
  exact Post.pure (by simp [Expr.allNodes, Expr.isOperatorNode, hp, *])

omit hp in
theorem primary_loop_all (h14 : P Expr) (h : Post h14 (fun e => e.allNodes p = true)) :
    ∀ fuel es, Expr.allNodesList p es = true →
      Post (primary_loop h14 fuel es) (fun r => Expr.allNodesList p r = true) := by
  intro fuel
  induction fuel with
  | zero => intro es _; exact Post.failure
  | succ n ih =>
    intro es hes
    unfold primary_loop
    refine Post.bind h fun child hc => ?_
    have hes' : Expr.allNodesList p (es ++ [child]) = true := by
      simp [Expr.allNodesList_append, Expr.allNodesList, hes, hc]
    repeat (first
      | exact Post.pure hes'
      | exact ih _ hes'
      | split
      | refine Post.bind_any fun _ => ?_)

theorem primary_all (h14 : P Expr) (h : Post h14 (fun e => e.allNodes p = true)) (fuel : Nat) :
    Post (primary h14 fuel) (fun e => e.allNodes p = true ∧ e.isOperatorNode = false) := by
  have hloop := primary_loop_all p h14 h fuel [] rfl
  have hconst := constant_all p hp h14 h fuel
  unfold primary
  repeat (first
    | exact hconst
    | exact Post.pure (by simp [Expr.allNodes, Expr.isOperatorNode, hp, *])
    | refine Post.bind hloop fun _ _ => ?_
    | refine Post.SaveAndSet _ _ _ ?_
    | split
    | refine Post.bind_any fun _ => ?_)

theorem hier1_loop_all (h14 : P Expr) (h : Post h14 (fun e => e.allNodes p = true)) :
    ∀ fuel base, base.allNodes p = true → base.isOperatorNode = false →
      Post (hier1_loop h14 fuel base)
        (fun e => e.allNodes p = true ∧ e.isOperatorNode = false) := by
  intro fuel
  induction fuel with
  | zero => intro _ _ _; exact Post.failure
  | succ n ih =>
    intro base hb hbp
    unfold hier1_loop
    refine Post.bind_any fun tok => ?_
    split
    · refine Post.bind_any fun pos => ?_
      refine Post.bind_any fun ident => ?_
      split
      · exact Post.pure ⟨hb, hbp⟩
      · exact ih _ (by simp [Expr.allNodes, hb, hp _ (rfl : Expr.isOperatorNode (Expr.FieldAccessExpr _ _ _ _) = false)]) rfl
    · split
      · refine Post.bind_any fun pos => ?_
        refine Post.bind h fun inner hi => ?_
        refine Post.bind_any fun _ => ?_
        exact ih _ (by simp [Expr.allNodes, hb, hi, hp _ (rfl : Expr.isOperatorNode (Expr.IndexExpr _ _ _) = false)]) rfl
      · split
        · refine Post.bind_any fun pos => ?_
          refine Post.bind (parse_call_all p hp h14 h n pos tok.id base hb) fun b hb2 => ?_
          exact ih _ hb2.1 hb2.2
        · refine Post.bind_any fun _ => ?_
          exact Post.pure ⟨hb, hbp⟩

theorem hier1_all (E : Externals) (h14 : P Expr) (h : Post h14 (fun e => e.allNodes p = true))
    (fuel : Nat) :
    Post (hier1 E h14 fuel) (fun e => e.allNodes p = true ∧ e.isOperatorNode = false) := by
  unfold hier1
  have hbase : Post (do
        if (← matchtoken TokenKind.tVIEW_AS) then parse_view_as E h14
        else primary h14 fuel : P Expr)
      (fun e => e.allNodes p = true ∧ e.isOperatorNode = false) := by
    refine Post.bind_any fun b => ?_
    split
    · exact parse_view_as_all p hp E h14 h
    · exact primary_all p hp h14 h fuel
  refine Post.bind hbase fun base hb => ?_
  exact hier1_loop_all p hp h14 h fuel base hb.1 hb.2

set_option maxHeartbeats 1600000 in
theorem hier2_all (E : Externals) (h14 : P Expr) (h : Post h14 (fun e => e.allNodes p = true)) :
    ∀ fuel, Post (hier2 E h14 fuel)
      (fun e => e.allNodes p = true ∧ e.isOperatorNode = false) := by
  intro fuel
  induction fuel with
  | zero => exact Post.failure
  | succ n ih =>
    have h1 := hier1_all p hp E h14 h n
    have hna := fun pos tag => parse_new_array_all p hp h14 h n pos tag
    have hcall := fun pos tok target ht => parse_call_all p hp h14 h n pos tok target ht
    unfold hier2
    refine Post.bind_any fun tok => ?_
    refine Post.bind_any fun pos => ?_
    repeat (first
      | exact hna _ _
      | exact hcall _ _ _ (by simp [Expr.allNodes, Expr.isOperatorNode, hp])
      | exact Post.pure (by assumption)
      | exact Post.pure (by simp [Expr.allNodes, Expr.isOperatorNode, hp, *])
      | refine Post.bind ih fun _ _ => ?_
      | refine Post.bind h1 fun _ _ => ?_
      | split
      | refine Post.bind_any fun _ => ?_)

end invariant

section invariant

variable (p : Expr → Bool)

theorem plnge_loop_all (L : OpLists) (opstr : List TokenKind) (hier : P Expr) (k k' : Nat)
    (hh : Post hier (fun e => e.allNodes p = true ∧ e.Low L k'))
    (hnode : ∀ t ∈ opstr, ∀ q l r, Expr.Low L k l → Expr.Low L k' r →
      p (Expr.BinaryExpr q t l r) = true ∧ p (Expr.LogicalExpr q t l r) = true)
    (hlow : ∀ t ∈ opstr, ∀ j, L.level t = some j → j ≤ k) :
    ∀ fuel node opidx, opidx < opstr.length → node.allNodes p = true → node.Low L k →
      Post (plnge_loop opstr hier fuel node opidx)
        (fun e => e.allNodes p = true ∧ e.Low L k) := by
  intro fuel
  induction fuel with
  | zero => intro _ _ _ _ _; exact Post.failure
  | succ n ih =>
    intro node opidx hidx hn hnl
    unfold plnge_loop
    refine Post.bind_any fun pos => ?_
    refine Post.bind hh fun right hr => ?_
    have hmem := getD_mem_of_lt opstr opidx hidx
    have hnew := hnode _ hmem pos node right hnl hr.2
    generalize opstr.getD opidx TokenKind.tEOF = tk at hmem hnew ⊢
    refine Post.bind (nextop_lt opstr) fun r hlt => ?_
    dsimp only
    split
    · rename_i i
      refine ih _ i (hlt i rfl) ?_ ?_
      · split <;> simp [Expr.allNodes, hn, hr.1, hnew.1, hnew.2]
      · intro j hj
        split at hj <;> exact hlow _ hmem j (by simpa [Expr.binLevel] using hj)
    · refine Post.pure ⟨?_, ?_⟩
      · split <;> simp [Expr.allNodes, hn, hr.1, hnew.1, hnew.2]
      · intro j hj
        split at hj <;> exact hlow _ hmem j (by simpa [Expr.binLevel] using hj)

theorem plnge_all (L : OpLists) (opstr : List TokenKind) (hier : P Expr) (k k' : Nat)
    (hk : k' ≤ k)
    (hh : Post hier (fun e => e.allNodes p = true ∧ e.Low L k'))
    (hnode : ∀ t ∈ opstr, ∀ q l r, Expr.Low L k l → Expr.Low L k' r →
      p (Expr.BinaryExpr q t l r) = true ∧ p (Expr.LogicalExpr q t l r) = true)
    (hlow : ∀ t ∈ opstr, ∀ j, L.level t = some j → j ≤ k) (fuel : Nat) :
    Post (plnge opstr hier fuel) (fun e => e.allNodes p = true ∧ e.Low L k) := by
  unfold plnge
  refine Post.bind hh fun node hn => ?_
  refine Post.bind (nextop_lt opstr) fun r hlt => ?_
  split
  · exact Post.pure ⟨hn.1, hn.2.weaken hk⟩
  · rename_i i
    exact plnge_loop_all p L opstr hier k k' hh hnode hlow fuel node i (hlt i rfl) hn.1
      (hn.2.weaken hk)

theorem plnge_rel_loop_all (opstr : List TokenKind) (hier : P Expr)
    (hh : Post hier (fun e => e.allNodes p = true)) :
    ∀ fuel ops opidx, opidx < opstr.length → Expr.allNodesOps p ops = true →
      (∀ o ∈ ops, o.2.1 ∈ opstr) →
      Post (plnge_rel_loop opstr hier fuel ops opidx)
        (fun r => Expr.allNodesOps p r = true ∧ (∀ o ∈ r, o.2.1 ∈ opstr) ∧ r ≠ []) := by
  intro fuel
  induction fuel with
  | zero => intro _ _ _ _ _; exact Post.failure
  | succ n ih =>
    intro ops opidx hidx hops hmemall
    unfold plnge_rel_loop
    refine Post.bind_any fun pos => ?_
    refine Post.bind hh fun right hr => ?_
    have hmem := getD_mem_of_lt opstr opidx hidx
    generalize opstr.getD opidx TokenKind.tEOF = tk at hmem ⊢
    have h1 : Expr.allNodesOps p (ops ++ [(pos, tk, right)]) = true := by
      simp [Expr.allNodesOps_append, Expr.allNodesOps, hops, hr]
    have h2 : ∀ o ∈ ops ++ [(pos, tk, right)], o.2.1 ∈ opstr := by
      intro o ho
      rcases List.mem_append.mp ho with ho | ho
      · exact hmemall o ho
      · simp at ho; subst ho; exact hmem
    refine Post.bind (nextop_lt opstr) fun r hlt => ?_
    dsimp only
    split
    · rename_i i
      exact ih _ i (hlt i rfl) h1 h2
    · exact Post.pure ⟨h1, h2, by simp⟩

theorem plnge_rel_all (L : OpLists) (opstr : List TokenKind) (hier : P Expr) (k : Nat)
    (hh : Post hier (fun e => e.allNodes p = true ∧ e.Low L k))
    (hchain : ∀ q first ops, ops ≠ [] → (∀ o ∈ ops, o.2.1 ∈ opstr) →
      p (Expr.ChainedCompareExpr q first ops) = true)
    (fuel : Nat) :
    Post (plnge_rel opstr hier fuel) (fun e => e.allNodes p = true ∧ e.Low L k) := by
  unfold plnge_rel
  refine Post.bind hh fun first hf => ?_
  refine Post.bind (nextop_lt opstr) fun r hlt => ?_
  split
  · exact Post.pure hf
  · rename_i i
    refine Post.bind_any fun chainpos => ?_
    refine Post.bind (plnge_rel_loop_all p opstr hier (Post.mono hh fun _ h => h.1) fuel [] i
      (hlt i rfl) rfl (by simp)) fun ops hops => ?_
    refine Post.pure ⟨?_, ?_⟩
    · simp [Expr.allNodes, hf.1, hops.1, hchain chainpos first ops hops.2.2 hops.2.1]
    · intro j hj
      simp [Expr.binLevel] at hj

end invariant

theorem firstTable_le (t : TokenKind) :
    ∀ (ls : List (List TokenKind)) (i k : Nat), firstTable t ls = some i →
      t ∈ ls.getD k [] → i ≤ k := by
  intro ls
  induction ls with
  | nil => intro i k h; simp [firstTable] at h
  | cons l ls ih =>
    intro i k h hk
    unfold firstTable at h
    split at h
    · injection h with h; omega
    · cases k with
      | zero => simp at hk; contradiction
      | succ k =>
        cases hf : firstTable t ls with
        | none => simp [hf] at h
        | some i' =>
          simp only [hf, Option.map_some', Option.some.injEq] at h
          have := ih i' k hf (by simpa using hk)
          omega

theorem firstTable_mem (t : TokenKind) :
    ∀ (ls : List (List TokenKind)) (i : Nat), firstTable t ls = some i → t ∈ ls.getD i [] := by
  intro ls
  induction ls with
  | nil => intro i h; simp [firstTable] at h
  | cons l ls ih =>
    intro i h
    unfold firstTable at h
    split at h
    · injection h with h; subst h; simpa
    · cases hf : firstTable t ls with
      | none => simp [hf] at h
      | some i' =>
        simp only [hf, Option.map_some', Option.some.injEq] at h
        subst h
        simpa using ih i' hf

theorem OpLists.level_le_of_mem (L : OpLists) (k : Nat) (t : TokenKind) (h : t ∈ L.table k) :
    ∀ j, L.level t = some j → j ≤ k := by
  intro j hj
  unfold OpLists.table at h
  split at h
  · simp at h
  · unfold OpLists.level at hj
    cases hf : firstTable t L.tables with
    | none => simp [hf] at hj
    | some i =>
      simp only [hf, Option.map_some', Option.some.injEq] at hj
      have := firstTable_le t L.tables i (k - 3) hf h
      omega

section levels

variable (L : OpLists) (E : Externals) (p : Expr → Bool) (R : NodeRules L p)
  (h14 : P Expr) (h : Post h14 (fun e => e.allNodes p = true))

include R h

theorem hier2_low (fuel : Nat) :
    Post (hier2 E h14 fuel) (fun e => e.allNodes p = true ∧ e.Low L 2) :=
  Post.mono (hier2_all p R.plain E h14 h fuel) fun _ he => ⟨he.1, Expr.Low_of_plain L 2 he.2⟩

theorem hier3_all (fuel : Nat) :
    Post (hier3 L E h14 fuel) (fun e => e.allNodes p = true ∧ e.Low L 3) :=
  plnge_all p L L.list3 _ 3 2 (by omega) (hier2_low L E p R h14 h fuel)
    (fun t ht => R.binary 3 t ht (by omega)) (fun t ht => L.level_le_of_mem 3 t ht) fuel

theorem hier4_all (fuel : Nat) :
    Post (hier4 L E h14 fuel) (fun e => e.allNodes p = true ∧ e.Low L 4) :=
  plnge_all p L L.list4 _ 4 3 (by omega) (hier3_all L E p R h14 h fuel)
    (fun t ht => R.binary 4 t ht (by omega)) (fun t ht => L.level_le_of_mem 4 t ht) fuel

theorem hier5_all (fuel : Nat) :
    Post (hier5 L E h14 fuel) (fun e => e.allNodes p = true ∧ e.Low L 5) :=
  plnge_all p L L.list5 _ 5 4 (by omega) (hier4_all L E p R h14 h fuel)
    (fun t ht => R.binary 5 t ht (by omega)) (fun t ht => L.level_le_of_mem 5 t ht) fuel

theorem hier6_all (fuel : Nat) :
    Post (hier6 L E h14 fuel) (fun e => e.allNodes p = true ∧ e.Low L 6) :=
  plnge_all p L L.list6 _ 6 5 (by omega) (hier5_all L E p R h14 h fuel)
    (fun t ht => R.binary 6 t ht (by omega)) (fun t ht => L.level_le_of_mem 6 t ht) fuel

theorem hier7_all (fuel : Nat) :
    Post (hier7 L E h14 fuel) (fun e => e.allNodes p = true ∧ e.Low L 7) :=
  plnge_all p L L.list7 _ 7 6 (by omega) (hier6_all L E p R h14 h fuel)
    (fun t ht => R.binary 7 t ht (by omega)) (fun t ht => L.level_le_of_mem 7 t ht) fuel

theorem hier8_all (fuel : Nat) :
    Post (hier8 L E h14 fuel) (fun e => e.allNodes p = true ∧ e.Low L 8) :=
  plnge_all p L L.list8 _ 8 7 (by omega) (hier7_all L E p R h14 h fuel)
    (fun t ht => R.binary 8 t ht (by omega)) (fun t ht => L.level_le_of_mem 8 t ht) fuel

theorem hier9_all (fuel : Nat) :
    Post (hier9 L E h14 fuel) (fun e => e.allNodes p = true ∧ e.Low L 8) :=
  plnge_rel_all p L L.list9 _ 8 (hier8_all L E p R h14 h fuel) R.chain fuel

theorem hier10_all (fuel : Nat) :
    Post (hier10 L E h14 fuel) (fun e => e.allNodes p = true ∧ e.Low L 10) :=
  plnge_all p L L.list10 _ 10 9 (by omega)
    (Post.mono (hier9_all L E p R h14 h fuel) fun _ he => ⟨he.1, he.2.weaken (by omega)⟩)
    (fun t ht => R.binary 10 t ht (by omega)) (fun t ht => L.level_le_of_mem 10 t ht) fuel

theorem hier11_all (fuel : Nat) :
    Post (hier11 L E h14 fuel) (fun e => e.allNodes p = true ∧ e.Low L 11) :=
  plnge_all p L L.list11 _ 11 10 (by omega) (hier10_all L E p R h14 h fuel)
    (fun t ht => R.binary 11 t ht (by omega)) (fun t ht => L.level_le_of_mem 11 t ht) fuel

theorem hier12_all (fuel : Nat) :
    Post (hier12 L E h14 fuel) (fun e => e.allNodes p = true ∧ e.Low L 12) :=
  plnge_all p L L.list12 _ 12 11 (by omega) (hier11_all L E p R h14 h fuel)
    (fun t ht => R.binary 12 t ht (by omega)) (fun t ht => L.level_le_of_mem 12 t ht) fuel

theorem hier13_all : ∀ fuel, Post (hier13 L E h14 fuel) (fun e => e.allNodes p = true) := by
  intro fuel
  induction fuel with
  | zero => exact Post.failure
  | succ n ih =>
    unfold hier13
    refine Post.bind (hier12_all L E p R h14 h n) fun node hn => ?_
    refine Post.bind_any fun b => ?_
    split
    · refine Post.bind_any fun pos => ?_
      refine Post.bind (Post.SaveAndSet _ _ _ ih) fun left hl => ?_
      refine Post.bind_any fun _ => ?_
      refine Post.bind ih fun right hr => ?_
      exact Post.pure (by simp [Expr.allNodes, hn.1, hl, hr, R.plain, Expr.isOperatorNode])
    · exact Post.pure hn.1

end levels

theorem hier14_all (L : OpLists) (E : Externals) (p : Expr → Bool) (R : NodeRules L p) :
    ∀ fuel, Post (hier14 L E fuel) (fun e => e.allNodes p = true) := by
  intro fuel
  induction fuel with
  | zero => exact Post.failure
  | succ n ih =>
    unfold hier14
    refine Post.bind (hier13_all L E p R _ ih n) fun node hn => ?_
    refine Post.bind_any fun tok => ?_
    refine Post.bind_any fun pos => ?_
    split
    · rename_i hmem
      refine Post.bind ih fun right hr => ?_
      exact Post.pure (by simp [Expr.allNodes, hn, hr, R.assign pos tok.id node right (Or.inl hmem)])
    · split
      · rename_i heq
        refine Post.bind_any fun st => ?_
        dsimp only
        split <;>
        · refine Post.bind_any fun _ => ?_
          refine Post.bind ih fun right hr => ?_
          exact Post.pure (by
            simp [Expr.allNodes, hn, hr, R.assign pos tok.id node right (Or.inr heq)])
      · refine Post.bind_any fun _ => ?_
        exact Post.pure hn

theorem firstTable_some_of_mem (t : TokenKind) :
    ∀ (ls : List (List TokenKind)) (k : Nat), t ∈ ls.getD k [] →
      ∃ i, firstTable t ls = some i := by
  intro ls
  induction ls with
  | nil => intro k h; simp at h
  | cons l ls ih =>
    intro k h
    unfold firstTable
    split
    · exact ⟨0, rfl⟩
    · cases k with
      | zero => simp at h; contradiction
      | succ k =>
        obtain ⟨i, hi⟩ := ih k (by simpa using h)
        exact ⟨i + 1, by simp [hi]⟩

theorem mem_getD_lt {α : Type} (ls : List (List α)) (i : Nat) (t : α) (h : t ∈ ls.getD i []) :
    ∃ hi : i < ls.length, t ∈ ls[i] := by
  by_cases hi : i < ls.length
  · refine ⟨hi, ?_⟩
    rw [List.getD_eq_getElem _ _ hi] at h
    exact h
  · rw [List.getD_eq_default _ _ (Nat.le_of_not_lt hi)] at h
    exact absurd h (List.not_mem_nil _)

theorem OpLists.level_eq_of_mem (L : OpLists) (hdisj : L.tables.Pairwise fun a b => ∀ t ∈ a, t ∉ b)
    (k : Nat) (t : TokenKind) (h : t ∈ L.table k) : L.level t = some k := by
  unfold OpLists.table at h
  split at h
  · simp at h
  · rename_i hk
    obtain ⟨i, hi⟩ := firstTable_some_of_mem t L.tables (k - 3) h
    have hle := firstTable_le t L.tables i (k - 3) hi h
    have hmi := firstTable_mem t L.tables i hi
    obtain ⟨h1, hm1⟩ := mem_getD_lt _ _ _ hmi
    obtain ⟨h2, hm2⟩ := mem_getD_lt _ _ _ h
    have heq : i = k - 3 := by
      by_contra hne
      have hlt : i < k - 3 := by omega
      exact (List.pairwise_iff_getElem.mp hdisj i (k - 3) h1 h2 hlt) t hm1 hm2
    unfold OpLists.level
    simp only [hi, Option.map_some', Option.some.injEq]
    omega

theorem OpLists.level_none_of_not_mem (L : OpLists) (t : TokenKind)
    (h : ∀ l ∈ L.tables, t ∉ l) : L.level t = none := by
  unfold OpLists.level
  cases hf : firstTable t L.tables with
  | none => rfl
  | some i =>
    obtain ⟨hi, hm⟩ := mem_getD_lt _ _ _ (firstTable_mem t L.tables i hf)
    exact absurd hm (h _ (List.getElem_mem hi))

theorem precNode_rules (L : OpLists) (hdisj : L.tables.Pairwise fun a b => ∀ t ∈ a, t ∉ b)
    (hops : ∀ l ∈ L.tables, ∀ t ∈ l, t ∉ assign_ops ∧ t ≠ TokenKind.ch_assign) :
    NodeRules L (precNode L) := by
  have hnode : ∀ k t, t ∈ L.table k → ∀ l r, Expr.Low L k l → Expr.Low L (k - 1) r →
      (match L.level t with
        | none => true
        | some k => childOK L k false l && childOK L k true r) = true := by
    intro k t ht l r hl hr
    have hk3 : 3 ≤ k := by
      unfold OpLists.table at ht
      split at ht
      · simp at ht
      · omega
    rw [L.level_eq_of_mem hdisj k t ht]
    simp only [Bool.and_eq_true]
    constructor
    · unfold childOK
      cases hb : l.binLevel L with
      | none => rfl
      | some j => simpa using hl j hb
    · unfold childOK
      cases hb : r.binLevel L with
      | none => rfl
      | some j =>
        have := hr j hb
        simp only [if_true, decide_eq_true_eq]
        omega
  refine ⟨?_, ?_, ?_, ?_⟩
  · intro e he
    cases e <;> simp [Expr.isOperatorNode] at he <;> rfl
  · intro q t l r ht
    have hnone : L.level t = none := by
      refine L.level_none_of_not_mem t fun l hl hmem => ?_
      have := hops l hl t hmem
      rcases ht with ht | ht
      · exact this.1 ht
      · exact this.2 ht
    simp [precNode, hnone]
  · intro k t ht _ q l r hl hr
    exact ⟨by simpa [precNode] using hnode k t ht l r hl hr,
      by simpa [precNode] using hnode k t ht l r hl hr⟩
  · intro q first ops _ _
    rfl

/-- C1. Precedence invariant of the binary levels: with pairwise disjoint operator
tables `list3` .. `list12` that hold no assignment operator, every tree returned
by `hier12` satisfies `precNode` at each of its nodes: at a `BinaryExpr` or
`LogicalExpr` whose operator belongs to level `k`, a left child that is a binary
node of the levels 3 to 12 has a level at most `k`, and such a right child has a
level strictly below `k`. -/
theorem hier12_precedence (L : OpLists) (E : Externals)
    (hdisj : L.tables.Pairwise fun a b => ∀ t ∈ a, t ∉ b)
    (hops : ∀ l ∈ L.tables, ∀ t ∈ l, t ∉ assign_ops ∧ t ≠ TokenKind.ch_assign)
    (n fuel : Nat) (s : ParserState) (e : Expr) (s' : ParserState)
    (h : hier12 L E (hier14 L E n) fuel s = some (e, s')) :
    e.allNodes (precNode L) = true :=
  (hier12_all L E (precNode L) (precNode_rules L hdisj hops) (hier14 L E n)
    (hier14_all L E (precNode L) (precNode_rules L hdisj hops) n) fuel s e s' h).1

/-- Witness of C1: the tree of `a - b * (c + d) - e ;` under the sample tables, which
are pairwise disjoint and hold no assignment operator. -/
theorem hier12_precedence_witness :
    (sample_lists.tables.Pairwise fun a b => ∀ t ∈ a, t ∉ b) ∧
    (∀ l ∈ sample_lists.tables, ∀ t ∈ l, t ∉ assign_ops ∧ t ≠ TokenKind.ch_assign) ∧
    hier12 sample_lists sample_externals (hier14 sample_lists sample_externals 20) 20
      (init_state c1_tokens) = some (c1_tree, consumed_state c1_tokens 11) ∧
    c1_tree.allNodes (precNode sample_lists) = true :=
  ⟨by decide, by decide, by decide!,
    hier12_precedence sample_lists sample_externals (by decide) (by decide) 20 20
      (init_state c1_tokens) c1_tree (consumed_state c1_tokens 11) (by decide!)⟩

section run

variable {α β : Type}

@[simp] theorem bind_run (m : P α) (f : α → P β) (s : ParserState) :
    (m >>= f) s = (m s).bind (fun r => f r.1 r.2) := by
  show StateT.bind m f s = _
  unfold StateT.bind
  cases m s <;> rfl

@[simp] theorem pure_run (a : α) (s : ParserState) : (pure a : P α) s = some (a, s) := rfl

@[simp] theorem get_run (s : ParserState) : (get : P ParserState) s = some (s, s) := rfl

@[simp] theorem modify_run (f : ParserState → ParserState) (s : ParserState) :
    (modify f : P PUnit) s = some (PUnit.unit, f s) := rfl

@[simp] theorem failure_run (s : ParserState) : (failure : P α) s = none := rfl

@[simp] theorem liftE_run (f : ParserState → α × ParserState) (s : ParserState) :
    liftE f s = some (f s) := rfl

@[simp] theorem ite_run (c : Prop) [Decidable c] (m1 m2 : P α) (s : ParserState) :
    (if c then m1 else m2) s = if c then m1 s else m2 s := by
  split <;> rfl

end run

@[simp] theorem lextok_run (s : ParserState) : lextok s = some (s.peekTok, s.adv) := by
  unfold lextok ParserState.peekTok ParserState.adv
  cases s.rest <;> rfl

@[simp] theorem lex_run (s : ParserState) : lex s = some (s.peekTok, s.adv) := lextok_run s

@[simp] theorem lexpush_run (s : ParserState) : lexpush s = some (PUnit.unit, s.unlex) := rfl

@[simp] theorem error_run (code : Nat) (s : ParserState) :
    error code s = some (PUnit.unit, s.report code) := rfl

@[simp] theorem current_pos_run (s : ParserState) :
    current_pos s = some ((current_token s).start, s) := rfl

@[simp] theorem freading_run (s : ParserState) : freading s = some (!s.rest.isEmpty, s) := rfl

@[simp] theorem adv_rest (s : ParserState) : s.adv.rest = s.rest.tail := by
  unfold ParserState.adv; cases s.rest <;> rfl

@[simp] theorem adv_errors (s : ParserState) : s.adv.errors = s.errors := by
  unfold ParserState.adv; cases s.rest <;> rfl

@[simp] theorem adv_flags (s : ParserState) : s.adv.flags = s.flags := by
  unfold ParserState.adv; cases s.rest <;> rfl

@[simp] theorem adv_current (s : ParserState) : current_token s.adv = s.peekTok := by
  unfold ParserState.adv ParserState.peekTok current_token; cases s.rest <;> rfl

@[simp] theorem peeked_rest (s : ParserState) : s.peeked.rest = s.rest := by
  unfold ParserState.peeked ParserState.adv ParserState.unlex; cases s.rest <;> rfl

@[simp] theorem peeked_consumed (s : ParserState) : s.peeked.consumed = s.consumed := by
  unfold ParserState.peeked ParserState.adv ParserState.unlex; cases s.rest <;> rfl

@[simp] theorem peeked_errors (s : ParserState) : s.peeked.errors = s.errors := by
  unfold ParserState.peeked ParserState.adv ParserState.unlex; cases s.rest <;> rfl

@[simp] theorem peeked_flags (s : ParserState) : s.peeked.flags = s.flags := by
  unfold ParserState.peeked ParserState.adv ParserState.unlex; cases s.rest <;> rfl

@[simp] theorem peeked_current (s : ParserState) : current_token s.peeked = current_token s := by
  unfold current_token; rw [peeked_consumed]

@[simp] theorem peeked_peekTok (s : ParserState) : s.peeked.peekTok = s.peekTok := by
  unfold ParserState.peekTok; rw [peeked_rest]

@[simp] theorem adv_unlex (s : ParserState) : s.adv.unlex = s.peeked := rfl

@[simp] theorem report_rest (s : ParserState) (c : Nat) : (s.report c).rest = s.rest := by
  unfold ParserState.report
  split_ifs <;> rfl

@[simp] theorem report_consumed (s : ParserState) (c : Nat) :
    (s.report c).consumed = s.consumed := by
  unfold ParserState.report
  split_ifs <;> rfl

@[simp] theorem report_flags (s : ParserState) (c : Nat) : (s.report c).flags = s.flags := by
  unfold ParserState.report
  split_ifs <;> rfl

/-- What the sink does with a diagnostic: a warning, or an error handed over
while the latch is clear, is appended; an error handed over while the latch is
set is dropped. -/
theorem report_errors (s : ParserState) (c : Nat) :
    (s.report c).errors = if 200 ≤ c ∨ s.errflag = false then s.errors ++ [c] else s.errors := by
  unfold ParserState.report
  by_cases h1 : 200 ≤ c
  · simp [h1]
  · cases h2 : s.errflag <;> simp [h1, h2]

theorem report_errors_warning (s : ParserState) {c : Nat} (h : 200 ≤ c) :
    (s.report c).errors = s.errors ++ [c] := by
  rw [report_errors, if_pos (Or.inl h)]

theorem report_errors_clear {s : ParserState} (c : Nat) (h : s.errflag = false) :
    (s.report c).errors = s.errors ++ [c] := by
  rw [report_errors, if_pos (Or.inr h)]

/-- An error (a code below 200) is added exactly when no error is pending. -/
theorem report_errors_latch (s : ParserState) {c : Nat} (hc : c < 200) :
    (s.report c).errors = s.errors ++ (if s.errflag = true then [] else [c]) := by
  rw [report_errors]
  cases s.errflag <;> simp <;> omega

theorem report_latched {s : ParserState} {c : Nat} (hc : c < 200) (h : s.errflag = true) :
    s.report c = s := by
  unfold ParserState.report
  rw [if_neg (by omega), h]
  rfl

theorem report_errflag (s : ParserState) (c : Nat) :
    (s.report c).errflag =
      if 200 ≤ c then s.errflag else (s.errflag || s.sc_one_error_per_statement) := by
  unfold ParserState.report
  by_cases h1 : 200 ≤ c
  · simp [h1]
  · cases h2 : s.errflag <;> simp [h1, h2]

@[simp] theorem report_peekTok (s : ParserState) (c : Nat) : (s.report c).peekTok = s.peekTok := by
  unfold ParserState.peekTok
  rw [report_rest]

@[simp] theorem report_current (s : ParserState) (c : Nat) :
    current_token (s.report c) = current_token s := by
  unfold current_token
  rw [report_consumed]

@[simp] theorem adv_errflag (s : ParserState) : s.adv.errflag = s.errflag := by
  unfold ParserState.adv; cases s.rest <;> rfl

@[simp] theorem peeked_errflag (s : ParserState) : s.peeked.errflag = s.errflag := by
  unfold ParserState.peeked ParserState.adv ParserState.unlex; cases s.rest <;> rfl

@[simp] theorem errorset_run (s : ParserState) :
    errorset_sRESET s = some (PUnit.unit, s.reset) := rfl

@[simp] theorem reset_rest (s : ParserState) : s.reset.rest = s.rest := rfl

@[simp] theorem reset_errors (s : ParserState) : s.reset.errors = s.errors := rfl

@[simp] theorem reset_flags (s : ParserState) : s.reset.flags = s.flags := rfl

@[simp] theorem reset_errflag (s : ParserState) : s.reset.errflag = false := rfl

@[simp] theorem reset_peekTok (s : ParserState) : s.reset.peekTok = s.peekTok := rfl

@[simp] theorem reset_current (s : ParserState) : current_token s.reset = current_token s := rfl

theorem peekTok_cons {s : ParserState} {t : token_t} {r : List token_t} (h : s.rest = t :: r) :
    s.peekTok = t := by
  unfold ParserState.peekTok; rw [h]; rfl

/-- `matchtoken` for a kind other than the terminator. -/
theorem matchtoken_run (k : TokenKind) (hk : k ≠ tTERM) (s : ParserState) :
    matchtoken k s =
      some (decide (s.peekTok.id = k), if s.peekTok.id = k then s.adv else s.peeked) := by
  unfold matchtoken
  simp only [bind_run, get_run, Option.bind, lextok_run, ite_run, pure_run, lexpush_run]
  by_cases h : s.peekTok.id = k
  · simp [h]
  · simp [h, hk]

/-- `matchtoken(tTERM)` on a token that is no terminator: the outcome depends on
the line break rule, the state is the one after a look at the token. -/
theorem matchtoken_term_run (s : ParserState) (h1 : s.peekTok.id ≠ tTERM)
    (h2 : s.peekTok.id ≠ ch_semicolon) (h3 : s.peekTok.id ≠ tENDEXPR) :
    ∃ b, matchtoken tTERM s = some (b, s.peeked) := by
  unfold matchtoken
  simp only [bind_run, get_run, Option.bind, lextok_run, ite_run, pure_run, lexpush_run]
  simp only [h1, h2, h3, if_false, or_self, and_false, true_and, adv_unlex]
  split <;> exact ⟨_, rfl⟩

@[simp] theorem peeked_adv (s : ParserState) : s.peeked.adv = s.adv := by
  obtain ⟨c, rest, e, f1, f2, f3, f4, f5, f6, f7, si, ts, fl⟩ := s
  cases rest with
  | nil => rfl
  | cons t r =>
    simp only [ParserState.peeked, ParserState.adv, ParserState.unlex, current_token]
    congr 1
    split <;> simp_all

@[simp] theorem peeked_peeked (s : ParserState) : s.peeked.peeked = s.peeked := by
  show s.peeked.adv.unlex = s.adv.unlex
  rw [peeked_adv]

theorem adv_peekTok (s : ParserState) :
    s.adv.peekTok = s.rest.tail.headD eof_token := by
  unfold ParserState.peekTok; rw [adv_rest]

theorem matchtoken_hit (k : TokenKind) (s : ParserState) (h : s.peekTok.id = k) :
    matchtoken k s = some (true, s.adv) := by
  unfold matchtoken
  simp only [bind_run, get_run, Option.bind, lextok_run, ite_run, pure_run, lexpush_run]
  simp [h]

theorem matchtoken_miss (k : TokenKind) (s : ParserState) (h : s.peekTok.id ≠ k)
    (hk : k ≠ tTERM) : matchtoken k s = some (false, s.peeked) := by
  rw [matchtoken_run k hk]
  simp [h]

theorem needtoken_hit (k : TokenKind) (s : ParserState) (h : s.peekTok.id = k) :
    needtoken k s = some (true, s.adv) := by
  unfold needtoken
  simp [matchtoken_hit k s h]

section run

variable {α β : Type}

theorem run_bind {m : P α} {f : α → P β} {s s1 : ParserState} {a : α} {r : Option (β × ParserState)}
    (h1 : m s = some (a, s1)) (h2 : f a s1 = r) : (m >>= f) s = r := by
  rw [bind_run, h1]; exact h2

theorem run_ite_pos {c : Prop} [Decidable c] {m1 m2 : P α} {s : ParserState}
    {r : Option (α × ParserState)} (hc : c) (h : m1 s = r) : (if c then m1 else m2) s = r := by
  rw [if_pos hc]; exact h

theorem run_ite_neg {c : Prop} [Decidable c] {m1 m2 : P α} {s : ParserState}
    {r : Option (α × ParserState)} (hc : ¬c) (h : m2 s = r) : (if c then m1 else m2) s = r := by
  rw [if_neg hc]; exact h

theorem run_pure {a a' : α} {s s' : ParserState} (ha : a = a') (hs : s = s') :
    (pure a : P α) s = some (a', s') := by
  subst ha hs; rfl

end run

theorem needtoken_miss (k : TokenKind) (s : ParserState) (h : s.peekTok.id ≠ k)
    (hk : k ≠ tTERM) : needtoken k s = some (false, s.peeked.report 1) := by
  unfold needtoken
  refine run_bind (matchtoken_miss k s h hk) ?_
  rfl

theorem constant_number (h14 : P Expr) (fuel : Nat) (s : ParserState)
    (h : s.peekTok.id = tNUMBER) :
    constant h14 fuel s = some (Expr.NumberExpr s.peekTok.start s.peekTok.value, s.adv) := by
  unfold constant
  refine run_bind (lex_run _) ?_
  refine run_bind (current_pos_run _) ?_
  refine run_ite_neg (by simp [h]) ?_
  refine run_ite_pos h ?_
  exact run_pure (by simp) rfl

theorem primary_atom (h14 : P Expr) (fuel : Nat) (s : ParserState)
    (ha : s.peekTok.id = tNUMBER ∨ s.peekTok.id = tSYMBOL) :
    primary h14 fuel s = some (operand s.peekTok, s.adv) := by
  unfold primary
  refine run_bind (matchtoken_miss _ _ (by rcases ha with ha | ha <;> simp [ha]) (by decide)) ?_
  refine run_ite_neg (by decide) ?_
  refine run_bind (lex_run _) ?_
  rw [peeked_peekTok, peeked_adv]
  refine run_ite_neg (by rcases ha with ha | ha <;> simp [ha]) ?_
  rcases ha with ha | ha
  · refine run_ite_neg (by simp [ha]) ?_
    refine run_bind (lexpush_run _) ?_
    rw [adv_unlex, constant_number h14 fuel s.peeked (by simpa using ha)]
    simp [operand, ha]
  · refine run_ite_pos ha ?_
    refine run_bind (current_pos_run _) ?_
    exact run_pure (by simp [operand, ha]) rfl

theorem hier1_loop_stop (h14 : P Expr) (n : Nat) (base : Expr) (s : ParserState)
    (h : s.peekTok.id ∉ [ch_dot, tDBLCOLON, ch_lbracket, ch_lparen]) :
    hier1_loop h14 (n + 1) base s = some (base, s.peeked) := by
  simp only [List.mem_cons, List.mem_singleton, List.not_mem_nil, not_or, or_false] at h
  unfold hier1_loop
  refine run_bind (lex_run _) ?_
  refine run_ite_neg (by simp [h.1, h.2.1]) ?_
  refine run_ite_neg h.2.2.1 ?_
  refine run_ite_neg h.2.2.2 ?_
  refine run_bind (lexpush_run _) ?_
  exact run_pure rfl rfl

theorem hier1_atom (E : Externals) (h14 : P Expr) (n : Nat) (s : ParserState)
    (ha : s.peekTok.id = tNUMBER ∨ s.peekTok.id = tSYMBOL)
    (h : s.adv.peekTok.id ∉ [ch_dot, tDBLCOLON, ch_lbracket, ch_lparen]) :
    hier1 E h14 (n + 1) s = some (operand s.peekTok, s.adv.peeked) := by
  have hb : (do
      if (← matchtoken TokenKind.tVIEW_AS) then parse_view_as E h14
      else primary h14 (n + 1) : P Expr) s = some (operand s.peekTok, s.adv) := by
    refine run_bind
      (matchtoken_miss _ _ (by rcases ha with ha | ha <;> simp [ha]) (by decide)) ?_
    refine run_ite_neg (by decide) ?_
    rw [primary_atom h14 (n + 1) s.peeked (by simpa using ha)]
    simp
  unfold hier1
  exact run_bind hb (hier1_loop_stop h14 n _ _ h)

theorem hier2_operand (E : Externals) (h14 : P Expr) (n : Nat) (s : ParserState)
    (ha : s.peekTok.id = tNUMBER ∨ s.peekTok.id = tSYMBOL)
    (ht : after_operand s.adv.peekTok) :
    hier2 E h14 (n + 2) s = some (operand s.peekTok, s.adv.peeked) := by
  unfold after_operand at ht
  simp only [List.mem_cons, List.mem_singleton, List.not_mem_nil, not_or, or_false] at ht
  obtain ⟨h1, h2, h3, h4, h5, h6, h7, h8⟩ := ht
  unfold hier2
  refine run_bind (lex_run _) ?_
  refine run_bind (current_pos_run _) ?_
  refine run_ite_neg (by rcases ha with ha | ha <;> simp [ha]) ?_
  refine run_ite_neg (by rcases ha with ha | ha <;> simp [ha]) ?_
  refine run_ite_neg (by rcases ha with ha | ha <;> simp [ha]) ?_
  refine run_ite_neg (by rcases ha with ha | ha <;> simp [ha]) ?_
  refine run_ite_neg (by rcases ha with ha | ha <;> simp [ha]) ?_
  refine run_ite_neg (by rcases ha with ha | ha <;> simp [ha]) ?_
  refine run_bind (lexpush_run _) ?_
  rw [adv_unlex]
  refine run_bind (hier1_atom E h14 n s.peeked (by simpa using ha)
    (by simp [h1, h2, h3, h4])) ?_
  simp only [peeked_peekTok, peeked_adv]
  by_cases hsemi : s.adv.peekTok.id = ch_semicolon
  · refine run_bind (matchtoken_hit _ _ (by simpa using hsemi)) ?_
    refine run_ite_pos rfl ?_
    refine run_bind (lexpush_run _) ?_
    exact run_pure rfl (by simp)
  · refine run_bind (matchtoken_miss _ _ (by simpa using hsemi) (by decide)) ?_
    refine run_ite_neg (by decide) ?_
    obtain ⟨b, hb⟩ := matchtoken_term_run s.adv.peeked.peeked (by simpa using h7)
      (by simpa using hsemi) (by simpa using h8)
    refine run_bind hb ?_
    cases b
    · refine run_ite_neg (by decide) ?_
      refine run_bind (lex_run _) ?_
      refine run_ite_neg (by simp [h5, h6]) ?_
      refine run_bind (lexpush_run _) ?_
      exact run_pure rfl (by simp)
    · refine run_ite_pos rfl ?_
      exact run_pure rfl (by simp)

theorem nextop_from_miss (opstr : List TokenKind) (s : ParserState) (hs : s.peeked = s)
    (h : ∀ k ∈ opstr, s.peekTok.id ≠ k) (hterm : tTERM ∉ opstr) :
    ∀ idx, nextop_from idx opstr s = some (none, s) := by
  induction opstr with
  | nil => intro idx; rfl
  | cons op ops ih =>
    intro idx
    unfold nextop_from
    refine run_bind (matchtoken_miss op s (h op (List.mem_cons_self _ _))
      (fun hc => hterm (hc ▸ List.mem_cons_self _ _))) ?_
    refine run_ite_neg (by decide) ?_
    rw [hs]
    exact ih (fun k hk => h k (List.mem_cons_of_mem _ hk))
      (fun hc => hterm (List.mem_cons_of_mem _ hc)) _

theorem nextop_from_hit (opstr : List TokenKind) (s : ParserState) (hs : s.peeked = s)
    (h : s.peekTok.id ∈ opstr) (hterm : tTERM ∉ opstr) :
    ∀ idx, ∃ i, nextop_from idx opstr s = some (some (idx + i), s.adv) ∧
      opstr.getD i tEOF = s.peekTok.id := by
  induction opstr with
  | nil => simp at h
  | cons op ops ih =>
    intro idx
    unfold nextop_from
    by_cases hop : s.peekTok.id = op
    · refine ⟨0, ?_, by simp [hop]⟩
      refine run_bind (matchtoken_hit op s hop) ?_
      refine run_ite_pos rfl ?_
      rfl
    · have hmem : s.peekTok.id ∈ ops := by
        rcases List.mem_cons.mp h with h | h
        · exact absurd h hop
        · exact h
      obtain ⟨i, hi, hget⟩ := ih hmem (fun hc => hterm (List.mem_cons_of_mem _ hc)) (idx + 1)
      refine ⟨i + 1, ?_, by simpa using hget⟩
      refine run_bind (matchtoken_miss op s hop
        (fun hc => hterm (hc ▸ List.mem_cons_self _ _))) ?_
      refine run_ite_neg (by decide) ?_
      rw [hs, hi]
      congr 3
      omega

theorem plnge_pass (opstr : List TokenKind) (hier : P Expr) (fuel : Nat) (s s1 : ParserState)
    (e : Expr) (h : hier s = some (e, s1)) (hs : s1.peeked = s1)
    (hno : ∀ k ∈ opstr, s1.peekTok.id ≠ k) (hterm : tTERM ∉ opstr) :
    plnge opstr hier fuel s = some (e, s1) := by
  unfold plnge
  refine run_bind h ?_
  refine run_bind (nextop_from_miss opstr s1 hs hno hterm 0) ?_
  rfl

theorem plnge_one (opstr : List TokenKind) (hier : P Expr) (fuel : Nat) (s s1 s2 : ParserState)
    (e1 e2 : Expr) (h1 : hier s = some (e1, s1)) (hs1 : s1.peeked = s1)
    (hop : s1.peekTok.id ∈ opstr) (hterm : tTERM ∉ opstr)
    (h2 : hier s1.adv = some (e2, s2)) (hs2 : s2.peeked = s2)
    (hno : ∀ k ∈ opstr, s2.peekTok.id ≠ k) :
    plnge opstr hier (fuel + 1) s =
      some (mk_binary s1.peekTok.start s1.peekTok.id e1 e2, s2) := by
  obtain ⟨i, hi, hget⟩ := nextop_from_hit opstr s1 hs1 hop hterm 0
  unfold plnge
  refine run_bind h1 ?_
  refine run_bind hi ?_
  simp only [Nat.zero_add]
  unfold plnge_loop
  refine run_bind (current_pos_run _) ?_
  refine run_bind h2 ?_
  refine run_bind (nextop_from_miss opstr s2 hs2 hno hterm 0) ?_
  simp only [hget, adv_current, mk_binary]
  rfl

theorem plnge_rel_pass (opstr : List TokenKind) (hier : P Expr) (fuel : Nat)
    (s s1 : ParserState) (e : Expr) (h : hier s = some (e, s1)) (hs : s1.peeked = s1)
    (hno : ∀ k ∈ opstr, s1.peekTok.id ≠ k) (hterm : tTERM ∉ opstr) :
    plnge_rel opstr hier fuel s = some (e, s1) := by
  unfold plnge_rel
  refine run_bind h ?_
  refine run_bind (nextop_from_miss opstr s1 hs hno hterm 0) ?_
  rfl

theorem hier13_pass (L : OpLists) (E : Externals) (h14 : P Expr) (n : Nat)
    (s s1 : ParserState) (e : Expr) (h : hier12 L E h14 n s = some (e, s1))
    (hs : s1.peeked = s1) (hq : s1.peekTok.id ≠ ch_question) :
    hier13 L E h14 (n + 1) s = some (e, s1) := by
  unfold hier13
  refine run_bind h ?_
  refine run_bind (matchtoken_miss _ _ hq (by decide)) ?_
  refine run_ite_neg (by decide) ?_
  exact run_pure rfl hs

theorem hier14_pass (L : OpLists) (E : Externals) (n : Nat) (s s1 : ParserState) (e : Expr)
    (h : hier13 L E (hier14 L E n) n s = some (e, s1)) (hs : s1.peeked = s1)
    (ha : s1.peekTok.id ∉ assign_ops) (he : s1.peekTok.id ≠ ch_assign) :
    hier14 L E (n + 1) s = some (e, s1) := by
  unfold hier14
  refine run_bind h ?_
  refine run_bind (lex_run _) ?_
  refine run_bind (current_pos_run _) ?_
  refine run_ite_neg ha ?_
  refine run_ite_neg he ?_
  refine run_bind (lexpush_run _) ?_
  exact run_pure rfl (by simpa using hs)

/-- Every level from 5 to 13 and `hier14` hand a level-4 result through when the
next token is none of their operators. -/
theorem hier14_of_hier4 (L : OpLists) (E : Externals) (n : Nat) (s s1 : ParserState) (e : Expr)
    (h : hier4 L E (hier14 L E (n + 1)) n s = some (e, s1)) (hs : s1.peeked = s1)
    (hno : ∀ l ∈ [L.list5, L.list6, L.list7, L.list8, L.list9, L.list10, L.list11, L.list12],
      s1.peekTok.id ∉ l ∧ tTERM ∉ l)
    (hq : s1.peekTok.id ≠ ch_question)
    (ha : s1.peekTok.id ∉ assign_ops) (he : s1.peekTok.id ≠ ch_assign) :
    hier14 L E (n + 2) s = some (e, s1) := by
  have hmem : ∀ l, l ∈ [L.list5, L.list6, L.list7, L.list8, L.list9, L.list10, L.list11,
      L.list12] → (∀ k ∈ l, s1.peekTok.id ≠ k) ∧ tTERM ∉ l := by
    intro l hl
    exact ⟨fun k hk hc => (hno l hl).1 (hc ▸ hk), (hno l hl).2⟩
  have h5 := plnge_pass L.list5 _ n s s1 e h hs (hmem _ (by simp)).1 (hmem _ (by simp)).2
  have h6 := plnge_pass L.list6 _ n s s1 e h5 hs (hmem _ (by simp)).1 (hmem _ (by simp)).2
  have h7 := plnge_pass L.list7 _ n s s1 e h6 hs (hmem _ (by simp)).1 (hmem _ (by simp)).2
  have h8 := plnge_pass L.list8 _ n s s1 e h7 hs (hmem _ (by simp)).1 (hmem _ (by simp)).2
  have h9 := plnge_rel_pass L.list9 _ n s s1 e h8 hs (hmem _ (by simp)).1 (hmem _ (by simp)).2
  have h10 := plnge_pass L.list10 _ n s s1 e h9 hs (hmem _ (by simp)).1 (hmem _ (by simp)).2
  have h11 := plnge_pass L.list11 _ n s s1 e h10 hs (hmem _ (by simp)).1 (hmem _ (by simp)).2
  have h12 := plnge_pass L.list12 _ n s s1 e h11 hs (hmem _ (by simp)).1 (hmem _ (by simp)).2
  exact hier14_pass L E (n + 1) s s1 e (hier13_pass L E _ n s s1 e h12 hs hq) hs ha he

/-- C2. Multiplication binds tighter than addition. With `list4 = {+, -}`,
`list3 = {*, /, %}` and the other tables holding none of `+`, `*`, `;` and the
terminator: for single-token operands `a`, `b`, `c` (numbers or identifiers),
`hier14` on `a + b * c ;` returns `BinaryExpr(+, a, BinaryExpr(*, b, c))` and on
`a * b + c ;` returns `BinaryExpr(+, BinaryExpr(*, a, b), c)`; in both cases it
stops before the `;` and reports nothing. -/
theorem hier14_mul_binds_tighter (L : OpLists) (E : Externals)
    (h3 : L.list3 = [ch_star, ch_slash, ch_percent]) (h4 : L.list4 = [ch_plus, ch_minus])
    (hother : ∀ l ∈ [L.list5, L.list6, L.list7, L.list8, L.list9, L.list10, L.list11,
      L.list12], ch_plus ∉ l ∧ ch_star ∉ l ∧ ch_semicolon ∉ l ∧ tTERM ∉ l)
    (n : Nat) (s : ParserState) (a op1 b op2 c semi : token_t) (r : List token_t)
    (hs : s.rest = a :: op1 :: b :: op2 :: c :: semi :: r)
    (ha : a.id = tNUMBER ∨ a.id = tSYMBOL) (hb : b.id = tNUMBER ∨ b.id = tSYMBOL)
    (hc : c.id = tNUMBER ∨ c.id = tSYMBOL) (hsemi : semi.id = ch_semicolon) :
    (op1.id = ch_plus → op2.id = ch_star →
      hier14 L E (n + 4) s =
        some (Expr.BinaryExpr op1.start ch_plus (operand a)
          (Expr.BinaryExpr op2.start ch_star (operand b) (operand c)),
          s.adv.adv.adv.adv.adv.peeked)) ∧
    (op1.id = ch_star → op2.id = ch_plus →
      hier14 L E (n + 4) s =
        some (Expr.BinaryExpr op2.start ch_plus
          (Expr.BinaryExpr op1.start ch_star (operand a) (operand b)) (operand c),
          s.adv.adv.adv.adv.adv.peeked)) ∧
    s.adv.adv.adv.adv.adv.peeked.rest = semi :: r ∧
    s.adv.adv.adv.adv.adv.peeked.errors = s.errors := by
  have p0 : s.peekTok = a := by simp [ParserState.peekTok, hs]
  have p1 : s.adv.peekTok = op1 := by simp [ParserState.peekTok, hs]
  have p2 : s.adv.adv.peekTok = b := by simp [ParserState.peekTok, hs]
  have p3 : s.adv.adv.adv.peekTok = op2 := by simp [ParserState.peekTok, hs]
  have p4 : s.adv.adv.adv.adv.peekTok = c := by simp [ParserState.peekTok, hs]
  have p5 : s.adv.adv.adv.adv.adv.peekTok = semi := by simp [ParserState.peekTok, hs]
  have hfin : ∀ e, hier4 L E (hier14 L E (n + 3)) (n + 2) s =
        some (e, s.adv.adv.adv.adv.adv.peeked) →
      hier14 L E (n + 4) s = some (e, s.adv.adv.adv.adv.adv.peeked) := by
    intro e he
    refine hier14_of_hier4 L E (n + 2) s _ e he (by simp) ?_ (by simp [p5, hsemi])
      (by simp [p5, hsemi, assign_ops]) (by simp [p5, hsemi])
    intro l hl
    simp only [peeked_peekTok, p5, hsemi]
    exact ⟨(hother l hl).2.2.1, (hother l hl).2.2.2⟩
  refine ⟨?_, ?_, by simp [hs], by simp⟩
  · intro ho1 ho2
    refine hfin _ ?_
    have e1 := hier2_operand E (hier14 L E (n + 3)) n s (by simpa [p0] using ha)
      (by simp [after_operand, p1, ho1])
    have e2 := hier2_operand E (hier14 L E (n + 3)) n s.adv.peeked.adv
      (by simpa [p2] using hb) (by simp [after_operand, p3, ho2])
    have e3 := hier2_operand E (hier14 L E (n + 3)) n s.adv.adv.adv.peeked.adv
      (by simpa [p4] using hc) (by simp [after_operand, p5, hsemi])
    simp only [peeked_adv, p0, p2, p4] at e1 e2 e3
    have m1 := plnge_pass L.list3 _ (n + 2) s _ _ e1 (by simp) (by simp [p1, ho1, h3])
      (by simp [h3])
    have m2 := plnge_one L.list3 _ (n + 1) s.adv.adv _ _ _ _ e2 (by simp)
      (by simp [p3, ho2, h3]) (by simp [h3]) (by simpa using e3) (by simp)
      (by simp [p5, hsemi, h3])
    have a1 := plnge_one L.list4 (hier3 L E (hier14 L E (n + 3)) (n + 2)) (n + 1) s _ _ _ _
      m1 (by simp) (by simp [p1, ho1, h4]) (by simp [h4]) (by simpa using m2) (by simp)
      (by simp [p5, hsemi, h4])
    simpa [mk_binary, p1, p3, ho1, ho2] using a1
  · intro ho1 ho2
    refine hfin _ ?_
    have e1 := hier2_operand E (hier14 L E (n + 3)) n s (by simpa [p0] using ha)
      (by simp [after_operand, p1, ho1])
    have e2 := hier2_operand E (hier14 L E (n + 3)) n s.adv.peeked.adv
      (by simpa [p2] using hb) (by simp [after_operand, p3, ho2])
    have e3 := hier2_operand E (hier14 L E (n + 3)) n s.adv.adv.adv.peeked.adv
      (by simpa [p4] using hc) (by simp [after_operand, p5, hsemi])
    simp only [peeked_adv, p0, p2, p4] at e1 e2 e3
    have m1 := plnge_one L.list3 _ (n + 1) s _ _ _ _ e1 (by simp)
      (by simp [p1, ho1, h3]) (by simp [h3]) (by simpa using e2) (by simp)
      (by simp [p3, ho2, h3])
    have m2 := plnge_pass L.list3 _ (n + 2) s.adv.adv.adv.adv _ _ e3 (by simp)
      (by simp [p5, hsemi, h3]) (by simp [h3])
    have a1 := plnge_one L.list4 (hier3 L E (hier14 L E (n + 3)) (n + 2)) (n + 1) s _ _ _ _
      m1 (by simp) (by simp [p3, ho2, h4]) (by simp [h4]) (by simpa using m2) (by simp)
      (by simp [p5, hsemi, h4])
    simpa [mk_binary, p1, p3, ho1, ho2] using a1

@[simp] theorem afterAssign_rest (s : ParserState) : s.afterAssign.rest = s.rest.tail := by
  unfold ParserState.afterAssign; split <;> simp

theorem hier14_assign (L : OpLists) (E : Externals) (n : Nat) (s s1 s2 : ParserState)
    (node right : Expr) (h : hier13 L E (hier14 L E n) n s = some (node, s1))
    (hop : s1.peekTok.id ∈ assign_ops ∨ s1.peekTok.id = ch_assign)
    (hr : hier14 L E n s1.afterAssign = some (right, s2)) :
    hier14 L E (n + 1) s =
      some (Expr.BinaryExpr s1.peekTok.start s1.peekTok.id node right, s2) := by
  unfold hier14
  refine run_bind h ?_
  refine run_bind (lex_run _) ?_
  refine run_bind (current_pos_run _) ?_
  by_cases hin : s1.peekTok.id ∈ assign_ops
  · refine run_ite_pos hin ?_
    have hne : s1.peekTok.id ≠ ch_assign := by
      intro hc; rw [hc] at hin; simp [assign_ops] at hin
    have hst : s1.afterAssign = s1.adv := by simp [ParserState.afterAssign, hne]
    rw [hst] at hr
    refine run_bind hr ?_
    exact run_pure (by simp) rfl
  · have heq : s1.peekTok.id = ch_assign := by
      rcases hop with h | h
      · exact absurd h hin
      · exact h
    refine run_ite_neg hin ?_
    refine run_ite_pos heq ?_
    refine run_bind (get_run _) ?_
    by_cases hint : s1.adv.sc_intest = true
    · have hst : s1.afterAssign = s1.adv.report 211 := by
        have : s1.sc_intest = true := by
          have := adv_flags s1
          simp only [ParserState.flags, Prod.mk.injEq] at this
          rw [← this.2.1]; exact hint
        simp [ParserState.afterAssign, heq, this]
      rw [hst] at hr
      simp only [hint, if_true]
      refine run_bind (error_run _ _) ?_
      refine run_bind hr ?_
      exact run_pure (by simp) rfl
    · have hst : s1.afterAssign = s1.adv := by
        have : ¬ s1.sc_intest = true := by
          have := adv_flags s1
          simp only [ParserState.flags, Prod.mk.injEq] at this
          rw [← this.2.1]; exact hint
        simp [ParserState.afterAssign, this]
      rw [hst] at hr
      simp only [hint, if_false]
      refine run_bind (pure_run _ _) ?_
      refine run_bind hr ?_
      exact run_pure (by simp) rfl

theorem hier13_operand (L : OpLists) (E : Externals) (h14 : P Expr) (m : Nat)
    (s : ParserState) (ha : s.peekTok.id = tNUMBER ∨ s.peekTok.id = tSYMBOL)
    (ht : after_operand s.adv.peekTok) (hq : s.adv.peekTok.id ≠ ch_question)
    (hno : ∀ l ∈ L.tables, s.adv.peekTok.id ∉ l ∧ tTERM ∉ l) :
    hier13 L E h14 (m + 3) s = some (operand s.peekTok, s.adv.peeked) := by
  have hmem : ∀ l, l ∈ L.tables → (∀ k ∈ l, s.adv.peeked.peekTok.id ≠ k) ∧ tTERM ∉ l := by
    intro l hl
    rw [peeked_peekTok]
    exact ⟨fun k hk hc => (hno l hl).1 (hc ▸ hk), (hno l hl).2⟩
  have hp : s.adv.peeked.peeked = s.adv.peeked := peeked_peeked _
  have h2 := hier2_operand E h14 m s ha ht
  have h3 := plnge_pass L.list3 _ (m + 2) s _ _ h2 hp
    (hmem _ (by simp [OpLists.tables])).1 (hmem _ (by simp [OpLists.tables])).2
  have h4 := plnge_pass L.list4 _ (m + 2) s _ _ h3 hp
    (hmem _ (by simp [OpLists.tables])).1 (hmem _ (by simp [OpLists.tables])).2
  have h5 := plnge_pass L.list5 _ (m + 2) s _ _ h4 hp
    (hmem _ (by simp [OpLists.tables])).1 (hmem _ (by simp [OpLists.tables])).2
  have h6 := plnge_pass L.list6 _ (m + 2) s _ _ h5 hp
    (hmem _ (by simp [OpLists.tables])).1 (hmem _ (by simp [OpLists.tables])).2
  have h7 := plnge_pass L.list7 _ (m + 2) s _ _ h6 hp
    (hmem _ (by simp [OpLists.tables])).1 (hmem _ (by simp [OpLists.tables])).2
  have h8 := plnge_pass L.list8 _ (m + 2) s _ _ h7 hp
    (hmem _ (by simp [OpLists.tables])).1 (hmem _ (by simp [OpLists.tables])).2
  have h9 := plnge_rel_pass L.list9 _ (m + 2) s _ _ h8 hp
    (hmem _ (by simp [OpLists.tables])).1 (hmem _ (by simp [OpLists.tables])).2
  have h10 := plnge_pass L.list10 _ (m + 2) s _ _ h9 hp
    (hmem _ (by simp [OpLists.tables])).1 (hmem _ (by simp [OpLists.tables])).2
  have h11 := plnge_pass L.list11 _ (m + 2) s _ _ h10 hp
    (hmem _ (by simp [OpLists.tables])).1 (hmem _ (by simp [OpLists.tables])).2
  have h12 := plnge_pass L.list12 _ (m + 2) s _ _ h11 hp
    (hmem _ (by simp [OpLists.tables])).1 (hmem _ (by simp [OpLists.tables])).2
  exact hier13_pass L E h14 (m + 2) s _ _ h12 hp (by simpa using hq)

/-- C3. Assignment is right-associative. For single-token operands `a`, `b`, `c`
and assignment operators `op1`, `op2` (`=` or a compound assignment), `hier14`
on `a op1 b op2 c`, followed by a token that continues no expression, returns
`BinaryExpr(op1, a, BinaryExpr(op2, b, c))` and stops before that token; and
whenever the token after the `hier13` operand is no assignment operator,
`hier14` returns the operand unchanged with that token still to come. For
operands of any shape: when `hier13` parses `ea`, an assignment operator follows,
`hier13` parses `eb`, an assignment operator follows and `hier14` parses `ec` from
the rest, `hier14` returns `BinaryExpr(op1, ea, BinaryExpr(op2, eb, ec))`. For the
single tokens the operator tables are taken to hold neither assignment operators
nor the terminator. -/
theorem hier14_right_assoc (L : OpLists) (E : Externals)
    (hL : ∀ l ∈ L.tables, tTERM ∉ l ∧ ∀ k ∈ l, k ∉ assign_ops ∧ k ≠ ch_assign) :
    (∀ (n : Nat) (s : ParserState) (a op1 b op2 c t : token_t) (r : List token_t),
      s.rest = a :: op1 :: b :: op2 :: c :: t :: r →
      (a.id = tNUMBER ∨ a.id = tSYMBOL) → (b.id = tNUMBER ∨ b.id = tSYMBOL) →
      (c.id = tNUMBER ∨ c.id = tSYMBOL) →
      (op1.id ∈ assign_ops ∨ op1.id = ch_assign) →
      (op2.id ∈ assign_ops ∨ op2.id = ch_assign) →
      after_operand t → t.id ≠ ch_question → t.id ∉ assign_ops → t.id ≠ ch_assign →
      (∀ l ∈ L.tables, t.id ∉ l) →
      hier14 L E (n + 6) s =
          some (Expr.BinaryExpr op1.start op1.id (operand a)
            (Expr.BinaryExpr op2.start op2.id (operand b) (operand c)),
            s.adv.peeked.afterAssign.adv.peeked.afterAssign.adv.peeked) ∧
        s.adv.peeked.afterAssign.adv.peeked.afterAssign.adv.peeked.rest = t :: r) ∧
    (∀ (m : Nat) (s s1 : ParserState) (e : Expr),
      hier13 L E (hier14 L E m) m s = some (e, s1) →
      s1.peekTok.id ∉ assign_ops → s1.peekTok.id ≠ ch_assign →
      hier14 L E (m + 1) s = some (e, s1.peeked) ∧ s1.peeked.rest = s1.rest ∧
        s1.peeked.errors = s1.errors) ∧
    (∀ (n : Nat) (s s1 s2 s3 : ParserState) (ea eb ec : Expr),
      hier13 L E (hier14 L E (n + 1)) (n + 1) s = some (ea, s1) →
      (s1.peekTok.id ∈ assign_ops ∨ s1.peekTok.id = ch_assign) →
      hier13 L E (hier14 L E n) n s1.afterAssign = some (eb, s2) →
      (s2.peekTok.id ∈ assign_ops ∨ s2.peekTok.id = ch_assign) →
      hier14 L E n s2.afterAssign = some (ec, s3) →
      hier14 L E (n + 2) s =
        some (Expr.BinaryExpr s1.peekTok.start s1.peekTok.id ea
          (Expr.BinaryExpr s2.peekTok.start s2.peekTok.id eb ec), s3)) := by
  refine ⟨?_, ?_, ?_⟩
  · intro n s a op1 b op2 c t r hs ha hb hc ho1 ho2 ht htq hta hte htl
    have hop : ∀ op : token_t, (op.id ∈ assign_ops ∨ op.id = ch_assign) →
        after_operand op ∧ op.id ≠ ch_question ∧ ∀ l ∈ L.tables, op.id ∉ l ∧ tTERM ∉ l := by
      intro op ho
      refine ⟨?_, ?_, fun l hl => ⟨fun hm => ?_, (hL l hl).1⟩⟩
      · rcases ho with ho | ho
        · unfold after_operand
          intro hc'
          simp only [assign_ops, List.mem_cons, List.mem_singleton, List.not_mem_nil,
            or_false] at ho hc'
          rcases ho with ho | ho | ho | ho | ho | ho | ho | ho | ho | ho | ho <;>
            simp [ho] at hc'
        · simp [after_operand, ho]
      · rcases ho with ho | ho
        · intro hc'; rw [hc'] at ho; simp [assign_ops] at ho
        · simp [ho]
      · have := (hL l hl).2 _ hm
        rcases ho with ho | ho
        · exact this.1 ho
        · exact this.2 ho
    -- the states at which the three operands start
    have q0 : s.peekTok = a := by simp [ParserState.peekTok, hs]
    have q1 : s.adv.peekTok = op1 := by simp [ParserState.peekTok, hs]
    have hA : s.adv.peeked.afterAssign.rest = b :: op2 :: c :: t :: r := by simp [hs]
    have q2 : s.adv.peeked.afterAssign.peekTok = b := by
      unfold ParserState.peekTok; rw [hA]; rfl
    have q3 : s.adv.peeked.afterAssign.adv.peekTok = op2 := by
      unfold ParserState.peekTok; rw [adv_rest, hA]; rfl
    have hB : s.adv.peeked.afterAssign.adv.peeked.afterAssign.rest = c :: t :: r := by
      simp [hs]
    have q4 : s.adv.peeked.afterAssign.adv.peeked.afterAssign.peekTok = c := by
      unfold ParserState.peekTok; rw [hB]; rfl
    have q5 : s.adv.peeked.afterAssign.adv.peeked.afterAssign.adv.peekTok = t := by
      unfold ParserState.peekTok; rw [adv_rest, hB]; rfl
    have ea := hier13_operand L E (hier14 L E (n + 5)) (n + 2) s (by simpa [q0] using ha)
      (by rw [q1]; exact (hop op1 ho1).1) (by rw [q1]; exact (hop op1 ho1).2.1)
      (by rw [q1]; exact (hop op1 ho1).2.2)
    have eb := hier13_operand L E (hier14 L E (n + 4)) (n + 1) s.adv.peeked.afterAssign
      (by simpa [q2] using hb)
      (by rw [q3]; exact (hop op2 ho2).1) (by rw [q3]; exact (hop op2 ho2).2.1)
      (by rw [q3]; exact (hop op2 ho2).2.2)
    have ec := hier13_operand L E (hier14 L E (n + 3)) n
      s.adv.peeked.afterAssign.adv.peeked.afterAssign (by simpa [q4] using hc)
      (by rw [q5]; exact ht) (by rw [q5]; exact htq)
      (by rw [q5]; exact fun l hl => ⟨htl l hl, (hL l hl).1⟩)
    have rc := hier14_pass L E (n + 3) _ _ _ ec (peeked_peeked _)
      (by simpa [q5] using hta) (by simpa [q5] using hte)
    have rb := hier14_assign L E (n + 4) _ _ _ _ _ eb (by simpa [q3] using ho2) rc
    have ra := hier14_assign L E (n + 5) _ _ _ _ _ ea (by simpa [q1] using ho1) rb
    simp only [peeked_peekTok, q0, q1, q2, q3, q4] at ra
    exact ⟨ra, by rw [peeked_rest, adv_rest, hB]; rfl⟩
  · intro m s s1 e h ha he
    refine ⟨?_, by simp, by simp⟩
    unfold hier14
    refine run_bind h ?_
    refine run_bind (lex_run _) ?_
    refine run_bind (current_pos_run _) ?_
    refine run_ite_neg ha ?_
    refine run_ite_neg he ?_
    refine run_bind (lexpush_run _) ?_
    exact run_pure rfl rfl
  · intro n s s1 s2 s3 ea eb ec ha ho1 hb ho2 hc
    exact hier14_assign L E (n + 1) s s1 s3 ea _ ha ho1
      (hier14_assign L E n s1.afterAssign s2 s3 eb ec hb ho2 hc)

/-- Witness of C2: `1 + 2 * 3 ;` under the sample tables. -/
theorem hier14_mul_binds_tighter_witness :
    sample_lists.list3 = [ch_star, ch_slash, ch_percent] ∧
    sample_lists.list4 = [ch_plus, ch_minus] ∧
    (∀ l ∈ [sample_lists.list5, sample_lists.list6, sample_lists.list7, sample_lists.list8,
      sample_lists.list9, sample_lists.list10, sample_lists.list11, sample_lists.list12],
      ch_plus ∉ l ∧ ch_star ∉ l ∧ ch_semicolon ∉ l ∧ tTERM ∉ l) ∧
    hier14 sample_lists sample_externals 4 (init_state c2_tokens) =
      some (Expr.BinaryExpr ⟨1, 1⟩ ch_plus (Expr.NumberExpr ⟨1, 0⟩ 1)
        (Expr.BinaryExpr ⟨1, 3⟩ ch_star (Expr.NumberExpr ⟨1, 2⟩ 2) (Expr.NumberExpr ⟨1, 4⟩ 3)),
        (init_state c2_tokens).adv.adv.adv.adv.adv.peeked) :=
  ⟨rfl, rfl, by decide,
    (hier14_mul_binds_tighter sample_lists sample_externals rfl rfl (by decide) 0
      (init_state c2_tokens) (num 1 0) (tk ch_plus 1) (num 2 2) (tk ch_star 3) (num 3 4)
      (tk ch_semicolon 5) [] rfl (Or.inl rfl) (Or.inl rfl) (Or.inl rfl) rfl).1 rfl rfl⟩

/-- Witness of C3: `a = b += c ;` under the sample tables. -/
theorem hier14_right_assoc_witness :
    (∀ l ∈ sample_lists.tables, tTERM ∉ l ∧ ∀ k ∈ l, k ∉ assign_ops ∧ k ≠ ch_assign) ∧
    hier14 sample_lists sample_externals 6 (init_state c3_tokens) =
      some (Expr.BinaryExpr ⟨1, 1⟩ ch_assign (Expr.SymbolExpr ⟨1, 0⟩ "a")
        (Expr.BinaryExpr ⟨1, 3⟩ taADD (Expr.SymbolExpr ⟨1, 2⟩ "b")
          (Expr.SymbolExpr ⟨1, 4⟩ "c")),
        (init_state c3_tokens).adv.peeked.afterAssign.adv.peeked.afterAssign.adv.peeked) :=
  ⟨by decide,
    ((hier14_right_assoc sample_lists sample_externals (by decide)).1 0
      (init_state c3_tokens) (sym "a" 0) (tk ch_assign 1) (sym "b" 2) (tk taADD 3)
      (sym "c" 4) (tk ch_semicolon 5) [] rfl (Or.inr rfl) (Or.inr rfl) (Or.inr rfl)
      (Or.inr rfl) (Or.inl (by decide)) (by unfold after_operand; decide) (by decide)
      (by decide) (by decide) (by decide)).1⟩

theorem CompareRun.fold_loop (opstr : List TokenKind) (hier : P Expr) :
    ∀ (i : Nat) (s : ParserState) (ops : List (token_pos_t × TokenKind × Expr))
      (s3 : ParserState), CompareRun opstr hier i s ops s3 →
      ∀ fuel acc, ops.length ≤ fuel →
        plnge_rel_loop opstr hier fuel acc i s = some (acc ++ ops, s3) := by
  intro i s ops s3 h
  induction h with
  | last i s s1 s2 e h1 h2 =>
    intro fuel acc hf
    cases fuel with
    | zero => simp at hf
    | succ n =>
      unfold plnge_rel_loop
      refine run_bind (current_pos_run _) ?_
      refine run_bind h1 ?_
      refine run_bind h2 ?_
      rfl
  | more i j s s1 s2 s3 e ops h1 h2 _ ih =>
    intro fuel acc hf
    cases fuel with
    | zero => simp at hf
    | succ n =>
      unfold plnge_rel_loop
      refine run_bind (current_pos_run _) ?_
      refine run_bind h1 ?_
      refine run_bind h2 ?_
      have := ih n (acc ++ [((current_token s).start, opstr.getD i tEOF, e)])
        (by simpa using hf)
      simpa using this

theorem CompareRun.ne_nil (opstr : List TokenKind) (hier : P Expr) :
    ∀ (i : Nat) (s : ParserState) (ops : List (token_pos_t × TokenKind × Expr))
      (s3 : ParserState), CompareRun opstr hier i s ops s3 → ops ≠ [] := by
  intro i s ops s3 h
  cases h <;> simp

theorem CompareRun.mem (opstr : List TokenKind) (hier : P Expr) :
    ∀ (i : Nat) (s : ParserState) (ops : List (token_pos_t × TokenKind × Expr))
      (s3 : ParserState), CompareRun opstr hier i s ops s3 → i < opstr.length →
      ∀ o ∈ ops, o.2.1 ∈ opstr := by
  intro i s ops s3 h
  induction h with
  | last i s s1 s2 e h1 h2 =>
    intro hi o ho
    simp only [List.mem_singleton] at ho
    subst ho
    exact getD_mem_of_lt opstr i hi
  | more i j s s1 s2 s3 e ops h1 h2 _ ih =>
    intro hi o ho
    rcases List.mem_cons.1 ho with ho | ho
    · subst ho
      exact getD_mem_of_lt opstr i hi
    · exact ih (nextop_lt opstr _ _ _ h2 j rfl) o ho

theorem chainNode_rules (L : OpLists) : NodeRules L (chainNode L) where
  plain := by
    intro e he
    cases e <;> first | rfl | simp [Expr.isOperatorNode] at he
  assign := by intros; rfl
  binary := by intros; exact ⟨rfl, rfl⟩
  chain := by
    intro q first ops hne hmem
    simp only [chainNode, Bool.and_eq_true, Bool.not_eq_true', List.all_eq_true,
      decide_eq_true_eq]
    refine ⟨?_, hmem⟩
    cases ops with
    | nil => exact absurd rfl hne
    | cons _ _ => rfl

/-- C4: `plnge_rel` folds a run of relational operators into one node. When no
operator of the table follows the first operand the operand itself is returned.
When operators follow, with the operands `e1 .. ek` parsed by `hier` after them
(the course described by `CompareRun`), the result is one `ChainedCompareExpr`
whose first operand is `e0` and whose entries are the operators and operands in
source order; the entries are not empty and each operator is out of the table.
In every tree `hier14` returns, each `ChainedCompareExpr` has at least one entry
and operators out of `list9` only. -/
theorem plnge_rel_folds (L : OpLists) (E : Externals) (opstr : List TokenKind)
    (hier : P Expr) :
    (∀ (fuel : Nat) (s s1 s2 : ParserState) (e0 : Expr),
      hier s = some (e0, s1) → nextop opstr s1 = some (none, s2) →
      plnge_rel opstr hier fuel s = some (e0, s2)) ∧
    (∀ (fuel i : Nat) (s s1 s2 s3 : ParserState) (e0 : Expr)
      (ops : List (token_pos_t × TokenKind × Expr)),
      hier s = some (e0, s1) → nextop opstr s1 = some (some i, s2) →
      CompareRun opstr hier i s2 ops s3 → ops.length ≤ fuel →
      plnge_rel opstr hier fuel s =
          some (Expr.ChainedCompareExpr (current_token s2).start e0 ops, s3) ∧
        ops ≠ [] ∧ ∀ o ∈ ops, o.2.1 ∈ opstr) ∧
    (∀ (fuel : Nat) (s s' : ParserState) (e : Expr),
      hier14 L E fuel s = some (e, s') → e.allNodes (chainNode L) = true) := by
  refine ⟨?_, ?_, ?_⟩
  · intro fuel s s1 s2 e0 h1 h2
    unfold plnge_rel
    refine run_bind h1 ?_
    refine run_bind h2 ?_
    rfl
  · intro fuel i s s1 s2 s3 e0 ops h1 h2 hrun hf
    refine ⟨?_, CompareRun.ne_nil opstr hier i s2 ops s3 hrun,
      CompareRun.mem opstr hier i s2 ops s3 hrun (nextop_lt opstr _ _ _ h2 i rfl)⟩
    unfold plnge_rel
    refine run_bind h1 ?_
    refine run_bind h2 ?_
    show (current_pos >>= fun chainpos => _) s2 = _
    refine run_bind (current_pos_run _) ?_
    refine run_bind (CompareRun.fold_loop opstr hier i s2 ops s3 hrun fuel [] hf) ?_
    rfl
  · intro fuel s s' e h
    exact hier14_all L E (chainNode L) (chainNode_rules L) fuel s e s' h

/-- Witness of C4: `a < b < c )` gives one `ChainedCompareExpr` with two entries. -/
theorem plnge_rel_folds_witness :
    hier9 sample_lists sample_externals (hier14 sample_lists sample_externals 20) 20
        (init_state c4_tokens) =
      some (Expr.ChainedCompareExpr ⟨1, 1⟩ (Expr.SymbolExpr ⟨1, 0⟩ "a") c4_ops,
        consumed_state c4_tokens 5) ∧
    c4_ops ≠ [] ∧ ∀ o ∈ c4_ops, o.2.1 ∈ sample_lists.list9 :=
  (plnge_rel_folds sample_lists sample_externals sample_lists.list9 c4_hier8).2.1 20 2
    (init_state c4_tokens) (consumed_state c4_tokens 1) (consumed_state c4_tokens 2)
    (consumed_state c4_tokens 5) (Expr.SymbolExpr ⟨1, 0⟩ "a") c4_ops
    (by decide!) (by decide!)
    (CompareRun.more 2 2 (consumed_state c4_tokens 2) (consumed_state c4_tokens 3)
      (consumed_state c4_tokens 4) (consumed_state c4_tokens 5) (Expr.SymbolExpr ⟨1, 2⟩ "b") _
      (by decide!) (by decide!)
      (CompareRun.last 2 (consumed_state c4_tokens 4) (consumed_state c4_tokens 5)
        (consumed_state c4_tokens 5) (Expr.SymbolExpr ⟨1, 4⟩ "c") (by decide!) (by decide!)))
    (by decide)

theorem OpLists.table_nil_of_gt (L : OpLists) (k : Nat) (hk : 12 < k) : L.table k = [] := by
  unfold OpLists.table
  rw [if_neg (by omega)]
  exact List.getD_eq_default _ _ (by simp [OpLists.tables]; omega)

theorem levelNode_rules (L : OpLists) : NodeRules L (levelNode L) where
  plain := by
    intro e he
    cases e <;> first | rfl | simp [Expr.isOperatorNode] at he
  assign := by
    intro q t l r ht
    simp [levelNode, ht]
  binary := by
    intro k t ht hk q l r _ _
    have hmem : k ∈ plnge_levels := by
      have h3 : ¬ k < 3 := by
        intro h
        simp [OpLists.table, h] at ht
      have h12 : ¬ 12 < k := by
        intro h
        rw [L.table_nil_of_gt k h] at ht
        simp at ht
      have : k = 3 ∨ k = 4 ∨ k = 5 ∨ k = 6 ∨ k = 7 ∨ k = 8 ∨ k = 10 ∨ k = 11 ∨ k = 12 := by
        omega
      simp only [plnge_levels, List.mem_cons, List.mem_singleton, List.not_mem_nil, or_false]
      exact this
    have hany : (plnge_levels.any fun k => decide (t ∈ L.table k)) = true :=
      List.any_eq_true.2 ⟨k, hmem, by simpa using ht⟩
    simp only [levelNode, hany, Bool.or_true, and_self]
  chain := by
    intro q first ops hne hmem
    simp only [levelNode, Bool.and_eq_true, Bool.not_eq_true', List.all_eq_true,
      decide_eq_true_eq]
    refine ⟨?_, hmem⟩
    cases ops with
    | nil => exact absurd rfl hne
    | cons _ _ => rfl

/-- C5, as the code has it: the chained-comparison level is level 9. `hier9` is
built with `plnge_rel` over `list9`, takes its operands from `hier8` and is the
operand level of `hier10`; the levels 3 to 8 and 10 to 12 are built with `plnge`,
`hier6` over `list6` with operands from `hier5`. In every tree `hier14` returns, a
`ChainedCompareExpr` carries operators of `list9` and a `BinaryExpr` or
`LogicalExpr` carries an assignment operator or an operator of a level other
than 9. -/
theorem hier9_is_chained (L : OpLists) (E : Externals) :
    (∀ (h14 : P Expr) (fuel : Nat),
      hier9 L E h14 fuel = plnge_rel L.list9 (hier8 L E h14 fuel) fuel ∧
      hier10 L E h14 fuel = plnge L.list10 (hier9 L E h14 fuel) fuel ∧
      hier3 L E h14 fuel = plnge L.list3 (hier2 E h14 fuel) fuel ∧
      hier4 L E h14 fuel = plnge L.list4 (hier3 L E h14 fuel) fuel ∧
      hier5 L E h14 fuel = plnge L.list5 (hier4 L E h14 fuel) fuel ∧
      hier6 L E h14 fuel = plnge L.list6 (hier5 L E h14 fuel) fuel ∧
      hier7 L E h14 fuel = plnge L.list7 (hier6 L E h14 fuel) fuel ∧
      hier8 L E h14 fuel = plnge L.list8 (hier7 L E h14 fuel) fuel ∧
      hier11 L E h14 fuel = plnge L.list11 (hier10 L E h14 fuel) fuel ∧
      hier12 L E h14 fuel = plnge L.list12 (hier11 L E h14 fuel) fuel) ∧
    (∀ (fuel : Nat) (s s' : ParserState) (e : Expr),
      hier14 L E fuel s = some (e, s') → e.allNodes (levelNode L) = true) :=
  ⟨fun _ _ => ⟨rfl, rfl, rfl, rfl, rfl, rfl, rfl, rfl, rfl, rfl⟩,
    fun fuel s s' e h => hier14_all L E (levelNode L) (levelNode_rules L) fuel s e s' h⟩

/-- Witness of C5 as amended: in `a & b < c ;` the chain of level 9 has the level 6
node `a & b` as its first operand. -/
theorem hier9_is_chained_witness :
    hier14 sample_lists sample_externals 20 (init_state c5_tokens) =
      some (c5_tree, consumed_state c5_tokens 5) ∧
    c5_tree.allNodes (levelNode sample_lists) = true :=
  ⟨by decide!,
    (hier9_is_chained sample_lists sample_externals).2 20 (init_state c5_tokens)
      (consumed_state c5_tokens 5) c5_tree (by decide!)⟩

/-- C5 fails for the code: `hier6` builds nested `BinaryExpr` nodes, also when
`list6` holds the relational operators, and the `ChainedCompareExpr` comes from
`hier9`. -/
theorem hier6_builds_binary :
    hier6 c5_rel_lists sample_externals (hier14 c5_rel_lists sample_externals 20) 20
        (init_state c5_lt_tokens) =
      some (.BinaryExpr ⟨1, 3⟩ ch_lt
        (.BinaryExpr ⟨1, 1⟩ ch_lt (.SymbolExpr ⟨1, 0⟩ "a") (.SymbolExpr ⟨1, 2⟩ "b"))
        (.SymbolExpr ⟨1, 4⟩ "c"), consumed_state c5_lt_tokens 5) ∧
    hier6 sample_lists sample_externals (hier14 sample_lists sample_externals 20) 20
        (init_state c5_amp_tokens) =
      some (.BinaryExpr ⟨1, 3⟩ ch_amp
        (.BinaryExpr ⟨1, 1⟩ ch_amp (.SymbolExpr ⟨1, 0⟩ "a") (.SymbolExpr ⟨1, 2⟩ "b"))
        (.SymbolExpr ⟨1, 4⟩ "c"), consumed_state c5_amp_tokens 5) ∧
    hier9 sample_lists sample_externals (hier14 sample_lists sample_externals 20) 20
        (init_state c5_lt_tokens) =
      some (.ChainedCompareExpr ⟨1, 1⟩ (.SymbolExpr ⟨1, 0⟩ "a")
        [(⟨1, 1⟩, ch_lt, .SymbolExpr ⟨1, 2⟩ "b"), (⟨1, 3⟩, ch_lt, .SymbolExpr ⟨1, 4⟩ "c")],
        consumed_state c5_lt_tokens 5) :=
  ⟨by decide!, by decide!, by decide!⟩

section run

variable {α : Type}

theorem SaveAndSet_run (getf : ParserState → Bool) (setf : Bool → ParserState → ParserState)
    (v : Bool) (body : P α) (s s' : ParserState) (a : α)
    (h : body (setf v s) = some (a, s')) :
    SaveAndSet getf setf v body s = some (a, setf (getf s) s') := by
  unfold SaveAndSet
  rw [h]

end run

theorem CommaRun.comma_loop (h14 : P Expr) :
    ∀ (s : ParserState) (es : List Expr) (s3 : ParserState), CommaRun h14 s es s3 →
      ∀ fuel acc, es.length ≤ fuel → primary_loop h14 fuel acc s = some (acc ++ es, s3) := by
  intro s es s3 h
  induction h with
  | last s s1 e h1 h2 =>
    intro fuel acc hf
    cases fuel with
    | zero => simp at hf
    | succ n =>
      unfold primary_loop
      refine run_bind h1 ?_
      refine run_bind (matchtoken_miss _ _ h2 (by decide)) ?_
      rfl
  | more s s1 s3 e es h1 h2 _ ih =>
    intro fuel acc hf
    cases fuel with
    | zero => simp at hf
    | succ n =>
      unfold primary_loop
      refine run_bind h1 ?_
      refine run_bind (matchtoken_hit _ _ h2) ?_
      have := ih n (acc ++ [e]) (by simpa using hf)
      simpa using this

/-- C6, as the code has it: for a parenthesised primary `( e1, ..., en )` with
`n >= 1` elements parsed by `hier14`, `primary` returns a `CommaExpr` at the
position of the parenthesis holding `e1 .. en` in source order, for `n = 1` as
well; `sc_intest` and `sc_allowtags` are put back afterwards. -/
theorem primary_returns_comma (h14 : P Expr) (fuel : Nat) (s s3 : ParserState)
    (es : List Expr) (hopen : s.peekTok.id = ch_lparen)
    (hrun : CommaRun h14 (set_sc_allowtags true (set_sc_intest false s.adv)) es s3)
    (hfuel : es.length ≤ fuel) (hclose : s3.peekTok.id = ch_rparen) :
    primary h14 fuel s =
        some (Expr.CommaExpr s.peekTok.start es,
          set_sc_intest s.sc_intest (set_sc_allowtags s.sc_allowtags s3.adv)) ∧
      1 ≤ es.length := by
  constructor
  · unfold primary
    refine run_bind (matchtoken_hit _ _ hopen) ?_
    refine run_ite_pos rfl ?_
    have hi : s.adv.sc_intest = s.sc_intest := by
      have := adv_flags s
      simp only [ParserState.flags, Prod.mk.injEq] at this
      exact this.2.1
    have ha : s.adv.sc_allowtags = s.sc_allowtags := by
      have := adv_flags s
      simp only [ParserState.flags, Prod.mk.injEq] at this
      exact this.2.2.1
    rw [← hi, ← ha]
    refine SaveAndSet_run (·.sc_intest) set_sc_intest false _ s.adv _ _ ?_
    refine SaveAndSet_run (·.sc_allowtags) set_sc_allowtags true _ (set_sc_intest false s.adv)
      _ _ ?_
    refine run_bind (current_pos_run _) ?_
    refine run_bind (CommaRun.comma_loop h14 _ es s3 hrun fuel [] hfuel) ?_
    refine run_bind (needtoken_hit _ _ hclose) ?_
    have hpos : (current_token (set_sc_allowtags true (set_sc_intest false s.adv))).start =
        s.peekTok.start := by
      show (current_token s.adv).start = _
      rw [adv_current]
    rw [hpos]
    rfl
  · cases hrun <;> simp

/-- Witness of C6 as amended: `( a , b )` gives the `CommaExpr` of both elements. -/
theorem primary_returns_comma_witness :
    primary (hier14 sample_lists sample_externals 20) 20 (init_state c6_pair_tokens) =
        some (Expr.CommaExpr ⟨1, 0⟩ [Expr.SymbolExpr ⟨1, 1⟩ "a", Expr.SymbolExpr ⟨1, 3⟩ "b"],
          consumed_state c6_pair_tokens 5) ∧
      1 ≤ [Expr.SymbolExpr ⟨1, 1⟩ "a", Expr.SymbolExpr ⟨1, 3⟩ "b"].length :=
  primary_returns_comma (hier14 sample_lists sample_externals 20) 20
    (init_state c6_pair_tokens) (consumed_state c6_pair_tokens 4).peeked
    [Expr.SymbolExpr ⟨1, 1⟩ "a", Expr.SymbolExpr ⟨1, 3⟩ "b"] (by decide)
    (CommaRun.more _ (consumed_state c6_pair_tokens 2) _ (Expr.SymbolExpr ⟨1, 1⟩ "a") _
      (by decide!) (by decide)
      (CommaRun.last _ (consumed_state c6_pair_tokens 4) (Expr.SymbolExpr ⟨1, 3⟩ "b")
        (by decide!) (by decide)))
    (by decide) (by decide)

/-- C6 fails for the code: for `( a )` the element parsed by `hier14` is the
symbol `a`, and `primary` returns a `CommaExpr` holding it, not the symbol. -/
theorem primary_single_is_comma :
    hier14 sample_lists sample_externals 20 (consumed_state c6_tokens 1) =
      some (Expr.SymbolExpr ⟨1, 1⟩ "a", consumed_state c6_tokens 2) ∧
    primary (hier14 sample_lists sample_externals 20) 20 (init_state c6_tokens) =
      some (Expr.CommaExpr ⟨1, 0⟩ [Expr.SymbolExpr ⟨1, 1⟩ "a"], consumed_state c6_tokens 3) :=
  ⟨by decide!, by decide!⟩

section run

variable {α : Type}

theorem SaveAndSet_map (getf : ParserState → Bool) (setf : Bool → ParserState → ParserState)
    (v : Bool) (body : P α) (s : ParserState) :
    SaveAndSet getf setf v body s =
      (body (setf v s)).map fun x => (x.1, setf (getf s) x.2) := by
  unfold SaveAndSet
  cases body (setf v s) <;> rfl

end run

theorem lexpeek_run (k : TokenKind) (s : ParserState) :
    lexpeek k s = some (decide (s.peekTok.id = k), s.peeked) := by
  unfold lexpeek
  refine run_bind (lextok_run _) ?_
  refine run_bind (lexpush_run _) ?_
  rfl

theorem adv_consumed_cons {s : ParserState} {t : token_t} {r : List token_t}
    (h : s.rest = t :: r) : s.adv.consumed = some t :: s.consumed := by
  unfold ParserState.adv; rw [h]

theorem adv_rest_cons {s : ParserState} {t : token_t} {r : List token_t}
    (h : s.rest = t :: r) : s.adv.rest = r := by
  rw [adv_rest, h]; rfl

theorem unlex_rest_cons {s : ParserState} {t : token_t} {c : List (Option token_t)}
    (h : s.consumed = some t :: c) : s.unlex.rest = t :: s.rest := by
  unfold ParserState.unlex; rw [h]

theorem unlex_consumed_cons {s : ParserState} {t : token_t} {c : List (Option token_t)}
    (h : s.consumed = some t :: c) : s.unlex.consumed = c := by
  unfold ParserState.unlex; rw [h]

theorem unlex_errors (s : ParserState) : s.unlex.errors = s.errors := by
  unfold ParserState.unlex
  split <;> rfl

/-- The look-ahead of `parse_stmt` and `parse_for` after a first identifier has
been read: the decision is the one of `spec_is_decl`, and the state afterwards
has the tokens and the errors of the state before. -/
theorem is_decl_run (s : ParserState) :
    ∃ s', (do
        if (← matchtoken TokenKind.ch_lbracket) then
          let b ← lexpeek TokenKind.ch_rbracket
          lexpush
          return b
        else
          lexpeek TokenKind.tSYMBOL : P Bool) s = some (spec_is_decl s.rest, s') ∧
      s'.rest = s.rest ∧ s'.consumed = s.consumed ∧ s'.errors = s.errors := by
  by_cases hb : s.peekTok.id = ch_lbracket
  · obtain ⟨b, r', hr⟩ : ∃ b r', s.rest = b :: r' := by
      cases hrest : s.rest with
      | nil =>
        simp [ParserState.peekTok, hrest, eof_token] at hb
      | cons b r' => exact ⟨b, r', rfl⟩
    have hbt : s.peekTok = b := peekTok_cons hr
    refine ⟨s.adv.peeked.unlex, ?_, ?_, ?_, ?_⟩
    · refine run_bind (matchtoken_hit _ _ hb) ?_
      refine run_ite_pos rfl ?_
      refine run_bind (lexpeek_run _ _) ?_
      refine run_bind (lexpush_run _) ?_
      refine run_pure ?_ rfl
      rw [hbt] at hb
      simp [spec_is_decl, hr, hb, ParserState.peekTok, adv_rest]
    · rw [unlex_rest_cons (t := b) (c := s.consumed) (by rw [peeked_consumed, adv_consumed_cons hr]),
        peeked_rest, adv_rest_cons hr, hr]
    · rw [unlex_consumed_cons (t := b) (c := s.consumed)
        (by rw [peeked_consumed, adv_consumed_cons hr])]
    · rw [unlex_errors, peeked_errors, adv_errors]
  · refine ⟨s.peeked, ?_, by simp, by simp, by simp⟩
    refine run_bind (matchtoken_miss _ _ hb (by decide)) ?_
    refine run_ite_neg (by decide) ?_
    rw [lexpeek_run, peeked_peeked, peeked_peekTok]
    congr 2
    cases hrest : s.rest with
    | nil => simp [spec_is_decl, ParserState.peekTok, hrest, eof_token]
    | cons b r' =>
      have hbt : s.peekTok = b := peekTok_cons hrest
      rw [hbt] at hb ⊢
      simp [spec_is_decl, hb]

theorem parse_for_init_symbol (E : Externals) (h14 : P Expr) (fuel : Nat) (s : ParserState)
    (a : token_t) (r : List token_t) (hs : s.rest = a :: r) (ha : a.id = tSYMBOL) :
    ∃ s0, s0.rest = s.rest ∧ s0.consumed = s.consumed ∧ s0.errors = s.errors ∧
      parse_for_init E h14 fuel s =
        (if spec_is_decl r then parse_local_decl E h14 fuel tSYMBOL true
          else parse_expr_stmt h14 fuel ch_semicolon) s0 := by
  have hp : s.peekTok = a := peekTok_cons hs
  have hpp : s.peeked.peekTok = a := by rw [peeked_peekTok, hp]
  have hr1 : s.peeked.adv.rest = r := by rw [peeked_adv, adv_rest_cons hs]
  have hc1 : s.peeked.adv.consumed = some a :: s.consumed := by
    rw [peeked_adv, adv_consumed_cons hs]
  obtain ⟨s', hrun, h1, h2, h3⟩ := is_decl_run s.peeked.adv
  rw [hr1] at hrun h1
  rw [hc1] at h2
  refine ⟨s'.unlex, ?_, ?_, ?_, ?_⟩
  · rw [unlex_rest_cons h2, h1, hs]
  · rw [unlex_consumed_cons h2]
  · rw [unlex_errors, h3, adv_errors, peeked_errors]
  · unfold parse_for_init
    refine run_bind (matchtoken_miss _ _ (by rw [hp, ha]; decide) (by decide)) ?_
    refine run_ite_neg (by decide) ?_
    refine run_bind (lextok_run _) ?_
    rw [hpp]
    refine run_ite_neg (by rw [ha]; decide) ?_
    refine run_ite_neg (by rw [ha]; decide) ?_
    refine run_ite_pos ha ?_
    refine run_bind hrun ?_
    cases spec_is_decl r
    · refine run_ite_neg (by decide) ?_
      refine run_bind (lexpush_run _) ?_
      rfl
    · refine run_ite_pos rfl ?_
      refine run_bind (lexpush_run _) ?_
      rfl

/-- The indentation check of `parse_stmt`: it may report the loose indentation
warning 217 and leaves the tokens alone. -/
theorem lastindent_run (lastindent : Option Int) (tok : token_t) (s : ParserState) :
    ∃ li' s2, (do
          match lastindent with
          | some li =>
            if tok.id ≠ TokenKind.tLABEL then
              let s ← get
              if li ≥ 0 ∧ li ≠ s.stmtindent ∧ s.indent_nowarn = false ∧ s.sc_tabsize > 0 then
                error 217
              modify fun s => { s with indent_nowarn := false }
              return some s.stmtindent
            else
              return some li
          | none => return none : P (Option Int)) s = some (li', s2) ∧
      s2.rest = s.rest ∧ s2.consumed = s.consumed ∧
      (s2.errors = s.errors ∨ s2.errors = s.errors ++ [217]) := by
  cases lastindent with
  | none => exact ⟨none, s, rfl, rfl, rfl, Or.inl rfl⟩
  | some li =>
    by_cases ht : tok.id ≠ TokenKind.tLABEL
    · by_cases hw : li ≥ 0 ∧ li ≠ s.stmtindent ∧ s.indent_nowarn = false ∧ s.sc_tabsize > 0
      · refine ⟨some s.stmtindent, { s.report 217 with indent_nowarn := false }, ?_,
          report_rest s 217, report_consumed s 217,
          Or.inr (report_errors_warning s (by decide))⟩
        dsimp only
        refine run_ite_pos ht ?_
        refine run_bind (get_run _) ?_
        simp only [bind_run, ite_run, if_pos hw, error_run, Option.bind, pure_run, modify_run]
      · refine ⟨some s.stmtindent, { s with indent_nowarn := false }, ?_, rfl, rfl, Or.inl rfl⟩
        dsimp only
        refine run_ite_pos ht ?_
        refine run_bind (get_run _) ?_
        simp only [bind_run, ite_run, if_neg hw, error_run, Option.bind, pure_run, modify_run]
    · refine ⟨some li, s, ?_, rfl, rfl, Or.inl rfl⟩
      dsimp only
      refine run_ite_neg ht ?_
      rfl

theorem parse_stmt_symbol (L : OpLists) (E : Externals) (fuel : Nat) (li : Option Int)
    (s : ParserState) (a : token_t) (r : List token_t) (hs : s.rest = a :: r)
    (ha : a.id = tSYMBOL) :
    ∃ s0 li', s0.rest = s.rest ∧ s0.consumed = s.consumed ∧
      (s0.errors = s.errors ∨ s0.errors = s.errors ++ [217]) ∧
      parse_stmt L E (fuel + 1) li true s =
        ((if spec_is_decl r then parse_local_decl E (hier14 L E fuel) fuel tNEWDECL true
          else parse_expr_stmt (hier14 L E fuel) fuel tTERM) s0).map
          fun x => ((x.1, li'), set_one_error s.sc_one_error_per_statement x.2) := by
  have hs0 : (set_one_error true s).rest = a :: r := hs
  have hs1 : (set_one_error true s).reset.rest = a :: r := hs
  have hp : (set_one_error true s).reset.peekTok = a := peekTok_cons hs1
  obtain ⟨li', s2, hli, hr2, hc2, he2⟩ := lastindent_run li a (set_one_error true s).reset.adv
  rw [adv_rest_cons hs1] at hr2
  rw [adv_consumed_cons hs1] at hc2
  rw [adv_errors] at he2
  obtain ⟨s', hrun, h1, h2, h3⟩ := is_decl_run s2
  rw [hr2] at hrun h1
  rw [hc2] at h2
  refine ⟨s'.unlex, li', ?_, ?_, ?_, ?_⟩
  · rw [unlex_rest_cons h2, h1, hs]
  · rw [unlex_consumed_cons h2]; rfl
  · rw [unlex_errors, h3]; exact he2
  · unfold parse_stmt
    rw [SaveAndSet_map]
    have key : ∀ (m : Option (StmtResult × ParserState))
        (q : Option (Option Stmt × ParserState)),
        m = q.map (fun x => ((x.1, li'), x.2)) →
        m.map (fun x => (x.1, set_one_error s.sc_one_error_per_statement x.2)) =
          q.map (fun x => ((x.1, li'), set_one_error s.sc_one_error_per_statement x.2)) := by
      intro m q h
      subst h
      cases q <;> rfl
    refine key _ _ ?_
    refine run_bind (freading_run _) ?_
    refine run_ite_neg (by rw [hs0]; simp) ?_
    refine run_bind (errorset_run _) ?_
    refine run_bind (lex_run _) ?_
    rw [hp]
    refine run_bind hli ?_
    refine run_bind (run_ite_pos ha hrun) ?_
    cases spec_is_decl r
    · refine run_ite_neg (by decide) ?_
      have hstmt : ∀ (m : P (Option Stmt)) (st : ParserState)
          (q : Option (Option Stmt × ParserState)), m st = q →
          (m >>= fun stmt => (pure (stmt, li') : P StmtResult)) st =
            q.map fun x => ((x.1, li'), x.2) := by
        intro m st q h
        subst h
        rw [bind_run]
        cases m st <;> rfl
      refine hstmt _ _ _ ?_
      iterate 17 refine run_ite_neg (by rw [ha]; decide) ?_
      refine run_bind (lexpush_run _) ?_
      rfl
    · refine run_ite_pos rfl ?_
      refine run_ite_neg (by decide) ?_
      refine run_bind (lexpush_run _) ?_
      rw [bind_run]
      simp only [if_true]
      cases parse_local_decl E (hier14 L E fuel) fuel tNEWDECL true s'.unlex <;> rfl

/-- C7: declaration-vs-expression disambiguation. For a statement whose first
token is an identifier, `parse_stmt` with `allow_decl` set runs
`parse_local_decl(tNEWDECL, true)` when the tokens after the identifier meet the
look-ahead rule `spec_is_decl` (another identifier, or `[` then `]`), and else
the expression statement; the init clause of `parse_for` makes the same decision
between `parse_local_decl(tSYMBOL, true)` and the expression statement. In each
case the chosen production starts in a state whose tokens, read and unread, are
those before the statement, so it starts at the first identifier again; the only
error reported on the way is the indentation warning 217 of `parse_stmt`. -/
theorem decl_vs_expr_disambiguation (L : OpLists) (E : Externals) (fuel : Nat)
    (s : ParserState) (a : token_t) (r : List token_t) (hs : s.rest = a :: r)
    (ha : a.id = tSYMBOL) :
    (∀ li : Option Int, ∃ s0 li', s0.rest = s.rest ∧ s0.consumed = s.consumed ∧
      (s0.errors = s.errors ∨ s0.errors = s.errors ++ [217]) ∧
      parse_stmt L E (fuel + 1) li true s =
        ((if spec_is_decl r then parse_local_decl E (hier14 L E fuel) fuel tNEWDECL true
          else parse_expr_stmt (hier14 L E fuel) fuel tTERM) s0).map
          fun x => ((x.1, li'), set_one_error s.sc_one_error_per_statement x.2)) ∧
    (∀ h14 : P Expr, ∃ s0, s0.rest = s.rest ∧ s0.consumed = s.consumed ∧
      s0.errors = s.errors ∧
      parse_for_init E h14 fuel s =
        (if spec_is_decl r then parse_local_decl E h14 fuel tSYMBOL true
          else parse_expr_stmt h14 fuel ch_semicolon) s0) :=
  ⟨fun li => parse_stmt_symbol L E fuel li s a r hs ha,
    fun h14 => parse_for_init_symbol E h14 fuel s a r hs ha⟩

/-- Witness of C7: after the identifier `a`, the tokens `[ ] b ;` make the statement a
declaration. -/
theorem decl_vs_expr_disambiguation_witness :
    (init_state (sym "a" 0 :: c7_rest)).rest = sym "a" 0 :: c7_rest ∧
    (sym "a" 0).id = tSYMBOL ∧ spec_is_decl c7_rest = true ∧
    (∀ li : Option Int, ∃ s0 li', s0.rest = (init_state (sym "a" 0 :: c7_rest)).rest ∧
      s0.consumed = (init_state (sym "a" 0 :: c7_rest)).consumed ∧
      (s0.errors = (init_state (sym "a" 0 :: c7_rest)).errors ∨
        s0.errors = (init_state (sym "a" 0 :: c7_rest)).errors ++ [217]) ∧
      parse_stmt sample_lists sample_externals (2 + 1) li true
          (init_state (sym "a" 0 :: c7_rest)) =
        ((if spec_is_decl c7_rest then
            parse_local_decl sample_externals (hier14 sample_lists sample_externals 2) 2
              tNEWDECL true
          else parse_expr_stmt (hier14 sample_lists sample_externals 2) 2 tTERM) s0).map
          fun x => ((x.1, li'),
            set_one_error (init_state (sym "a" 0 :: c7_rest)).sc_one_error_per_statement x.2)) ∧
    (∀ h14 : P Expr, ∃ s0, s0.rest = (init_state (sym "a" 0 :: c7_rest)).rest ∧
      s0.consumed = (init_state (sym "a" 0 :: c7_rest)).consumed ∧
      s0.errors = (init_state (sym "a" 0 :: c7_rest)).errors ∧
      parse_for_init sample_externals h14 2 (init_state (sym "a" 0 :: c7_rest)) =
        (if spec_is_decl c7_rest then parse_local_decl sample_externals h14 2 tSYMBOL true
          else parse_expr_stmt h14 2 ch_semicolon) s0) :=
  ⟨rfl, rfl, by decide,
    decl_vs_expr_disambiguation sample_lists sample_externals 2
      (init_state (sym "a" 0 :: c7_rest)) (sym "a" 0) c7_rest rfl rfl⟩

theorem needsymbol_hit (s : ParserState) (h : s.peekTok.id = tSYMBOL) :
    needsymbol s = some (some s.peekTok.str, s.adv) := by
  unfold needsymbol
  refine run_bind (needtoken_hit _ _ h) ?_
  refine run_ite_pos rfl ?_
  refine run_bind (get_run _) ?_
  rw [adv_current]
  rfl

theorem ArgValue.run (h14 : P Expr) (s : ParserState) (expr : Option Expr) (s1 : ParserState)
    (h : ArgValue h14 s expr s1) :
    (do
      if (← matchtoken TokenKind.ch_underscore) then return none
      else return some (← h14) : P (Option Expr)) s = some (expr, s1) := by
  cases h
  case skip hu =>
    refine run_bind (matchtoken_hit _ _ hu) ?_
    rfl
  case expr e hu he =>
    refine run_bind (matchtoken_miss _ _ hu (by decide)) ?_
    refine run_ite_neg (by decide) ?_
    refine run_bind he ?_
    rfl

theorem call_tail_last (h14 : P Expr) (n : Nat) (named : Bool)
    (args : List (Option String × Option Expr)) (name : Option String) (sa sb : ParserState)
    (expr : Option Expr) (hv : ArgValue h14 sa expr sb) (hclose : sb.peekTok.id = ch_rparen) :
    (do
        let expr ← (do
          if (← matchtoken TokenKind.ch_underscore) then return none
          else return some (← h14))
        let args := args ++ [(name, expr)]
        if (← matchtoken TokenKind.ch_rparen) then
          return args
        else if !(← needtoken TokenKind.ch_comma) then
          return args
        else if (← freading) then
          if (← matchtoken TokenKind.tENDEXPR) then return args
          else parse_call_loop h14 n named args
        else
          return args : P (List (Option String × Option Expr))) sa =
      some (args ++ [(name, expr)], sb.adv) := by
  refine run_bind (hv.run) ?_
  refine run_bind (matchtoken_hit _ _ hclose) ?_
  rfl

theorem call_tail_more (h14 : P Expr) (n : Nat) (named : Bool)
    (args : List (Option String × Option Expr)) (name : Option String) (sa sb : ParserState)
    (expr : Option Expr) (hv : ArgValue h14 sa expr sb) (hcomma : sb.peekTok.id = ch_comma)
    (hrest : sb.adv.rest ≠ []) (hend : sb.adv.peekTok.id ≠ tENDEXPR)
    (r : Option (List (Option String × Option Expr) × ParserState))
    (hr : parse_call_loop h14 n named (args ++ [(name, expr)]) sb.adv.peeked = r) :
    (do
        let expr ← (do
          if (← matchtoken TokenKind.ch_underscore) then return none
          else return some (← h14))
        let args := args ++ [(name, expr)]
        if (← matchtoken TokenKind.ch_rparen) then
          return args
        else if !(← needtoken TokenKind.ch_comma) then
          return args
        else if (← freading) then
          if (← matchtoken TokenKind.tENDEXPR) then return args
          else parse_call_loop h14 n named args
        else
          return args : P (List (Option String × Option Expr))) sa = r := by
  refine run_bind (hv.run) ?_
  refine run_bind (matchtoken_miss _ _ (by rw [hcomma]; decide) (by decide)) ?_
  refine run_ite_neg (by decide) ?_
  refine run_bind (needtoken_hit _ _ (by rw [peeked_peekTok]; exact hcomma)) ?_
  refine run_ite_neg (by decide) ?_
  refine run_bind (freading_run _) ?_
  rw [peeked_adv]
  refine run_ite_pos (by simpa using hrest) ?_
  refine run_bind (matchtoken_miss _ _ hend (by decide)) ?_
  refine run_ite_neg (by decide) ?_
  exact hr

theorem ArgRun.arg_loop (h14 : P Expr) :
    ∀ (prev : List (Option String × Option Expr)) (s : ParserState)
      (new : List (Option String × Option Expr)) (s' : ParserState),
      ArgRun h14 prev s new s' → ∀ fuel, new.length ≤ fuel →
        parse_call_loop h14 fuel (prev.any arg_named) prev s = some (prev ++ new, s') := by
  intro prev s new s' h
  induction h with
  | last prev s sa sb name expr hh hv hclose =>
    intro fuel hf
    cases fuel with
    | zero => simp at hf
    | succ n =>
      unfold parse_call_loop
      dsimp only
      cases hh
      case named h1 h2 h3 =>
        refine run_bind (matchtoken_hit _ _ h1) ?_
        refine run_ite_pos rfl ?_
        refine run_bind (needsymbol_hit _ h2) ?_
        dsimp only
        refine run_bind (needtoken_hit _ _ h3) ?_
        exact call_tail_last h14 n true prev _ _ sb expr hv hclose
      case positional h1 =>
        refine run_bind (matchtoken_miss _ _ h1 (by decide)) ?_
        refine run_ite_neg (by decide) ?_
        generalize prev.any arg_named = earlier at hv ⊢
        cases earlier
        · refine run_ite_neg (by decide) ?_
          refine run_bind (run_pure rfl rfl) ?_
          exact call_tail_last h14 n false prev _ _ sb expr hv hclose
        · refine run_ite_pos rfl ?_
          refine run_bind (error_run _ _) ?_
          exact call_tail_last h14 n true prev _ _ sb expr hv hclose
  | more prev new s sa sb s' name expr hh hv hcomma hrest hend hrun ih =>
    intro fuel hf
    cases fuel with
    | zero => simp at hf
    | succ n =>
      have hih := ih n (by simpa using hf)
      clear hrun ih
      rw [List.append_assoc, List.singleton_append] at hih
      unfold parse_call_loop
      dsimp only
      cases hh
      case named h1 h2 h3 =>
        refine run_bind (matchtoken_hit _ _ h1) ?_
        refine run_ite_pos rfl ?_
        refine run_bind (needsymbol_hit _ h2) ?_
        dsimp only
        refine run_bind (needtoken_hit _ _ h3) ?_
        refine call_tail_more h14 n true prev _ _ sb expr hv hcomma hrest hend _ ?_
        rw [← hih]
        simp [arg_named]
      case positional h1 =>
        refine run_bind (matchtoken_miss _ _ h1 (by decide)) ?_
        refine run_ite_neg (by decide) ?_
        have hany : (prev ++ [((none : Option String), expr)]).any arg_named =
            prev.any arg_named := by simp [arg_named]
        rw [hany] at hih
        generalize prev.any arg_named = earlier at hv hih ⊢
        cases earlier
        · refine run_ite_neg (by decide) ?_
          refine run_bind (run_pure rfl rfl) ?_
          exact call_tail_more h14 n false prev _ _ sb expr hv hcomma hrest hend _ hih
        · refine run_ite_pos rfl ?_
          refine run_bind (error_run _ _) ?_
          exact call_tail_more h14 n true prev _ _ sb expr hv hcomma hrest hend _ hih

section tr

variable {α β : Type}

theorem Tr.tr_bind {m : P α} {f : α → P β} {s : ParserState} {R : α → ParserState → Prop}
    {Q : β → ParserState → Prop} (h1 : Tr m s R)
    (h2 : ∀ a s1, R a s1 → Tr (f a) s1 Q) : Tr (m >>= f) s Q := by
  intro b s' hb
  rw [bind_run] at hb
  cases hm : m s with
  | none => rw [hm] at hb; simp at hb
  | some r =>
    obtain ⟨a, s1⟩ := r
    rw [hm] at hb
    exact h2 a s1 (h1 a s1 hm) b s' hb

theorem Tr.tr_pure {a : α} {s : ParserState} {Q : α → ParserState → Prop} (h : Q a s) :
    Tr (pure a : P α) s Q := by
  intro b s' hb
  simp only [pure_run, Option.some.injEq, Prod.mk.injEq] at hb
  rw [← hb.1, ← hb.2]
  exact h

theorem Tr.tr_mono {m : P α} {s : ParserState} {Q1 Q : α → ParserState → Prop} (h1 : Tr m s Q1)
    (h : ∀ a s1, Q1 a s1 → Q a s1) : Tr m s Q := fun a s' ha => h a s' (h1 a s' ha)

end tr

theorem unlex_errflag (s : ParserState) : s.unlex.errflag = s.errflag := by
  unfold ParserState.unlex
  split <;> rfl

theorem Tr_matchtoken (k : TokenKind) (s : ParserState) :
    Tr (matchtoken k) s (fun _ s1 => s1.errors = s.errors ∧ s1.errflag = s.errflag) := by
  intro b s1 h
  unfold matchtoken at h
  simp only [bind_run, get_run, Option.bind, lextok_run, ite_run, pure_run, lexpush_run] at h
  split_ifs at h <;>
    simp only [Option.some.injEq, Prod.mk.injEq] at h <;>
    rw [← h.2] <;> simp [unlex_errors, unlex_errflag]

theorem needtoken_rel (R : Nat → ParserState → ParserState → Prop)
    (r0 : ∀ s s1, s1.errors = s.errors → s1.errflag = s.errflag → R 0 s s1)
    (rt : ∀ j k s s1 s2, R j s s1 → R k s1 s2 → R (j + k) s s2)
    (re : ∀ s, R 0 s (s.report 1)) (k : TokenKind) (s : ParserState) :
    Tr (needtoken k) s (fun _ s1 => R 0 s s1) := by
  unfold needtoken
  refine Tr.tr_bind (Tr_matchtoken k s) fun b s1 h1 => ?_
  split
  · exact Tr.tr_pure (r0 _ _ h1.1 h1.2)
  · refine Tr.tr_bind (R := fun _ s2 => R 0 s s2) ?_ fun _ s2 h2 => Tr.tr_pure h2
    intro u s2 h2
    rw [error_run] at h2
    simp only [Option.some.injEq, Prod.mk.injEq] at h2
    rw [← h2.2]
    exact rt 0 0 _ _ _ (r0 _ _ h1.1 h1.2) (re s1)

theorem needsymbol_rel (R : Nat → ParserState → ParserState → Prop)
    (r0 : ∀ s s1, s1.errors = s.errors → s1.errflag = s.errflag → R 0 s s1)
    (rt : ∀ j k s s1 s2, R j s s1 → R k s1 s2 → R (j + k) s s2)
    (re : ∀ s, R 0 s (s.report 1)) (s : ParserState) :
    Tr needsymbol s (fun _ s1 => R 0 s s1) := by
  unfold needsymbol
  refine Tr.tr_bind (needtoken_rel R r0 rt re _ s) fun b s1 h1 => ?_
  split
  · refine Tr.tr_bind (R := fun _ s2 => s2 = s1) ?_ fun _ s2 h2 => Tr.tr_pure (by rw [h2]; exact h1)
    intro u s2 h2
    rw [get_run] at h2
    simp only [Option.some.injEq, Prod.mk.injEq] at h2
    exact h2.2.symm
  · exact Tr.tr_pure h1

theorem late_positional_append (named : Bool) (a b : List (Option String × Option Expr)) :
    late_positional named (a ++ b) =
      late_positional named a + late_positional (named || a.any arg_named) b := by
  induction a generalizing named with
  | nil => simp [late_positional]
  | cons x xs ih =>
    have h := ih (named || arg_named x)
    simp only [List.cons_append, late_positional, List.any_cons]
    rw [Bool.or_assoc] at h
    show _ + late_positional _ (xs ++ b) = _
    rw [h]
    omega

theorem arg_sum_cons (v : Expr → Nat) (name : Option String) (expr : Option Expr)
    (rest : List (Option String × Option Expr)) :
    arg_sum v ((name, expr) :: rest) = (match expr with
      | some e => v e
      | none => 0) + arg_sum v rest := by
  simp only [arg_sum, List.map_cons, List.sum_cons] <;> cases expr <;> rfl

theorem arg_sum_zero (args : List (Option String × Option Expr)) :
    arg_sum (fun _ => 0) args = 0 := by
  induction args with
  | nil => rfl
  | cons a rest ih =>
    obtain ⟨name, expr⟩ := a
    rw [arg_sum_cons, ih]
    cases expr <;> rfl

/-- The accounting of the argument loop for a relation `R k s s'` between the
state before and the state after, indexed by a number of calls of `error(44)`:
quiet steps and reports of error 1 have index 0, a call of `error(44)` has
index 1, the operand `e` has index `v e`, and indices add up along the run. -/
theorem parse_call_loop_rel (R : Nat → ParserState → ParserState → Prop)
    (r0 : ∀ s s1, s1.errors = s.errors → s1.errflag = s.errflag → R 0 s s1)
    (rt : ∀ j k s s1 s2, R j s s1 → R k s1 s2 → R (j + k) s s2)
    (re : ∀ s, R 0 s (s.report 1)) (r44 : ∀ s, R 1 s (s.report 44))
    (h14 : P Expr) (v : Expr → Nat)
    (hh : ∀ s e s', h14 s = some (e, s') → R (v e) s s') :
    ∀ (fuel : Nat) (named : Bool) (acc : List (Option String × Option Expr))
      (s : ParserState),
      Tr (parse_call_loop h14 fuel named acc) s fun args s' =>
        ∃ new, args = acc ++ new ∧ R (late_positional named new + arg_sum v new) s s' := by
  have rl : ∀ k s s1 s2, R 0 s s1 → R k s1 s2 → R k s s2 := by
    intro k s s1 s2 h1 h2
    have h := rt 0 k s s1 s2 h1 h2
    rwa [Nat.zero_add] at h
  have rr : ∀ k s s1 s2, R k s s1 → R 0 s1 s2 → R k s s2 := fun k s s1 s2 h1 h2 =>
    rt k 0 s s1 s2 h1 h2
  have rq : ∀ s s1 : ParserState, s1.errors = s.errors ∧ s1.errflag = s.errflag → R 0 s s1 :=
    fun s s1 h => r0 s s1 h.1 h.2
  intro fuel
  induction fuel with
  | zero =>
    intro named acc s a s' h
    simp [parse_call_loop] at h
  | succ n ih =>
    intro named acc s
    have tail : ∀ (nm : Bool) (name : Option String) (sa : ParserState),
        Tr (do
          let expr ← (do
            if (← matchtoken TokenKind.ch_underscore) then return none
            else return some (← h14))
          let args := acc ++ [(name, expr)]
          if (← matchtoken TokenKind.ch_rparen) then
            return args
          else if !(← needtoken TokenKind.ch_comma) then
            return args
          else if (← freading) then
            if (← matchtoken TokenKind.tENDEXPR) then return args
            else parse_call_loop h14 n nm args
          else
            return args : P (List (Option String × Option Expr))) sa fun args s' =>
          ∃ expr new, args = acc ++ (name, expr) :: new ∧
            R (late_positional nm new + arg_sum v ((name, expr) :: new)) sa s' := by
      intro nm name sa
      have hval : Tr (do
            if (← matchtoken TokenKind.ch_underscore) then return none
            else return some (← h14) : P (Option Expr)) sa fun expr sb =>
          R (arg_sum v [(name, expr)]) sa sb := by
        refine Tr.tr_bind (Tr_matchtoken _ sa) fun b s1 h1 => ?_
        split
        · exact Tr.tr_pure (rq _ _ h1)
        · refine Tr.tr_bind (R := fun e s2 => R (arg_sum v [(name, some e)]) sa s2) ?_
            fun e s2 h2 => Tr.tr_pure h2
          intro e s2 h2
          have h3 := rl _ _ _ _ (rq _ _ h1) (hh s1 e s2 h2)
          have e1 : arg_sum v [(name, some e)] = v e := by
            rw [arg_sum_cons]
            rfl
          rw [e1]
          exact h3
      refine Tr.tr_bind hval fun expr sb hb => ?_
      have done : ∀ st : ParserState, R 0 sb st →
          ∃ expr' new, acc ++ [(name, expr)] = acc ++ (name, expr') :: new ∧
            R (late_positional nm new + arg_sum v ((name, expr') :: new)) sa st := by
        intro st hst
        refine ⟨expr, [], rfl, ?_⟩
        have e1 : late_positional nm [] + arg_sum v [(name, expr)] = arg_sum v [(name, expr)] := by
          simp [late_positional]
        rw [e1]
        exact rr _ _ _ _ hb hst
      refine Tr.tr_bind (Tr_matchtoken _ sb) fun b s1 h1 => ?_
      split
      · exact Tr.tr_pure (done s1 (rq _ _ h1))
      · refine Tr.tr_bind (needtoken_rel R r0 rt re _ s1) fun b2 s2 h2 => ?_
        have c2 : R 0 sb s2 := rl _ _ _ _ (rq _ _ h1) h2
        split
        · exact Tr.tr_pure (done s2 c2)
        · refine Tr.tr_bind (R := fun _ s3 => s3 = s2) ?_ fun b3 s3 h3 => ?_
          · intro u s3 h3
            rw [freading_run] at h3
            simp only [Option.some.injEq, Prod.mk.injEq] at h3
            exact h3.2.symm
          · subst h3
            split
            · refine Tr.tr_bind (Tr_matchtoken _ s3) fun b4 s4 h4 => ?_
              have c4 : R 0 sb s4 := rr _ _ _ _ c2 (rq _ _ h4)
              split
              · exact Tr.tr_pure (done s4 c4)
              · refine Tr.tr_mono (ih nm (acc ++ [(name, expr)]) s4) ?_
                intro args s' ⟨new, hargs, hrel⟩
                refine ⟨expr, new, by rw [hargs, List.append_assoc, List.singleton_append], ?_⟩
                have h5 := rt _ _ _ _ _ (rr _ _ _ _ hb c4) hrel
                have e1 : late_positional nm new + arg_sum v ((name, expr) :: new) =
                    arg_sum v [(name, expr)] + (late_positional nm new + arg_sum v new) := by
                  rw [arg_sum_cons, arg_sum_cons]
                  simp [arg_sum]
                  omega
                rw [e1]
                exact h5
            · exact Tr.tr_pure (done s3 c2)
    unfold parse_call_loop
    dsimp only
    refine Tr.tr_bind (Tr_matchtoken _ s) fun b s1 h1 => ?_
    split
    · refine Tr.tr_bind (needsymbol_rel R r0 rt re s1) fun o s2 h2 => ?_
      have c2 : R 0 s s2 := rl _ _ _ _ (rq _ _ h1) h2
      split
      · refine Tr.tr_pure ⟨[], by simp, ?_⟩
        have e1 : late_positional named [] + arg_sum v [] = 0 := by simp [late_positional, arg_sum]
        rw [e1]
        exact c2
      · rename_i ident
        refine Tr.tr_bind (needtoken_rel R r0 rt re _ s2) fun b3 s3 h3 => ?_
        refine Tr.tr_mono (tail true (some ident) s3) ?_
        intro args s' ⟨expr, new, hargs, hrel⟩
        refine ⟨(some ident, expr) :: new, hargs, ?_⟩
        have e1 : late_positional named ((some ident, expr) :: new) = late_positional true new := by
          simp [late_positional, arg_named]
        rw [e1]
        exact rl _ _ _ _ (rr _ _ _ _ c2 h3) hrel
    · cases named
      · refine Tr.tr_bind (Tr.tr_pure (Q := fun _ s2 => s2 = s1) rfl) fun _ s2 h2 => ?_
        subst h2
        refine Tr.tr_mono (tail false none s2) ?_
        intro args s' ⟨expr, new, hargs, hrel⟩
        refine ⟨(none, expr) :: new, hargs, ?_⟩
        have e1 : late_positional false ((none, expr) :: new) = late_positional false new := by
          simp [late_positional, arg_named]
        rw [e1]
        exact rl _ _ _ _ (rq _ _ h1) hrel
      · refine Tr.tr_bind (R := fun _ s2 => R 1 s s2) ?_ fun _ s2 h2 => ?_
        · intro u s2 h2
          rw [error_run] at h2
          simp only [Option.some.injEq, Prod.mk.injEq] at h2
          rw [← h2.2]
          exact rl _ _ _ _ (rq _ _ h1) (r44 s1)
        · refine Tr.tr_mono (tail true none s2) ?_
          intro args s' ⟨expr, new, hargs, hrel⟩
          refine ⟨(none, expr) :: new, hargs, ?_⟩
          have h5 := rt _ _ _ _ _ h2 hrel
          have e1 : late_positional true ((none, expr) :: new) + arg_sum v ((none, expr) :: new) =
              1 + (late_positional true new + arg_sum v ((none, expr) :: new)) := by
            simp [late_positional, arg_named]
            omega
          rw [e1]
          exact h5

theorem count44_report_le (s : ParserState) (c : Nat) :
    count44 (s.report c) ≤ count44 s + (if c = 44 then 1 else 0) := by
  unfold count44
  rw [report_errors]
  by_cases hc : c = 44
  · subst hc
    rw [if_pos rfl]
    split_ifs <;> simp [List.count_append]
  · rw [if_neg hc]
    have h0 : List.count 44 [c] = 0 := by
      simp [List.count_cons, List.count_nil]
      exact fun h => hc h
    split_ifs <;> simp [List.count_append, h0, hc]

theorem parse_call_loop_count (h14 : P Expr) (v : Expr → Nat)
    (hh : ∀ s e s', h14 s = some (e, s') → count44 s' ≤ count44 s + v e) :
    ∀ (fuel : Nat) (named : Bool) (acc : List (Option String × Option Expr))
      (s : ParserState),
      Tr (parse_call_loop h14 fuel named acc) s fun args s' =>
        ∃ new, args = acc ++ new ∧
          count44 s' ≤ count44 s + (late_positional named new + arg_sum v new) := by
  refine parse_call_loop_rel (fun k s s' => count44 s' ≤ count44 s + k) ?_ ?_ ?_ ?_ h14 v hh
  · intro s s1 h1 _
    unfold count44
    rw [h1]
    omega
  · intro j k s s1 s2 h1 h2
    omega
  · intro s
    exact count44_report_le s 1
  · intro s
    exact count44_report_le s 44

section grows
variable {α β : Type}

theorem Extends.x_refl (s : ParserState) : Extends s s :=
  ⟨[], by simp, fun h => Or.inl h⟩

theorem Extends.x_same {s s' : ParserState} (h1 : s'.errors = s.errors)
    (h2 : s'.errflag = s.errflag) : Extends s s' :=
  ⟨[], by simp [h1], fun h => Or.inl (by rw [← h2]; exact h)⟩

theorem Extends.x_trans {s s1 s2 : ParserState} (h1 : Extends s s1) (h2 : Extends s1 s2) :
    Extends s s2 := by
  obtain ⟨w1, e1, f1⟩ := h1
  obtain ⟨w2, e2, f2⟩ := h2
  refine ⟨w1 ++ w2, by rw [e2, e1, List.append_assoc], fun h => ?_⟩
  rcases f2 h with h3 | h3
  · rcases f1 h3 with h4 | h4
    · exact Or.inl h4
    · exact Or.inr (by simp [h4])
  · exact Or.inr (by simp [h3])

theorem Extends.x_report (s : ParserState) (c : Nat) : Extends s (s.report c) := by
  unfold ParserState.report
  split_ifs with h1 h2
  · exact ⟨[c], rfl, fun h => Or.inr (by simp)⟩
  · exact Extends.x_refl s
  · exact ⟨[c], rfl, fun h => Or.inr (by simp)⟩

theorem Grows.of_pure (a : α) : Grows (pure a : P α) := by
  intro s b s' h
  simp only [pure_run, Option.some.injEq, Prod.mk.injEq] at h
  rw [← h.2]
  exact Extends.x_refl s

theorem Grows.of_bind {m : P α} {f : α → P β} (h1 : Grows m) (h2 : ∀ a, Grows (f a)) :
    Grows (m >>= f) := by
  intro s b s' hb
  rw [bind_run] at hb
  cases hm : m s with
  | none => rw [hm] at hb; simp at hb
  | some r =>
    obtain ⟨a, s1⟩ := r
    rw [hm] at hb
    exact Extends.x_trans (h1 s a s1 hm) (h2 a s1 b s' hb)

theorem Grows.of_failure : Grows (failure : P α) := by
  intro s a s' h
  simp at h

theorem Grows.of_errors {m : P α}
    (h : ∀ s a s', m s = some (a, s') → s'.errors = s.errors ∧ s'.errflag = s.errflag) :
    Grows m := by
  intro s a s' hm
  exact Extends.x_same (h s a s' hm).1 (h s a s' hm).2

theorem Grows.of_SaveAndSet {m : P α} (g : ParserState → Bool)
    (f : Bool → ParserState → ParserState) (v : Bool)
    (hf : ∀ b s, (f b s).errors = s.errors ∧ (f b s).errflag = s.errflag) (h : Grows m) :
    Grows (SaveAndSet g f v m) := by
  intro s a s' hs
  rw [SaveAndSet_map] at hs
  cases hm : m (f v s) with
  | none => rw [hm] at hs; simp at hs
  | some r =>
    obtain ⟨a1, s1⟩ := r
    rw [hm] at hs
    simp only [Option.map_some', Option.some.injEq, Prod.mk.injEq] at hs
    have := h _ _ _ hm
    rw [← hs.2]
    exact Extends.x_trans (Extends.x_same (hf v s).1 (hf v s).2)
      (Extends.x_trans this (Extends.x_same (hf _ s1).1 (hf _ s1).2))
end grows

theorem Grows_matchtoken (k : TokenKind) : Grows (matchtoken k) :=
  Grows.of_errors fun s a s' h => Tr_matchtoken k s a s' h

theorem Grows_lextok : Grows lextok :=
  Grows.of_errors fun s a s' h => by
    rw [lextok_run] at h
    simp only [Option.some.injEq, Prod.mk.injEq] at h
    rw [← h.2]
    simp

theorem Grows_lex : Grows lex := Grows_lextok

theorem Grows_lexpush : Grows lexpush :=
  Grows.of_errors fun s a s' h => by
    rw [lexpush_run] at h
    simp only [Option.some.injEq, Prod.mk.injEq] at h
    rw [← h.2, unlex_errors, unlex_errflag]
    exact ⟨rfl, rfl⟩

theorem Grows_error (code : Nat) : Grows (error code) := by
  intro s a s' h
  rw [error_run] at h
  simp only [Option.some.injEq, Prod.mk.injEq] at h
  rw [← h.2]
  exact Extends.x_report s code

theorem Grows_current_pos : Grows current_pos :=
  Grows.of_errors fun s a s' h => by
    rw [current_pos_run] at h
    simp only [Option.some.injEq, Prod.mk.injEq] at h
    rw [← h.2]
    exact ⟨rfl, rfl⟩

theorem Grows_freading : Grows freading :=
  Grows.of_errors fun s a s' h => by
    rw [freading_run] at h
    simp only [Option.some.injEq, Prod.mk.injEq] at h
    rw [← h.2]
    exact ⟨rfl, rfl⟩

theorem Grows_get : Grows (get : P ParserState) :=
  Grows.of_errors fun s a s' h => by
    rw [get_run] at h
    simp only [Option.some.injEq, Prod.mk.injEq] at h
    rw [← h.2]
    exact ⟨rfl, rfl⟩

theorem Grows_lexclr (b : Bool) : Grows (lexclr b) :=
  Grows.of_errors fun s a s' h => by
    unfold lexclr at h
    rw [modify_run] at h
    simp only [Option.some.injEq, Prod.mk.injEq] at h
    rw [← h.2]
    split <;> exact ⟨rfl, rfl⟩

theorem Grows_needtoken (k : TokenKind) : Grows (needtoken k) := by
  unfold needtoken
  repeat (first
    | exact Grows.of_pure _
    | exact Grows_matchtoken _
    | exact Grows_error _
    | refine Grows.of_bind ?_ fun _ => ?_
    | split)

theorem Grows_needsymbol : Grows needsymbol := by
  unfold needsymbol
  repeat (first
    | exact Grows.of_pure _
    | exact Grows_needtoken _
    | exact Grows_get
    | refine Grows.of_bind ?_ fun _ => ?_
    | split)

theorem Grows_matchsymbol : Grows matchsymbol := by
  unfold matchsymbol
  repeat (first
    | exact Grows.of_pure _
    | exact Grows_matchtoken _
    | exact Grows_get
    | refine Grows.of_bind ?_ fun _ => ?_
    | split)

theorem Grows_lexpeek (k : TokenKind) : Grows (lexpeek k) := by
  unfold lexpeek
  repeat (first
    | exact Grows.of_pure _
    | exact Grows_lextok
    | exact Grows_lexpush
    | refine Grows.of_bind ?_ fun _ => ?_
    | split)

theorem Grows_nextop_from (opstr : List TokenKind) : ∀ idx, Grows (nextop_from idx opstr) := by
  induction opstr with
  | nil => intro idx; exact Grows.of_pure _
  | cons op ops ih =>
    intro idx
    unfold nextop_from
    refine Grows.of_bind (Grows_matchtoken _) fun b => ?_
    split
    · exact Grows.of_pure _
    · exact ih _

theorem Grows_nextop (opstr : List TokenKind) : Grows (nextop opstr) := Grows_nextop_from opstr 0

theorem Grows_count_matches (tok : TokenKind) :
    ∀ fuel x0, Grows (count_matches tok fuel x0) := by
  intro fuel
  induction fuel with
  | zero =>
    intro _
    exact Grows.of_failure
  | succ n ih =>
    intro _
    have hloop : True := trivial
    have hsub : True := trivial
    unfold count_matches
    repeat (first
      | exact Grows.of_pure _
      | exact Grows.of_failure
      | assumption
      | exact Grows_matchtoken _
      | exact Grows_needtoken _
      | exact Grows_needsymbol
      | exact Grows_matchsymbol
      | exact Grows_lex
      | exact Grows_lextok
      | exact Grows_lexpush
      | exact Grows_lexpeek _
      | exact Grows_error _
      | exact Grows_current_pos
      | exact Grows_freading
      | exact Grows_get
      | exact Grows_lexclr _
      | exact Grows_nextop _
      | exact ih _
      | exact ih _ _
      | exact ih _ _ _
      | exact hloop _
      | exact hloop _ _
      | exact hloop _ _ _
      | exact hsub _
      | exact hsub _ _
      | exact hsub _ _ _
      | exact hsub _ _ _ _
      | refine Grows.of_SaveAndSet _ _ _ (fun _ _ => ⟨rfl, rfl⟩) ?_
      | refine Grows.of_bind ?_ fun _ => ?_
      | split
      | dsimp only)

theorem Grows_close_parens : ∀ n, Grows (close_parens n) := by
  intro n
  induction n with
  | zero => exact Grows.of_pure _
  | succ n ih =>
    unfold close_parens
    exact Grows.of_bind (Grows_needtoken _) fun _ => ih

theorem Grows_sizeof_levels  :
    ∀ fuel x0, Grows (sizeof_levels fuel x0) := by
  intro fuel
  induction fuel with
  | zero =>
    intro _
    exact Grows.of_failure
  | succ n ih =>
    intro _
    have hloop : True := trivial
    have hsub : True := trivial
    unfold sizeof_levels
    repeat (first
      | exact Grows.of_pure _
      | exact Grows.of_failure
      | assumption
      | exact Grows_matchtoken _
      | exact Grows_needtoken _
      | exact Grows_needsymbol
      | exact Grows_matchsymbol
      | exact Grows_lex
      | exact Grows_lextok
      | exact Grows_lexpush
      | exact Grows_lexpeek _
      | exact Grows_error _
      | exact Grows_current_pos
      | exact Grows_freading
      | exact Grows_get
      | exact Grows_lexclr _
      | exact Grows_nextop _
      | exact ih _
      | exact ih _ _
      | exact ih _ _ _
      | exact hloop _
      | exact hloop _ _
      | exact hloop _ _ _
      | exact hsub _
      | exact hsub _ _
      | exact hsub _ _ _
      | exact hsub _ _ _ _
      | refine Grows.of_SaveAndSet _ _ _ (fun _ _ => ⟨rfl, rfl⟩) ?_
      | refine Grows.of_bind ?_ fun _ => ?_
      | split
      | dsimp only)

theorem Grows_constant_loop (h14 : P Expr) (h : Grows h14) :
    ∀ fuel x0, Grows (constant_loop h14 fuel x0) := by
  intro fuel
  induction fuel with
  | zero =>
    intro _
    exact Grows.of_failure
  | succ n ih =>
    intro _
    have hloop : True := trivial
    have hsub : True := trivial
    unfold constant_loop
    repeat (first
      | exact Grows.of_pure _
      | exact Grows.of_failure
      | assumption
      | exact Grows_matchtoken _
      | exact Grows_needtoken _
      | exact Grows_needsymbol
      | exact Grows_matchsymbol
      | exact Grows_lex
      | exact Grows_lextok
      | exact Grows_lexpush
      | exact Grows_lexpeek _
      | exact Grows_error _
      | exact Grows_current_pos
      | exact Grows_freading
      | exact Grows_get
      | exact Grows_lexclr _
      | exact Grows_nextop _
      | exact ih _
      | exact ih _ _
      | exact ih _ _ _
      | exact hloop _
      | exact hloop _ _
      | exact hloop _ _ _
      | exact hsub _
      | exact hsub _ _
      | exact hsub _ _ _
      | exact hsub _ _ _ _
      | refine Grows.of_SaveAndSet _ _ _ (fun _ _ => ⟨rfl, rfl⟩) ?_
      | refine Grows.of_bind ?_ fun _ => ?_
      | split
      | dsimp only)

theorem Grows_constant (h14 : P Expr) (h : Grows h14) (fuel : Nat) : Grows (constant h14 fuel) := by
  have hloop := Grows_constant_loop h14 h fuel
  have ih : True := trivial
  have hsub : True := trivial
  unfold constant
  repeat (first
    | exact Grows.of_pure _
    | exact Grows.of_failure
    | assumption
    | exact Grows_matchtoken _
    | exact Grows_needtoken _
    | exact Grows_needsymbol
    | exact Grows_matchsymbol
    | exact Grows_lex
    | exact Grows_lextok
    | exact Grows_lexpush
    | exact Grows_lexpeek _
    | exact Grows_error _
    | exact Grows_current_pos
    | exact Grows_freading
    | exact Grows_get
    | exact Grows_lexclr _
    | exact Grows_nextop _
    | exact ih _
    | exact ih _ _
    | exact ih _ _ _
    | exact hloop _
    | exact hloop _ _
    | exact hloop _ _ _
    | exact hsub _
    | exact hsub _ _
    | exact hsub _ _ _
    | exact hsub _ _ _ _
    | refine Grows.of_SaveAndSet _ _ _ (fun _ _ => ⟨rfl, rfl⟩) ?_
    | refine Grows.of_bind ?_ fun _ => ?_
    | split
    | dsimp only)

theorem Grows_parse_call_loop (h14 : P Expr) (h : Grows h14) :
    ∀ fuel x0 x1, Grows (parse_call_loop h14 fuel x0 x1) := by
  intro fuel
  induction fuel with
  | zero =>
    intro _ _
    exact Grows.of_failure
  | succ n ih =>
    intro _ _
    have hloop : True := trivial
    have hsub : True := trivial
    unfold parse_call_loop
    repeat (first
      | exact Grows.of_pure _
      | exact Grows.of_failure
      | assumption
      | exact Grows_matchtoken _
      | exact Grows_needtoken _
      | exact Grows_needsymbol
      | exact Grows_matchsymbol
      | exact Grows_lex
      | exact Grows_lextok
      | exact Grows_lexpush
      | exact Grows_lexpeek _
      | exact Grows_error _
      | exact Grows_current_pos
      | exact Grows_freading
      | exact Grows_get
      | exact Grows_lexclr _
      | exact Grows_nextop _
      | exact ih _
      | exact ih _ _
      | exact ih _ _ _
      | exact hloop _
      | exact hloop _ _
      | exact hloop _ _ _
      | exact hsub _
      | exact hsub _ _
      | exact hsub _ _ _
      | exact hsub _ _ _ _
      | refine Grows.of_SaveAndSet _ _ _ (fun _ _ => ⟨rfl, rfl⟩) ?_
      | refine Grows.of_bind ?_ fun _ => ?_
      | split
      | dsimp only)

theorem Grows_parse_call (h14 : P Expr) (h : Grows h14) (fuel : Nat) (pos : token_pos_t)
    (tok : TokenKind) (target : Expr) : Grows (parse_call h14 fuel pos tok target) := by
  have hloop := Grows_parse_call_loop h14 h fuel
  have ih : True := trivial
  have hsub : True := trivial
  unfold parse_call
  repeat (first
    | exact Grows.of_pure _
    | exact Grows.of_failure
    | assumption
    | exact Grows_matchtoken _
    | exact Grows_needtoken _
    | exact Grows_needsymbol
    | exact Grows_matchsymbol
    | exact Grows_lex
    | exact Grows_lextok
    | exact Grows_lexpush
    | exact Grows_lexpeek _
    | exact Grows_error _
    | exact Grows_current_pos
    | exact Grows_freading
    | exact Grows_get
    | exact Grows_lexclr _
    | exact Grows_nextop _
    | exact ih _
    | exact ih _ _
    | exact ih _ _ _
    | exact hloop _
    | exact hloop _ _
    | exact hloop _ _ _
    | exact hsub _
    | exact hsub _ _
    | exact hsub _ _ _
    | exact hsub _ _ _ _
    | refine Grows.of_SaveAndSet _ _ _ (fun _ _ => ⟨rfl, rfl⟩) ?_
    | refine Grows.of_bind ?_ fun _ => ?_
    | split
    | dsimp only)

theorem Grows_liftE_typename (E : Externals)
    (hE : ∀ o s, Extends s (E.parse_new_typename o s).2) (o : Option token_t) :
    Grows (liftE (E.parse_new_typename o)) := by
  intro s a s' h
  rw [liftE_run] at h
  simp only [Option.some.injEq] at h
  have := hE o s
  rw [h] at this
  exact this

theorem Grows_parse_view_as (E : Externals)
    (hE : ∀ o s, Extends s (E.parse_new_typename o s).2) (h14 : P Expr)
    (h : Grows h14) : Grows (parse_view_as E h14) := by
  have hloop : True := trivial
  have ih : True := trivial
  have hsub := Grows_liftE_typename E hE
  unfold parse_view_as
  repeat (first
    | exact Grows.of_pure _
    | exact Grows.of_failure
    | assumption
    | exact Grows_matchtoken _
    | exact Grows_needtoken _
    | exact Grows_needsymbol
    | exact Grows_matchsymbol
    | exact Grows_lex
    | exact Grows_lextok
    | exact Grows_lexpush
    | exact Grows_lexpeek _
    | exact Grows_error _
    | exact Grows_current_pos
    | exact Grows_freading
    | exact Grows_get
    | exact Grows_lexclr _
    | exact Grows_nextop _
    | exact ih _
    | exact ih _ _
    | exact ih _ _ _
    | exact hloop _
    | exact hloop _ _
    | exact hloop _ _ _
    | exact hsub _
    | exact hsub _ _
    | exact hsub _ _ _
    | exact hsub _ _ _ _
    | refine Grows.of_SaveAndSet _ _ _ (fun _ _ => ⟨rfl, rfl⟩) ?_
    | refine Grows.of_bind ?_ fun _ => ?_
    | split
    | dsimp only)

theorem Grows_parse_new_array_loop (h14 : P Expr) (h : Grows h14) :
    ∀ fuel x0, Grows (parse_new_array_loop h14 fuel x0) := by
  intro fuel
  induction fuel with
  | zero =>
    intro _
    exact Grows.of_failure
  | succ n ih =>
    intro _
    have hloop : True := trivial
    have hsub : True := trivial
    unfold parse_new_array_loop
    repeat (first
      | exact Grows.of_pure _
      | exact Grows.of_failure
      | assumption
      | exact Grows_matchtoken _
      | exact Grows_needtoken _
      | exact Grows_needsymbol
      | exact Grows_matchsymbol
      | exact Grows_lex
      | exact Grows_lextok
      | exact Grows_lexpush
      | exact Grows_lexpeek _
      | exact Grows_error _
      | exact Grows_current_pos
      | exact Grows_freading
      | exact Grows_get
      | exact Grows_lexclr _
      | exact Grows_nextop _
      | exact ih _
      | exact ih _ _
      | exact ih _ _ _
      | exact hloop _
      | exact hloop _ _
      | exact hloop _ _ _
      | exact hsub _
      | exact hsub _ _
      | exact hsub _ _ _
      | exact hsub _ _ _ _
      | refine Grows.of_SaveAndSet _ _ _ (fun _ _ => ⟨rfl, rfl⟩) ?_
      | refine Grows.of_bind ?_ fun _ => ?_
      | split
      | dsimp only)

theorem Grows_parse_new_array (h14 : P Expr) (h : Grows h14) (fuel : Nat) (pos : token_pos_t)
    (tag : Int) : Grows (parse_new_array h14 fuel pos tag) := by
  have hloop := Grows_parse_new_array_loop h14 h fuel
  have ih : True := trivial
  have hsub : True := trivial
  unfold parse_new_array
  repeat (first
    | exact Grows.of_pure _
    | exact Grows.of_failure
    | assumption
    | exact Grows_matchtoken _
    | exact Grows_needtoken _
    | exact Grows_needsymbol
    | exact Grows_matchsymbol
    | exact Grows_lex
    | exact Grows_lextok
    | exact Grows_lexpush
    | exact Grows_lexpeek _
    | exact Grows_error _
    | exact Grows_current_pos
    | exact Grows_freading
    | exact Grows_get
    | exact Grows_lexclr _
    | exact Grows_nextop _
    | exact ih _
    | exact ih _ _
    | exact ih _ _ _
    | exact hloop _
    | exact hloop _ _
    | exact hloop _ _ _
    | exact hsub _
    | exact hsub _ _
    | exact hsub _ _ _
    | exact hsub _ _ _ _
    | refine Grows.of_SaveAndSet _ _ _ (fun _ _ => ⟨rfl, rfl⟩) ?_
    | refine Grows.of_bind ?_ fun _ => ?_
    | split
    | dsimp only)

theorem Grows_primary_loop (h14 : P Expr) (h : Grows h14) :
    ∀ fuel x0, Grows (primary_loop h14 fuel x0) := by
  intro fuel
  induction fuel with
  | zero =>
    intro _
    exact Grows.of_failure
  | succ n ih =>
    intro _
    have hloop : True := trivial
    have hsub : True := trivial
    unfold primary_loop
    repeat (first
      | exact Grows.of_pure _
      | exact Grows.of_failure
      | assumption
      | exact Grows_matchtoken _
      | exact Grows_needtoken _
      | exact Grows_needsymbol
      | exact Grows_matchsymbol
      | exact Grows_lex
      | exact Grows_lextok
      | exact Grows_lexpush
      | exact Grows_lexpeek _
      | exact Grows_error _
      | exact Grows_current_pos
      | exact Grows_freading
      | exact Grows_get
      | exact Grows_lexclr _
      | exact Grows_nextop _
      | exact ih _
      | exact ih _ _
      | exact ih _ _ _
      | exact hloop _
      | exact hloop _ _
      | exact hloop _ _ _
      | exact hsub _
      | exact hsub _ _
      | exact hsub _ _ _
      | exact hsub _ _ _ _
      | refine Grows.of_SaveAndSet _ _ _ (fun _ _ => ⟨rfl, rfl⟩) ?_
      | refine Grows.of_bind ?_ fun _ => ?_
      | split
      | dsimp only)

theorem Grows_primary (h14 : P Expr) (h : Grows h14) (fuel : Nat) : Grows (primary h14 fuel) := by
  have hloop := Grows_primary_loop h14 h fuel
  have ih := Grows_constant h14 h
  have hsub : True := trivial
  unfold primary
  repeat (first
    | exact Grows.of_pure _
    | exact Grows.of_failure
    | assumption
    | exact Grows_matchtoken _
    | exact Grows_needtoken _
    | exact Grows_needsymbol
    | exact Grows_matchsymbol
    | exact Grows_lex
    | exact Grows_lextok
    | exact Grows_lexpush
    | exact Grows_lexpeek _
    | exact Grows_error _
    | exact Grows_current_pos
    | exact Grows_freading
    | exact Grows_get
    | exact Grows_lexclr _
    | exact Grows_nextop _
    | exact ih _
    | exact ih _ _
    | exact ih _ _ _
    | exact hloop _
    | exact hloop _ _
    | exact hloop _ _ _
    | exact hsub _
    | exact hsub _ _
    | exact hsub _ _ _
    | exact hsub _ _ _ _
    | refine Grows.of_SaveAndSet _ _ _ (fun _ _ => ⟨rfl, rfl⟩) ?_
    | refine Grows.of_bind ?_ fun _ => ?_
    | split
    | dsimp only)

theorem Grows_hier1_loop (h14 : P Expr) (h : Grows h14) :
    ∀ fuel x0, Grows (hier1_loop h14 fuel x0) := by
  intro fuel
  induction fuel with
  | zero =>
    intro _
    exact Grows.of_failure
  | succ n ih =>
    intro _
    have hloop : True := trivial
    have hsub : True := trivial
    have hsub := Grows_parse_call h14 h
    unfold hier1_loop
    repeat (first
      | exact Grows.of_pure _
      | exact Grows.of_failure
      | assumption
      | exact Grows_matchtoken _
      | exact Grows_needtoken _
      | exact Grows_needsymbol
      | exact Grows_matchsymbol
      | exact Grows_lex
      | exact Grows_lextok
      | exact Grows_lexpush
      | exact Grows_lexpeek _
      | exact Grows_error _
      | exact Grows_current_pos
      | exact Grows_freading
      | exact Grows_get
      | exact Grows_lexclr _
      | exact Grows_nextop _
      | exact ih _
      | exact ih _ _
      | exact ih _ _ _
      | exact hloop _
      | exact hloop _ _
      | exact hloop _ _ _
      | exact hsub _
      | exact hsub _ _
      | exact hsub _ _ _
      | exact hsub _ _ _ _
      | refine Grows.of_SaveAndSet _ _ _ (fun _ _ => ⟨rfl, rfl⟩) ?_
      | refine Grows.of_bind ?_ fun _ => ?_
      | split
      | dsimp only)

theorem Grows_hier1 (E : Externals)
    (hE : ∀ o s, Extends s (E.parse_new_typename o s).2) (h14 : P Expr)
    (h : Grows h14) (fuel : Nat) : Grows (hier1 E h14 fuel) := by
  have hloop := Grows_hier1_loop h14 h fuel
  have ih := Grows_primary h14 h
  have hsub : True := trivial
  have hva := Grows_parse_view_as E hE h14 h
  unfold hier1
  repeat (first
    | exact Grows.of_pure _
    | exact Grows.of_failure
    | assumption
    | exact Grows_matchtoken _
    | exact Grows_needtoken _
    | exact Grows_needsymbol
    | exact Grows_matchsymbol
    | exact Grows_lex
    | exact Grows_lextok
    | exact Grows_lexpush
    | exact Grows_lexpeek _
    | exact Grows_error _
    | exact Grows_current_pos
    | exact Grows_freading
    | exact Grows_get
    | exact Grows_lexclr _
    | exact Grows_nextop _
    | exact ih _
    | exact ih _ _
    | exact ih _ _ _
    | exact hloop _
    | exact hloop _ _
    | exact hloop _ _ _
    | exact hsub _
    | exact hsub _ _
    | exact hsub _ _ _
    | exact hsub _ _ _ _
    | refine Grows.of_SaveAndSet _ _ _ (fun _ _ => ⟨rfl, rfl⟩) ?_
    | refine Grows.of_bind ?_ fun _ => ?_
    | split
    | dsimp only)

set_option maxHeartbeats 4000000 in
theorem Grows_hier2 (E : Externals)
    (hE : ∀ o s, Extends s (E.parse_new_typename o s).2) (h14 : P Expr)
    (h : Grows h14) : ∀ fuel, Grows (hier2 E h14 fuel) := by
  intro fuel
  induction fuel with
  | zero => exact Grows.of_failure
  | succ n ih =>
    have h1 := Grows_hier1 E hE h14 h n
    have hloop := Grows_parse_new_array h14 h n
    have hsub := Grows_parse_call h14 h n
    have hcm := Grows_count_matches TokenKind.ch_lparen n 0
    have hsl := Grows_sizeof_levels n 0
    have hty := Grows_liftE_typename E hE
    unfold hier2
    repeat (first
      | exact Grows.of_pure _
      | assumption
      | exact Grows_matchtoken _
      | exact Grows_needtoken _
      | exact Grows_needsymbol
      | exact Grows_matchsymbol
      | exact Grows_lex
      | exact Grows_lexpush
      | exact Grows_error _
      | exact Grows_current_pos
      | exact Grows_get
      | exact Grows_close_parens _
      | exact hty _
      | exact hloop _ _
      | exact hsub _ _ _
      | refine Grows.of_bind ?_ fun _ => ?_
      | split
      | dsimp only)

theorem Grows_plnge_loop (opstr : List TokenKind) (hier : P Expr) (h : Grows hier) :
    ∀ fuel node opidx, Grows (plnge_loop opstr hier fuel node opidx) := by
  intro fuel
  induction fuel with
  | zero =>
    intro _ _
    exact Grows.of_failure
  | succ n ih =>
    intro _ _
    unfold plnge_loop
    repeat (first
      | exact Grows.of_pure _
      | assumption
      | exact Grows_current_pos
      | exact Grows_nextop _
      | exact ih _ _
      | refine Grows.of_bind ?_ fun _ => ?_
      | split
      | dsimp only)

theorem Grows_plnge (opstr : List TokenKind) (hier : P Expr) (h : Grows hier) (fuel : Nat) :
    Grows (plnge opstr hier fuel) := by
  have hloop := Grows_plnge_loop opstr hier h fuel
  unfold plnge
  repeat (first
    | exact Grows.of_pure _
    | assumption
    | exact Grows_nextop _
    | exact hloop _ _
    | refine Grows.of_bind ?_ fun _ => ?_
    | split
    | dsimp only)

theorem Grows_plnge_rel_loop (opstr : List TokenKind) (hier : P Expr) (h : Grows hier) :
    ∀ fuel ops opidx, Grows (plnge_rel_loop opstr hier fuel ops opidx) := by
  intro fuel
  induction fuel with
  | zero =>
    intro _ _
    exact Grows.of_failure
  | succ n ih =>
    intro _ _
    unfold plnge_rel_loop
    repeat (first
      | exact Grows.of_pure _
      | assumption
      | exact Grows_current_pos
      | exact Grows_nextop _
      | exact ih _ _
      | refine Grows.of_bind ?_ fun _ => ?_
      | split
      | dsimp only)

theorem Grows_plnge_rel (opstr : List TokenKind) (hier : P Expr) (h : Grows hier)
    (fuel : Nat) : Grows (plnge_rel opstr hier fuel) := by
  have hloop := Grows_plnge_rel_loop opstr hier h fuel
  unfold plnge_rel
  repeat (first
    | exact Grows.of_pure _
    | assumption
    | exact Grows_current_pos
    | exact Grows_nextop _
    | exact hloop _ _
    | refine Grows.of_bind ?_ fun _ => ?_
    | split
    | dsimp only)

theorem Grows_hier12 (L : OpLists) (E : Externals)
    (hE : ∀ o s, Extends s (E.parse_new_typename o s).2) (h14 : P Expr)
    (h : Grows h14) (fuel : Nat) : Grows (hier12 L E h14 fuel) :=
  Grows_plnge _ _ (Grows_plnge _ _ (Grows_plnge _ _ (Grows_plnge_rel _ _ (Grows_plnge _ _
    (Grows_plnge _ _ (Grows_plnge _ _ (Grows_plnge _ _ (Grows_plnge _ _ (Grows_plnge _ _
      (Grows_hier2 E hE h14 h fuel) fuel) fuel) fuel) fuel) fuel) fuel) fuel) fuel) fuel) fuel

theorem Grows_hier13 (L : OpLists) (E : Externals)
    (hE : ∀ o s, Extends s (E.parse_new_typename o s).2) (h14 : P Expr)
    (h : Grows h14) : ∀ fuel, Grows (hier13 L E h14 fuel) := by
  intro fuel
  induction fuel with
  | zero => exact Grows.of_failure
  | succ n ih =>
    have h12 := Grows_hier12 L E hE h14 h n
    unfold hier13
    repeat (first
      | exact Grows.of_pure _
      | assumption
      | exact Grows_matchtoken _
      | exact Grows_needtoken _
      | exact Grows_current_pos
      | refine Grows.of_SaveAndSet _ _ _ (fun _ _ => ⟨rfl, rfl⟩) ?_
      | refine Grows.of_bind ?_ fun _ => ?_
      | split
      | dsimp only)

theorem Grows_hier14 (L : OpLists) (E : Externals)
    (hE : ∀ o s, Extends s (E.parse_new_typename o s).2) :
    ∀ fuel, Grows (hier14 L E fuel) := by
  intro fuel
  induction fuel with
  | zero => exact Grows.of_failure
  | succ n ih =>
    have h13 := Grows_hier13 L E hE _ ih n
    unfold hier14
    repeat (first
      | exact Grows.of_pure _
      | assumption
      | exact Grows_lex
      | exact Grows_lexpush
      | exact Grows_error _
      | exact Grows_current_pos
      | exact Grows_get
      | refine Grows.of_bind ?_ fun _ => ?_
      | split
      | dsimp only)

theorem parse_call_loop_grows (h14 : P Expr) (hh : Grows h14) :
    ∀ (fuel : Nat) (named : Bool) (acc : List (Option String × Option Expr))
      (s : ParserState),
      Tr (parse_call_loop h14 fuel named acc) s fun args s' =>
        ∃ new, args = acc ++ new ∧ LateRel (late_positional named new) s s' := by
  have key := parse_call_loop_rel LateRel ?_ ?_ ?_ ?_ h14 (fun _ => 0) ?_
  · intro fuel named acc s args s' h
    obtain ⟨new, h1, h2⟩ := key fuel named acc s args s' h
    rw [arg_sum_zero, Nat.add_zero] at h2
    exact ⟨new, h1, h2⟩
  · intro s s1 h1 h2
    exact ⟨[], by simp [h1], fun h => Or.inl (by rw [← h2]; exact h), fun h => absurd h (by decide)⟩
  · intro j k s s1 s2 ⟨w1, e1, f1, g1⟩ ⟨w2, e2, f2, g2⟩
    have latch : s1.errflag = true ∨ w2 ≠ [] → s.errflag = true ∨ w1 ++ w2 ≠ [] := by
      intro h
      rcases h with h3 | h3
      · rcases f1 h3 with h4 | h4
        · exact Or.inl h4
        · exact Or.inr (by simp [h4])
      · exact Or.inr (by simp [h3])
    refine ⟨w1 ++ w2, by rw [e2, e1, List.append_assoc], fun h => latch (f2 h), fun h => ?_⟩
    by_cases hj : 0 < j
    · rcases g1 hj with h4 | h4
      · exact Or.inl h4
      · exact Or.inr (by simp [h4])
    · exact latch (g2 (by omega))
  · intro s
    obtain ⟨w, h1, h2⟩ := Extends.x_report s 1
    exact ⟨w, h1, h2, fun h => absurd h (by decide)⟩
  · intro s
    by_cases hf : s.errflag = true
    · obtain ⟨w, h1, h2⟩ := Extends.x_report s 44
      exact ⟨w, h1, h2, fun _ => Or.inl hf⟩
    · refine ⟨[44], ?_, fun _ => Or.inr (by simp), fun _ => Or.inr (by simp)⟩
      exact report_errors_clear 44 (by simpa using hf)
  · intro s e s' h
    obtain ⟨w, h1, h2⟩ := hh s e s' h
    exact ⟨w, h1, h2, fun h => absurd h (Nat.lt_irrefl 0)⟩

theorem parse_call_grows (L : OpLists) (E : Externals)
    (hE : ∀ o s, Extends s (E.parse_new_typename o s).2) (n fuel : Nat)
    (pos : token_pos_t) (tok : TokenKind) (target : Expr) :
    ∀ s, Tr (parse_call (hier14 L E n) fuel pos tok target) s fun e s' =>
      ∃ args, e = Expr.CallExpr pos tok target args ∧
        LateRel (late_positional false args) s s' := by
  intro s
  unfold parse_call
  refine Tr.tr_bind (Tr_matchtoken _ s) fun b s1 h1 => ?_
  have c1 : LateRel 0 s s1 :=
    ⟨[], by simp [h1.1], fun h => Or.inl (by rw [← h1.2]; exact h), fun h => absurd h (by decide)⟩
  split
  · exact Tr.tr_pure ⟨[], rfl, c1⟩
  · refine Tr.tr_bind
      (parse_call_loop_grows _ (Grows_hier14 L E hE n) fuel false [] s1) fun args s2 h2 => ?_
    obtain ⟨new, hnew, w, e2, f2, g2⟩ := h2
    refine Tr.tr_pure ⟨new, by rw [hnew]; rfl, w, by rw [e2, h1.1], ?_, ?_⟩
    · intro h
      simpa [h1.2] using f2 h
    · intro h
      simpa [h1.2] using g2 h

theorem late_positional_zero (args pre post : List (Option String × Option Expr))
    (a : Option String × Option Expr) (h0 : late_positional false args = 0)
    (hargs : args = pre ++ a :: post) (ha : arg_named a = false) :
    ∀ b ∈ pre, arg_named b = false := by
  rw [hargs, late_positional_append] at h0
  simp only [late_positional, Bool.false_or, ha, Bool.not_false, Bool.and_true] at h0
  intro b hb
  by_contra hn
  have hany : pre.any arg_named = true := List.any_eq_true.2 ⟨b, hb, by simpa using hn⟩
  rw [hany] at h0
  simp at h0

/-- C8, as the code has it: error 44 of `parse_call`. For a well-formed argument list (the course of
`ArgRun`, in which `error(44)` is called for an argument exactly when it is
positional and an earlier argument of the call was named) `parse_call` returns
the `CallExpr` whose `args` are all the arguments in source order, positional ones
with no name, in the state the course ends in; an empty list gives no entries.
The call of `error(44)` adds a report exactly when no error is pending. For every
result of `parse_call`, when `v` bounds the reports of error 44 by the operand
parser, the reports during the call are at most those of the operands plus one
for each positional entry after a named one. When that number is zero, every
entry before a positional entry is positional. For the parser itself, with
`hier14` for the operands and a type-name parser that only adds reports: a call
with a positional entry after a named one was entered with an error pending or
has added a report, so in a call entered with no error pending and parsed
without a report all positional entries come before the first named one. -/
theorem parse_call_error44 :
    (∀ (h14 : P Expr) (fuel : Nat) (pos : token_pos_t) (tok : TokenKind) (target : Expr)
      (s : ParserState), s.peekTok.id = ch_rparen →
      parse_call h14 fuel pos tok target s = some (Expr.CallExpr pos tok target [], s.adv)) ∧
    (∀ (h14 : P Expr) (fuel : Nat) (pos : token_pos_t) (tok : TokenKind) (target : Expr)
      (s s' : ParserState) (args : List (Option String × Option Expr)),
      s.peekTok.id ≠ ch_rparen → ArgRun h14 [] s.peeked args s' → args.length ≤ fuel →
      parse_call h14 fuel pos tok target s = some (Expr.CallExpr pos tok target args, s')) ∧
    (∀ s : ParserState,
      (s.report 44).errors = if s.errflag = true then s.errors else s.errors ++ [44]) ∧
    (∀ (h14 : P Expr) (v : Expr → Nat),
      (∀ s e s', h14 s = some (e, s') → count44 s' ≤ count44 s + v e) →
      ∀ (fuel : Nat) (pos : token_pos_t) (tok : TokenKind) (target : Expr)
        (s s' : ParserState) (e : Expr),
        parse_call h14 fuel pos tok target s = some (e, s') →
        ∃ args, e = Expr.CallExpr pos tok target args ∧
          count44 s' ≤ count44 s + (late_positional false args + arg_sum v args)) ∧
    (∀ (args pre post : List (Option String × Option Expr)) (a : Option String × Option Expr),
      late_positional false args = 0 → args = pre ++ a :: post → arg_named a = false →
      ∀ b ∈ pre, arg_named b = false) ∧
    (∀ (L : OpLists) (E : Externals),
      (∀ o s, Extends s (E.parse_new_typename o s).2) →
      ∀ (n fuel : Nat) (pos : token_pos_t) (tok : TokenKind) (target : Expr)
        (s s' : ParserState) (e : Expr),
        parse_call (hier14 L E n) fuel pos tok target s = some (e, s') →
        ∃ args, e = Expr.CallExpr pos tok target args ∧
          (∃ w, s'.errors = s.errors ++ w ∧
            (0 < late_positional false args → s.errflag = true ∨ w ≠ [])) ∧
          (s.errflag = false → s'.errors = s.errors →
            ∀ (pre post : List (Option String × Option Expr))
              (a : Option String × Option Expr),
              args = pre ++ a :: post → arg_named a = false →
              ∀ b ∈ pre, arg_named b = false)) := by
  refine ⟨?_, ?_, ?_, ?_, late_positional_zero, ?_⟩
  · intro h14 fuel pos tok target s hs
    unfold parse_call
    refine run_bind (matchtoken_hit _ _ hs) ?_
    rfl
  · intro h14 fuel pos tok target s s' args hs hrun hf
    unfold parse_call
    refine run_bind (matchtoken_miss _ _ hs (by decide)) ?_
    refine run_ite_neg (by decide) ?_
    refine run_bind (ArgRun.arg_loop h14 [] s.peeked args s' hrun fuel hf) ?_
    rfl
  · intro s
    rw [report_errors]
    cases s.errflag <;> simp
  · intro h14 v hh fuel pos tok target s s' e h
    have key : Tr (parse_call h14 fuel pos tok target) s fun e s' =>
        ∃ args, e = Expr.CallExpr pos tok target args ∧
          count44 s' ≤ count44 s + (late_positional false args + arg_sum v args) := by
      unfold parse_call
      refine Tr.tr_bind (Tr_matchtoken _ s) fun b s1 h1 => ?_
      have c1 : count44 s1 = count44 s := by unfold count44; rw [h1.1]
      split
      · exact Tr.tr_pure ⟨[], rfl, by rw [c1]; simp [late_positional, arg_sum]⟩
      · refine Tr.tr_bind (parse_call_loop_count h14 v hh fuel false [] s1) fun args s2 h2 => ?_
        obtain ⟨new, hnew, hc⟩ := h2
        refine Tr.tr_pure ⟨new, by rw [hnew]; rfl, ?_⟩
        rw [← c1]
        exact hc
    exact key e s' h
  · intro L E hE n fuel pos tok target s s' e h
    obtain ⟨args, he, w, e1, _, g1⟩ := parse_call_grows L E hE n fuel pos tok target s e s' h
    refine ⟨args, he, ⟨w, e1, g1⟩, ?_⟩
    intro hflag heq pre post a hargs ha
    refine late_positional_zero args pre post a ?_ hargs ha
    by_contra hne
    rcases g1 (by omega) with h4 | h4
    · rw [hflag] at h4
      exact absurd h4 (by decide)
    · rw [e1] at heq
      exact h4 (by simpa using heq)

theorem c8_h14_count (s : ParserState) (e : Expr) (s' : ParserState)
    (h : c8_h14 s = some (e, s')) : count44 s' ≤ count44 s + (fun _ => 0) e := by
  unfold c8_h14 at h
  rw [run_bind (lex_run s) rfl] at h
  simp only [pure_run, Option.some.injEq, Prod.mk.injEq] at h
  rw [← h.2]
  unfold count44
  simp

/-- Witness of C8 as the code has it: the argument list `1, .k = 2, 3)` gives three entries and,
with no error pending, one report of error 44, for the positional `3` after
the named `k`. -/
theorem parse_call_error44_witness :
    parse_call (hier14 sample_lists sample_externals 20) 20 ⟨1, 0⟩ ch_lparen
        (Expr.SymbolExpr ⟨1, 0⟩ "f") (init_state c8_tokens) =
      some (Expr.CallExpr ⟨1, 0⟩ ch_lparen (Expr.SymbolExpr ⟨1, 0⟩ "f") c8_args,
        (c8_state 8).adv) ∧
    (∃ args, Expr.CallExpr ⟨1, 0⟩ ch_lparen (Expr.SymbolExpr ⟨1, 0⟩ "f") c8_args =
        Expr.CallExpr ⟨1, 0⟩ ch_lparen (Expr.SymbolExpr ⟨1, 0⟩ "f") args ∧
      count44 (c8_state 9) ≤ count44 (init_state c8_tokens) + (late_positional false args +
        arg_sum (fun _ => 0) args)) ∧
    (∃ args, Expr.CallExpr ⟨1, 0⟩ ch_lparen (Expr.SymbolExpr ⟨1, 0⟩ "f") c8_args =
        Expr.CallExpr ⟨1, 0⟩ ch_lparen (Expr.SymbolExpr ⟨1, 0⟩ "f") args ∧
      (∃ w, (c8_state 9).errors = (init_state c8_tokens).errors ++ w ∧
        (0 < late_positional false args → (init_state c8_tokens).errflag = true ∨ w ≠ [])) ∧
      ((init_state c8_tokens).errflag = false →
        (c8_state 9).errors = (init_state c8_tokens).errors →
        ∀ (pre post : List (Option String × Option Expr)) (a : Option String × Option Expr),
          args = pre ++ a :: post → arg_named a = false → ∀ b ∈ pre, arg_named b = false)) :=
  ⟨parse_call_error44.2.1 (hier14 sample_lists sample_externals 20) 20 ⟨1, 0⟩ ch_lparen
      (Expr.SymbolExpr ⟨1, 0⟩ "f") (init_state c8_tokens) (c8_state 8).adv c8_args
      (by decide)
      (ArgRun.more _ _ _ _ (consumed_state c8_tokens 1) _ _ _
        (ArgHead.positional _ _ (by decide!))
        (ArgValue.expr _ _ (Expr.NumberExpr ⟨1, 0⟩ 1) (by decide!) (by decide!))
        (by decide!) (by decide!) (by decide!)
        (ArgRun.more _ _ _ _ (consumed_state c8_tokens 6) _ _ _
          (ArgHead.named _ _ (by decide!) (by decide!) (by decide!))
          (ArgValue.expr _ _ (Expr.NumberExpr ⟨1, 5⟩ 2) (by decide!) (by decide!))
          (by decide!) (by decide!) (by decide!)
          (ArgRun.last _ _ _ (c8_state 8) _ _
            (ArgHead.positional _ _ (by decide!))
            (ArgValue.expr _ _ (Expr.NumberExpr ⟨1, 7⟩ 3) (by decide!) (by decide!))
            (by decide!))))
      (by decide),
    parse_call_error44.2.2.2.1 c8_h14 (fun _ => 0) c8_h14_count 20 ⟨1, 0⟩ ch_lparen
      (Expr.SymbolExpr ⟨1, 0⟩ "f") (init_state c8_tokens) (c8_state 9) _ (by decide!),
    parse_call_error44.2.2.2.2.2 sample_lists sample_externals (fun _ s => Extends.x_refl s) 20 20
      ⟨1, 0⟩ ch_lparen (Expr.SymbolExpr ⟨1, 0⟩ "f") (init_state c8_tokens) (c8_state 9) _
      (by decide!)⟩

/-- C8 fails for the code: in the statement `f(.k = 1, 2, 3);` both `2` and `3`
are positional after the named `k`, and one error 44 is reported, the second
being dropped as the error of the statement is pending; and in `f(.k = ], 2);`
the positional `2` comes after the named `k` and the call is parsed without a
report of error 44, error 29 of the operand pending. -/
theorem parse_call_second_44_dropped :
    (parse_stmt sample_lists sample_externals 20 none true (init_state c8_pending_tokens)).map
        (fun r => (r.1.1, r.2.errors)) =
      some (some (Stmt.ExprStmt ⟨1, 1⟩ (Expr.CallExpr ⟨1, 1⟩ ch_lparen
        (Expr.SymbolExpr ⟨1, 0⟩ "f") c8_pending_args)), [44]) ∧
    late_positional false c8_pending_args = 2 ∧
    (parse_stmt sample_lists sample_externals 20 none true (init_state c8_bracket_tokens)).map
        (fun r => (r.1.1, r.2.errors)) =
      some (some (Stmt.ExprStmt ⟨1, 1⟩ (Expr.CallExpr ⟨1, 1⟩ ch_lparen
        (Expr.SymbolExpr ⟨1, 0⟩ "f") c8_bracket_args)), [29]) ∧
    late_positional false c8_bracket_args = 1 :=
  ⟨by decide!, by decide, by decide!, by decide⟩

theorem matchtoken_term_semicolon (s : ParserState) (h : s.peekTok.id = ch_semicolon) :
    matchtoken tTERM s = some (true, s.adv) := by
  unfold matchtoken
  simp only [bind_run, get_run, Option.bind, lextok_run, ite_run, pure_run, lexpush_run]
  simp [h]

theorem needtoken_term_semicolon (s : ParserState) (h : s.peekTok.id = ch_semicolon) :
    needtoken tTERM s = some (true, s.adv) := by
  unfold needtoken
  refine run_bind (matchtoken_term_semicolon s h) ?_
  rfl

theorem adv_in_loop (s : ParserState) : s.adv.in_loop_ = s.in_loop_ := by
  have := adv_flags s
  simp only [ParserState.flags, Prod.mk.injEq] at this
  exact this.2.2.2.2.2.1

theorem current_token_cons {s : ParserState} {t : token_t} {c : List (Option token_t)}
    (h : s.consumed = some t :: c) : current_token s = t := by
  unfold current_token; rw [h]

/-- The indentation check of `parse_stmt` leaves `in_loop_` and the pending
error alone. -/
theorem lastindent_run_loop (lastindent : Option Int) (tok : token_t) (s : ParserState) :
    ∃ li' s2, (do
          match lastindent with
          | some li =>
            if tok.id ≠ TokenKind.tLABEL then
              let s ← get
              if li ≥ 0 ∧ li ≠ s.stmtindent ∧ s.indent_nowarn = false ∧ s.sc_tabsize > 0 then
                error 217
              modify fun s => { s with indent_nowarn := false }
              return some s.stmtindent
            else
              return some li
          | none => return none : P (Option Int)) s = some (li', s2) ∧
      s2.rest = s.rest ∧ s2.consumed = s.consumed ∧ s2.in_loop_ = s.in_loop_ ∧
      s2.errflag = s.errflag ∧
      (s2.errors = s.errors ∨ s2.errors = s.errors ++ [217]) := by
  cases lastindent with
  | none => exact ⟨none, s, rfl, rfl, rfl, rfl, rfl, Or.inl rfl⟩
  | some li =>
    by_cases ht : tok.id ≠ TokenKind.tLABEL
    · by_cases hw : li ≥ 0 ∧ li ≠ s.stmtindent ∧ s.indent_nowarn = false ∧ s.sc_tabsize > 0
      · refine ⟨some s.stmtindent, { s.report 217 with indent_nowarn := false }, ?_, rfl, rfl,
          rfl, rfl, Or.inr rfl⟩
        dsimp only
        refine run_ite_pos ht ?_
        refine run_bind (get_run _) ?_
        simp only [bind_run, ite_run, if_pos hw, error_run, Option.bind, pure_run, modify_run]
      · refine ⟨some s.stmtindent, { s with indent_nowarn := false }, ?_, rfl, rfl, rfl, rfl,
          Or.inl rfl⟩
        dsimp only
        refine run_ite_pos ht ?_
        refine run_bind (get_run _) ?_
        simp only [bind_run, ite_run, if_neg hw, error_run, Option.bind, pure_run, modify_run]
    · refine ⟨some li, s, ?_, rfl, rfl, rfl, rfl, Or.inl rfl⟩
      dsimp only
      refine run_ite_neg ht ?_
      rfl

/-- C9: `break` and `continue`. For a statement made of the token `break` or
`continue` and the terminator `;`, `parse_stmt` returns, for every `lastindent`
and `allow_decl`: no node, with error 24 reported last, when `in_loop_` is
false; the `LoopControlStmt` at the position of the token and carrying it, with
no error 24 reported, when `in_loop_` is true. Before that only the indentation
warning 217 may be reported; both tokens are consumed. -/
theorem break_continue_in_loop (L : OpLists) (E : Externals) (fuel : Nat) (li : Option Int)
    (allow_decl : Bool) (s : ParserState) (b semi : token_t) (r : List token_t)
    (hs : s.rest = b :: semi :: r) (hb : b.id = tBREAK ∨ b.id = tCONTINUE)
    (hsemi : semi.id = ch_semicolon) :
    ∃ li' w s', (w = [] ∨ w = [217]) ∧ s'.rest = r ∧
      parse_stmt L E (fuel + 1) li allow_decl s =
        some ((if s.in_loop_ then some (Stmt.LoopControlStmt b.start b.id) else none, li'), s') ∧
      s'.errors = s.errors ++ w ++ (if s.in_loop_ then [] else [24]) := by
  have hs1 : (set_one_error true s).reset.rest = b :: semi :: r := hs
  have hp : (set_one_error true s).reset.peekTok = b := peekTok_cons hs1
  obtain ⟨li', s2, hli, hr2, hc2, hl2, hf2, he2⟩ :=
    lastindent_run_loop li b (set_one_error true s).reset.adv
  rw [adv_rest_cons hs1] at hr2
  rw [adv_consumed_cons hs1] at hc2
  rw [adv_errors] at he2
  rw [adv_in_loop] at hl2
  rw [adv_errflag] at hf2
  have hl2' : s2.in_loop_ = s.in_loop_ := hl2
  have hf2' : s2.adv.errflag = false := by rw [adv_errflag, hf2]; rfl
  have hp2 : s2.peekTok = semi := peekTok_cons hr2
  have hcur : current_token s2 = b := current_token_cons hc2
  have hw : ∃ w, (w = [] ∨ w = [217]) ∧ s2.errors = s.errors ++ w := by
    rcases he2 with he | he
    · exact ⟨[], Or.inl rfl, by rw [he]; simp; rfl⟩
    · exact ⟨[217], Or.inr rfl, by rw [he]; rfl⟩
  obtain ⟨w, hw1, hw2⟩ := hw
  have hbs : b.id ≠ tSYMBOL := by rcases hb with hb | hb <;> rw [hb] <;> decide
  have hbody : ∀ st, st = (if s.in_loop_ then s2.adv else s2.adv.report 24) →
      parse_stmt L E (fuel + 1) li allow_decl s =
        some ((if s.in_loop_ then some (Stmt.LoopControlStmt b.start b.id) else none, li'),
          set_one_error s.sc_one_error_per_statement st) := by
    intro st hst
    unfold parse_stmt
    rw [SaveAndSet_map]
    have key : ∀ (m : Option (StmtResult × ParserState)) (x : StmtResult), m = some (x, st) →
        m.map (fun x => (x.1, set_one_error s.sc_one_error_per_statement x.2)) =
          some (x, set_one_error s.sc_one_error_per_statement st) := by
      intro m x h
      subst h
      rfl
    refine key _ _ ?_
    refine run_bind (freading_run _) ?_
    refine run_ite_neg (by rw [show (set_one_error true s).rest = b :: semi :: r from hs]; simp) ?_
    refine run_bind (errorset_run _) ?_
    refine run_bind (lex_run _) ?_
    rw [hp]
    refine run_bind hli ?_
    refine run_bind (run_ite_neg hbs (run_pure rfl rfl)) ?_
    refine run_ite_neg (by decide) ?_
    have hstmt : ∀ (m : P (Option Stmt)) (x : Option Stmt), m s2 = some (x, st) →
        (m >>= fun stmt => (pure (stmt, li') : P StmtResult)) s2 = some ((x, li'), st) := by
      intro m x h
      rw [bind_run, h]
      rfl
    refine hstmt _ _ ?_
    rcases hb with hb | hb
    all_goals
      iterate 8 refine run_ite_neg (by rw [hb]; decide) ?_
      refine run_ite_pos (by rw [hb]; decide) ?_
      refine run_bind (current_pos_run _) ?_
      refine run_bind (needtoken_term_semicolon _ (by rw [hp2]; exact hsemi)) ?_
      refine run_bind (get_run _) ?_
      rw [adv_in_loop, hl2', hcur]
      cases hloop : s.in_loop_
      · rw [hloop] at hst
        refine run_ite_pos rfl ?_
        refine run_bind (error_run _ _) ?_
        subst hst
        rfl
      · rw [hloop] at hst
        refine run_ite_neg (by decide) ?_
        subst hst
        rfl
  refine ⟨li', w, _, hw1, ?_, hbody _ rfl, ?_⟩
  · show (if s.in_loop_ then s2.adv else s2.adv.report 24).rest = r
    split
    · rw [adv_rest_cons hr2]
    · rw [report_rest, adv_rest_cons hr2]
  · show (if s.in_loop_ then s2.adv else s2.adv.report 24).errors = _
    split
    · rw [adv_errors, hw2]; simp
    · rw [report_errors_clear 24 hf2', adv_errors, hw2]

/-- Witness of C9: `for (int i = 0; i < n; i++) break;` has the body
`LoopControlStmt(break)`, parsed with `in_loop_` set. -/
theorem break_continue_in_loop_witness :
    parse_stmt sample_lists decl_externals 20 none true (init_state c9_tokens) =
      some ((some c9_tree, none), consumed_state c9_tokens 16) ∧
    c9_body_state.rest = [tk tBREAK 14, tk ch_semicolon 15] ∧
    ∃ li' w s', (w = [] ∨ w = [217]) ∧ s'.rest = [] ∧
      parse_stmt sample_lists decl_externals (18 + 1) none false c9_body_state =
        some ((if c9_body_state.in_loop_ then
          some (Stmt.LoopControlStmt (tk tBREAK 14).start (tk tBREAK 14).id) else none, li'),
          s') ∧
      s'.errors = c9_body_state.errors ++ w ++ (if c9_body_state.in_loop_ then [] else [24]) :=
  ⟨by decide!, rfl,
    break_continue_in_loop sample_lists decl_externals 18 none false c9_body_state
      (tk tBREAK 14) (tk ch_semicolon 15) [] rfl (Or.inl rfl) rfl⟩

theorem Tr_error (code : Nat) (s : ParserState) :
    Tr (error code) s (fun _ s1 => s1 = s.report code) := by
  intro u s1 h
  rw [error_run] at h
  simp only [Option.some.injEq, Prod.mk.injEq] at h
  exact h.2.symm

section tr

variable {α : Type}

theorem Tr.tr_any (m : P α) (s : ParserState) : Tr m s (fun _ _ => True) := fun _ _ _ => trivial

end tr

/-- The cases handed to the loop of `parse_switch` stay at the front of the
cases it returns. -/
theorem parse_switch_loop_keeps (h14 : P Expr) (pstmt : Option Int → Bool → P StmtResult) :
    ∀ (fuel : Nat) (cases : List (List Expr × Stmt)) (dc : Option Stmt) (s : ParserState),
      Tr (parse_switch_loop h14 pstmt fuel cases dc) s fun r _ => ∃ more, r.1 = cases ++ more := by
  intro fuel
  induction fuel with
  | zero =>
    intro cases dc s a s' h
    simp [parse_switch_loop] at h
  | succ n ih =>
    intro cases dc s
    unfold parse_switch_loop
    refine Tr.tr_bind (Tr.tr_any _ _) fun tok s1 _ => ?_
    split
    · have hcont : ∀ st, Tr (do
            let cases :=
              match (← parse_case h14 pstmt n) with
              | some c => cases ++ [c]
              | none => cases
            parse_switch_loop h14 pstmt n cases dc) st fun r _ => ∃ more, r.1 = cases ++ more := by
        intro st
        refine Tr.tr_bind (Tr.tr_any _ _) fun c s2 _ => ?_
        cases c with
        | none => exact ih cases dc s2
        | some c =>
          refine Tr.tr_mono (ih (cases ++ [c]) dc s2) ?_
          intro r _ ⟨more, hr⟩
          exact ⟨c :: more, by rw [hr, List.append_assoc, List.singleton_append]⟩
      cases dc with
      | none => exact Tr.tr_bind (Tr.tr_any _ _) fun _ s2 _ => hcont s2
      | some d => exact Tr.tr_bind (Tr.tr_any _ _) fun _ s2 _ => hcont s2
    · split
      · refine Tr.tr_bind (Tr.tr_any _ _) fun _ s2 _ => ?_
        refine Tr.tr_bind (Tr.tr_any _ _) fun r s3 _ => ?_
        obtain ⟨stmt, li⟩ := r
        cases stmt with
        | none => exact ih cases dc s3
        | some st =>
          dsimp only
          split
          · exact Tr.tr_bind (Tr.tr_any _ _) fun _ s4 _ => ih cases dc s4
          · exact ih cases (some st) s3
      · dsimp only
        split
        · refine Tr.tr_bind (Tr.tr_any _ _) fun _ s2 _ => ?_
          refine Tr.tr_bind (Tr.tr_any _ _) fun _ s3 _ => ?_
          exact Tr.tr_pure ⟨[], by simp⟩
        · refine Tr.tr_bind (Tr.tr_any _ _) fun _ s2 _ => ?_
          exact Tr.tr_pure ⟨[], by simp⟩

theorem parse_case_some (h14 : P Expr) (pstmt : Option Int → Bool → P StmtResult) (fuel : Nat)
    (s0 s1 s2 s3 : ParserState) (exprs : List Expr) (st : Stmt) (b : Bool) (li : Option Int)
    (hloop : parse_case_loop h14 fuel [] s0 = some (exprs, s1)) (hne : exprs ≠ [])
    (hcolon : needtoken ch_colon s1 = some (b, s2))
    (hstmt : pstmt none false s2 = some ((some st, li), s3)) :
    parse_case h14 pstmt fuel s0 = some (some (exprs, st), s3) := by
  unfold parse_case
  refine run_bind hloop ?_
  refine run_bind hcolon ?_
  refine run_bind hstmt ?_
  dsimp only
  cases exprs with
  | nil => exact absurd rfl hne
  | cons e es => rfl

/-- C10, as the code has it: a `case` after `default`. In the body of a switch with the token `case`
next, `parse_switch` calls `error(15)` exactly when a default case has been
stored, which adds the report unless an error is pending at the `case`; the
clause is then parsed from the state after that, and when it has at
least one label expression and a statement it is appended to the cases, the loop
going on with the same default case, just as for a `case` before `default`; the
clause is among the cases the loop returns. -/
theorem case_after_default (h14 : P Expr) (pstmt : Option Int → Bool → P StmtResult)
    (fuel : Nat) (cases : List (List Expr × Stmt)) (dc : Option Stmt)
    (s s1 s2 s3 : ParserState) (exprs : List Expr) (st : Stmt) (b : Bool) (li : Option Int)
    (hcase : s.peekTok.id = tCASE)
    (hloop : parse_case_loop h14 fuel [] (if dc.isSome then s.adv.report 15 else s.adv) =
      some (exprs, s1))
    (hne : exprs ≠ []) (hcolon : needtoken ch_colon s1 = some (b, s2))
    (hstmt : pstmt none false s2 = some ((some st, li), s3)) :
    (if dc.isSome then s.adv.report 15 else s.adv).errors =
        s.errors ++ (if dc.isSome ∧ s.errflag = false then [15] else []) ∧
      parse_switch_loop h14 pstmt (fuel + 1) cases dc s =
        parse_switch_loop h14 pstmt fuel (cases ++ [(exprs, st)]) dc s3 ∧
      ∀ cs dc' s', parse_switch_loop h14 pstmt (fuel + 1) cases dc s = some ((cs, dc'), s') →
        ∃ more, cs = cases ++ (exprs, st) :: more := by
  have hpc := parse_case_some h14 pstmt fuel _ s1 s2 s3 exprs st b li hloop hne hcolon hstmt
  have hstep : parse_switch_loop h14 pstmt (fuel + 1) cases dc s =
      parse_switch_loop h14 pstmt fuel (cases ++ [(exprs, st)]) dc s3 := by
    conv => lhs; unfold parse_switch_loop
    refine run_bind (lex_run _) ?_
    refine run_ite_pos hcase ?_
    cases dc with
    | none =>
      refine run_bind (run_pure rfl rfl) ?_
      refine run_bind hpc ?_
      rfl
    | some d =>
      refine run_bind (error_run _ _) ?_
      refine run_bind hpc ?_
      rfl
  refine ⟨?_, hstep, ?_⟩
  · cases dc with
    | none => simp
    | some d =>
      simp only [Option.isSome_some, if_true, true_and]
      rw [report_errors, adv_errflag, adv_errors]
      cases s.errflag <;> simp
  · intro cs dc' s' h
    rw [hstep] at h
    obtain ⟨more, hm⟩ := parse_switch_loop_keeps h14 pstmt fuel _ dc s3 _ s' h
    have hm' : cs = cases ++ [(exprs, st)] ++ more := hm
    exact ⟨more, by rw [hm', List.append_assoc, List.singleton_append]⟩

/-- Witness of C10 as the code has it: in `switch (x) { default: a; case 1: b; }` the case is stored
and error 15 is reported. -/
theorem case_after_default_witness :
    parse_stmt sample_lists sample_externals 20 none true (init_state c10_tokens) =
      some ((some (Stmt.SwitchStmt ⟨1, 0⟩ (.SymbolExpr ⟨1, 2⟩ "x")
        [([.NumberExpr ⟨1, 10⟩ 1], c10_case)] (some c10_default)), none), c10_state 15) ∧
    (if (some c10_default).isSome then (consumed_state c10_tokens 9).adv.report 15
      else (consumed_state c10_tokens 9).adv).errors =
        (consumed_state c10_tokens 9).errors ++
          (if (some c10_default).isSome ∧ (consumed_state c10_tokens 9).errflag = false
            then [15] else []) ∧
      parse_switch_loop (hier14 sample_lists sample_externals 18)
          (parse_stmt sample_lists sample_externals 18) (18 + 1) [] (some c10_default)
          (consumed_state c10_tokens 9) =
        parse_switch_loop (hier14 sample_lists sample_externals 18)
          (parse_stmt sample_lists sample_externals 18) 18
          ([] ++ [([.NumberExpr ⟨1, 10⟩ 1], c10_case)]) (some c10_default) (c10_state 14) ∧
      ∀ cs dc' s',
        parse_switch_loop (hier14 sample_lists sample_externals 18)
          (parse_stmt sample_lists sample_externals 18) (18 + 1) [] (some c10_default)
          (consumed_state c10_tokens 9) = some ((cs, dc'), s') →
        ∃ more, cs = [] ++ ([.NumberExpr ⟨1, 10⟩ 1], c10_case) :: more :=
  ⟨by decide!,
    case_after_default (hier14 sample_lists sample_externals 18)
      (parse_stmt sample_lists sample_externals 18) 18 [] (some c10_default)
      (consumed_state c10_tokens 9) (c10_state 11) (c10_state 12) (c10_state 14)
      [.NumberExpr ⟨1, 10⟩ 1] c10_case true none (by decide) (by decide!) (by decide)
      (by decide!) (by decide!)⟩

/-- C10 fails for the code: in `switch (x) { default: a case 1: b; }` the case
follows the default and is stored, and no error 15 is reported: error 1 for the
`;` missing after `a` is pending when `parse_switch` calls `error(15)`. -/
theorem case_after_default_no_15 :
    (parse_stmt sample_lists sample_externals 20 none true (init_state c10_pending_tokens)).map
        (fun r => (r.1.1, r.2.errors)) =
      some (some (Stmt.SwitchStmt ⟨1, 0⟩ (.SymbolExpr ⟨1, 2⟩ "x")
        [([.NumberExpr ⟨1, 10⟩ 1], c10_case)] (some c10_default)), [1]) :=
  by decide!

theorem LabelRun.label_loop (h14 : P Expr) :
    ∀ (s : ParserState) (es : List Expr) (s3 : ParserState), LabelRun h14 s es s3 →
      ∀ fuel acc, es.length ≤ fuel → parse_case_loop h14 fuel acc s = some (acc ++ es, s3) := by
  intro s es s3 h
  induction h with
  | last s s1 e h1 h2 =>
    intro fuel acc hf
    cases fuel with
    | zero => simp at hf
    | succ n =>
      unfold parse_case_loop
      refine run_bind (SaveAndSet_run (·.sc_allowtags) set_sc_allowtags false _ s s1.peeked e ?_) ?_
      · refine run_bind h1 ?_
        refine run_bind (matchtoken_miss _ _ (by rw [h2]; decide) (by decide)) ?_
        rfl
      · refine run_bind (matchtoken_miss _ _ (by
          show s1.peeked.peekTok.id ≠ ch_comma
          rw [peeked_peekTok, h2]; decide) (by decide)) ?_
        rfl
  | more s s1 s3 e es h1 h2 _ ih =>
    intro fuel acc hf
    cases fuel with
    | zero => simp at hf
    | succ n =>
      unfold parse_case_loop
      refine run_bind (SaveAndSet_run (·.sc_allowtags) set_sc_allowtags false _ s s1.peeked e ?_) ?_
      · refine run_bind h1 ?_
        refine run_bind (matchtoken_miss _ _ (by rw [h2]; decide) (by decide)) ?_
        rfl
      · refine run_bind (matchtoken_hit _ _ (by
          show s1.peeked.peekTok.id = ch_comma
          rw [peeked_peekTok, h2])) ?_
        have := ih n (acc ++ [e]) (by simpa using hf)
        simpa using this

theorem LabelRun.colon (h14 : P Expr) :
    ∀ (s : ParserState) (es : List Expr) (s3 : ParserState), LabelRun h14 s es s3 →
      s3.peekTok.id = ch_colon ∧ 1 ≤ es.length := by
  intro s es s3 h
  induction h with
  | last s s1 e h1 h2 =>
    refine ⟨?_, by simp⟩
    rw [peeked_peekTok]
    show s1.peeked.peekTok.id = ch_colon
    rw [peeked_peekTok, h2]
  | more s s1 s3 e es h1 h2 _ ih => exact ⟨ih.1, by simp⟩

/-- C11: the labels of a `case` clause. For a clause `case E1, ..., En : stmt`
read in the body of a switch, where each label is parsed by one call of `hier14`
and is followed by the comma or the colon, the label loop of `parse_case` returns
the `n >= 1` results of these calls in source order; `parse_case` pairs that list
with the statement when the statement is a node (and adds nothing when it is
null), and the loop of `parse_switch` goes on with exactly this one case appended
to its cases, the default case unchanged. -/
theorem parse_case_labels (h14 : P Expr) (pstmt : Option Int → Bool → P StmtResult)
    (fuel : Nat) (cases : List (List Expr × Stmt)) (dc : Option Stmt)
    (s0 s1 s3 : ParserState) (es : List Expr) (st : Stmt) (li : Option Int)
    (hcase : s0.peekTok.id = tCASE)
    (hrun : LabelRun h14 (if dc.isSome then s0.adv.report 15 else s0.adv) es s1)
    (hfuel : es.length ≤ fuel)
    (hstmt : pstmt none false s1.adv = some ((some st, li), s3)) :
    1 ≤ es.length ∧
      parse_case_loop h14 fuel [] (if dc.isSome then s0.adv.report 15 else s0.adv) =
        some (es, s1) ∧
      parse_case h14 pstmt fuel (if dc.isSome then s0.adv.report 15 else s0.adv) =
        some (some (es, st), s3) ∧
      parse_switch_loop h14 pstmt (fuel + 1) cases dc s0 =
        parse_switch_loop h14 pstmt fuel (cases ++ [(es, st)]) dc s3 ∧
      ∀ pstmt' li' s3', pstmt' none false s1.adv = some ((none, li'), s3') →
        parse_case h14 pstmt' fuel (if dc.isSome then s0.adv.report 15 else s0.adv) =
          some (none, s3') := by
  obtain ⟨hcolon, hlen⟩ := LabelRun.colon h14 _ es s1 hrun
  have hloop := LabelRun.label_loop h14 _ es s1 hrun fuel [] hfuel
  rw [List.nil_append] at hloop
  have hne : es ≠ [] := by
    intro h
    rw [h] at hlen
    simp at hlen
  have hpc := parse_case_some h14 pstmt fuel _ s1 s1.adv s3 es st true li hloop hne
    (needtoken_hit _ _ hcolon) hstmt
  refine ⟨hlen, hloop, hpc, ?_, ?_⟩
  · conv => lhs; unfold parse_switch_loop
    refine run_bind (lex_run _) ?_
    refine run_ite_pos hcase ?_
    cases dc with
    | none =>
      refine run_bind (run_pure rfl rfl) ?_
      refine run_bind hpc ?_
      rfl
    | some d =>
      refine run_bind (error_run _ _) ?_
      refine run_bind hpc ?_
      rfl
  · intro pstmt' li' s3' h
    unfold parse_case
    refine run_bind hloop ?_
    refine run_bind (needtoken_hit _ _ hcolon) ?_
    refine run_bind h ?_
    rfl

/-- Witness of C11: `switch (x) { case 1, 2: a(); default: b(); }` yields one case
with the labels `1` and `2` and a default. -/
theorem parse_case_labels_witness :
    parse_stmt sample_lists sample_externals 20 none true (init_state c11_tokens) =
      some ((some (Stmt.SwitchStmt ⟨1, 0⟩ (.SymbolExpr ⟨1, 2⟩ "x")
        [(c11_labels, c11_case)] (some c11_default)), none), consumed_state c11_tokens 21) ∧
    (1 ≤ c11_labels.length ∧
      parse_case_loop (hier14 sample_lists sample_externals 18) 18 []
          (if (none : Option Stmt).isSome then (consumed_state c11_tokens 5).adv.report 15
            else (consumed_state c11_tokens 5).adv) =
        some (c11_labels, consumed_state c11_tokens 9) ∧
      parse_case (hier14 sample_lists sample_externals 18)
          (parse_stmt sample_lists sample_externals 18) 18
          (if (none : Option Stmt).isSome then (consumed_state c11_tokens 5).adv.report 15
            else (consumed_state c11_tokens 5).adv) =
        some (some (c11_labels, c11_case), consumed_state c11_tokens 14) ∧
      parse_switch_loop (hier14 sample_lists sample_externals 18)
          (parse_stmt sample_lists sample_externals 18) (18 + 1) [] none
          (consumed_state c11_tokens 5) =
        parse_switch_loop (hier14 sample_lists sample_externals 18)
          (parse_stmt sample_lists sample_externals 18) 18 ([] ++ [(c11_labels, c11_case)]) none
          (consumed_state c11_tokens 14) ∧
      ∀ pstmt' li' s3', pstmt' none false (consumed_state c11_tokens 9).adv =
          some ((none, li'), s3') →
        parse_case (hier14 sample_lists sample_externals 18) pstmt' 18
          (if (none : Option Stmt).isSome then (consumed_state c11_tokens 5).adv.report 15
            else (consumed_state c11_tokens 5).adv) = some (none, s3')) :=
  ⟨by decide!,
    parse_case_labels (hier14 sample_lists sample_externals 18)
      (parse_stmt sample_lists sample_externals 18) 18 [] none
      (consumed_state c11_tokens 5) (consumed_state c11_tokens 9) (consumed_state c11_tokens 14)
      c11_labels c11_case none (by decide)
      (LabelRun.more _ (set_sc_allowtags false (consumed_state c11_tokens 7)) _
        (.NumberExpr ⟨1, 6⟩ 1) _ (by decide!) (by decide)
        (LabelRun.last _ (set_sc_allowtags false (consumed_state c11_tokens 9))
          (.NumberExpr ⟨1, 8⟩ 2) (by decide!) (by decide)))
      (by decide) (by decide!)⟩

theorem parse_var_loop_some (E : Externals) (h14 : P Expr) (params : VarParams) :
    ∀ (fuel : Nat) (decl : declinfo_t) (stmt : Option Stmt)
      (list : Option (token_pos_t × List Stmt)),
      Post (parse_var_loop E h14 params fuel decl stmt list) fun r => r.1.isSome = true := by
  intro fuel
  induction fuel with
  | zero =>
    intro decl stmt list
    exact Post.failure
  | succ n ih =>
    intro decl stmt list
    unfold parse_var_loop
    refine Post.bind_any fun pos => ?_
    refine Post.bind_any fun init => ?_
    cases stmt with
    | none =>
      dsimp only
      refine Post.bind_any fun b => ?_
      split
      · exact Post.bind_any fun d => ih _ _ _
      · exact Post.pure rfl
    | some first =>
      cases list with
      | none =>
        dsimp only
        refine Post.bind_any fun b => ?_
        split
        · exact Post.bind_any fun d => ih _ _ _
        · exact Post.pure rfl
      | some l =>
        dsimp only
        refine Post.bind_any fun b => ?_
        split
        · exact Post.bind_any fun d => ih _ _ _
        · exact Post.pure rfl

theorem parse_var_some (E : Externals) (h14 : P Expr) (fuel : Nat) (decl : declinfo_t)
    (params : VarParams) : Post (parse_var E h14 fuel decl params) fun r => r.isSome = true := by
  unfold parse_var
  refine Post.bind (parse_var_loop_some E h14 params fuel decl none none) fun r hr => ?_
  obtain ⟨stmt, list⟩ := r
  refine Post.bind_any fun _ => ?_
  cases list with
  | none => exact Post.pure hr
  | some l => exact Post.pure rfl

theorem parse_local_decl_some (E : Externals) (h14 : P Expr) (fuel : Nat) (tokid : TokenKind)
    (autozero : Bool) :
    Post (parse_local_decl E h14 fuel tokid autozero) fun r => r.isSome = true := by
  unfold parse_local_decl
  exact Post.bind_any fun r => parse_var_some E h14 fuel _ _

theorem parse_expr_stmt_some (h14 : P Expr) (fuel : Nat) (endtok : TokenKind) :
    Post (parse_expr_stmt h14 fuel endtok) fun r => r.isSome = true := by
  unfold parse_expr_stmt
  refine Post.bind_any fun e => ?_
  refine Post.bind_any fun _ => ?_
  exact Post.pure rfl

/-- The init slot of `parse_for` is null exactly when its first token is `;`. -/
theorem parse_for_init_none (E : Externals) (h14 : P Expr) (fuel : Nat) (s s' : ParserState)
    (r : Option Stmt) (h : parse_for_init E h14 fuel s = some (r, s')) :
    (r = none ↔ s.peekTok.id = ch_semicolon) ∧ (s.peekTok.id = ch_semicolon → s' = s.adv) := by
  unfold parse_for_init at h
  rw [bind_run, matchtoken_run _ (by decide)] at h
  by_cases hp : s.peekTok.id = ch_semicolon
  · simp only [hp, decide_True, if_true, Option.bind] at h
    simp only [↓reduceIte, pure_run, Option.some.injEq, Prod.mk.injEq] at h
    exact ⟨⟨fun _ => hp, fun _ => h.1.symm⟩, fun _ => h.2.symm⟩
  · simp only [hp, decide_False, if_false, Option.bind] at h
    refine ⟨⟨fun hr => ?_, fun h' => absurd h' hp⟩, fun h' => absurd h' hp⟩
    have hpost : Post (do
        let tok ← lextok
        let expr_init : P (Option Stmt) := do
          lexpush
          parse_expr_stmt h14 fuel TokenKind.ch_semicolon
        if tok.id = TokenKind.tINT ∨ tok.id = TokenKind.tCHAR ∨ tok.id = TokenKind.tOBJECT ∨
            tok.id = TokenKind.tVOID then
          lexpush
          parse_local_decl E h14 fuel tok.id true
        else if tok.id = TokenKind.tNEW then
          parse_local_decl E h14 fuel tok.id true
        else if tok.id = TokenKind.tSYMBOL then
          let is_decl ← (do
            if (← matchtoken TokenKind.ch_lbracket) then
              let b ← lexpeek TokenKind.ch_rbracket
              lexpush
              return b
            else
              lexpeek TokenKind.tSYMBOL)
          if is_decl then
            lexpush
            parse_local_decl E h14 fuel TokenKind.tSYMBOL true
          else
            expr_init
        else
          expr_init : P (Option Stmt)) fun r => r.isSome = true := by
      refine Post.bind_any fun tok => ?_
      dsimp only
      split
      · exact Post.bind_any fun _ => parse_local_decl_some E h14 fuel _ _
      · split
        · exact parse_local_decl_some E h14 fuel _ _
        · split
          · refine Post.bind_any fun b => ?_
            split
            · exact Post.bind_any fun _ => parse_local_decl_some E h14 fuel _ _
            · exact Post.bind_any fun _ => parse_expr_stmt_some h14 fuel _
          · exact Post.bind_any fun _ => parse_expr_stmt_some h14 fuel _
    have := hpost _ _ _ h
    rw [hr] at this
    simp at this

/-- A `cond` or `advance` slot of `parse_for` is null exactly when its first token
is the token that ends the slot. -/
theorem parse_for_slot_none (h14 : P Expr) (fuel : Nat) (k : TokenKind) (hk : k ≠ tTERM)
    (s s' : ParserState) (r : Option Expr) (h : parse_for_slot h14 fuel k s = some (r, s')) :
    (r = none ↔ s.peekTok.id = k) ∧ (s.peekTok.id = k → s' = s.adv) := by
  unfold parse_for_slot at h
  rw [bind_run, matchtoken_run _ hk] at h
  by_cases hp : s.peekTok.id = k
  · simp only [hp, decide_True, if_true, Option.bind] at h
    simp only [↓reduceIte, pure_run, Option.some.injEq, Prod.mk.injEq] at h
    exact ⟨⟨fun _ => hp, fun _ => h.1.symm⟩, fun _ => h.2.symm⟩
  · simp only [hp, decide_False, if_false, Option.bind] at h
    refine ⟨⟨fun hr => ?_, fun h' => absurd h' hp⟩, fun h' => absurd h' hp⟩
    have hpost : Post (do
        let e ← parse_expr h14 fuel false
        let _ ← needtoken k
        return some e : P (Option Expr)) fun r => r.isSome = true := by
      refine Post.bind_any fun e => ?_
      refine Post.bind_any fun _ => ?_
      exact Post.pure rfl
    have := hpost _ _ _ h
    rw [hr] at this
    simp at this

/-- C12: the slots of a `for` header. Let `parse_for` run after the token `for`
on a header opened by `(` (or, without it, ended by `do`, with error 243), and
let `init`, `cond` and `advance` be what the three slots yield and `body` the
non-null statement parsed with `in_loop_` set. Then `parse_for` returns the
`ForStmt` of these four at the position of `for`; each of `init`, `cond` and
`advance` is null exactly when the first token of its slot is the token that
ends the slot; and for the header `( ; ; )` all three are null, the header takes
exactly its four tokens and nothing is reported before the body. -/
theorem parse_for_null_slots (E : Externals) (h14 : P Expr)
    (pstmt : Option Int → Bool → P StmtResult) (fuel : Nat) (endtok : TokenKind)
    (s sA sB sC sD sE : ParserState) (init : Option Stmt) (cond advance : Option Expr)
    (body : Stmt) (li : Option Int)
    (hhead : (s.peekTok.id = ch_lparen ∧ endtok = ch_rparen ∧ sA = s.adv) ∨
      (s.peekTok.id ≠ ch_lparen ∧ endtok = tDO ∧ sA = s.peeked.report 243))
    (hinit : parse_for_init E h14 fuel sA = some (init, sB))
    (hcond : parse_for_slot h14 fuel ch_semicolon sB = some (cond, sC))
    (hadv : parse_for_slot h14 fuel endtok sC = some (advance, sD))
    (hbody : pstmt none false (set_in_loop true sD) = some ((some body, li), sE)) :
    parse_for E h14 pstmt fuel s =
        some (some (Stmt.ForStmt (current_token s).start init cond advance body),
          set_in_loop sD.in_loop_ sE) ∧
      (init = none ↔ sA.peekTok.id = ch_semicolon) ∧
      (cond = none ↔ sB.peekTok.id = ch_semicolon) ∧
      (advance = none ↔ sC.peekTok.id = endtok) ∧
      (s.peekTok.id = ch_lparen → sA.peekTok.id = ch_semicolon →
        sB.peekTok.id = ch_semicolon → sC.peekTok.id = endtok →
        init = none ∧ cond = none ∧ advance = none ∧ sD = s.adv.adv.adv.adv ∧
          sD.errors = s.errors) := by
  have hk : endtok ≠ tTERM := by
    rcases hhead with ⟨_, h, _⟩ | ⟨_, h, _⟩ <;> rw [h] <;> decide
  have h1 := parse_for_init_none E h14 fuel sA sB init hinit
  have h2 := parse_for_slot_none h14 fuel ch_semicolon (by decide) sB sC cond hcond
  have h3 := parse_for_slot_none h14 fuel endtok hk sC sD advance hadv
  refine ⟨?_, h1.1, h2.1, h3.1, ?_⟩
  · unfold parse_for
    refine run_bind (current_pos_run _) ?_
    rcases hhead with ⟨hp, he, ha⟩ | ⟨hp, he, ha⟩
    · subst he ha
      refine run_bind (run_bind (matchtoken_hit _ _ hp) (run_ite_pos rfl (run_pure rfl rfl))) ?_
      refine run_bind (run_pure rfl rfl) ?_
      refine run_bind hinit ?_
      refine run_bind hcond ?_
      refine run_bind hadv ?_
      refine run_bind (SaveAndSet_run (·.in_loop_) set_in_loop true _ sD sE _ hbody) ?_
      rfl
    · subst he ha
      refine run_bind (run_bind (matchtoken_miss _ _ hp (by decide))
        (run_ite_neg (by decide) (run_pure rfl rfl))) ?_
      refine run_bind (error_run _ _) ?_
      refine run_bind hinit ?_
      refine run_bind hcond ?_
      refine run_bind hadv ?_
      refine run_bind (SaveAndSet_run (·.in_loop_) set_in_loop true _ sD sE _ hbody) ?_
      rfl
  · intro hp ha hb hc
    have hA : sA = s.adv := by
      rcases hhead with ⟨_, _, h⟩ | ⟨h, _, _⟩
      · exact h
      · exact absurd hp h
    have hB := h1.2 ha
    have hC := h2.2 hb
    have hD := h3.2 hc
    refine ⟨h1.1.2 ha, h2.1.2 hb, h3.1.2 hc, ?_, ?_⟩
    · rw [hD, hC, hB, hA]
    · rw [hD, hC, hB, hA, adv_errors, adv_errors, adv_errors, adv_errors]

/-- Witness of C12: `for ( ; ; ) { }` gives the `ForStmt` with three null slots
and no error. -/
theorem parse_for_null_slots_witness :
    parse_stmt sample_lists sample_externals 20 none true (init_state c12_tokens) =
      some ((some (Stmt.ForStmt ⟨1, 0⟩ none none none (Stmt.StmtList ⟨1, 6⟩ [])), none),
        consumed_state c12_tokens 7) ∧
    (consumed_state c12_tokens 7).errors = [] ∧
    (parse_for sample_externals (hier14 sample_lists sample_externals 18)
        (parse_stmt sample_lists sample_externals 18) 18 (consumed_state c12_tokens 1) =
        some (some (Stmt.ForStmt (current_token (consumed_state c12_tokens 1)).start none none
          none (Stmt.StmtList ⟨1, 6⟩ [])),
          set_in_loop (consumed_state c12_tokens 5).in_loop_
            (set_in_loop true (consumed_state c12_tokens 7))) ∧
      ((none : Option Stmt) = none ↔ (consumed_state c12_tokens 2).peekTok.id = ch_semicolon) ∧
      ((none : Option Expr) = none ↔ (consumed_state c12_tokens 3).peekTok.id = ch_semicolon) ∧
      ((none : Option Expr) = none ↔ (consumed_state c12_tokens 4).peekTok.id = ch_rparen) ∧
      ((consumed_state c12_tokens 1).peekTok.id = ch_lparen →
        (consumed_state c12_tokens 2).peekTok.id = ch_semicolon →
        (consumed_state c12_tokens 3).peekTok.id = ch_semicolon →
        (consumed_state c12_tokens 4).peekTok.id = ch_rparen →
        (none : Option Stmt) = none ∧ (none : Option Expr) = none ∧
          (none : Option Expr) = none ∧
          consumed_state c12_tokens 5 = (consumed_state c12_tokens 1).adv.adv.adv.adv ∧
          (consumed_state c12_tokens 5).errors = (consumed_state c12_tokens 1).errors)) :=
  ⟨by decide!, rfl,
    parse_for_null_slots sample_externals (hier14 sample_lists sample_externals 18)
      (parse_stmt sample_lists sample_externals 18) 18 ch_rparen (consumed_state c12_tokens 1)
      (consumed_state c12_tokens 2) (consumed_state c12_tokens 3) (consumed_state c12_tokens 4)
      (consumed_state c12_tokens 5) (set_in_loop true (consumed_state c12_tokens 7))
      none none none (Stmt.StmtList ⟨1, 6⟩ []) none
      (Or.inl ⟨by decide, rfl, by decide!⟩) (by decide!) (by decide!) (by decide!)
      (by decide!)⟩

section run
variable {α β : Type}
theorem run_bind_opt {m : P α} {f : α → P β} {s : ParserState} {x : Option (α × ParserState)}
    {r : Option (β × ParserState)} (h1 : m s = x) (h2 : x.bind (fun a => f a.1 a.2) = r) :
    (m >>= f) s = r := by
  rw [bind_run, h1]; exact h2
end run

/-- C13, as the code has it: for a statement that starts with `exit` and `;`,
whatever `parse_stmt` returns is an `ExitStmt` holding an expression, parsed from
the tokens after the semicolon; the expression slot is never null. -/
theorem exit_parses_after_terminator (L : OpLists) (E : Externals) (fuel : Nat)
    (li : Option Int) (allow_decl : Bool) (s s' : ParserState) (e semi : token_t)
    (r : List token_t) (res : StmtResult)
    (hs : s.rest = e :: semi :: r) (he : e.id = tEXIT) (hsemi : semi.id = ch_semicolon)
    (hrun : parse_stmt L E (fuel + 1) li allow_decl s = some (res, s')) :
    ∃ expr sx s3, sx.rest = r ∧
      parse_expr (hier14 L E fuel) fuel false sx = some (expr, s3) ∧
      res.1 = some (Stmt.ExitStmt e.start (some expr)) := by
  have hs1 : (set_one_error true s).reset.rest = e :: semi :: r := hs
  have hp : (set_one_error true s).reset.peekTok = e := peekTok_cons hs1
  obtain ⟨li', s2, hli, hr2, hc2, hl2, hf2, he2⟩ :=
    lastindent_run_loop li e (set_one_error true s).reset.adv
  rw [adv_rest_cons hs1] at hr2
  rw [adv_consumed_cons hs1] at hc2
  have hp2 : s2.peekTok = semi := peekTok_cons hr2
  have hcur : current_token s2 = e := current_token_cons hc2
  have hbs : e.id ≠ tSYMBOL := by rw [he]; decide
  have hbody : parse_stmt L E (fuel + 1) li allow_decl s =
      ((do
        let expr ← parse_expr (hier14 L E fuel) fuel false
        let _ ← needtoken tTERM
        return (some (Stmt.ExitStmt e.start (some expr)), li') : P StmtResult) s2.adv).map
        fun x => (x.1, set_one_error s.sc_one_error_per_statement x.2) := by
    unfold parse_stmt
    rw [SaveAndSet_map]
    refine congrArg _ ?_
    refine run_bind (freading_run _) ?_
    refine run_ite_neg (by rw [show (set_one_error true s).rest = e :: semi :: r from hs]; simp) ?_
    refine run_bind (errorset_run _) ?_
    refine run_bind (lex_run _) ?_
    rw [hp]
    refine run_bind hli ?_
    refine run_bind (run_ite_neg hbs (run_pure rfl rfl)) ?_
    refine run_ite_neg (by decide) ?_
    refine run_bind_opt (x := (do
        let expr ← parse_expr (hier14 L E fuel) fuel false
        let _ ← needtoken tTERM
        return some (Stmt.ExitStmt e.start (some expr)) : P (Option Stmt)) s2.adv) ?_ ?_
    · iterate 12 refine run_ite_neg (by rw [he]; decide) ?_
      refine run_ite_pos he ?_
      refine run_bind (current_pos_run _) ?_
      refine run_bind (matchtoken_term_semicolon _ (by rw [hp2]; exact hsemi)) ?_
      refine run_ite_pos rfl ?_
      rw [hcur]
    · simp only [bind_run, Option.bind]
      cases parse_expr (hier14 L E fuel) fuel false s2.adv with
      | none => rfl
      | some x =>
        dsimp only
        cases needtoken tTERM x.2 with
        | none => rfl
        | some y => rfl
  rw [hbody] at hrun
  cases hx : parse_expr (hier14 L E fuel) fuel false s2.adv with
  | none =>
    rw [bind_run, hx] at hrun
    simp at hrun
  | some x =>
    obtain ⟨expr, s3⟩ := x
    refine ⟨expr, s2.adv, s3, adv_rest_cons hr2, hx, ?_⟩
    rw [bind_run, hx] at hrun
    simp only [Option.bind, bind_run] at hrun
    cases hy : needtoken tTERM s3 with
    | none =>
      rw [hy] at hrun
      simp at hrun
    | some y =>
      rw [hy] at hrun
      simp only [Option.bind, pure_run, Option.map, Option.some.injEq, Prod.mk.injEq] at hrun
      rw [← hrun.1]

/-- Witness of C13 as the code has it: `exit ; x ;` gives `ExitStmt(x)` and takes
all four tokens, where `return ; x ;` gives `ReturnStmt(null)` and takes two;
`exit x ;` gives `ExitStmt(null)` and leaves `x ;` behind. -/
theorem exit_parses_after_terminator_witness :
    parse_stmt sample_lists sample_externals 20 none true (init_state c13_tokens) =
      some ((some (Stmt.ExitStmt ⟨1, 0⟩ (some (.SymbolExpr ⟨1, 2⟩ "x"))), none),
        consumed_state c13_tokens 4) ∧
    parse_stmt sample_lists sample_externals 20 none true (init_state c13_return_tokens) =
      some ((some (Stmt.ReturnStmt ⟨1, 0⟩ none), none), consumed_state c13_return_tokens 2) ∧
    parse_stmt sample_lists sample_externals 20 none true (init_state c13_value_tokens) =
      some ((some (Stmt.ExitStmt ⟨1, 0⟩ none), none), consumed_state c13_value_tokens 1) ∧
    ∃ expr sx s3, sx.rest = [sym "x" 2, tk ch_semicolon 3] ∧
      parse_expr (hier14 sample_lists sample_externals 19) 19 false sx = some (expr, s3) ∧
      ((some (Stmt.ExitStmt ⟨1, 0⟩ (some (.SymbolExpr ⟨1, 2⟩ "x"))), none) : StmtResult).1 =
        some (Stmt.ExitStmt (tk tEXIT 0).start (some expr)) :=
  ⟨by decide!, by decide!, by decide!,
    exit_parses_after_terminator sample_lists sample_externals 19 none true
      (init_state c13_tokens) (consumed_state c13_tokens 4) (tk tEXIT 0) (tk ch_semicolon 1)
      [sym "x" 2, tk ch_semicolon 3] _ rfl rfl rfl (by decide!)⟩

theorem BlockRun.block_loop (pstmt : Option Int → Bool → P StmtResult) :
    ∀ (indent : Int) (s : ParserState) (rs : List (Option Stmt)) (sL : ParserState),
      BlockRun pstmt indent s rs sL →
      ∀ (fuel : Nat) (acc : List Stmt), rs.length < fuel →
        (sL.peekTok.id = ch_rbrace →
          parse_compound_loop pstmt fuel indent acc s =
            some (acc ++ rs.reduceOption, sL.adv)) ∧
        (sL.rest = [] →
          parse_compound_loop pstmt fuel indent acc s =
            some (acc ++ rs.reduceOption, sL.peeked.report 30)) := by
  intro indent s rs sL h
  induction h with
  | done indent s =>
    intro fuel acc hf
    cases fuel with
    | zero => simp at hf
    | succ n =>
      constructor
      · intro hc
        unfold parse_compound_loop
        refine run_bind (matchtoken_hit _ _ hc) ?_
        simp
      · intro he
        have hp : s.peekTok.id ≠ ch_rbrace := by
          unfold ParserState.peekTok
          rw [he]
          decide
        unfold parse_compound_loop
        refine run_bind (matchtoken_miss _ _ hp (by decide)) ?_
        refine run_ite_neg (by decide) ?_
        refine run_bind (freading_run _) ?_
        refine run_ite_pos (by rw [peeked_rest, he]; rfl) ?_
        refine run_bind (error_run _ _) ?_
        simp
  | step indent s s1 s' stmt li rs h1 h2 h3 _ ih =>
    intro fuel acc hf
    cases fuel with
    | zero => simp at hf
    | succ n =>
      have hlen : rs.length < n := by simpa using hf
      have hnb : ¬ ((!(!s.peeked.rest.isEmpty)) = true) := by
        rw [peeked_rest]
        cases hr : s.rest with
        | nil => exact absurd hr h2
        | cons t r => simp
      cases stmt with
      | none =>
        have hstep : parse_compound_loop pstmt (n + 1) indent acc s =
            parse_compound_loop pstmt n (li.getD indent) acc s1 := by
          conv => lhs; unfold parse_compound_loop
          refine run_bind (matchtoken_miss _ _ h1 (by decide)) ?_
          refine run_ite_neg (by decide) ?_
          refine run_bind (freading_run _) ?_
          refine run_ite_neg hnb ?_
          refine run_bind h3 ?_
          rfl
        rw [hstep]
        have := ih n acc hlen
        simpa [List.reduceOption_cons_of_none] using this
      | some st =>
        have hstep : parse_compound_loop pstmt (n + 1) indent acc s =
            parse_compound_loop pstmt n (li.getD indent) (acc ++ [st]) s1 := by
          conv => lhs; unfold parse_compound_loop
          refine run_bind (matchtoken_miss _ _ h1 (by decide)) ?_
          refine run_ite_neg (by decide) ?_
          refine run_bind (freading_run _) ?_
          refine run_ite_neg hnb ?_
          refine run_bind h3 ?_
          rfl
        rw [hstep]
        have := ih n (acc ++ [st]) hlen
        simpa [List.reduceOption_cons_of_some] using this

theorem adjust_stmtindent_run (s s0 : ParserState) (h : compound_entry true s = some s0) :
    adjust_stmtindent s = some ((), s0) := by
  unfold compound_entry at h
  unfold adjust_stmtindent
  cases hi : sameline_indent s with
  | none => rw [hi] at h; simp at h
  | some c =>
    rw [hi] at h
    simp only [if_true, Option.map_some', Option.some.injEq] at h
    rw [← h]

/-- The statement indent of a block that opens on the line of its first
statement is the column of the first token after the nearest `{`: in
`{ { a ; } b ; }` the statements of the outer block both have the indent of `a`,
and no loose indentation is reported for `b`. -/
theorem parse_compound_nested_sameline :
    (parse_stmt sample_lists sample_externals 20 none true (init_state c14_nested_tokens)).map
        (fun r => (r.1.1, r.2.errors, r.2.stmtindent)) =
      some (some (Stmt.BlockStmt ⟨1, 0⟩
        [.BlockStmt ⟨1, 2⟩ [.ExprStmt ⟨1, 4⟩ (.SymbolExpr ⟨1, 4⟩ "a")],
          .ExprStmt ⟨1, 10⟩ (.SymbolExpr ⟨1, 10⟩ "b")]), [], 4) :=
  by decide!

theorem peekTok_nil {s : ParserState} (h : s.rest = []) : s.peekTok.id = tEOF := by
  unfold ParserState.peekTok
  rw [h]
  rfl

/-- At the end of input the loop of `parse_typeset` has no way out: whatever the
fuel, it is used up. -/
theorem parse_typeset_loop_eof (T : TopExternals)
    (hT : ∀ s : ParserState, s.rest = [] → (T.parse_function_type s).2.rest = []) :
    ∀ (fuel : Nat) (types : List TypedefInfo) (s : ParserState), s.rest = [] →
      parse_typeset_loop T fuel types s = none := by
  intro fuel
  induction fuel with
  | zero =>
    intro types s _
    rfl
  | succ n ih =>
    intro types s hs
    unfold parse_typeset_loop
    refine run_bind (matchtoken_miss _ _ (by rw [peekTok_nil hs]; decide) (by decide)) ?_
    refine run_ite_neg (by decide) ?_
    refine run_bind (liftE_run _ _) ?_
    exact ih _ _ (hT _ (by rw [peeked_rest, hs]))

/-- C15, as the code has it: when the input ends after `typeset Name {`, and
`parse_function_type` consumes nothing at the end of input, `parse_typeset` does
not return: its loop `while (!matchtoken('}'))` uses up every amount of fuel, the
production yielding neither a `TypesetDecl` nor an `ErrorDecl`. -/
theorem parse_typeset_eof_diverges (T : TopExternals)
    (hT : ∀ s : ParserState, s.rest = [] → (T.parse_function_type s).2.rest = [])
    (fuel : Nat) (s : ParserState) (name lb : token_t)
    (hs : s.rest = [name, lb]) (hn : name.id = tSYMBOL) (hl : lb.id = ch_lbrace) :
    parse_typeset T fuel s = none ∧
      ∀ (types : List TypedefInfo) (s0 : ParserState), s0.rest = [] →
        parse_typeset_loop T fuel types s0 = none := by
  refine ⟨?_, parse_typeset_loop_eof T hT fuel⟩
  have hp : s.peekTok = name := peekTok_cons hs
  have hr : s.adv.rest = [lb] := adv_rest_cons hs
  have hp1 : s.adv.peekTok = lb := peekTok_cons hr
  unfold parse_typeset
  refine run_bind (current_pos_run _) ?_
  refine run_bind (needsymbol_hit _ (by rw [hp]; exact hn)) ?_
  dsimp only
  refine run_bind (needtoken_hit _ _ (by rw [hp1]; exact hl)) ?_
  rw [bind_run, parse_typeset_loop_eof T hT fuel [] _ (adv_rest_cons hr)]
  rfl

/-- Witness of C15 as the code has it: on `typeset T {` and the end of input no
amount of fuel lets `parse_typeset` return. -/
theorem parse_typeset_eof_diverges_witness :
    (consumed_state c15_tokens 1).rest = [sym "T" 1, tk ch_lbrace 2] ∧
    ∀ fuel : Nat,
      parse_typeset sample_top fuel (consumed_state c15_tokens 1) = none ∧
        ∀ (types : List TypedefInfo) (s0 : ParserState), s0.rest = [] →
          parse_typeset_loop sample_top fuel types s0 = none :=
  ⟨rfl, fun fuel =>
    parse_typeset_eof_diverges sample_top (fun s h => by
      show s.adv.rest = []
      rw [adv_rest, h]; rfl) fuel (consumed_state c15_tokens 1) (sym "T" 1) (tk ch_lbrace 2)
      rfl rfl rfl⟩

@[simp] theorem lexclr_run (s : ParserState) :
    lexclr true s = some (PUnit.unit, s.dropLine) := rfl

/-- The keyword switch of `parse_unknown_decl`. -/
theorem decl_storage_run (tok : token_t) (s : ParserState) :
    (do
      if tok.id = TokenKind.tPUBLIC then
        return (true, false, false)
      else if tok.id = TokenKind.tSTOCK then
        if (← matchtoken TokenKind.tSTATIC) then return (false, true, true)
        else return (false, true, false)
      else if tok.id = TokenKind.tSTATIC then
        if (← matchtoken TokenKind.tSTOCK) then return (false, true, true)
        else return (false, false, true)
      else
        return (false, false, false) : P (Bool × Bool × Bool)) s =
      some (decl_storage tok s) := by
  unfold decl_storage
  by_cases h1 : tok.id = tPUBLIC
  · simp only [if_pos h1]
    rfl
  · simp only [if_neg h1]
    by_cases h2 : tok.id = tSTOCK
    · simp only [if_pos h2]
      by_cases h3 : s.peekTok.id = tSTATIC
      · simp only [if_pos h3]
        exact run_bind (matchtoken_hit _ _ h3) rfl
      · simp only [if_neg h3]
        exact run_bind (matchtoken_miss _ _ h3 (by decide)) rfl
    · simp only [if_neg h2]
      by_cases h4 : tok.id = tSTATIC
      · simp only [if_pos h4]
        by_cases h3 : s.peekTok.id = tSTOCK
        · simp only [if_pos h3]
          exact run_bind (matchtoken_hit _ _ h3) rfl
        · simp only [if_neg h3]
          exact run_bind (matchtoken_miss _ _ h3 (by decide)) rfl
      · simp only [if_neg h4]
        rfl

/-- The hints of `parse_unknown_decl`, evaluated from left to right. -/
theorem probably_variable_run (tok : token_t) (d : declinfo_t) (s : ParserState) :
    (do
      if tok.id = TokenKind.tNEW then return true
      else if d.type.has_postdims then return true
      else if !(← lexpeek TokenKind.ch_lparen) then return true
      else return d.type.is_const : P Bool) s =
      some (probably_variable tok d s, hint_state tok d s) := by
  unfold probably_variable hint_state
  by_cases h1 : tok.id = tNEW
  · refine run_ite_pos h1 ?_
    simp [h1]
  · refine run_ite_neg h1 ?_
    by_cases h2 : d.type.has_postdims = true
    · refine run_ite_pos h2 ?_
      simp [h2]
    · refine run_ite_neg h2 ?_
      refine run_bind (lexpeek_run _ _) ?_
      by_cases h3 : s.peekTok.id = ch_lparen
      · simp [h1, h2, h3]
      · simp [h1, h2, h3]

/-- The course of `parse_unknown_decl` up to the decision between the variable
and the function path. -/
theorem parse_unknown_decl_head (E : Externals) (T : TopExternals) (h14 : P Expr) (fuel : Nat)
    (tok : token_t) (s s1 s2 : ParserState) (fpublic fstock fstatic ok : Bool)
    (d0 d : declinfo_t)
    (hn : tok.id ≠ tNATIVE) (hf : tok.id ≠ tFORWARD)
    (hkw : decl_storage tok s = ((fpublic, fstock, fstatic), s1))
    (hdecl : E.parse_decl declinfo_zero (decl_flags tok) s1 = ((ok, d0), s2))
    (hd : d = checked_decl ok d0) :
    parse_unknown_decl E T h14 fuel tok s =
      (if d.opertok = TokenKind.tEOF ∧ probably_variable tok d s2 = true then
        (do
          if tok.id = TokenKind.tNEW ∧ d.type.is_new = true then error 143
          if T.is_struct_tag d.type.tag then
            let init ← (do
              if (← matchtoken TokenKind.ch_assign) then
                let _ ← needtoken TokenKind.ch_lbrace
                return some (← struct_init fuel)
              else
                return none)
            let _ ← matchtoken TokenKind.ch_semicolon
            return some (Stmt.VarDecl (current_token s).start d.name d.type StorageClass.sGLOBAL
              (fpublic && init.isSome) false init.isNone init true)
          else
            let params : VarParams :=
              { vclass := StorageClass.sGLOBAL, is_public := fpublic, is_static := fstatic,
                is_stock := fstock }
            parse_var E h14 fuel d params : P (Option Stmt))
      else
        (do
          let ok ← liftE (T.newfunc d fpublic fstatic fstock)
          if !ok then
            error 10
            lexclr true
          return none : P (Option Stmt))) (hint_state tok d s2) := by
  subst hd
  unfold parse_unknown_decl
  refine run_ite_neg (not_or.mpr ⟨hn, hf⟩) ?_
  refine run_bind (current_pos_run _) ?_
  refine run_bind ((decl_storage_run tok s).trans (congrArg some hkw)) ?_
  dsimp only
  refine run_bind (show liftE (E.parse_decl declinfo_zero (decl_flags tok)) s1 =
    some ((ok, d0), s2) by rw [liftE_run, hdecl]) ?_
  dsimp only
  refine run_bind (probably_variable_run tok (checked_decl ok d0) s2) ?_
  rfl

section run
variable {α : Type}
theorem error143_jp (tok : token_t) (d : declinfo_t) (k : PUnit → P α) (s : ParserState) :
    (if tok.id = TokenKind.tNEW ∧ d.type.is_new = true then error 143 >>= k
      else pure PUnit.unit >>= k) s = k PUnit.unit (var_state tok d s) := by
  unfold var_state
  by_cases h : tok.id = TokenKind.tNEW ∧ d.type.is_new = true
  · simp only [if_pos h]
    rfl
  · simp only [if_neg h]
    rfl
end run

/-- C16: variable or function. For a top-level declaration whose leading token
is neither `native` nor `forward`, let `d` be the declarator read by `parse_decl`
after the storage keywords. When `d` is no operator overload and one of the
hints holds (post-dims, next token not `(`, const, keyword `new`),
`parse_unknown_decl` returns the result of `parse_var` for `d` with the global
storage class and the keyword flags, or, for a struct type, a `VarDecl` of `d`,
and the outcome does not depend on `newfunc`; in every other case it calls
`newfunc` on `d`, reports error 10 and drops the line when that fails, and
returns no node. -/
theorem unknown_decl_variable_or_function (E : Externals) (T : TopExternals) (h14 : P Expr)
    (fuel : Nat) (tok : token_t) (s s1 s2 : ParserState) (fpublic fstock fstatic ok : Bool)
    (d0 d : declinfo_t)
    (hn : tok.id ≠ tNATIVE) (hf : tok.id ≠ tFORWARD)
    (hkw : decl_storage tok s = ((fpublic, fstock, fstatic), s1))
    (hdecl : E.parse_decl declinfo_zero (decl_flags tok) s1 = ((ok, d0), s2))
    (hd : d = checked_decl ok d0) :
    (d.opertok = tEOF ∧ probably_variable tok d s2 = true →
      (T.is_struct_tag d.type.tag = false →
        parse_unknown_decl E T h14 fuel tok s =
          parse_var E h14 fuel d
            { vclass := StorageClass.sGLOBAL, is_public := fpublic, is_static := fstatic,
              is_stock := fstock }
            (var_state tok d (hint_state tok d s2))) ∧
      (T.is_struct_tag d.type.tag = true →
        (∀ r s', parse_unknown_decl E T h14 fuel tok s = some (r, s') →
          ∃ init, r = some (Stmt.VarDecl (current_token s).start d.name d.type
            StorageClass.sGLOBAL (fpublic && init.isSome) false init.isNone init true)) ∧
        ((var_state tok d (hint_state tok d s2)).peekTok.id ≠ ch_assign →
          ∃ s', parse_unknown_decl E T h14 fuel tok s =
            some (some (Stmt.VarDecl (current_token s).start d.name d.type
              StorageClass.sGLOBAL false false true none true), s'))) ∧
      ∀ T' : TopExternals, T'.is_struct_tag = T.is_struct_tag →
        parse_unknown_decl E T' h14 fuel tok s = parse_unknown_decl E T h14 fuel tok s) ∧
    (¬(d.opertok = tEOF ∧ probably_variable tok d s2 = true) →
      parse_unknown_decl E T h14 fuel tok s =
        some (none, func_state T d fpublic fstatic fstock (hint_state tok d s2))) := by
  have hhead := fun T0 : TopExternals =>
    parse_unknown_decl_head E T0 h14 fuel tok s s1 s2 fpublic fstock fstatic ok d0 d hn hf hkw
      hdecl hd
  constructor
  · intro hv
    refine ⟨?_, ?_, ?_⟩
    · intro htag
      rw [hhead T, if_pos hv]
      refine (error143_jp tok d _ _).trans ?_
      dsimp only
      rw [htag]
      rfl
    · intro htag
      constructor
      · intro r s' hr
        rw [hhead T, if_pos hv] at hr
        have hpost : Post (do
            if tok.id = TokenKind.tNEW ∧ d.type.is_new = true then error 143
            if T.is_struct_tag d.type.tag then
              let init ← (do
                if (← matchtoken TokenKind.ch_assign) then
                  let _ ← needtoken TokenKind.ch_lbrace
                  return some (← struct_init fuel)
                else
                  return none)
              let _ ← matchtoken TokenKind.ch_semicolon
              return some (Stmt.VarDecl (current_token s).start d.name d.type
                StorageClass.sGLOBAL (fpublic && init.isSome) false init.isNone init true)
            else
              let params : VarParams :=
                { vclass := StorageClass.sGLOBAL, is_public := fpublic, is_static := fstatic,
                  is_stock := fstock }
              parse_var E h14 fuel d params : P (Option Stmt)) fun r =>
              ∃ init, r = some (Stmt.VarDecl (current_token s).start d.name d.type
                StorageClass.sGLOBAL (fpublic && init.isSome) false init.isNone init true) := by
          dsimp only
          rw [htag]
          split
          · refine Post.bind_any fun _ => ?_
            refine Post.bind_any fun init => ?_
            refine Post.bind_any fun _ => ?_
            exact Post.pure ⟨init, rfl⟩
          · refine Post.bind_any fun _ => ?_
            refine Post.bind_any fun init => ?_
            refine Post.bind_any fun _ => ?_
            exact Post.pure ⟨init, rfl⟩
        exact hpost _ _ _ hr
      · intro hna
        refine ⟨if (var_state tok d (hint_state tok d s2)).peeked.peekTok.id = ch_semicolon then
          (var_state tok d (hint_state tok d s2)).peeked.adv
          else (var_state tok d (hint_state tok d s2)).peeked.peeked, ?_⟩
        rw [hhead T, if_pos hv]
        refine (error143_jp tok d _ _).trans ?_
        dsimp only
        rw [htag]
        refine run_ite_pos rfl ?_
        refine run_bind (run_bind (matchtoken_miss _ _ hna (by decide))
          (run_ite_neg (by decide) (run_pure rfl rfl))) ?_
        rw [bind_run, matchtoken_run _ (by decide)]
        simp [Option.bind]
    · intro T' hT
      rw [hhead T, hhead T', if_pos hv, if_pos hv, hT]
  · intro hv
    rw [hhead T, if_neg hv]
    refine run_bind (liftE_run _ _) ?_
    unfold func_state
    cases h : (T.newfunc d fpublic fstatic fstock (hint_state tok d s2)).1
    · simp only [h]
      refine run_bind (error_run _ _) ?_
      refine run_bind (lexclr_run _) ?_
      rfl
    · simp only [h]
      refine run_bind (run_pure rfl rfl) ?_
      rfl

/-- Witness of C16: `int x = 5 ;` is parsed as a variable, `int f ( ) ;` is handed
to `newfunc`. -/
theorem unknown_decl_variable_or_function_witness :
    parse_toplevel sample_lists decl_externals sample_top 21 (init_state c16_var_tokens) =
      some (some (Stmt.VarDecl ⟨1, 1⟩ "x" typeinfo_zero StorageClass.sGLOBAL false false false
        (some (.NumberExpr ⟨1, 3⟩ 5)) true), consumed_state c16_var_tokens 5) ∧
    parse_unknown_decl decl_externals sample_top (hier14 sample_lists decl_externals 20) 20
        (tk tINT 0) (init_state c16_var_tokens) =
      parse_var decl_externals (hier14 sample_lists decl_externals 20) 20
        { declinfo_zero with name := "x" }
        { vclass := StorageClass.sGLOBAL, is_public := false, is_static := false,
          is_stock := false }
        (var_state (tk tINT 0) { declinfo_zero with name := "x" }
          (hint_state (tk tINT 0) { declinfo_zero with name := "x" }
            (consumed_state c16_var_tokens 2))) ∧
    parse_unknown_decl decl_externals sample_top (hier14 sample_lists decl_externals 20) 20
        (tk tINT 0) (init_state c16_func_tokens) =
      some (none, func_state sample_top { declinfo_zero with name := "f" } false false false
        (hint_state (tk tINT 0) { declinfo_zero with name := "f" }
          (consumed_state c16_func_tokens 2))) :=
  ⟨by decide!,
    ((unknown_decl_variable_or_function decl_externals sample_top
      (hier14 sample_lists decl_externals 20) 20 (tk tINT 0) (init_state c16_var_tokens)
      (init_state c16_var_tokens) (consumed_state c16_var_tokens 2) false false false true
      { declinfo_zero with name := "x" } { declinfo_zero with name := "x" }
      (by decide) (by decide) (by decide!) (by decide!) (by decide!)).1
        ⟨rfl, by decide⟩).1 rfl,
    (unknown_decl_variable_or_function decl_externals sample_top
      (hier14 sample_lists decl_externals 20) 20 (tk tINT 0) (init_state c16_func_tokens)
      (init_state c16_func_tokens) (consumed_state c16_func_tokens 2) false false false true
      { declinfo_zero with name := "f" } { declinfo_zero with name := "f" }
      (by decide) (by decide) (by decide!) (by decide!) (by decide!)).2 (by decide)⟩

theorem TopRun.top_loop (L : OpLists) (E : Externals) (T : TopExternals) :
    ∀ (fuel : Nat) (s : ParserState) (rs : List (Option Stmt)) (s' : ParserState),
      TopRun L E T fuel s rs s' →
      ∀ acc : List Stmt, parse_loop L E T fuel acc s = some (acc ++ rs.reduceOption, s') := by
  intro fuel s rs s' h
  induction h with
  | done fuel s h =>
    intro acc
    unfold parse_loop
    refine run_bind (freading_run _) ?_
    refine run_ite_pos (by rw [h]; rfl) ?_
    simp
  | step fuel s s1 s' r rs h1 h2 _ ih =>
    intro acc
    have hnb : ¬ ((!(!s.rest.isEmpty)) = true) := by
      cases hr : s.rest with
      | nil => exact absurd hr h1
      | cons t r => simp
    cases r with
    | none =>
      have hstep : parse_loop L E T (fuel + 1) acc s = parse_loop L E T fuel acc s1 := by
        conv => lhs; unfold parse_loop
        refine run_bind (freading_run _) ?_
        refine run_ite_neg hnb ?_
        refine run_bind h2 ?_
        rfl
      rw [hstep]
      have := ih acc
      simpa [List.reduceOption_cons_of_none, delivered] using this
    | some decl =>
      have hstep : parse_loop L E T (fuel + 1) acc s =
          parse_loop L E T fuel (acc ++ [decl]) (T.process decl s1) := by
        conv => lhs; unfold parse_loop
        refine run_bind (freading_run _) ?_
        refine run_ite_neg hnb ?_
        refine run_bind h2 ?_
        rfl
      rw [hstep]
      have := ih (acc ++ [decl])
      simpa [List.reduceOption_cons_of_some, delivered] using this

/-- The switch of `Parser::parse` leaves `decl` null for a stub, a methodmap, an
old-style function enum and an unmatched brace. -/
theorem parse_toplevel_no_node (L : OpLists) (E : Externals) (T : TopExternals) (fuel : Nat)
    (s s1 : ParserState) (r : Option Stmt) (hk : s.peekTok.id ∈ no_node_kinds)
    (h : parse_toplevel L E T fuel s = some (r, s1)) : r = none := by
  unfold parse_toplevel at h
  rw [bind_run, lextok_run] at h
  simp only [Option.bind] at h
  simp only [no_node_kinds, List.mem_cons, List.mem_singleton, List.not_mem_nil, or_false] at hk
  rcases hk with hk | hk | hk | hk | hk | hk | hk
  all_goals
    simp [hk, parse_unknown_decl, Option.bind, -bind_pure_comp] at h
    exact h.1.symm

/-- C17, as the code has it: delivery in source order. Let the loop of
`Parser::parse` run through the top-level productions with the results `rs`
(null results included), each production starting in the state left by the
delivery of the one before: after `Process()` on its node, or unchanged when it
returned no node. Then `parse` returns, the calls of `Process()` are exactly
those on the non-null results, one each and in source order, each made in the
state its production returns in and before the next production starts, and
`sc_one_error_per_statement` is put back. A
declaration led by `native`, `forward`, `methodmap`, `funcenum`, `functag` or a
brace, and an enum struct, yield no node and no call. -/
theorem parse_delivers_in_order (L : OpLists) (E : Externals) (T : TopExternals) (fuel : Nat)
    (s s' : ParserState) (rs : List (Option Stmt))
    (hrun : TopRun L E T fuel (set_one_error true s) rs s') :
    parse L E T fuel s =
        some (rs.reduceOption, set_one_error s.sc_one_error_per_statement s') ∧
      (∀ (fuel0 : Nat) (s0 s1 : ParserState) (r : Option Stmt),
        s0.peekTok.id ∈ no_node_kinds → parse_toplevel L E T fuel0 s0 = some (r, s1) →
          r = none ∧ delivered T r s1 = s1) ∧
      (∀ (fuel0 : Nat) (s0 : ParserState), s0.peekTok.id = tENUM →
        s0.adv.peekTok.id = tSTRUCT →
          parse_toplevel L E T fuel0 s0 = some (none, T.decl_enumstruct s0.adv.adv)) := by
  refine ⟨?_, ?_, ?_⟩
  · unfold parse
    refine SaveAndSet_run (·.sc_one_error_per_statement) set_one_error true _ s s' _ ?_
    have := TopRun.top_loop L E T fuel _ rs s' hrun []
    simpa using this
  · intro fuel0 s0 s1 r hk h
    have hr := parse_toplevel_no_node L E T fuel0 s0 s1 r hk h
    subst hr
    exact ⟨rfl, rfl⟩
  · intro fuel0 s0 h1 h2
    unfold parse_toplevel
    refine run_bind (lextok_run _) ?_
    dsimp only
    iterate 9 refine run_ite_neg (by rw [h1]; decide) ?_
    refine run_ite_pos h1 ?_
    refine run_bind (matchtoken_hit _ _ h2) ?_
    rfl

/-- Witness of C17 as the code has it: in `const a = 1 ; native int f ; const b = 2 ;`
the two constants are delivered in this order, each before the production of the
next declaration starts, and the stub is not. -/
theorem parse_delivers_in_order_witness :
    (parse sample_lists const_externals stub_top 20 (init_state c17_tokens) =
        some ([some c17_a, none, some c17_b].reduceOption,
          set_one_error (init_state c17_tokens).sc_one_error_per_statement (c17_state 14 2)) ∧
      (∀ (fuel0 : Nat) (s0 s1 : ParserState) (r : Option Stmt),
        s0.peekTok.id ∈ no_node_kinds →
          parse_toplevel sample_lists const_externals stub_top fuel0 s0 = some (r, s1) →
          r = none ∧ delivered stub_top r s1 = s1) ∧
      (∀ (fuel0 : Nat) (s0 : ParserState), s0.peekTok.id = tENUM →
        s0.adv.peekTok.id = tSTRUCT →
          parse_toplevel sample_lists const_externals stub_top fuel0 s0 =
            some (none, stub_top.decl_enumstruct s0.adv.adv))) ∧
    [some c17_a, none, some c17_b].reduceOption = [c17_a, c17_b] ∧
    (c17_state 14 2).errors = [1000, 1000] ∧
    parse_toplevel sample_lists const_externals stub_top 18
        (delivered stub_top (some c17_a) (c17_state 5 0)) = some (none, c17_state 9 1) :=
  ⟨parse_delivers_in_order sample_lists const_externals stub_top 20 (init_state c17_tokens)
      (c17_state 14 2) [some c17_a, none, some c17_b]
      (TopRun.step 19 _ (c17_state 5 0) _ _ _ (by decide) (by decide!)
        (TopRun.step 18 _ (c17_state 9 1) _ _ _ (by decide) (by decide!)
          (TopRun.step 17 _ (c17_state 14 1) _ _ _ (by decide) (by decide!)
            (TopRun.done 16 _ rfl)))),
    by decide, rfl, by decide!⟩

/-- C17 fails for the code in its last part: `enum { A }` on line 1 is followed
by `const b = 2 ;` on line 2, and `parse_enum` looks for an optional `;` before
it returns, which lexes the token `const` and pushes it back. The state in which
`Process()` is called on the enum has the lexer on line 2, the tokens of line 2
pushed back; a `Process()` that records the line of the lexer records line 2 for
the enum of line 1. -/
theorem process_after_lookahead :
    (parse_toplevel sample_lists const_externals stub_top 19 (init_state c17_enum_tokens)).map
        (fun r => (r.1, r.2.fline, r.2.rest)) =
      some (some c17_enum, 2, c17_enum_tokens.drop 4) ∧
    (parse sample_lists const_externals line_top 20 (init_state c17_enum_tokens)).map
        (fun r => (r.1, r.2.errors)) =
      some ([c17_enum, c17_const], [1002, 1002]) :=
  ⟨by decide!, by decide!⟩

/-- The tag switch of `parse_const`, entered after the first token of the entry
has been read. -/
theorem ConstTag.tag_run (E : Externals) (s sT : ParserState) (tag : Int)
    (h : ConstTag E s tag sT) :
    (do
      if s.peekTok.id = TokenKind.tINT ∨ s.peekTok.id = TokenKind.tOBJECT ∨
          s.peekTok.id = TokenKind.tCHAR then
        liftE (E.parse_new_typename1 s.peekTok)
      else if s.peekTok.id = TokenKind.tLABEL then
        return E.pc_addtag s.peekTok.str
      else if s.peekTok.id = TokenKind.tSYMBOL then
        if (← lexpeek TokenKind.tSYMBOL) then
          liftE (E.parse_new_typename1 s.peekTok)
        else
          lexpush
          return 0
      else
        error 122
        return 0 : P Int) s.adv = some (tag, sT) := by
  cases h
  case label hl =>
    exact run_ite_neg (by rw [hl]; decide) (run_ite_pos hl (run_pure rfl rfl))
  case plain h1 h2 =>
    exact run_ite_neg (by rw [h1]; decide) (run_ite_neg (by rw [h1]; decide)
      (run_ite_pos h1 (run_bind (lexpeek_run _ _) (run_ite_neg (by simpa using h2)
        (run_bind (lexpush_run _) (run_pure rfl rfl))))))
  case keyword h1 =>
    exact run_ite_pos h1 (liftE_run _ _)
  case typename h1 h2 =>
    exact run_ite_neg (by rw [h1]; decide) (run_ite_neg (by rw [h1]; decide)
      (run_ite_pos h1 (run_bind (lexpeek_run _ _) (run_ite_pos (by simpa using h2)
        (liftE_run _ _)))))

/-- One turn of the loop of `parse_const` on a well-formed entry, up to the
look for a comma. -/
theorem ConstEntry.turn (E : Externals) (vclass : StorageClass) (s sE : ParserState) (d : Stmt)
    (h : ConstEntry E vclass s d sE) (n : Nat) (decl : Option Stmt)
    (list : Option (token_pos_t × List Stmt)) :
    parse_const_loop E vclass (n + 1) decl list s =
      (do
        if (← matchtoken TokenKind.ch_comma) then
          parse_const_loop E vclass n (const_push (decl, list) d).1 (const_push (decl, list) d).2
        else return const_push (decl, list) d :
          P (Option Stmt × Option (token_pos_t × List Stmt))) sE := by
  cases h
  case mk sT tag ht hn ha =>
    conv => lhs; unfold parse_const_loop
    refine run_bind (current_pos_run _) ?_
    refine run_bind (lextok_run _) ?_
    refine run_bind (ConstTag.tag_run E s sT tag ht) ?_
    refine run_bind (needsymbol_hit _ hn) ?_
    refine run_bind (needtoken_hit _ _ ha) ?_
    refine run_bind (liftE_run _ _) ?_
    cases decl with
    | none => rfl
    | some first =>
      cases list with
      | none => rfl
      | some l => rfl

theorem ConstRun.const_loop (E : Externals) (vclass : StorageClass) :
    ∀ (s : ParserState) (ds : List Stmt) (s' : ParserState), ConstRun E vclass s ds s' →
      ∀ (fuel : Nat) (decl : Option Stmt) (list : Option (token_pos_t × List Stmt)),
        ds.length ≤ fuel →
        parse_const_loop E vclass fuel decl list s = some (ds.foldl const_push (decl, list), s') := by
  intro s ds s' h
  induction h with
  | last s sE d h1 h2 =>
    intro fuel decl list hf
    cases fuel with
    | zero => simp at hf
    | succ n =>
      rw [ConstEntry.turn E vclass s sE d h1]
      refine run_bind (matchtoken_miss _ _ h2 (by decide)) ?_
      rfl
  | more s sE s' d ds h1 h2 _ ih =>
    intro fuel decl list hf
    cases fuel with
    | zero => simp at hf
    | succ n =>
      rw [ConstEntry.turn E vclass s sE d h1]
      refine run_bind (matchtoken_hit _ _ h2) ?_
      exact ih n _ _ (by simpa using hf)

theorem const_push_list (first : Stmt) (p : token_pos_t) :
    ∀ (ds l : List Stmt),
      ds.foldl const_push (some first, some (p, l)) = (some first, some (p, l ++ ds)) := by
  intro ds
  induction ds with
  | nil => intro l; simp
  | cons d ds ih =>
    intro l
    rw [List.foldl_cons]
    show ds.foldl const_push (some first, some (p, l ++ [d])) = _
    rw [ih]
    simp

/-- The bookkeeping of `parse_const` ends with the single declaration or with
the list of all of them. -/
theorem const_push_result (ds : List Stmt) :
    (match (ds.foldl const_push (none, none)).2 with
      | some l => some (Stmt.StmtList l.1 l.2)
      | none => (ds.foldl const_push (none, none)).1) = const_result ds := by
  cases ds with
  | nil => rfl
  | cons d1 ds =>
    cases ds with
    | nil => rfl
    | cons d2 ds =>
      rw [List.foldl_cons, List.foldl_cons]
      show (match (ds.foldl const_push (some d1, some (d2.pos, [d1, d2]))).2 with
        | some l => some (Stmt.StmtList l.1 l.2)
        | none => (ds.foldl const_push (some d1, some (d2.pos, [d1, d2]))).1) = _
      rw [const_push_list]
      rfl

theorem ConstRun.decls (E : Externals) (vclass : StorageClass) :
    ∀ (s : ParserState) (ds : List Stmt) (s' : ParserState), ConstRun E vclass s ds s' →
      1 ≤ ds.length ∧
      ∀ d ∈ ds, ∃ pos name type tag val,
        d = Stmt.ConstDecl pos name type vclass tag val ∧ type.is_const = true := by
  intro s ds s' h
  induction h with
  | last s sE d h1 h2 =>
    refine ⟨by simp, ?_⟩
    intro d' hd
    rw [List.mem_singleton] at hd
    subst hd
    cases h1
    exact ⟨_, _, _, _, _, rfl, rfl⟩
  | more s sE s' d ds h1 h2 _ ih =>
    refine ⟨by simp, ?_⟩
    intro d' hd
    rw [List.mem_cons] at hd
    rcases hd with hd | hd
    · subst hd
      cases h1
      exact ⟨_, _, _, _, _, rfl, rfl⟩
    · exact ih.2 d' hd

/-- C18: the entries of a `const` declaration. For `const` followed by the `n >= 1`
comma-separated entries `ds` (each `[tag:] name = const-expr`, its `ConstDecl`
carrying the name, a const type with the tag of the tag part, the storage class,
and the value and tag reported by `exprconst`) and the terminator, `parse_const`
returns the single `ConstDecl` when `n = 1` and the `StmtList` of the `n`
declarations in source order when `n >= 2`. -/
theorem parse_const_entries (E : Externals) (vclass : StorageClass) (fuel : Nat)
    (s s1 s2 : ParserState) (ds : List Stmt) (b : Bool)
    (hrun : ConstRun E vclass s ds s1) (hfuel : ds.length ≤ fuel)
    (hterm : needtoken tTERM s1 = some (b, s2)) :
    parse_const E fuel vclass s = some (const_result ds, s2) ∧
      1 ≤ ds.length ∧
      (∀ d, ds = [d] → const_result ds = some d) ∧
      (∀ d1 d2 rest, ds = d1 :: d2 :: rest → const_result ds = some (Stmt.StmtList d2.pos ds)) ∧
      (∀ d ∈ ds, ∃ pos name type tag val,
        d = Stmt.ConstDecl pos name type vclass tag val ∧ type.is_const = true) ∧
      ∀ (s0 sE : ParserState) (d : Stmt), ConstEntry E vclass s0 d sE →
        s0.peekTok.id = tLABEL →
        d = Stmt.ConstDecl (current_token s0).start s0.adv.peekTok.str
          { typeinfo_zero with tag := E.pc_addtag s0.peekTok.str, is_const := true } vclass
          (E.exprconst s0.adv.adv.adv).1.2.2 (E.exprconst s0.adv.adv.adv).1.2.1 := by
  obtain ⟨hlen, hall⟩ := ConstRun.decls E vclass s ds s1 hrun
  refine ⟨?_, hlen, ?_, ?_, hall, ?_⟩
  · unfold parse_const
    refine run_bind (ConstRun.const_loop E vclass s ds s1 hrun fuel none none hfuel) ?_
    refine run_bind hterm ?_
    have := const_push_result ds
    revert this
    cases (ds.foldl const_push (none, none)).2 with
    | none =>
      intro this
      simp only at this
      rw [← this]
      rfl
    | some l =>
      intro this
      simp only at this
      rw [← this]
      rfl
  · intro d hd
    rw [hd]
    rfl
  · intro d1 d2 rest hd
    rw [hd]
    rfl
  · intro s0 sE d he hl
    cases he
    case mk sT tag ht hn ha =>
      cases ht
      case label _ => rfl
      case plain h1 _ => rw [hl] at h1; exact absurd h1 (by decide)
      case keyword h1 =>
        rw [hl] at h1
        exact absurd h1 (by decide)
      case typename h1 _ => rw [hl] at h1; exact absurd h1 (by decide)

/-- Witness of C18: `const Float:pi = 314 ;` gives the `ConstDecl` of `pi` with the
tag of `Float`, the value 314 and a const type. -/
theorem parse_const_entries_witness :
    parse_toplevel sample_lists const_externals sample_top 21 (init_state c18_tokens) =
      some (some c18_pi, consumed_state c18_tokens 6) ∧
    const_externals.pc_addtag "Float" = 5 ∧
    (parse_const const_externals 20 StorageClass.sGLOBAL (consumed_state c18_tokens 1) =
        some (const_result [c18_pi], consumed_state c18_tokens 6) ∧
      1 ≤ [c18_pi].length ∧
      (∀ d, [c18_pi] = [d] → const_result [c18_pi] = some d) ∧
      (∀ d1 d2 rest, [c18_pi] = d1 :: d2 :: rest →
        const_result [c18_pi] = some (Stmt.StmtList d2.pos [c18_pi])) ∧
      (∀ d ∈ [c18_pi], ∃ pos name type tag val,
        d = Stmt.ConstDecl pos name type StorageClass.sGLOBAL tag val ∧ type.is_const = true) ∧
      ∀ (s0 sE : ParserState) (d : Stmt), ConstEntry const_externals StorageClass.sGLOBAL s0 d sE →
        s0.peekTok.id = tLABEL →
        d = Stmt.ConstDecl (current_token s0).start s0.adv.peekTok.str
          { typeinfo_zero with tag := const_externals.pc_addtag s0.peekTok.str, is_const := true }
          StorageClass.sGLOBAL
          (const_externals.exprconst s0.adv.adv.adv).1.2.2
          (const_externals.exprconst s0.adv.adv.adv).1.2.1) :=
  ⟨by decide!, by decide,
    parse_const_entries const_externals StorageClass.sGLOBAL 20 (consumed_state c18_tokens 1)
      (consumed_state c18_tokens 5).peeked (consumed_state c18_tokens 6) [c18_pi] true
      (ConstRun.last _ (consumed_state c18_tokens 5) _
        (ConstEntry.mk _ (consumed_state c18_tokens 2) 5 (ConstTag.label _ (by decide))
          (by decide) (by decide))
        (by decide))
      (by decide) (by decide!)⟩

theorem needtoken_total (k : TokenKind) (hk : k ≠ tTERM) (s : ParserState) :
    ∃ b s', needtoken k s = some (b, s') := by
  by_cases h : s.peekTok.id = k
  · exact ⟨_, _, needtoken_hit k s h⟩
  · exact ⟨_, _, needtoken_miss k s h hk⟩

/-- The message part of `parse_static_assert` always yields a result. -/
theorem static_assert_text_total (s : ParserState) :
    ∃ text s', (do
      if (← matchtoken TokenKind.ch_comma) then
        if (← needtoken TokenKind.tSTRING) then
          return some (current_token (← get)).str
        else
          return none
      else
        return none : P (Option String)) s = some (text, s') := by
  by_cases h : s.peekTok.id = ch_comma
  · by_cases h2 : s.adv.peekTok.id = tSTRING
    · exact ⟨_, _, run_bind (matchtoken_hit _ _ h) (run_ite_pos rfl
        (run_bind (needtoken_hit _ _ h2) (run_ite_pos rfl (run_bind (get_run _) rfl))))⟩
    · exact ⟨_, _, run_bind (matchtoken_hit _ _ h) (run_ite_pos rfl
        (run_bind (needtoken_miss _ _ h2 (by decide)) (run_ite_neg (by decide) rfl)))⟩
  · exact ⟨_, _, run_bind (matchtoken_miss _ _ h (by decide)) (run_ite_neg (by decide) rfl)⟩

/-- The end of `parse_static_assert`: the node depends on `is_const` alone. -/
theorem static_assert_tail (T : TopExternals) (pos : token_pos_t) (c : Bool) (val : Int)
    (text : Option String) (s s' : ParserState) (b : Bool)
    (h : needtoken ch_rparen s = some (b, s')) :
    (do
      let _ ← needtoken TokenKind.ch_rparen
      modify (T.require_newline TerminatorPolicy.NewlineOrSemicolon)
      if !c then
        return none
      else
        return some (Stmt.StaticAssertStmt pos val text) : P (Option Stmt)) s =
      some (if c then some (Stmt.StaticAssertStmt pos val text) else none,
        T.require_newline TerminatorPolicy.NewlineOrSemicolon s') := by
  refine run_bind h ?_
  refine run_bind (modify_run _ _) ?_
  cases c <;> rfl

/-- C19: `static_assert` and constness. After `static_assert`, with `exprconst`
reporting the flag `c` and the value `val` for the condition, `parse_static_assert`
always returns, and it returns a `StaticAssertStmt` at the position of the
keyword with the value `val` exactly when `c` is true, no node otherwise. For
`( cond )` the node has no text, for `( cond , "message" )` it has the text of
the string; in both cases the tokens up to `)` are consumed and
`require_newline` is applied whatever `c` is, and the production itself reports
no error: the state handed to `require_newline` holds the errors that
`exprconst` left. -/
theorem static_assert_node_iff_const (E : Externals) (T : TopExternals)
    (s sA sE : ParserState) (b0 c : Bool) (val tag : Int)
    (hA : needtoken ch_lparen s = some (b0, sA))
    (hexpr : E.exprconst sA = ((c, val, tag), sE)) :
    (∃ text s', parse_static_assert E T s =
      some (if c then some (Stmt.StaticAssertStmt (current_token s).start val text) else none,
        s')) ∧
    (sE.peekTok.id = ch_rparen →
      parse_static_assert E T s =
          some (if c then some (Stmt.StaticAssertStmt (current_token s).start val none)
            else none, T.require_newline TerminatorPolicy.NewlineOrSemicolon sE.adv) ∧
        sE.adv.errors = sE.errors) ∧
    (sE.peekTok.id = ch_comma → sE.adv.peekTok.id = tSTRING →
      sE.adv.adv.peekTok.id = ch_rparen →
      parse_static_assert E T s =
          some (if c then some (Stmt.StaticAssertStmt (current_token s).start val
              (some sE.adv.peekTok.str)) else none,
            T.require_newline TerminatorPolicy.NewlineOrSemicolon sE.adv.adv.adv) ∧
        sE.adv.adv.adv.errors = sE.errors) ∧
    (s.peekTok.id = ch_lparen → sA = s.adv ∧ sA.errors = s.errors) := by
  have hhead : ∀ (text : Option String) (s3 s4 : ParserState) (b : Bool),
      (do
        if (← matchtoken TokenKind.ch_comma) then
          if (← needtoken TokenKind.tSTRING) then
            return some (current_token (← get)).str
          else
            return none
        else
          return none : P (Option String)) sE = some (text, s3) →
      needtoken ch_rparen s3 = some (b, s4) →
      parse_static_assert E T s =
        some (if c then some (Stmt.StaticAssertStmt (current_token s).start val text) else none,
          T.require_newline TerminatorPolicy.NewlineOrSemicolon s4) := by
    intro text s3 s4 b h3 h4
    unfold parse_static_assert
    refine run_bind (current_pos_run _) ?_
    refine run_bind hA ?_
    refine run_bind (show liftE E.exprconst sA = some ((c, val, tag), sE) by
      rw [liftE_run, hexpr]) ?_
    dsimp only
    refine run_bind h3 ?_
    exact static_assert_tail T _ c val text s3 s4 b h4
  refine ⟨?_, ?_, ?_, ?_⟩
  · obtain ⟨text, s3, h3⟩ := static_assert_text_total sE
    obtain ⟨b, s4, h4⟩ := needtoken_total ch_rparen (by decide) s3
    exact ⟨text, _, hhead text s3 s4 b h3 h4⟩
  · intro hr
    refine ⟨?_, adv_errors _⟩
    have h3 := hhead none sE.peeked sE.peeked.adv true
      (run_bind (matchtoken_miss _ _ (by rw [hr]; decide) (by decide))
        (run_ite_neg (by decide) rfl))
      (needtoken_hit _ _ (by rw [peeked_peekTok]; exact hr))
    rw [peeked_adv] at h3
    exact h3
  · intro hc hs hr
    refine ⟨?_, by rw [adv_errors, adv_errors, adv_errors]⟩
    refine hhead _ sE.adv.adv sE.adv.adv.adv true ?_ (needtoken_hit _ _ hr)
    refine run_bind (matchtoken_hit _ _ hc) (run_ite_pos rfl
      (run_bind (needtoken_hit _ _ hs) (run_ite_pos rfl (run_bind (get_run _) ?_))))
    rw [adv_current]
    rfl
  · intro ho
    rw [needtoken_hit _ _ ho] at hA
    simp only [Option.some.injEq, Prod.mk.injEq] at hA
    rw [← hA.2]
    exact ⟨rfl, adv_errors _⟩

/-- Witness of C19: `static_assert ( 1 , "msg" ) ;` gives the node with the value 1
and the text, `static_assert ( x ) ;` gives no node, reports nothing and is
consumed as well. -/
theorem static_assert_node_iff_const_witness :
    parse_toplevel sample_lists const_externals sample_top 21 (init_state c19_tokens) =
      some (some (Stmt.StaticAssertStmt ⟨1, 0⟩ 1 (some "msg")), consumed_state c19_tokens 7) ∧
    parse_toplevel sample_lists const_externals sample_top 21 (init_state c19_var_tokens) =
      some (none, consumed_state c19_var_tokens 5) ∧
    (consumed_state c19_var_tokens 5).errors = [] ∧
    parse_static_assert const_externals sample_top (consumed_state c19_var_tokens 1) =
      some (if false then some (Stmt.StaticAssertStmt
          (current_token (consumed_state c19_var_tokens 1)).start 0 none) else none,
        sample_top.require_newline TerminatorPolicy.NewlineOrSemicolon
          (consumed_state c19_var_tokens 3).adv) ∧
    parse_static_assert const_externals sample_top (consumed_state c19_tokens 1) =
      some (if true then some (Stmt.StaticAssertStmt
          (current_token (consumed_state c19_tokens 1)).start 1
          (some (consumed_state c19_tokens 3).adv.peekTok.str)) else none,
        sample_top.require_newline TerminatorPolicy.NewlineOrSemicolon
          (consumed_state c19_tokens 3).adv.adv.adv) :=
  ⟨by decide!, by decide!, rfl,
    ((static_assert_node_iff_const const_externals sample_top (consumed_state c19_var_tokens 1)
      (consumed_state c19_var_tokens 2) (consumed_state c19_var_tokens 3) true false 0 7
      (by decide!) (by decide!)).2.1 (by decide)).1,
    ((static_assert_node_iff_const const_externals sample_top (consumed_state c19_tokens 1)
      (consumed_state c19_tokens 2) (consumed_state c19_tokens 3) true true 1 7
      (by decide!) (by decide!)).2.2.1 (by decide) (by decide) (by decide)).1⟩

theorem needsymbol_miss (s : ParserState) (h : s.peekTok.id ≠ tSYMBOL) :
    needsymbol s = some (none, s.peeked.report 1) := by
  unfold needsymbol
  refine run_bind (needtoken_miss _ _ h (by decide)) ?_
  rfl

theorem parse_using_validate_ok (s : ParserState) (h : using_handle s) :
    parse_using_validate s = some (true, s.adv.adv.adv) := by
  obtain ⟨h1, h2, h3, h4, h5⟩ := h
  unfold parse_using_validate
  refine run_bind (needsymbol_hit _ h1) ?_
  dsimp only
  refine run_ite_neg (by rw [h2]; decide) ?_
  refine run_bind (needtoken_hit _ _ h3) ?_
  refine run_ite_neg (by decide) ?_
  refine run_bind (needsymbol_hit _ h4) ?_
  dsimp only
  refine run_ite_neg (by rw [h5]; decide) ?_
  rfl

theorem parse_using_validate_fail (s : ParserState) (h : ¬ using_handle s) :
    ∃ sv, parse_using_validate s = some (false, sv) := by
  unfold parse_using_validate
  by_cases h1 : s.peekTok.id = tSYMBOL
  · by_cases h2 : s.peekTok.str = "__intrinsics__"
    · by_cases h3 : s.adv.peekTok.id = ch_dot
      · by_cases h4 : s.adv.adv.peekTok.id = tSYMBOL
        · by_cases h5 : s.adv.adv.peekTok.str = "Handle"
          · exact absurd ⟨h1, h2, h3, h4, h5⟩ h
          · exact ⟨_, run_bind (needsymbol_hit _ h1) (run_ite_neg (by rw [h2]; decide)
              (run_bind (needtoken_hit _ _ h3) (run_ite_neg (by decide)
                (run_bind (needsymbol_hit _ h4) (run_ite_pos h5
                  (run_bind (error_run _ _) rfl))))))⟩
        · exact ⟨_, run_bind (needsymbol_hit _ h1) (run_ite_neg (by rw [h2]; decide)
            (run_bind (needtoken_hit _ _ h3) (run_ite_neg (by decide)
              (run_bind (needsymbol_miss _ h4) rfl))))⟩
      · exact ⟨_, run_bind (needsymbol_hit _ h1) (run_ite_neg (by rw [h2]; decide)
          (run_bind (needtoken_miss _ _ h3 (by decide)) (run_ite_pos rfl rfl)))⟩
    · exact ⟨_, run_bind (needsymbol_hit _ h1) (run_ite_pos h2 (run_bind (error_run _ _) rfl))⟩
  · exact ⟨_, run_bind (needsymbol_miss _ h1) rfl⟩

/-- C20: `using`. After the token `using`, `parse_using` returns the `UsingDecl` at
the position of the keyword, with `require_newline` applied after the three
tokens, when these are the identifier `__intrinsics__`, a dot and the identifier
`Handle`; for every other token sequence it returns an `ErrorDecl` and drops the
rest of the line from the state in which the validation failed. It returns a
`UsingDecl` in the first case only. -/
theorem parse_using_handle_only (T : TopExternals) (s : ParserState) :
    (using_handle s →
      parse_using T s =
        some (Stmt.UsingDecl (current_token s).start,
          T.require_newline TerminatorPolicy.Semicolon s.adv.adv.adv)) ∧
    (¬ using_handle s →
      ∃ sv, parse_using_validate s = some (false, sv) ∧
        parse_using T s = some (Stmt.ErrorDecl, sv.dropLine) ∧
        sv.dropLine.rest = sv.rest.dropWhile fun t => decide (t.start.line = sv.fline)) ∧
    ((∃ pos s', parse_using T s = some (Stmt.UsingDecl pos, s')) ↔ using_handle s) := by
  have hok : using_handle s →
      parse_using T s =
        some (Stmt.UsingDecl (current_token s).start,
          T.require_newline TerminatorPolicy.Semicolon s.adv.adv.adv) := by
    intro h
    unfold parse_using
    refine run_bind (current_pos_run _) ?_
    refine run_bind (parse_using_validate_ok s h) ?_
    refine run_ite_neg (by decide) ?_
    refine run_bind (modify_run _ _) ?_
    rfl
  have hfail : ¬ using_handle s →
      ∃ sv, parse_using_validate s = some (false, sv) ∧
        parse_using T s = some (Stmt.ErrorDecl, sv.dropLine) ∧
        sv.dropLine.rest = sv.rest.dropWhile fun t => decide (t.start.line = sv.fline) := by
    intro h
    obtain ⟨sv, hv⟩ := parse_using_validate_fail s h
    refine ⟨sv, hv, ?_, rfl⟩
    unfold parse_using
    refine run_bind (current_pos_run _) ?_
    refine run_bind hv ?_
    refine run_ite_pos rfl ?_
    refine run_bind (lexclr_run _) ?_
    rfl
  refine ⟨hok, hfail, ?_, ?_⟩
  · rintro ⟨pos, s', h⟩
    by_contra hn
    obtain ⟨sv, _, he, _⟩ := hfail hn
    rw [he] at h
    simp at h
  · intro h
    exact ⟨_, _, hok h⟩

/-- Witness of C20: `using __intrinsics__ . Handle ;` gives the `UsingDecl`;
`using __intrinsics__ . Other ;` gives an `ErrorDecl`, and the rest of the line
is dropped. -/
theorem parse_using_handle_only_witness :
    parse_toplevel sample_lists sample_externals sample_top 21 (init_state c20_tokens) =
      some (some (Stmt.UsingDecl ⟨1, 0⟩), consumed_state c20_tokens 5) ∧
    parse_using sample_top (consumed_state c20_other_tokens 1) =
      some (Stmt.ErrorDecl, ((consumed_state c20_other_tokens 4).report 156).dropLine) ∧
    ((consumed_state c20_other_tokens 4).report 156).dropLine.rest =
      [⟨ch_rbrace, 0, "", ⟨2, 0⟩⟩] ∧
    parse_using sample_top (consumed_state c20_tokens 1) =
      some (Stmt.UsingDecl (current_token (consumed_state c20_tokens 1)).start,
        sample_top.require_newline TerminatorPolicy.Semicolon
          (consumed_state c20_tokens 1).adv.adv.adv) ∧
    ∃ sv, parse_using_validate (consumed_state c20_other_tokens 1) = some (false, sv) ∧
      parse_using sample_top (consumed_state c20_other_tokens 1) =
        some (Stmt.ErrorDecl, sv.dropLine) ∧
      sv.dropLine.rest = sv.rest.dropWhile fun t => decide (t.start.line = sv.fline) :=
  ⟨by decide!, by decide!, by decide!,
    (parse_using_handle_only sample_top (consumed_state c20_tokens 1)).1 (by decide),
    (parse_using_handle_only sample_top (consumed_state c20_other_tokens 1)).2.1 (by decide)⟩

/-- The validation of `parse_using` fails with one call of `error`: error 156
for a wrong name, error 1 for a missing token; the report is added when no error
is pending. -/
theorem parse_using_validate_report (s : ParserState) (h : ¬ using_handle s) :
    ∃ sv, parse_using_validate s = some (false, sv) ∧
      sv.errors = s.errors ++
        (if s.errflag = true then [] else [if using_mismatch s then 156 else 1]) := by
  unfold parse_using_validate
  by_cases h1 : s.peekTok.id = tSYMBOL
  · by_cases h2 : s.peekTok.str = "__intrinsics__"
    · by_cases h3 : s.adv.peekTok.id = ch_dot
      · by_cases h4 : s.adv.adv.peekTok.id = tSYMBOL
        · by_cases h5 : s.adv.adv.peekTok.str = "Handle"
          · exact absurd ⟨h1, h2, h3, h4, h5⟩ h
          · have hm : using_mismatch s := Or.inr ⟨h1, h2, h3, h4, h5⟩
            refine ⟨_, run_bind (needsymbol_hit _ h1) (run_ite_neg (by rw [h2]; decide)
              (run_bind (needtoken_hit _ _ h3) (run_ite_neg (by decide)
                (run_bind (needsymbol_hit _ h4) (run_ite_pos h5
                  (run_bind (error_run _ _) rfl)))))), ?_⟩
            rw [if_pos hm, report_errors_latch _ (by decide), adv_errors, adv_errors,
              adv_errors, adv_errflag, adv_errflag, adv_errflag]
        · have hm : ¬ using_mismatch s := by
            rintro (⟨_, h'⟩ | ⟨_, _, _, h', _⟩)
            · exact h' h2
            · exact h4 h'
          refine ⟨_, run_bind (needsymbol_hit _ h1) (run_ite_neg (by rw [h2]; decide)
            (run_bind (needtoken_hit _ _ h3) (run_ite_neg (by decide)
              (run_bind (needsymbol_miss _ h4) rfl)))), ?_⟩
          rw [if_neg hm, report_errors_latch _ (by decide), peeked_errors, adv_errors,
            adv_errors, peeked_errflag, adv_errflag, adv_errflag]
      · have hm : ¬ using_mismatch s := by
          rintro (⟨_, h'⟩ | ⟨_, _, h', _, _⟩)
          · exact h' h2
          · exact h3 h'
        refine ⟨_, run_bind (needsymbol_hit _ h1) (run_ite_neg (by rw [h2]; decide)
          (run_bind (needtoken_miss _ _ h3 (by decide)) (run_ite_pos rfl rfl))), ?_⟩
        rw [if_neg hm, report_errors_latch _ (by decide), peeked_errors, adv_errors,
          peeked_errflag, adv_errflag]
    · have hm : using_mismatch s := Or.inl ⟨h1, h2⟩
      refine ⟨_, run_bind (needsymbol_hit _ h1) (run_ite_pos h2 (run_bind (error_run _ _) rfl)),
        ?_⟩
      rw [if_pos hm, report_errors_latch _ (by decide), adv_errors, adv_errflag]
  · have hm : ¬ using_mismatch s := by
      rintro (⟨h', _⟩ | ⟨h', _⟩)
      · exact h1 h'
      · exact h1 h'
    refine ⟨_, run_bind (needsymbol_miss _ h1) rfl, ?_⟩
    rw [if_neg hm, report_errors_latch _ (by decide), peeked_errors, peeked_errflag]

theorem parse_enum_loop_turn (E : Externals) (h14 : P Expr) (n : Nat)
    (fields : List (token_pos_t × String × Option Expr)) (s : ParserState)
    (h : s.peekTok.id ≠ ch_rbrace) :
    parse_enum_loop E h14 (n + 1) fields s =
      (do
        let f ← parse_enum_field E h14
        let fields :=
          match f with
          | some x => fields ++ [x]
          | none => fields
        if (← matchtoken TokenKind.ch_comma) then parse_enum_loop E h14 n fields
        else return fields : P (List (token_pos_t × String × Option Expr))) s.peeked := by
  conv => lhs; unfold parse_enum_loop
  refine run_bind (matchtoken_miss _ _ h (by decide)) ?_
  refine run_ite_neg (by decide) ?_
  unfold parse_enum_field
  simp only [bind_assoc, pure_bind]
  refine congrFun ?_ _
  refine bind_congr fun x => ?_
  cases x <;> simp only [Bool.false_eq_true, if_false, if_true, bind_assoc, pure_bind]
  all_goals
    try refine bind_congr (x := error 153) fun _ => ?_
    refine bind_congr fun field_name => ?_
    refine bind_congr fun pos => ?_
    refine bind_congr fun y => ?_
    cases y <;> simp only [Bool.false_eq_true, if_false, if_true, bind_assoc, pure_bind]
    all_goals
      try refine bind_congr (x := error 153) fun _ => ?_
      try refine bind_congr (x := liftE E.exprconst) fun _ => ?_
      try refine bind_congr (x := needtoken ch_rbracket) fun _ => ?_
      refine bind_congr fun z => ?_
      cases z <;> simp only [Bool.false_eq_true, if_false, if_true, bind_assoc, pure_bind]
      all_goals
        try refine bind_congr (x := h14) fun _ => ?_
        cases field_name <;> simp only [pure_bind]

theorem EnumRun.enum_loop (E : Externals) (h14 : P Expr) :
    ∀ (s : ParserState) (fs : List (Option (token_pos_t × String × Option Expr)))
      (s' : ParserState), EnumRun E h14 s fs s' →
      ∀ (fuel : Nat) (acc : List (token_pos_t × String × Option Expr)), fs.length < fuel →
        parse_enum_loop E h14 fuel acc s = some (acc ++ fs.reduceOption, s') := by
  intro s fs s' h
  induction h with
  | close s h1 =>
    intro fuel acc hf
    cases fuel with
    | zero => simp at hf
    | succ n =>
      unfold parse_enum_loop
      refine run_bind (matchtoken_hit _ _ h1) ?_
      refine run_ite_pos rfl ?_
      refine run_bind (lexpush_run _) ?_
      simp
  | last s s1 f h1 h2 h3 =>
    intro fuel acc hf
    cases fuel with
    | zero => simp at hf
    | succ n =>
      rw [parse_enum_loop_turn E h14 n acc s h1]
      refine run_bind h2 ?_
      refine run_bind (matchtoken_miss _ _ h3 (by decide)) ?_
      cases f <;> simp [List.reduceOption_cons_of_none, List.reduceOption_cons_of_some]
  | more s s1 s' f fs h1 h2 h3 _ ih =>
    intro fuel acc hf
    cases fuel with
    | zero => simp at hf
    | succ n =>
      rw [parse_enum_loop_turn E h14 n acc s h1]
      refine run_bind h2 ?_
      refine run_bind (matchtoken_hit _ _ h3) ?_
      have hlen : fs.length < n := by simpa using hf
      cases f with
      | none =>
        have := ih n acc hlen
        simpa [List.reduceOption_cons_of_none] using this
      | some x =>
        have := ih n (acc ++ [x]) hlen
        simpa [List.reduceOption_cons_of_some] using this

theorem EnumRun.errors_of_close (E : Externals) (h14 : P Expr) (s s' : ParserState)
    (fs : List (Option (token_pos_t × String × Option Expr))) (h : EnumRun E h14 s fs s')
    (hc : s.peekTok.id = ch_rbrace) : fs = [] ∧ s' = s.peeked := by
  cases h
  case close => exact ⟨rfl, rfl⟩
  case last => exact absurd hc (by assumption)
  case more => exact absurd hc (by assumption)

theorem enum_optional_errors (k : TokenKind) (s : ParserState) :
    (enum_optional k s).2.errors = s.errors := by
  unfold enum_optional
  split
  · exact adv_errors _
  · exact peeked_errors _

section run
variable {α : Type}
/-- The head of `parse_enum`: the label and the name are read the same way. -/
theorem enum_optional_jp (k : TokenKind) (f : Option String → P α) (s : ParserState) :
    (do
      let tok ← lex
      let label ← (do
        if tok.id = k then return some tok.str
        else
          lexpush
          return none)
      f label : P α) s = f (enum_optional k s).1 (enum_optional k s).2 := by
  unfold enum_optional
  refine run_bind (lex_run _) ?_
  by_cases h : s.peekTok.id = k
  · simp only [if_pos h]
    rfl
  · simp only [if_neg h]
    rfl
end run

section tr
variable {α : Type}
theorem Tr.of_run {m : P α} {s s1 : ParserState} {a : α} {Q : α → ParserState → Prop}
    (h : m s = some (a, s1)) (hq : Q a s1) : Tr m s Q := by
  intro b s' hb
  rw [h] at hb
  simp only [Option.some.injEq, Prod.mk.injEq] at hb
  rw [← hb.1, ← hb.2]
  exact hq
end tr

/-- A field that starts with an identifier is pushed under that name, whatever
follows; nothing is pushed for a field that starts with neither an identifier
nor a label. -/
theorem parse_enum_field_named (E : Externals) (h14 : P Expr) (s : ParserState)
    (hl : s.peekTok.id ≠ tLABEL) :
    Tr (parse_enum_field E h14) s fun f _ =>
      (s.peekTok.id = tSYMBOL → ∃ value, f = some (s.peekTok.start, s.peekTok.str, value)) ∧
        (s.peekTok.id ≠ tSYMBOL → f = none) := by
  unfold parse_enum_field
  refine Tr.tr_bind (R := fun b s1 => b = false ∧ s1 = s.peeked)
    (Tr.of_run (matchtoken_miss _ _ hl (by decide)) ⟨rfl, rfl⟩) fun b s1 hb => ?_
  obtain ⟨rfl, rfl⟩ := hb
  simp only [Bool.false_eq_true, if_false]
  refine Tr.tr_bind (R := fun _ s1 => s1 = s.peeked) (Tr.of_run (pure_run _ _) rfl)
    fun _ s1 hs1 => ?_
  subst hs1
  by_cases hs : s.peekTok.id = tSYMBOL
  · refine Tr.tr_bind (R := fun n s1 => n = some s.peekTok.str ∧ s1 = s.adv)
      (Tr.of_run (needsymbol_hit _ (by rw [peeked_peekTok]; exact hs))
        ⟨by rw [peeked_peekTok], peeked_adv _⟩) fun n s1 hn => ?_
    obtain ⟨rfl, rfl⟩ := hn
    refine Tr.tr_bind (R := fun p _ => p = s.peekTok.start)
      (Tr.of_run (current_pos_run _) (by rw [adv_current])) fun p s1 hp => ?_
    subst hp
    refine Tr.tr_bind (Tr.tr_any _ _) fun _ s2 _ => ?_
    dsimp only
    split <;>
      repeat (first
        | exact Tr.tr_pure ⟨fun _ => ⟨_, rfl⟩, fun h => absurd hs h⟩
        | refine Tr.tr_bind (Tr.tr_any _ _) fun _ _ _ => ?_)
  · refine Tr.tr_bind (R := fun n _ => n = none)
      (Tr.of_run (needsymbol_miss _ (by rw [peeked_peekTok]; exact hs)) rfl) fun n s1 hn => ?_
    subst hn
    refine Tr.tr_bind (Tr.tr_any _ _) fun p s1 _ => ?_
    refine Tr.tr_bind (Tr.tr_any _ _) fun _ s2 _ => ?_
    dsimp only
    split <;>
      repeat (first
        | exact Tr.tr_pure ⟨fun h => absurd h hs, fun _ => rfl⟩
        | refine Tr.tr_bind (Tr.tr_any _ _) fun _ _ _ => ?_)

/-- C22: the fields of an enum. For `enum [Label:] [Name] {` and a field list
that the loop of `parse_enum` runs through with the results `fs` up to the
closing brace, `parse_enum` returns the `EnumDecl` at the position of `enum`
with the label, the name, increment and multiplier 1, and exactly the named
fields of `fs` in source order. When the `}` follows the `{` at once the
fields list is empty and nothing is reported. -/
theorem parse_enum_fields (E : Externals) (h14 : P Expr) (fuel : Nat) (vclass : StorageClass)
    (s s1 s2 sL : ParserState) (label name : Option String)
    (fs : List (Option (token_pos_t × String × Option Expr)))
    (hlabel : enum_optional tLABEL s = (label, s1))
    (hname : enum_optional tSYMBOL s1 = (name, s2))
    (hopen : s2.peekTok.id = ch_lbrace)
    (hrun : EnumRun E h14 s2.adv fs sL) (hfuel : fs.length < fuel)
    (hclose : sL.peekTok.id = ch_rbrace) :
    parse_enum E h14 fuel vclass s =
        some (Stmt.EnumDecl (current_token s).start vclass label name 1 1 fs.reduceOption,
          sL.adv.skipSemicolon) ∧
      (s2.adv.peekTok.id = ch_rbrace →
        fs = [] ∧ sL.adv.skipSemicolon.errors = s.errors) ∧
      ∀ (s0 : ParserState), s0.peekTok.id ≠ tLABEL →
        Tr (parse_enum_field E h14) s0 fun f _ =>
          (s0.peekTok.id = tSYMBOL →
            ∃ value, f = some (s0.peekTok.start, s0.peekTok.str, value)) ∧
          (s0.peekTok.id ≠ tSYMBOL → f = none) := by
  refine ⟨?_, ?_, fun s0 h0 => parse_enum_field_named E h14 s0 h0⟩
  · unfold parse_enum
    refine run_bind (current_pos_run _) ?_
    refine (enum_optional_jp tLABEL _ _).trans ?_
    rw [hlabel]
    refine (enum_optional_jp tSYMBOL _ _).trans ?_
    rw [hname]
    refine run_bind (run_bind (matchtoken_miss _ _ (by rw [hopen]; decide) (by decide))
      (run_ite_neg (by decide) (run_pure rfl rfl))) ?_
    refine run_bind (needtoken_hit _ _ (by rw [peeked_peekTok]; exact hopen)) ?_
    rw [peeked_adv]
    refine run_bind (EnumRun.enum_loop E h14 _ fs sL hrun fuel [] hfuel) ?_
    refine run_bind (needtoken_hit _ _ hclose) ?_
    rw [bind_run, matchtoken_run _ (by decide)]
    simp [ParserState.skipSemicolon, Option.bind]
  · intro hc
    obtain ⟨hfs, hsL⟩ := EnumRun.errors_of_close E h14 _ sL fs hrun hc
    refine ⟨hfs, ?_⟩
    have e1 : s1.errors = s.errors := by
      have := enum_optional_errors tLABEL s
      rw [hlabel] at this
      exact this
    have e2 : s2.errors = s1.errors := by
      have := enum_optional_errors tSYMBOL s1
      rw [hname] at this
      exact this
    unfold ParserState.skipSemicolon
    split
    · rw [adv_errors, adv_errors, hsL, peeked_errors, adv_errors, e2, e1]
    · rw [peeked_errors, adv_errors, hsL, peeked_errors, adv_errors, e2, e1]

/-- Witness of C22: `enum Color { } ;` gives the `EnumDecl` without fields and no
error; `enum { A , B = 2 } ;` gives the two fields in source order. -/
theorem parse_enum_fields_witness :
    parse_toplevel sample_lists sample_externals sample_top 21 (init_state c22_tokens) =
      some (some (Stmt.EnumDecl ⟨1, 0⟩ StorageClass.sGLOBAL none (some "Color") 1 1 []),
        consumed_state c22_tokens 5) ∧
    (consumed_state c22_tokens 5).errors = [] ∧
    parse_toplevel sample_lists sample_externals sample_top 21 (init_state c22_pair_tokens) =
      some (some (Stmt.EnumDecl ⟨1, 0⟩ StorageClass.sGLOBAL none none 1 1
        [(⟨1, 2⟩, "A", none), (⟨1, 4⟩, "B", some (.NumberExpr ⟨1, 6⟩ 2))]),
        consumed_state c22_pair_tokens 9) ∧
    parse_enum sample_externals (hier14 sample_lists sample_externals 20) 20
        StorageClass.sGLOBAL (consumed_state c22_tokens 1) =
      some (Stmt.EnumDecl (current_token (consumed_state c22_tokens 1)).start
        StorageClass.sGLOBAL none (some "Color") 1 1
        ([] : List (Option (token_pos_t × String × Option Expr))).reduceOption,
        (consumed_state c22_tokens 3).peeked.adv.skipSemicolon) ∧
    ((consumed_state c22_tokens 2).adv.peekTok.id = ch_rbrace →
      ([] : List (Option (token_pos_t × String × Option Expr))) = [] ∧
        (consumed_state c22_tokens 3).peeked.adv.skipSemicolon.errors =
          (consumed_state c22_tokens 1).errors) :=
  ⟨by decide!, rfl, by decide!,
    (parse_enum_fields sample_externals (hier14 sample_lists sample_externals 20) 20
      StorageClass.sGLOBAL (consumed_state c22_tokens 1) (consumed_state c22_tokens 1)
      (consumed_state c22_tokens 2) (consumed_state c22_tokens 3).peeked none (some "Color") []
      (by decide!) (by decide!) (by decide) (EnumRun.close _ (by decide)) (by decide)
      (by decide)).1,
    (parse_enum_fields sample_externals (hier14 sample_lists sample_externals 20) 20
      StorageClass.sGLOBAL (consumed_state c22_tokens 1) (consumed_state c22_tokens 1)
      (consumed_state c22_tokens 2) (consumed_state c22_tokens 3).peeked none (some "Color") []
      (by decide!) (by decide!) (by decide) (EnumRun.close _ (by decide)) (by decide)
      (by decide)).2.1⟩

theorem ElemRun.constant_elems (h14 : P Expr) :
    ∀ (s : ParserState) (es : List Expr) (sE : ParserState), ElemRun h14 s es sE →
      1 ≤ es.length ∧
      ∀ (fuel : Nat) (acc : List Expr),
        (es.length < fuel → sE.peekTok.id = ch_comma → sE.adv.peekTok.id = tELLIPS →
          constant_loop h14 fuel acc s = some ((acc ++ es, true), sE.adv.adv)) ∧
        (es.length ≤ fuel → sE.peekTok.id ≠ ch_comma →
          constant_loop h14 fuel acc s = some ((acc ++ es, false), sE.peeked)) := by
  intro s es sE h
  induction h with
  | one s s1 e h1 _ h2 =>
    refine ⟨by simp, fun fuel acc => ⟨?_, ?_⟩⟩
    · intro hf hc he
      cases fuel with
      | zero => simp at hf
      | succ n =>
        cases n with
        | zero => simp at hf
        | succ m =>
          unfold constant_loop
          refine run_bind (matchtoken_miss _ _ h1 (by decide)) ?_
          refine run_ite_neg (by decide) ?_
          refine run_bind h2 ?_
          refine run_bind (matchtoken_hit _ _ hc) ?_
          refine run_ite_pos rfl ?_
          unfold constant_loop
          refine run_bind (matchtoken_hit _ _ he) ?_
          rfl
    · intro hf hc
      cases fuel with
      | zero => simp at hf
      | succ n =>
        unfold constant_loop
        refine run_bind (matchtoken_miss _ _ h1 (by decide)) ?_
        refine run_ite_neg (by decide) ?_
        refine run_bind h2 ?_
        refine run_bind (matchtoken_miss _ _ hc (by decide)) ?_
        rfl
  | more s s1 s' e es h1 _ h2 h3 _ ih =>
    refine ⟨by simp, fun fuel acc => ?_⟩
    have hstep : ∀ n, constant_loop h14 (n + 1) acc s = constant_loop h14 n (acc ++ [e]) s1.adv := by
      intro n
      conv => lhs; unfold constant_loop
      refine run_bind (matchtoken_miss _ _ h1 (by decide)) ?_
      refine run_ite_neg (by decide) ?_
      refine run_bind h2 ?_
      refine run_bind (matchtoken_hit _ _ h3) ?_
      rfl
    constructor
    · intro hf hc he
      cases fuel with
      | zero => simp at hf
      | succ n =>
        rw [hstep]
        have := (ih.2 n (acc ++ [e])).1 (by simpa using hf) hc he
        simpa using this
    · intro hf hc
      cases fuel with
      | zero => simp at hf
      | succ n =>
        rw [hstep]
        have := (ih.2 n (acc ++ [e])).2 (by simpa using hf) hc
        simpa using this

theorem ElemRun.var_init_elems (vi : P Expr) :
    ∀ (s : ParserState) (es : List Expr) (sE : ParserState), ElemRun vi s es sE →
      ∀ (fuel : Nat) (acc : List Expr),
        (es.length < fuel → sE.peekTok.id = ch_comma → sE.adv.peekTok.id = tELLIPS →
          var_init_loop vi fuel acc s = some ((acc ++ es, true), sE.adv.adv)) ∧
        (es.length ≤ fuel → sE.peekTok.id ≠ ch_comma →
          var_init_loop vi fuel acc s = some ((acc ++ es, false), sE.peeked)) := by
  intro s es sE h
  induction h with
  | one s s1 e h1 h0 h2 =>
    refine fun fuel acc => ⟨?_, ?_⟩
    · intro hf hc he
      cases fuel with
      | zero => simp at hf
      | succ n =>
        cases n with
        | zero => simp at hf
        | succ m =>
          unfold var_init_loop
          refine run_bind (lexpeek_run _ _) ?_
          refine run_ite_neg (by simpa using h0) ?_
          refine run_bind (matchtoken_miss _ _ (by rw [peeked_peekTok]; exact h1) (by decide)) ?_
          refine run_ite_neg (by decide) ?_
          rw [peeked_peeked]
          refine run_bind h2 ?_
          refine run_bind (matchtoken_hit _ _ hc) ?_
          refine run_ite_pos rfl ?_
          unfold var_init_loop
          refine run_bind (lexpeek_run _ _) ?_
          refine run_ite_neg (by rw [he]; decide) ?_
          refine run_bind (matchtoken_hit _ _ (by rw [peeked_peekTok]; exact he)) ?_
          rw [peeked_adv]
          rfl
    · intro hf hc
      cases fuel with
      | zero => simp at hf
      | succ n =>
        unfold var_init_loop
        refine run_bind (lexpeek_run _ _) ?_
        refine run_ite_neg (by simpa using h0) ?_
        refine run_bind (matchtoken_miss _ _ (by rw [peeked_peekTok]; exact h1) (by decide)) ?_
        refine run_ite_neg (by decide) ?_
        rw [peeked_peeked]
        refine run_bind h2 ?_
        refine run_bind (matchtoken_miss _ _ hc (by decide)) ?_
        rfl
  | more s s1 s' e es h1 h0 h2 h3 _ ih =>
    intro fuel acc
    have hstep : ∀ n, var_init_loop vi (n + 1) acc s = var_init_loop vi n (acc ++ [e]) s1.adv := by
      intro n
      conv => lhs; unfold var_init_loop
      refine run_bind (lexpeek_run _ _) ?_
      refine run_ite_neg (by simpa using h0) ?_
      refine run_bind (matchtoken_miss _ _ (by rw [peeked_peekTok]; exact h1) (by decide)) ?_
      refine run_ite_neg (by decide) ?_
      rw [peeked_peeked]
      refine run_bind h2 ?_
      refine run_bind (matchtoken_hit _ _ h3) ?_
      rfl
    constructor
    · intro hf hc he
      cases fuel with
      | zero => simp at hf
      | succ n =>
        rw [hstep]
        have := (ih n (acc ++ [e])).1 (by simpa using hf) hc he
        simpa using this
    · intro hf hc
      cases fuel with
      | zero => simp at hf
      | succ n =>
        rw [hstep]
        have := (ih n (acc ++ [e])).2 (by simpa using hf) hc
        simpa using this

/-- C23: array literals with a trailing ellipsis. For a literal that starts with
`{` and the `n >= 1` elements `es`, `constant` returns an `ArrayExpr` at the
position of the brace whose elements are exactly `es` in source order: with the
ellipsis flag set when `, ...` and `}` follow the last element, and with the
flag not set when `}` follows it. `var_init`, with its own element parser, does
the same. -/
theorem array_literal_ellipsis (h14 : P Expr) (fuel : Nat) (s sE : ParserState)
    (es : List Expr) (hopen : s.peekTok.id = ch_lbrace)
    (hrun : ElemRun h14 s.adv es sE) (hfuel : es.length < fuel) :
    1 ≤ es.length ∧
      (sE.peekTok.id = ch_comma → sE.adv.peekTok.id = tELLIPS →
        sE.adv.adv.peekTok.id = ch_rbrace →
        constant h14 fuel s =
          some (Expr.ArrayExpr s.peekTok.start es true, sE.adv.adv.adv)) ∧
      (sE.peekTok.id = ch_rbrace →
        constant h14 fuel s = some (Expr.ArrayExpr s.peekTok.start es false, sE.adv)) ∧
      ∀ (vs : List Expr) (sV : ParserState),
        ElemRun (var_init h14 fuel) s.adv vs sV → vs.length < fuel →
        (sV.peekTok.id = ch_comma → sV.adv.peekTok.id = tELLIPS →
          sV.adv.adv.peekTok.id = ch_rbrace →
          var_init h14 (fuel + 1) s =
            some (Expr.ArrayExpr s.peekTok.start vs true, sV.adv.adv.adv)) ∧
        (sV.peekTok.id = ch_rbrace →
          var_init h14 (fuel + 1) s = some (Expr.ArrayExpr s.peekTok.start vs false, sV.adv)) := by
  obtain ⟨hlen, hloop⟩ := ElemRun.constant_elems h14 _ es sE hrun
  have hhead : ∀ (b : Bool) (s1 s2 : ParserState),
      constant_loop h14 fuel [] s.adv = some ((es, b), s1) → s1.peekTok.id = ch_rbrace →
      s2 = s1.adv →
      constant h14 fuel s = some (Expr.ArrayExpr s.peekTok.start es b, s2) := by
    intro b s1 s2 h1 h2 h3
    unfold constant
    refine run_bind (lex_run _) ?_
    refine run_bind (current_pos_run _) ?_
    iterate 4 refine run_ite_neg (by rw [hopen]; decide) ?_
    refine run_ite_pos hopen ?_
    refine run_bind h1 ?_
    refine run_bind (needtoken_hit _ _ h2) ?_
    rw [adv_current, h3]
    rfl
  have hvar : ∀ (vs : List Expr) (b : Bool) (s1 s2 : ParserState),
      var_init_loop (var_init h14 fuel) fuel [] s.adv = some ((vs, b), s1) →
      s1.peekTok.id = ch_rbrace → s2 = s1.adv →
      var_init h14 (fuel + 1) s = some (Expr.ArrayExpr s.peekTok.start vs b, s2) := by
    intro vs b s1 s2 h1 h2 h3
    unfold var_init
    refine run_bind (matchtoken_hit _ _ hopen) ?_
    refine run_ite_pos rfl ?_
    refine run_bind (current_pos_run _) ?_
    refine run_bind h1 ?_
    refine run_bind (needtoken_hit _ _ h2) ?_
    rw [adv_current, h3]
    rfl
  refine ⟨hlen, ?_, ?_, ?_⟩
  · intro hc he hr
    have := (hloop fuel []).1 hfuel hc he
    rw [List.nil_append] at this
    exact hhead true _ _ this hr rfl
  · intro hr
    have := (hloop fuel []).2 (Nat.le_of_lt hfuel) (by rw [hr]; decide)
    rw [List.nil_append] at this
    exact hhead false _ _ this (by rw [peeked_peekTok]; exact hr) (peeked_adv _).symm
  · intro vs sV hv hvf
    have hl := ElemRun.var_init_elems (var_init h14 fuel) _ vs sV hv fuel []
    constructor
    · intro hc he hr
      have := hl.1 hvf hc he
      rw [List.nil_append] at this
      exact hvar vs true _ _ this hr rfl
    · intro hr
      have := hl.2 (Nat.le_of_lt hvf) (by rw [hr]; decide)
      rw [List.nil_append] at this
      exact hvar vs false _ _ this (by rw [peeked_peekTok]; exact hr) (peeked_adv _).symm

/-- Witness of C23: `{ 1 , 2 , ... }` and `{ 1 , 2 }` give the same two elements,
the first with the ellipsis flag. -/
theorem array_literal_ellipsis_witness :
    hier14 sample_lists sample_externals 20 (init_state c23_tokens) =
      some (Expr.ArrayExpr ⟨1, 0⟩ c23_elems true, consumed_state c23_tokens 7) ∧
    var_init (hier14 sample_lists sample_externals 20) 20 (init_state c23_tokens) =
      some (Expr.ArrayExpr ⟨1, 0⟩ c23_elems true, consumed_state c23_tokens 7) ∧
    constant (hier14 sample_lists sample_externals 20) 20 (init_state c23_tokens) =
      some (Expr.ArrayExpr (init_state c23_tokens).peekTok.start c23_elems true,
        (consumed_state c23_tokens 4).adv.adv.adv) ∧
    constant (hier14 sample_lists sample_externals 20) 20 (init_state c23_plain_tokens) =
      some (Expr.ArrayExpr (init_state c23_plain_tokens).peekTok.start c23_elems false,
        (consumed_state c23_plain_tokens 4).adv) :=
  ⟨by decide!, by decide!,
    (array_literal_ellipsis (hier14 sample_lists sample_externals 20) 20
      (init_state c23_tokens) (consumed_state c23_tokens 4) c23_elems (by decide)
      (ElemRun.more _ (consumed_state c23_tokens 2) _ _ _ (by decide) (by decide) (by decide!)
        (by decide)
        (ElemRun.one _ (consumed_state c23_tokens 4) _ (by decide) (by decide) (by decide!)))
      (by decide)).2.1 (by decide) (by decide) (by decide),
    (array_literal_ellipsis (hier14 sample_lists sample_externals 20) 20
      (init_state c23_plain_tokens) (consumed_state c23_plain_tokens 4) c23_elems (by decide)
      (ElemRun.more _ (consumed_state c23_plain_tokens 2) _ _ _ (by decide) (by decide)
        (by decide!) (by decide)
        (ElemRun.one _ (consumed_state c23_plain_tokens 4) _ (by decide) (by decide)
          (by decide!)))
      (by decide)).2.2.1 (by decide)⟩

theorem afterAssign_errors (s : ParserState) :
    s.afterAssign.errors =
      s.errors ++ (if s.peekTok.id = ch_assign ∧ s.sc_intest = true then [211] else []) := by
  unfold ParserState.afterAssign
  split
  · rw [report_errors_warning _ (by decide), adv_errors]
  · rw [adv_errors]; simp

theorem adv_sc_intest (s : ParserState) : s.adv.sc_intest = s.sc_intest := by
  have := adv_flags s
  simp only [ParserState.flags, Prod.mk.injEq] at this
  exact this.2.1

theorem peeked_sc_intest (s : ParserState) : s.peeked.sc_intest = s.sc_intest := by
  have := peeked_flags s
  simp only [ParserState.flags, Prod.mk.injEq] at this
  exact this.2.1

/-- An assignment of single tokens in parentheses, parsed by `parse_expr(true)`. -/
theorem parse_expr_test_assign (L : OpLists) (E : Externals)
    (hL : ∀ l ∈ L.tables, tTERM ∉ l ∧ ch_rparen ∉ l ∧ ∀ k ∈ l, k ∉ assign_ops ∧ k ≠ ch_assign)
    (n fuel : Nat) (s : ParserState) (lp a op b rp : token_t) (r : List token_t)
    (hs : s.rest = lp :: a :: op :: b :: rp :: r) (hlp : lp.id = ch_lparen)
    (ha : a.id = tNUMBER ∨ a.id = tSYMBOL) (hop : op.id ∈ assign_ops ∨ op.id = ch_assign)
    (hb : b.id = tNUMBER ∨ b.id = tSYMBOL) (hrp : rp.id = ch_rparen) :
    ∃ s', parse_expr (hier14 L E (n + 5)) (fuel + 1) true s =
        some (Expr.BinaryExpr op.start op.id (operand a) (operand b), s') ∧
      s'.rest = r ∧
      s'.errors = s.errors ++ (if op.id = ch_assign then [211] else []) := by
  have hop' : after_operand op ∧ op.id ≠ ch_question ∧
      ∀ l ∈ L.tables, op.id ∉ l ∧ tTERM ∉ l := by
    refine ⟨?_, ?_, fun l hl => ⟨fun hm => ?_, (hL l hl).1⟩⟩
    · rcases hop with ho | ho
      · unfold after_operand
        intro hc'
        simp only [assign_ops, List.mem_cons, List.mem_singleton, List.not_mem_nil,
          or_false] at ho hc'
        rcases ho with ho | ho | ho | ho | ho | ho | ho | ho | ho | ho | ho <;>
          simp [ho] at hc'
      · simp [after_operand, ho]
    · rcases hop with ho | ho
      · intro hc'; rw [hc'] at ho; simp [assign_ops] at ho
      · simp [ho]
    · have := (hL l hl).2.2 _ hm
      rcases hop with ho | ho
      · exact this.1 ho
      · exact this.2 ho
  have hrp' : after_operand rp ∧ rp.id ≠ ch_question ∧ rp.id ∉ assign_ops ∧
      rp.id ≠ ch_assign ∧ ∀ l ∈ L.tables, rp.id ∉ l ∧ tTERM ∉ l := by
    refine ⟨by unfold after_operand; rw [hrp]; decide, by rw [hrp]; decide, by rw [hrp]; decide,
      by rw [hrp]; decide,
      fun l hl => ⟨by rw [hrp]; exact (hL l hl).2.1, (hL l hl).1⟩⟩
  -- the state after the parenthesis
  let sA := (set_sc_intest true s).adv
  have hsA : sA.rest = a :: op :: b :: rp :: r := by
    show (set_sc_intest true s).adv.rest = _
    rw [adv_rest]
    show s.rest.tail = _
    rw [hs]; rfl
  have q0 : sA.peekTok = a := peekTok_cons hsA
  have q1 : sA.adv.peekTok = op := peekTok_cons (adv_rest_cons hsA)
  have hA : sA.adv.peeked.afterAssign.rest = b :: rp :: r := by
    rw [afterAssign_rest, peeked_rest, adv_rest_cons hsA]; rfl
  have q2 : sA.adv.peeked.afterAssign.peekTok = b := peekTok_cons hA
  have q3 : sA.adv.peeked.afterAssign.adv.peekTok = rp := peekTok_cons (adv_rest_cons hA)
  have ea := hier13_operand L E (hier14 L E (n + 4)) (n + 1) sA (by rw [q0]; exact ha)
    (by rw [q1]; exact hop'.1) (by rw [q1]; exact hop'.2.1) (by rw [q1]; exact hop'.2.2)
  have eb := hier13_operand L E (hier14 L E (n + 3)) n sA.adv.peeked.afterAssign
    (by rw [q2]; exact hb) (by rw [q3]; exact hrp'.1) (by rw [q3]; exact hrp'.2.1)
    (by rw [q3]; exact hrp'.2.2.2.2)
  have rb := hier14_pass L E (n + 3) _ _ _ eb (peeked_peeked _)
    (by rw [peeked_peekTok, q3]; exact hrp'.2.2.1)
    (by rw [peeked_peekTok, q3]; exact hrp'.2.2.2.1)
  have ra := hier14_assign L E (n + 4) _ _ _ _ _ ea
    (by rw [peeked_peekTok, q1]; exact hop) rb
  simp only [peeked_peekTok, q0, q1, q2] at ra
  have hint : sA.adv.peeked.sc_intest = true := by
    rw [peeked_sc_intest, adv_sc_intest]
    show (set_sc_intest true s).adv.sc_intest = true
    rw [adv_sc_intest]; rfl
  refine ⟨set_sc_intest s.sc_intest sA.adv.peeked.afterAssign.adv.peeked.adv, ?_, ?_, ?_⟩
  · unfold parse_expr
    refine SaveAndSet_run (·.sc_intest) set_sc_intest true _ s _ _ ?_
    refine run_bind (needtoken_hit _ _ (by
      show (set_sc_intest true s).peekTok.id = ch_lparen
      rw [peekTok_cons (show (set_sc_intest true s).rest = _ from hs)]; exact hlp)) ?_
    refine run_bind (run_pure rfl rfl) ?_
    refine run_bind (?_ : parse_expr_loop (hier14 L E (n + 5)) (fuel + 1) none sA =
      some (Expr.BinaryExpr op.start op.id (operand a) (operand b),
        sA.adv.peeked.afterAssign.adv.peeked.peeked)) ?_
    · unfold parse_expr_loop
      refine run_bind ra ?_
      refine run_bind (matchtoken_miss _ _ (by rw [peeked_peekTok, q3, hrp]; decide)
        (by decide)) ?_
      rfl
    · refine run_bind (needtoken_hit _ _ (by
        rw [peeked_peekTok, peeked_peekTok, q3]; exact hrp)) ?_
      refine run_bind (run_pure rfl rfl) ?_
      rw [peeked_adv, peeked_adv]
      rfl
  · show sA.adv.peeked.afterAssign.adv.peeked.adv.rest = r
    rw [peeked_adv, adv_rest, adv_rest_cons hA]; rfl
  · show sA.adv.peeked.afterAssign.adv.peeked.adv.errors = _
    rw [adv_errors, peeked_errors, adv_errors, afterAssign_errors, peeked_errors, adv_errors,
      peeked_peekTok, q1, hint]
    show (set_sc_intest true s).adv.errors ++ _ = _
    rw [adv_errors]
    show s.errors ++ _ = _
    simp

/-- C24: `hier14` reports warning 211 exactly when the operator after its first operand is `=`
and `sc_intest` is true at that point; a compound assignment operator reports nothing; in both
cases the `BinaryExpr` is built from the right operand; any other token is pushed back and the
first operand returned; and an `=` directly inside the parenthesised condition that
`parse_expr(true)` parses for `if` and `while` reports 211, a compound assignment there
nothing. -/
theorem hier14_warning_211 (L : OpLists) (E : Externals)
    (hL : ∀ l ∈ L.tables, tTERM ∉ l ∧ ch_rparen ∉ l ∧ ∀ k ∈ l, k ∉ assign_ops ∧ k ≠ ch_assign)
    (n : Nat) (s s1 : ParserState) (node : Expr)
    (h : hier13 L E (hier14 L E n) n s = some (node, s1)) (hs : s1.peeked = s1) :
    ((s1.peekTok.id ∈ assign_ops ∨ s1.peekTok.id = ch_assign) →
        (211 ∈ s1.afterAssign.errors.drop s1.errors.length ↔
          s1.peekTok.id = ch_assign ∧ s1.sc_intest = true) ∧
        (s1.peekTok.id = ch_assign ∧ s1.sc_intest = true →
          s1.afterAssign = s1.adv.report 211) ∧
        (¬(s1.peekTok.id = ch_assign ∧ s1.sc_intest = true) → s1.afterAssign = s1.adv) ∧
        (s1.peekTok.id ∈ assign_ops → s1.afterAssign = s1.adv) ∧
        ∀ right s2, hier14 L E n s1.afterAssign = some (right, s2) →
          hier14 L E (n + 1) s =
            some (Expr.BinaryExpr s1.peekTok.start s1.peekTok.id node right, s2)) ∧
      (s1.peekTok.id ∉ assign_ops → s1.peekTok.id ≠ ch_assign →
        hier14 L E (n + 1) s = some (node, s1)) ∧
      ∀ (fuel : Nat) (t : ParserState) (lp a op b rp : token_t) (r : List token_t),
        t.rest = lp :: a :: op :: b :: rp :: r → lp.id = ch_lparen →
        (a.id = tNUMBER ∨ a.id = tSYMBOL) → (op.id ∈ assign_ops ∨ op.id = ch_assign) →
        (b.id = tNUMBER ∨ b.id = tSYMBOL) → rp.id = ch_rparen →
        ∃ t', parse_expr (hier14 L E (n + 5)) (fuel + 1) true t =
            some (Expr.BinaryExpr op.start op.id (operand a) (operand b), t') ∧
          t'.rest = r ∧
          t'.errors = t.errors ++ (if op.id = ch_assign then [211] else []) := by
  refine ⟨fun hop => ⟨?_, ?_, ?_, ?_, fun right s2 hr => hier14_assign L E n s s1 s2 node right h hop hr⟩,
    fun ha he => hier14_pass L E n s s1 node h hs ha he,
    fun fuel t lp a op b rp r ht hlp ha hop hb hrp =>
      parse_expr_test_assign L E hL n fuel t lp a op b rp r ht hlp ha hop hb hrp⟩
  · rw [afterAssign_errors, List.drop_left]
    split <;> simp [*]
  · intro hc
    unfold ParserState.afterAssign
    rw [if_pos hc]
  · intro hc
    unfold ParserState.afterAssign
    rw [if_neg hc]
  · intro hin
    unfold ParserState.afterAssign
    rw [if_neg]
    rintro ⟨hc, -⟩
    rw [hc] at hin
    simp [assign_ops] at hin


theorem hier14_warning_211_witness :
    (parse_stmt sample_lists sample_externals 20 none true (init_state c24_if_tokens)).map
        (fun x => (x.1, x.2.errors)) =
      some ((some (.IfStmt ⟨1, 0⟩ (c24_assign ch_assign)
        (.ExprStmt ⟨1, 6⟩ (.SymbolExpr ⟨1, 6⟩ "c")) none), none), [211]) ∧
    (parse_stmt sample_lists sample_externals 20 none true (init_state c24_while_tokens)).map
        (fun x => (x.1, x.2.errors)) =
      some ((some (.DoWhileStmt ⟨1, 0⟩ tWHILE (c24_assign ch_assign)
        (.ExprStmt ⟨1, 6⟩ (.SymbolExpr ⟨1, 6⟩ "c"))), none), [211]) ∧
    (parse_stmt sample_lists sample_externals 20 none true (init_state c24_add_tokens)).map
        (fun x => (x.1, x.2.errors)) =
      some ((some (.IfStmt ⟨1, 0⟩ (c24_assign taADD)
        (.ExprStmt ⟨1, 6⟩ (.SymbolExpr ⟨1, 6⟩ "c")) none), none), []) ∧
    (parse_stmt sample_lists sample_externals 20 none true (init_state c24_stmt_tokens)).map
        (fun x => x.2.errors) = some [] ∧
    (set_sc_intest true (consumed_state c24_if_tokens 2)).adv.peeked.afterAssign.errors = [211] ∧
    ∃ t', parse_expr (hier14 sample_lists sample_externals 8) 1 true
          (consumed_state c24_if_tokens 1) = some (c24_assign ch_assign, t') ∧
      t'.rest = [sym "c" 6, tk ch_semicolon 7] ∧ t'.errors = [211] :=
  ⟨by decide!, by decide!, by decide!, by decide!, by decide!,
    (hier14_warning_211 sample_lists sample_externals (by decide) 3
      (set_sc_intest true (consumed_state c24_if_tokens 2))
      (set_sc_intest true (consumed_state c24_if_tokens 2)).adv.peeked (.SymbolExpr ⟨1, 2⟩ "a")
      (by decide!) (peeked_peeked _)).2.2 0 (consumed_state c24_if_tokens 1) (tk ch_lparen 1)
      (sym "a" 2) (tk ch_assign 3) (sym "b" 4) (tk ch_rparen 5) _ rfl rfl (Or.inr rfl)
      (Or.inr rfl) (Or.inr rfl) rfl⟩

theorem guard_of_flags {s s' : ParserState} (h : s'.flags = s.flags) : s'.guard = s.guard := by
  simp only [ParserState.flags, Prod.mk.injEq] at h
  simp only [ParserState.guard, Prod.mk.injEq]
  exact ⟨h.2.2.2.2.2.1, h.2.1, h.2.2.1, h.2.2.2.2.1, h.2.2.2.1⟩

@[simp] theorem adv_guard (s : ParserState) : s.adv.guard = s.guard := guard_of_flags (adv_flags s)

@[simp] theorem peeked_guard (s : ParserState) : s.peeked.guard = s.guard :=
  guard_of_flags (peeked_flags s)

@[simp] theorem report_guard (s : ParserState) (c : Nat) : (s.report c).guard = s.guard :=
  guard_of_flags (report_flags s c)

@[simp] theorem unlex_guard (s : ParserState) : s.unlex.guard = s.guard := by
  unfold ParserState.unlex
  split <;> rfl

theorem guard_restore_intest (v : Bool) (s s' : ParserState)
    (h : s'.guard = (set_sc_intest v s).guard) :
    (set_sc_intest s.sc_intest s').guard = s.guard := by
  simp only [ParserState.guard, set_sc_intest, Prod.mk.injEq] at h ⊢
  simp [h.1, h.2.2]

theorem guard_restore_allowtags (v : Bool) (s s' : ParserState)
    (h : s'.guard = (set_sc_allowtags v s).guard) :
    (set_sc_allowtags s.sc_allowtags s').guard = s.guard := by
  simp only [ParserState.guard, set_sc_allowtags, Prod.mk.injEq] at h ⊢
  simp [h.1, h.2.1, h.2.2.2]

theorem guard_restore_in_loop (v : Bool) (s s' : ParserState)
    (h : s'.guard = (set_in_loop v s).guard) :
    (set_in_loop s.in_loop_ s').guard = s.guard := by
  simp only [ParserState.guard, set_in_loop, Prod.mk.injEq] at h ⊢
  simp [h.2]

theorem guard_restore_one_error (v : Bool) (s s' : ParserState)
    (h : s'.guard = (set_one_error v s).guard) :
    (set_one_error s.sc_one_error_per_statement s').guard = s.guard := by
  simp only [ParserState.guard, set_one_error, Prod.mk.injEq] at h ⊢
  simp [h.1, h.2.1, h.2.2.1, h.2.2.2.2]

section keeps
variable {α β : Type}

theorem Keeps.k_pure (a : α) : Keeps (pure a : P α) := by
  intro s b s' h
  simp only [pure_run, Option.some.injEq, Prod.mk.injEq] at h
  rw [← h.2]

theorem Keeps.k_bind {m : P α} {f : α → P β} (h1 : Keeps m) (h2 : ∀ a, Keeps (f a)) :
    Keeps (m >>= f) := by
  intro s b s' hb
  rw [bind_run] at hb
  cases hm : m s with
  | none => rw [hm] at hb; simp at hb
  | some r =>
    obtain ⟨a, s1⟩ := r
    rw [hm] at hb
    exact (h2 a s1 b s' hb).trans (h1 s a s1 hm)

theorem Keeps.k_ite {c : Prop} [Decidable c] {m1 m2 : P α} (h1 : Keeps m1) (h2 : Keeps m2) :
    Keeps (if c then m1 else m2) := by
  split
  · exact h1
  · exact h2

theorem Keeps.k_failure : Keeps (failure : P α) := by
  intro s a s' h
  simp at h

theorem Keeps.k_modify (f : ParserState → ParserState) (h : ∀ s, (f s).guard = s.guard) :
    Keeps (modify f : P PUnit) := by
  intro s a s' hm
  rw [modify_run] at hm
  simp only [Option.some.injEq, Prod.mk.injEq] at hm
  rw [← hm.2]
  exact h s

theorem Keeps.k_liftE (f : ParserState → α × ParserState) (h : ∀ s, (f s).2.guard = s.guard) :
    Keeps (liftE f) := by
  intro s a s' hm
  rw [liftE_run] at hm
  simp only [Option.some.injEq] at hm
  have := h s
  rw [hm] at this
  exact this

theorem Keeps.k_SaveAndSet {m : P α} (g : ParserState → Bool)
    (f : Bool → ParserState → ParserState) (v : Bool)
    (hgf : ∀ s s', s'.guard = (f v s).guard → (f (g s) s').guard = s.guard)
    (h : Keeps m) : Keeps (SaveAndSet g f v m) := by
  intro s a s' hs
  rw [SaveAndSet_map] at hs
  cases hm : m (f v s) with
  | none => rw [hm] at hs; simp at hs
  | some r =>
    obtain ⟨a1, s1⟩ := r
    rw [hm] at hs
    simp only [Option.map_some', Option.some.injEq, Prod.mk.injEq] at hs
    rw [← hs.2]
    exact hgf s s1 (h _ _ _ hm)

end keeps

theorem Keeps_lextok : Keeps lextok := by
  intro s a s' h
  rw [lextok_run] at h
  simp only [Option.some.injEq, Prod.mk.injEq] at h
  rw [← h.2]; simp

theorem Keeps_lex : Keeps lex := Keeps_lextok

theorem Keeps_lexpush : Keeps lexpush := by
  intro s a s' h
  rw [lexpush_run] at h
  simp only [Option.some.injEq, Prod.mk.injEq] at h
  rw [← h.2]; simp

theorem Keeps_error (code : Nat) : Keeps (error code) := by
  intro s a s' h
  rw [error_run] at h
  simp only [Option.some.injEq, Prod.mk.injEq] at h
  rw [← h.2]; simp

theorem Keeps_errorset : Keeps errorset_sRESET := by
  intro s a s' h
  rw [errorset_run] at h
  simp only [Option.some.injEq, Prod.mk.injEq] at h
  rw [← h.2]
  rfl

theorem Keeps_adjust_stmtindent : Keeps adjust_stmtindent := by
  intro s a s' h
  unfold adjust_stmtindent at h
  split at h
  · simp only [Option.some.injEq, Prod.mk.injEq] at h
    rw [← h.2]
    rfl
  · exact absurd h (by simp)

theorem Keeps_current_pos : Keeps current_pos := by
  intro s a s' h
  rw [current_pos_run] at h
  simp only [Option.some.injEq, Prod.mk.injEq] at h
  rw [← h.2]

theorem Keeps_freading : Keeps freading := by
  intro s a s' h
  rw [freading_run] at h
  simp only [Option.some.injEq, Prod.mk.injEq] at h
  rw [← h.2]

theorem Keeps_get : Keeps (get : P ParserState) := by
  intro s a s' h
  rw [get_run] at h
  simp only [Option.some.injEq, Prod.mk.injEq] at h
  rw [← h.2]

theorem Keeps_lexclr (b : Bool) : Keeps (lexclr b) := by
  unfold lexclr
  refine Keeps.k_modify _ fun s => ?_
  split <;> rfl

theorem Keeps_matchtoken (k : TokenKind) : Keeps (matchtoken k) := by
  unfold matchtoken
  repeat (first
    | exact Keeps.k_pure _
    | exact Keeps_lextok
    | exact Keeps_lexpush
    | exact Keeps_get
    | refine Keeps.k_bind ?_ fun _ => ?_
    | split)

theorem Keeps_needtoken (k : TokenKind) : Keeps (needtoken k) := by
  unfold needtoken
  repeat (first
    | exact Keeps.k_pure _
    | exact Keeps_matchtoken _
    | exact Keeps_error _
    | refine Keeps.k_bind ?_ fun _ => ?_
    | split)

theorem Keeps_needsymbol : Keeps needsymbol := by
  unfold needsymbol
  repeat (first
    | exact Keeps.k_pure _
    | exact Keeps_needtoken _
    | exact Keeps_get
    | refine Keeps.k_bind ?_ fun _ => ?_
    | split)

theorem Keeps_matchsymbol : Keeps matchsymbol := by
  unfold matchsymbol
  repeat (first
    | exact Keeps.k_pure _
    | exact Keeps_matchtoken _
    | exact Keeps_get
    | refine Keeps.k_bind ?_ fun _ => ?_
    | split)

theorem Keeps_lexpeek (k : TokenKind) : Keeps (lexpeek k) := by
  unfold lexpeek
  repeat (first
    | exact Keeps.k_pure _
    | exact Keeps_lextok
    | exact Keeps_lexpush
    | refine Keeps.k_bind ?_ fun _ => ?_
    | split)

theorem Keeps_nextop_from (opstr : List TokenKind) : ∀ idx, Keeps (nextop_from idx opstr) := by
  induction opstr with
  | nil => intro idx; exact Keeps.k_pure _
  | cons op ops ih =>
    intro idx
    unfold nextop_from
    refine Keeps.k_bind (Keeps_matchtoken _) fun b => ?_
    split
    · exact Keeps.k_pure _
    · exact ih _

theorem Keeps_nextop (opstr : List TokenKind) : Keeps (nextop opstr) := Keeps_nextop_from opstr 0

theorem Keeps_close_parens : ∀ n, Keeps (close_parens n) := by
  intro n
  induction n with
  | zero => exact Keeps.k_pure _
  | succ n ih =>
    unfold close_parens
    exact Keeps.k_bind (Keeps_needtoken _) fun _ => ih

theorem Keeps_nowarn (b : Bool) :
    Keeps (modify fun s => { s with indent_nowarn := b } : P PUnit) :=
  Keeps.k_modify _ fun _ => rfl

theorem Keeps_indent :
    Keeps (modify fun s =>
      match s.rest with
      | t :: _ => { s with stmtindent := t.start.col }
      | [] => s : P PUnit) :=
  Keeps.k_modify _ fun s => by split <;> rfl

theorem Keeps_count_matches (tok : TokenKind) :
    ∀ fuel x0, Keeps (count_matches tok fuel x0) := by
  intro fuel
  induction fuel with
  | zero =>
    intro _
    exact Keeps.k_failure
  | succ n ih =>
    intro _
    unfold count_matches
    repeat (first
      | with_reducible exact Keeps.k_pure _
      | with_reducible exact Keeps.k_failure
      | with_reducible assumption
      | with_reducible exact Keeps_matchtoken _
      | with_reducible exact Keeps_needtoken _
      | with_reducible exact Keeps_needsymbol
      | with_reducible exact Keeps_matchsymbol
      | with_reducible exact Keeps_lex
      | with_reducible exact Keeps_lextok
      | with_reducible exact Keeps_lexpush
      | with_reducible exact Keeps_lexpeek _
      | with_reducible exact Keeps_error _
      | with_reducible exact Keeps_current_pos
      | with_reducible exact Keeps_freading
      | with_reducible exact Keeps_get
      | with_reducible exact Keeps_lexclr _
      | with_reducible exact Keeps_nextop _
      | with_reducible exact Keeps_close_parens _
      | with_reducible exact Keeps_nowarn _
      | with_reducible exact ih _
      | with_reducible refine Keeps.k_bind ?_ fun _ => ?_
      | with_reducible refine Keeps.k_ite ?_ ?_
      | split
      | dsimp only)

theorem Keeps_sizeof_levels  :
    ∀ fuel x0, Keeps (sizeof_levels fuel x0) := by
  intro fuel
  induction fuel with
  | zero =>
    intro _
    exact Keeps.k_failure
  | succ n ih =>
    intro _
    unfold sizeof_levels
    repeat (first
      | with_reducible exact Keeps.k_pure _
      | with_reducible exact Keeps.k_failure
      | with_reducible assumption
      | with_reducible exact Keeps_matchtoken _
      | with_reducible exact Keeps_needtoken _
      | with_reducible exact Keeps_needsymbol
      | with_reducible exact Keeps_matchsymbol
      | with_reducible exact Keeps_lex
      | with_reducible exact Keeps_lextok
      | with_reducible exact Keeps_lexpush
      | with_reducible exact Keeps_lexpeek _
      | with_reducible exact Keeps_error _
      | with_reducible exact Keeps_current_pos
      | with_reducible exact Keeps_freading
      | with_reducible exact Keeps_get
      | with_reducible exact Keeps_lexclr _
      | with_reducible exact Keeps_nextop _
      | with_reducible exact Keeps_close_parens _
      | with_reducible exact Keeps_nowarn _
      | with_reducible exact ih _
      | with_reducible refine Keeps.k_bind ?_ fun _ => ?_
      | with_reducible refine Keeps.k_ite ?_ ?_
      | split
      | dsimp only)

theorem Keeps_constant_loop (h14 : P Expr) (h : Keeps h14) :
    ∀ fuel x0, Keeps (constant_loop h14 fuel x0) := by
  intro fuel
  induction fuel with
  | zero =>
    intro _
    exact Keeps.k_failure
  | succ n ih =>
    intro _
    unfold constant_loop
    repeat (first
      | with_reducible exact Keeps.k_pure _
      | with_reducible exact Keeps.k_failure
      | with_reducible assumption
      | with_reducible exact Keeps_matchtoken _
      | with_reducible exact Keeps_needtoken _
      | with_reducible exact Keeps_needsymbol
      | with_reducible exact Keeps_matchsymbol
      | with_reducible exact Keeps_lex
      | with_reducible exact Keeps_lextok
      | with_reducible exact Keeps_lexpush
      | with_reducible exact Keeps_lexpeek _
      | with_reducible exact Keeps_error _
      | with_reducible exact Keeps_current_pos
      | with_reducible exact Keeps_freading
      | with_reducible exact Keeps_get
      | with_reducible exact Keeps_lexclr _
      | with_reducible exact Keeps_nextop _
      | with_reducible exact Keeps_close_parens _
      | with_reducible exact Keeps_nowarn _
      | with_reducible exact ih _
      | with_reducible refine Keeps.k_bind ?_ fun _ => ?_
      | with_reducible refine Keeps.k_ite ?_ ?_
      | split
      | dsimp only)

theorem Keeps_constant (h14 : P Expr) (h : Keeps h14) (fuel : Nat) : Keeps (constant h14 fuel) := by
  have hloop := Keeps_constant_loop h14 h fuel
  unfold constant
  repeat (first
    | with_reducible exact Keeps.k_pure _
    | with_reducible exact Keeps.k_failure
    | with_reducible assumption
    | with_reducible exact Keeps_matchtoken _
    | with_reducible exact Keeps_needtoken _
    | with_reducible exact Keeps_needsymbol
    | with_reducible exact Keeps_matchsymbol
    | with_reducible exact Keeps_lex
    | with_reducible exact Keeps_lextok
    | with_reducible exact Keeps_lexpush
    | with_reducible exact Keeps_lexpeek _
    | with_reducible exact Keeps_error _
    | with_reducible exact Keeps_current_pos
    | with_reducible exact Keeps_freading
    | with_reducible exact Keeps_get
    | with_reducible exact Keeps_lexclr _
    | with_reducible exact Keeps_nextop _
    | with_reducible exact Keeps_close_parens _
    | with_reducible exact Keeps_nowarn _
    | with_reducible exact hloop _
    | with_reducible refine Keeps.k_bind ?_ fun _ => ?_
    | with_reducible refine Keeps.k_ite ?_ ?_
    | split
    | dsimp only)

theorem Keeps_parse_call_loop (h14 : P Expr) (h : Keeps h14) :
    ∀ fuel x0 x1, Keeps (parse_call_loop h14 fuel x0 x1) := by
  intro fuel
  induction fuel with
  | zero =>
    intro _ _
    exact Keeps.k_failure
  | succ n ih =>
    intro _ _
    unfold parse_call_loop
    repeat (first
      | with_reducible exact Keeps.k_pure _
      | with_reducible exact Keeps.k_failure
      | with_reducible assumption
      | with_reducible exact Keeps_matchtoken _
      | with_reducible exact Keeps_needtoken _
      | with_reducible exact Keeps_needsymbol
      | with_reducible exact Keeps_matchsymbol
      | with_reducible exact Keeps_lex
      | with_reducible exact Keeps_lextok
      | with_reducible exact Keeps_lexpush
      | with_reducible exact Keeps_lexpeek _
      | with_reducible exact Keeps_error _
      | with_reducible exact Keeps_current_pos
      | with_reducible exact Keeps_freading
      | with_reducible exact Keeps_get
      | with_reducible exact Keeps_lexclr _
      | with_reducible exact Keeps_nextop _
      | with_reducible exact Keeps_close_parens _
      | with_reducible exact Keeps_nowarn _
      | with_reducible exact ih _ _
      | with_reducible refine Keeps.k_bind ?_ fun _ => ?_
      | with_reducible refine Keeps.k_ite ?_ ?_
      | split
      | dsimp only)

theorem Keeps_parse_call (h14 : P Expr) (h : Keeps h14) (fuel : Nat) (pos : token_pos_t)
    (tok : TokenKind) (target : Expr) : Keeps (parse_call h14 fuel pos tok target) := by
  have hloop := Keeps_parse_call_loop h14 h fuel
  unfold parse_call
  repeat (first
    | with_reducible exact Keeps.k_pure _
    | with_reducible exact Keeps.k_failure
    | with_reducible assumption
    | with_reducible exact Keeps_matchtoken _
    | with_reducible exact Keeps_needtoken _
    | with_reducible exact Keeps_needsymbol
    | with_reducible exact Keeps_matchsymbol
    | with_reducible exact Keeps_lex
    | with_reducible exact Keeps_lextok
    | with_reducible exact Keeps_lexpush
    | with_reducible exact Keeps_lexpeek _
    | with_reducible exact Keeps_error _
    | with_reducible exact Keeps_current_pos
    | with_reducible exact Keeps_freading
    | with_reducible exact Keeps_get
    | with_reducible exact Keeps_lexclr _
    | with_reducible exact Keeps_nextop _
    | with_reducible exact Keeps_close_parens _
    | with_reducible exact Keeps_nowarn _
    | with_reducible exact hloop _ _
    | with_reducible refine Keeps.k_bind ?_ fun _ => ?_
    | with_reducible refine Keeps.k_ite ?_ ?_
    | split
    | dsimp only)

theorem Keeps_parse_view_as (E : Externals) (hE : E.keeps) (h14 : P Expr) (h : Keeps h14) :
    Keeps (parse_view_as E h14) := by
  have e1 := hE.1; have e2 := hE.2.1; have e3 := hE.2.2.1; have e4 := hE.2.2.2.1; have e5 := hE.2.2.2.2.1; have e6 := hE.2.2.2.2.2
  unfold parse_view_as
  repeat (first
    | with_reducible exact Keeps.k_pure _
    | with_reducible exact Keeps.k_failure
    | with_reducible assumption
    | with_reducible exact Keeps_matchtoken _
    | with_reducible exact Keeps_needtoken _
    | with_reducible exact Keeps_needsymbol
    | with_reducible exact Keeps_matchsymbol
    | with_reducible exact Keeps_lex
    | with_reducible exact Keeps_lextok
    | with_reducible exact Keeps_lexpush
    | with_reducible exact Keeps_lexpeek _
    | with_reducible exact Keeps_error _
    | with_reducible exact Keeps_current_pos
    | with_reducible exact Keeps_freading
    | with_reducible exact Keeps_get
    | with_reducible exact Keeps_lexclr _
    | with_reducible exact Keeps_nextop _
    | with_reducible exact Keeps_close_parens _
    | with_reducible exact Keeps_nowarn _
    | with_reducible exact Keeps.k_liftE _ (e1 _)
    | with_reducible exact Keeps.k_liftE _ (e2 _)
    | with_reducible exact Keeps.k_liftE _ (e3 _ _)
    | with_reducible exact Keeps.k_liftE _ (e4 _ _)
    | with_reducible exact Keeps.k_liftE _ (e5 _ _)
    | with_reducible exact Keeps.k_liftE _ e6
    | with_reducible refine Keeps.k_bind ?_ fun _ => ?_
    | with_reducible refine Keeps.k_ite ?_ ?_
    | split
    | dsimp only)

theorem Keeps_parse_new_array_loop (h14 : P Expr) (h : Keeps h14) :
    ∀ fuel x0, Keeps (parse_new_array_loop h14 fuel x0) := by
  intro fuel
  induction fuel with
  | zero =>
    intro _
    exact Keeps.k_failure
  | succ n ih =>
    intro _
    unfold parse_new_array_loop
    repeat (first
      | with_reducible exact Keeps.k_pure _
      | with_reducible exact Keeps.k_failure
      | with_reducible assumption
      | with_reducible exact Keeps_matchtoken _
      | with_reducible exact Keeps_needtoken _
      | with_reducible exact Keeps_needsymbol
      | with_reducible exact Keeps_matchsymbol
      | with_reducible exact Keeps_lex
      | with_reducible exact Keeps_lextok
      | with_reducible exact Keeps_lexpush
      | with_reducible exact Keeps_lexpeek _
      | with_reducible exact Keeps_error _
      | with_reducible exact Keeps_current_pos
      | with_reducible exact Keeps_freading
      | with_reducible exact Keeps_get
      | with_reducible exact Keeps_lexclr _
      | with_reducible exact Keeps_nextop _
      | with_reducible exact Keeps_close_parens _
      | with_reducible exact Keeps_nowarn _
      | with_reducible exact ih _
      | with_reducible refine Keeps.k_bind ?_ fun _ => ?_
      | with_reducible refine Keeps.k_ite ?_ ?_
      | split
      | dsimp only)

theorem Keeps_parse_new_array (h14 : P Expr) (h : Keeps h14) (fuel : Nat) (pos : token_pos_t)
    (tag : Int) : Keeps (parse_new_array h14 fuel pos tag) := by
  have hloop := Keeps_parse_new_array_loop h14 h fuel
  unfold parse_new_array
  repeat (first
    | with_reducible exact Keeps.k_pure _
    | with_reducible exact Keeps.k_failure
    | with_reducible assumption
    | with_reducible exact Keeps_matchtoken _
    | with_reducible exact Keeps_needtoken _
    | with_reducible exact Keeps_needsymbol
    | with_reducible exact Keeps_matchsymbol
    | with_reducible exact Keeps_lex
    | with_reducible exact Keeps_lextok
    | with_reducible exact Keeps_lexpush
    | with_reducible exact Keeps_lexpeek _
    | with_reducible exact Keeps_error _
    | with_reducible exact Keeps_current_pos
    | with_reducible exact Keeps_freading
    | with_reducible exact Keeps_get
    | with_reducible exact Keeps_lexclr _
    | with_reducible exact Keeps_nextop _
    | with_reducible exact Keeps_close_parens _
    | with_reducible exact Keeps_nowarn _
    | with_reducible exact hloop _
    | with_reducible refine Keeps.k_bind ?_ fun _ => ?_
    | with_reducible refine Keeps.k_ite ?_ ?_
    | split
    | dsimp only)

theorem Keeps_primary_loop (h14 : P Expr) (h : Keeps h14) :
    ∀ fuel x0, Keeps (primary_loop h14 fuel x0) := by
  intro fuel
  induction fuel with
  | zero =>
    intro _
    exact Keeps.k_failure
  | succ n ih =>
    intro _
    unfold primary_loop
    repeat (first
      | with_reducible exact Keeps.k_pure _
      | with_reducible exact Keeps.k_failure
      | with_reducible assumption
      | with_reducible exact Keeps_matchtoken _
      | with_reducible exact Keeps_needtoken _
      | with_reducible exact Keeps_needsymbol
      | with_reducible exact Keeps_matchsymbol
      | with_reducible exact Keeps_lex
      | with_reducible exact Keeps_lextok
      | with_reducible exact Keeps_lexpush
      | with_reducible exact Keeps_lexpeek _
      | with_reducible exact Keeps_error _
      | with_reducible exact Keeps_current_pos
      | with_reducible exact Keeps_freading
      | with_reducible exact Keeps_get
      | with_reducible exact Keeps_lexclr _
      | with_reducible exact Keeps_nextop _
      | with_reducible exact Keeps_close_parens _
      | with_reducible exact Keeps_nowarn _
      | with_reducible exact ih _
      | with_reducible refine Keeps.k_bind ?_ fun _ => ?_
      | with_reducible refine Keeps.k_ite ?_ ?_
      | split
      | dsimp only)

theorem Keeps_primary (h14 : P Expr) (h : Keeps h14) (fuel : Nat) : Keeps (primary h14 fuel) := by
  have hloop := Keeps_primary_loop h14 h fuel
  have hc := Keeps_constant h14 h fuel
  unfold primary
  repeat (first
    | with_reducible exact Keeps.k_pure _
    | with_reducible exact Keeps.k_failure
    | with_reducible assumption
    | with_reducible exact Keeps_matchtoken _
    | with_reducible exact Keeps_needtoken _
    | with_reducible exact Keeps_needsymbol
    | with_reducible exact Keeps_matchsymbol
    | with_reducible exact Keeps_lex
    | with_reducible exact Keeps_lextok
    | with_reducible exact Keeps_lexpush
    | with_reducible exact Keeps_lexpeek _
    | with_reducible exact Keeps_error _
    | with_reducible exact Keeps_current_pos
    | with_reducible exact Keeps_freading
    | with_reducible exact Keeps_get
    | with_reducible exact Keeps_lexclr _
    | with_reducible exact Keeps_nextop _
    | with_reducible exact Keeps_close_parens _
    | with_reducible exact Keeps_nowarn _
    | with_reducible exact hloop _
    | with_reducible refine Keeps.k_SaveAndSet _ _ _ (guard_restore_intest _) ?_
    | with_reducible refine Keeps.k_SaveAndSet _ _ _ (guard_restore_allowtags _) ?_
    | with_reducible refine Keeps.k_SaveAndSet _ _ _ (guard_restore_in_loop _) ?_
    | with_reducible refine Keeps.k_SaveAndSet _ _ _ (guard_restore_one_error _) ?_
    | with_reducible refine Keeps.k_bind ?_ fun _ => ?_
    | with_reducible refine Keeps.k_ite ?_ ?_
    | split
    | dsimp only)

theorem Keeps_hier1_loop (h14 : P Expr) (h : Keeps h14) :
    ∀ fuel x0, Keeps (hier1_loop h14 fuel x0) := by
  intro fuel
  induction fuel with
  | zero =>
    intro _
    exact Keeps.k_failure
  | succ n ih =>
    intro _
    have hsub := Keeps_parse_call h14 h n
    unfold hier1_loop
    repeat (first
      | with_reducible exact Keeps.k_pure _
      | with_reducible exact Keeps.k_failure
      | with_reducible assumption
      | with_reducible exact Keeps_matchtoken _
      | with_reducible exact Keeps_needtoken _
      | with_reducible exact Keeps_needsymbol
      | with_reducible exact Keeps_matchsymbol
      | with_reducible exact Keeps_lex
      | with_reducible exact Keeps_lextok
      | with_reducible exact Keeps_lexpush
      | with_reducible exact Keeps_lexpeek _
      | with_reducible exact Keeps_error _
      | with_reducible exact Keeps_current_pos
      | with_reducible exact Keeps_freading
      | with_reducible exact Keeps_get
      | with_reducible exact Keeps_lexclr _
      | with_reducible exact Keeps_nextop _
      | with_reducible exact Keeps_close_parens _
      | with_reducible exact Keeps_nowarn _
      | with_reducible exact ih _
      | with_reducible exact hsub _ _ _
      | with_reducible refine Keeps.k_bind ?_ fun _ => ?_
      | with_reducible refine Keeps.k_ite ?_ ?_
      | split
      | dsimp only)

theorem Keeps_hier1 (E : Externals) (hE : E.keeps) (h14 : P Expr) (h : Keeps h14) (fuel : Nat) :
    Keeps (hier1 E h14 fuel) := by
  have hloop := Keeps_hier1_loop h14 h fuel
  have hpr := Keeps_primary h14 h fuel
  have hva := Keeps_parse_view_as E hE h14 h
  have e1 := hE.1; have e2 := hE.2.1; have e3 := hE.2.2.1; have e4 := hE.2.2.2.1; have e5 := hE.2.2.2.2.1; have e6 := hE.2.2.2.2.2
  unfold hier1
  repeat (first
    | with_reducible exact Keeps.k_pure _
    | with_reducible exact Keeps.k_failure
    | with_reducible assumption
    | with_reducible exact Keeps_matchtoken _
    | with_reducible exact Keeps_needtoken _
    | with_reducible exact Keeps_needsymbol
    | with_reducible exact Keeps_matchsymbol
    | with_reducible exact Keeps_lex
    | with_reducible exact Keeps_lextok
    | with_reducible exact Keeps_lexpush
    | with_reducible exact Keeps_lexpeek _
    | with_reducible exact Keeps_error _
    | with_reducible exact Keeps_current_pos
    | with_reducible exact Keeps_freading
    | with_reducible exact Keeps_get
    | with_reducible exact Keeps_lexclr _
    | with_reducible exact Keeps_nextop _
    | with_reducible exact Keeps_close_parens _
    | with_reducible exact Keeps_nowarn _
    | with_reducible exact hloop _
    | with_reducible exact Keeps.k_liftE _ (e1 _)
    | with_reducible exact Keeps.k_liftE _ (e2 _)
    | with_reducible exact Keeps.k_liftE _ (e3 _ _)
    | with_reducible exact Keeps.k_liftE _ (e4 _ _)
    | with_reducible exact Keeps.k_liftE _ (e5 _ _)
    | with_reducible exact Keeps.k_liftE _ e6
    | with_reducible refine Keeps.k_bind ?_ fun _ => ?_
    | with_reducible refine Keeps.k_ite ?_ ?_
    | split
    | dsimp only)

set_option maxHeartbeats 4000000 in
theorem Keeps_hier2 (E : Externals) (hE : E.keeps) (h14 : P Expr) (h : Keeps h14) :
    ∀ fuel, Keeps (hier2 E h14 fuel) := by
  intro fuel
  induction fuel with
  | zero => exact Keeps.k_failure
  | succ n ih =>
    have h1 := Keeps_hier1 E hE h14 h n
    have hloop := Keeps_parse_new_array h14 h n
    have hsub := Keeps_parse_call h14 h n
    have hcm := Keeps_count_matches TokenKind.ch_lparen n 0
    have hsl := Keeps_sizeof_levels n 0
    have e1 := hE.1; have e2 := hE.2.1; have e3 := hE.2.2.1; have e4 := hE.2.2.2.1; have e5 := hE.2.2.2.2.1; have e6 := hE.2.2.2.2.2
    unfold hier2
    repeat (first
      | with_reducible exact Keeps.k_pure _
      | with_reducible exact Keeps.k_failure
      | with_reducible assumption
      | with_reducible exact Keeps_matchtoken _
      | with_reducible exact Keeps_needtoken _
      | with_reducible exact Keeps_needsymbol
      | with_reducible exact Keeps_matchsymbol
      | with_reducible exact Keeps_lex
      | with_reducible exact Keeps_lextok
      | with_reducible exact Keeps_lexpush
      | with_reducible exact Keeps_lexpeek _
      | with_reducible exact Keeps_error _
      | with_reducible exact Keeps_current_pos
      | with_reducible exact Keeps_freading
      | with_reducible exact Keeps_get
      | with_reducible exact Keeps_lexclr _
      | with_reducible exact Keeps_nextop _
      | with_reducible exact Keeps_close_parens _
      | with_reducible exact Keeps_nowarn _
      | with_reducible exact hloop _ _
      | with_reducible exact hsub _ _ _
      | with_reducible exact Keeps.k_liftE _ (e1 _)
      | with_reducible exact Keeps.k_liftE _ (e2 _)
      | with_reducible exact Keeps.k_liftE _ (e3 _ _)
      | with_reducible exact Keeps.k_liftE _ (e4 _ _)
      | with_reducible exact Keeps.k_liftE _ (e5 _ _)
      | with_reducible exact Keeps.k_liftE _ e6
      | with_reducible refine Keeps.k_bind ?_ fun _ => ?_
      | with_reducible refine Keeps.k_ite ?_ ?_
      | split
      | dsimp only)

theorem Keeps_plnge_loop (opstr : List TokenKind) (hier : P Expr) (h : Keeps hier) :
    ∀ fuel x0 x1, Keeps (plnge_loop opstr hier fuel x0 x1) := by
  intro fuel
  induction fuel with
  | zero =>
    intro _ _
    exact Keeps.k_failure
  | succ n ih =>
    intro _ _
    unfold plnge_loop
    repeat (first
      | with_reducible exact Keeps.k_pure _
      | with_reducible exact Keeps.k_failure
      | with_reducible assumption
      | with_reducible exact Keeps_matchtoken _
      | with_reducible exact Keeps_needtoken _
      | with_reducible exact Keeps_needsymbol
      | with_reducible exact Keeps_matchsymbol
      | with_reducible exact Keeps_lex
      | with_reducible exact Keeps_lextok
      | with_reducible exact Keeps_lexpush
      | with_reducible exact Keeps_lexpeek _
      | with_reducible exact Keeps_error _
      | with_reducible exact Keeps_current_pos
      | with_reducible exact Keeps_freading
      | with_reducible exact Keeps_get
      | with_reducible exact Keeps_lexclr _
      | with_reducible exact Keeps_nextop _
      | with_reducible exact Keeps_close_parens _
      | with_reducible exact Keeps_nowarn _
      | with_reducible exact ih _ _
      | with_reducible refine Keeps.k_bind ?_ fun _ => ?_
      | with_reducible refine Keeps.k_ite ?_ ?_
      | split
      | dsimp only)

theorem Keeps_plnge (opstr : List TokenKind) (hier : P Expr) (h : Keeps hier) (fuel : Nat) :
    Keeps (plnge opstr hier fuel) := by
  have hloop := Keeps_plnge_loop opstr hier h fuel
  unfold plnge
  repeat (first
    | with_reducible exact Keeps.k_pure _
    | with_reducible exact Keeps.k_failure
    | with_reducible assumption
    | with_reducible exact Keeps_matchtoken _
    | with_reducible exact Keeps_needtoken _
    | with_reducible exact Keeps_needsymbol
    | with_reducible exact Keeps_matchsymbol
    | with_reducible exact Keeps_lex
    | with_reducible exact Keeps_lextok
    | with_reducible exact Keeps_lexpush
    | with_reducible exact Keeps_lexpeek _
    | with_reducible exact Keeps_error _
    | with_reducible exact Keeps_current_pos
    | with_reducible exact Keeps_freading
    | with_reducible exact Keeps_get
    | with_reducible exact Keeps_lexclr _
    | with_reducible exact Keeps_nextop _
    | with_reducible exact Keeps_close_parens _
    | with_reducible exact Keeps_nowarn _
    | with_reducible exact hloop _ _
    | with_reducible refine Keeps.k_bind ?_ fun _ => ?_
    | with_reducible refine Keeps.k_ite ?_ ?_
    | split
    | dsimp only)

theorem Keeps_plnge_rel_loop (opstr : List TokenKind) (hier : P Expr) (h : Keeps hier) :
    ∀ fuel x0 x1, Keeps (plnge_rel_loop opstr hier fuel x0 x1) := by
  intro fuel
  induction fuel with
  | zero =>
    intro _ _
    exact Keeps.k_failure
  | succ n ih =>
    intro _ _
    unfold plnge_rel_loop
    repeat (first
      | with_reducible exact Keeps.k_pure _
      | with_reducible exact Keeps.k_failure
      | with_reducible assumption
      | with_reducible exact Keeps_matchtoken _
      | with_reducible exact Keeps_needtoken _
      | with_reducible exact Keeps_needsymbol
      | with_reducible exact Keeps_matchsymbol
      | with_reducible exact Keeps_lex
      | with_reducible exact Keeps_lextok
      | with_reducible exact Keeps_lexpush
      | with_reducible exact Keeps_lexpeek _
      | with_reducible exact Keeps_error _
      | with_reducible exact Keeps_current_pos
      | with_reducible exact Keeps_freading
      | with_reducible exact Keeps_get
      | with_reducible exact Keeps_lexclr _
      | with_reducible exact Keeps_nextop _
      | with_reducible exact Keeps_close_parens _
      | with_reducible exact Keeps_nowarn _
      | with_reducible exact ih _ _
      | with_reducible refine Keeps.k_bind ?_ fun _ => ?_
      | with_reducible refine Keeps.k_ite ?_ ?_
      | split
      | dsimp only)

theorem Keeps_plnge_rel (opstr : List TokenKind) (hier : P Expr) (h : Keeps hier) (fuel : Nat) :
    Keeps (plnge_rel opstr hier fuel) := by
  have hloop := Keeps_plnge_rel_loop opstr hier h fuel
  unfold plnge_rel
  repeat (first
    | with_reducible exact Keeps.k_pure _
    | with_reducible exact Keeps.k_failure
    | with_reducible assumption
    | with_reducible exact Keeps_matchtoken _
    | with_reducible exact Keeps_needtoken _
    | with_reducible exact Keeps_needsymbol
    | with_reducible exact Keeps_matchsymbol
    | with_reducible exact Keeps_lex
    | with_reducible exact Keeps_lextok
    | with_reducible exact Keeps_lexpush
    | with_reducible exact Keeps_lexpeek _
    | with_reducible exact Keeps_error _
    | with_reducible exact Keeps_current_pos
    | with_reducible exact Keeps_freading
    | with_reducible exact Keeps_get
    | with_reducible exact Keeps_lexclr _
    | with_reducible exact Keeps_nextop _
    | with_reducible exact Keeps_close_parens _
    | with_reducible exact Keeps_nowarn _
    | with_reducible exact hloop _ _
    | with_reducible refine Keeps.k_bind ?_ fun _ => ?_
    | with_reducible refine Keeps.k_ite ?_ ?_
    | split
    | dsimp only)

theorem Keeps_hier12 (L : OpLists) (E : Externals) (hE : E.keeps) (h14 : P Expr) (h : Keeps h14) (fuel : Nat) :
    Keeps (hier12 L E h14 fuel) :=
  Keeps_plnge _ _ (Keeps_plnge _ _ (Keeps_plnge _ _ (Keeps_plnge_rel _ _ (Keeps_plnge _ _
    (Keeps_plnge _ _ (Keeps_plnge _ _ (Keeps_plnge _ _ (Keeps_plnge _ _ (Keeps_plnge _ _
      (Keeps_hier2 E hE h14 h fuel) fuel) fuel) fuel) fuel) fuel) fuel) fuel) fuel) fuel) fuel

theorem Keeps_hier13 (L : OpLists) (E : Externals) (hE : E.keeps) (h14 : P Expr) (h : Keeps h14) :
    ∀ fuel, Keeps (hier13 L E h14 fuel) := by
  intro fuel
  induction fuel with
  | zero => exact Keeps.k_failure
  | succ n ih =>
    have h12 := Keeps_hier12 L E hE h14 h n
    unfold hier13
    repeat (first
      | with_reducible exact Keeps.k_pure _
      | with_reducible exact Keeps.k_failure
      | with_reducible assumption
      | with_reducible exact Keeps_matchtoken _
      | with_reducible exact Keeps_needtoken _
      | with_reducible exact Keeps_needsymbol
      | with_reducible exact Keeps_matchsymbol
      | with_reducible exact Keeps_lex
      | with_reducible exact Keeps_lextok
      | with_reducible exact Keeps_lexpush
      | with_reducible exact Keeps_lexpeek _
      | with_reducible exact Keeps_error _
      | with_reducible exact Keeps_current_pos
      | with_reducible exact Keeps_freading
      | with_reducible exact Keeps_get
      | with_reducible exact Keeps_lexclr _
      | with_reducible exact Keeps_nextop _
      | with_reducible exact Keeps_close_parens _
      | with_reducible exact Keeps_nowarn _
      | with_reducible refine Keeps.k_SaveAndSet _ _ _ (guard_restore_intest _) ?_
      | with_reducible refine Keeps.k_SaveAndSet _ _ _ (guard_restore_allowtags _) ?_
      | with_reducible refine Keeps.k_SaveAndSet _ _ _ (guard_restore_in_loop _) ?_
      | with_reducible refine Keeps.k_SaveAndSet _ _ _ (guard_restore_one_error _) ?_
      | with_reducible refine Keeps.k_bind ?_ fun _ => ?_
      | with_reducible refine Keeps.k_ite ?_ ?_
      | split
      | dsimp only)

theorem Keeps_hier14 (L : OpLists) (E : Externals) (hE : E.keeps) :
    ∀ fuel, Keeps (hier14 L E fuel) := by
  intro fuel
  induction fuel with
  | zero => exact Keeps.k_failure
  | succ n ih =>
    have h13 := Keeps_hier13 L E hE _ ih n
    unfold hier14
    repeat (first
      | with_reducible exact Keeps.k_pure _
      | with_reducible exact Keeps.k_failure
      | with_reducible assumption
      | with_reducible exact Keeps_matchtoken _
      | with_reducible exact Keeps_needtoken _
      | with_reducible exact Keeps_needsymbol
      | with_reducible exact Keeps_matchsymbol
      | with_reducible exact Keeps_lex
      | with_reducible exact Keeps_lextok
      | with_reducible exact Keeps_lexpush
      | with_reducible exact Keeps_lexpeek _
      | with_reducible exact Keeps_error _
      | with_reducible exact Keeps_current_pos
      | with_reducible exact Keeps_freading
      | with_reducible exact Keeps_get
      | with_reducible exact Keeps_lexclr _
      | with_reducible exact Keeps_nextop _
      | with_reducible exact Keeps_close_parens _
      | with_reducible exact Keeps_nowarn _
      | with_reducible refine Keeps.k_bind ?_ fun _ => ?_
      | with_reducible refine Keeps.k_ite ?_ ?_
      | split
      | dsimp only)

theorem Keeps_var_init_loop (vi : P Expr) (h : Keeps vi) :
    ∀ fuel x0, Keeps (var_init_loop vi fuel x0) := by
  intro fuel
  induction fuel with
  | zero =>
    intro _
    exact Keeps.k_failure
  | succ n ih =>
    intro _
    unfold var_init_loop
    repeat (first
      | with_reducible exact Keeps.k_pure _
      | with_reducible exact Keeps.k_failure
      | with_reducible assumption
      | with_reducible exact Keeps_matchtoken _
      | with_reducible exact Keeps_needtoken _
      | with_reducible exact Keeps_needsymbol
      | with_reducible exact Keeps_matchsymbol
      | with_reducible exact Keeps_lex
      | with_reducible exact Keeps_lextok
      | with_reducible exact Keeps_lexpush
      | with_reducible exact Keeps_lexpeek _
      | with_reducible exact Keeps_error _
      | with_reducible exact Keeps_current_pos
      | with_reducible exact Keeps_freading
      | with_reducible exact Keeps_get
      | with_reducible exact Keeps_lexclr _
      | with_reducible exact Keeps_nextop _
      | with_reducible exact Keeps_close_parens _
      | with_reducible exact Keeps_nowarn _
      | with_reducible exact ih _
      | with_reducible refine Keeps.k_bind ?_ fun _ => ?_
      | with_reducible refine Keeps.k_ite ?_ ?_
      | split
      | dsimp only)

theorem Keeps_var_init (h14 : P Expr) (h : Keeps h14) : ∀ fuel, Keeps (var_init h14 fuel) := by
  intro fuel
  induction fuel with
  | zero => exact Keeps.k_failure
  | succ n ih =>
    have hloop := Keeps_var_init_loop (var_init h14 n) ih n
    unfold var_init
    repeat (first
      | with_reducible exact Keeps.k_pure _
      | with_reducible exact Keeps.k_failure
      | with_reducible assumption
      | with_reducible exact Keeps_matchtoken _
      | with_reducible exact Keeps_needtoken _
      | with_reducible exact Keeps_needsymbol
      | with_reducible exact Keeps_matchsymbol
      | with_reducible exact Keeps_lex
      | with_reducible exact Keeps_lextok
      | with_reducible exact Keeps_lexpush
      | with_reducible exact Keeps_lexpeek _
      | with_reducible exact Keeps_error _
      | with_reducible exact Keeps_current_pos
      | with_reducible exact Keeps_freading
      | with_reducible exact Keeps_get
      | with_reducible exact Keeps_lexclr _
      | with_reducible exact Keeps_nextop _
      | with_reducible exact Keeps_close_parens _
      | with_reducible exact Keeps_nowarn _
      | with_reducible exact hloop _
      | with_reducible refine Keeps.k_bind ?_ fun _ => ?_
      | with_reducible refine Keeps.k_ite ?_ ?_
      | split
      | dsimp only)

theorem Keeps_parse_expr_loop (h14 : P Expr) (h : Keeps h14) :
    ∀ fuel x0, Keeps (parse_expr_loop h14 fuel x0) := by
  intro fuel
  induction fuel with
  | zero =>
    intro _
    exact Keeps.k_failure
  | succ n ih =>
    intro _
    unfold parse_expr_loop
    repeat (first
      | with_reducible exact Keeps.k_pure _
      | with_reducible exact Keeps.k_failure
      | with_reducible assumption
      | with_reducible exact Keeps_matchtoken _
      | with_reducible exact Keeps_needtoken _
      | with_reducible exact Keeps_needsymbol
      | with_reducible exact Keeps_matchsymbol
      | with_reducible exact Keeps_lex
      | with_reducible exact Keeps_lextok
      | with_reducible exact Keeps_lexpush
      | with_reducible exact Keeps_lexpeek _
      | with_reducible exact Keeps_error _
      | with_reducible exact Keeps_current_pos
      | with_reducible exact Keeps_freading
      | with_reducible exact Keeps_get
      | with_reducible exact Keeps_lexclr _
      | with_reducible exact Keeps_nextop _
      | with_reducible exact Keeps_close_parens _
      | with_reducible exact Keeps_nowarn _
      | with_reducible exact ih _
      | with_reducible refine Keeps.k_bind ?_ fun _ => ?_
      | with_reducible refine Keeps.k_ite ?_ ?_
      | split
      | dsimp only)

theorem Keeps_parse_expr (h14 : P Expr) (h : Keeps h14) (fuel : Nat) (parens : Bool) :
    Keeps (parse_expr h14 fuel parens) := by
  have hloop := Keeps_parse_expr_loop h14 h fuel
  unfold parse_expr
  repeat (first
    | with_reducible exact Keeps.k_pure _
    | with_reducible exact Keeps.k_failure
    | with_reducible assumption
    | with_reducible exact Keeps_matchtoken _
    | with_reducible exact Keeps_needtoken _
    | with_reducible exact Keeps_needsymbol
    | with_reducible exact Keeps_matchsymbol
    | with_reducible exact Keeps_lex
    | with_reducible exact Keeps_lextok
    | with_reducible exact Keeps_lexpush
    | with_reducible exact Keeps_lexpeek _
    | with_reducible exact Keeps_error _
    | with_reducible exact Keeps_current_pos
    | with_reducible exact Keeps_freading
    | with_reducible exact Keeps_get
    | with_reducible exact Keeps_lexclr _
    | with_reducible exact Keeps_nextop _
    | with_reducible exact Keeps_close_parens _
    | with_reducible exact Keeps_nowarn _
    | with_reducible exact hloop _
    | with_reducible refine Keeps.k_SaveAndSet _ _ _ (guard_restore_intest _) ?_
    | with_reducible refine Keeps.k_SaveAndSet _ _ _ (guard_restore_allowtags _) ?_
    | with_reducible refine Keeps.k_SaveAndSet _ _ _ (guard_restore_in_loop _) ?_
    | with_reducible refine Keeps.k_SaveAndSet _ _ _ (guard_restore_one_error _) ?_
    | with_reducible refine Keeps.k_bind ?_ fun _ => ?_
    | with_reducible refine Keeps.k_ite ?_ ?_
    | split
    | dsimp only)

theorem Keeps_parse_var_loop (E : Externals) (hE : E.keeps) (h14 : P Expr) (h : Keeps h14) (params : VarParams) :
    ∀ fuel x0 x1 x2, Keeps (parse_var_loop E h14 params fuel x0 x1 x2) := by
  intro fuel
  induction fuel with
  | zero =>
    intro _ _ _
    exact Keeps.k_failure
  | succ n ih =>
    intro _ _ _
    have hvi := Keeps_var_init h14 h n
    have e1 := hE.1; have e2 := hE.2.1; have e3 := hE.2.2.1; have e4 := hE.2.2.2.1; have e5 := hE.2.2.2.2.1; have e6 := hE.2.2.2.2.2
    unfold parse_var_loop
    repeat (first
      | with_reducible exact Keeps.k_pure _
      | with_reducible exact Keeps.k_failure
      | with_reducible assumption
      | with_reducible exact Keeps_matchtoken _
      | with_reducible exact Keeps_needtoken _
      | with_reducible exact Keeps_needsymbol
      | with_reducible exact Keeps_matchsymbol
      | with_reducible exact Keeps_lex
      | with_reducible exact Keeps_lextok
      | with_reducible exact Keeps_lexpush
      | with_reducible exact Keeps_lexpeek _
      | with_reducible exact Keeps_error _
      | with_reducible exact Keeps_current_pos
      | with_reducible exact Keeps_freading
      | with_reducible exact Keeps_get
      | with_reducible exact Keeps_lexclr _
      | with_reducible exact Keeps_nextop _
      | with_reducible exact Keeps_close_parens _
      | with_reducible exact Keeps_nowarn _
      | with_reducible exact ih _ _ _
      | with_reducible exact Keeps.k_liftE _ (e1 _)
      | with_reducible exact Keeps.k_liftE _ (e2 _)
      | with_reducible exact Keeps.k_liftE _ (e3 _ _)
      | with_reducible exact Keeps.k_liftE _ (e4 _ _)
      | with_reducible exact Keeps.k_liftE _ (e5 _ _)
      | with_reducible exact Keeps.k_liftE _ e6
      | with_reducible refine Keeps.k_bind ?_ fun _ => ?_
      | with_reducible refine Keeps.k_ite ?_ ?_
      | split
      | dsimp only)

theorem Keeps_parse_var (E : Externals) (hE : E.keeps) (h14 : P Expr) (h : Keeps h14) (fuel : Nat)
    (decl : declinfo_t) (params : VarParams) : Keeps (parse_var E h14 fuel decl params) := by
  have hloop := Keeps_parse_var_loop E hE h14 h params fuel
  unfold parse_var
  repeat (first
    | with_reducible exact Keeps.k_pure _
    | with_reducible exact Keeps.k_failure
    | with_reducible assumption
    | with_reducible exact Keeps_matchtoken _
    | with_reducible exact Keeps_needtoken _
    | with_reducible exact Keeps_needsymbol
    | with_reducible exact Keeps_matchsymbol
    | with_reducible exact Keeps_lex
    | with_reducible exact Keeps_lextok
    | with_reducible exact Keeps_lexpush
    | with_reducible exact Keeps_lexpeek _
    | with_reducible exact Keeps_error _
    | with_reducible exact Keeps_current_pos
    | with_reducible exact Keeps_freading
    | with_reducible exact Keeps_get
    | with_reducible exact Keeps_lexclr _
    | with_reducible exact Keeps_nextop _
    | with_reducible exact Keeps_close_parens _
    | with_reducible exact Keeps_nowarn _
    | with_reducible exact hloop _ _ _
    | with_reducible refine Keeps.k_bind ?_ fun _ => ?_
    | with_reducible refine Keeps.k_ite ?_ ?_
    | split
    | dsimp only)

theorem Keeps_parse_local_decl (E : Externals) (hE : E.keeps) (h14 : P Expr) (h : Keeps h14) (fuel : Nat)
    (tokid : TokenKind) (autozero : Bool) : Keeps (parse_local_decl E h14 fuel tokid autozero) := by
  have hsub := Keeps_parse_var E hE h14 h fuel
  have e1 := hE.1; have e2 := hE.2.1; have e3 := hE.2.2.1; have e4 := hE.2.2.2.1; have e5 := hE.2.2.2.2.1; have e6 := hE.2.2.2.2.2
  unfold parse_local_decl
  repeat (first
    | with_reducible exact Keeps.k_pure _
    | with_reducible exact Keeps.k_failure
    | with_reducible assumption
    | with_reducible exact Keeps_matchtoken _
    | with_reducible exact Keeps_needtoken _
    | with_reducible exact Keeps_needsymbol
    | with_reducible exact Keeps_matchsymbol
    | with_reducible exact Keeps_lex
    | with_reducible exact Keeps_lextok
    | with_reducible exact Keeps_lexpush
    | with_reducible exact Keeps_lexpeek _
    | with_reducible exact Keeps_error _
    | with_reducible exact Keeps_current_pos
    | with_reducible exact Keeps_freading
    | with_reducible exact Keeps_get
    | with_reducible exact Keeps_lexclr _
    | with_reducible exact Keeps_nextop _
    | with_reducible exact Keeps_close_parens _
    | with_reducible exact Keeps_nowarn _
    | with_reducible exact hsub _ _
    | with_reducible exact Keeps.k_liftE _ (e1 _)
    | with_reducible exact Keeps.k_liftE _ (e2 _)
    | with_reducible exact Keeps.k_liftE _ (e3 _ _)
    | with_reducible exact Keeps.k_liftE _ (e4 _ _)
    | with_reducible exact Keeps.k_liftE _ (e5 _ _)
    | with_reducible exact Keeps.k_liftE _ e6
    | with_reducible refine Keeps.k_bind ?_ fun _ => ?_
    | with_reducible refine Keeps.k_ite ?_ ?_
    | split
    | dsimp only)

theorem Keeps_parse_const_loop (E : Externals) (hE : E.keeps) (vclass : StorageClass) :
    ∀ fuel x0 x1, Keeps (parse_const_loop E vclass fuel x0 x1) := by
  intro fuel
  induction fuel with
  | zero =>
    intro _ _
    exact Keeps.k_failure
  | succ n ih =>
    intro _ _
    have e1 := hE.1; have e2 := hE.2.1; have e3 := hE.2.2.1; have e4 := hE.2.2.2.1; have e5 := hE.2.2.2.2.1; have e6 := hE.2.2.2.2.2
    unfold parse_const_loop
    repeat (first
      | with_reducible exact Keeps.k_pure _
      | with_reducible exact Keeps.k_failure
      | with_reducible assumption
      | with_reducible exact Keeps_matchtoken _
      | with_reducible exact Keeps_needtoken _
      | with_reducible exact Keeps_needsymbol
      | with_reducible exact Keeps_matchsymbol
      | with_reducible exact Keeps_lex
      | with_reducible exact Keeps_lextok
      | with_reducible exact Keeps_lexpush
      | with_reducible exact Keeps_lexpeek _
      | with_reducible exact Keeps_error _
      | with_reducible exact Keeps_current_pos
      | with_reducible exact Keeps_freading
      | with_reducible exact Keeps_get
      | with_reducible exact Keeps_lexclr _
      | with_reducible exact Keeps_nextop _
      | with_reducible exact Keeps_close_parens _
      | with_reducible exact Keeps_nowarn _
      | with_reducible exact ih _ _
      | with_reducible exact Keeps.k_liftE _ (e1 _)
      | with_reducible exact Keeps.k_liftE _ (e2 _)
      | with_reducible exact Keeps.k_liftE _ (e3 _ _)
      | with_reducible exact Keeps.k_liftE _ (e4 _ _)
      | with_reducible exact Keeps.k_liftE _ (e5 _ _)
      | with_reducible exact Keeps.k_liftE _ e6
      | with_reducible refine Keeps.k_bind ?_ fun _ => ?_
      | with_reducible refine Keeps.k_ite ?_ ?_
      | split
      | dsimp only)

theorem Keeps_parse_const (E : Externals) (hE : E.keeps) (fuel : Nat) (vclass : StorageClass) :
    Keeps (parse_const E fuel vclass) := by
  have hloop := Keeps_parse_const_loop E hE vclass fuel
  unfold parse_const
  repeat (first
    | with_reducible exact Keeps.k_pure _
    | with_reducible exact Keeps.k_failure
    | with_reducible assumption
    | with_reducible exact Keeps_matchtoken _
    | with_reducible exact Keeps_needtoken _
    | with_reducible exact Keeps_needsymbol
    | with_reducible exact Keeps_matchsymbol
    | with_reducible exact Keeps_lex
    | with_reducible exact Keeps_lextok
    | with_reducible exact Keeps_lexpush
    | with_reducible exact Keeps_lexpeek _
    | with_reducible exact Keeps_error _
    | with_reducible exact Keeps_current_pos
    | with_reducible exact Keeps_freading
    | with_reducible exact Keeps_get
    | with_reducible exact Keeps_lexclr _
    | with_reducible exact Keeps_nextop _
    | with_reducible exact Keeps_close_parens _
    | with_reducible exact Keeps_nowarn _
    | with_reducible exact hloop _ _
    | with_reducible refine Keeps.k_bind ?_ fun _ => ?_
    | with_reducible refine Keeps.k_ite ?_ ?_
    | split
    | dsimp only)

theorem Keeps_parse_enum_loop (E : Externals) (hE : E.keeps) (h14 : P Expr) (h : Keeps h14) :
    ∀ fuel x0, Keeps (parse_enum_loop E h14 fuel x0) := by
  intro fuel
  induction fuel with
  | zero =>
    intro _
    exact Keeps.k_failure
  | succ n ih =>
    intro _
    have e1 := hE.1; have e2 := hE.2.1; have e3 := hE.2.2.1; have e4 := hE.2.2.2.1; have e5 := hE.2.2.2.2.1; have e6 := hE.2.2.2.2.2
    unfold parse_enum_loop
    repeat (first
      | with_reducible exact Keeps.k_pure _
      | with_reducible exact Keeps.k_failure
      | with_reducible assumption
      | with_reducible exact Keeps_matchtoken _
      | with_reducible exact Keeps_needtoken _
      | with_reducible exact Keeps_needsymbol
      | with_reducible exact Keeps_matchsymbol
      | with_reducible exact Keeps_lex
      | with_reducible exact Keeps_lextok
      | with_reducible exact Keeps_lexpush
      | with_reducible exact Keeps_lexpeek _
      | with_reducible exact Keeps_error _
      | with_reducible exact Keeps_current_pos
      | with_reducible exact Keeps_freading
      | with_reducible exact Keeps_get
      | with_reducible exact Keeps_lexclr _
      | with_reducible exact Keeps_nextop _
      | with_reducible exact Keeps_close_parens _
      | with_reducible exact Keeps_nowarn _
      | with_reducible exact ih _
      | with_reducible exact Keeps.k_liftE _ (e1 _)
      | with_reducible exact Keeps.k_liftE _ (e2 _)
      | with_reducible exact Keeps.k_liftE _ (e3 _ _)
      | with_reducible exact Keeps.k_liftE _ (e4 _ _)
      | with_reducible exact Keeps.k_liftE _ (e5 _ _)
      | with_reducible exact Keeps.k_liftE _ e6
      | with_reducible refine Keeps.k_bind ?_ fun _ => ?_
      | with_reducible refine Keeps.k_ite ?_ ?_
      | split
      | dsimp only)

theorem Keeps_parse_enum (E : Externals) (hE : E.keeps) (h14 : P Expr) (h : Keeps h14) (fuel : Nat)
    (vclass : StorageClass) : Keeps (parse_enum E h14 fuel vclass) := by
  have hloop := Keeps_parse_enum_loop E hE h14 h fuel
  have e1 := hE.1; have e2 := hE.2.1; have e3 := hE.2.2.1; have e4 := hE.2.2.2.1; have e5 := hE.2.2.2.2.1; have e6 := hE.2.2.2.2.2
  unfold parse_enum
  repeat (first
    | with_reducible exact Keeps.k_pure _
    | with_reducible exact Keeps.k_failure
    | with_reducible assumption
    | with_reducible exact Keeps_matchtoken _
    | with_reducible exact Keeps_needtoken _
    | with_reducible exact Keeps_needsymbol
    | with_reducible exact Keeps_matchsymbol
    | with_reducible exact Keeps_lex
    | with_reducible exact Keeps_lextok
    | with_reducible exact Keeps_lexpush
    | with_reducible exact Keeps_lexpeek _
    | with_reducible exact Keeps_error _
    | with_reducible exact Keeps_current_pos
    | with_reducible exact Keeps_freading
    | with_reducible exact Keeps_get
    | with_reducible exact Keeps_lexclr _
    | with_reducible exact Keeps_nextop _
    | with_reducible exact Keeps_close_parens _
    | with_reducible exact Keeps_nowarn _
    | with_reducible exact hloop _
    | with_reducible exact Keeps.k_liftE _ (e1 _)
    | with_reducible exact Keeps.k_liftE _ (e2 _)
    | with_reducible exact Keeps.k_liftE _ (e3 _ _)
    | with_reducible exact Keeps.k_liftE _ (e4 _ _)
    | with_reducible exact Keeps.k_liftE _ (e5 _ _)
    | with_reducible exact Keeps.k_liftE _ e6
    | with_reducible refine Keeps.k_bind ?_ fun _ => ?_
    | with_reducible refine Keeps.k_ite ?_ ?_
    | split
    | dsimp only)

theorem Keeps_parse_compound_loop (pstmt : Option Int → Bool → P StmtResult) (hp : ∀ a b, Keeps (pstmt a b)) :
    ∀ fuel x0 x1, Keeps (parse_compound_loop pstmt fuel x0 x1) := by
  intro fuel
  induction fuel with
  | zero =>
    intro _ _
    exact Keeps.k_failure
  | succ n ih =>
    intro _ _
    unfold parse_compound_loop
    repeat (first
      | with_reducible exact Keeps.k_pure _
      | with_reducible exact Keeps.k_failure
      | with_reducible assumption
      | with_reducible exact Keeps_matchtoken _
      | with_reducible exact Keeps_needtoken _
      | with_reducible exact Keeps_needsymbol
      | with_reducible exact Keeps_matchsymbol
      | with_reducible exact Keeps_lex
      | with_reducible exact Keeps_lextok
      | with_reducible exact Keeps_lexpush
      | with_reducible exact Keeps_lexpeek _
      | with_reducible exact Keeps_error _
      | with_reducible exact Keeps_current_pos
      | with_reducible exact Keeps_freading
      | with_reducible exact Keeps_get
      | with_reducible exact Keeps_lexclr _
      | with_reducible exact Keeps_nextop _
      | with_reducible exact Keeps_close_parens _
      | with_reducible exact Keeps_nowarn _
      | with_reducible exact ih _ _
      | with_reducible exact hp _ _
      | with_reducible refine Keeps.k_bind ?_ fun _ => ?_
      | with_reducible refine Keeps.k_ite ?_ ?_
      | split
      | dsimp only)

theorem Keeps_parse_compound (pstmt : Option Int → Bool → P StmtResult) (hp : ∀ a b, Keeps (pstmt a b)) (fuel : Nat)
    (sameline : Bool) : Keeps (parse_compound pstmt fuel sameline) := by
  have hloop := Keeps_parse_compound_loop pstmt hp fuel
  have hadj := Keeps_adjust_stmtindent
  unfold parse_compound
  repeat (first
    | with_reducible exact Keeps.k_pure _
    | with_reducible exact Keeps.k_failure
    | with_reducible assumption
    | with_reducible exact Keeps_matchtoken _
    | with_reducible exact Keeps_needtoken _
    | with_reducible exact Keeps_needsymbol
    | with_reducible exact Keeps_matchsymbol
    | with_reducible exact Keeps_lex
    | with_reducible exact Keeps_lextok
    | with_reducible exact Keeps_lexpush
    | with_reducible exact Keeps_lexpeek _
    | with_reducible exact Keeps_error _
    | with_reducible exact Keeps_current_pos
    | with_reducible exact Keeps_freading
    | with_reducible exact Keeps_get
    | with_reducible exact Keeps_lexclr _
    | with_reducible exact Keeps_nextop _
    | with_reducible exact Keeps_close_parens _
    | with_reducible exact Keeps_nowarn _
    | with_reducible exact hloop _ _
    | exact Keeps.k_modify _ (fun s => by split <;> rfl)
    | with_reducible refine Keeps.k_bind ?_ fun _ => ?_
    | with_reducible refine Keeps.k_ite ?_ ?_
    | split
    | dsimp only)

theorem Keeps_parse_if (h14 : P Expr) (h : Keeps h14) (pstmt : Option Int → Bool → P StmtResult) (hp : ∀ a b, Keeps (pstmt a b)) (fuel : Nat) :
    Keeps (parse_if h14 pstmt fuel) := by
  have hsub := Keeps_parse_expr h14 h fuel
  unfold parse_if
  repeat (first
    | with_reducible exact Keeps.k_pure _
    | with_reducible exact Keeps.k_failure
    | with_reducible assumption
    | with_reducible exact Keeps_matchtoken _
    | with_reducible exact Keeps_needtoken _
    | with_reducible exact Keeps_needsymbol
    | with_reducible exact Keeps_matchsymbol
    | with_reducible exact Keeps_lex
    | with_reducible exact Keeps_lextok
    | with_reducible exact Keeps_lexpush
    | with_reducible exact Keeps_lexpeek _
    | with_reducible exact Keeps_error _
    | with_reducible exact Keeps_current_pos
    | with_reducible exact Keeps_freading
    | with_reducible exact Keeps_get
    | with_reducible exact Keeps_lexclr _
    | with_reducible exact Keeps_nextop _
    | with_reducible exact Keeps_close_parens _
    | with_reducible exact Keeps_nowarn _
    | with_reducible exact hsub _
    | with_reducible exact hp _ _
    | with_reducible refine Keeps.k_bind ?_ fun _ => ?_
    | with_reducible refine Keeps.k_ite ?_ ?_
    | split
    | dsimp only)

theorem Keeps_parse_expr_stmt (h14 : P Expr) (h : Keeps h14) (fuel : Nat) (endtok : TokenKind) :
    Keeps (parse_expr_stmt h14 fuel endtok) := by
  have hsub := Keeps_parse_expr h14 h fuel
  unfold parse_expr_stmt
  repeat (first
    | with_reducible exact Keeps.k_pure _
    | with_reducible exact Keeps.k_failure
    | with_reducible assumption
    | with_reducible exact Keeps_matchtoken _
    | with_reducible exact Keeps_needtoken _
    | with_reducible exact Keeps_needsymbol
    | with_reducible exact Keeps_matchsymbol
    | with_reducible exact Keeps_lex
    | with_reducible exact Keeps_lextok
    | with_reducible exact Keeps_lexpush
    | with_reducible exact Keeps_lexpeek _
    | with_reducible exact Keeps_error _
    | with_reducible exact Keeps_current_pos
    | with_reducible exact Keeps_freading
    | with_reducible exact Keeps_get
    | with_reducible exact Keeps_lexclr _
    | with_reducible exact Keeps_nextop _
    | with_reducible exact Keeps_close_parens _
    | with_reducible exact Keeps_nowarn _
    | with_reducible exact hsub _
    | with_reducible refine Keeps.k_bind ?_ fun _ => ?_
    | with_reducible refine Keeps.k_ite ?_ ?_
    | split
    | dsimp only)

theorem Keeps_parse_for_init (E : Externals) (hE : E.keeps) (h14 : P Expr) (h : Keeps h14) (fuel : Nat) :
    Keeps (parse_for_init E h14 fuel) := by
  have hsub := Keeps_parse_expr_stmt h14 h fuel
  have hld := Keeps_parse_local_decl E hE h14 h fuel
  unfold parse_for_init
  repeat (first
    | with_reducible exact Keeps.k_pure _
    | with_reducible exact Keeps.k_failure
    | with_reducible assumption
    | with_reducible exact Keeps_matchtoken _
    | with_reducible exact Keeps_needtoken _
    | with_reducible exact Keeps_needsymbol
    | with_reducible exact Keeps_matchsymbol
    | with_reducible exact Keeps_lex
    | with_reducible exact Keeps_lextok
    | with_reducible exact Keeps_lexpush
    | with_reducible exact Keeps_lexpeek _
    | with_reducible exact Keeps_error _
    | with_reducible exact Keeps_current_pos
    | with_reducible exact Keeps_freading
    | with_reducible exact Keeps_get
    | with_reducible exact Keeps_lexclr _
    | with_reducible exact Keeps_nextop _
    | with_reducible exact Keeps_close_parens _
    | with_reducible exact Keeps_nowarn _
    | with_reducible exact hsub _
    | with_reducible exact hld _ _
    | with_reducible refine Keeps.k_bind ?_ fun _ => ?_
    | with_reducible refine Keeps.k_ite ?_ ?_
    | split
    | dsimp only)

theorem Keeps_parse_for (E : Externals) (hE : E.keeps) (h14 : P Expr) (h : Keeps h14) (pstmt : Option Int → Bool → P StmtResult) (hp : ∀ a b, Keeps (pstmt a b))
    (fuel : Nat) : Keeps (parse_for E h14 pstmt fuel) := by
  have hsub := Keeps_parse_expr h14 h fuel
  have hfi := Keeps_parse_for_init E hE h14 h fuel
  unfold parse_for
  repeat (first
    | with_reducible exact Keeps.k_pure _
    | with_reducible exact Keeps.k_failure
    | with_reducible assumption
    | with_reducible exact Keeps_matchtoken _
    | with_reducible exact Keeps_needtoken _
    | with_reducible exact Keeps_needsymbol
    | with_reducible exact Keeps_matchsymbol
    | with_reducible exact Keeps_lex
    | with_reducible exact Keeps_lextok
    | with_reducible exact Keeps_lexpush
    | with_reducible exact Keeps_lexpeek _
    | with_reducible exact Keeps_error _
    | with_reducible exact Keeps_current_pos
    | with_reducible exact Keeps_freading
    | with_reducible exact Keeps_get
    | with_reducible exact Keeps_lexclr _
    | with_reducible exact Keeps_nextop _
    | with_reducible exact Keeps_close_parens _
    | with_reducible exact Keeps_nowarn _
    | with_reducible exact hsub _
    | with_reducible exact hp _ _
    | with_reducible refine Keeps.k_SaveAndSet _ _ _ (guard_restore_intest _) ?_
    | with_reducible refine Keeps.k_SaveAndSet _ _ _ (guard_restore_allowtags _) ?_
    | with_reducible refine Keeps.k_SaveAndSet _ _ _ (guard_restore_in_loop _) ?_
    | with_reducible refine Keeps.k_SaveAndSet _ _ _ (guard_restore_one_error _) ?_
    | with_reducible refine Keeps.k_bind ?_ fun _ => ?_
    | with_reducible refine Keeps.k_ite ?_ ?_
    | split
    | dsimp only)

theorem Keeps_parse_case_loop (h14 : P Expr) (h : Keeps h14) :
    ∀ fuel x0, Keeps (parse_case_loop h14 fuel x0) := by
  intro fuel
  induction fuel with
  | zero =>
    intro _
    exact Keeps.k_failure
  | succ n ih =>
    intro _
    unfold parse_case_loop
    repeat (first
      | with_reducible exact Keeps.k_pure _
      | with_reducible exact Keeps.k_failure
      | with_reducible assumption
      | with_reducible exact Keeps_matchtoken _
      | with_reducible exact Keeps_needtoken _
      | with_reducible exact Keeps_needsymbol
      | with_reducible exact Keeps_matchsymbol
      | with_reducible exact Keeps_lex
      | with_reducible exact Keeps_lextok
      | with_reducible exact Keeps_lexpush
      | with_reducible exact Keeps_lexpeek _
      | with_reducible exact Keeps_error _
      | with_reducible exact Keeps_current_pos
      | with_reducible exact Keeps_freading
      | with_reducible exact Keeps_get
      | with_reducible exact Keeps_lexclr _
      | with_reducible exact Keeps_nextop _
      | with_reducible exact Keeps_close_parens _
      | with_reducible exact Keeps_nowarn _
      | with_reducible exact ih _
      | with_reducible refine Keeps.k_SaveAndSet _ _ _ (guard_restore_intest _) ?_
      | with_reducible refine Keeps.k_SaveAndSet _ _ _ (guard_restore_allowtags _) ?_
      | with_reducible refine Keeps.k_SaveAndSet _ _ _ (guard_restore_in_loop _) ?_
      | with_reducible refine Keeps.k_SaveAndSet _ _ _ (guard_restore_one_error _) ?_
      | with_reducible refine Keeps.k_bind ?_ fun _ => ?_
      | with_reducible refine Keeps.k_ite ?_ ?_
      | split
      | dsimp only)

theorem Keeps_parse_case (h14 : P Expr) (h : Keeps h14) (pstmt : Option Int → Bool → P StmtResult) (hp : ∀ a b, Keeps (pstmt a b)) (fuel : Nat) :
    Keeps (parse_case h14 pstmt fuel) := by
  have hloop := Keeps_parse_case_loop h14 h fuel
  unfold parse_case
  repeat (first
    | with_reducible exact Keeps.k_pure _
    | with_reducible exact Keeps.k_failure
    | with_reducible assumption
    | with_reducible exact Keeps_matchtoken _
    | with_reducible exact Keeps_needtoken _
    | with_reducible exact Keeps_needsymbol
    | with_reducible exact Keeps_matchsymbol
    | with_reducible exact Keeps_lex
    | with_reducible exact Keeps_lextok
    | with_reducible exact Keeps_lexpush
    | with_reducible exact Keeps_lexpeek _
    | with_reducible exact Keeps_error _
    | with_reducible exact Keeps_current_pos
    | with_reducible exact Keeps_freading
    | with_reducible exact Keeps_get
    | with_reducible exact Keeps_lexclr _
    | with_reducible exact Keeps_nextop _
    | with_reducible exact Keeps_close_parens _
    | with_reducible exact Keeps_nowarn _
    | with_reducible exact hloop _
    | with_reducible exact hp _ _
    | with_reducible refine Keeps.k_bind ?_ fun _ => ?_
    | with_reducible refine Keeps.k_ite ?_ ?_
    | split
    | dsimp only)

theorem Keeps_parse_switch_loop (h14 : P Expr) (h : Keeps h14) (pstmt : Option Int → Bool → P StmtResult) (hp : ∀ a b, Keeps (pstmt a b)) :
    ∀ fuel x0 x1, Keeps (parse_switch_loop h14 pstmt fuel x0 x1) := by
  intro fuel
  induction fuel with
  | zero =>
    intro _ _
    exact Keeps.k_failure
  | succ n ih =>
    intro _ _
    have hsub := Keeps_parse_case h14 h pstmt hp n
    unfold parse_switch_loop
    repeat (first
      | with_reducible exact Keeps.k_pure _
      | with_reducible exact Keeps.k_failure
      | with_reducible assumption
      | with_reducible exact Keeps_matchtoken _
      | with_reducible exact Keeps_needtoken _
      | with_reducible exact Keeps_needsymbol
      | with_reducible exact Keeps_matchsymbol
      | with_reducible exact Keeps_lex
      | with_reducible exact Keeps_lextok
      | with_reducible exact Keeps_lexpush
      | with_reducible exact Keeps_lexpeek _
      | with_reducible exact Keeps_error _
      | with_reducible exact Keeps_current_pos
      | with_reducible exact Keeps_freading
      | with_reducible exact Keeps_get
      | with_reducible exact Keeps_lexclr _
      | with_reducible exact Keeps_nextop _
      | with_reducible exact Keeps_close_parens _
      | with_reducible exact Keeps_nowarn _
      | with_reducible exact ih _ _
      | with_reducible exact hp _ _
      | with_reducible refine Keeps.k_bind ?_ fun _ => ?_
      | with_reducible refine Keeps.k_ite ?_ ?_
      | split
      | dsimp only)

theorem Keeps_parse_switch (h14 : P Expr) (h : Keeps h14) (pstmt : Option Int → Bool → P StmtResult) (hp : ∀ a b, Keeps (pstmt a b)) (fuel : Nat) :
    Keeps (parse_switch h14 pstmt fuel) := by
  have hloop := Keeps_parse_switch_loop h14 h pstmt hp fuel
  have hsub := Keeps_parse_expr h14 h fuel
  unfold parse_switch
  repeat (first
    | with_reducible exact Keeps.k_pure _
    | with_reducible exact Keeps.k_failure
    | with_reducible assumption
    | with_reducible exact Keeps_matchtoken _
    | with_reducible exact Keeps_needtoken _
    | with_reducible exact Keeps_needsymbol
    | with_reducible exact Keeps_matchsymbol
    | with_reducible exact Keeps_lex
    | with_reducible exact Keeps_lextok
    | with_reducible exact Keeps_lexpush
    | with_reducible exact Keeps_lexpeek _
    | with_reducible exact Keeps_error _
    | with_reducible exact Keeps_current_pos
    | with_reducible exact Keeps_freading
    | with_reducible exact Keeps_get
    | with_reducible exact Keeps_lexclr _
    | with_reducible exact Keeps_nextop _
    | with_reducible exact Keeps_close_parens _
    | with_reducible exact Keeps_nowarn _
    | with_reducible exact hloop _ _
    | with_reducible exact hsub _
    | with_reducible refine Keeps.k_bind ?_ fun _ => ?_
    | with_reducible refine Keeps.k_ite ?_ ?_
    | split
    | dsimp only)

set_option maxRecDepth 10000 in
set_option maxHeartbeats 4000000 in
theorem Keeps_parse_stmt (L : OpLists) (E : Externals) (hE : E.keeps) :
    ∀ fuel lastindent allow_decl, Keeps (parse_stmt L E fuel lastindent allow_decl) := by
  intro fuel
  induction fuel with
  | zero =>
    intro _ _
    exact Keeps.k_failure
  | succ n ih =>
    intro _ _
    have h14 := Keeps_hier14 L E hE n
    have hld := Keeps_parse_local_decl E hE _ h14 n
    have hes := Keeps_parse_expr_stmt _ h14 n
    have hif := Keeps_parse_if _ h14 _ ih n
    have hco := Keeps_parse_const E hE n
    have hen := Keeps_parse_enum E hE _ h14 n
    have hcp := Keeps_parse_compound _ ih n
    have hpe := Keeps_parse_expr _ h14 n
    have hfo := Keeps_parse_for E hE _ h14 _ ih n
    have hsw := Keeps_parse_switch _ h14 _ ih n
    have hreset := Keeps_errorset
    unfold parse_stmt
    repeat (first
      | with_reducible exact Keeps.k_pure _
      | with_reducible exact Keeps.k_failure
      | with_reducible assumption
      | with_reducible exact Keeps_matchtoken _
      | with_reducible exact Keeps_needtoken _
      | with_reducible exact Keeps_needsymbol
      | with_reducible exact Keeps_matchsymbol
      | with_reducible exact Keeps_lex
      | with_reducible exact Keeps_lextok
      | with_reducible exact Keeps_lexpush
      | with_reducible exact Keeps_lexpeek _
      | with_reducible exact Keeps_error _
      | with_reducible exact Keeps_current_pos
      | with_reducible exact Keeps_freading
      | with_reducible exact Keeps_get
      | with_reducible exact Keeps_lexclr _
      | with_reducible exact Keeps_nextop _
      | with_reducible exact Keeps_close_parens _
      | with_reducible exact Keeps_nowarn _
      | with_reducible exact ih _ _
      | with_reducible exact hld _ _
      | with_reducible exact hes _
      | with_reducible exact hco _
      | with_reducible exact hen _
      | with_reducible exact hcp _
      | with_reducible exact hpe _
      | with_reducible refine Keeps.k_SaveAndSet _ _ _ (guard_restore_intest _) ?_
      | with_reducible refine Keeps.k_SaveAndSet _ _ _ (guard_restore_allowtags _) ?_
      | with_reducible refine Keeps.k_SaveAndSet _ _ _ (guard_restore_in_loop _) ?_
      | with_reducible refine Keeps.k_SaveAndSet _ _ _ (guard_restore_one_error _) ?_
      | with_reducible refine Keeps.k_bind ?_ fun _ => ?_
      | with_reducible refine Keeps.k_ite ?_ ?_
      | split
      | dsimp only)

theorem Keeps_struct_init_loop  :
    ∀ fuel x0, Keeps (struct_init_loop fuel x0) := by
  intro fuel
  induction fuel with
  | zero =>
    intro _
    exact Keeps.k_failure
  | succ n ih =>
    intro _
    unfold struct_init_loop
    repeat (first
      | with_reducible exact Keeps.k_pure _
      | with_reducible exact Keeps.k_failure
      | with_reducible assumption
      | with_reducible exact Keeps_matchtoken _
      | with_reducible exact Keeps_needtoken _
      | with_reducible exact Keeps_needsymbol
      | with_reducible exact Keeps_matchsymbol
      | with_reducible exact Keeps_lex
      | with_reducible exact Keeps_lextok
      | with_reducible exact Keeps_lexpush
      | with_reducible exact Keeps_lexpeek _
      | with_reducible exact Keeps_error _
      | with_reducible exact Keeps_current_pos
      | with_reducible exact Keeps_freading
      | with_reducible exact Keeps_get
      | with_reducible exact Keeps_lexclr _
      | with_reducible exact Keeps_nextop _
      | with_reducible exact Keeps_close_parens _
      | with_reducible exact Keeps_nowarn _
      | with_reducible exact ih _
      | with_reducible refine Keeps.k_bind ?_ fun _ => ?_
      | with_reducible refine Keeps.k_ite ?_ ?_
      | split
      | dsimp only)

theorem Keeps_struct_init (fuel : Nat) : Keeps (struct_init fuel) := by
  have hloop := Keeps_struct_init_loop fuel
  unfold struct_init
  repeat (first
    | with_reducible exact Keeps.k_pure _
    | with_reducible exact Keeps.k_failure
    | with_reducible assumption
    | with_reducible exact Keeps_matchtoken _
    | with_reducible exact Keeps_needtoken _
    | with_reducible exact Keeps_needsymbol
    | with_reducible exact Keeps_matchsymbol
    | with_reducible exact Keeps_lex
    | with_reducible exact Keeps_lextok
    | with_reducible exact Keeps_lexpush
    | with_reducible exact Keeps_lexpeek _
    | with_reducible exact Keeps_error _
    | with_reducible exact Keeps_current_pos
    | with_reducible exact Keeps_freading
    | with_reducible exact Keeps_get
    | with_reducible exact Keeps_lexclr _
    | with_reducible exact Keeps_nextop _
    | with_reducible exact Keeps_close_parens _
    | with_reducible exact Keeps_nowarn _
    | with_reducible exact hloop _
    | with_reducible refine Keeps.k_bind ?_ fun _ => ?_
    | with_reducible refine Keeps.k_ite ?_ ?_
    | split
    | dsimp only)

theorem Keeps_parse_unknown_decl (E : Externals) (hE : E.keeps) (T : TopExternals) (hT : T.keeps)
    (h14 : P Expr) (h : Keeps h14) (fuel : Nat) (tok : token_t) :
    Keeps (parse_unknown_decl E T h14 fuel tok) := by
  have hsi := Keeps_struct_init fuel
  have hsub := Keeps_parse_var E hE h14 h fuel
  have e1 := hE.1; have e2 := hE.2.1; have e3 := hE.2.2.1; have e4 := hE.2.2.2.1; have e5 := hE.2.2.2.2.1; have e6 := hE.2.2.2.2.2
  have t1 := hT.1; have t2 := hT.2.1; have t3 := hT.2.2.1; have t4 := hT.2.2.2.1; have t5 := hT.2.2.2.2.1; have t6 := hT.2.2.2.2.2.1; have t7 := hT.2.2.2.2.2.2.1; have t8 := hT.2.2.2.2.2.2.2
  unfold parse_unknown_decl
  repeat (first
    | with_reducible exact Keeps.k_pure _
    | with_reducible exact Keeps.k_failure
    | with_reducible assumption
    | with_reducible exact Keeps_matchtoken _
    | with_reducible exact Keeps_needtoken _
    | with_reducible exact Keeps_needsymbol
    | with_reducible exact Keeps_matchsymbol
    | with_reducible exact Keeps_lex
    | with_reducible exact Keeps_lextok
    | with_reducible exact Keeps_lexpush
    | with_reducible exact Keeps_lexpeek _
    | with_reducible exact Keeps_error _
    | with_reducible exact Keeps_current_pos
    | with_reducible exact Keeps_freading
    | with_reducible exact Keeps_get
    | with_reducible exact Keeps_lexclr _
    | with_reducible exact Keeps_nextop _
    | with_reducible exact Keeps_close_parens _
    | with_reducible exact Keeps_nowarn _
    | with_reducible exact hsub _ _
    | with_reducible exact Keeps.k_liftE _ (e1 _)
    | with_reducible exact Keeps.k_liftE _ (e2 _)
    | with_reducible exact Keeps.k_liftE _ (e3 _ _)
    | with_reducible exact Keeps.k_liftE _ (e4 _ _)
    | with_reducible exact Keeps.k_liftE _ (e5 _ _)
    | with_reducible exact Keeps.k_liftE _ e6
    | with_reducible exact Keeps.k_modify _ (t1 _ _)
    | with_reducible exact Keeps.k_liftE _ (t2 _ _ _ _)
    | with_reducible exact Keeps.k_liftE _ t3
    | with_reducible exact Keeps.k_liftE _ (t4 _ _)
    | with_reducible exact Keeps.k_modify _ (t5 _)
    | with_reducible exact Keeps.k_modify _ t6
    | with_reducible exact Keeps.k_modify _ t7
    | with_reducible exact Keeps.k_modify _ (t8 _)
    | with_reducible refine Keeps.k_bind ?_ fun _ => ?_
    | with_reducible refine Keeps.k_ite ?_ ?_
    | split
    | dsimp only)

theorem Keeps_parse_pstruct_loop (T : TopExternals) (hT : T.keeps) :
    ∀ fuel x0, Keeps (parse_pstruct_loop T fuel x0) := by
  intro fuel
  induction fuel with
  | zero =>
    intro _
    exact Keeps.k_failure
  | succ n ih =>
    intro _
    have t1 := hT.1; have t2 := hT.2.1; have t3 := hT.2.2.1; have t4 := hT.2.2.2.1; have t5 := hT.2.2.2.2.1; have t6 := hT.2.2.2.2.2.1; have t7 := hT.2.2.2.2.2.2.1; have t8 := hT.2.2.2.2.2.2.2
    unfold parse_pstruct_loop
    repeat (first
      | with_reducible exact Keeps.k_pure _
      | with_reducible exact Keeps.k_failure
      | with_reducible assumption
      | with_reducible exact Keeps_matchtoken _
      | with_reducible exact Keeps_needtoken _
      | with_reducible exact Keeps_needsymbol
      | with_reducible exact Keeps_matchsymbol
      | with_reducible exact Keeps_lex
      | with_reducible exact Keeps_lextok
      | with_reducible exact Keeps_lexpush
      | with_reducible exact Keeps_lexpeek _
      | with_reducible exact Keeps_error _
      | with_reducible exact Keeps_current_pos
      | with_reducible exact Keeps_freading
      | with_reducible exact Keeps_get
      | with_reducible exact Keeps_lexclr _
      | with_reducible exact Keeps_nextop _
      | with_reducible exact Keeps_close_parens _
      | with_reducible exact Keeps_nowarn _
      | with_reducible exact ih _
      | with_reducible exact Keeps.k_modify _ (t1 _ _)
      | with_reducible exact Keeps.k_liftE _ (t2 _ _ _ _)
      | with_reducible exact Keeps.k_liftE _ t3
      | with_reducible exact Keeps.k_liftE _ (t4 _ _)
      | with_reducible exact Keeps.k_modify _ (t5 _)
      | with_reducible exact Keeps.k_modify _ t6
      | with_reducible exact Keeps.k_modify _ t7
      | with_reducible exact Keeps.k_modify _ (t8 _)
      | with_reducible refine Keeps.k_bind ?_ fun _ => ?_
      | with_reducible refine Keeps.k_ite ?_ ?_
      | split
      | dsimp only)

theorem Keeps_parse_pstruct (T : TopExternals) (hT : T.keeps) (fuel : Nat) :
    Keeps (parse_pstruct T fuel) := by
  have hloop := Keeps_parse_pstruct_loop T hT fuel
  unfold parse_pstruct
  repeat (first
    | with_reducible exact Keeps.k_pure _
    | with_reducible exact Keeps.k_failure
    | with_reducible assumption
    | with_reducible exact Keeps_matchtoken _
    | with_reducible exact Keeps_needtoken _
    | with_reducible exact Keeps_needsymbol
    | with_reducible exact Keeps_matchsymbol
    | with_reducible exact Keeps_lex
    | with_reducible exact Keeps_lextok
    | with_reducible exact Keeps_lexpush
    | with_reducible exact Keeps_lexpeek _
    | with_reducible exact Keeps_error _
    | with_reducible exact Keeps_current_pos
    | with_reducible exact Keeps_freading
    | with_reducible exact Keeps_get
    | with_reducible exact Keeps_lexclr _
    | with_reducible exact Keeps_nextop _
    | with_reducible exact Keeps_close_parens _
    | with_reducible exact Keeps_nowarn _
    | with_reducible exact hloop _
    | with_reducible refine Keeps.k_bind ?_ fun _ => ?_
    | with_reducible refine Keeps.k_ite ?_ ?_
    | split
    | dsimp only)

theorem Keeps_parse_typedef (T : TopExternals) (hT : T.keeps) : Keeps (parse_typedef T) := by
  have t1 := hT.1; have t2 := hT.2.1; have t3 := hT.2.2.1; have t4 := hT.2.2.2.1; have t5 := hT.2.2.2.2.1; have t6 := hT.2.2.2.2.2.1; have t7 := hT.2.2.2.2.2.2.1; have t8 := hT.2.2.2.2.2.2.2
  unfold parse_typedef
  repeat (first
    | with_reducible exact Keeps.k_pure _
    | with_reducible exact Keeps.k_failure
    | with_reducible assumption
    | with_reducible exact Keeps_matchtoken _
    | with_reducible exact Keeps_needtoken _
    | with_reducible exact Keeps_needsymbol
    | with_reducible exact Keeps_matchsymbol
    | with_reducible exact Keeps_lex
    | with_reducible exact Keeps_lextok
    | with_reducible exact Keeps_lexpush
    | with_reducible exact Keeps_lexpeek _
    | with_reducible exact Keeps_error _
    | with_reducible exact Keeps_current_pos
    | with_reducible exact Keeps_freading
    | with_reducible exact Keeps_get
    | with_reducible exact Keeps_lexclr _
    | with_reducible exact Keeps_nextop _
    | with_reducible exact Keeps_close_parens _
    | with_reducible exact Keeps_nowarn _
    | with_reducible exact Keeps.k_modify _ (t1 _ _)
    | with_reducible exact Keeps.k_liftE _ (t2 _ _ _ _)
    | with_reducible exact Keeps.k_liftE _ t3
    | with_reducible exact Keeps.k_liftE _ (t4 _ _)
    | with_reducible exact Keeps.k_modify _ (t5 _)
    | with_reducible exact Keeps.k_modify _ t6
    | with_reducible exact Keeps.k_modify _ t7
    | with_reducible exact Keeps.k_modify _ (t8 _)
    | with_reducible refine Keeps.k_bind ?_ fun _ => ?_
    | with_reducible refine Keeps.k_ite ?_ ?_
    | split
    | dsimp only)

theorem Keeps_parse_typeset_loop (T : TopExternals) (hT : T.keeps) :
    ∀ fuel x0, Keeps (parse_typeset_loop T fuel x0) := by
  intro fuel
  induction fuel with
  | zero =>
    intro _
    exact Keeps.k_failure
  | succ n ih =>
    intro _
    have t1 := hT.1; have t2 := hT.2.1; have t3 := hT.2.2.1; have t4 := hT.2.2.2.1; have t5 := hT.2.2.2.2.1; have t6 := hT.2.2.2.2.2.1; have t7 := hT.2.2.2.2.2.2.1; have t8 := hT.2.2.2.2.2.2.2
    unfold parse_typeset_loop
    repeat (first
      | with_reducible exact Keeps.k_pure _
      | with_reducible exact Keeps.k_failure
      | with_reducible assumption
      | with_reducible exact Keeps_matchtoken _
      | with_reducible exact Keeps_needtoken _
      | with_reducible exact Keeps_needsymbol
      | with_reducible exact Keeps_matchsymbol
      | with_reducible exact Keeps_lex
      | with_reducible exact Keeps_lextok
      | with_reducible exact Keeps_lexpush
      | with_reducible exact Keeps_lexpeek _
      | with_reducible exact Keeps_error _
      | with_reducible exact Keeps_current_pos
      | with_reducible exact Keeps_freading
      | with_reducible exact Keeps_get
      | with_reducible exact Keeps_lexclr _
      | with_reducible exact Keeps_nextop _
      | with_reducible exact Keeps_close_parens _
      | with_reducible exact Keeps_nowarn _
      | with_reducible exact ih _
      | with_reducible exact Keeps.k_modify _ (t1 _ _)
      | with_reducible exact Keeps.k_liftE _ (t2 _ _ _ _)
      | with_reducible exact Keeps.k_liftE _ t3
      | with_reducible exact Keeps.k_liftE _ (t4 _ _)
      | with_reducible exact Keeps.k_modify _ (t5 _)
      | with_reducible exact Keeps.k_modify _ t6
      | with_reducible exact Keeps.k_modify _ t7
      | with_reducible exact Keeps.k_modify _ (t8 _)
      | with_reducible refine Keeps.k_bind ?_ fun _ => ?_
      | with_reducible refine Keeps.k_ite ?_ ?_
      | split
      | dsimp only)

theorem Keeps_parse_typeset (T : TopExternals) (hT : T.keeps) (fuel : Nat) :
    Keeps (parse_typeset T fuel) := by
  have hloop := Keeps_parse_typeset_loop T hT fuel
  have t1 := hT.1; have t2 := hT.2.1; have t3 := hT.2.2.1; have t4 := hT.2.2.2.1; have t5 := hT.2.2.2.2.1; have t6 := hT.2.2.2.2.2.1; have t7 := hT.2.2.2.2.2.2.1; have t8 := hT.2.2.2.2.2.2.2
  unfold parse_typeset
  repeat (first
    | with_reducible exact Keeps.k_pure _
    | with_reducible exact Keeps.k_failure
    | with_reducible assumption
    | with_reducible exact Keeps_matchtoken _
    | with_reducible exact Keeps_needtoken _
    | with_reducible exact Keeps_needsymbol
    | with_reducible exact Keeps_matchsymbol
    | with_reducible exact Keeps_lex
    | with_reducible exact Keeps_lextok
    | with_reducible exact Keeps_lexpush
    | with_reducible exact Keeps_lexpeek _
    | with_reducible exact Keeps_error _
    | with_reducible exact Keeps_current_pos
    | with_reducible exact Keeps_freading
    | with_reducible exact Keeps_get
    | with_reducible exact Keeps_lexclr _
    | with_reducible exact Keeps_nextop _
    | with_reducible exact Keeps_close_parens _
    | with_reducible exact Keeps_nowarn _
    | with_reducible exact hloop _
    | with_reducible exact Keeps.k_modify _ (t1 _ _)
    | with_reducible exact Keeps.k_liftE _ (t2 _ _ _ _)
    | with_reducible exact Keeps.k_liftE _ t3
    | with_reducible exact Keeps.k_liftE _ (t4 _ _)
    | with_reducible exact Keeps.k_modify _ (t5 _)
    | with_reducible exact Keeps.k_modify _ t6
    | with_reducible exact Keeps.k_modify _ t7
    | with_reducible exact Keeps.k_modify _ (t8 _)
    | with_reducible refine Keeps.k_bind ?_ fun _ => ?_
    | with_reducible refine Keeps.k_ite ?_ ?_
    | split
    | dsimp only)

theorem Keeps_parse_using_validate : Keeps parse_using_validate := by
  unfold parse_using_validate
  repeat (first
    | with_reducible exact Keeps.k_pure _
    | with_reducible exact Keeps.k_failure
    | with_reducible assumption
    | with_reducible exact Keeps_matchtoken _
    | with_reducible exact Keeps_needtoken _
    | with_reducible exact Keeps_needsymbol
    | with_reducible exact Keeps_matchsymbol
    | with_reducible exact Keeps_lex
    | with_reducible exact Keeps_lextok
    | with_reducible exact Keeps_lexpush
    | with_reducible exact Keeps_lexpeek _
    | with_reducible exact Keeps_error _
    | with_reducible exact Keeps_current_pos
    | with_reducible exact Keeps_freading
    | with_reducible exact Keeps_get
    | with_reducible exact Keeps_lexclr _
    | with_reducible exact Keeps_nextop _
    | with_reducible exact Keeps_close_parens _
    | with_reducible exact Keeps_nowarn _
    | with_reducible refine Keeps.k_bind ?_ fun _ => ?_
    | with_reducible refine Keeps.k_ite ?_ ?_
    | split
    | dsimp only)

theorem Keeps_parse_using (T : TopExternals) (hT : T.keeps) : Keeps (parse_using T) := by
  have hv := Keeps_parse_using_validate
  have t1 := hT.1; have t2 := hT.2.1; have t3 := hT.2.2.1; have t4 := hT.2.2.2.1; have t5 := hT.2.2.2.2.1; have t6 := hT.2.2.2.2.2.1; have t7 := hT.2.2.2.2.2.2.1; have t8 := hT.2.2.2.2.2.2.2
  unfold parse_using
  repeat (first
    | with_reducible exact Keeps.k_pure _
    | with_reducible exact Keeps.k_failure
    | with_reducible assumption
    | with_reducible exact Keeps_matchtoken _
    | with_reducible exact Keeps_needtoken _
    | with_reducible exact Keeps_needsymbol
    | with_reducible exact Keeps_matchsymbol
    | with_reducible exact Keeps_lex
    | with_reducible exact Keeps_lextok
    | with_reducible exact Keeps_lexpush
    | with_reducible exact Keeps_lexpeek _
    | with_reducible exact Keeps_error _
    | with_reducible exact Keeps_current_pos
    | with_reducible exact Keeps_freading
    | with_reducible exact Keeps_get
    | with_reducible exact Keeps_lexclr _
    | with_reducible exact Keeps_nextop _
    | with_reducible exact Keeps_close_parens _
    | with_reducible exact Keeps_nowarn _
    | with_reducible exact Keeps.k_modify _ (t1 _ _)
    | with_reducible exact Keeps.k_liftE _ (t2 _ _ _ _)
    | with_reducible exact Keeps.k_liftE _ t3
    | with_reducible exact Keeps.k_liftE _ (t4 _ _)
    | with_reducible exact Keeps.k_modify _ (t5 _)
    | with_reducible exact Keeps.k_modify _ t6
    | with_reducible exact Keeps.k_modify _ t7
    | with_reducible exact Keeps.k_modify _ (t8 _)
    | with_reducible refine Keeps.k_bind ?_ fun _ => ?_
    | with_reducible refine Keeps.k_ite ?_ ?_
    | split
    | dsimp only)

theorem Keeps_parse_static_assert (E : Externals) (hE : E.keeps) (T : TopExternals) (hT : T.keeps) :
    Keeps (parse_static_assert E T) := by
  have e1 := hE.1; have e2 := hE.2.1; have e3 := hE.2.2.1; have e4 := hE.2.2.2.1; have e5 := hE.2.2.2.2.1; have e6 := hE.2.2.2.2.2
  have t1 := hT.1; have t2 := hT.2.1; have t3 := hT.2.2.1; have t4 := hT.2.2.2.1; have t5 := hT.2.2.2.2.1; have t6 := hT.2.2.2.2.2.1; have t7 := hT.2.2.2.2.2.2.1; have t8 := hT.2.2.2.2.2.2.2
  unfold parse_static_assert
  repeat (first
    | with_reducible exact Keeps.k_pure _
    | with_reducible exact Keeps.k_failure
    | with_reducible assumption
    | with_reducible exact Keeps_matchtoken _
    | with_reducible exact Keeps_needtoken _
    | with_reducible exact Keeps_needsymbol
    | with_reducible exact Keeps_matchsymbol
    | with_reducible exact Keeps_lex
    | with_reducible exact Keeps_lextok
    | with_reducible exact Keeps_lexpush
    | with_reducible exact Keeps_lexpeek _
    | with_reducible exact Keeps_error _
    | with_reducible exact Keeps_current_pos
    | with_reducible exact Keeps_freading
    | with_reducible exact Keeps_get
    | with_reducible exact Keeps_lexclr _
    | with_reducible exact Keeps_nextop _
    | with_reducible exact Keeps_close_parens _
    | with_reducible exact Keeps_nowarn _
    | with_reducible exact Keeps.k_liftE _ (e1 _)
    | with_reducible exact Keeps.k_liftE _ (e2 _)
    | with_reducible exact Keeps.k_liftE _ (e3 _ _)
    | with_reducible exact Keeps.k_liftE _ (e4 _ _)
    | with_reducible exact Keeps.k_liftE _ (e5 _ _)
    | with_reducible exact Keeps.k_liftE _ e6
    | with_reducible exact Keeps.k_modify _ (t1 _ _)
    | with_reducible exact Keeps.k_liftE _ (t2 _ _ _ _)
    | with_reducible exact Keeps.k_liftE _ t3
    | with_reducible exact Keeps.k_liftE _ (t4 _ _)
    | with_reducible exact Keeps.k_modify _ (t5 _)
    | with_reducible exact Keeps.k_modify _ t6
    | with_reducible exact Keeps.k_modify _ t7
    | with_reducible exact Keeps.k_modify _ (t8 _)
    | with_reducible refine Keeps.k_bind ?_ fun _ => ?_
    | with_reducible refine Keeps.k_ite ?_ ?_
    | split
    | dsimp only)

theorem Keeps_parse_toplevel (L : OpLists) (E : Externals) (hE : E.keeps) (T : TopExternals)
    (hT : T.keeps) (fuel : Nat) : Keeps (parse_toplevel L E T fuel) := by
  have h14 := Keeps_hier14 L E hE fuel
  have hud := Keeps_parse_unknown_decl E hE T hT _ h14 fuel
  have hsa := Keeps_parse_static_assert E hE T hT
  have htd := Keeps_parse_typedef T hT
  have hts := Keeps_parse_typeset T hT fuel
  have hps := Keeps_parse_pstruct T hT fuel
  have hco := Keeps_parse_const E hE fuel
  have hen := Keeps_parse_enum E hE _ h14 fuel
  have hus := Keeps_parse_using T hT
  have t1 := hT.1; have t2 := hT.2.1; have t3 := hT.2.2.1; have t4 := hT.2.2.2.1; have t5 := hT.2.2.2.2.1; have t6 := hT.2.2.2.2.2.1; have t7 := hT.2.2.2.2.2.2.1; have t8 := hT.2.2.2.2.2.2.2
  unfold parse_toplevel
  repeat (first
    | with_reducible exact Keeps.k_pure _
    | with_reducible exact Keeps.k_failure
    | with_reducible assumption
    | with_reducible exact Keeps_matchtoken _
    | with_reducible exact Keeps_needtoken _
    | with_reducible exact Keeps_needsymbol
    | with_reducible exact Keeps_matchsymbol
    | with_reducible exact Keeps_lex
    | with_reducible exact Keeps_lextok
    | with_reducible exact Keeps_lexpush
    | with_reducible exact Keeps_lexpeek _
    | with_reducible exact Keeps_error _
    | with_reducible exact Keeps_current_pos
    | with_reducible exact Keeps_freading
    | with_reducible exact Keeps_get
    | with_reducible exact Keeps_lexclr _
    | with_reducible exact Keeps_nextop _
    | with_reducible exact Keeps_close_parens _
    | with_reducible exact Keeps_nowarn _
    | with_reducible exact hud _
    | with_reducible exact hco _
    | with_reducible exact hen _
    | with_reducible exact Keeps.k_modify _ (t1 _ _)
    | with_reducible exact Keeps.k_liftE _ (t2 _ _ _ _)
    | with_reducible exact Keeps.k_liftE _ t3
    | with_reducible exact Keeps.k_liftE _ (t4 _ _)
    | with_reducible exact Keeps.k_modify _ (t5 _)
    | with_reducible exact Keeps.k_modify _ t6
    | with_reducible exact Keeps.k_modify _ t7
    | with_reducible exact Keeps.k_modify _ (t8 _)
    | with_reducible refine Keeps.k_bind ?_ fun _ => ?_
    | with_reducible refine Keeps.k_ite ?_ ?_
    | split
    | dsimp only)

theorem Keeps_parse_loop (L : OpLists) (E : Externals) (hE : E.keeps) (T : TopExternals)
    (hT : T.keeps) :
    ∀ fuel x0, Keeps (parse_loop L E T fuel x0) := by
  intro fuel
  induction fuel with
  | zero =>
    intro _
    exact Keeps.k_failure
  | succ n ih =>
    intro _
    have htl := Keeps_parse_toplevel L E hE T hT n
    have t1 := hT.1; have t2 := hT.2.1; have t3 := hT.2.2.1; have t4 := hT.2.2.2.1; have t5 := hT.2.2.2.2.1; have t6 := hT.2.2.2.2.2.1; have t7 := hT.2.2.2.2.2.2.1; have t8 := hT.2.2.2.2.2.2.2
    unfold parse_loop
    repeat (first
      | with_reducible exact Keeps.k_pure _
      | with_reducible exact Keeps.k_failure
      | with_reducible assumption
      | with_reducible exact Keeps_matchtoken _
      | with_reducible exact Keeps_needtoken _
      | with_reducible exact Keeps_needsymbol
      | with_reducible exact Keeps_matchsymbol
      | with_reducible exact Keeps_lex
      | with_reducible exact Keeps_lextok
      | with_reducible exact Keeps_lexpush
      | with_reducible exact Keeps_lexpeek _
      | with_reducible exact Keeps_error _
      | with_reducible exact Keeps_current_pos
      | with_reducible exact Keeps_freading
      | with_reducible exact Keeps_get
      | with_reducible exact Keeps_lexclr _
      | with_reducible exact Keeps_nextop _
      | with_reducible exact Keeps_close_parens _
      | with_reducible exact Keeps_nowarn _
      | with_reducible exact ih _
      | with_reducible exact Keeps.k_modify _ (t1 _ _)
      | with_reducible exact Keeps.k_liftE _ (t2 _ _ _ _)
      | with_reducible exact Keeps.k_liftE _ t3
      | with_reducible exact Keeps.k_liftE _ (t4 _ _)
      | with_reducible exact Keeps.k_modify _ (t5 _)
      | with_reducible exact Keeps.k_modify _ t6
      | with_reducible exact Keeps.k_modify _ t7
      | with_reducible exact Keeps.k_modify _ (t8 _)
      | with_reducible refine Keeps.k_bind ?_ fun _ => ?_
      | with_reducible refine Keeps.k_ite ?_ ?_
      | split
      | dsimp only)

theorem Keeps_parse (L : OpLists) (E : Externals) (hE : E.keeps) (T : TopExternals)
    (hT : T.keeps) (fuel : Nat) : Keeps (parse L E T fuel) := by
  have hloop := Keeps_parse_loop L E hE T hT fuel
  unfold parse
  repeat (first
    | with_reducible exact Keeps.k_pure _
    | with_reducible exact Keeps.k_failure
    | with_reducible assumption
    | with_reducible exact Keeps_matchtoken _
    | with_reducible exact Keeps_needtoken _
    | with_reducible exact Keeps_needsymbol
    | with_reducible exact Keeps_matchsymbol
    | with_reducible exact Keeps_lex
    | with_reducible exact Keeps_lextok
    | with_reducible exact Keeps_lexpush
    | with_reducible exact Keeps_lexpeek _
    | with_reducible exact Keeps_error _
    | with_reducible exact Keeps_current_pos
    | with_reducible exact Keeps_freading
    | with_reducible exact Keeps_get
    | with_reducible exact Keeps_lexclr _
    | with_reducible exact Keeps_nextop _
    | with_reducible exact Keeps_close_parens _
    | with_reducible exact Keeps_nowarn _
    | with_reducible exact hloop _
    | with_reducible refine Keeps.k_SaveAndSet _ _ _ (guard_restore_intest _) ?_
    | with_reducible refine Keeps.k_SaveAndSet _ _ _ (guard_restore_allowtags _) ?_
    | with_reducible refine Keeps.k_SaveAndSet _ _ _ (guard_restore_in_loop _) ?_
    | with_reducible refine Keeps.k_SaveAndSet _ _ _ (guard_restore_one_error _) ?_
    | with_reducible refine Keeps.k_bind ?_ fun _ => ?_
    | with_reducible refine Keeps.k_ite ?_ ?_
    | split
    | dsimp only)

theorem sample_externals_keeps : sample_externals.keeps :=
  ⟨fun _ _ => rfl, fun _ _ => rfl, fun _ _ _ => rfl, fun _ _ _ => rfl, fun _ _ _ => rfl,
    fun _ => rfl⟩

theorem sample_top_keeps : sample_top.keeps := by
  refine ⟨fun _ _ _ => rfl, fun _ _ _ _ _ => rfl, fun s => adv_guard s, fun d f s => ?_,
    fun p s => ?_, fun _ => rfl, fun _ => rfl, fun _ _ => rfl⟩
  · show (match s.rest with
      | _ :: nm :: _ => ((true, { d with name := nm.str }), s.adv.adv)
      | _ => ((false, d), s)).2.guard = s.guard
    split
    · simp
    · rfl
  · show (if s.peekTok.id = ch_semicolon then s.adv else s).guard = s.guard
    split
    · simp
    · rfl

/-- C27: every production returns with the flags `in_loop_`, `sc_intest`, `sc_allowtags`,
`sc_one_error_per_statement` and `sc_require_newdecls` as they were on entry, on every path on
which it returns, when the collaborators leave these flags unchanged: `parse`, its switch
`parse_toplevel` and the declarations it calls, `parse_stmt` and the statements it calls
(with `parse_for`, `parse_switch`, `parse_case`), `parse_expr`, `hier14`, `hier13`, `primary`
and the expression levels between them; the productions that reach `hier14` or `parse_stmt`
through a parameter do so for every such parameter that keeps the flags. -/
theorem scoped_guards_restored (L : OpLists) (E : Externals) (T : TopExternals)
    (hE : E.keeps) (hT : T.keeps) :
    (∀ fuel, Keeps (parse L E T fuel)) ∧
    (∀ fuel, Keeps (parse_toplevel L E T fuel)) ∧
    (∀ fuel lastindent allow_decl, Keeps (parse_stmt L E fuel lastindent allow_decl)) ∧
    (∀ fuel, Keeps (hier14 L E fuel)) ∧
    (∀ h14, Keeps h14 →
      (∀ fuel parens, Keeps (parse_expr h14 fuel parens)) ∧
      (∀ fuel, Keeps (hier13 L E h14 fuel)) ∧
      (∀ fuel, Keeps (hier12 L E h14 fuel)) ∧
      (∀ fuel, Keeps (hier2 E h14 fuel)) ∧
      (∀ fuel, Keeps (hier1 E h14 fuel)) ∧
      (∀ fuel, Keeps (primary h14 fuel)) ∧
      (∀ fuel, Keeps (constant h14 fuel)) ∧
      (∀ fuel pos tok target, Keeps (parse_call h14 fuel pos tok target)) ∧
      (∀ fuel pos tag, Keeps (parse_new_array h14 fuel pos tag)) ∧
      Keeps (parse_view_as E h14) ∧
      (∀ fuel, Keeps (var_init h14 fuel)) ∧
      (∀ fuel decl params, Keeps (parse_var E h14 fuel decl params)) ∧
      (∀ fuel tokid autozero, Keeps (parse_local_decl E h14 fuel tokid autozero)) ∧
      (∀ fuel vclass, Keeps (parse_enum E h14 fuel vclass)) ∧
      (∀ fuel endtok, Keeps (parse_expr_stmt h14 fuel endtok)) ∧
      (∀ fuel, Keeps (parse_for_init E h14 fuel)) ∧
      (∀ fuel tok, Keeps (parse_unknown_decl E T h14 fuel tok)) ∧
      ∀ pstmt : Option Int → Bool → P StmtResult, (∀ a b, Keeps (pstmt a b)) →
        (∀ fuel, Keeps (parse_for E h14 pstmt fuel)) ∧
        (∀ fuel, Keeps (parse_switch h14 pstmt fuel)) ∧
        (∀ fuel, Keeps (parse_case h14 pstmt fuel)) ∧
        (∀ fuel, Keeps (parse_if h14 pstmt fuel)) ∧
        (∀ fuel sameline, Keeps (parse_compound pstmt fuel sameline))) ∧
    (∀ fuel vclass, Keeps (parse_const E fuel vclass)) ∧
    (∀ fuel, Keeps (struct_init fuel)) ∧
    (∀ fuel, Keeps (parse_pstruct T fuel)) ∧
    Keeps (parse_typedef T) ∧
    (∀ fuel, Keeps (parse_typeset T fuel)) ∧
    Keeps (parse_using T) ∧
    Keeps (parse_static_assert E T) :=
  ⟨Keeps_parse L E hE T hT, Keeps_parse_toplevel L E hE T hT, Keeps_parse_stmt L E hE,
    Keeps_hier14 L E hE,
    fun h14 h => ⟨Keeps_parse_expr h14 h, Keeps_hier13 L E hE h14 h, Keeps_hier12 L E hE h14 h,
      Keeps_hier2 E hE h14 h, Keeps_hier1 E hE h14 h, Keeps_primary h14 h, Keeps_constant h14 h,
      Keeps_parse_call h14 h, Keeps_parse_new_array h14 h, Keeps_parse_view_as E hE h14 h,
      Keeps_var_init h14 h, Keeps_parse_var E hE h14 h, Keeps_parse_local_decl E hE h14 h,
      Keeps_parse_enum E hE h14 h, Keeps_parse_expr_stmt h14 h, Keeps_parse_for_init E hE h14 h,
      Keeps_parse_unknown_decl E hE T hT h14 h,
      fun pstmt hp => ⟨Keeps_parse_for E hE h14 h pstmt hp, Keeps_parse_switch h14 h pstmt hp,
        Keeps_parse_case h14 h pstmt hp, Keeps_parse_if h14 h pstmt hp,
        Keeps_parse_compound pstmt hp⟩⟩,
    Keeps_parse_const E hE, Keeps_struct_init, Keeps_parse_pstruct T hT, Keeps_parse_typedef T hT,
    Keeps_parse_typeset T hT, Keeps_parse_using T hT, Keeps_parse_static_assert E hE T hT⟩

theorem scoped_guards_restored_witness :
    sample_externals.keeps ∧ sample_top.keeps ∧
      c27_state.guard = (false, true, false, false, false) ∧
      ∃ r, parse_stmt sample_lists sample_externals 20 none true c27_state = some r ∧
        r.1.1.isSome = true ∧ r.2.errors = [] ∧ r.2.guard = (false, true, false, false, false) := by
  refine ⟨sample_externals_keeps, sample_top_keeps, rfl, ?_⟩
  have hsome : ((parse_stmt sample_lists sample_externals 20 none true c27_state).map
      fun r => (r.1.1.isSome, r.2.errors)) = some (true, []) := by decide!
  cases h : parse_stmt sample_lists sample_externals 20 none true c27_state with
  | none => rw [h] at hsome; simp at hsome
  | some r =>
    obtain ⟨a, s'⟩ := r
    rw [h] at hsome
    simp only [Option.map_some', Option.some.injEq, Prod.mk.injEq] at hsome
    exact ⟨_, rfl, hsome.1, hsome.2,
      (scoped_guards_restored sample_lists sample_externals sample_top sample_externals_keeps
        sample_top_keeps).2.2.1 20 none true c27_state a s' h⟩

theorem hier12_operand (L : OpLists) (E : Externals) (h14 : P Expr) (m : Nat)
    (s : ParserState) (ha : s.peekTok.id = tNUMBER ∨ s.peekTok.id = tSYMBOL)
    (ht : after_operand s.adv.peekTok)
    (hno : ∀ l ∈ L.tables, s.adv.peekTok.id ∉ l ∧ tTERM ∉ l) :
    hier12 L E h14 (m + 2) s = some (operand s.peekTok, s.adv.peeked) := by
  have hmem : ∀ l, l ∈ L.tables → (∀ k ∈ l, s.adv.peeked.peekTok.id ≠ k) ∧ tTERM ∉ l := by
    intro l hl
    rw [peeked_peekTok]
    exact ⟨fun k hk hc => (hno l hl).1 (hc ▸ hk), (hno l hl).2⟩
  have hp : s.adv.peeked.peeked = s.adv.peeked := peeked_peeked _
  have h2 := hier2_operand E h14 m s ha ht
  have h3 := plnge_pass L.list3 _ (m + 2) s _ _ h2 hp
    (hmem _ (by simp [OpLists.tables])).1 (hmem _ (by simp [OpLists.tables])).2
  have h4 := plnge_pass L.list4 _ (m + 2) s _ _ h3 hp
    (hmem _ (by simp [OpLists.tables])).1 (hmem _ (by simp [OpLists.tables])).2
  have h5 := plnge_pass L.list5 _ (m + 2) s _ _ h4 hp
    (hmem _ (by simp [OpLists.tables])).1 (hmem _ (by simp [OpLists.tables])).2
  have h6 := plnge_pass L.list6 _ (m + 2) s _ _ h5 hp
    (hmem _ (by simp [OpLists.tables])).1 (hmem _ (by simp [OpLists.tables])).2
  have h7 := plnge_pass L.list7 _ (m + 2) s _ _ h6 hp
    (hmem _ (by simp [OpLists.tables])).1 (hmem _ (by simp [OpLists.tables])).2
  have h8 := plnge_pass L.list8 _ (m + 2) s _ _ h7 hp
    (hmem _ (by simp [OpLists.tables])).1 (hmem _ (by simp [OpLists.tables])).2
  have h9 := plnge_rel_pass L.list9 _ (m + 2) s _ _ h8 hp
    (hmem _ (by simp [OpLists.tables])).1 (hmem _ (by simp [OpLists.tables])).2
  have h10 := plnge_pass L.list10 _ (m + 2) s _ _ h9 hp
    (hmem _ (by simp [OpLists.tables])).1 (hmem _ (by simp [OpLists.tables])).2
  have h11 := plnge_pass L.list11 _ (m + 2) s _ _ h10 hp
    (hmem _ (by simp [OpLists.tables])).1 (hmem _ (by simp [OpLists.tables])).2
  exact plnge_pass L.list12 _ (m + 2) s _ _ h11 hp
    (hmem _ (by simp [OpLists.tables])).1 (hmem _ (by simp [OpLists.tables])).2

/-- One ternary: the condition by `hier12`, the then-branch by `hier13` with `sc_allowtags`
cleared, the else-branch by `hier13` with the flag restored. -/
theorem hier13_ternary_step (L : OpLists) (E : Externals) (h14 : P Expr) (n : Nat)
    (s s1 s2 s3 : ParserState) (a b c : Expr)
    (h12 : hier12 L E h14 n s = some (a, s1)) (hq : s1.peekTok.id = ch_question)
    (hthen : hier13 L E h14 n (set_sc_allowtags false s1.adv) = some (b, s2))
    (hcolon : s2.peekTok.id = ch_colon)
    (helse : hier13 L E h14 n (set_sc_allowtags s1.adv.sc_allowtags s2).adv = some (c, s3)) :
    hier13 L E h14 (n + 1) s = some (Expr.TernaryExpr s1.peekTok.start a b c, s3) := by
  unfold hier13
  refine run_bind h12 ?_
  refine run_bind (matchtoken_hit _ _ hq) ?_
  refine run_ite_pos rfl ?_
  refine run_bind (current_pos_run _) ?_
  refine run_bind (SaveAndSet_run (·.sc_allowtags) set_sc_allowtags false _ _ _ _ hthen) ?_
  refine run_bind (needtoken_hit _ _ hcolon) ?_
  refine run_bind helse ?_
  refine run_pure ?_ rfl
  rw [adv_current]

@[simp] theorem set_allowtags_rest (v : Bool) (s : ParserState) :
    (set_sc_allowtags v s).rest = s.rest := rfl

@[simp] theorem set_allowtags_errors (v : Bool) (s : ParserState) :
    (set_sc_allowtags v s).errors = s.errors := rfl

@[simp] theorem set_allowtags_flag (v : Bool) (s : ParserState) :
    (set_sc_allowtags v s).sc_allowtags = v := rfl

theorem adv_sc_allowtags (s : ParserState) : s.adv.sc_allowtags = s.sc_allowtags := by
  have := adv_flags s
  simp only [ParserState.flags, Prod.mk.injEq] at this
  exact this.2.2.1

theorem peeked_sc_allowtags (s : ParserState) : s.peeked.sc_allowtags = s.sc_allowtags := by
  have := peeked_flags s
  simp only [ParserState.flags, Prod.mk.injEq] at this
  exact this.2.2.1

theorem guard_sc_allowtags {s s' : ParserState} (h : s'.guard = s.guard) :
    s'.sc_allowtags = s.sc_allowtags := by
  simp only [ParserState.guard, Prod.mk.injEq] at h
  exact h.2.2.1

theorem after_operand_of_id {t : token_t} {k : TokenKind} (h : t.id = k)
    (hk : k ∉ [ch_dot, tDBLCOLON, ch_lbracket, ch_lparen, tINC, tDEC, tTERM, tENDEXPR]) :
    after_operand t := by
  unfold after_operand
  rw [h]
  exact hk

/-- A ternary of single tokens. -/
theorem hier13_ternary_operands (L : OpLists) (E : Externals) (h14 : P Expr)
    (hL : ∀ l ∈ L.tables, tTERM ∉ l ∧ ch_question ∉ l ∧ ch_colon ∉ l)
    (m : Nat) (s : ParserState) (a q b c1 c t : token_t) (r : List token_t)
    (hs : s.rest = a :: q :: b :: c1 :: c :: t :: r)
    (ha : a.id = tNUMBER ∨ a.id = tSYMBOL) (hq : q.id = ch_question)
    (hb : b.id = tNUMBER ∨ b.id = tSYMBOL) (hc1 : c1.id = ch_colon)
    (hc : c.id = tNUMBER ∨ c.id = tSYMBOL)
    (ht : after_operand t ∧ t.id ≠ ch_question ∧ ∀ l ∈ L.tables, t.id ∉ l) :
    ∃ s', hier13 L E h14 (m + 4) s =
        some (Expr.TernaryExpr q.start (operand a) (operand b) (operand c), s') ∧
      s'.rest = t :: r ∧ s'.errors = s.errors ∧ s'.sc_allowtags = s.sc_allowtags := by
  have q0 : s.peekTok = a := peekTok_cons hs
  have q1 : s.adv.peekTok = q := peekTok_cons (adv_rest_cons hs)
  have h12 := hier12_operand L E h14 (m + 1) s (by rw [q0]; exact ha)
    (by rw [q1]; exact after_operand_of_id hq (by decide))
    (fun l hl => ⟨by rw [q1, hq]; exact (hL l hl).2.1, (hL l hl).1⟩)
  -- the then-branch
  have hA : (set_sc_allowtags false s.adv.peeked.adv).rest = b :: c1 :: c :: t :: r := by
    rw [set_allowtags_rest, peeked_adv, adv_rest, adv_rest_cons hs]; rfl
  have a0 : (set_sc_allowtags false s.adv.peeked.adv).peekTok = b := peekTok_cons hA
  have a1 : (set_sc_allowtags false s.adv.peeked.adv).adv.peekTok = c1 :=
    peekTok_cons (adv_rest_cons hA)
  have hthen := hier13_operand L E h14 m (set_sc_allowtags false s.adv.peeked.adv)
    (by rw [a0]; exact hb) (by rw [a1]; exact after_operand_of_id hc1 (by decide))
    (by rw [a1, hc1]; decide)
    (fun l hl => ⟨by rw [a1, hc1]; exact (hL l hl).2.2, (hL l hl).1⟩)
  -- the else-branch
  have hB : (set_sc_allowtags s.adv.peeked.adv.sc_allowtags
      (set_sc_allowtags false s.adv.peeked.adv).adv.peeked).adv.rest = c :: t :: r := by
    rw [adv_rest, set_allowtags_rest, peeked_rest, adv_rest_cons hA]; rfl
  have b0 := peekTok_cons hB
  have b1 := peekTok_cons (adv_rest_cons hB)
  have helse := hier13_operand L E h14 m _
    (by rw [b0]; exact hc) (by rw [b1]; exact ht.1) (by rw [b1]; exact ht.2.1)
    (fun l hl => ⟨by rw [b1]; exact ht.2.2 l hl, (hL l hl).1⟩)
  have hstep := hier13_ternary_step L E h14 (m + 3) s _ _ _ _ _ _ h12
    (by rw [peeked_peekTok, q1]; exact hq) hthen
    (by rw [peeked_peekTok, a1]; exact hc1) helse
  rw [peeked_peekTok, q1, q0, a0, b0] at hstep
  refine ⟨_, hstep, ?_, ?_, ?_⟩
  · rw [peeked_rest, adv_rest_cons hB]
  · simp
  · rw [peeked_sc_allowtags, adv_sc_allowtags, adv_sc_allowtags, set_allowtags_flag,
      adv_sc_allowtags, peeked_sc_allowtags, adv_sc_allowtags]

/-- Two ternaries of single tokens, the second in the else-branch of the first. -/
theorem hier13_ternary_nested (L : OpLists) (E : Externals) (h14 : P Expr)
    (hL : ∀ l ∈ L.tables, tTERM ∉ l ∧ ch_question ∉ l ∧ ch_colon ∉ l)
    (m : Nat) (s : ParserState) (a q1 b c1 c q2 d c2 e t : token_t) (r : List token_t)
    (hs : s.rest = a :: q1 :: b :: c1 :: c :: q2 :: d :: c2 :: e :: t :: r)
    (ha : a.id = tNUMBER ∨ a.id = tSYMBOL) (hq1 : q1.id = ch_question)
    (hb : b.id = tNUMBER ∨ b.id = tSYMBOL) (hc1 : c1.id = ch_colon)
    (hc : c.id = tNUMBER ∨ c.id = tSYMBOL) (hq2 : q2.id = ch_question)
    (hd : d.id = tNUMBER ∨ d.id = tSYMBOL) (hc2 : c2.id = ch_colon)
    (he : e.id = tNUMBER ∨ e.id = tSYMBOL)
    (ht : after_operand t ∧ t.id ≠ ch_question ∧ ∀ l ∈ L.tables, t.id ∉ l) :
    ∃ s', hier13 L E h14 (m + 5) s =
        some (Expr.TernaryExpr q1.start (operand a) (operand b)
          (Expr.TernaryExpr q2.start (operand c) (operand d) (operand e)), s') ∧
      s'.rest = t :: r ∧ s'.errors = s.errors ∧ s'.sc_allowtags = s.sc_allowtags := by
  have q0 : s.peekTok = a := peekTok_cons hs
  have q1' : s.adv.peekTok = q1 := peekTok_cons (adv_rest_cons hs)
  have h12 := hier12_operand L E h14 (m + 2) s (by rw [q0]; exact ha)
    (by rw [q1']; exact after_operand_of_id hq1 (by decide))
    (fun l hl => ⟨by rw [q1', hq1]; exact (hL l hl).2.1, (hL l hl).1⟩)
  have hA : (set_sc_allowtags false s.adv.peeked.adv).rest =
      b :: c1 :: c :: q2 :: d :: c2 :: e :: t :: r := by
    rw [set_allowtags_rest, peeked_adv, adv_rest, adv_rest_cons hs]; rfl
  have a0 : (set_sc_allowtags false s.adv.peeked.adv).peekTok = b := peekTok_cons hA
  have a1 : (set_sc_allowtags false s.adv.peeked.adv).adv.peekTok = c1 :=
    peekTok_cons (adv_rest_cons hA)
  have hthen := hier13_operand L E h14 (m + 1) (set_sc_allowtags false s.adv.peeked.adv)
    (by rw [a0]; exact hb) (by rw [a1]; exact after_operand_of_id hc1 (by decide))
    (by rw [a1, hc1]; decide)
    (fun l hl => ⟨by rw [a1, hc1]; exact (hL l hl).2.2, (hL l hl).1⟩)
  have hB : (set_sc_allowtags s.adv.peeked.adv.sc_allowtags
      (set_sc_allowtags false s.adv.peeked.adv).adv.peeked).adv.rest =
      c :: q2 :: d :: c2 :: e :: t :: r := by
    rw [adv_rest, set_allowtags_rest, peeked_rest, adv_rest_cons hA]; rfl
  obtain ⟨s', helse, hr, herr, hflag⟩ :=
    hier13_ternary_operands L E h14 hL m _ c q2 d c2 e t r hB hc hq2 hd hc2 he ht
  have hstep := hier13_ternary_step L E h14 (m + 4) s _ _ _ _ _ _ h12
    (by rw [peeked_peekTok, q1']; exact hq1) hthen
    (by rw [peeked_peekTok, a1]; exact hc1) helse
  rw [peeked_peekTok, q1', q0, a0] at hstep
  refine ⟨s', hstep, hr, ?_, ?_⟩
  · rw [herr]; simp
  · rw [hflag, adv_sc_allowtags, set_allowtags_flag, adv_sc_allowtags, peeked_sc_allowtags,
      adv_sc_allowtags]

/-- C25, as the code has it: the ternary operator is right-associative and enters its
then-branch with tag casts disabled. When `hier12` parses the condition, `?` follows, `hier13`
parses the then-branch from the state in which `sc_allowtags` is cleared, `:` follows and
`hier13` parses the else-branch from the state in which the flag is restored, `hier13` returns
the `TernaryExpr` of the three; `sc_allowtags` is false when the parse of the then-branch starts
and when it ends, and has the entry value of `hier13` when the parse of the else-branch starts
and when `hier13` returns. For single tokens, `a ? b : c ? d : e` gives
`TernaryExpr(a, b, TernaryExpr(c, d, e))`. -/
theorem hier13_ternary_right_assoc (L : OpLists) (E : Externals) (hE : E.keeps) (h14 : P Expr)
    (hk : Keeps h14)
    (hL : ∀ l ∈ L.tables, tTERM ∉ l ∧ ch_question ∉ l ∧ ch_colon ∉ l) :
    (∀ (n : Nat) (s s1 s2 s3 : ParserState) (a b c : Expr),
      hier12 L E h14 n s = some (a, s1) → s1.peekTok.id = ch_question →
      hier13 L E h14 n (set_sc_allowtags false s1.adv) = some (b, s2) →
      s2.peekTok.id = ch_colon →
      hier13 L E h14 n (set_sc_allowtags s1.adv.sc_allowtags s2).adv = some (c, s3) →
      hier13 L E h14 (n + 1) s = some (Expr.TernaryExpr s1.peekTok.start a b c, s3) ∧
        (set_sc_allowtags false s1.adv).sc_allowtags = false ∧ s2.sc_allowtags = false ∧
        (set_sc_allowtags s1.adv.sc_allowtags s2).adv.sc_allowtags = s.sc_allowtags ∧
        s3.sc_allowtags = s.sc_allowtags) ∧
    ∀ (m : Nat) (s : ParserState) (a q1 b c1 c q2 d c2 e t : token_t) (r : List token_t),
      s.rest = a :: q1 :: b :: c1 :: c :: q2 :: d :: c2 :: e :: t :: r →
      (a.id = tNUMBER ∨ a.id = tSYMBOL) → q1.id = ch_question →
      (b.id = tNUMBER ∨ b.id = tSYMBOL) → c1.id = ch_colon →
      (c.id = tNUMBER ∨ c.id = tSYMBOL) → q2.id = ch_question →
      (d.id = tNUMBER ∨ d.id = tSYMBOL) → c2.id = ch_colon →
      (e.id = tNUMBER ∨ e.id = tSYMBOL) →
      (after_operand t ∧ t.id ≠ ch_question ∧ ∀ l ∈ L.tables, t.id ∉ l) →
      ∃ s', hier13 L E h14 (m + 5) s =
          some (Expr.TernaryExpr q1.start (operand a) (operand b)
            (Expr.TernaryExpr q2.start (operand c) (operand d) (operand e)), s') ∧
        s'.rest = t :: r ∧ s'.errors = s.errors ∧ s'.sc_allowtags = s.sc_allowtags := by
  refine ⟨fun n s s1 s2 s3 a b c h12 hq hthen hcolon helse => ?_,
    fun m s a q1 b c1 c q2 d c2 e t r hs ha hq1 hb hc1 hc hq2 hd hc2 he ht =>
      hier13_ternary_nested L E h14 hL m s a q1 b c1 c q2 d c2 e t r hs ha hq1 hb hc1 hc hq2 hd
        hc2 he ht⟩
  have f1 := guard_sc_allowtags (Keeps_hier12 L E hE h14 hk n _ _ _ h12)
  have f2 := guard_sc_allowtags (Keeps_hier13 L E hE h14 hk n _ _ _ hthen)
  have f3 := guard_sc_allowtags (Keeps_hier13 L E hE h14 hk n _ _ _ helse)
  have f4 : (set_sc_allowtags s1.adv.sc_allowtags s2).adv.sc_allowtags = s.sc_allowtags := by
    rw [adv_sc_allowtags, set_allowtags_flag, adv_sc_allowtags, f1]
  exact ⟨hier13_ternary_step L E h14 n s s1 s2 s3 a b c h12 hq hthen hcolon helse, rfl,
    by rw [f2]; rfl, f4, by rw [f3, f4]⟩

theorem hier13_ternary_right_assoc_witness :
    ∃ s', hier13 sample_lists sample_externals (hier14 sample_lists sample_externals 8) 8
          (init_state c25_tokens) =
        some (.TernaryExpr ⟨1, 1⟩ (.SymbolExpr ⟨1, 0⟩ "a") (.SymbolExpr ⟨1, 2⟩ "b")
          (.TernaryExpr ⟨1, 5⟩ (.SymbolExpr ⟨1, 4⟩ "c") (.SymbolExpr ⟨1, 6⟩ "d")
            (.SymbolExpr ⟨1, 8⟩ "e")), s') ∧
      s'.rest = [tk ch_semicolon 9] ∧ s'.errors = [] ∧ s'.sc_allowtags = true :=
  (hier13_ternary_right_assoc sample_lists sample_externals sample_externals_keeps
    (hier14 sample_lists sample_externals 8)
    (Keeps_hier14 sample_lists sample_externals sample_externals_keeps 8) (by decide)).2 3
    (init_state c25_tokens) (sym "a" 0) (tk ch_question 1) (sym "b" 2) (tk ch_colon 3)
    (sym "c" 4) (tk ch_question 5) (sym "d" 6) (tk ch_colon 7) (sym "e" 8) (tk ch_semicolon 9) []
    rfl (Or.inr rfl) rfl (Or.inr rfl) rfl (Or.inr rfl) rfl (Or.inr rfl) rfl (Or.inr rfl)
    ⟨by unfold after_operand; decide, by decide, by decide⟩

/-- C25 fails as stated: in `a ? ( b ) : c` the then-branch `( b )` is entered with
`sc_allowtags` cleared, and `hier14` is entered for `b` with the flag set: the parse of the
then-branch, and that of the whole ternary, yield nothing once `hier14` is restricted to the
states in which the flag is cleared, and their result when it is restricted to the states in
which it is set. -/
theorem then_branch_sets_allowtags :
    set_sc_allowtags false (init_state c25_paren_tokens).adv.peeked.adv = c25_then_state ∧
    c25_then_state.sc_allowtags = false ∧
    (hier13 sample_lists sample_externals (hier14 sample_lists sample_externals 8) 8
        c25_then_state).map (fun x => (x.1, x.2.sc_allowtags)) =
      some (.CommaExpr ⟨1, 2⟩ [.SymbolExpr ⟨1, 3⟩ "b"], false) ∧
    hier13 sample_lists sample_externals
        (watched (fun t => !t.sc_allowtags) (hier14 sample_lists sample_externals 8)) 8
        c25_then_state = none ∧
    (hier13 sample_lists sample_externals
        (watched (fun t => t.sc_allowtags) (hier14 sample_lists sample_externals 8)) 8
        c25_then_state).map (fun x => x.1) =
      some (.CommaExpr ⟨1, 2⟩ [.SymbolExpr ⟨1, 3⟩ "b"]) ∧
    (hier13 sample_lists sample_externals (hier14 sample_lists sample_externals 8) 8
        (init_state c25_paren_tokens)).map (fun x => x.1) =
      some (.TernaryExpr ⟨1, 1⟩ (.SymbolExpr ⟨1, 0⟩ "a")
        (.CommaExpr ⟨1, 2⟩ [.SymbolExpr ⟨1, 3⟩ "b"]) (.SymbolExpr ⟨1, 6⟩ "c")) ∧
    hier13 sample_lists sample_externals
        (watched (fun t => !t.sc_allowtags) (hier14 sample_lists sample_externals 8)) 8
        (init_state c25_paren_tokens) = none := by
  refine ⟨by decide!, rfl, by decide!, by decide!, by decide!, by decide!, by decide!⟩

theorem nextop_from_none (opstr : List TokenKind) (hterm : tTERM ∉ opstr) :
    ∀ (s : ParserState), (∀ k ∈ opstr, s.peekTok.id ≠ k) →
      ∀ idx, ∃ s2, nextop_from idx opstr s = some (none, s2) ∧ (s2 = s ∨ s2 = s.peeked) := by
  induction opstr with
  | nil => intro s _ idx; exact ⟨s, rfl, Or.inl rfl⟩
  | cons op ops ih =>
    intro s h idx
    obtain ⟨s2, h2, hn⟩ := ih (fun hc => hterm (List.mem_cons_of_mem _ hc)) s.peeked
      (fun k hk => by rw [peeked_peekTok]; exact h k (List.mem_cons_of_mem _ hk)) (idx + 1)
    refine ⟨s2, ?_, Or.inr ?_⟩
    · unfold nextop_from
      refine run_bind (matchtoken_miss op s (h op (List.mem_cons_self _ _))
        (fun hc => hterm (hc ▸ List.mem_cons_self _ _))) ?_
      refine run_ite_neg (by decide) ?_
      exact h2
    · rcases hn with hn | hn
      · exact hn
      · rw [hn, peeked_peeked]

theorem plnge_near (opstr : List TokenKind) (hier : P Expr) (fuel : Nat) (s s1 s2 : ParserState)
    (e : Expr) (h : hier s = some (e, s2)) (hn : s2 = s1 ∨ s2 = s1.peeked)
    (hno : ∀ k ∈ opstr, s1.peekTok.id ≠ k) (hterm : tTERM ∉ opstr) :
    ∃ s3, plnge opstr hier fuel s = some (e, s3) ∧ (s3 = s1 ∨ s3 = s1.peeked) := by
  have hp : s2.peekTok = s1.peekTok := by
    rcases hn with hn | hn
    · rw [hn]
    · rw [hn, peeked_peekTok]
  obtain ⟨s3, h3, hn3⟩ := nextop_from_none opstr hterm s2 (by rw [hp]; exact hno) 0
  refine ⟨s3, ?_, ?_⟩
  · unfold plnge
    refine run_bind h ?_
    refine run_bind h3 ?_
    rfl
  · rcases hn with hn | hn <;> rcases hn3 with hn3 | hn3 <;> subst hn <;> subst hn3
    · exact Or.inl rfl
    · exact Or.inr rfl
    · exact Or.inr rfl
    · exact Or.inr (peeked_peeked _)

theorem plnge_rel_near (opstr : List TokenKind) (hier : P Expr) (fuel : Nat)
    (s s1 s2 : ParserState) (e : Expr) (h : hier s = some (e, s2))
    (hn : s2 = s1 ∨ s2 = s1.peeked)
    (hno : ∀ k ∈ opstr, s1.peekTok.id ≠ k) (hterm : tTERM ∉ opstr) :
    ∃ s3, plnge_rel opstr hier fuel s = some (e, s3) ∧ (s3 = s1 ∨ s3 = s1.peeked) := by
  have hp : s2.peekTok = s1.peekTok := by
    rcases hn with hn | hn
    · rw [hn]
    · rw [hn, peeked_peekTok]
  obtain ⟨s3, h3, hn3⟩ := nextop_from_none opstr hterm s2 (by rw [hp]; exact hno) 0
  refine ⟨s3, ?_, ?_⟩
  · unfold plnge_rel
    refine run_bind h ?_
    refine run_bind h3 ?_
    rfl
  · rcases hn with hn | hn <;> rcases hn3 with hn3 | hn3 <;> subst hn <;> subst hn3
    · exact Or.inl rfl
    · exact Or.inr rfl
    · exact Or.inr rfl
    · exact Or.inr (peeked_peeked _)

/-- The levels 3 to 12 hand a result of `hier2` through when the next token is none of their
operators. -/
theorem hier12_near (L : OpLists) (E : Externals) (h14 : P Expr) (n : Nat)
    (s s1 : ParserState) (e : Expr) (h : hier2 E h14 n s = some (e, s1))
    (hno : ∀ l ∈ L.tables, s1.peekTok.id ∉ l ∧ tTERM ∉ l) :
    ∃ s3, hier12 L E h14 n s = some (e, s3) ∧ (s3 = s1 ∨ s3 = s1.peeked) := by
  have hmem : ∀ l, l ∈ L.tables → (∀ k ∈ l, s1.peekTok.id ≠ k) ∧ tTERM ∉ l := by
    intro l hl
    exact ⟨fun k hk hc => (hno l hl).1 (hc ▸ hk), (hno l hl).2⟩
  obtain ⟨t3, h3, n3⟩ := plnge_near L.list3 _ n s s1 s1 e h (Or.inl rfl)
    (hmem _ (by simp [OpLists.tables])).1 (hmem _ (by simp [OpLists.tables])).2
  obtain ⟨t4, h4, n4⟩ := plnge_near L.list4 _ n s s1 t3 e h3 n3
    (hmem _ (by simp [OpLists.tables])).1 (hmem _ (by simp [OpLists.tables])).2
  obtain ⟨t5, h5, n5⟩ := plnge_near L.list5 _ n s s1 t4 e h4 n4
    (hmem _ (by simp [OpLists.tables])).1 (hmem _ (by simp [OpLists.tables])).2
  obtain ⟨t6, h6, n6⟩ := plnge_near L.list6 _ n s s1 t5 e h5 n5
    (hmem _ (by simp [OpLists.tables])).1 (hmem _ (by simp [OpLists.tables])).2
  obtain ⟨t7, h7, n7⟩ := plnge_near L.list7 _ n s s1 t6 e h6 n6
    (hmem _ (by simp [OpLists.tables])).1 (hmem _ (by simp [OpLists.tables])).2
  obtain ⟨t8, h8, n8⟩ := plnge_near L.list8 _ n s s1 t7 e h7 n7
    (hmem _ (by simp [OpLists.tables])).1 (hmem _ (by simp [OpLists.tables])).2
  obtain ⟨t9, h9, n9⟩ := plnge_rel_near L.list9 _ n s s1 t8 e h8 n8
    (hmem _ (by simp [OpLists.tables])).1 (hmem _ (by simp [OpLists.tables])).2
  obtain ⟨t10, h10, n10⟩ := plnge_near L.list10 _ n s s1 t9 e h9 n9
    (hmem _ (by simp [OpLists.tables])).1 (hmem _ (by simp [OpLists.tables])).2
  obtain ⟨t11, h11, n11⟩ := plnge_near L.list11 _ n s s1 t10 e h10 n10
    (hmem _ (by simp [OpLists.tables])).1 (hmem _ (by simp [OpLists.tables])).2
  exact plnge_near L.list12 _ n s s1 t11 e h11 n11
    (hmem _ (by simp [OpLists.tables])).1 (hmem _ (by simp [OpLists.tables])).2

/-- The levels 3 to 14 hand a result of `hier2` through when the next token continues no
expression. -/
theorem hier14_of_hier2 (L : OpLists) (E : Externals) (n : Nat) (s s1 : ParserState) (e : Expr)
    (h : hier2 E (hier14 L E (n + 2)) (n + 1) s = some (e, s1))
    (hno : ∀ l ∈ L.tables, s1.peekTok.id ∉ l ∧ tTERM ∉ l)
    (hq : s1.peekTok.id ≠ ch_question)
    (ha : s1.peekTok.id ∉ assign_ops) (he : s1.peekTok.id ≠ ch_assign) :
    hier14 L E (n + 3) s = some (e, s1.peeked) := by
  obtain ⟨s3, h12, hn⟩ := hier12_near L E _ (n + 1) s s1 e h hno
  have hp : s3.peekTok = s1.peekTok := by
    rcases hn with hn | hn
    · rw [hn]
    · rw [hn, peeked_peekTok]
  have hpp : s3.peeked = s1.peeked := by
    rcases hn with hn | hn
    · rw [hn]
    · rw [hn, peeked_peeked]
  have h13 : hier13 L E (hier14 L E (n + 2)) (n + 2) s = some (e, s1.peeked) := by
    unfold hier13
    refine run_bind h12 ?_
    refine run_bind (matchtoken_miss _ _ (by rw [hp]; exact hq) (by decide)) ?_
    refine run_ite_neg (by decide) ?_
    exact run_pure rfl hpp
  exact hier14_pass L E (n + 2) s _ e h13 (peeked_peeked _)
    (by rw [peeked_peekTok]; exact ha) (by rw [peeked_peekTok]; exact he)

theorem matchsymbol_hit (s : ParserState) (h : s.peekTok.id = tSYMBOL) :
    matchsymbol s = some (some s.peekTok.str, s.adv) := by
  unfold matchsymbol
  refine run_bind (matchtoken_hit _ _ h) ?_
  refine run_ite_pos rfl ?_
  refine run_bind (get_run _) ?_
  rw [adv_current]
  rfl

/-- In `hier2`, `new Name (` leads to `parse_call` with the target `SymbolExpr(Name)`. -/
theorem hier2_new_call (E : Externals) (h14 : P Expr) (n : Nat) (s : ParserState)
    (nw nm lp : token_t) (r : List token_t) (hs : s.rest = nw :: nm :: lp :: r)
    (hnw : nw.id = tNEW) (hnm : nm.id = tSYMBOL) (hlp : lp.id = ch_lparen) :
    hier2 E h14 (n + 1) s =
      parse_call h14 n nw.start tNEW (Expr.SymbolExpr lp.start nm.str) s.adv.adv.adv := by
  have q0 : s.peekTok = nw := peekTok_cons hs
  have q1 : s.adv.peekTok = nm := peekTok_cons (adv_rest_cons hs)
  have q2 : s.adv.adv.peekTok = lp := peekTok_cons (adv_rest_cons (adv_rest_cons hs))
  unfold hier2
  refine run_bind (lex_run _) ?_
  refine run_bind (current_pos_run _) ?_
  rw [q0, adv_current, q0]
  refine run_ite_neg (by rw [hnw]; decide) ?_
  refine run_ite_neg (by rw [hnw]; decide) ?_
  refine run_ite_pos hnw ?_
  refine run_bind (matchsymbol_hit _ (by rw [q1]; exact hnm)) ?_
  refine run_bind (matchtoken_hit _ _ (by rw [q2]; exact hlp)) ?_
  refine run_ite_pos rfl ?_
  refine run_bind (current_pos_run _) ?_
  rw [adv_current, q2, q1, hnw]

theorem parse_call_empty (h14 : P Expr) (fuel : Nat) (pos : token_pos_t) (tok : TokenKind)
    (target : Expr) (s : ParserState) (hs : s.peekTok.id = ch_rparen) :
    parse_call h14 fuel pos tok target s = some (Expr.CallExpr pos tok target [], s.adv) := by
  unfold parse_call
  refine run_bind (matchtoken_hit _ _ hs) ?_
  rfl

theorem parse_call_args (h14 : P Expr) (fuel : Nat) (pos : token_pos_t) (tok : TokenKind)
    (target : Expr) (s s' : ParserState) (args : List (Option String × Option Expr))
    (hs : s.peekTok.id ≠ ch_rparen) (hrun : ArgRun h14 [] s.peeked args s')
    (hf : args.length ≤ fuel) :
    parse_call h14 fuel pos tok target s = some (Expr.CallExpr pos tok target args, s') := by
  unfold parse_call
  refine run_bind (matchtoken_miss _ _ hs (by decide)) ?_
  refine run_ite_neg (by decide) ?_
  refine run_bind (ArgRun.arg_loop h14 [] s.peeked args s' hrun fuel hf) ?_
  rfl

theorem indent_check_run (lastindent : Option Int) (tok : token_t) (s : ParserState)
    (ht : tok.id ≠ tLABEL) :
    (do
      match lastindent with
      | some li =>
        if tok.id ≠ TokenKind.tLABEL then
          let s ← get
          if li ≥ 0 ∧ li ≠ s.stmtindent ∧ s.indent_nowarn = false ∧ s.sc_tabsize > 0 then
            error 217
          modify fun s => { s with indent_nowarn := false }
          return some s.stmtindent
        else
          return some li
      | none => return none : P (Option Int)) s = some (indent_check lastindent s) := by
  cases lastindent with
  | none => rfl
  | some li =>
    dsimp only
    refine run_ite_pos ht ?_
    refine run_bind (get_run _) ?_
    unfold indent_check
    by_cases hw : li ≥ 0 ∧ li ≠ s.stmtindent ∧ s.indent_nowarn = false ∧ s.sc_tabsize > 0
    · simp only [bind_run, ite_run, if_pos hw, error_run, Option.bind, pure_run, modify_run]
    · simp only [bind_run, ite_run, if_neg hw, error_run, Option.bind, pure_run, modify_run]

theorem indent_check_rest (li : Option Int) (s : ParserState) :
    (indent_check li s).2.rest = s.rest ∧ (indent_check li s).2.consumed = s.consumed := by
  unfold indent_check
  cases li with
  | none => exact ⟨rfl, rfl⟩
  | some l =>
    dsimp only
    split <;> exact ⟨rfl, rfl⟩

/-- The statement `new Name ( ... ) ;` in terms of the call parsed by `parse_call`. -/
theorem parse_stmt_new_call_of (L : OpLists) (E : Externals)
    (hL : ∀ l ∈ L.tables, tTERM ∉ l ∧ ch_semicolon ∉ l)
    (n : Nat) (li : Option Int) (allow_decl : Bool) (s s' : ParserState)
    (nw nm lp : token_t) (r : List token_t) (e : Expr)
    (hs : s.rest = nw :: nm :: lp :: r) (hnw : nw.id = tNEW) (hnm : nm.id = tSYMBOL)
    (hlp : lp.id = ch_lparen)
    (hcall : parse_call (hier14 L E (n + 2)) n nw.start tNEW
      (Expr.SymbolExpr lp.start nm.str) (new_call_entry li s) = some (e, s'))
    (hsemi : s'.peekTok.id = ch_semicolon) :
    ∃ sF, parse_stmt L E (n + 4) li allow_decl s =
        some ((some (Stmt.ExprStmt e.pos e), (indent_check li (set_one_error true s).reset.adv).1),
          sF) ∧
      sF.rest = s'.rest.tail ∧ sF.errors = s'.errors := by
  have hs0 : (set_one_error true s).reset.rest = nw :: nm :: lp :: r := hs
  have hp0 : (set_one_error true s).reset.peekTok = nw := peekTok_cons hs0
  have hli := indent_check_run li nw (set_one_error true s).reset.adv (by rw [hnw]; decide)
  obtain ⟨hr2, hc2⟩ := indent_check_rest li (set_one_error true s).reset.adv
  rw [adv_rest_cons hs0] at hr2
  rw [adv_consumed_cons hs0] at hc2
  -- the look-ahead for a call
  have hp2 := peekTok_cons hr2
  have hc3 : (indent_check li (set_one_error true s).reset.adv).2.adv.peeked.consumed =
      some nm :: some nw :: (set_one_error true s).reset.consumed := by
    rw [peeked_consumed, adv_consumed_cons hr2, hc2]
  have hr3 : (indent_check li (set_one_error true s).reset.adv).2.adv.peeked.rest = lp :: r := by
    rw [peeked_rest, adv_rest_cons hr2]
  have hp3 : (indent_check li (set_one_error true s).reset.adv).2.adv.peekTok = lp :=
    peekTok_cons (adv_rest_cons hr2)
  have hr4 : (indent_check li (set_one_error true s).reset.adv).2.adv.peeked.unlex.rest =
      nm :: lp :: r := by
    rw [unlex_rest_cons hc3, hr3]
  have hc4 : (indent_check li (set_one_error true s).reset.adv).2.adv.peeked.unlex.consumed =
      some nw :: (set_one_error true s).reset.consumed := unlex_consumed_cons hc3
  have hr5 : (indent_check li (set_one_error true s).reset.adv).2.adv.peeked.unlex.unlex.rest =
      nw :: nm :: lp :: r := by
    rw [unlex_rest_cons hc4, hr4]
  have hr6 : (set_sc_intest false
      (indent_check li (set_one_error true s).reset.adv).2.adv.peeked.unlex.unlex).rest =
      nw :: nm :: lp :: r := hr5
  -- the expression
  have h2 := hier2_new_call E (hier14 L E (n + 2)) n _ nw nm lp r hr6 hnw hnm hlp
  have h14 := hier14_of_hier2 L E n _ s' e (h2.trans hcall)
    (fun l hl => ⟨by rw [hsemi]; exact (hL l hl).2, (hL l hl).1⟩)
    (by rw [hsemi]; decide) (by rw [hsemi]; decide) (by rw [hsemi]; decide)
  have hexpr : parse_expr (hier14 L E (n + 3)) (n + 3) false
      (indent_check li (set_one_error true s).reset.adv).2.adv.peeked.unlex.unlex =
      some (e, set_sc_intest
        (indent_check li (set_one_error true s).reset.adv).2.adv.peeked.unlex.unlex.sc_intest
        s'.peeked.peeked) := by
    unfold parse_expr
    refine SaveAndSet_run (·.sc_intest) set_sc_intest false _ _ _ _ ?_
    refine run_bind (run_pure rfl rfl) ?_
    refine run_bind (?_ : parse_expr_loop (hier14 L E (n + 3)) (n + 3) none _ =
      some (e, s'.peeked.peeked)) ?_
    · unfold parse_expr_loop
      refine run_bind h14 ?_
      refine run_bind (matchtoken_miss _ _ (by rw [peeked_peekTok, hsemi]; decide)
        (by decide)) ?_
      rfl
    · refine run_bind (run_pure rfl rfl) ?_
      rfl
  refine ⟨set_one_error s.sc_one_error_per_statement (set_sc_intest
      (indent_check li (set_one_error true s).reset.adv).2.adv.peeked.unlex.unlex.sc_intest
      s'.peeked.peeked).adv, ?_, ?_, ?_⟩
  · unfold parse_stmt
    refine SaveAndSet_run (·.sc_one_error_per_statement) set_one_error true _ _ _ _ ?_
    refine run_bind (freading_run _) ?_
    refine run_ite_neg (by rw [show (set_one_error true s).rest = _ from hs]; simp) ?_
    refine run_bind (errorset_run _) ?_
    refine run_bind (lex_run _) ?_
    rw [hp0]
    refine run_bind hli ?_
    refine run_bind (run_ite_neg (by rw [hnw]; decide) (run_pure rfl rfl)) ?_
    refine run_ite_neg (by decide) ?_
    have hstmt : ∀ (m : P (Option Stmt)) (x : Option Stmt) (st : ParserState)
        (l : Option Int) (s2 : ParserState), m s2 = some (x, st) →
        (m >>= fun stmt => (pure (stmt, l) : P StmtResult)) s2 = some ((x, l), st) := by
      intro m x st l s2 h
      rw [bind_run, h]
      rfl
    refine hstmt _ _ _ _ _ ?_
    refine run_ite_neg (by rw [hnw]; decide) ?_
    refine run_ite_pos (by rw [hnw]; decide) ?_
    refine run_ite_neg (by rw [hnw]; decide) ?_
    refine run_bind (run_pure rfl rfl) ?_
    refine run_bind (?_ : _ = some (true,
      (indent_check li (set_one_error true s).reset.adv).2.adv.peeked.unlex)) ?_
    · refine run_ite_pos hnw ?_
      refine run_bind (matchtoken_hit _ (indent_check li (set_one_error true s).reset.adv).2
        (by rw [hp2]; exact hnm)) ?_
      refine run_ite_pos rfl ?_
      refine run_bind (lexpeek_run _ _) ?_
      refine run_bind (lexpush_run _) ?_
      rw [hp3, hlp]
      rfl
    · refine run_ite_pos rfl ?_
      refine run_bind (lexpush_run _) ?_
      unfold parse_expr_stmt
      refine run_bind hexpr ?_
      refine run_bind (needtoken_term_semicolon _ ?_) ?_
      · show (set_sc_intest _ s'.peeked.peeked).peekTok.id = ch_semicolon
        have : (set_sc_intest
            (indent_check li (set_one_error true s).reset.adv).2.adv.peeked.unlex.unlex.sc_intest
            s'.peeked.peeked).peekTok = s'.peeked.peeked.peekTok := rfl
        rw [this, peeked_peekTok, peeked_peekTok]
        exact hsemi
      · rfl
  · show (set_sc_intest _ s'.peeked.peeked).adv.rest = _
    rw [adv_rest]
    show s'.peeked.peeked.rest.tail = _
    rw [peeked_rest, peeked_rest]
  · show (set_sc_intest _ s'.peeked.peeked).adv.errors = _
    rw [adv_errors]
    show s'.peeked.peeked.errors = _
    rw [peeked_errors, peeked_errors]

/-- C26: the statement `new Name ( args ) ;`. For every `lastindent` and `allow_decl`,
declarations allowed or not, `parse_stmt` takes the expression path: `parse_call` starts
behind the opening parenthesis, and for a well-formed argument list (the course of `ArgRun`)
followed by `;` the statement is the `ExprStmt` of the `CallExpr` with the token `new`, the
target `SymbolExpr(Name)` and the arguments in source order with their names; an empty list
gives no arguments. -/
theorem parse_stmt_new_call (L : OpLists) (E : Externals)
    (hL : ∀ l ∈ L.tables, tTERM ∉ l ∧ ch_semicolon ∉ l)
    (n : Nat) (li : Option Int) (allow_decl : Bool) (s : ParserState)
    (nw nm lp : token_t) (r : List token_t)
    (hs : s.rest = nw :: nm :: lp :: r) (hnw : nw.id = tNEW) (hnm : nm.id = tSYMBOL)
    (hlp : lp.id = ch_lparen) :
    (new_call_entry li s).rest = r ∧
    (∀ (args : List (Option String × Option Expr)) (s' : ParserState),
      (new_call_entry li s).peekTok.id ≠ ch_rparen →
      ArgRun (hier14 L E (n + 2)) [] (new_call_entry li s).peeked args s' →
      args.length ≤ n → s'.peekTok.id = ch_semicolon →
      ∃ sF, parse_stmt L E (n + 4) li allow_decl s =
          some ((some (Stmt.ExprStmt nw.start (Expr.CallExpr nw.start tNEW
            (Expr.SymbolExpr lp.start nm.str) args)),
            (indent_check li (set_one_error true s).reset.adv).1), sF) ∧
        sF.rest = s'.rest.tail ∧ sF.errors = s'.errors) ∧
    ((new_call_entry li s).peekTok.id = ch_rparen →
      (new_call_entry li s).adv.peekTok.id = ch_semicolon →
      ∃ sF, parse_stmt L E (n + 4) li allow_decl s =
          some ((some (Stmt.ExprStmt nw.start (Expr.CallExpr nw.start tNEW
            (Expr.SymbolExpr lp.start nm.str) [])),
            (indent_check li (set_one_error true s).reset.adv).1), sF) ∧
        sF.rest = r.tail.tail ∧ sF.errors = (new_call_entry li s).errors) := by
  have hr : (new_call_entry li s).rest = r := by
    have hs0 : (set_one_error true s).reset.rest = nw :: nm :: lp :: r := hs
    obtain ⟨hr2, hc2⟩ := indent_check_rest li (set_one_error true s).reset.adv
    rw [adv_rest_cons hs0] at hr2
    rw [adv_consumed_cons hs0] at hc2
    have hc3 : (indent_check li (set_one_error true s).reset.adv).2.adv.peeked.consumed =
        some nm :: some nw :: (set_one_error true s).reset.consumed := by
      rw [peeked_consumed, adv_consumed_cons hr2, hc2]
    have hr3 : (indent_check li (set_one_error true s).reset.adv).2.adv.peeked.rest = lp :: r := by
      rw [peeked_rest, adv_rest_cons hr2]
    have hr4 : (indent_check li (set_one_error true s).reset.adv).2.adv.peeked.unlex.rest =
        nm :: lp :: r := by
      rw [unlex_rest_cons hc3, hr3]
    have hc4 : (indent_check li (set_one_error true s).reset.adv).2.adv.peeked.unlex.consumed =
        some nw :: (set_one_error true s).reset.consumed := unlex_consumed_cons hc3
    have hr5 : (indent_check li (set_one_error true s).reset.adv).2.adv.peeked.unlex.unlex.rest =
        nw :: nm :: lp :: r := by
      rw [unlex_rest_cons hc4, hr4]
    have hr6 : (set_sc_intest false
        (indent_check li (set_one_error true s).reset.adv).2.adv.peeked.unlex.unlex).rest =
        nw :: nm :: lp :: r := hr5
    unfold new_call_entry
    exact adv_rest_cons (adv_rest_cons (adv_rest_cons hr6))
  refine ⟨hr, fun args s' hne hrun hlen hsemi => ?_, fun hclose hsemi => ?_⟩
  · exact parse_stmt_new_call_of L E hL n li allow_decl s s' nw nm lp r _ hs hnw hnm hlp
      (parse_call_args _ n _ _ _ _ s' args hne hrun hlen) hsemi
  · obtain ⟨sF, h1, h2, h3⟩ := parse_stmt_new_call_of L E hL n li allow_decl s _ nw nm lp r _
      hs hnw hnm hlp (parse_call_empty _ n _ _ _ _ hclose) hsemi
    refine ⟨sF, h1, ?_, ?_⟩
    · rw [h2, adv_rest, hr]
    · rw [h3, adv_errors]


theorem parse_stmt_new_call_witness :
    (parse_stmt sample_lists sample_externals 6 none true (init_state c26_tokens)).map
        (fun x => (x.1, x.2.rest, x.2.errors)) = some ((some c26_stmt, none), [], []) ∧
    (parse_stmt sample_lists sample_externals 6 (some 4) false (init_state c26_tokens)).map
        (fun x => (x.1, x.2.rest, x.2.errors)) = some ((some c26_stmt, some 0), [], [217]) ∧
    ∃ sF, parse_stmt sample_lists sample_externals (2 + 4) none true (init_state c26_tokens) =
        some ((some (Stmt.ExprStmt (tk tNEW 0).start (Expr.CallExpr (tk tNEW 0).start tNEW
          (Expr.SymbolExpr (tk ch_lparen 2).start (sym "Foo" 1).str) c26_args)),
          (indent_check none (set_one_error true (init_state c26_tokens)).reset.adv).1), sF) ∧
      sF.rest = (c26_state 9).adv.rest.tail ∧ sF.errors = (c26_state 9).adv.errors :=
  ⟨by decide!, by decide!,
    (parse_stmt_new_call sample_lists sample_externals (by decide) 2 none true
      (init_state c26_tokens) (tk tNEW 0) (sym "Foo" 1) (tk ch_lparen 2) _ rfl rfl rfl rfl).2.1
      c26_args (c26_state 9).adv (by decide!)
      (ArgRun.more _ _ _ _ (c26_state 4) _ _ _
        (ArgHead.positional _ _ (by decide!))
        (ArgValue.expr _ _ (Expr.NumberExpr ⟨1, 3⟩ 1) (by decide!) (by decide!))
        (by decide!) (by decide!) (by decide!)
        (ArgRun.last _ _ _ (c26_state 9) _ _
          (ArgHead.named _ _ (by decide!) (by decide!) (by decide!))
          (ArgValue.expr _ _ (Expr.NumberExpr ⟨1, 8⟩ 2) (by decide!) (by decide!))
          (by decide!)))
      (by decide) (by decide!)⟩

theorem guard_in_loop {s s' : ParserState} (h : s'.guard = s.guard) :
    s'.in_loop_ = s.in_loop_ := by
  simp only [ParserState.guard, Prod.mk.injEq] at h
  exact h.1

section samein
variable {α β : Type}

theorem SameIn.s_keeps {b : Bool} {m : P α} (h : Keeps m) : SameIn b m m := by
  intro s hs
  exact ⟨rfl, fun a s' hm => (guard_in_loop (h s a s' hm)).trans hs⟩

theorem SameIn.s_bind {b : Bool} {m1 m2 : P α} {f1 f2 : α → P β} (h : SameIn b m1 m2)
    (hf : ∀ a, SameIn b (f1 a) (f2 a)) : SameIn b (m1 >>= f1) (m2 >>= f2) := by
  intro s hs
  obtain ⟨h1, h2⟩ := h s hs
  rw [bind_run, bind_run, h1]
  cases hm : m2 s with
  | none => exact ⟨rfl, fun a s' h => by simp at h⟩
  | some r =>
    obtain ⟨a, s1⟩ := r
    exact hf a s1 (h2 a s1 hm)

theorem SameIn.s_ite {b : Bool} {c : Prop} [Decidable c] {m1 m2 n1 n2 : P α}
    (h1 : SameIn b m1 m2) (h2 : SameIn b n1 n2) :
    SameIn b (if c then m1 else n1) (if c then m2 else n2) := by
  split
  · exact h1
  · exact h2

/-- A production that keeps the flags is never entered outside the states it is restricted
to when these are the states with `in_loop_` equal to `b`. -/
theorem SameIn.s_watched {b : Bool} {m : P α} (h : Keeps m) :
    SameIn b (watched (fun t => t.in_loop_ == b) m) m := by
  intro s hs
  refine ⟨?_, fun a s' hm => (guard_in_loop (h s a s' hm)).trans hs⟩
  unfold watched
  simp [hs]

/-- Under the guard that sets `in_loop_`, the body is entered with the flag set, whatever the
flag was. -/
theorem SameIn.s_loop_body {b : Bool} (m : P α) :
    SameIn b (SaveAndSet (·.in_loop_) set_in_loop true (watched (fun t => t.in_loop_) m))
      (SaveAndSet (·.in_loop_) set_in_loop true m) := by
  intro s hs
  refine ⟨?_, fun a s' hm => ?_⟩
  · unfold SaveAndSet watched
    rfl
  · rw [SaveAndSet_map] at hm
    cases hb : m (set_in_loop true s) with
    | none => rw [hb] at hm; simp at hm
    | some r =>
      rw [hb] at hm
      simp only [Option.map_some', Option.some.injEq, Prod.mk.injEq] at hm
      rw [← hm.2]
      exact hs

theorem SameIn.s_SaveAndSet {b : Bool} {m1 m2 : P α} (g : ParserState → Bool)
    (f : Bool → ParserState → ParserState) (v : Bool)
    (hf : ∀ v s, (f v s).in_loop_ = s.in_loop_) (h : SameIn b m1 m2) :
    SameIn b (SaveAndSet g f v m1) (SaveAndSet g f v m2) := by
  intro s hs
  obtain ⟨h1, h2⟩ := h (f v s) ((hf v s).trans hs)
  refine ⟨?_, fun a s' hm => ?_⟩
  · rw [SaveAndSet_map, SaveAndSet_map, h1]
  · rw [SaveAndSet_map] at hm
    cases hb : m2 (f v s) with
    | none => rw [hb] at hm; simp at hm
    | some r =>
      rw [hb] at hm
      simp only [Option.map_some', Option.some.injEq, Prod.mk.injEq] at hm
      rw [← hm.2, hf]
      exact h2 _ _ hb

end samein

theorem SameIn_var_init_loop (b : Bool) (vi' vi : P Expr) (h : SameIn b vi' vi) :
    ∀ fuel x0, SameIn b (var_init_loop vi' fuel x0) (var_init_loop vi fuel x0) := by
  intro fuel
  induction fuel with
  | zero =>
    intro _
    exact SameIn.s_keeps Keeps.k_failure
  | succ n ih =>
    intro _
    unfold var_init_loop
    repeat (first
      | with_reducible exact SameIn.s_keeps (Keeps.k_pure _)
      | with_reducible exact SameIn.s_keeps (Keeps.k_failure)
      | with_reducible exact SameIn.s_keeps (Keeps_matchtoken _)
      | with_reducible exact SameIn.s_keeps (Keeps_needtoken _)
      | with_reducible exact SameIn.s_keeps (Keeps_needsymbol)
      | with_reducible exact SameIn.s_keeps (Keeps_matchsymbol)
      | with_reducible exact SameIn.s_keeps (Keeps_lex)
      | with_reducible exact SameIn.s_keeps (Keeps_lextok)
      | with_reducible exact SameIn.s_keeps (Keeps_lexpush)
      | with_reducible exact SameIn.s_keeps (Keeps_lexpeek _)
      | with_reducible exact SameIn.s_keeps (Keeps_error _)
      | with_reducible exact SameIn.s_keeps (Keeps_current_pos)
      | with_reducible exact SameIn.s_keeps (Keeps_freading)
      | with_reducible exact SameIn.s_keeps (Keeps_get)
      | with_reducible exact SameIn.s_keeps (Keeps_lexclr _)
      | with_reducible exact SameIn.s_keeps (Keeps_errorset)
      | with_reducible exact SameIn.s_keeps (Keeps_adjust_stmtindent)
      | with_reducible exact SameIn.s_keeps (Keeps_nowarn _)
      | with_reducible assumption
      | with_reducible exact ih _
      | refine SameIn.s_SaveAndSet _ _ _ (fun _ _ => rfl) ?_
      | with_reducible refine SameIn.s_bind ?_ fun _ => ?_
      | with_reducible refine SameIn.s_ite ?_ ?_
      | split
      | dsimp only)

theorem SameIn_var_init (b : Bool) (h14' h14 : P Expr) (h : SameIn b h14' h14) :
    ∀ fuel, SameIn b (var_init h14' fuel) (var_init h14 fuel) := by
  intro fuel
  induction fuel with
  | zero => exact SameIn.s_keeps Keeps.k_failure
  | succ n ih =>
    have hloop := SameIn_var_init_loop b _ _ ih n
    unfold var_init
    repeat (first
      | with_reducible exact SameIn.s_keeps (Keeps.k_pure _)
      | with_reducible exact SameIn.s_keeps (Keeps.k_failure)
      | with_reducible exact SameIn.s_keeps (Keeps_matchtoken _)
      | with_reducible exact SameIn.s_keeps (Keeps_needtoken _)
      | with_reducible exact SameIn.s_keeps (Keeps_needsymbol)
      | with_reducible exact SameIn.s_keeps (Keeps_matchsymbol)
      | with_reducible exact SameIn.s_keeps (Keeps_lex)
      | with_reducible exact SameIn.s_keeps (Keeps_lextok)
      | with_reducible exact SameIn.s_keeps (Keeps_lexpush)
      | with_reducible exact SameIn.s_keeps (Keeps_lexpeek _)
      | with_reducible exact SameIn.s_keeps (Keeps_error _)
      | with_reducible exact SameIn.s_keeps (Keeps_current_pos)
      | with_reducible exact SameIn.s_keeps (Keeps_freading)
      | with_reducible exact SameIn.s_keeps (Keeps_get)
      | with_reducible exact SameIn.s_keeps (Keeps_lexclr _)
      | with_reducible exact SameIn.s_keeps (Keeps_errorset)
      | with_reducible exact SameIn.s_keeps (Keeps_adjust_stmtindent)
      | with_reducible exact SameIn.s_keeps (Keeps_nowarn _)
      | with_reducible assumption
      | with_reducible exact hloop _
      | refine SameIn.s_SaveAndSet _ _ _ (fun _ _ => rfl) ?_
      | with_reducible refine SameIn.s_bind ?_ fun _ => ?_
      | with_reducible refine SameIn.s_ite ?_ ?_
      | split
      | dsimp only)

theorem SameIn_parse_expr_loop (b : Bool) (h14' h14 : P Expr) (h : SameIn b h14' h14) :
    ∀ fuel x0, SameIn b (parse_expr_loop h14' fuel x0) (parse_expr_loop h14 fuel x0) := by
  intro fuel
  induction fuel with
  | zero =>
    intro _
    exact SameIn.s_keeps Keeps.k_failure
  | succ n ih =>
    intro _
    unfold parse_expr_loop
    repeat (first
      | with_reducible exact SameIn.s_keeps (Keeps.k_pure _)
      | with_reducible exact SameIn.s_keeps (Keeps.k_failure)
      | with_reducible exact SameIn.s_keeps (Keeps_matchtoken _)
      | with_reducible exact SameIn.s_keeps (Keeps_needtoken _)
      | with_reducible exact SameIn.s_keeps (Keeps_needsymbol)
      | with_reducible exact SameIn.s_keeps (Keeps_matchsymbol)
      | with_reducible exact SameIn.s_keeps (Keeps_lex)
      | with_reducible exact SameIn.s_keeps (Keeps_lextok)
      | with_reducible exact SameIn.s_keeps (Keeps_lexpush)
      | with_reducible exact SameIn.s_keeps (Keeps_lexpeek _)
      | with_reducible exact SameIn.s_keeps (Keeps_error _)
      | with_reducible exact SameIn.s_keeps (Keeps_current_pos)
      | with_reducible exact SameIn.s_keeps (Keeps_freading)
      | with_reducible exact SameIn.s_keeps (Keeps_get)
      | with_reducible exact SameIn.s_keeps (Keeps_lexclr _)
      | with_reducible exact SameIn.s_keeps (Keeps_errorset)
      | with_reducible exact SameIn.s_keeps (Keeps_adjust_stmtindent)
      | with_reducible exact SameIn.s_keeps (Keeps_nowarn _)
      | with_reducible assumption
      | with_reducible exact ih _
      | refine SameIn.s_SaveAndSet _ _ _ (fun _ _ => rfl) ?_
      | with_reducible refine SameIn.s_bind ?_ fun _ => ?_
      | with_reducible refine SameIn.s_ite ?_ ?_
      | split
      | dsimp only)

theorem SameIn_parse_expr (b : Bool) (h14' h14 : P Expr) (h : SameIn b h14' h14) (fuel : Nat) (parens : Bool) :
    SameIn b (parse_expr h14' fuel parens) (parse_expr h14 fuel parens) := by
  have hloop := SameIn_parse_expr_loop b h14' h14 h fuel
  unfold parse_expr
  repeat (first
    | with_reducible exact SameIn.s_keeps (Keeps.k_pure _)
    | with_reducible exact SameIn.s_keeps (Keeps.k_failure)
    | with_reducible exact SameIn.s_keeps (Keeps_matchtoken _)
    | with_reducible exact SameIn.s_keeps (Keeps_needtoken _)
    | with_reducible exact SameIn.s_keeps (Keeps_needsymbol)
    | with_reducible exact SameIn.s_keeps (Keeps_matchsymbol)
    | with_reducible exact SameIn.s_keeps (Keeps_lex)
    | with_reducible exact SameIn.s_keeps (Keeps_lextok)
    | with_reducible exact SameIn.s_keeps (Keeps_lexpush)
    | with_reducible exact SameIn.s_keeps (Keeps_lexpeek _)
    | with_reducible exact SameIn.s_keeps (Keeps_error _)
    | with_reducible exact SameIn.s_keeps (Keeps_current_pos)
    | with_reducible exact SameIn.s_keeps (Keeps_freading)
    | with_reducible exact SameIn.s_keeps (Keeps_get)
    | with_reducible exact SameIn.s_keeps (Keeps_lexclr _)
    | with_reducible exact SameIn.s_keeps (Keeps_errorset)
    | with_reducible exact SameIn.s_keeps (Keeps_adjust_stmtindent)
    | with_reducible exact SameIn.s_keeps (Keeps_nowarn _)
    | with_reducible assumption
    | with_reducible exact hloop _
    | refine SameIn.s_SaveAndSet _ _ _ (fun _ _ => rfl) ?_
    | with_reducible refine SameIn.s_bind ?_ fun _ => ?_
    | with_reducible refine SameIn.s_ite ?_ ?_
    | split
    | dsimp only)

theorem SameIn_parse_var_loop (E : Externals) (hE : E.keeps) (b : Bool) (h14' h14 : P Expr) (h : SameIn b h14' h14) (params : VarParams) :
    ∀ fuel x0 x1 x2, SameIn b (parse_var_loop E h14' params fuel x0 x1 x2) (parse_var_loop E h14 params fuel x0 x1 x2) := by
  intro fuel
  induction fuel with
  | zero =>
    intro _ _ _
    exact SameIn.s_keeps Keeps.k_failure
  | succ n ih =>
    intro _ _ _
    have hvi := SameIn_var_init b h14' h14 h n
    have e1 := hE.1; have e2 := hE.2.1; have e3 := hE.2.2.1; have e4 := hE.2.2.2.1; have e5 := hE.2.2.2.2.1; have e6 := hE.2.2.2.2.2
    unfold parse_var_loop
    repeat (first
      | with_reducible exact SameIn.s_keeps (Keeps.k_pure _)
      | with_reducible exact SameIn.s_keeps (Keeps.k_failure)
      | with_reducible exact SameIn.s_keeps (Keeps_matchtoken _)
      | with_reducible exact SameIn.s_keeps (Keeps_needtoken _)
      | with_reducible exact SameIn.s_keeps (Keeps_needsymbol)
      | with_reducible exact SameIn.s_keeps (Keeps_matchsymbol)
      | with_reducible exact SameIn.s_keeps (Keeps_lex)
      | with_reducible exact SameIn.s_keeps (Keeps_lextok)
      | with_reducible exact SameIn.s_keeps (Keeps_lexpush)
      | with_reducible exact SameIn.s_keeps (Keeps_lexpeek _)
      | with_reducible exact SameIn.s_keeps (Keeps_error _)
      | with_reducible exact SameIn.s_keeps (Keeps_current_pos)
      | with_reducible exact SameIn.s_keeps (Keeps_freading)
      | with_reducible exact SameIn.s_keeps (Keeps_get)
      | with_reducible exact SameIn.s_keeps (Keeps_lexclr _)
      | with_reducible exact SameIn.s_keeps (Keeps_errorset)
      | with_reducible exact SameIn.s_keeps (Keeps_adjust_stmtindent)
      | with_reducible exact SameIn.s_keeps (Keeps_nowarn _)
      | with_reducible assumption
      | with_reducible exact ih _ _ _
      | with_reducible exact SameIn.s_keeps (Keeps.k_liftE _ (e1 _))
      | with_reducible exact SameIn.s_keeps (Keeps.k_liftE _ (e2 _))
      | with_reducible exact SameIn.s_keeps (Keeps.k_liftE _ (e3 _ _))
      | with_reducible exact SameIn.s_keeps (Keeps.k_liftE _ (e4 _ _))
      | with_reducible exact SameIn.s_keeps (Keeps.k_liftE _ (e5 _ _))
      | with_reducible exact SameIn.s_keeps (Keeps.k_liftE _ e6)
      | refine SameIn.s_SaveAndSet _ _ _ (fun _ _ => rfl) ?_
      | with_reducible refine SameIn.s_bind ?_ fun _ => ?_
      | with_reducible refine SameIn.s_ite ?_ ?_
      | split
      | dsimp only)

theorem SameIn_parse_var (E : Externals) (hE : E.keeps) (b : Bool) (h14' h14 : P Expr) (h : SameIn b h14' h14) (fuel : Nat)
    (decl : declinfo_t) (params : VarParams) :
    SameIn b (parse_var E h14' fuel decl params) (parse_var E h14 fuel decl params) := by
  have hloop := SameIn_parse_var_loop E hE b h14' h14 h params fuel
  unfold parse_var
  repeat (first
    | with_reducible exact SameIn.s_keeps (Keeps.k_pure _)
    | with_reducible exact SameIn.s_keeps (Keeps.k_failure)
    | with_reducible exact SameIn.s_keeps (Keeps_matchtoken _)
    | with_reducible exact SameIn.s_keeps (Keeps_needtoken _)
    | with_reducible exact SameIn.s_keeps (Keeps_needsymbol)
    | with_reducible exact SameIn.s_keeps (Keeps_matchsymbol)
    | with_reducible exact SameIn.s_keeps (Keeps_lex)
    | with_reducible exact SameIn.s_keeps (Keeps_lextok)
    | with_reducible exact SameIn.s_keeps (Keeps_lexpush)
    | with_reducible exact SameIn.s_keeps (Keeps_lexpeek _)
    | with_reducible exact SameIn.s_keeps (Keeps_error _)
    | with_reducible exact SameIn.s_keeps (Keeps_current_pos)
    | with_reducible exact SameIn.s_keeps (Keeps_freading)
    | with_reducible exact SameIn.s_keeps (Keeps_get)
    | with_reducible exact SameIn.s_keeps (Keeps_lexclr _)
    | with_reducible exact SameIn.s_keeps (Keeps_errorset)
    | with_reducible exact SameIn.s_keeps (Keeps_adjust_stmtindent)
    | with_reducible exact SameIn.s_keeps (Keeps_nowarn _)
    | with_reducible assumption
    | with_reducible exact hloop _ _ _
    | refine SameIn.s_SaveAndSet _ _ _ (fun _ _ => rfl) ?_
    | with_reducible refine SameIn.s_bind ?_ fun _ => ?_
    | with_reducible refine SameIn.s_ite ?_ ?_
    | split
    | dsimp only)

theorem SameIn_parse_local_decl (E : Externals) (hE : E.keeps) (b : Bool) (h14' h14 : P Expr) (h : SameIn b h14' h14) (fuel : Nat)
    (tokid : TokenKind) (autozero : Bool) :
    SameIn b (parse_local_decl E h14' fuel tokid autozero) (parse_local_decl E h14 fuel tokid autozero) := by
  have hsub := SameIn_parse_var E hE b h14' h14 h fuel
  have e1 := hE.1; have e2 := hE.2.1; have e3 := hE.2.2.1; have e4 := hE.2.2.2.1; have e5 := hE.2.2.2.2.1; have e6 := hE.2.2.2.2.2
  unfold parse_local_decl
  repeat (first
    | with_reducible exact SameIn.s_keeps (Keeps.k_pure _)
    | with_reducible exact SameIn.s_keeps (Keeps.k_failure)
    | with_reducible exact SameIn.s_keeps (Keeps_matchtoken _)
    | with_reducible exact SameIn.s_keeps (Keeps_needtoken _)
    | with_reducible exact SameIn.s_keeps (Keeps_needsymbol)
    | with_reducible exact SameIn.s_keeps (Keeps_matchsymbol)
    | with_reducible exact SameIn.s_keeps (Keeps_lex)
    | with_reducible exact SameIn.s_keeps (Keeps_lextok)
    | with_reducible exact SameIn.s_keeps (Keeps_lexpush)
    | with_reducible exact SameIn.s_keeps (Keeps_lexpeek _)
    | with_reducible exact SameIn.s_keeps (Keeps_error _)
    | with_reducible exact SameIn.s_keeps (Keeps_current_pos)
    | with_reducible exact SameIn.s_keeps (Keeps_freading)
    | with_reducible exact SameIn.s_keeps (Keeps_get)
    | with_reducible exact SameIn.s_keeps (Keeps_lexclr _)
    | with_reducible exact SameIn.s_keeps (Keeps_errorset)
    | with_reducible exact SameIn.s_keeps (Keeps_adjust_stmtindent)
    | with_reducible exact SameIn.s_keeps (Keeps_nowarn _)
    | with_reducible assumption
    | with_reducible exact hsub _ _
    | with_reducible exact SameIn.s_keeps (Keeps.k_liftE _ (e1 _))
    | with_reducible exact SameIn.s_keeps (Keeps.k_liftE _ (e2 _))
    | with_reducible exact SameIn.s_keeps (Keeps.k_liftE _ (e3 _ _))
    | with_reducible exact SameIn.s_keeps (Keeps.k_liftE _ (e4 _ _))
    | with_reducible exact SameIn.s_keeps (Keeps.k_liftE _ (e5 _ _))
    | with_reducible exact SameIn.s_keeps (Keeps.k_liftE _ e6)
    | refine SameIn.s_SaveAndSet _ _ _ (fun _ _ => rfl) ?_
    | with_reducible refine SameIn.s_bind ?_ fun _ => ?_
    | with_reducible refine SameIn.s_ite ?_ ?_
    | split
    | dsimp only)

theorem SameIn_parse_expr_stmt (b : Bool) (h14' h14 : P Expr) (h : SameIn b h14' h14) (fuel : Nat) (endtok : TokenKind) :
    SameIn b (parse_expr_stmt h14' fuel endtok) (parse_expr_stmt h14 fuel endtok) := by
  have hsub := SameIn_parse_expr b h14' h14 h fuel
  unfold parse_expr_stmt
  repeat (first
    | with_reducible exact SameIn.s_keeps (Keeps.k_pure _)
    | with_reducible exact SameIn.s_keeps (Keeps.k_failure)
    | with_reducible exact SameIn.s_keeps (Keeps_matchtoken _)
    | with_reducible exact SameIn.s_keeps (Keeps_needtoken _)
    | with_reducible exact SameIn.s_keeps (Keeps_needsymbol)
    | with_reducible exact SameIn.s_keeps (Keeps_matchsymbol)
    | with_reducible exact SameIn.s_keeps (Keeps_lex)
    | with_reducible exact SameIn.s_keeps (Keeps_lextok)
    | with_reducible exact SameIn.s_keeps (Keeps_lexpush)
    | with_reducible exact SameIn.s_keeps (Keeps_lexpeek _)
    | with_reducible exact SameIn.s_keeps (Keeps_error _)
    | with_reducible exact SameIn.s_keeps (Keeps_current_pos)
    | with_reducible exact SameIn.s_keeps (Keeps_freading)
    | with_reducible exact SameIn.s_keeps (Keeps_get)
    | with_reducible exact SameIn.s_keeps (Keeps_lexclr _)
    | with_reducible exact SameIn.s_keeps (Keeps_errorset)
    | with_reducible exact SameIn.s_keeps (Keeps_adjust_stmtindent)
    | with_reducible exact SameIn.s_keeps (Keeps_nowarn _)
    | with_reducible assumption
    | with_reducible exact hsub _
    | refine SameIn.s_SaveAndSet _ _ _ (fun _ _ => rfl) ?_
    | with_reducible refine SameIn.s_bind ?_ fun _ => ?_
    | with_reducible refine SameIn.s_ite ?_ ?_
    | split
    | dsimp only)

theorem SameIn_parse_for_init (E : Externals) (hE : E.keeps) (b : Bool) (h14' h14 : P Expr) (h : SameIn b h14' h14) (fuel : Nat) :
    SameIn b (parse_for_init E h14' fuel) (parse_for_init E h14 fuel) := by
  have hsub := SameIn_parse_expr_stmt b h14' h14 h fuel
  have hld := SameIn_parse_local_decl E hE b h14' h14 h fuel
  unfold parse_for_init
  repeat (first
    | with_reducible exact SameIn.s_keeps (Keeps.k_pure _)
    | with_reducible exact SameIn.s_keeps (Keeps.k_failure)
    | with_reducible exact SameIn.s_keeps (Keeps_matchtoken _)
    | with_reducible exact SameIn.s_keeps (Keeps_needtoken _)
    | with_reducible exact SameIn.s_keeps (Keeps_needsymbol)
    | with_reducible exact SameIn.s_keeps (Keeps_matchsymbol)
    | with_reducible exact SameIn.s_keeps (Keeps_lex)
    | with_reducible exact SameIn.s_keeps (Keeps_lextok)
    | with_reducible exact SameIn.s_keeps (Keeps_lexpush)
    | with_reducible exact SameIn.s_keeps (Keeps_lexpeek _)
    | with_reducible exact SameIn.s_keeps (Keeps_error _)
    | with_reducible exact SameIn.s_keeps (Keeps_current_pos)
    | with_reducible exact SameIn.s_keeps (Keeps_freading)
    | with_reducible exact SameIn.s_keeps (Keeps_get)
    | with_reducible exact SameIn.s_keeps (Keeps_lexclr _)
    | with_reducible exact SameIn.s_keeps (Keeps_errorset)
    | with_reducible exact SameIn.s_keeps (Keeps_adjust_stmtindent)
    | with_reducible exact SameIn.s_keeps (Keeps_nowarn _)
    | with_reducible assumption
    | with_reducible exact hsub _
    | with_reducible exact hld _ _
    | refine SameIn.s_SaveAndSet _ _ _ (fun _ _ => rfl) ?_
    | with_reducible refine SameIn.s_bind ?_ fun _ => ?_
    | with_reducible refine SameIn.s_ite ?_ ?_
    | split
    | dsimp only)

theorem SameIn_parse_for (E : Externals) (hE : E.keeps) (b : Bool) (h14' h14 : P Expr) (h : SameIn b h14' h14)
    (pstmt' pstmt : Option Int → Bool → P StmtResult)
    (hbody : SameIn b (SaveAndSet (·.in_loop_) set_in_loop true (pstmt' none false))
      (SaveAndSet (·.in_loop_) set_in_loop true (pstmt none false)))
    (fuel : Nat) : SameIn b (parse_for E h14' pstmt' fuel) (parse_for E h14 pstmt fuel) := by
  have hsub := SameIn_parse_expr b h14' h14 h fuel
  have hfi := SameIn_parse_for_init E hE b h14' h14 h fuel
  unfold parse_for
  repeat (first
    | with_reducible exact SameIn.s_keeps (Keeps.k_pure _)
    | with_reducible exact SameIn.s_keeps (Keeps.k_failure)
    | with_reducible exact SameIn.s_keeps (Keeps_matchtoken _)
    | with_reducible exact SameIn.s_keeps (Keeps_needtoken _)
    | with_reducible exact SameIn.s_keeps (Keeps_needsymbol)
    | with_reducible exact SameIn.s_keeps (Keeps_matchsymbol)
    | with_reducible exact SameIn.s_keeps (Keeps_lex)
    | with_reducible exact SameIn.s_keeps (Keeps_lextok)
    | with_reducible exact SameIn.s_keeps (Keeps_lexpush)
    | with_reducible exact SameIn.s_keeps (Keeps_lexpeek _)
    | with_reducible exact SameIn.s_keeps (Keeps_error _)
    | with_reducible exact SameIn.s_keeps (Keeps_current_pos)
    | with_reducible exact SameIn.s_keeps (Keeps_freading)
    | with_reducible exact SameIn.s_keeps (Keeps_get)
    | with_reducible exact SameIn.s_keeps (Keeps_lexclr _)
    | with_reducible exact SameIn.s_keeps (Keeps_errorset)
    | with_reducible exact SameIn.s_keeps (Keeps_adjust_stmtindent)
    | with_reducible exact SameIn.s_keeps (Keeps_nowarn _)
    | with_reducible assumption
    | with_reducible exact hsub _
    | refine SameIn.s_SaveAndSet _ _ _ (fun _ _ => rfl) ?_
    | with_reducible refine SameIn.s_bind ?_ fun _ => ?_
    | with_reducible refine SameIn.s_ite ?_ ?_
    | split
    | dsimp only)

theorem SameIn_parse_if (b : Bool) (h14' h14 : P Expr) (h : SameIn b h14' h14) (pstmt' pstmt : Option Int → Bool → P StmtResult)
    (hp : ∀ x y, SameIn b (pstmt' x y) (pstmt x y)) (fuel : Nat) :
    SameIn b (parse_if h14' pstmt' fuel) (parse_if h14 pstmt fuel) := by
  have hsub := SameIn_parse_expr b h14' h14 h fuel
  unfold parse_if
  repeat (first
    | with_reducible exact SameIn.s_keeps (Keeps.k_pure _)
    | with_reducible exact SameIn.s_keeps (Keeps.k_failure)
    | with_reducible exact SameIn.s_keeps (Keeps_matchtoken _)
    | with_reducible exact SameIn.s_keeps (Keeps_needtoken _)
    | with_reducible exact SameIn.s_keeps (Keeps_needsymbol)
    | with_reducible exact SameIn.s_keeps (Keeps_matchsymbol)
    | with_reducible exact SameIn.s_keeps (Keeps_lex)
    | with_reducible exact SameIn.s_keeps (Keeps_lextok)
    | with_reducible exact SameIn.s_keeps (Keeps_lexpush)
    | with_reducible exact SameIn.s_keeps (Keeps_lexpeek _)
    | with_reducible exact SameIn.s_keeps (Keeps_error _)
    | with_reducible exact SameIn.s_keeps (Keeps_current_pos)
    | with_reducible exact SameIn.s_keeps (Keeps_freading)
    | with_reducible exact SameIn.s_keeps (Keeps_get)
    | with_reducible exact SameIn.s_keeps (Keeps_lexclr _)
    | with_reducible exact SameIn.s_keeps (Keeps_errorset)
    | with_reducible exact SameIn.s_keeps (Keeps_adjust_stmtindent)
    | with_reducible exact SameIn.s_keeps (Keeps_nowarn _)
    | with_reducible assumption
    | with_reducible exact hsub _
    | with_reducible exact hp _ _
    | refine SameIn.s_SaveAndSet _ _ _ (fun _ _ => rfl) ?_
    | with_reducible refine SameIn.s_bind ?_ fun _ => ?_
    | with_reducible refine SameIn.s_ite ?_ ?_
    | split
    | dsimp only)

theorem SameIn_parse_compound_loop (b : Bool) (pstmt' pstmt : Option Int → Bool → P StmtResult)
    (hp : ∀ x y, SameIn b (pstmt' x y) (pstmt x y)) :
    ∀ fuel x0 x1, SameIn b (parse_compound_loop pstmt' fuel x0 x1) (parse_compound_loop pstmt fuel x0 x1) := by
  intro fuel
  induction fuel with
  | zero =>
    intro _ _
    exact SameIn.s_keeps Keeps.k_failure
  | succ n ih =>
    intro _ _
    unfold parse_compound_loop
    repeat (first
      | with_reducible exact SameIn.s_keeps (Keeps.k_pure _)
      | with_reducible exact SameIn.s_keeps (Keeps.k_failure)
      | with_reducible exact SameIn.s_keeps (Keeps_matchtoken _)
      | with_reducible exact SameIn.s_keeps (Keeps_needtoken _)
      | with_reducible exact SameIn.s_keeps (Keeps_needsymbol)
      | with_reducible exact SameIn.s_keeps (Keeps_matchsymbol)
      | with_reducible exact SameIn.s_keeps (Keeps_lex)
      | with_reducible exact SameIn.s_keeps (Keeps_lextok)
      | with_reducible exact SameIn.s_keeps (Keeps_lexpush)
      | with_reducible exact SameIn.s_keeps (Keeps_lexpeek _)
      | with_reducible exact SameIn.s_keeps (Keeps_error _)
      | with_reducible exact SameIn.s_keeps (Keeps_current_pos)
      | with_reducible exact SameIn.s_keeps (Keeps_freading)
      | with_reducible exact SameIn.s_keeps (Keeps_get)
      | with_reducible exact SameIn.s_keeps (Keeps_lexclr _)
      | with_reducible exact SameIn.s_keeps (Keeps_errorset)
      | with_reducible exact SameIn.s_keeps (Keeps_adjust_stmtindent)
      | with_reducible exact SameIn.s_keeps (Keeps_nowarn _)
      | with_reducible assumption
      | with_reducible exact ih _ _
      | with_reducible exact hp _ _
      | refine SameIn.s_SaveAndSet _ _ _ (fun _ _ => rfl) ?_
      | with_reducible refine SameIn.s_bind ?_ fun _ => ?_
      | with_reducible refine SameIn.s_ite ?_ ?_
      | split
      | dsimp only)

theorem SameIn_parse_compound (b : Bool) (pstmt' pstmt : Option Int → Bool → P StmtResult)
    (hp : ∀ x y, SameIn b (pstmt' x y) (pstmt x y)) (fuel : Nat)
    (sameline : Bool) :
    SameIn b (parse_compound pstmt' fuel sameline) (parse_compound pstmt fuel sameline) := by
  have hloop := SameIn_parse_compound_loop b pstmt' pstmt hp fuel
  unfold parse_compound
  repeat (first
    | with_reducible exact SameIn.s_keeps (Keeps.k_pure _)
    | with_reducible exact SameIn.s_keeps (Keeps.k_failure)
    | with_reducible exact SameIn.s_keeps (Keeps_matchtoken _)
    | with_reducible exact SameIn.s_keeps (Keeps_needtoken _)
    | with_reducible exact SameIn.s_keeps (Keeps_needsymbol)
    | with_reducible exact SameIn.s_keeps (Keeps_matchsymbol)
    | with_reducible exact SameIn.s_keeps (Keeps_lex)
    | with_reducible exact SameIn.s_keeps (Keeps_lextok)
    | with_reducible exact SameIn.s_keeps (Keeps_lexpush)
    | with_reducible exact SameIn.s_keeps (Keeps_lexpeek _)
    | with_reducible exact SameIn.s_keeps (Keeps_error _)
    | with_reducible exact SameIn.s_keeps (Keeps_current_pos)
    | with_reducible exact SameIn.s_keeps (Keeps_freading)
    | with_reducible exact SameIn.s_keeps (Keeps_get)
    | with_reducible exact SameIn.s_keeps (Keeps_lexclr _)
    | with_reducible exact SameIn.s_keeps (Keeps_errorset)
    | with_reducible exact SameIn.s_keeps (Keeps_adjust_stmtindent)
    | with_reducible exact SameIn.s_keeps (Keeps_nowarn _)
    | with_reducible assumption
    | with_reducible exact hloop _ _
    | exact SameIn.s_keeps (Keeps.k_modify _ (fun s => by split <;> rfl))
    | refine SameIn.s_SaveAndSet _ _ _ (fun _ _ => rfl) ?_
    | with_reducible refine SameIn.s_bind ?_ fun _ => ?_
    | with_reducible refine SameIn.s_ite ?_ ?_
    | split
    | dsimp only)

theorem SameIn_parse_case_loop (b : Bool) (h14' h14 : P Expr) (h : SameIn b h14' h14) :
    ∀ fuel x0, SameIn b (parse_case_loop h14' fuel x0) (parse_case_loop h14 fuel x0) := by
  intro fuel
  induction fuel with
  | zero =>
    intro _
    exact SameIn.s_keeps Keeps.k_failure
  | succ n ih =>
    intro _
    unfold parse_case_loop
    repeat (first
      | with_reducible exact SameIn.s_keeps (Keeps.k_pure _)
      | with_reducible exact SameIn.s_keeps (Keeps.k_failure)
      | with_reducible exact SameIn.s_keeps (Keeps_matchtoken _)
      | with_reducible exact SameIn.s_keeps (Keeps_needtoken _)
      | with_reducible exact SameIn.s_keeps (Keeps_needsymbol)
      | with_reducible exact SameIn.s_keeps (Keeps_matchsymbol)
      | with_reducible exact SameIn.s_keeps (Keeps_lex)
      | with_reducible exact SameIn.s_keeps (Keeps_lextok)
      | with_reducible exact SameIn.s_keeps (Keeps_lexpush)
      | with_reducible exact SameIn.s_keeps (Keeps_lexpeek _)
      | with_reducible exact SameIn.s_keeps (Keeps_error _)
      | with_reducible exact SameIn.s_keeps (Keeps_current_pos)
      | with_reducible exact SameIn.s_keeps (Keeps_freading)
      | with_reducible exact SameIn.s_keeps (Keeps_get)
      | with_reducible exact SameIn.s_keeps (Keeps_lexclr _)
      | with_reducible exact SameIn.s_keeps (Keeps_errorset)
      | with_reducible exact SameIn.s_keeps (Keeps_adjust_stmtindent)
      | with_reducible exact SameIn.s_keeps (Keeps_nowarn _)
      | with_reducible assumption
      | with_reducible exact ih _
      | refine SameIn.s_SaveAndSet _ _ _ (fun _ _ => rfl) ?_
      | with_reducible refine SameIn.s_bind ?_ fun _ => ?_
      | with_reducible refine SameIn.s_ite ?_ ?_
      | split
      | dsimp only)

theorem SameIn_parse_case (b : Bool) (h14' h14 : P Expr) (h : SameIn b h14' h14) (pstmt' pstmt : Option Int → Bool → P StmtResult)
    (hp : ∀ x y, SameIn b (pstmt' x y) (pstmt x y)) (fuel : Nat) :
    SameIn b (parse_case h14' pstmt' fuel) (parse_case h14 pstmt fuel) := by
  have hloop := SameIn_parse_case_loop b h14' h14 h fuel
  unfold parse_case
  repeat (first
    | with_reducible exact SameIn.s_keeps (Keeps.k_pure _)
    | with_reducible exact SameIn.s_keeps (Keeps.k_failure)
    | with_reducible exact SameIn.s_keeps (Keeps_matchtoken _)
    | with_reducible exact SameIn.s_keeps (Keeps_needtoken _)
    | with_reducible exact SameIn.s_keeps (Keeps_needsymbol)
    | with_reducible exact SameIn.s_keeps (Keeps_matchsymbol)
    | with_reducible exact SameIn.s_keeps (Keeps_lex)
    | with_reducible exact SameIn.s_keeps (Keeps_lextok)
    | with_reducible exact SameIn.s_keeps (Keeps_lexpush)
    | with_reducible exact SameIn.s_keeps (Keeps_lexpeek _)
    | with_reducible exact SameIn.s_keeps (Keeps_error _)
    | with_reducible exact SameIn.s_keeps (Keeps_current_pos)
    | with_reducible exact SameIn.s_keeps (Keeps_freading)
    | with_reducible exact SameIn.s_keeps (Keeps_get)
    | with_reducible exact SameIn.s_keeps (Keeps_lexclr _)
    | with_reducible exact SameIn.s_keeps (Keeps_errorset)
    | with_reducible exact SameIn.s_keeps (Keeps_adjust_stmtindent)
    | with_reducible exact SameIn.s_keeps (Keeps_nowarn _)
    | with_reducible assumption
    | with_reducible exact hloop _
    | with_reducible exact hp _ _
    | refine SameIn.s_SaveAndSet _ _ _ (fun _ _ => rfl) ?_
    | with_reducible refine SameIn.s_bind ?_ fun _ => ?_
    | with_reducible refine SameIn.s_ite ?_ ?_
    | split
    | dsimp only)

theorem SameIn_parse_switch_loop (b : Bool) (h14' h14 : P Expr) (h : SameIn b h14' h14) (pstmt' pstmt : Option Int → Bool → P StmtResult)
    (hp : ∀ x y, SameIn b (pstmt' x y) (pstmt x y)) :
    ∀ fuel x0 x1, SameIn b (parse_switch_loop h14' pstmt' fuel x0 x1) (parse_switch_loop h14 pstmt fuel x0 x1) := by
  intro fuel
  induction fuel with
  | zero =>
    intro _ _
    exact SameIn.s_keeps Keeps.k_failure
  | succ n ih =>
    intro _ _
    have hsub := SameIn_parse_case b h14' h14 h pstmt' pstmt hp n
    unfold parse_switch_loop
    repeat (first
      | with_reducible exact SameIn.s_keeps (Keeps.k_pure _)
      | with_reducible exact SameIn.s_keeps (Keeps.k_failure)
      | with_reducible exact SameIn.s_keeps (Keeps_matchtoken _)
      | with_reducible exact SameIn.s_keeps (Keeps_needtoken _)
      | with_reducible exact SameIn.s_keeps (Keeps_needsymbol)
      | with_reducible exact SameIn.s_keeps (Keeps_matchsymbol)
      | with_reducible exact SameIn.s_keeps (Keeps_lex)
      | with_reducible exact SameIn.s_keeps (Keeps_lextok)
      | with_reducible exact SameIn.s_keeps (Keeps_lexpush)
      | with_reducible exact SameIn.s_keeps (Keeps_lexpeek _)
      | with_reducible exact SameIn.s_keeps (Keeps_error _)
      | with_reducible exact SameIn.s_keeps (Keeps_current_pos)
      | with_reducible exact SameIn.s_keeps (Keeps_freading)
      | with_reducible exact SameIn.s_keeps (Keeps_get)
      | with_reducible exact SameIn.s_keeps (Keeps_lexclr _)
      | with_reducible exact SameIn.s_keeps (Keeps_errorset)
      | with_reducible exact SameIn.s_keeps (Keeps_adjust_stmtindent)
      | with_reducible exact SameIn.s_keeps (Keeps_nowarn _)
      | with_reducible assumption
      | with_reducible exact ih _ _
      | with_reducible exact hp _ _
      | refine SameIn.s_SaveAndSet _ _ _ (fun _ _ => rfl) ?_
      | with_reducible refine SameIn.s_bind ?_ fun _ => ?_
      | with_reducible refine SameIn.s_ite ?_ ?_
      | split
      | dsimp only)

theorem SameIn_parse_switch (b : Bool) (h14' h14 : P Expr) (h : SameIn b h14' h14) (pstmt' pstmt : Option Int → Bool → P StmtResult)
    (hp : ∀ x y, SameIn b (pstmt' x y) (pstmt x y)) (fuel : Nat) :
    SameIn b (parse_switch h14' pstmt' fuel) (parse_switch h14 pstmt fuel) := by
  have hloop := SameIn_parse_switch_loop b h14' h14 h pstmt' pstmt hp fuel
  have hsub := SameIn_parse_expr b h14' h14 h fuel
  unfold parse_switch
  repeat (first
    | with_reducible exact SameIn.s_keeps (Keeps.k_pure _)
    | with_reducible exact SameIn.s_keeps (Keeps.k_failure)
    | with_reducible exact SameIn.s_keeps (Keeps_matchtoken _)
    | with_reducible exact SameIn.s_keeps (Keeps_needtoken _)
    | with_reducible exact SameIn.s_keeps (Keeps_needsymbol)
    | with_reducible exact SameIn.s_keeps (Keeps_matchsymbol)
    | with_reducible exact SameIn.s_keeps (Keeps_lex)
    | with_reducible exact SameIn.s_keeps (Keeps_lextok)
    | with_reducible exact SameIn.s_keeps (Keeps_lexpush)
    | with_reducible exact SameIn.s_keeps (Keeps_lexpeek _)
    | with_reducible exact SameIn.s_keeps (Keeps_error _)
    | with_reducible exact SameIn.s_keeps (Keeps_current_pos)
    | with_reducible exact SameIn.s_keeps (Keeps_freading)
    | with_reducible exact SameIn.s_keeps (Keeps_get)
    | with_reducible exact SameIn.s_keeps (Keeps_lexclr _)
    | with_reducible exact SameIn.s_keeps (Keeps_errorset)
    | with_reducible exact SameIn.s_keeps (Keeps_adjust_stmtindent)
    | with_reducible exact SameIn.s_keeps (Keeps_nowarn _)
    | with_reducible assumption
    | with_reducible exact hloop _ _
    | with_reducible exact hsub _
    | refine SameIn.s_SaveAndSet _ _ _ (fun _ _ => rfl) ?_
    | with_reducible refine SameIn.s_bind ?_ fun _ => ?_
    | with_reducible refine SameIn.s_ite ?_ ?_
    | split
    | dsimp only)

theorem indent_check_guard (li : Option Int) (s : ParserState) :
    (indent_check li s).2.guard = s.guard := by
  unfold indent_check
  cases li with
  | none => rfl
  | some l =>
    dsimp only
    split <;> rfl

/-- The state in which `parse_stmt` dispatches on its first token. -/
theorem stmt_entry_facts (li : Option Int) (s : ParserState) (tok : token_t)
    (r : List token_t) (hs : s.rest = tok :: r) :
    (indent_check li (set_one_error true s).reset.adv).2.rest = r ∧
    current_token (indent_check li (set_one_error true s).reset.adv).2 = tok ∧
    (indent_check li (set_one_error true s).reset.adv).2.in_loop_ = s.in_loop_ := by
  have hs0 : (set_one_error true s).reset.rest = tok :: r := hs
  obtain ⟨hr, hc⟩ := indent_check_rest li (set_one_error true s).reset.adv
  refine ⟨by rw [hr, adv_rest_cons hs0], ?_, ?_⟩
  · exact current_token_cons (hc.trans (adv_consumed_cons hs0))
  · rw [guard_in_loop (indent_check_guard li _), adv_in_loop]
    rfl

section run
variable {α : Type}

theorem bind_pair_run (m : P α) (l : Option Int) (s : ParserState) :
    (m >>= fun x => (pure (x, l) : P (α × Option Int))) s =
      (m s).map fun x => ((x.1, l), x.2) := by
  rw [bind_run]
  cases m s <;> rfl

end run


/-- For the token `if`, `parse_stmt` runs `parse_if` on itself. -/
theorem parse_stmt_if (L : OpLists) (E : Externals) (fuel : Nat) (li : Option Int)
    (allow_decl : Bool) (s : ParserState) (tok : token_t) (r : List token_t)
    (hs : s.rest = tok :: r) (hk : tok.id = tIF) :
    parse_stmt L E (fuel + 1) li allow_decl s =
      ((parse_if (hier14 L E fuel) (parse_stmt L E fuel) fuel) (indent_check li (set_one_error true s).reset.adv).2).map
        fun x => ((x.1, (indent_check li (set_one_error true s).reset.adv).1),
          set_one_error s.sc_one_error_per_statement x.2) := by
  have hs0 : (set_one_error true s).reset.rest = tok :: r := hs
  have hp0 : (set_one_error true s).reset.peekTok = tok := peekTok_cons hs0
  have hli := indent_check_run li tok (set_one_error true s).reset.adv (by rw [hk]; decide)
  have key : ∀ (m : Option (StmtResult × ParserState)) (x : Option (Option Stmt × ParserState)),
      m = x.map (fun x => ((x.1, (indent_check li (set_one_error true s).reset.adv).1), x.2)) →
      m.map (fun x => (x.1, set_one_error s.sc_one_error_per_statement x.2)) =
        x.map fun x => ((x.1, (indent_check li (set_one_error true s).reset.adv).1),
          set_one_error s.sc_one_error_per_statement x.2) := by
    intro m x h
    subst h
    cases x <;> rfl
  conv_lhs => unfold parse_stmt
  rw [SaveAndSet_map]
  refine key _ _ ?_
  refine run_bind (freading_run _) ?_
  refine run_ite_neg (by rw [show (set_one_error true s).rest = _ from hs]; simp) ?_
  refine run_bind (errorset_run _) ?_
  refine run_bind (lex_run _) ?_
  rw [hp0]
  refine run_bind hli ?_
  refine run_bind (run_ite_neg (by rw [hk]; decide) (run_pure rfl rfl)) ?_
  refine run_ite_neg (by decide) ?_
  rw [bind_pair_run]
  congr 1
  iterate 2 refine run_ite_neg (by rw [hk]; decide) ?_
  refine run_ite_pos hk ?_
  rfl

/-- For the token `for`, `parse_stmt` runs `parse_for` on itself. -/
theorem parse_stmt_for (L : OpLists) (E : Externals) (fuel : Nat) (li : Option Int)
    (allow_decl : Bool) (s : ParserState) (tok : token_t) (r : List token_t)
    (hs : s.rest = tok :: r) (hk : tok.id = tFOR) :
    parse_stmt L E (fuel + 1) li allow_decl s =
      ((parse_for E (hier14 L E fuel) (parse_stmt L E fuel) fuel) (indent_check li (set_one_error true s).reset.adv).2).map
        fun x => ((x.1, (indent_check li (set_one_error true s).reset.adv).1),
          set_one_error s.sc_one_error_per_statement x.2) := by
  have hs0 : (set_one_error true s).reset.rest = tok :: r := hs
  have hp0 : (set_one_error true s).reset.peekTok = tok := peekTok_cons hs0
  have hli := indent_check_run li tok (set_one_error true s).reset.adv (by rw [hk]; decide)
  have key : ∀ (m : Option (StmtResult × ParserState)) (x : Option (Option Stmt × ParserState)),
      m = x.map (fun x => ((x.1, (indent_check li (set_one_error true s).reset.adv).1), x.2)) →
      m.map (fun x => (x.1, set_one_error s.sc_one_error_per_statement x.2)) =
        x.map fun x => ((x.1, (indent_check li (set_one_error true s).reset.adv).1),
          set_one_error s.sc_one_error_per_statement x.2) := by
    intro m x h
    subst h
    cases x <;> rfl
  conv_lhs => unfold parse_stmt
  rw [SaveAndSet_map]
  refine key _ _ ?_
  refine run_bind (freading_run _) ?_
  refine run_ite_neg (by rw [show (set_one_error true s).rest = _ from hs]; simp) ?_
  refine run_bind (errorset_run _) ?_
  refine run_bind (lex_run _) ?_
  rw [hp0]
  refine run_bind hli ?_
  refine run_bind (run_ite_neg (by rw [hk]; decide) (run_pure rfl rfl)) ?_
  refine run_ite_neg (by decide) ?_
  rw [bind_pair_run]
  congr 1
  iterate 15 refine run_ite_neg (by rw [hk]; decide) ?_
  refine run_ite_pos hk ?_
  rfl

/-- For the token `switch`, `parse_stmt` runs `parse_switch` on itself. -/
theorem parse_stmt_switch (L : OpLists) (E : Externals) (fuel : Nat) (li : Option Int)
    (allow_decl : Bool) (s : ParserState) (tok : token_t) (r : List token_t)
    (hs : s.rest = tok :: r) (hk : tok.id = tSWITCH) :
    parse_stmt L E (fuel + 1) li allow_decl s =
      ((parse_switch (hier14 L E fuel) (parse_stmt L E fuel) fuel) (indent_check li (set_one_error true s).reset.adv).2).map
        fun x => ((x.1, (indent_check li (set_one_error true s).reset.adv).1),
          set_one_error s.sc_one_error_per_statement x.2) := by
  have hs0 : (set_one_error true s).reset.rest = tok :: r := hs
  have hp0 : (set_one_error true s).reset.peekTok = tok := peekTok_cons hs0
  have hli := indent_check_run li tok (set_one_error true s).reset.adv (by rw [hk]; decide)
  have key : ∀ (m : Option (StmtResult × ParserState)) (x : Option (Option Stmt × ParserState)),
      m = x.map (fun x => ((x.1, (indent_check li (set_one_error true s).reset.adv).1), x.2)) →
      m.map (fun x => (x.1, set_one_error s.sc_one_error_per_statement x.2)) =
        x.map fun x => ((x.1, (indent_check li (set_one_error true s).reset.adv).1),
          set_one_error s.sc_one_error_per_statement x.2) := by
    intro m x h
    subst h
    cases x <;> rfl
  conv_lhs => unfold parse_stmt
  rw [SaveAndSet_map]
  refine key _ _ ?_
  refine run_bind (freading_run _) ?_
  refine run_ite_neg (by rw [show (set_one_error true s).rest = _ from hs]; simp) ?_
  refine run_bind (errorset_run _) ?_
  refine run_bind (lex_run _) ?_
  rw [hp0]
  refine run_bind hli ?_
  refine run_bind (run_ite_neg (by rw [hk]; decide) (run_pure rfl rfl)) ?_
  refine run_ite_neg (by decide) ?_
  rw [bind_pair_run]
  congr 1
  iterate 16 refine run_ite_neg (by rw [hk]; decide) ?_
  refine run_ite_pos hk ?_
  rfl

/-- For the token `while`, `parse_stmt` parses the condition and then the body under the guard of `in_loop_`. -/
theorem parse_stmt_while (L : OpLists) (E : Externals) (fuel : Nat) (li : Option Int)
    (allow_decl : Bool) (s : ParserState) (tok : token_t) (r : List token_t)
    (hs : s.rest = tok :: r) (hk : tok.id = tWHILE) :
    parse_stmt L E (fuel + 1) li allow_decl s =
      ((stmt_while (hier14 L E fuel) (parse_stmt L E fuel none false) fuel) (indent_check li (set_one_error true s).reset.adv).2).map
        fun x => ((x.1, (indent_check li (set_one_error true s).reset.adv).1),
          set_one_error s.sc_one_error_per_statement x.2) := by
  have hs0 : (set_one_error true s).reset.rest = tok :: r := hs
  have hp0 : (set_one_error true s).reset.peekTok = tok := peekTok_cons hs0
  have hli := indent_check_run li tok (set_one_error true s).reset.adv (by rw [hk]; decide)
  have key : ∀ (m : Option (StmtResult × ParserState)) (x : Option (Option Stmt × ParserState)),
      m = x.map (fun x => ((x.1, (indent_check li (set_one_error true s).reset.adv).1), x.2)) →
      m.map (fun x => (x.1, set_one_error s.sc_one_error_per_statement x.2)) =
        x.map fun x => ((x.1, (indent_check li (set_one_error true s).reset.adv).1),
          set_one_error s.sc_one_error_per_statement x.2) := by
    intro m x h
    subst h
    cases x <;> rfl
  conv_lhs => unfold parse_stmt
  rw [SaveAndSet_map]
  refine key _ _ ?_
  refine run_bind (freading_run _) ?_
  refine run_ite_neg (by rw [show (set_one_error true s).rest = _ from hs]; simp) ?_
  refine run_bind (errorset_run _) ?_
  refine run_bind (lex_run _) ?_
  rw [hp0]
  refine run_bind hli ?_
  refine run_bind (run_ite_neg (by rw [hk]; decide) (run_pure rfl rfl)) ?_
  refine run_ite_neg (by decide) ?_
  rw [bind_pair_run]
  congr 1
  iterate 14 refine run_ite_neg (by rw [hk]; decide) ?_
  refine run_ite_pos hk ?_
  rw [hk]
  rfl

/-- For the token `do`, `parse_stmt` parses the body under the guard of `in_loop_` and then the condition. -/
theorem parse_stmt_do (L : OpLists) (E : Externals) (fuel : Nat) (li : Option Int)
    (allow_decl : Bool) (s : ParserState) (tok : token_t) (r : List token_t)
    (hs : s.rest = tok :: r) (hk : tok.id = tDO) :
    parse_stmt L E (fuel + 1) li allow_decl s =
      ((stmt_do (hier14 L E fuel) (parse_stmt L E fuel none false) fuel) (indent_check li (set_one_error true s).reset.adv).2).map
        fun x => ((x.1, (indent_check li (set_one_error true s).reset.adv).1),
          set_one_error s.sc_one_error_per_statement x.2) := by
  have hs0 : (set_one_error true s).reset.rest = tok :: r := hs
  have hp0 : (set_one_error true s).reset.peekTok = tok := peekTok_cons hs0
  have hli := indent_check_run li tok (set_one_error true s).reset.adv (by rw [hk]; decide)
  have key : ∀ (m : Option (StmtResult × ParserState)) (x : Option (Option Stmt × ParserState)),
      m = x.map (fun x => ((x.1, (indent_check li (set_one_error true s).reset.adv).1), x.2)) →
      m.map (fun x => (x.1, set_one_error s.sc_one_error_per_statement x.2)) =
        x.map fun x => ((x.1, (indent_check li (set_one_error true s).reset.adv).1),
          set_one_error s.sc_one_error_per_statement x.2) := by
    intro m x h
    subst h
    cases x <;> rfl
  conv_lhs => unfold parse_stmt
  rw [SaveAndSet_map]
  refine key _ _ ?_
  refine run_bind (freading_run _) ?_
  refine run_ite_neg (by rw [show (set_one_error true s).rest = _ from hs]; simp) ?_
  refine run_bind (errorset_run _) ?_
  refine run_bind (lex_run _) ?_
  rw [hp0]
  refine run_bind hli ?_
  refine run_bind (run_ite_neg (by rw [hk]; decide) (run_pure rfl rfl)) ?_
  refine run_ite_neg (by decide) ?_
  rw [bind_pair_run]
  congr 1
  iterate 13 refine run_ite_neg (by rw [hk]; decide) ?_
  refine run_ite_pos hk ?_
  rw [hk]
  rfl

/-- For the token `{`, `parse_stmt` runs `parse_compound` on itself unless `}` follows. -/
theorem parse_stmt_block (L : OpLists) (E : Externals) (fuel : Nat) (li : Option Int)
    (allow_decl : Bool) (s : ParserState) (tok : token_t) (r : List token_t)
    (hs : s.rest = tok :: r) (hk : tok.id = ch_lbrace) :
    parse_stmt L E (fuel + 1) li allow_decl s =
      ((stmt_block (parse_stmt L E fuel) fuel) (indent_check li (set_one_error true s).reset.adv).2).map
        fun x => ((x.1, (indent_check li (set_one_error true s).reset.adv).1),
          set_one_error s.sc_one_error_per_statement x.2) := by
  have hs0 : (set_one_error true s).reset.rest = tok :: r := hs
  have hp0 : (set_one_error true s).reset.peekTok = tok := peekTok_cons hs0
  have hli := indent_check_run li tok (set_one_error true s).reset.adv (by rw [hk]; decide)
  have key : ∀ (m : Option (StmtResult × ParserState)) (x : Option (Option Stmt × ParserState)),
      m = x.map (fun x => ((x.1, (indent_check li (set_one_error true s).reset.adv).1), x.2)) →
      m.map (fun x => (x.1, set_one_error s.sc_one_error_per_statement x.2)) =
        x.map fun x => ((x.1, (indent_check li (set_one_error true s).reset.adv).1),
          set_one_error s.sc_one_error_per_statement x.2) := by
    intro m x h
    subst h
    cases x <;> rfl
  conv_lhs => unfold parse_stmt
  rw [SaveAndSet_map]
  refine key _ _ ?_
  refine run_bind (freading_run _) ?_
  refine run_ite_neg (by rw [show (set_one_error true s).rest = _ from hs]; simp) ?_
  refine run_bind (errorset_run _) ?_
  refine run_bind (lex_run _) ?_
  rw [hp0]
  refine run_bind hli ?_
  refine run_bind (run_ite_neg (by rw [hk]; decide) (run_pure rfl rfl)) ?_
  refine run_ite_neg (by decide) ?_
  rw [bind_pair_run]
  congr 1
  iterate 6 refine run_ite_neg (by rw [hk]; decide) ?_
  refine run_ite_pos hk ?_
  rfl


theorem SameIn_stmt_while (b : Bool) (h14' h14 : P Expr) (h : SameIn b h14' h14) (pbody' pbody : P StmtResult)
    (hbody : SameIn b (SaveAndSet (·.in_loop_) set_in_loop true pbody')
      (SaveAndSet (·.in_loop_) set_in_loop true pbody))
    (fuel : Nat) : SameIn b (stmt_while h14' pbody' fuel) (stmt_while h14 pbody fuel) := by
  have hsub := SameIn_parse_expr b h14' h14 h fuel
  unfold stmt_while
  repeat (first
    | with_reducible exact SameIn.s_keeps (Keeps.k_pure _)
    | with_reducible exact SameIn.s_keeps (Keeps.k_failure)
    | with_reducible exact SameIn.s_keeps (Keeps_matchtoken _)
    | with_reducible exact SameIn.s_keeps (Keeps_needtoken _)
    | with_reducible exact SameIn.s_keeps (Keeps_needsymbol)
    | with_reducible exact SameIn.s_keeps (Keeps_matchsymbol)
    | with_reducible exact SameIn.s_keeps (Keeps_lex)
    | with_reducible exact SameIn.s_keeps (Keeps_lextok)
    | with_reducible exact SameIn.s_keeps (Keeps_lexpush)
    | with_reducible exact SameIn.s_keeps (Keeps_lexpeek _)
    | with_reducible exact SameIn.s_keeps (Keeps_error _)
    | with_reducible exact SameIn.s_keeps (Keeps_current_pos)
    | with_reducible exact SameIn.s_keeps (Keeps_freading)
    | with_reducible exact SameIn.s_keeps (Keeps_get)
    | with_reducible exact SameIn.s_keeps (Keeps_lexclr _)
    | with_reducible exact SameIn.s_keeps (Keeps_errorset)
    | with_reducible exact SameIn.s_keeps (Keeps_adjust_stmtindent)
    | with_reducible exact SameIn.s_keeps (Keeps_nowarn _)
    | with_reducible assumption
    | with_reducible exact hsub _
    | refine SameIn.s_SaveAndSet _ _ _ (fun _ _ => rfl) ?_
    | with_reducible refine SameIn.s_bind ?_ fun _ => ?_
    | with_reducible refine SameIn.s_ite ?_ ?_
    | split
    | dsimp only)

theorem SameIn_stmt_do (b : Bool) (h14' h14 : P Expr) (h : SameIn b h14' h14) (pbody' pbody : P StmtResult)
    (hbody : SameIn b (SaveAndSet (·.in_loop_) set_in_loop true pbody')
      (SaveAndSet (·.in_loop_) set_in_loop true pbody))
    (fuel : Nat) : SameIn b (stmt_do h14' pbody' fuel) (stmt_do h14 pbody fuel) := by
  have hsub := SameIn_parse_expr b h14' h14 h fuel
  unfold stmt_do
  repeat (first
    | with_reducible exact SameIn.s_keeps (Keeps.k_pure _)
    | with_reducible exact SameIn.s_keeps (Keeps.k_failure)
    | with_reducible exact SameIn.s_keeps (Keeps_matchtoken _)
    | with_reducible exact SameIn.s_keeps (Keeps_needtoken _)
    | with_reducible exact SameIn.s_keeps (Keeps_needsymbol)
    | with_reducible exact SameIn.s_keeps (Keeps_matchsymbol)
    | with_reducible exact SameIn.s_keeps (Keeps_lex)
    | with_reducible exact SameIn.s_keeps (Keeps_lextok)
    | with_reducible exact SameIn.s_keeps (Keeps_lexpush)
    | with_reducible exact SameIn.s_keeps (Keeps_lexpeek _)
    | with_reducible exact SameIn.s_keeps (Keeps_error _)
    | with_reducible exact SameIn.s_keeps (Keeps_current_pos)
    | with_reducible exact SameIn.s_keeps (Keeps_freading)
    | with_reducible exact SameIn.s_keeps (Keeps_get)
    | with_reducible exact SameIn.s_keeps (Keeps_lexclr _)
    | with_reducible exact SameIn.s_keeps (Keeps_errorset)
    | with_reducible exact SameIn.s_keeps (Keeps_adjust_stmtindent)
    | with_reducible exact SameIn.s_keeps (Keeps_nowarn _)
    | with_reducible assumption
    | with_reducible exact hsub _
    | refine SameIn.s_SaveAndSet _ _ _ (fun _ _ => rfl) ?_
    | with_reducible refine SameIn.s_bind ?_ fun _ => ?_
    | with_reducible refine SameIn.s_ite ?_ ?_
    | split
    | dsimp only)

theorem SameIn_stmt_block (b : Bool) (pstmt' pstmt : Option Int → Bool → P StmtResult)
    (hp : ∀ x y, SameIn b (pstmt' x y) (pstmt x y)) (fuel : Nat) :
    SameIn b (stmt_block pstmt' fuel) (stmt_block pstmt fuel) := by
  have hsub := SameIn_parse_compound b pstmt' pstmt hp fuel
  unfold stmt_block
  repeat (first
    | with_reducible exact SameIn.s_keeps (Keeps.k_pure _)
    | with_reducible exact SameIn.s_keeps (Keeps.k_failure)
    | with_reducible exact SameIn.s_keeps (Keeps_matchtoken _)
    | with_reducible exact SameIn.s_keeps (Keeps_needtoken _)
    | with_reducible exact SameIn.s_keeps (Keeps_needsymbol)
    | with_reducible exact SameIn.s_keeps (Keeps_matchsymbol)
    | with_reducible exact SameIn.s_keeps (Keeps_lex)
    | with_reducible exact SameIn.s_keeps (Keeps_lextok)
    | with_reducible exact SameIn.s_keeps (Keeps_lexpush)
    | with_reducible exact SameIn.s_keeps (Keeps_lexpeek _)
    | with_reducible exact SameIn.s_keeps (Keeps_error _)
    | with_reducible exact SameIn.s_keeps (Keeps_current_pos)
    | with_reducible exact SameIn.s_keeps (Keeps_freading)
    | with_reducible exact SameIn.s_keeps (Keeps_get)
    | with_reducible exact SameIn.s_keeps (Keeps_lexclr _)
    | with_reducible exact SameIn.s_keeps (Keeps_errorset)
    | with_reducible exact SameIn.s_keeps (Keeps_adjust_stmtindent)
    | with_reducible exact SameIn.s_keeps (Keeps_nowarn _)
    | with_reducible assumption
    | with_reducible exact hsub _
    | refine SameIn.s_SaveAndSet _ _ _ (fun _ _ => rfl) ?_
    | with_reducible refine SameIn.s_bind ?_ fun _ => ?_
    | with_reducible refine SameIn.s_ite ?_ ?_
    | split
    | dsimp only)


/-- C28: `in_loop_` is set at the start of a nested `parse_stmt` call exactly in the bodies
of `do`, `while` and `for`. For every state and every first token, `parse_stmt` dispatches
in a state that has the entry value of `in_loop_`, and returns with that value. Its cases
`while`, `do`, `for`, `if`, `switch` and `{` are the productions named here, run on
`hier14` and on `parse_stmt` itself; and each of them yields the same when its nested
parsers are restricted (`watched`) as follows: the `parse_stmt` call for the body of a
`while`, `do` or `for` to the states in which `in_loop_` is set; every other nested
`parse_stmt` call, for the branches of an `if`, the cases of a `switch` and the statements
of a block, to the states in which `in_loop_` has the entry value; and every `hier14` call,
for the conditions and the clauses of a `for`, to the states in which `in_loop_` has the
entry value. So with `in_loop_` false on entry a nested call starts with the flag set if
and only if it is inside a loop body. -/
theorem in_loop_in_loop_bodies (L : OpLists) (E : Externals) (hE : E.keeps) (fuel : Nat)
    (li : Option Int) (allow_decl : Bool) (s : ParserState) (tok : token_t)
    (r : List token_t) (hs : s.rest = tok :: r) :
    (indent_check li (set_one_error true s).reset.adv).2.in_loop_ = s.in_loop_ ∧
    (∀ (n : Nat) (x : StmtResult) (s' : ParserState),
      parse_stmt L E n li allow_decl s = some (x, s') → s'.in_loop_ = s.in_loop_) ∧
    (tok.id = tWHILE →
      parse_stmt L E (fuel + 1) li allow_decl s =
        ((stmt_while (hier14 L E fuel) (parse_stmt L E fuel none false) fuel)
          (indent_check li (set_one_error true s).reset.adv).2).map
          (fun x => ((x.1, (indent_check li (set_one_error true s).reset.adv).1),
            set_one_error s.sc_one_error_per_statement x.2)) ∧
      (stmt_while (watched (fun t => t.in_loop_ == s.in_loop_) (hier14 L E fuel))
        (watched (fun t => t.in_loop_) (parse_stmt L E fuel none false)) fuel)
          (indent_check li (set_one_error true s).reset.adv).2 =
        (stmt_while (hier14 L E fuel) (parse_stmt L E fuel none false) fuel)
          (indent_check li (set_one_error true s).reset.adv).2) ∧
    (tok.id = tDO →
      parse_stmt L E (fuel + 1) li allow_decl s =
        ((stmt_do (hier14 L E fuel) (parse_stmt L E fuel none false) fuel)
          (indent_check li (set_one_error true s).reset.adv).2).map
          (fun x => ((x.1, (indent_check li (set_one_error true s).reset.adv).1),
            set_one_error s.sc_one_error_per_statement x.2)) ∧
      (stmt_do (watched (fun t => t.in_loop_ == s.in_loop_) (hier14 L E fuel))
        (watched (fun t => t.in_loop_) (parse_stmt L E fuel none false)) fuel)
          (indent_check li (set_one_error true s).reset.adv).2 =
        (stmt_do (hier14 L E fuel) (parse_stmt L E fuel none false) fuel)
          (indent_check li (set_one_error true s).reset.adv).2) ∧
    (tok.id = tFOR →
      parse_stmt L E (fuel + 1) li allow_decl s =
        ((parse_for E (hier14 L E fuel) (parse_stmt L E fuel) fuel)
          (indent_check li (set_one_error true s).reset.adv).2).map
          (fun x => ((x.1, (indent_check li (set_one_error true s).reset.adv).1),
            set_one_error s.sc_one_error_per_statement x.2)) ∧
      (parse_for E (watched (fun t => t.in_loop_ == s.in_loop_) (hier14 L E fuel))
        (fun x y => watched (fun t => t.in_loop_) (parse_stmt L E fuel x y)) fuel)
          (indent_check li (set_one_error true s).reset.adv).2 =
        (parse_for E (hier14 L E fuel) (parse_stmt L E fuel) fuel)
          (indent_check li (set_one_error true s).reset.adv).2) ∧
    (tok.id = tIF →
      parse_stmt L E (fuel + 1) li allow_decl s =
        ((parse_if (hier14 L E fuel) (parse_stmt L E fuel) fuel)
          (indent_check li (set_one_error true s).reset.adv).2).map
          (fun x => ((x.1, (indent_check li (set_one_error true s).reset.adv).1),
            set_one_error s.sc_one_error_per_statement x.2)) ∧
      (parse_if (watched (fun t => t.in_loop_ == s.in_loop_) (hier14 L E fuel))
        (fun x y => watched (fun t => t.in_loop_ == s.in_loop_) (parse_stmt L E fuel x y)) fuel)
          (indent_check li (set_one_error true s).reset.adv).2 =
        (parse_if (hier14 L E fuel) (parse_stmt L E fuel) fuel)
          (indent_check li (set_one_error true s).reset.adv).2) ∧
    (tok.id = tSWITCH →
      parse_stmt L E (fuel + 1) li allow_decl s =
        ((parse_switch (hier14 L E fuel) (parse_stmt L E fuel) fuel)
          (indent_check li (set_one_error true s).reset.adv).2).map
          (fun x => ((x.1, (indent_check li (set_one_error true s).reset.adv).1),
            set_one_error s.sc_one_error_per_statement x.2)) ∧
      (parse_switch (watched (fun t => t.in_loop_ == s.in_loop_) (hier14 L E fuel))
        (fun x y => watched (fun t => t.in_loop_ == s.in_loop_) (parse_stmt L E fuel x y)) fuel)
          (indent_check li (set_one_error true s).reset.adv).2 =
        (parse_switch (hier14 L E fuel) (parse_stmt L E fuel) fuel)
          (indent_check li (set_one_error true s).reset.adv).2) ∧
    (tok.id = ch_lbrace →
      parse_stmt L E (fuel + 1) li allow_decl s =
        ((stmt_block (parse_stmt L E fuel) fuel)
          (indent_check li (set_one_error true s).reset.adv).2).map
          (fun x => ((x.1, (indent_check li (set_one_error true s).reset.adv).1),
            set_one_error s.sc_one_error_per_statement x.2)) ∧
      (stmt_block
        (fun x y => watched (fun t => t.in_loop_ == s.in_loop_) (parse_stmt L E fuel x y)) fuel)
          (indent_check li (set_one_error true s).reset.adv).2 =
        (stmt_block (parse_stmt L E fuel) fuel)
          (indent_check li (set_one_error true s).reset.adv).2) := by
  have hin := (stmt_entry_facts li s tok r hs).2.2
  have h14 : SameIn s.in_loop_
      (watched (fun t => t.in_loop_ == s.in_loop_) (hier14 L E fuel)) (hier14 L E fuel) :=
    SameIn.s_watched (Keeps_hier14 L E hE fuel)
  have hps : ∀ x y, SameIn s.in_loop_
      (watched (fun t => t.in_loop_ == s.in_loop_) (parse_stmt L E fuel x y))
      (parse_stmt L E fuel x y) :=
    fun x y => SameIn.s_watched (Keeps_parse_stmt L E hE fuel x y)
  refine ⟨hin, fun n x s' h => guard_in_loop (Keeps_parse_stmt L E hE n li allow_decl s x s' h),
    fun hk => ⟨parse_stmt_while L E fuel li allow_decl s tok r hs hk, ?_⟩,
    fun hk => ⟨parse_stmt_do L E fuel li allow_decl s tok r hs hk, ?_⟩,
    fun hk => ⟨parse_stmt_for L E fuel li allow_decl s tok r hs hk, ?_⟩,
    fun hk => ⟨parse_stmt_if L E fuel li allow_decl s tok r hs hk, ?_⟩,
    fun hk => ⟨parse_stmt_switch L E fuel li allow_decl s tok r hs hk, ?_⟩,
    fun hk => ⟨parse_stmt_block L E fuel li allow_decl s tok r hs hk, ?_⟩⟩
  · exact (SameIn_stmt_while _ _ _ h14 _ _ (SameIn.s_loop_body _) fuel _ hin).1
  · exact (SameIn_stmt_do _ _ _ h14 _ _ (SameIn.s_loop_body _) fuel _ hin).1
  · exact (SameIn_parse_for E hE _ _ _ h14 _ _ (SameIn.s_loop_body _) fuel _ hin).1
  · exact (SameIn_parse_if _ _ _ h14 _ _ hps fuel _ hin).1
  · exact (SameIn_parse_switch _ _ _ h14 _ _ hps fuel _ hin).1
  · exact (SameIn_stmt_block _ _ _ hps fuel _ hin).1



theorem in_loop_in_loop_bodies_witness :
    sample_externals.keeps ∧
    (parse_stmt sample_lists sample_externals 12 none true (init_state c28_tokens)).map
        (fun x => (x.1, x.2.errors, x.2.in_loop_)) =
      some ((some (.DoWhileStmt ⟨1, 0⟩ tDO (.SymbolExpr ⟨1, 17⟩ "c")
        (.BlockStmt ⟨1, 1⟩
          [.IfStmt ⟨1, 2⟩ (.SymbolExpr ⟨1, 4⟩ "a") (.LoopControlStmt ⟨1, 6⟩ tBREAK) none,
           .DoWhileStmt ⟨1, 8⟩ tWHILE (.SymbolExpr ⟨1, 10⟩ "b")
            (.LoopControlStmt ⟨1, 12⟩ tCONTINUE)])), none), [], false) ∧
    (parse_stmt sample_lists sample_externals 12 none true (init_state c28_if_tokens)).map
        (fun x => (x.1, x.2.errors, x.2.in_loop_)) =
      some ((some (.IfStmt ⟨1, 0⟩ (.SymbolExpr ⟨1, 2⟩ "a") (.BlockStmt ⟨1, 4⟩ []) none), none),
        [24], false) ∧
    stmt_do (hier14 sample_lists sample_externals 11)
        (watched (fun t => !t.in_loop_) (parse_stmt sample_lists sample_externals 11 none false))
        11 (indent_check none (set_one_error true (init_state c28_tokens)).reset.adv).2 = none ∧
    stmt_do (watched (fun t => t.in_loop_) (hier14 sample_lists sample_externals 11))
        (parse_stmt sample_lists sample_externals 11 none false)
        11 (indent_check none (set_one_error true (init_state c28_tokens)).reset.adv).2 = none ∧
    parse_if (hier14 sample_lists sample_externals 11)
        (fun x y => watched (fun t => t.in_loop_) (parse_stmt sample_lists sample_externals 11 x y))
        11 (indent_check none (set_one_error true (init_state c28_if_tokens)).reset.adv).2 = none ∧
    parse_if (watched (fun t => t.in_loop_) (hier14 sample_lists sample_externals 11))
        (parse_stmt sample_lists sample_externals 11) 11
        (indent_check none (set_one_error true (init_state c28_if_tokens)).reset.adv).2 = none ∧
    (parse_stmt sample_lists sample_externals (11 + 1) none true (init_state c28_tokens) =
        ((stmt_do (hier14 sample_lists sample_externals 11)
            (parse_stmt sample_lists sample_externals 11 none false) 11)
          (indent_check none (set_one_error true (init_state c28_tokens)).reset.adv).2).map
          (fun x => ((x.1, (indent_check none (set_one_error true (init_state c28_tokens)).reset.adv).1),
            set_one_error (init_state c28_tokens).sc_one_error_per_statement x.2)) ∧
      (stmt_do
        (watched (fun t => t.in_loop_ == (init_state c28_tokens).in_loop_)
          (hier14 sample_lists sample_externals 11))
        (watched (fun t => t.in_loop_) (parse_stmt sample_lists sample_externals 11 none false)) 11)
          (indent_check none (set_one_error true (init_state c28_tokens)).reset.adv).2 =
        (stmt_do (hier14 sample_lists sample_externals 11)
          (parse_stmt sample_lists sample_externals 11 none false) 11)
          (indent_check none (set_one_error true (init_state c28_tokens)).reset.adv).2) :=
  ⟨sample_externals_keeps, by decide!, by decide!, by decide!, by decide!, by decide!,
    by decide!,
    (in_loop_in_loop_bodies sample_lists sample_externals sample_externals_keeps 11 none true
      (init_state c28_tokens) (tk tDO 0) _ rfl).2.2.2.1 rfl⟩

theorem BinaryRun.binary_loop (opstr : List TokenKind) (hier : P Expr) :
    ∀ (i : Nat) (s : ParserState) (node : Expr) (k : Nat) (e : Expr) (s3 : ParserState),
      BinaryRun opstr hier i s node k e s3 →
      ∀ fuel, k ≤ fuel → plnge_loop opstr hier fuel node i s = some (e, s3) := by
  intro i s node k e s3 h
  induction h with
  | last i s s1 s2 node right h1 h2 =>
    intro fuel hf
    cases fuel with
    | zero => simp at hf
    | succ n =>
      unfold plnge_loop
      refine run_bind (current_pos_run _) ?_
      refine run_bind h1 ?_
      refine run_bind h2 ?_
      rfl
  | more i j k s s1 s2 s3 node right e h1 h2 _ ih =>
    intro fuel hf
    cases fuel with
    | zero => simp at hf
    | succ n =>
      unfold plnge_loop
      refine run_bind (current_pos_run _) ?_
      refine run_bind h1 ?_
      refine run_bind h2 ?_
      exact ih n (by omega)

/-- When `nextop` finds an operator it has consumed one token, the operator, which is the
current token afterwards and stands in the table at the index returned. -/
theorem nextop_from_some (opstr : List TokenKind) (hterm : tTERM ∉ opstr) :
    ∀ (idx : Nat) (s s' : ParserState) (j : Nat),
      nextop_from idx opstr s = some (some j, s') →
      s' = s.adv ∧ idx ≤ j ∧ opstr.getD (j - idx) tEOF = s.peekTok.id := by
  induction opstr with
  | nil =>
    intro idx s s' j h
    simp [nextop_from] at h
  | cons op ops ih =>
    intro idx s s' j h
    unfold nextop_from at h
    rw [bind_run, matchtoken_run op (fun hc => hterm (hc ▸ List.mem_cons_self _ _))] at h
    by_cases hop : s.peekTok.id = op
    · simp only [hop, decide_True, if_true, Option.bind, pure_run, Option.some.injEq,
        Prod.mk.injEq] at h
      obtain ⟨h1, h2⟩ := h
      have hj : j = idx := by simpa using h1.symm
      subst hj
      exact ⟨h2.symm, Nat.le_refl _, by simp [hop]⟩
    · simp only [hop, decide_False, Option.bind] at h
      have h' : nextop_from (idx + 1) ops s.peeked = some (some j, s') := by
        simpa using h
      obtain ⟨h1, h2, h3⟩ := ih (fun hc => hterm (List.mem_cons_of_mem _ hc)) _ _ _ _ h'
      rw [peeked_adv] at h1
      rw [peeked_peekTok] at h3
      refine ⟨h1, by omega, ?_⟩
      have : j - idx = (j - (idx + 1)) + 1 := by omega
      rw [this]
      simpa using h3

/-- C29, as the code has it: every `BinaryExpr` and `LogicalExpr` built by `hier14` and
`plnge` carries the position of its operator token. `hier14` gives the `BinaryExpr` of an
assignment the position of the token after the left operand, the assignment operator.
`plnge` builds its nodes in the loop described by `BinaryRun`, each at the position current
when the loop is entered or re-entered; that is after `nextop` found an operator, and then
the current token is the token `nextop` consumed, the operator of the node. -/
theorem operator_nodes_at_operator (L : OpLists) (E : Externals) (opstr : List TokenKind)
    (hier : P Expr) (hterm : tTERM ∉ opstr) :
    (∀ (n : Nat) (s s1 s2 : ParserState) (node right : Expr),
      hier13 L E (hier14 L E n) n s = some (node, s1) →
      (s1.peekTok.id ∈ assign_ops ∨ s1.peekTok.id = ch_assign) →
      hier14 L E n s1.afterAssign = some (right, s2) →
      hier14 L E (n + 1) s =
        some (Expr.BinaryExpr s1.peekTok.start s1.peekTok.id node right, s2)) ∧
    (∀ (fuel i k : Nat) (s s1 s2 s3 : ParserState) (e0 e : Expr),
      hier s = some (e0, s1) → nextop opstr s1 = some (some i, s2) →
      BinaryRun opstr hier i s2 e0 k e s3 → k ≤ fuel →
      plnge opstr hier fuel s = some (e, s3)) ∧
    (∀ (s1 s2 : ParserState) (i : Nat), nextop opstr s1 = some (some i, s2) →
      s2 = s1.adv ∧ current_token s2 = s1.peekTok ∧ opstr.getD i tEOF = s1.peekTok.id) := by
  refine ⟨fun n s s1 s2 node right h hop hr => hier14_assign L E n s s1 s2 node right h hop hr,
    fun fuel i k s s1 s2 s3 e0 e h1 h2 hrun hf => ?_, fun s1 s2 i h => ?_⟩
  · unfold plnge
    refine run_bind h1 ?_
    refine run_bind h2 ?_
    exact BinaryRun.binary_loop opstr hier i s2 e0 k e s3 hrun fuel hf
  · obtain ⟨h1, _, h3⟩ := nextop_from_some opstr hterm 0 s1 s2 i h
    refine ⟨h1, ?_, by simpa using h3⟩
    rw [h1, adv_current]


theorem operator_nodes_at_operator_witness :
    tTERM ∉ sample_lists.list4 ∧
    plnge sample_lists.list4
        (hier3 sample_lists sample_externals (hier14 sample_lists sample_externals 8) 8) 1
        (consumed_state c29_tokens 4) = some (c29_sum, consumed_state c29_tokens 7) ∧
    (consumed_state c29_tokens 5).peekTok = tk ch_plus 5 ∧
    (consumed_state c29_tokens 6 = (consumed_state c29_tokens 5).adv ∧
      current_token (consumed_state c29_tokens 6) = (consumed_state c29_tokens 5).peekTok ∧
      sample_lists.list4.getD 0 tEOF = (consumed_state c29_tokens 5).peekTok.id) ∧
    (hier14 sample_lists sample_externals 8 (init_state c29_tokens)).map (fun x => x.1) =
      some c29_tree :=
  ⟨by decide,
    (operator_nodes_at_operator sample_lists sample_externals sample_lists.list4
      (hier3 sample_lists sample_externals (hier14 sample_lists sample_externals 8) 8)
      (by decide)).2.1 1 0 1 (consumed_state c29_tokens 4) (consumed_state c29_tokens 5)
      (consumed_state c29_tokens 6) (consumed_state c29_tokens 7) (.SymbolExpr ⟨1, 4⟩ "b")
      c29_sum (by decide!) (by decide!)
      (BinaryRun.last 0 (consumed_state c29_tokens 6) (consumed_state c29_tokens 7)
        (consumed_state c29_tokens 7) (.SymbolExpr ⟨1, 4⟩ "b") (.SymbolExpr ⟨1, 6⟩ "c")
        (by decide!) (by decide!))
      (by decide),
    by decide!,
    (operator_nodes_at_operator sample_lists sample_externals sample_lists.list4
      (hier3 sample_lists sample_externals (hier14 sample_lists sample_externals 8) 8)
      (by decide)).2.2 (consumed_state c29_tokens 5) (consumed_state c29_tokens 6) 0
      (by decide!),
    by decide!⟩

/-- C29 fails as stated: in the tree of `x = a || b + c` the `BinaryExpr` of `=` built by
`hier14` and the `LogicalExpr` of `||` and the `BinaryExpr` of `+` built by `plnge` carry the
positions of their operators at columns 1, 3 and 5, each after the first token of the node
at columns 0, 2 and 4. -/
theorem operator_node_after_first_token :
    (hier14 sample_lists sample_externals 8 (init_state c29_tokens)).map (fun x => x.1) =
      some c29_tree ∧
    c29_tree = .BinaryExpr ⟨1, 1⟩ ch_assign (.SymbolExpr ⟨1, 0⟩ "x")
      (.LogicalExpr ⟨1, 3⟩ tlOR (.SymbolExpr ⟨1, 2⟩ "a")
        (.BinaryExpr ⟨1, 5⟩ ch_plus (.SymbolExpr ⟨1, 4⟩ "b") (.SymbolExpr ⟨1, 6⟩ "c"))) ∧
    (c29_tree.leftmost = (sym "x" 0).start ∧ c29_tree.posAtStart = false) ∧
    (c29_or.leftmost = (sym "a" 2).start ∧ c29_or.posAtStart = false) ∧
    (c29_sum.leftmost = (sym "b" 4).start ∧ c29_sum.posAtStart = false) := by
  refine ⟨by decide!, rfl, ⟨rfl, by decide⟩, ⟨rfl, by decide⟩, ⟨rfl, by decide⟩⟩

theorem store_at_lt {α : Type} (cap : Nat) (d : α) (arr : List α) (i : Nat) (v : α)
    (h : i < cap) :
    store_at cap d arr i v = some ((arr ++ List.replicate (i + 1 - arr.length) d).set i v) := by
  unfold store_at
  rw [if_pos h]

theorem store_at_end {α : Type} (cap : Nat) (d : α) (arr : List α) (i : Nat) (v : α)
    (h : i < cap) (hi : arr.length = i) : store_at cap d arr i v = some (arr ++ [v]) := by
  rw [store_at_lt cap d arr i v h]
  subst hi
  simp

/-- One turn of the loop of `parse_post_dims` below the bound. -/
theorem parse_post_dims_loop_turn (cap : Nat) (h14 : P Expr) (fuel : Nat) (type : typeinfo_t)
    (old : List (Option Expr)) (has : Bool) (s s1 : ParserState) (e : Option Expr)
    (hlt : type.numdim < cap) (hold : old.length = type.numdim)
    (he : post_dim_entry h14 s = some (e, s1)) :
    ∃ t : typeinfo_t, t.numdim = type.numdim + 1 ∧ t.dim_exprs = type.dim_exprs ∧
      parse_post_dims_loop cap h14 (fuel + 1) type old has s =
        (do
          if (← matchtoken TokenKind.ch_lbracket) then
            parse_post_dims_loop cap h14 fuel t (old ++ [e]) (has || e.isSome)
          else
            return some (t, old ++ [e], has || e.isSome)) s1 := by
  refine ⟨{ type with
      idxtag := (type.idxtag ++ List.replicate (type.numdim + 1 - type.idxtag.length) 0).set
        type.numdim 0
      dim := (type.dim ++ List.replicate (type.numdim + 1 - type.dim.length) 0).set
        type.numdim 0
      numdim := type.numdim + 1 }, rfl, rfl, ?_⟩
  conv_lhs => unfold parse_post_dims_loop
  rw [if_neg (Nat.ne_of_lt hlt), store_at_lt cap 0 type.idxtag _ 0 hlt,
    store_at_lt cap 0 type.dim _ 0 hlt]
  dsimp only
  refine run_bind he ?_
  rw [store_at_end cap none old _ e hlt hold]

theorem DimRun.dim_loop (cap : Nat) (h14 : P Expr) :
    ∀ (s : ParserState) (es : List (Option Expr)) (s' : ParserState), DimRun h14 s es s' →
      ∀ (fuel : Nat) (type : typeinfo_t) (old : List (Option Expr)) (has : Bool),
        es.length < fuel → type.numdim + es.length ≤ cap → old.length = type.numdim →
        (s'.peekTok.id ≠ ch_lbracket →
          ∃ t : typeinfo_t, t.numdim = type.numdim + es.length ∧
            t.dim_exprs = type.dim_exprs ∧
            parse_post_dims_loop cap h14 fuel type old has s =
              some (some (t, old ++ es, has || es.any (·.isSome)), s'.peeked)) ∧
        (s'.peekTok.id = ch_lbracket → type.numdim + es.length = cap →
          ∃ t : typeinfo_t, t.numdim = cap ∧ t.dim_exprs = type.dim_exprs ∧
            parse_post_dims_loop cap h14 fuel type old has s =
              some (some (t, old ++ es, has || es.any (·.isSome)), s'.adv.report 53)) := by
  intro s es s' h
  induction h with
  | one s s1 e he =>
    intro fuel type old has hf hcap hold
    simp only [List.length_singleton] at hcap hf
    obtain ⟨n, rfl⟩ : ∃ n, fuel = n + 2 := ⟨fuel - 2, by omega⟩
    obtain ⟨t, ht1, ht2, hrun⟩ :=
      parse_post_dims_loop_turn cap h14 (n + 1) type old has s s1 e (by omega) hold he
    have hcap' : t.numdim = type.numdim + [e].length := by simpa using ht1
    refine ⟨fun hne => ⟨t, hcap', ht2, ?_⟩, fun hbr hfull => ⟨t, by omega, ht2, ?_⟩⟩
    · rw [hrun]
      refine run_bind (matchtoken_miss _ _ hne (by decide)) ?_
      refine run_ite_neg (by decide) ?_
      simp
    · rw [hrun]
      refine run_bind (matchtoken_hit _ _ hbr) ?_
      refine run_ite_pos rfl ?_
      unfold parse_post_dims_loop
      refine run_ite_pos (by omega) ?_
      refine run_bind (error_run _ _) ?_
      simp
  | more s s1 s' e es he hbr _ ih =>
    intro fuel type old has hf hcap hold
    obtain ⟨n, rfl⟩ : ∃ n, fuel = n + 1 := ⟨fuel - 1, by omega⟩
    simp only [List.length_cons] at hcap hf
    obtain ⟨t, ht1, ht2, hrun⟩ :=
      parse_post_dims_loop_turn cap h14 n type old has s s1 e (by omega) hold he
    have hstep : parse_post_dims_loop cap h14 (n + 1) type old has s =
        parse_post_dims_loop cap h14 n t (old ++ [e]) (has || e.isSome) s1.adv := by
      rw [hrun]
      refine run_bind (matchtoken_hit _ _ hbr) ?_
      exact run_ite_pos rfl rfl
    obtain ⟨ih1, ih2⟩ := ih n t (old ++ [e]) (has || e.isSome) (by omega) (by omega)
      (by simp [hold, ht1])
    refine ⟨fun hne => ?_, fun hb hfull => ?_⟩
    · obtain ⟨t', h1, h2, h3⟩ := ih1 hne
      refine ⟨t', by simp only [List.length_cons]; omega, h2.trans ht2, ?_⟩
      rw [hstep, h3]
      simp [Bool.or_assoc]
    · obtain ⟨t', h1, h2, h3⟩ := ih2 hb (by simp only [List.length_cons] at hfull; omega)
      refine ⟨t', h1, h2.trans ht2, ?_⟩
      rw [hstep, h3]
      simp [Bool.or_assoc]

/-- Entered with at most `cap` dimensions recorded, the loop of `parse_post_dims` stores
within bounds and returns with at most `cap` dimensions recorded. -/
theorem parse_post_dims_loop_safe (cap : Nat) (h14 : P Expr) :
    ∀ (fuel : Nat) (type : typeinfo_t) (old : List (Option Expr)) (has : Bool),
      type.numdim ≤ cap →
      Post (parse_post_dims_loop cap h14 fuel type old has)
        (fun r => ∃ t o h, r = some (t, o, h) ∧ t.numdim ≤ cap) := by
  intro fuel
  induction fuel with
  | zero =>
    intro type old has _
    exact Post.failure
  | succ n ih =>
    intro type old has hle
    unfold parse_post_dims_loop
    split
    · refine Post.bind_any fun _ => ?_
      exact Post.pure ⟨type, old, has, rfl, hle⟩
    · rename_i hne
      have hlt : type.numdim < cap := by omega
      rw [store_at_lt cap 0 type.idxtag _ 0 hlt, store_at_lt cap 0 type.dim _ 0 hlt]
      dsimp only
      refine Post.bind_any fun e => ?_
      rw [store_at_lt cap none old _ e hlt]
      dsimp only
      refine Post.bind_any fun b => ?_
      split
      · exact ih _ _ _ (by show type.numdim + 1 ≤ cap; omega)
      · exact Post.pure ⟨_, _, _, rfl, by show type.numdim + 1 ≤ cap; omega⟩

theorem reportError_options (rc : ReportingContext) (cc : CompileContext) (msg : Message) :
    (rc.reportError cc msg).options_ = cc.options_ := by
  unfold ReportingContext.reportError
  split <;> rfl

theorem reportError_errors (rc : ReportingContext) (cc : CompileContext) (msg : Message) :
    (rc.reportError cc msg).errors_ =
      if rc.should_error_ then cc.errors_ ++ [⟨rc.loc_, msg⟩] else cc.errors_ := by
  unfold ReportingContext.reportError
  cases rc.should_error_ <;> rfl

/-- C32, the claim as stated fails: through a reporting context whose
`should_error_` flag is clear, `ChangePragmaDynamic(rc, -1)` returns false and
no error is reported. -/
theorem change_pragma_dynamic_muted :
    CompileContext.ChangePragmaDynamic (2 ^ 20) 64 ⟨⟨0⟩, []⟩ ⟨0, false⟩ (-1) =
      (false, ⟨⟨0⟩, []⟩) := by
  decide

/-- C32, amended: `ChangePragmaDynamic`. For an `int64_t` value, with the product
`64 * kMB` representable in a `size_t`, the call returns true exactly when
`0 <= value < 64 * kMB`; then `options_.PragmaDynamic` is the value and nothing
is reported; otherwise the options are unchanged and the context is that of one
call of `rc.reportError`, with `Message_PragmaDynamicIsNegative` for a negative
value and `Message_PragmaDynamicIsTooLarge` for a value of `64 * kMB` or more:
exactly one error is appended when `should_error_` is set, none when it is
clear. -/
theorem change_pragma_dynamic (kMB size_bits : Nat) (cc : CompileContext)
    (rc : ReportingContext) (value : Int)
    (hlo : -(2 : Int) ^ 63 ≤ value) (hhi : value < (2 : Int) ^ 63)
    (hk : 64 * kMB < 2 ^ size_bits) :
    ((cc.ChangePragmaDynamic kMB size_bits rc value).1 = true ↔
        0 ≤ value ∧ value < 64 * (kMB : Int)) ∧
      ((cc.ChangePragmaDynamic kMB size_bits rc value).1 = true →
        ((cc.ChangePragmaDynamic kMB size_bits rc value).2.options_.PragmaDynamic : Int) = value ∧
        (cc.ChangePragmaDynamic kMB size_bits rc value).2.errors_ = cc.errors_) ∧
      ((cc.ChangePragmaDynamic kMB size_bits rc value).1 = false →
        (cc.ChangePragmaDynamic kMB size_bits rc value).2.options_ = cc.options_ ∧
        (value < 0 →
          (cc.ChangePragmaDynamic kMB size_bits rc value).2 =
            rc.reportError cc Message.Message_PragmaDynamicIsNegative ∧
          (cc.ChangePragmaDynamic kMB size_bits rc value).2.errors_ =
            if rc.should_error_ then
              cc.errors_ ++ [⟨rc.loc_, Message.Message_PragmaDynamicIsNegative⟩]
            else cc.errors_) ∧
        (64 * (kMB : Int) ≤ value →
          (cc.ChangePragmaDynamic kMB size_bits rc value).2 =
            rc.reportError cc Message.Message_PragmaDynamicIsTooLarge ∧
          (cc.ChangePragmaDynamic kMB size_bits rc value).2.errors_ =
            if rc.should_error_ then
              cc.errors_ ++ [⟨rc.loc_, Message.Message_PragmaDynamicIsTooLarge⟩]
            else cc.errors_)) := by
  have hprod : (64 * kMB) % 2 ^ size_bits = 64 * kMB := Nat.mod_eq_of_lt hk
  unfold CompileContext.ChangePragmaDynamic
  rw [hprod]
  by_cases hneg : value < 0
  · rw [if_pos hneg]
    refine ⟨⟨fun h => by simp at h, fun h => absurd h.1 (by omega)⟩, fun h => by simp at h, ?_⟩
    intro _
    exact ⟨reportError_options _ _ _, fun _ => ⟨rfl, reportError_errors _ _ _⟩,
      fun h => by omega⟩
  · rw [if_neg hneg]
    have h0 : 0 ≤ value := by omega
    have h64 : value % 2 ^ 64 = value := Int.emod_eq_of_lt h0 (by omega)
    rw [h64]
    have hnat : ((value.toNat : Nat) : Int) = value := Int.toNat_of_nonneg h0
    by_cases hbig : value.toNat ≥ 64 * kMB
    · rw [if_pos hbig]
      have hb : 64 * (kMB : Int) ≤ value := by omega
      refine ⟨⟨fun h => by simp at h, fun h => absurd h.2 (by omega)⟩, fun h => by simp at h, ?_⟩
      intro _
      exact ⟨reportError_options _ _ _, fun h => absurd h hneg,
        fun _ => ⟨rfl, reportError_errors _ _ _⟩⟩
    · rw [if_neg hbig]
      have hlt : value < 64 * (kMB : Int) := by omega
      refine ⟨⟨fun _ => ⟨h0, hlt⟩, fun _ => rfl⟩, ?_, fun h => by simp at h⟩
      intro _
      refine ⟨?_, rfl⟩
      show (((value % 2 ^ size_bits).toNat : Nat) : Int) = value
      have hp : value < ((2 ^ size_bits : Nat) : Int) := by
        have : (64 * kMB : Int) < ((2 ^ size_bits : Nat) : Int) := by exact_mod_cast hk
        omega
      have hm : value % 2 ^ size_bits = value := by
        apply Int.emod_eq_of_lt h0
        simpa using hp
      rw [hm, hnat]

/-- Witness of C32: with `kMB = 2 ^ 20`, a 64-bit `size_t` and a reporting
context that reports, the value `2 ^ 26` is refused with one error. -/
theorem change_pragma_dynamic_witness :
    (-(2 : Int) ^ 63 ≤ 2 ^ 26 ∧ (2 : Int) ^ 26 < 2 ^ 63 ∧ 64 * 2 ^ 20 < 2 ^ 64) ∧
      (CompileContext.ChangePragmaDynamic (2 ^ 20) 64 ⟨⟨0⟩, []⟩ ⟨7, true⟩ (2 ^ 26)).1 = false ∧
      (CompileContext.ChangePragmaDynamic (2 ^ 20) 64 ⟨⟨0⟩, []⟩ ⟨7, true⟩ (2 ^ 26)).2.errors_ =
        [⟨7, Message.Message_PragmaDynamicIsTooLarge⟩] := by
  have h := change_pragma_dynamic (2 ^ 20) 64 ⟨⟨0⟩, []⟩ ⟨7, true⟩ (2 ^ 26)
    (by norm_num) (by norm_num) (by norm_num)
  refine ⟨by norm_num, ?_⟩
  have hf : (CompileContext.ChangePragmaDynamic (2 ^ 20) 64 ⟨⟨0⟩, []⟩ ⟨7, true⟩ (2 ^ 26)).1
      = false := by
    cases hb : (CompileContext.ChangePragmaDynamic (2 ^ 20) 64 ⟨⟨0⟩, []⟩ ⟨7, true⟩ (2 ^ 26)).1
    · rfl
    · exact absurd (h.1.mp hb).2 (by norm_num)
  exact ⟨hf, ((h.2.2 hf).2.2 (by norm_num)).2⟩

theorem wrap_cell_emod (w : Nat) (x : Int) : wrap_cell w x % 2 ^ w = x % 2 ^ w := by
  unfold wrap_cell
  have h : ((x + 2 ^ (w - 1)) % 2 ^ w - 2 ^ (w - 1)) % 2 ^ w =
      ((x + 2 ^ (w - 1)) - 2 ^ (w - 1)) % 2 ^ w := by
    rw [Int.sub_emod, Int.emod_emod_of_dvd _ (dvd_refl _), ← Int.sub_emod]
  rw [h]
  congr 1
  ring

theorem wrap_cell_congr (w : Nat) (x y : Int) (h : x % 2 ^ w = y % 2 ^ w) :
    wrap_cell w x = wrap_cell w y := by
  unfold wrap_cell
  have : (x + 2 ^ (w - 1)) % 2 ^ w = (y + 2 ^ (w - 1)) % 2 ^ w := by
    rw [Int.add_emod, h, ← Int.add_emod]
  rw [this]

theorem wrap_cell_of_range (w : Nat) (hw : 0 < w) (x : Int)
    (hlo : -(2 : Int) ^ (w - 1) ≤ x) (hhi : x < (2 : Int) ^ (w - 1)) : wrap_cell w x = x := by
  unfold wrap_cell
  have hpow : (2 : Int) ^ w = 2 * 2 ^ (w - 1) := by
    have : w = (w - 1) + 1 := by omega
    conv_lhs => rw [this, pow_succ]
    ring
  rw [Int.emod_eq_of_lt (by omega) (by omega)]
  ring

/-- The doubling loop multiplies by a power of two in cell arithmetic. -/
theorem enum_shift_eq (w : Nat) : ∀ (n : Nat) (m : Int),
    enum_shift w (n + 1) m = wrap_cell w (m * 2 ^ (n + 1)) := by
  intro n
  induction n with
  | zero =>
    intro m
    simp [enum_shift]
  | succ k ih =>
    intro m
    show enum_shift w (k + 1) (wrap_cell w (m * 2)) = _
    rw [ih]
    apply wrap_cell_congr
    rw [Int.mul_emod, wrap_cell_emod, ← Int.mul_emod]
    congr 1
    ring

/-- The loop `while (val-- > 0) multiplier *= 2` runs `val` times for a positive
cell and not at all otherwise. -/
theorem enum_shift_while_run (w : Nat) (hw : 0 < w) : ∀ (k : Nat) (fuel : Nat) (val m : Int) (n : Nat),
    val.toNat = k → val < (2 : Int) ^ (w - 1) → k < fuel →
    enum_shift_while w fuel val m n = some (enum_shift w k m, n + k) := by
  intro k
  induction k with
  | zero =>
    intro fuel val m n hk _ hf
    cases fuel with
    | zero => omega
    | succ f =>
      unfold enum_shift_while
      rw [if_neg (by omega)]
      rfl
  | succ k ih =>
    intro fuel val m n hk hv hf
    cases fuel with
    | zero => omega
    | succ f =>
      unfold enum_shift_while
      rw [if_pos (by omega)]
      have hpos : (0 : Int) < 2 ^ (w - 1) := by positivity
      have hwr : wrap_cell w (val - 1) = val - 1 :=
        wrap_cell_of_range w hw _ (by omega) (by omega)
      rw [hwr, ih f (val - 1) _ (n + 1) (by omega) (by omega) (by omega)]
      show some (enum_shift w k (wrap_cell w (m * 2)), n + 1 + k) =
        some (enum_shift w k (wrap_cell w (m * 2)), n + (k + 1))
      congr 2
      omega

/-- C33: the modifier of an enum. For `enum [Label:] [Name] ( op N ) {`, `op` one
of `+=`, `*=` and `<<=` and `N` the value that `exprconst` yields, followed by a
field list that the loop of `parse_enum` runs through up to the closing brace,
`parse_enum` returns the `EnumDecl` with the increment and the multiplier of
`enum_modifier`: `N` and 1 for `+=`; 1 and `N` for `*=`; for `<<=` increment 1
and the multiplier that the doubling loop computes, which is `2 ^ N` in `w`-bit
cell arithmetic (congruent to `2 ^ N` modulo `2 ^ w`) for `N >= 0` and 1 for
`N <= 0`. For a cell `N` the loop `while (val-- > 0) multiplier *= 2` ends after
`max(N, 0)` turns with that multiplier. -/
theorem parse_enum_modifier (E : Externals) (h14 : P Expr) (fuel : Nat) (vclass : StorageClass)
    (s s1 s2 s3 sL : ParserState) (label name : Option String) (op : TokenKind)
    (ok : Bool) (N tag : Int)
    (fs : List (Option (token_pos_t × String × Option Expr)))
    (hw : 1 < E.cell_bits)
    (hlabel : enum_optional tLABEL s = (label, s1))
    (hname : enum_optional tSYMBOL s1 = (name, s2))
    (hopen : s2.peekTok.id = ch_lparen)
    (hop : s2.adv.peekTok.id = op) (hops : op ∈ [taADD, taMULT, taSHL])
    (hval : E.exprconst (s2.adv.report 228).adv = ((ok, N, tag), s3))
    (hclose : s3.peekTok.id = ch_rparen) (hbrace : s3.adv.peekTok.id = ch_lbrace)
    (hrun : EnumRun E h14 s3.adv.adv fs sL) (hfuel : fs.length < fuel)
    (hend : sL.peekTok.id = ch_rbrace) :
    parse_enum E h14 fuel vclass s =
        some (Stmt.EnumDecl (current_token s).start vclass label name
          (enum_modifier E.cell_bits op N).1 (enum_modifier E.cell_bits op N).2 fs.reduceOption,
          sL.adv.skipSemicolon) ∧
      enum_modifier E.cell_bits taADD N = (N, 1) ∧
      enum_modifier E.cell_bits taMULT N = (1, N) ∧
      (enum_modifier E.cell_bits taSHL N).1 = 1 ∧
      (0 ≤ N → (enum_modifier E.cell_bits taSHL N).2 = wrap_cell E.cell_bits (2 ^ N.toNat) ∧
        (enum_modifier E.cell_bits taSHL N).2 % 2 ^ E.cell_bits =
          2 ^ N.toNat % 2 ^ E.cell_bits) ∧
      (N ≤ 0 → (enum_modifier E.cell_bits taSHL N).2 = 1) ∧
      (N < (2 : Int) ^ (E.cell_bits - 1) → ∀ n, N.toNat < n →
        enum_shift_while E.cell_bits n N 1 0 =
          some ((enum_modifier E.cell_bits taSHL N).2, N.toNat)) := by
  have hshl : (enum_modifier E.cell_bits taSHL N).2 = enum_shift E.cell_bits N.toNat 1 := rfl
  refine ⟨?_, rfl, rfl, rfl, ?_, ?_, ?_⟩
  · unfold parse_enum
    refine run_bind (current_pos_run _) ?_
    refine (enum_optional_jp tLABEL _ _).trans ?_
    rw [hlabel]
    refine (enum_optional_jp tSYMBOL _ _).trans ?_
    rw [hname]
    have hhead : (do
        if (← matchtoken TokenKind.ch_lparen) then
          error 228
          let r ← (do
            if (← matchtoken TokenKind.taADD) then
              let (_, v, _) ← liftE E.exprconst
              return (v, (1 : Int))
            else if (← matchtoken TokenKind.taMULT) then
              let (_, v, _) ← liftE E.exprconst
              return ((1 : Int), v)
            else if (← matchtoken TokenKind.taSHL) then
              let (_, v, _) ← liftE E.exprconst
              return ((1 : Int), enum_shift E.cell_bits v.toNat 1)
            else
              return ((1 : Int), (1 : Int)))
          let _ ← needtoken TokenKind.ch_rparen
          return r
        else
          return ((1 : Int), (1 : Int)) : P (Int × Int)) s2 =
        some (enum_modifier E.cell_bits op N, s3.adv) := by
      refine run_bind (matchtoken_hit _ _ hopen) ?_
      refine run_ite_pos rfl ?_
      refine run_bind (error_run _ _) ?_
      have hp : (s2.adv.report 228).peekTok.id = op := by rw [report_peekTok]; exact hop
      have hr : (do
            if (← matchtoken TokenKind.taADD) then
              let (_, v, _) ← liftE E.exprconst
              return (v, (1 : Int))
            else if (← matchtoken TokenKind.taMULT) then
              let (_, v, _) ← liftE E.exprconst
              return ((1 : Int), v)
            else if (← matchtoken TokenKind.taSHL) then
              let (_, v, _) ← liftE E.exprconst
              return ((1 : Int), enum_shift E.cell_bits v.toNat 1)
            else
              return ((1 : Int), (1 : Int)) : P (Int × Int)) (s2.adv.report 228) =
          some (enum_modifier E.cell_bits op N, s3) := by
        simp only [List.mem_cons, List.mem_singleton, List.not_mem_nil, or_false] at hops
        rcases hops with h | h | h
        · subst h
          refine run_bind (matchtoken_hit _ _ hp) ?_
          refine run_ite_pos rfl ?_
          refine run_bind (show liftE E.exprconst _ = some (_, s3) from congrArg some hval) ?_
          rfl
        · subst h
          refine run_bind (matchtoken_miss _ _ (by rw [hp]; decide) (by decide)) ?_
          refine run_ite_neg (by decide) ?_
          refine run_bind (matchtoken_hit _ _ (by rw [peeked_peekTok]; exact hp)) ?_
          refine run_ite_pos rfl ?_
          rw [peeked_adv]
          refine run_bind (show liftE E.exprconst _ = some (_, s3) from congrArg some hval) ?_
          rfl
        · subst h
          refine run_bind (matchtoken_miss _ _ (by rw [hp]; decide) (by decide)) ?_
          refine run_ite_neg (by decide) ?_
          refine run_bind (matchtoken_miss _ _ (by rw [peeked_peekTok, hp]; decide) (by decide)) ?_
          refine run_ite_neg (by decide) ?_
          rw [peeked_peeked]
          refine run_bind (matchtoken_hit _ _ (by rw [peeked_peekTok]; exact hp)) ?_
          refine run_ite_pos rfl ?_
          rw [peeked_adv]
          refine run_bind (show liftE E.exprconst _ = some (_, s3) from congrArg some hval) ?_
          rfl
      refine run_bind hr ?_
      refine run_bind (needtoken_hit _ _ hclose) ?_
      rfl
    generalize enum_modifier E.cell_bits op N = r at hhead ⊢
    obtain ⟨inc, mul⟩ := r
    refine run_bind hhead ?_
    refine run_bind (needtoken_hit _ _ hbrace) ?_
    refine run_bind (EnumRun.enum_loop E h14 _ fs sL hrun fuel [] hfuel) ?_
    refine run_bind (needtoken_hit _ _ hend) ?_
    rw [bind_run, matchtoken_run _ (by decide)]
    simp [ParserState.skipSemicolon, Option.bind]
  · intro h0
    rw [hshl]
    have hm : enum_shift E.cell_bits N.toNat 1 = wrap_cell E.cell_bits (2 ^ N.toNat) := by
      cases hn : N.toNat with
      | zero =>
        show (1 : Int) = wrap_cell E.cell_bits (2 ^ 0)
        have h2 : (2 : Int) ^ 1 ≤ 2 ^ (E.cell_bits - 1) :=
          pow_le_pow_right₀ (by norm_num) (by omega)
        rw [pow_zero, wrap_cell_of_range E.cell_bits (by omega) 1 (by omega) (by omega)]
      | succ k =>
        rw [enum_shift_eq]
        simp
    exact ⟨hm, by rw [hm, wrap_cell_emod]⟩
  · intro h0
    rw [hshl, Int.toNat_eq_zero.mpr h0]
    rfl
  · intro hN n hn
    rw [hshl]
    have := enum_shift_while_run E.cell_bits (by omega) N.toNat n N 1 0 rfl hN hn
    rw [this]
    simp

/-- Witness of C33: `enum ( <<= 3 ) { A } ;` has the multiplier 8. -/
theorem parse_enum_modifier_witness :
    parse_enum const_externals (hier14 sample_lists const_externals 20) 20 StorageClass.sGLOBAL
        (consumed_state c33_tokens 1) =
      some (Stmt.EnumDecl (current_token (consumed_state c33_tokens 1)).start
        StorageClass.sGLOBAL none none
        (enum_modifier const_externals.cell_bits taSHL 3).1
        (enum_modifier const_externals.cell_bits taSHL 3).2
        [some ((⟨1, 6⟩ : token_pos_t), "A", (none : Option Expr))].reduceOption,
        (c33_state 7).peeked.adv.skipSemicolon) ∧
      enum_modifier const_externals.cell_bits taADD 3 = (3, 1) ∧
      enum_modifier const_externals.cell_bits taMULT 3 = (1, 3) ∧
      (enum_modifier const_externals.cell_bits taSHL 3).1 = 1 ∧
      ((0 : Int) ≤ 3 →
        (enum_modifier const_externals.cell_bits taSHL 3).2 =
          wrap_cell const_externals.cell_bits (2 ^ (3 : Int).toNat) ∧
        (enum_modifier const_externals.cell_bits taSHL 3).2 % 2 ^ const_externals.cell_bits =
          2 ^ (3 : Int).toNat % 2 ^ const_externals.cell_bits) ∧
      ((3 : Int) ≤ 0 → (enum_modifier const_externals.cell_bits taSHL 3).2 = 1) ∧
      ((3 : Int) < (2 : Int) ^ (const_externals.cell_bits - 1) → ∀ n, (3 : Int).toNat < n →
        enum_shift_while const_externals.cell_bits n 3 1 0 =
          some ((enum_modifier const_externals.cell_bits taSHL 3).2, (3 : Int).toNat)) :=
  parse_enum_modifier const_externals (hier14 sample_lists const_externals 20) 20
    StorageClass.sGLOBAL (consumed_state c33_tokens 1) (consumed_state c33_tokens 1).peeked
    (consumed_state c33_tokens 1).peeked (c33_state 4)
    (c33_state 7).peeked none none taSHL true 3 7
    [some (⟨1, 6⟩, "A", none)]
    (by decide) (by decide!) (by decide!) (by decide!) (by decide!) (by decide) (by decide!)
    (by decide!) (by decide!)
    (EnumRun.last _ _ _
      (by decide!) (by decide!) (by decide!))
    (by decide) (by decide!)

/-- The modifiers `+=`, `*=` and `<<=` in whole declarations; the shift by the
cell width minus one gives the most negative cell, a shift by the width or more
gives 0. -/
theorem parse_enum_modifier_samples :
    parse_toplevel sample_lists const_externals sample_top 21 (init_state c33_tokens) =
      some (some (Stmt.EnumDecl ⟨1, 0⟩ StorageClass.sGLOBAL none none 1 8
        [(⟨1, 6⟩, "A", none)]), { consumed_state c33_tokens 9 with errors := [228] }) ∧
    parse_toplevel sample_lists const_externals sample_top 21 (init_state c33_add_tokens) =
      some (some (Stmt.EnumDecl ⟨1, 0⟩ StorageClass.sGLOBAL none none 5 1
        [(⟨1, 6⟩, "A", none)]), { consumed_state c33_add_tokens 9 with errors := [228] }) ∧
    parse_toplevel sample_lists const_externals sample_top 21 (init_state c33_mult_tokens) =
      some (some (Stmt.EnumDecl ⟨1, 0⟩ StorageClass.sGLOBAL none none 1 5
        [(⟨1, 6⟩, "A", none)]), { consumed_state c33_mult_tokens 9 with errors := [228] }) ∧
    enum_modifier 32 taSHL 31 = (1, -2147483648) ∧ enum_modifier 32 taSHL 32 = (1, 0) ∧
    enum_modifier 32 taSHL (-4) = (1, 1) :=
  ⟨by decide!, by decide!, by decide!, by decide!, by decide!, by decide!⟩

/-- A default case handed to the loop of `parse_switch` is the default case it
returns. -/
theorem parse_switch_loop_default (h14 : P Expr) (pstmt : Option Int → Bool → P StmtResult) :
    ∀ (fuel : Nat) (cases : List (List Expr × Stmt)) (d : Stmt) (s : ParserState),
      Tr (parse_switch_loop h14 pstmt fuel cases (some d)) s fun r _ => r.2 = some d := by
  intro fuel
  induction fuel with
  | zero =>
    intro cases d s a s' h
    simp [parse_switch_loop] at h
  | succ n ih =>
    intro cases d s
    unfold parse_switch_loop
    refine Tr.tr_bind (Tr.tr_any _ _) fun tok s1 _ => ?_
    split
    · refine Tr.tr_bind (Tr.tr_any _ _) fun _ s2 _ => ?_
      refine Tr.tr_bind (Tr.tr_any _ _) fun c s3 _ => ?_
      exact ih _ d s3
    · split
      · refine Tr.tr_bind (Tr.tr_any _ _) fun _ s2 _ => ?_
        refine Tr.tr_bind (Tr.tr_any _ _) fun r s3 _ => ?_
        obtain ⟨stmt, li⟩ := r
        cases stmt with
        | none => exact ih cases d s3
        | some st =>
          dsimp only
          split
          · exact Tr.tr_bind (Tr.tr_any _ _) fun _ s4 _ => ih cases d s4
          · rename_i hc
            exact absurd rfl hc
      · dsimp only
        split
        · refine Tr.tr_bind (Tr.tr_any _ _) fun _ s2 _ => ?_
          refine Tr.tr_bind (Tr.tr_any _ _) fun _ s3 _ => ?_
          exact Tr.tr_pure rfl
        · refine Tr.tr_bind (Tr.tr_any _ _) fun _ s2 _ => ?_
          exact Tr.tr_pure rfl

/-- C34, as the code has it: repeated `default` clauses. In the body of a switch with the token
`default` next, followed by the colon and a statement that parses to the node
`st`: when no default case is stored yet, the loop of `parse_switch` goes on
with `st` as default case and reports nothing; when one is stored, the loop
goes on with the stored one and the same cases from the state after the call of
`error(16)` that follows the statement, which is parsed and dropped; the call
adds the report unless an error is pending after the statement. In both cases
the default case the loop returns is the first one stored. -/
theorem later_default_error_16 (h14 : P Expr) (pstmt : Option Int → Bool → P StmtResult)
    (fuel : Nat) (cases : List (List Expr × Stmt)) (dc : Option Stmt)
    (s s2 s3 : ParserState) (st : Stmt) (b : Bool) (li : Option Int)
    (hdef : s.peekTok.id = tDEFAULT)
    (hcolon : needtoken ch_colon s.adv = some (b, s2))
    (hstmt : pstmt none false s2 = some ((some st, li), s3)) :
    parse_switch_loop h14 pstmt (fuel + 1) cases dc s =
        parse_switch_loop h14 pstmt fuel cases (some (dc.getD st))
          (if dc.isSome then s3.report 16 else s3) ∧
      (if dc.isSome then s3.report 16 else s3).errors =
        s3.errors ++ (if dc.isSome ∧ s3.errflag = false then [16] else []) ∧
      ∀ cs dc' s', parse_switch_loop h14 pstmt (fuel + 1) cases dc s = some ((cs, dc'), s') →
        dc' = some (dc.getD st) := by
  have hstep : parse_switch_loop h14 pstmt (fuel + 1) cases dc s =
      parse_switch_loop h14 pstmt fuel cases (some (dc.getD st))
        (if dc.isSome then s3.report 16 else s3) := by
    conv => lhs; unfold parse_switch_loop
    refine run_bind (lex_run _) ?_
    refine run_ite_neg (by rw [hdef]; decide) ?_
    refine run_ite_pos hdef ?_
    refine run_bind hcolon ?_
    refine run_bind hstmt ?_
    cases dc with
    | none => rfl
    | some d =>
      dsimp only
      refine run_ite_pos rfl ?_
      refine run_bind (error_run _ _) ?_
      rfl
  refine ⟨hstep, ?_, ?_⟩
  · cases dc with
    | none => simp
    | some d =>
      simp only [Option.isSome_some, if_true, true_and]
      rw [report_errors]
      cases s3.errflag <;> simp
  · intro cs dc' s' h
    rw [hstep] at h
    exact parse_switch_loop_default h14 pstmt fuel cases _ _ _ _ h

/-- Witness of C34 as the code has it: in `switch (x) { default: a; default: b; default: c; }` the
second clause is parsed with `a` stored; error 16 is reported for the second and
for the third clause, no error being pending after their statements, and `a`
stays the default case. -/
theorem later_default_error_16_witness :
    (parse_switch_loop (hier14 sample_lists sample_externals 19)
        (parse_stmt sample_lists sample_externals 19) (18 + 1) [] (some (c34_stmt "a" 7))
        (c34_state 9 []) =
      parse_switch_loop (hier14 sample_lists sample_externals 19)
        (parse_stmt sample_lists sample_externals 19) 18 []
        (some ((some (c34_stmt "a" 7)).getD (c34_stmt "b" 11)))
        (if (some (c34_stmt "a" 7)).isSome then (c34_state 13 []).report 16
          else c34_state 13 []) ∧
      (if (some (c34_stmt "a" 7)).isSome then (c34_state 13 []).report 16
        else c34_state 13 []).errors =
        (c34_state 13 []).errors ++
          (if (some (c34_stmt "a" 7)).isSome ∧ (c34_state 13 []).errflag = false
            then [16] else []) ∧
      ∀ cs dc' s', parse_switch_loop (hier14 sample_lists sample_externals 19)
          (parse_stmt sample_lists sample_externals 19) (18 + 1) [] (some (c34_stmt "a" 7))
          (c34_state 9 []) = some ((cs, dc'), s') →
        dc' = some ((some (c34_stmt "a" 7)).getD (c34_stmt "b" 11))) ∧
    parse_stmt sample_lists sample_externals 20 none true (init_state c34_tokens) =
      some ((some (Stmt.SwitchStmt ⟨1, 0⟩ (.SymbolExpr ⟨1, 2⟩ "x") []
        (some (c34_stmt "a" 7))), none),
        { consumed_state c34_tokens 18 with errors := [16, 16], errflag := true }) :=
  ⟨later_default_error_16 (hier14 sample_lists sample_externals 19)
      (parse_stmt sample_lists sample_externals 19) 18 [] (some (c34_stmt "a" 7))
      (c34_state 9 []) (c34_state 11 []) (c34_state 13 []) (c34_stmt "b" 11) true none
      (by decide!) (by decide!) (by decide!),
    by decide!⟩

/-- C34 fails for the code: in `switch (x) { default: a; default: b }` the
second `default` clause follows a stored one and no error 16 is reported: error
1 for the `;` missing after `b` is pending when `parse_switch` calls
`error(16)`. The default case stays the first. -/
theorem later_default_no_16 :
    (parse_stmt sample_lists sample_externals 20 none true (init_state c34_pending_tokens)).map
        (fun r => (r.1.1, r.2.errors)) =
      some (some (Stmt.SwitchStmt ⟨1, 0⟩ (.SymbolExpr ⟨1, 2⟩ "x") []
        (some (c34_stmt "a" 7))), [1]) :=
  by decide!

theorem guard_sc_intest {s s' : ParserState} (h : s'.guard = s.guard) :
    s'.sc_intest = s.sc_intest := by
  simp only [ParserState.guard, Prod.mk.injEq] at h
  exact h.2.1

/-- Inside the parentheses of `primary`, every element is parsed with
`sc_intest` cleared. -/
theorem primary_loop_intest (h14 : P Expr) (hk : Keeps h14) :
    ∀ (fuel : Nat) (exprs : List Expr) (s : ParserState), s.sc_intest = false →
      primary_loop h14 fuel exprs s =
        primary_loop (watched (fun t => !t.sc_intest) h14) fuel exprs s := by
  intro fuel
  induction fuel with
  | zero => intro exprs s _; rfl
  | succ n ih =>
    intro exprs s hs
    have hw : watched (fun t => !t.sc_intest) h14 s = h14 s := by
      unfold watched
      simp [hs]
    conv_lhs => unfold primary_loop
    conv_rhs => unfold primary_loop
    rw [bind_run, bind_run, hw]
    cases h : h14 s with
    | none => rfl
    | some r =>
      obtain ⟨child, s1⟩ := r
      have h1 : s1.sc_intest = false := by rw [guard_sc_intest (hk s child s1 h)]; exact hs
      simp only [Option.bind]
      rw [bind_run, bind_run, matchtoken_run _ (by decide)]
      simp only [Option.bind]
      by_cases hc : s1.peekTok.id = ch_comma
      · simp only [hc, decide_True, if_true]
        exact ih _ _ (by rw [adv_sc_intest]; exact h1)
      · simp only [hc, decide_False, if_false]
        rfl

/-- C35: warning 211 inside nested parentheses. Entered at a `(`, `primary`
parses every element between the parentheses with `sc_intest` cleared (it
yields the same when `hier14` is restricted to the states in which the flag is
cleared) and returns with the flag as it was on entry; an `=` that `hier14`
meets with the flag cleared is parsed without a report. So `if ((a = b))` and
`while ((a = b))` report nothing, while `if (a = b)` and `if ((a) = b)`, where
the `=` follows the inner parenthesis, report 211. -/
theorem nested_parens_suppress_211 (L : OpLists) (E : Externals) (h14 : P Expr) (hk : Keeps h14)
    (fuel : Nat) (s : ParserState) (hp : s.peekTok.id = ch_lparen) :
    primary h14 fuel s = primary (watched (fun t => !t.sc_intest) h14) fuel s ∧
      (∀ e s', primary h14 fuel s = some (e, s') → s'.sc_intest = s.sc_intest) ∧
      (∀ (n : Nat) (t t1 t2 : ParserState) (node right : Expr),
        hier13 L E (hier14 L E n) n t = some (node, t1) → t1.peekTok.id = ch_assign →
        t1.sc_intest = false → hier14 L E n t1.adv = some (right, t2) →
        hier14 L E (n + 1) t =
          some (Expr.BinaryExpr t1.peekTok.start t1.peekTok.id node right, t2)) ∧
      (parse_stmt sample_lists sample_externals 20 none true (init_state c35_if_tokens)).map
          (fun x => x.2.errors) = some [] ∧
      (parse_stmt sample_lists sample_externals 20 none true (init_state c35_while_tokens)).map
          (fun x => x.2.errors) = some [] ∧
      (parse_stmt sample_lists sample_externals 20 none true (init_state c24_if_tokens)).map
          (fun x => x.2.errors) = some [211] ∧
      (parse_stmt sample_lists sample_externals 20 none true (init_state c35_after_tokens)).map
          (fun x => x.2.errors) = some [211] := by
  refine ⟨?_, ?_, ?_, by decide!, by decide!, by decide!, by decide!⟩
  · have key : ∀ h : P Expr, primary h fuel s =
        (SaveAndSet (·.sc_intest) set_sc_intest false
          (SaveAndSet (·.sc_allowtags) set_sc_allowtags true (do
            let pos ← current_pos
            let exprs ← primary_loop h fuel []
            let _ ← needtoken TokenKind.ch_rparen
            lexclr false
            return Expr.CommaExpr pos exprs))) s.adv := by
      intro h
      unfold primary
      exact run_bind (matchtoken_hit _ _ hp) (run_ite_pos rfl rfl)
    rw [key, key]
    unfold SaveAndSet
    rw [bind_run, bind_run, current_pos_run]
    simp only [Option.bind]
    rw [bind_run, bind_run, primary_loop_intest h14 hk fuel [] _ rfl]
  · intro e s' h
    exact guard_sc_intest (Keeps_primary h14 hk fuel s e s' h)
  · intro n t t1 t2 node right h13 hq hi hr
    refine hier14_assign L E n t t1 t2 node right h13 (Or.inr hq) ?_
    unfold ParserState.afterAssign
    rw [if_neg (by simp [hi])]
    exact hr

/-- Witness of C35: the inner parenthesis of `if ( ( a = b ) ) c ;`, entered with
`sc_intest` set. -/
theorem nested_parens_suppress_211_witness :
    (primary (hier14 sample_lists sample_externals 10) 10 c35_inner_state =
        primary (watched (fun t => !t.sc_intest) (hier14 sample_lists sample_externals 10)) 10
          c35_inner_state ∧
      (∀ e s', primary (hier14 sample_lists sample_externals 10) 10 c35_inner_state =
        some (e, s') → s'.sc_intest = c35_inner_state.sc_intest) ∧
      (∀ (n : Nat) (t t1 t2 : ParserState) (node right : Expr),
        hier13 sample_lists sample_externals (hier14 sample_lists sample_externals n) n t =
          some (node, t1) → t1.peekTok.id = ch_assign →
        t1.sc_intest = false → hier14 sample_lists sample_externals n t1.adv = some (right, t2) →
        hier14 sample_lists sample_externals (n + 1) t =
          some (Expr.BinaryExpr t1.peekTok.start t1.peekTok.id node right, t2)) ∧
      (parse_stmt sample_lists sample_externals 20 none true (init_state c35_if_tokens)).map
          (fun x => x.2.errors) = some [] ∧
      (parse_stmt sample_lists sample_externals 20 none true (init_state c35_while_tokens)).map
          (fun x => x.2.errors) = some [] ∧
      (parse_stmt sample_lists sample_externals 20 none true (init_state c24_if_tokens)).map
          (fun x => x.2.errors) = some [211] ∧
      (parse_stmt sample_lists sample_externals 20 none true (init_state c35_after_tokens)).map
          (fun x => x.2.errors) = some [211]) ∧
    (primary (hier14 sample_lists sample_externals 10) 10 c35_inner_state).map
        (fun x => (x.1, x.2.errors, x.2.sc_intest)) =
      some (.CommaExpr ⟨1, 2⟩ [.BinaryExpr ⟨1, 4⟩ ch_assign (.SymbolExpr ⟨1, 3⟩ "a")
        (.SymbolExpr ⟨1, 5⟩ "b")], [], true) ∧
    primary (watched (fun t => t.sc_intest) (hier14 sample_lists sample_externals 10)) 10
        c35_inner_state = none :=
  ⟨nested_parens_suppress_211 sample_lists sample_externals
      (hier14 sample_lists sample_externals 10)
      (Keeps_hier14 sample_lists sample_externals sample_externals_keeps 10) 10 c35_inner_state
      (by decide!),
    by decide!, by decide!⟩

/-- C37: the tag of a `const` entry. A bare entry `name = const-expr`, an
identifier followed by `=`, is read as the `ConstDecl` with the tag 0, whatever
the declarations collected from the entries before it: one turn of the loop of
`parse_const`, entered with any first declaration and any list, pushes that
declaration and goes on after the initialiser. -/
theorem const_tag_not_inherited (E : Externals) (vclass : StorageClass) (s : ParserState)
    (hsym : s.peekTok.id = tSYMBOL) (hassign : s.adv.peekTok.id = ch_assign) :
    ConstEntry E vclass s (bare_const E vclass s) (E.exprconst s.adv.peeked.unlex.adv.adv).2 ∧
      (∀ (n : Nat) (decl : Option Stmt) (list : Option (token_pos_t × List Stmt)),
        parse_const_loop E vclass (n + 1) decl list s =
          (do
            if (← matchtoken TokenKind.ch_comma) then
              parse_const_loop E vclass n (const_push (decl, list) (bare_const E vclass s)).1
                (const_push (decl, list) (bare_const E vclass s)).2
            else return const_push (decl, list) (bare_const E vclass s) :
              P (Option Stmt × Option (token_pos_t × List Stmt)))
            (E.exprconst s.adv.peeked.unlex.adv.adv).2) ∧
      ∀ pos name type v tag val,
        bare_const E vclass s = Stmt.ConstDecl pos name type v tag val →
          type.tag = 0 ∧ type.is_const = true ∧ name = s.peekTok.str := by
  have hrest : ∃ t r, s.rest = t :: r := by
    cases h : s.rest with
    | nil => rw [peekTok_nil h] at hsym; exact absurd hsym (by decide)
    | cons t r => exact ⟨t, r, rfl⟩
  obtain ⟨t, r, hr⟩ := hrest
  have hc : s.adv.peeked.consumed = some t :: s.consumed := by
    rw [peeked_consumed, adv_consumed_cons hr]
  have hT : s.adv.peeked.unlex.rest = t :: r := by
    rw [unlex_rest_cons hc, peeked_rest, adv_rest_cons hr]
  have hp : s.adv.peeked.unlex.peekTok = s.peekTok := by
    rw [peekTok_cons hT, peekTok_cons hr]
  have hp2 : s.adv.peeked.unlex.adv.peekTok = s.adv.peekTok := by
    unfold ParserState.peekTok
    rw [adv_rest_cons hT, adv_rest_cons hr]
  have hentry : ConstEntry E vclass s (bare_const E vclass s)
      (E.exprconst s.adv.peeked.unlex.adv.adv).2 := by
    have := @ConstEntry.mk E vclass s s.adv.peeked.unlex 0
      (ConstTag.plain s hsym (by rw [hassign]; decide)) (by rw [hp]; exact hsym)
      (by rw [hp2]; exact hassign)
    rw [hp] at this
    exact this
  refine ⟨hentry, fun n decl list => ConstEntry.turn E vclass s _ _ hentry n decl list, ?_⟩
  intro pos name type v tag val h
  unfold bare_const at h
  simp only [Stmt.ConstDecl.injEq] at h
  obtain ⟨_, h2, h3, _⟩ := h
  subst h3
  exact ⟨rfl, rfl, h2.symm⟩

/-- Witness of C37: in `const Float:a = 1 , b = 2 ;` the entry `b = 2` is read
with `a`, of tag `pc_addtag("Float")`, as first declaration, and gets the tag 0. -/
theorem const_tag_not_inherited_witness :
    (ConstEntry const_externals StorageClass.sGLOBAL (consumed_state c37_tokens 6)
        (bare_const const_externals StorageClass.sGLOBAL (consumed_state c37_tokens 6))
        (const_externals.exprconst (consumed_state c37_tokens 6).adv.peeked.unlex.adv.adv).2 ∧
      (∀ (n : Nat) (decl : Option Stmt) (list : Option (token_pos_t × List Stmt)),
        parse_const_loop const_externals StorageClass.sGLOBAL (n + 1) decl list
            (consumed_state c37_tokens 6) =
          (do
            if (← matchtoken TokenKind.ch_comma) then
              parse_const_loop const_externals StorageClass.sGLOBAL n
                (const_push (decl, list)
                  (bare_const const_externals StorageClass.sGLOBAL (consumed_state c37_tokens 6))).1
                (const_push (decl, list)
                  (bare_const const_externals StorageClass.sGLOBAL (consumed_state c37_tokens 6))).2
            else return (const_push (decl, list)
              (bare_const const_externals StorageClass.sGLOBAL (consumed_state c37_tokens 6))) :
              P (Option Stmt × Option (token_pos_t × List Stmt)))
            (const_externals.exprconst
              (consumed_state c37_tokens 6).adv.peeked.unlex.adv.adv).2) ∧
      ∀ pos name type v tag val,
        bare_const const_externals StorageClass.sGLOBAL (consumed_state c37_tokens 6) =
            Stmt.ConstDecl pos name type v tag val →
          type.tag = 0 ∧ type.is_const = true ∧
            name = (consumed_state c37_tokens 6).peekTok.str) ∧
    bare_const const_externals StorageClass.sGLOBAL (consumed_state c37_tokens 6) = c37_b ∧
    const_externals.pc_addtag "Float" = 5 ∧
    parse_const_loop const_externals StorageClass.sGLOBAL 5 (some c37_a) none
        (consumed_state c37_tokens 6) =
      some ((some c37_a, some (⟨1, 5⟩, [c37_a, c37_b])), (consumed_state c37_tokens 9).peeked) ∧
    parse_toplevel sample_lists const_externals sample_top 21 (init_state c37_tokens) =
      some (some (Stmt.StmtList ⟨1, 5⟩ [c37_a, c37_b]), consumed_state c37_tokens 10) :=
  ⟨const_tag_not_inherited const_externals StorageClass.sGLOBAL (consumed_state c37_tokens 6)
      (by decide!) (by decide!),
    by decide!, by decide!, by decide!, by decide!⟩

@[simp] theorem stream_consumed (s : ParserState) : s.stream.consumed = s.consumed := rfl
@[simp] theorem stream_rest (s : ParserState) : s.stream.rest = s.rest := rfl
@[simp] theorem stream_needsemi (s : ParserState) : s.stream.needsemi = s.sc_needsemicolon := rfl

theorem stream_peek (s : ParserState) : s.stream.peek = s.peekTok := rfl

theorem stream_current (s : ParserState) : s.stream.current = current_token s := rfl

theorem stream_adv (s : ParserState) : s.adv.stream = s.stream.adv := by
  unfold ParserState.adv Stream.adv ParserState.stream
  cases h : s.rest <;> simp

theorem stream_unlex (s : ParserState) : s.unlex.stream = s.stream.unlex := by
  unfold ParserState.unlex Stream.unlex ParserState.stream
  cases h : s.consumed with
  | nil => simp [h]
  | cons x c => cases x <;> simp

theorem Stream.s_adv_unlex (st : Stream) : st.adv.unlex = st := by
  unfold Stream.adv Stream.unlex
  cases h : st.rest with
  | nil => simp [← h]
  | cons t r => simp [← h]

theorem stream_peeked (s : ParserState) : s.peeked.stream = s.stream := by
  unfold ParserState.peeked
  rw [stream_unlex, stream_adv, Stream.s_adv_unlex]

theorem stream_report (s : ParserState) (c : Nat) : (s.report c).stream = s.stream := by
  unfold ParserState.report
  split_ifs <;> rfl

theorem stream_set_sc_intest (v : Bool) (s : ParserState) :
    (set_sc_intest v s).stream = s.stream := rfl
theorem stream_set_sc_allowtags (v : Bool) (s : ParserState) :
    (set_sc_allowtags v s).stream = s.stream := rfl
theorem stream_set_in_loop (v : Bool) (s : ParserState) :
    (set_in_loop v s).stream = s.stream := rfl
theorem stream_set_one_error (v : Bool) (s : ParserState) :
    (set_one_error v s).stream = s.stream := rfl

theorem matchtoken_stream (k : TokenKind) (s : ParserState) :
    ∃ s', matchtoken k s = some ((s.stream.matchtoken k).1, s') ∧
      s'.stream = (s.stream.matchtoken k).2 := by
  unfold matchtoken Stream.matchtoken
  simp only [bind_run, get_run, Option.bind, lextok_run, ite_run, pure_run, lexpush_run,
    stream_peek, stream_current, stream_needsemi, stream_rest]
  by_cases h1 : s.peekTok.id = k
  · simp only [h1, if_true]
    exact ⟨_, rfl, stream_adv s⟩
  · simp only [h1, if_false]
    by_cases h2 : k = tTERM ∧ (s.peekTok.id = ch_semicolon ∨ s.peekTok.id = tENDEXPR)
    · simp only [h2, if_true, and_self]
      exact ⟨_, rfl, stream_adv s⟩
    · simp only [h2, if_false]
      by_cases h3 : k = tTERM ∧ s.sc_needsemicolon = false ∧
          (s.rest.isEmpty = true ∨ s.peekTok.start.line ≠ (current_token s).start.line)
      · simp only [h3, if_true, and_self]
        exact ⟨_, rfl, stream_peeked s⟩
      · simp only [h3, if_false]
        exact ⟨_, rfl, stream_peeked s⟩

section go
variable {α β : Type}

theorem Go.g_pure {a : α} {st : Stream} {Q : α → Stream → Prop} (h : Q a st) :
    Go (pure a : P α) st Q := by
  intro s hs
  exact ⟨a, s, rfl, hs ▸ h⟩

theorem Go.g_bind {m : P α} {f : α → P β} {st : Stream} {Q1 : α → Stream → Prop}
    {Q : β → Stream → Prop} (h1 : Go m st Q1) (h2 : ∀ a st', Q1 a st' → Go (f a) st' Q) :
    Go (m >>= f) st Q := by
  intro s hs
  obtain ⟨a, s1, hm, hq⟩ := h1 s hs
  obtain ⟨b, s2, hf, hq2⟩ := h2 a _ hq s1 rfl
  exact ⟨b, s2, by rw [bind_run, hm]; exact hf, hq2⟩

theorem Go.g_ite {c : Prop} [Decidable c] {m1 m2 : P α} {st : Stream} {Q : α → Stream → Prop}
    (h1 : c → Go m1 st Q) (h2 : ¬c → Go m2 st Q) : Go (if c then m1 else m2) st Q := by
  by_cases h : c
  · rw [if_pos h]; exact h1 h
  · rw [if_neg h]; exact h2 h

theorem Go.g_mono {m : P α} {st : Stream} {Q Q' : α → Stream → Prop} (h : Go m st Q)
    (hq : ∀ a st', Q a st' → Q' a st') : Go m st Q' := by
  intro s hs
  obtain ⟨a, s', hm, hq'⟩ := h s hs
  exact ⟨a, s', hm, hq _ _ hq'⟩

theorem Go.g_of_eq {m m' : P α} {st : Stream} {Q : α → Stream → Prop} (h : m = m')
    (hg : Go m' st Q) : Go m st Q := h ▸ hg

theorem Go.g_SaveAndSet {getf : ParserState → Bool} {setf : Bool → ParserState → ParserState}
    (hset : ∀ v s, (setf v s).stream = s.stream) (v : Bool) {body : P α} {st : Stream}
    {Q : α → Stream → Prop} (h : Go body st Q) : Go (SaveAndSet getf setf v body) st Q := by
  intro s hs
  obtain ⟨a, s', hm, hq⟩ := h (setf v s) (by rw [hset]; exact hs)
  refine ⟨a, setf (getf s) s', ?_, by rw [hset]; exact hq⟩
  unfold SourcePawn.SaveAndSet
  rw [hm]

theorem Go.g_liftE {f : ParserState → α × ParserState} {st : Stream} {Q : α → Stream → Prop}
    (h : ∀ s, s.stream = st → Q (f s).1 (f s).2.stream) : Go (liftE f) st Q := by
  intro s hs
  exact ⟨(f s).1, (f s).2, rfl, h s hs⟩

end go

theorem Go.g_lex (st : Stream) : Go lex st (fun tok st' => tok = st.peek ∧ st' = st.adv) := by
  intro s hs
  exact ⟨_, _, lex_run s, by rw [← hs]; rfl, by rw [← hs]; exact stream_adv s⟩

theorem Go.g_lextok (st : Stream) : Go lextok st (fun tok st' => tok = st.peek ∧ st' = st.adv) :=
  Go.g_lex st

theorem Go.g_lexpush (st : Stream) : Go lexpush st (fun _ st' => st' = st.unlex) := by
  intro s hs
  exact ⟨_, _, lexpush_run s, by rw [← hs]; exact stream_unlex s⟩

theorem Go.g_matchtoken (k : TokenKind) (st : Stream) :
    Go (matchtoken k) st (fun b st' => (b, st') = st.matchtoken k) := by
  intro s hs
  obtain ⟨s', h1, h2⟩ := matchtoken_stream k s
  exact ⟨_, s', h1, by rw [h2, hs]⟩

theorem Go.g_needtoken (k : TokenKind) (st : Stream) :
    Go (needtoken k) st (fun b st' => (b, st') = st.matchtoken k) := by
  intro s hs
  obtain ⟨s', h1, h2⟩ := matchtoken_stream k s
  unfold SourcePawn.needtoken
  cases hb : (s.stream.matchtoken k).1 with
  | true =>
    refine ⟨true, s', ?_, by rw [h2, ← hs, ← hb]⟩
    rw [bind_run, h1, hb]
    rfl
  | false =>
    refine ⟨false, s'.report 1, ?_, by rw [stream_report, h2, ← hs, ← hb]⟩
    rw [bind_run, h1, hb]
    rfl

theorem Go.g_matchsymbol (st : Stream) :
    Go matchsymbol st (fun r st' => (r.isSome, st') = st.matchtoken tSYMBOL) := by
  intro s hs
  obtain ⟨s', h1, h2⟩ := matchtoken_stream tSYMBOL s
  unfold SourcePawn.matchsymbol
  cases hb : (s.stream.matchtoken tSYMBOL).1 with
  | true =>
    refine ⟨some (current_token s').str, s', ?_, ?_⟩
    · rw [bind_run, h1, hb]
      rfl
    · subst hs
      rw [h2]
      exact Prod.ext hb.symm rfl
  | false =>
    refine ⟨none, s', ?_, ?_⟩
    · rw [bind_run, h1, hb]
      rfl
    · subst hs
      rw [h2]
      exact Prod.ext hb.symm rfl

theorem Go.g_needsymbol (st : Stream) :
    Go needsymbol st (fun r st' => (r.isSome, st') = st.matchtoken tSYMBOL) := by
  intro s hs
  obtain ⟨b, s', h1, h2⟩ := Go.g_needtoken tSYMBOL st s hs
  unfold SourcePawn.needsymbol
  cases b with
  | true =>
    refine ⟨some (current_token s').str, s', ?_, h2⟩
    rw [bind_run, h1]
    rfl
  | false =>
    refine ⟨none, s', ?_, h2⟩
    rw [bind_run, h1]
    rfl

theorem Go.g_lexpeek (k : TokenKind) (st : Stream) :
    Go (lexpeek k) st (fun b st' => b = decide (st.peek.id = k) ∧ st' = st) := by
  intro s hs
  subst hs
  refine ⟨_, s.peeked, ?_, rfl, stream_peeked s⟩
  unfold SourcePawn.lexpeek
  rw [bind_run, lextok_run]
  rfl

theorem Go.g_error (c : Nat) (st : Stream) : Go (error c) st (fun _ st' => st' = st) := by
  intro s hs
  exact ⟨_, _, error_run c s, (stream_report s c).trans hs⟩

theorem Go.g_current_pos (st : Stream) :
    Go current_pos st (fun p st' => p = st.current.start ∧ st' = st) := by
  intro s hs
  exact ⟨_, _, current_pos_run s, by rw [← hs]; rfl, hs⟩

theorem Go.g_freading (st : Stream) :
    Go freading st (fun b st' => b = !st.rest.isEmpty ∧ st' = st) := by
  intro s hs
  exact ⟨_, _, freading_run s, by rw [← hs]; rfl, hs⟩

theorem Go.g_get (st : Stream) : Go get st (fun s st' => s.stream = st ∧ st' = st) := by
  intro s hs
  exact ⟨s, s, rfl, hs, hs⟩

theorem Go.g_lexclr_false (st : Stream) : Go (lexclr false) st (fun _ st' => st' = st) := by
  intro s hs
  exact ⟨_, s, rfl, hs⟩

@[simp] theorem reals_nil : reals [] = 0 := rfl
@[simp] theorem reals_some (t : token_t) (ms : List (Option token_t)) :
    reals (some t :: ms) = reals ms + 1 := by
  simp [reals, List.reduceOption_cons_of_some]
@[simp] theorem reals_none (ms : List (Option token_t)) : reals (none :: ms) = reals ms := by
  simp [reals, List.reduceOption_cons_of_none]
@[simp] theorem reals_append (a b : List (Option token_t)) :
    reals (a ++ b) = reals a + reals b := by
  simp [reals, List.reduceOption_append]

theorem reals_le_cons (x : Option token_t) (ms : List (Option token_t)) :
    reals ms ≤ reals (x :: ms) := by
  cases x <;> simp

theorem MarksOk.m_of_no_none {ms : List (Option token_t)} (h : none ∉ ms) : MarksOk ms := by
  induction ms with
  | nil => trivial
  | cons x ms ih =>
    cases x with
    | none => exact absurd (List.mem_cons_self _ _) h
    | some t => exact fun hc => h (List.mem_cons_of_mem _ hc)

theorem MarksOk.m_tail {x : Option token_t} {ms : List (Option token_t)} (h : MarksOk (x :: ms)) :
    MarksOk ms := by
  cases x with
  | none => exact h
  | some t => exact MarksOk.m_of_no_none h

theorem reduceOption_nil_of_all_none {ms : List (Option token_t)}
    (h : ms.reduceOption = []) : ∀ x ∈ ms, x = none := by
  induction ms with
  | nil => intro x hx; simp at hx
  | cons y ms ih =>
    cases y with
    | none =>
      rw [List.reduceOption_cons_of_none] at h
      intro x hx
      rcases List.mem_cons.mp hx with hx | hx
      · exact hx
      · exact ih h x hx
    | some t =>
      rw [List.reduceOption_cons_of_some] at h
      exact absurd h (by simp)

theorem MarksOk.m_append_nones {ms' ms : List (Option token_t)} (h : ∀ x ∈ ms', x = none)
    (hm : MarksOk ms) : MarksOk (ms' ++ ms) := by
  induction ms' with
  | nil => exact hm
  | cons y ms' ih =>
    have hy : y = none := h y (List.mem_cons_self _ _)
    subst hy
    exact ih (fun x hx => h x (List.mem_cons_of_mem _ hx))

theorem MarksOk.m_append_clean {ms' ms : List (Option token_t)} (h' : MarksOk ms')
    (h : none ∉ ms) : MarksOk (ms' ++ ms) := by
  induction ms' with
  | nil => exact MarksOk.m_of_no_none h
  | cons y ms' ih =>
    cases y with
    | none => exact ih h'
    | some t =>
      intro hc
      rcases List.mem_append.mp hc with hc | hc
      · exact h' hc
      · exact h hc

theorem Ahead.a_refl (st : Stream) : Ahead st st [] := ⟨rfl, rfl, fun h => by simp at h, trivial⟩

theorem Ahead.a_rest_length {st0 st : Stream} {ms : List (Option token_t)} (h : Ahead st0 st ms) :
    reals ms + st.rest.length = st0.rest.length := by
  rw [h.2.1]
  simp [reals]

theorem Ahead.a_adv {st0 st : Stream} {ms : List (Option token_t)} (h : Ahead st0 st ms) :
    Ahead st0 st.adv (st.rest.head? :: ms) := by
  obtain ⟨h1, h2, h3, h4⟩ := h
  unfold Stream.adv
  cases hr : st.rest with
  | nil =>
    refine ⟨by simp [h1], ?_, fun _ => by simp [hr], h4⟩
    simp [h2, hr, List.reduceOption_cons_of_none]
  | cons t r =>
    have hn : none ∉ ms := fun hc => by rw [h3 hc] at hr; exact absurd hr (by simp)
    refine ⟨by simp [h1], ?_, fun hc => ?_, hn⟩
    · simp [h2, hr, List.reduceOption_cons_of_some]
    · simp only [List.head?_cons, List.mem_cons] at hc
      rcases hc with hc | hc
      · exact absurd hc (by simp)
      · exact absurd hc hn

theorem Ahead.a_unlex {st0 st : Stream} {x : Option token_t} {ms : List (Option token_t)}
    (h : Ahead st0 st (x :: ms)) : Ahead st0 st.unlex ms := by
  obtain ⟨h1, h2, h3, h4⟩ := h
  unfold Stream.unlex
  rw [h1]
  cases x with
  | none =>
    refine ⟨rfl, ?_, fun _ => h3 (List.mem_cons_self _ _), h4⟩
    simpa [List.reduceOption_cons_of_none] using h2
  | some t =>
    refine ⟨rfl, ?_, fun hc => absurd hc h4, MarksOk.m_of_no_none h4⟩
    simpa [List.reduceOption_cons_of_some] using h2

theorem Ahead.a_trans {st0 st st' : Stream} {ms ms' : List (Option token_t)}
    (h : Ahead st0 st ms) (h' : Ahead st st' ms') : Ahead st0 st' (ms' ++ ms) := by
  obtain ⟨h1, h2, h3, h4⟩ := h
  obtain ⟨g1, g2, g3, g4⟩ := h'
  refine ⟨by rw [g1, h1, List.append_assoc], ?_, ?_, ?_⟩
  · rw [h2, g2, List.reduceOption_append, List.reverse_append, List.append_assoc]
  · intro hc
    rcases List.mem_append.mp hc with hc | hc
    · exact g3 hc
    · have := h3 hc
      rw [g2] at this
      exact (List.append_eq_nil.mp this).2
  · by_cases hn : none ∈ ms
    · have := h3 hn
      rw [g2] at this
      have hr : ms'.reduceOption = [] := by
        have := (List.append_eq_nil.mp this).1
        simpa using this
      exact MarksOk.m_append_nones (reduceOption_nil_of_all_none hr) h4
    · exact MarksOk.m_append_clean g4 hn

theorem Ahead.a_some_of_ne_eof {st : Stream} (h : st.peek.id ≠ tEOF) :
    ∃ t, st.rest.head? = some t ∧ st.peek = t := by
  unfold Stream.peek at h ⊢
  cases hr : st.rest with
  | nil => rw [hr] at h; exact absurd rfl h
  | cons t r => exact ⟨t, rfl, rfl⟩

section tot
variable {α β : Type}

theorem Tot.t_pure {k : Nat} {a : α} {ms : List (Option token_t)}
    {Q : α → List (Option token_t) → Prop} (h : Q a ms) : Tot k (pure a : P α) ms Q :=
  fun _ _ _ ha => Go.g_pure ⟨ms, ha, h⟩

theorem Tot.t_bind {k : Nat} {m : P α} {f : α → P β} {ms : List (Option token_t)}
    {Q1 : α → List (Option token_t) → Prop} {Q : β → List (Option token_t) → Prop}
    (h1 : Tot k m ms Q1) (h2 : ∀ a ms', Q1 a ms' → Tot k (f a) ms' Q) :
    Tot k (m >>= f) ms Q := by
  intro st0 st hk ha
  refine Go.g_bind (h1 st0 st hk ha) ?_
  rintro a st' ⟨ms', ha', hq⟩
  exact h2 a ms' hq st0 st' hk ha'

theorem Tot.t_ite {k : Nat} {c : Prop} [Decidable c] {m1 m2 : P α} {ms : List (Option token_t)}
    {Q : α → List (Option token_t) → Prop} (h1 : c → Tot k m1 ms Q) (h2 : ¬c → Tot k m2 ms Q) :
    Tot k (if c then m1 else m2) ms Q := by
  by_cases h : c
  · rw [if_pos h]; exact h1 h
  · rw [if_neg h]; exact h2 h

theorem Tot.t_mono {k : Nat} {m : P α} {ms : List (Option token_t)}
    {Q Q' : α → List (Option token_t) → Prop} (h : Tot k m ms Q)
    (hq : ∀ a ms', Q a ms' → Q' a ms') : Tot k m ms Q' := by
  intro st0 st hk ha
  refine Go.g_mono (h st0 st hk ha) ?_
  rintro a st' ⟨ms', ha', hq'⟩
  exact ⟨ms', ha', hq _ _ hq'⟩

/-- With more tokens read than the base has left there is no such state. -/
theorem Tot.t_absurd {k : Nat} {m : P α} {ms : List (Option token_t)}
    {Q : α → List (Option token_t) → Prop} (h : k < reals ms) : Tot k m ms Q := by
  intro st0 st hk ha
  have := ha.a_rest_length
  omega

theorem Tot.t_keep {k : Nat} {m : P α} {ms : List (Option token_t)} {R : α → Prop}
    (h : ∀ st, Go m st (fun a st' => R a ∧ st' = st)) :
    Tot k m ms (fun a ms' => R a ∧ ms' = ms) := by
  intro st0 st _ ha
  refine Go.g_mono (h st) ?_
  rintro a st' ⟨hr, rfl⟩
  exact ⟨ms, ha, hr, rfl⟩

theorem Tot.t_SaveAndSet {k : Nat} {getf : ParserState → Bool}
    {setf : Bool → ParserState → ParserState}
    (hset : ∀ v s, (setf v s).stream = s.stream) (v : Bool) {body : P α}
    {ms : List (Option token_t)} {Q : α → List (Option token_t) → Prop} (h : Tot k body ms Q) :
    Tot k (SaveAndSet getf setf v body) ms Q :=
  fun st0 st hk ha => Go.g_SaveAndSet hset v (h st0 st hk ha)

/-- A production that makes progress, called after `ms` has been read. -/
theorem Tot.t_call {k k' : Nat} {m : P α} {ms : List (Option token_t)} (h : Prog k' m)
    (hk : k ≤ k' + reals ms) : Tot k m ms (fun _ ms' => Ext1 ms ms') := by
  intro st0 st hk0 ha
  have hl := ha.a_rest_length
  refine Go.g_mono (h st st (by omega) (Ahead.a_refl st)) ?_
  rintro a st' ⟨ms', ha', hne⟩
  exact ⟨ms' ++ ms, ha.a_trans ha', ms', hne, rfl⟩

/-- A production that makes progress with one token less left, called after a
token has been read. -/
theorem Tot.t_call_real {k : Nat} {m : P α} {ms : List (Option token_t)}
    (h : ∀ k', k = k' + 1 → Prog k' m) (hr : 1 ≤ reals ms) :
    Tot k m ms (fun _ ms' => Ext1 ms ms') := by
  cases k with
  | zero => exact Tot.t_absurd (by omega)
  | succ k' => exact Tot.t_call (h k' rfl) (by omega)

end tot

theorem Tot.t_lex (k : Nat) (ms : List (Option token_t)) :
    Tot k lex ms (fun tok ms' => ∃ x, ms' = x :: ms ∧ (tok.id ≠ tEOF → ∃ t, x = some t)) := by
  intro st0 st _ ha
  refine Go.g_mono (Go.g_lex st) ?_
  rintro tok st' ⟨rfl, rfl⟩
  refine ⟨_, ha.a_adv, _, rfl, fun h => ?_⟩
  obtain ⟨t, ht, _⟩ := Ahead.a_some_of_ne_eof h
  exact ⟨t, ht⟩

theorem Tot.t_lextok (k : Nat) (ms : List (Option token_t)) :
    Tot k lextok ms (fun tok ms' => ∃ x, ms' = x :: ms ∧ (tok.id ≠ tEOF → ∃ t, x = some t)) :=
  Tot.t_lex k ms

theorem Tot.t_lexpush (k : Nat) (x : Option token_t) (ms : List (Option token_t)) :
    Tot k lexpush (x :: ms) (fun _ ms' => ms' = ms) := by
  intro st0 st _ ha
  refine Go.g_mono (Go.g_lexpush st) ?_
  rintro _ st' rfl
  exact ⟨ms, ha.a_unlex, rfl⟩

theorem Ahead.a_matchtoken {st0 st : Stream} {ms : List (Option token_t)} (h : Ahead st0 st ms)
    (kind : TokenKind) :
    ((st.matchtoken kind).1 = true ∧ kind ≠ tTERM ∧ kind ≠ tEOF →
        ∃ t, Ahead st0 (st.matchtoken kind).2 (some t :: ms)) ∧
      ((st.matchtoken kind).1 = false → Ahead st0 (st.matchtoken kind).2 ms) ∧
      (Ahead st0 (st.matchtoken kind).2 ms ∨
        ((st.matchtoken kind).1 = true ∧ ∃ x, Ahead st0 (st.matchtoken kind).2 (x :: ms))) := by
  by_cases h1 : st.peek.id = kind
  · have hres : st.matchtoken kind = (true, st.adv) := by
      unfold Stream.matchtoken
      rw [if_pos h1]
    rw [hres]
    refine ⟨fun hk => ?_, fun hc => Bool.noConfusion hc, Or.inr ⟨rfl, _, h.a_adv⟩⟩
    obtain ⟨t, ht, _⟩ := Ahead.a_some_of_ne_eof (h1 ▸ hk.2.2)
    exact ⟨t, ht ▸ h.a_adv⟩
  · by_cases h2 : kind = tTERM ∧ (st.peek.id = ch_semicolon ∨ st.peek.id = tENDEXPR)
    · have hres : st.matchtoken kind = (true, st.adv) := by
        unfold Stream.matchtoken
        rw [if_neg h1, if_pos h2]
      rw [hres]
      exact ⟨fun hk => absurd h2.1 hk.2.1, fun hc => Bool.noConfusion hc,
        Or.inr ⟨rfl, _, h.a_adv⟩⟩
    · by_cases h3 : kind = tTERM ∧ st.needsemi = false ∧
          (st.rest.isEmpty = true ∨ st.peek.start.line ≠ st.current.start.line)
      · have hres : st.matchtoken kind = (true, st) := by
          unfold Stream.matchtoken
          rw [if_neg h1, if_neg h2, if_pos h3]
        rw [hres]
        exact ⟨fun hk => absurd h3.1 hk.2.1, fun hc => Bool.noConfusion hc, Or.inl h⟩
      · have hres : st.matchtoken kind = (false, st) := by
          unfold Stream.matchtoken
          rw [if_neg h1, if_neg h2, if_neg h3]
        rw [hres]
        exact ⟨fun hk => Bool.noConfusion hk.1, fun _ => h, Or.inl h⟩

/-- `matchtoken` for a kind other than the terminator and the end of input. -/
theorem Tot.t_matchtoken (k : Nat) (kind : TokenKind) (h1 : kind ≠ tTERM) (h2 : kind ≠ tEOF)
    (ms : List (Option token_t)) :
    Tot k (SourcePawn.matchtoken kind) ms (fun b ms' =>
      (b = true → ∃ t, ms' = some t :: ms) ∧ (b = false → ms' = ms)) := by
  intro st0 st _ ha
  refine Go.g_mono (Go.g_matchtoken kind st) ?_
  rintro b st' hb
  have hb1 : b = (st.matchtoken kind).1 := congrArg Prod.fst hb
  have hb2 : st' = (st.matchtoken kind).2 := congrArg Prod.snd hb
  obtain ⟨m1, m2, _⟩ := ha.a_matchtoken kind
  cases hbb : b with
  | true =>
    obtain ⟨t, ht⟩ := m1 ⟨by rw [← hb1, hbb], h1, h2⟩
    exact ⟨_, hb2 ▸ ht, fun _ => ⟨t, rfl⟩, fun hc => by simp at hc⟩
  | false =>
    exact ⟨ms, hb2 ▸ m2 (by rw [← hb1, hbb]), fun hc => by simp at hc, fun _ => rfl⟩

/-- `matchtoken` for any kind: a miss reads nothing. -/
theorem Tot.t_matchtoken_any (k : Nat) (kind : TokenKind) (ms : List (Option token_t)) :
    Tot k (SourcePawn.matchtoken kind) ms (fun b ms' =>
      ms' = ms ∨ (b = true ∧ ∃ x, ms' = x :: ms)) := by
  intro st0 st _ ha
  refine Go.g_mono (Go.g_matchtoken kind st) ?_
  rintro b st' hb
  have hb1 : b = (st.matchtoken kind).1 := congrArg Prod.fst hb
  have hb2 : st' = (st.matchtoken kind).2 := congrArg Prod.snd hb
  obtain ⟨_, _, m3⟩ := ha.a_matchtoken kind
  rcases m3 with m3 | ⟨m3, x, m4⟩
  · exact ⟨ms, hb2 ▸ m3, Or.inl rfl⟩
  · exact ⟨_, hb2 ▸ m4, Or.inr ⟨hb1 ▸ m3, x, rfl⟩⟩

theorem Tot.t_needtoken (k : Nat) (kind : TokenKind) (h1 : kind ≠ tTERM) (h2 : kind ≠ tEOF)
    (ms : List (Option token_t)) :
    Tot k (SourcePawn.needtoken kind) ms (fun b ms' =>
      (b = true → ∃ t, ms' = some t :: ms) ∧ (b = false → ms' = ms)) := by
  intro st0 st _ ha
  refine Go.g_mono (Go.g_needtoken kind st) ?_
  rintro b st' hb
  have hb1 : b = (st.matchtoken kind).1 := congrArg Prod.fst hb
  have hb2 : st' = (st.matchtoken kind).2 := congrArg Prod.snd hb
  obtain ⟨m1, m2, _⟩ := ha.a_matchtoken kind
  cases hbb : b with
  | true =>
    obtain ⟨t, ht⟩ := m1 ⟨by rw [← hb1, hbb], h1, h2⟩
    exact ⟨_, hb2 ▸ ht, fun _ => ⟨t, rfl⟩, fun hc => by simp at hc⟩
  | false =>
    exact ⟨ms, hb2 ▸ m2 (by rw [← hb1, hbb]), fun hc => by simp at hc, fun _ => rfl⟩

theorem Tot.t_matchsymbol (k : Nat) (ms : List (Option token_t)) :
    Tot k matchsymbol ms (fun r ms' =>
      (r.isSome = true → ∃ t, ms' = some t :: ms) ∧ (r = none → ms' = ms)) := by
  intro st0 st _ ha
  refine Go.g_mono (Go.g_matchsymbol st) ?_
  rintro r st' hb
  have hb1 : r.isSome = (st.matchtoken tSYMBOL).1 := congrArg Prod.fst hb
  have hb2 : st' = (st.matchtoken tSYMBOL).2 := congrArg Prod.snd hb
  obtain ⟨m1, m2, _⟩ := ha.a_matchtoken tSYMBOL
  cases r with
  | some v =>
    obtain ⟨t, ht⟩ := m1 ⟨by rw [← hb1]; rfl, by decide, by decide⟩
    exact ⟨_, hb2 ▸ ht, fun _ => ⟨t, rfl⟩, fun hc => by simp at hc⟩
  | none =>
    exact ⟨ms, hb2 ▸ m2 (by rw [← hb1]; rfl), fun hc => by simp at hc, fun _ => rfl⟩

theorem Tot.t_needsymbol (k : Nat) (ms : List (Option token_t)) :
    Tot k needsymbol ms (fun r ms' =>
      (r.isSome = true → ∃ t, ms' = some t :: ms) ∧ (r = none → ms' = ms)) := by
  intro st0 st _ ha
  refine Go.g_mono (Go.g_needsymbol st) ?_
  rintro r st' hb
  have hb1 : r.isSome = (st.matchtoken tSYMBOL).1 := congrArg Prod.fst hb
  have hb2 : st' = (st.matchtoken tSYMBOL).2 := congrArg Prod.snd hb
  obtain ⟨m1, m2, _⟩ := ha.a_matchtoken tSYMBOL
  cases r with
  | some v =>
    obtain ⟨t, ht⟩ := m1 ⟨by rw [← hb1]; rfl, by decide, by decide⟩
    exact ⟨_, hb2 ▸ ht, fun _ => ⟨t, rfl⟩, fun hc => by simp at hc⟩
  | none =>
    exact ⟨ms, hb2 ▸ m2 (by rw [← hb1]; rfl), fun hc => by simp at hc, fun _ => rfl⟩

theorem Tot.t_lexpeek (k : Nat) (kind : TokenKind) (ms : List (Option token_t)) :
    Tot k (lexpeek kind) ms (fun _ ms' => True ∧ ms' = ms) :=
  Tot.t_keep fun st => Go.g_mono (Go.g_lexpeek kind st) fun _ _ h => ⟨trivial, h.2⟩

theorem Tot.t_error (k : Nat) (c : Nat) (ms : List (Option token_t)) :
    Tot k (error c) ms (fun _ ms' => True ∧ ms' = ms) :=
  Tot.t_keep fun st => Go.g_mono (Go.g_error c st) fun _ _ h => ⟨trivial, h⟩

theorem Tot.t_current_pos (k : Nat) (ms : List (Option token_t)) :
    Tot k current_pos ms (fun _ ms' => True ∧ ms' = ms) :=
  Tot.t_keep fun st => Go.g_mono (Go.g_current_pos st) fun _ _ h => ⟨trivial, h.2⟩

theorem Tot.t_freading (k : Nat) (ms : List (Option token_t)) :
    Tot k freading ms (fun _ ms' => True ∧ ms' = ms) :=
  Tot.t_keep fun st => Go.g_mono (Go.g_freading st) fun _ _ h => ⟨trivial, h.2⟩

theorem Tot.t_get (k : Nat) (ms : List (Option token_t)) :
    Tot k get ms (fun _ ms' => True ∧ ms' = ms) :=
  Tot.t_keep fun st => Go.g_mono (Go.g_get st) fun _ _ h => ⟨trivial, h.2⟩

theorem Tot.t_lexclr_false (k : Nat) (ms : List (Option token_t)) :
    Tot k (lexclr false) ms (fun _ ms' => True ∧ ms' = ms) :=
  Tot.t_keep fun st => Go.g_mono (Go.g_lexclr_false st) fun _ _ h => ⟨trivial, h⟩

theorem Tot.t_typename (k : Nat) (E : Externals) (hE : E.forward) (o : Option token_t)
    (ms : List (Option token_t)) :
    Tot k (liftE (E.parse_new_typename o)) ms (fun _ ms' => Ext ms ms') := by
  intro st0 st _ ha
  refine Go.g_liftE ?_
  intro s hs
  obtain ⟨extra, he⟩ := hE o s
  rw [hs] at he
  exact ⟨extra ++ ms, ha.a_trans he, extra, rfl⟩

theorem Ext.e_refl (ms : List (Option token_t)) : Ext ms ms := ⟨[], rfl⟩
theorem Ext.e_cons {ms ms' : List (Option token_t)} (x : Option token_t) (h : Ext ms ms') :
    Ext ms (x :: ms') := by
  obtain ⟨e, rfl⟩ := h
  exact ⟨x :: e, rfl⟩
theorem Ext.e_of_ext1 {ms ms' : List (Option token_t)} (h : Ext1 ms ms') : Ext ms ms' := by
  obtain ⟨e, _, rfl⟩ := h
  exact ⟨e, rfl⟩
theorem Ext.e_trans {a b c : List (Option token_t)} (h1 : Ext a b) (h2 : Ext b c) : Ext a c := by
  obtain ⟨e1, rfl⟩ := h1
  obtain ⟨e2, rfl⟩ := h2
  exact ⟨e2 ++ e1, by simp⟩
theorem Ext1.x_cons {ms ms' : List (Option token_t)} (x : Option token_t) (h : Ext ms ms') :
    Ext1 ms (x :: ms') := by
  obtain ⟨e, rfl⟩ := h
  exact ⟨x :: e, by simp, rfl⟩
theorem Ext1.x_trans_left {a b c : List (Option token_t)} (h1 : Ext1 a b) (h2 : Ext b c) :
    Ext1 a c := by
  obtain ⟨e1, hne, rfl⟩ := h1
  obtain ⟨e2, rfl⟩ := h2
  exact ⟨e2 ++ e1, by simp [hne], by simp⟩
theorem Ext1.x_ne_nil {ms' : List (Option token_t)} (h : Ext1 [] ms') : ms' ≠ [] := by
  obtain ⟨e, hne, rfl⟩ := h
  simpa using hne
theorem Ext.e_reals_le {ms ms' : List (Option token_t)} (h : Ext ms ms') : reals ms ≤ reals ms' := by
  obtain ⟨e, rfl⟩ := h
  simp

theorem Ext.e_app {ms ms' : List (Option token_t)} (e : List (Option token_t)) (h : Ext ms ms') :
    Ext ms (e ++ ms') := by
  obtain ⟨e', rfl⟩ := h
  exact ⟨e ++ e', by simp⟩

theorem Still_error (c : Nat) : Still (error c) := fun st => Go.g_error c st
theorem Still_current_pos : Still current_pos :=
  fun st => Go.g_mono (Go.g_current_pos st) fun _ _ h => h.2
theorem Still_freading : Still freading :=
  fun st => Go.g_mono (Go.g_freading st) fun _ _ h => h.2
theorem Still_get : Still (get : P ParserState) :=
  fun st => Go.g_mono (Go.g_get st) fun _ _ h => h.2
theorem Still_lexpeek (k : TokenKind) : Still (lexpeek k) :=
  fun st => Go.g_mono (Go.g_lexpeek k st) fun _ _ h => h.2
theorem Still_lexclr_false : Still (lexclr false) := fun st => Go.g_lexclr_false st

section totbind
variable {α β : Type} {k : Nat} {ms : List (Option token_t)}
  {Q : β → List (Option token_t) → Prop}

theorem Tot.t_lex_bind {f : token_t → P β}
    (h : ∀ tok x, (tok.id ≠ tEOF → ∃ t, x = some t) → Tot k (f tok) (x :: ms) Q) :
    Tot k (lex >>= f) ms Q :=
  Tot.t_bind (Tot.t_lex k ms) fun tok _ ⟨x, hx, ht⟩ => hx ▸ h tok x ht

theorem Tot.t_lextok_bind {f : token_t → P β}
    (h : ∀ tok x, (tok.id ≠ tEOF → ∃ t, x = some t) → Tot k (f tok) (x :: ms) Q) :
    Tot k (lextok >>= f) ms Q :=
  Tot.t_bind (Tot.t_lextok k ms) fun tok _ ⟨x, hx, ht⟩ => hx ▸ h tok x ht

theorem Tot.t_lexpush_bind {x : Option token_t} {f : Unit → P β} (h : Tot k (f ()) ms Q) :
    Tot k (lexpush >>= f) (x :: ms) Q :=
  Tot.t_bind (Tot.t_lexpush k x ms) fun _ _ hx => hx ▸ h

theorem Tot.t_match_bind {kind : TokenKind} {f : Bool → P β} (h1 : kind ≠ tTERM)
    (h2 : kind ≠ tEOF) (ht : ∀ t, Tot k (f true) (some t :: ms) Q) (hf : Tot k (f false) ms Q) :
    Tot k (matchtoken kind >>= f) ms Q :=
  Tot.t_bind (Tot.t_matchtoken k kind h1 h2 ms) fun b ms' hb => by
    cases b with
    | true => obtain ⟨t, rfl⟩ := hb.1 rfl; exact ht t
    | false => rw [hb.2 rfl]; exact hf

theorem Tot.t_need_bind {kind : TokenKind} {f : Bool → P β} (h1 : kind ≠ tTERM)
    (h2 : kind ≠ tEOF) (ht : ∀ t, Tot k (f true) (some t :: ms) Q) (hf : Tot k (f false) ms Q) :
    Tot k (needtoken kind >>= f) ms Q :=
  Tot.t_bind (Tot.t_needtoken k kind h1 h2 ms) fun b ms' hb => by
    cases b with
    | true => obtain ⟨t, rfl⟩ := hb.1 rfl; exact ht t
    | false => rw [hb.2 rfl]; exact hf

theorem Tot.t_any_bind {kind : TokenKind} {f : Bool → P β} (h0 : ∀ b, Tot k (f b) ms Q)
    (h1 : ∀ x, Tot k (f true) (x :: ms) Q) : Tot k (matchtoken kind >>= f) ms Q :=
  Tot.t_bind (Tot.t_matchtoken_any k kind ms) fun b ms' hb => by
    rcases hb with rfl | ⟨rfl, x, rfl⟩
    · exact h0 b
    · exact h1 x

theorem Tot.t_matchsym_bind {f : Option String → P β}
    (ht : ∀ t v, Tot k (f (some v)) (some t :: ms) Q) (hf : Tot k (f none) ms Q) :
    Tot k (matchsymbol >>= f) ms Q :=
  Tot.t_bind (Tot.t_matchsymbol k ms) fun r ms' hb => by
    cases r with
    | some v => obtain ⟨t, rfl⟩ := hb.1 rfl; exact ht t v
    | none => rw [hb.2 rfl]; exact hf

theorem Tot.t_needsym_bind {f : Option String → P β}
    (ht : ∀ t v, Tot k (f (some v)) (some t :: ms) Q) (hf : Tot k (f none) ms Q) :
    Tot k (needsymbol >>= f) ms Q :=
  Tot.t_bind (Tot.t_needsymbol k ms) fun r ms' hb => by
    cases r with
    | some v => obtain ⟨t, rfl⟩ := hb.1 rfl; exact ht t v
    | none => rw [hb.2 rfl]; exact hf

theorem Tot.t_still_bind {m : P α} {f : α → P β} (hm : Still m) (h : ∀ a, Tot k (f a) ms Q) :
    Tot k (m >>= f) ms Q :=
  Tot.t_bind (Tot.t_keep (R := fun _ => True) fun st => Go.g_mono (hm st) fun _ _ h => ⟨trivial, h⟩)
    fun a _ hb => hb.2 ▸ h a

theorem Tot.t_still {m : P α} {Q : α → List (Option token_t) → Prop} (hm : Still m)
    (h : ∀ a, Q a ms) : Tot k m ms Q :=
  Tot.t_mono (Tot.t_keep (R := fun _ => True) fun st => Go.g_mono (hm st) fun _ _ h => ⟨trivial, h⟩)
    fun a _ hb => hb.2 ▸ h a

theorem Tot.t_call_bind {k' : Nat} {m : P α} {f : α → P β} (hp : Prog k' m)
    (hk : k ≤ k' + reals ms)
    (h : ∀ a extra, extra ≠ [] → Tot k (f a) (extra ++ ms) Q) : Tot k (m >>= f) ms Q :=
  Tot.t_bind (Tot.t_call hp hk) fun a _ ⟨extra, hne, he⟩ => he ▸ h a extra hne

theorem Tot.t_nested_bind {m : P α} {f : α → P β} (hp : ∀ k', k = k' + 1 → Prog k' m)
    (hr : 1 ≤ reals ms)
    (h : ∀ a extra, extra ≠ [] → Tot k (f a) (extra ++ ms) Q) : Tot k (m >>= f) ms Q :=
  Tot.t_bind (Tot.t_call_real hp hr) fun a _ ⟨extra, hne, he⟩ => he ▸ h a extra hne

theorem Tot.t_sub_bind {m : P α} {f : α → P β} (hm : Tot k m ms (fun _ ms' => Ext ms ms'))
    (h : ∀ a extra, Tot k (f a) (extra ++ ms) Q) : Tot k (m >>= f) ms Q :=
  Tot.t_bind hm fun a _ ⟨extra, he⟩ => he ▸ h a extra

theorem Tot.t_sub1_bind {m : P α} {f : α → P β} (hm : Tot k m ms (fun _ ms' => Ext1 ms ms'))
    (h : ∀ a extra, extra ≠ [] → Tot k (f a) (extra ++ ms) Q) : Tot k (m >>= f) ms Q :=
  Tot.t_bind hm fun a _ ⟨extra, hne, he⟩ => he ▸ h a extra hne

end totbind

/-- `nextop` over a table without the end-of-input and terminator kinds reads a
token exactly when it finds an operator. -/
theorem Tot_nextop_from (k : Nat) (opstr : List TokenKind) (h1 : tTERM ∉ opstr)
    (h2 : tEOF ∉ opstr) (ms : List (Option token_t)) :
    ∀ idx, Tot k (nextop_from idx opstr) ms (fun r ms' =>
      (r.isSome = true → ∃ t, ms' = some t :: ms) ∧ (r = none → ms' = ms)) := by
  induction opstr with
  | nil =>
    intro idx
    exact Tot.t_pure ⟨fun h => Bool.noConfusion h, fun _ => rfl⟩
  | cons op ops ih =>
    intro idx
    unfold nextop_from
    refine Tot.t_match_bind (fun hc => h1 (hc ▸ List.mem_cons_self _ _))
      (fun hc => h2 (hc ▸ List.mem_cons_self _ _)) (fun t => ?_) ?_
    · exact Tot.t_pure ⟨fun _ => ⟨t, rfl⟩, fun h => Option.noConfusion h⟩
    · exact ih (fun hc => h1 (List.mem_cons_of_mem _ hc))
        (fun hc => h2 (List.mem_cons_of_mem _ hc)) _

section nextopbind
variable {β : Type} {k : Nat} {ms : List (Option token_t)}
  {Q : β → List (Option token_t) → Prop}
theorem Tot.t_nextop_bind {opstr : List TokenKind} {f : Option Nat → P β} (h1 : tTERM ∉ opstr)
    (h2 : tEOF ∉ opstr) (ht : ∀ t i, Tot k (f (some i)) (some t :: ms) Q)
    (hf : Tot k (f none) ms Q) : Tot k (nextop opstr >>= f) ms Q :=
  Tot.t_bind (Tot_nextop_from k opstr h1 h2 ms 0) fun r ms' hb => by
    cases r with
    | some i => obtain ⟨t, rfl⟩ := hb.1 rfl; exact ht t i
    | none => rw [hb.2 rfl]; exact hf
end nextopbind

section calls
variable {α : Type} {k : Nat} {m : P α}

theorem Prog.p_mono (h : Prog k m) {k' : Nat} (hk : k' ≤ k) : Prog k' m :=
  fun st0 st h0 ha => h st0 st (le_trans h0 hk) ha

/-- A production that makes progress with one token less left can be called
wherever a token has been read. -/
theorem nested_call (hh : ∀ k', k = k' + 1 → Prog k' m) {ms : List (Option token_t)}
    (hr : 1 ≤ reals ms) :
    ∀ ms1, Ext ms ms1 → Tot k m ms1 (fun _ ms' => Ext1 ms1 ms') :=
  fun _ he => Tot.t_call_real hh (le_trans hr he.e_reals_le)

/-- A production that makes progress can be called anywhere. -/
theorem direct_call (hp : Prog k m) (ms : List (Option token_t)) :
    ∀ ms1, Ext ms ms1 → Tot k m ms1 (fun _ ms' => Ext1 ms1 ms') :=
  fun _ _ => Tot.t_call hp (by omega)

theorem nested_below (hh : ∀ k', k = k' + 1 → Prog k' m) :
    ∀ j, k = j + 1 → ∀ k', j = k' + 1 → Prog k' m :=
  fun j hj k' hk' => (hh j hj).p_mono (by omega)

end calls

theorem Tot_constant_loop (k : Nat) (h14 : P Expr) :
    ∀ (fuel : Nat) (ms : List (Option token_t)) (exprs : List Expr),
      (∀ ms1, Ext ms ms1 → Tot k h14 ms1 (fun _ ms' => Ext1 ms1 ms')) → k < fuel + reals ms →
      Tot k (constant_loop h14 fuel exprs) ms (fun _ ms' => Ext ms ms') := by
  intro fuel
  induction fuel with
  | zero =>
    intro ms exprs _ hf
    exact Tot.t_absurd (by omega)
  | succ n ih =>
    intro ms exprs hc hf
    unfold constant_loop
    refine Tot.t_match_bind (by decide) (by decide) (fun t => ?_) ?_
    · exact Tot.t_pure (Ext.e_cons _ (Ext.e_refl _))
    · refine Tot.t_sub1_bind (hc _ (Ext.e_refl _)) fun child extra _ => ?_
      have he : Ext ms (extra ++ ms) := Ext.e_app _ (Ext.e_refl _)
      refine Tot.t_match_bind (by decide) (by decide) (fun t => ?_) ?_
      · refine Tot.t_mono (ih _ _ (fun ms1 h1 => hc ms1 (Ext.e_trans (Ext.e_cons _ he) h1))
          (by simp; omega)) fun _ ms' h => ?_
        exact Ext.e_trans (Ext.e_cons _ he) h
      · exact Tot.t_pure he

theorem Prog_constant (k : Nat) (h14 : P Expr) (hh : ∀ k', k = k' + 1 → Prog k' h14)
    (fuel : Nat) (hf : k ≤ fuel) : Prog k (constant h14 fuel) := by
  unfold constant
  refine Tot.t_lex_bind fun tok x hx => ?_
  refine Tot.t_still_bind Still_current_pos fun pos => ?_
  refine Tot.t_ite (fun _ => Tot.t_pure (by simp)) fun _ => ?_
  refine Tot.t_ite (fun _ => Tot.t_pure (by simp)) fun _ => ?_
  refine Tot.t_ite (fun _ => Tot.t_pure (by simp)) fun _ => ?_
  refine Tot.t_ite (fun _ => ?_) fun _ => ?_
  · refine Tot.t_still_bind Still_get fun s => ?_
    exact Tot.t_pure (by simp)
  refine Tot.t_ite (fun hb => ?_) fun _ => ?_
  · obtain ⟨t, rfl⟩ := hx (by rw [hb]; decide)
    refine Tot.t_sub_bind (Tot_constant_loop k h14 fuel _ [] (nested_call hh (by simp))
        (by simp; omega))
      fun r extra => ?_
    refine Tot.t_need_bind (by decide) (by decide) (fun t => ?_) ?_
    · exact Tot.t_pure (by simp)
    · refine Tot.t_still_bind Still_lexclr_false fun _ => ?_
      exact Tot.t_pure (by simp)
  · refine Tot.t_still_bind (Still_error _) fun _ => ?_
    exact Tot.t_pure (by simp)

theorem Tot_parse_call_loop (k : Nat) (h14 : P Expr) :
    ∀ (fuel : Nat) (ms : List (Option token_t)) (named : Bool)
      (args : List (Option String × Option Expr)),
      (∀ ms1, Ext ms ms1 → Tot k h14 ms1 (fun _ ms' => Ext1 ms1 ms')) → k < fuel + reals ms →
      Tot k (parse_call_loop h14 fuel named args) ms (fun _ ms' => Ext ms ms') := by
  intro fuel
  induction fuel with
  | zero =>
    intro ms named args _ hf
    exact Tot.t_absurd (by omega)
  | succ n ih =>
    intro ms named args hc hf
    have hbody : ∀ (named_params : Bool) (name : Option String) (ms1 : List (Option token_t)),
        Ext ms ms1 →
        Tot k (do
          let expr ← (do
            if (← matchtoken TokenKind.ch_underscore) then return none
            else return some (← h14))
          let args := args ++ [(name, expr)]
          if (← matchtoken TokenKind.ch_rparen) then
            return args
          else if !(← needtoken TokenKind.ch_comma) then
            return args
          else if (← freading) then
            if (← matchtoken TokenKind.tENDEXPR) then return args
            else parse_call_loop h14 n named_params args
          else
            return args) ms1 (fun _ ms' => Ext ms ms') := by
      intro named_params name ms1 he
      have hexpr : Tot k (do
            if (← matchtoken TokenKind.ch_underscore) then return none
            else return some (← h14) : P (Option Expr)) ms1 (fun _ ms' => Ext ms1 ms') := by
        refine Tot.t_match_bind (by decide) (by decide) (fun t => ?_) ?_
        · exact Tot.t_pure (Ext.e_cons _ (Ext.e_refl _))
        · refine Tot.t_sub1_bind (hc _ he) fun e extra _ => ?_
          exact Tot.t_pure (Ext.e_app _ (Ext.e_refl _))
      refine Tot.t_sub_bind hexpr fun expr extra => ?_
      have he2 : Ext ms (extra ++ ms1) := Ext.e_app _ he
      refine Tot.t_match_bind (by decide) (by decide) (fun t => ?_) ?_
      · exact Tot.t_pure (Ext.e_cons _ he2)
      · refine Tot.t_need_bind (by decide) (by decide) (fun t => ?_) ?_
        · refine Tot.t_still_bind Still_freading fun b => ?_
          cases b with
          | true =>
            refine Tot.t_match_bind (by decide) (by decide) (fun t2 => ?_) ?_
            · exact Tot.t_pure (Ext.e_cons _ (Ext.e_cons _ he2))
            · have he3 : Ext ms (some t :: (extra ++ ms1)) := Ext.e_cons _ he2
              refine Tot.t_mono (ih _ _ _ (fun ms2 h2 => hc ms2 (Ext.e_trans he3 h2)) ?_)
                fun _ ms' h => Ext.e_trans he3 h
              have := he.e_reals_le
              simp
              omega
          | false => exact Tot.t_pure (Ext.e_cons _ he2)
        · exact Tot.t_pure he2
    unfold parse_call_loop
    refine Tot.t_match_bind (by decide) (by decide) (fun t => ?_) ?_
    · refine Tot.t_needsym_bind (fun t2 v => ?_) ?_
      · refine Tot.t_need_bind (by decide) (by decide) (fun t3 => ?_) ?_
        · exact hbody _ _ _ (Ext.e_cons _ (Ext.e_cons _ (Ext.e_cons _ (Ext.e_refl _))))
        · exact hbody _ _ _ (Ext.e_cons _ (Ext.e_cons _ (Ext.e_refl _)))
      · exact Tot.t_pure (Ext.e_cons _ (Ext.e_refl _))
    · cases named with
      | true =>
        refine Tot.t_still_bind (Still_error _) fun _ => ?_
        exact hbody _ _ _ (Ext.e_refl _)
      | false => exact hbody _ _ _ (Ext.e_refl _)

theorem Tot_parse_call (k : Nat) (h14 : P Expr) (hh : ∀ k', k = k' + 1 → Prog k' h14)
    (fuel : Nat) (pos : token_pos_t) (tok : TokenKind) (target : Expr)
    (ms : List (Option token_t)) (hr : 1 ≤ reals ms) (hf : k < fuel + reals ms) :
    Tot k (parse_call h14 fuel pos tok target) ms (fun _ ms' => Ext ms ms') := by
  unfold parse_call
  refine Tot.t_match_bind (by decide) (by decide) (fun t => ?_) ?_
  · exact Tot.t_pure (Ext.e_cons _ (Ext.e_refl _))
  · refine Tot.t_sub_bind (Tot_parse_call_loop k h14 fuel ms false [] (nested_call hh hr) hf)
      fun r extra => ?_
    exact Tot.t_pure (Ext.e_app _ (Ext.e_refl _))

theorem Tot_parse_view_as (k : Nat) (E : Externals) (hE : E.forward) (h14 : P Expr)
    (hh : ∀ k', k = k' + 1 → Prog k' h14) (ms : List (Option token_t)) (hr : 1 ≤ reals ms) :
    Tot k (parse_view_as E h14) ms (fun _ ms' => Ext ms ms') := by
  unfold parse_view_as
  refine Tot.t_still_bind Still_current_pos fun pos => ?_
  have key : ∀ ms1, Ext ms ms1 → Tot k (do
      let tok ← lextok
      let (ok, tag) ← liftE (E.parse_new_typename (some tok))
      let tag := if ok then tag else 0
      let _ ← needtoken TokenKind.ch_gt
      let paren ← needtoken TokenKind.ch_lparen
      let expr ← h14
      if paren then
        let _ ← needtoken TokenKind.ch_rparen
      else
        let _ ← matchtoken TokenKind.ch_rparen
      return Expr.CastExpr pos TokenKind.tVIEW_AS tag expr) ms1 (fun _ ms' => Ext ms ms') := by
    intro ms1 he
    refine Tot.t_lextok_bind fun tok x _ => ?_
    refine Tot.t_sub_bind (Tot.t_typename k E hE _ _) fun r e1 => ?_
    have he1 : Ext ms (e1 ++ x :: ms1) := Ext.e_app _ (Ext.e_cons _ he)
    have hr1 : 1 ≤ reals (e1 ++ x :: ms1) := le_trans hr he1.e_reals_le
    have tail : ∀ (paren : Bool) (ms2 : List (Option token_t)), Ext ms ms2 → Tot k (do
        let expr ← h14
        if paren then
          let _ ← needtoken TokenKind.ch_rparen
        else
          let _ ← matchtoken TokenKind.ch_rparen
        return Expr.CastExpr pos TokenKind.tVIEW_AS (if r.1 then r.2 else 0) expr) ms2
          (fun _ ms' => Ext ms ms') := by
      intro paren ms2 he2
      refine Tot.t_nested_bind hh (le_trans hr he2.e_reals_le) fun expr e3 _ => ?_
      cases paren with
      | true =>
        refine Tot.t_need_bind (by decide) (by decide) (fun t => ?_) ?_
        · exact Tot.t_pure (Ext.e_cons _ (Ext.e_app _ he2))
        · exact Tot.t_pure (Ext.e_app _ he2)
      | false =>
        refine Tot.t_match_bind (by decide) (by decide) (fun t => ?_) ?_
        · exact Tot.t_pure (Ext.e_cons _ (Ext.e_app _ he2))
        · exact Tot.t_pure (Ext.e_app _ he2)
    refine Tot.t_need_bind (by decide) (by decide) (fun t => ?_) ?_
    · refine Tot.t_need_bind (by decide) (by decide) (fun t2 => ?_) ?_
      · exact tail _ _ (Ext.e_cons _ (Ext.e_cons _ he1))
      · exact tail _ _ (Ext.e_cons _ he1)
    · refine Tot.t_need_bind (by decide) (by decide) (fun t2 => ?_) ?_
      · exact tail _ _ (Ext.e_cons _ he1)
      · exact tail _ _ he1
  refine Tot.t_need_bind (by decide) (by decide) (fun t => ?_) ?_
  · exact key _ (Ext.e_cons _ (Ext.e_refl _))
  · exact key _ (Ext.e_refl _)

theorem Tot_parse_new_array_loop (k : Nat) (h14 : P Expr) :
    ∀ (fuel : Nat) (ms : List (Option token_t)) (exprs : List Expr),
      (∀ ms1, Ext ms ms1 → Tot k h14 ms1 (fun _ ms' => Ext1 ms1 ms')) → k < fuel + reals ms →
      Tot k (parse_new_array_loop h14 fuel exprs) ms (fun _ ms' => Ext ms ms') := by
  intro fuel
  induction fuel with
  | zero =>
    intro ms exprs _ hf
    exact Tot.t_absurd (by omega)
  | succ n ih =>
    intro ms exprs hc hf
    unfold parse_new_array_loop
    refine Tot.t_sub1_bind (hc _ (Ext.e_refl _)) fun child extra _ => ?_
    have key : ∀ ms1, Ext ms ms1 → reals ms ≤ reals ms1 → Tot k (do
        if (← matchtoken TokenKind.ch_lbracket) then
          parse_new_array_loop h14 n (exprs ++ [child])
        else return (exprs ++ [child])) ms1 (fun _ ms' => Ext ms ms') := by
      intro ms1 he hle
      refine Tot.t_match_bind (by decide) (by decide) (fun t => ?_) ?_
      · refine Tot.t_mono (ih _ _ (fun ms2 h2 => hc ms2 (Ext.e_trans (Ext.e_cons _ he) h2))
          (by simp; omega)) fun _ ms' h => ?_
        exact Ext.e_trans (Ext.e_cons _ he) h
      · exact Tot.t_pure he
    refine Tot.t_need_bind (by decide) (by decide) (fun t => ?_) ?_
    · exact key _ (Ext.e_cons _ (Ext.e_app _ (Ext.e_refl _))) (by simp; omega)
    · exact key _ (Ext.e_app _ (Ext.e_refl _)) (by simp)

theorem Tot_parse_new_array (k : Nat) (h14 : P Expr) (hh : ∀ k', k = k' + 1 → Prog k' h14)
    (fuel : Nat) (pos : token_pos_t) (tag : Int) (ms : List (Option token_t))
    (hr : 1 ≤ reals ms) (hf : k < fuel + reals ms) :
    Tot k (parse_new_array h14 fuel pos tag) ms (fun _ ms' => Ext ms ms') := by
  unfold parse_new_array
  refine Tot.t_sub_bind (Tot_parse_new_array_loop k h14 fuel ms [] (nested_call hh hr) hf)
    fun r extra => ?_
  exact Tot.t_pure (Ext.e_app _ (Ext.e_refl _))

theorem Tot_primary_loop (k : Nat) (h14 : P Expr) :
    ∀ (fuel : Nat) (ms : List (Option token_t)) (exprs : List Expr),
      (∀ ms1, Ext ms ms1 → Tot k h14 ms1 (fun _ ms' => Ext1 ms1 ms')) → k < fuel + reals ms →
      Tot k (primary_loop h14 fuel exprs) ms (fun _ ms' => Ext ms ms') := by
  intro fuel
  induction fuel with
  | zero =>
    intro ms exprs _ hf
    exact Tot.t_absurd (by omega)
  | succ n ih =>
    intro ms exprs hc hf
    unfold primary_loop
    refine Tot.t_sub1_bind (hc _ (Ext.e_refl _)) fun child extra _ => ?_
    have he : Ext ms (extra ++ ms) := Ext.e_app _ (Ext.e_refl _)
    refine Tot.t_match_bind (by decide) (by decide) (fun t => ?_) ?_
    · refine Tot.t_mono (ih _ _ (fun ms2 h2 => hc ms2 (Ext.e_trans (Ext.e_cons _ he) h2))
        (by simp; omega)) fun _ ms' h => ?_
      exact Ext.e_trans (Ext.e_cons _ he) h
    · exact Tot.t_pure he

theorem Prog_primary (k : Nat) (h14 : P Expr) (hh : ∀ k', k = k' + 1 → Prog k' h14)
    (fuel : Nat) (hf : k ≤ fuel) : Prog k (primary h14 fuel) := by
  unfold primary
  refine Tot.t_match_bind (by decide) (by decide) (fun t => ?_) ?_
  · refine Tot.t_SaveAndSet stream_set_sc_intest _ ?_
    refine Tot.t_SaveAndSet stream_set_sc_allowtags _ ?_
    refine Tot.t_still_bind Still_current_pos fun pos => ?_
    refine Tot.t_sub_bind (Tot_primary_loop k h14 fuel _ [] (nested_call hh (by simp))
      (by simp; omega))
      fun r extra => ?_
    refine Tot.t_need_bind (by decide) (by decide) (fun t => ?_) ?_
    · refine Tot.t_still_bind Still_lexclr_false fun _ => ?_
      exact Tot.t_pure (by simp)
    · refine Tot.t_still_bind Still_lexclr_false fun _ => ?_
      exact Tot.t_pure (by simp)
  · refine Tot.t_lex_bind fun tok x hx => ?_
    refine Tot.t_ite (fun _ => ?_) fun _ => ?_
    · refine Tot.t_still_bind Still_current_pos fun pos => ?_
      exact Tot.t_pure (by simp)
    refine Tot.t_ite (fun _ => ?_) fun _ => ?_
    · refine Tot.t_still_bind Still_current_pos fun pos => ?_
      exact Tot.t_pure (by simp)
    refine Tot.t_lexpush_bind ?_
    exact Prog_constant k h14 hh fuel hf

theorem Ext.e_ne_nil {ms ms' : List (Option token_t)} (h : Ext ms ms') (hne : ms ≠ []) :
    ms' ≠ [] := by
  obtain ⟨e, rfl⟩ := h
  simp [hne]

theorem Tot_hier1_loop (k : Nat) (h14 : P Expr) (hh : ∀ k', k = k' + 1 → Prog k' h14) :
    ∀ (fuel : Nat) (ms : List (Option token_t)) (base : Expr), k < fuel + reals ms →
      Tot k (hier1_loop h14 fuel base) ms (fun _ ms' => Ext ms ms') := by
  intro fuel
  induction fuel with
  | zero =>
    intro ms base hf
    exact Tot.t_absurd (by omega)
  | succ n ih =>
    intro ms base hf
    unfold hier1_loop
    refine Tot.t_lex_bind fun tok x hx => ?_
    refine Tot.t_ite (fun hb => ?_) fun _ => ?_
    · obtain ⟨t, rfl⟩ := hx (by rcases hb with hb | hb <;> rw [hb] <;> decide)
      refine Tot.t_still_bind Still_current_pos fun pos => ?_
      refine Tot.t_needsym_bind (fun t2 v => ?_) ?_
      · refine Tot.t_mono (ih _ _ (by simp; omega)) fun _ ms' h => ?_
        exact Ext.e_trans (Ext.e_cons _ (Ext.e_cons _ (Ext.e_refl _))) h
      · exact Tot.t_pure (Ext.e_cons _ (Ext.e_refl _))
    refine Tot.t_ite (fun hb => ?_) fun _ => ?_
    · obtain ⟨t, rfl⟩ := hx (by rw [hb]; decide)
      refine Tot.t_still_bind Still_current_pos fun pos => ?_
      refine Tot.t_nested_bind hh (by simp) fun inner extra _ => ?_
      have he : Ext ms (extra ++ some t :: ms) := Ext.e_app _ (Ext.e_cons _ (Ext.e_refl _))
      refine Tot.t_need_bind (by decide) (by decide) (fun t2 => ?_) ?_
      · refine Tot.t_mono (ih _ _ (by simp; omega)) fun _ ms' h => ?_
        exact Ext.e_trans (Ext.e_cons _ he) h
      · refine Tot.t_mono (ih _ _ (by simp; omega)) fun _ ms' h => ?_
        exact Ext.e_trans he h
    refine Tot.t_ite (fun hb => ?_) fun _ => ?_
    · obtain ⟨t, rfl⟩ := hx (by rw [hb]; decide)
      refine Tot.t_still_bind Still_current_pos fun pos => ?_
      refine Tot.t_sub_bind (Tot_parse_call k h14 hh n pos _ base _ (by simp) (by simp; omega))
        fun r extra => ?_
      refine Tot.t_mono (ih _ _ (by simp; omega)) fun _ ms' h => ?_
      exact Ext.e_trans (Ext.e_app _ (Ext.e_cons _ (Ext.e_refl _))) h
    · refine Tot.t_lexpush_bind ?_
      exact Tot.t_pure (Ext.e_refl _)

theorem Prog_hier1 (k : Nat) (E : Externals) (hE : E.forward) (h14 : P Expr)
    (hh : ∀ k', k = k' + 1 → Prog k' h14) (fuel : Nat) (hf : k < fuel) :
    Prog k (hier1 E h14 fuel) := by
  unfold hier1
  have hbase : Tot k (do
      if (← matchtoken TokenKind.tVIEW_AS) then parse_view_as E h14
      else primary h14 fuel : P Expr) [] (fun _ ms' => ms' ≠ []) := by
    refine Tot.t_match_bind (by decide) (by decide) (fun t => ?_) ?_
    · refine Tot.t_mono (Tot_parse_view_as k E hE h14 hh _ (by simp)) fun _ ms' h => ?_
      exact h.e_ne_nil (by simp)
    · exact Prog_primary k h14 hh fuel (by omega)
  refine Tot.t_bind hbase fun base ms1 hne => ?_
  refine Tot.t_mono (Tot_hier1_loop k h14 hh fuel ms1 base (by omega)) fun _ ms' h => ?_
  exact h.e_ne_nil hne

theorem Tot_count_matches (k : Nat) (kind : TokenKind) (h1 : kind ≠ tTERM) (h2 : kind ≠ tEOF) :
    ∀ (fuel : Nat) (ms : List (Option token_t)) (count : Nat), k < fuel + reals ms →
      Tot k (count_matches kind fuel count) ms (fun _ ms' => Ext ms ms') := by
  intro fuel
  induction fuel with
  | zero =>
    intro ms count hf
    exact Tot.t_absurd (by omega)
  | succ n ih =>
    intro ms count hf
    unfold count_matches
    refine Tot.t_match_bind h1 h2 (fun t => ?_) ?_
    · refine Tot.t_mono (ih _ _ (by simp; omega)) fun _ ms' h => ?_
      exact Ext.e_trans (Ext.e_cons _ (Ext.e_refl _)) h
    · exact Tot.t_pure (Ext.e_refl _)

theorem Tot_close_parens (k : Nat) :
    ∀ (parens : Nat) (ms : List (Option token_t)),
      Tot k (close_parens parens) ms (fun _ ms' => Ext ms ms') := by
  intro parens
  induction parens with
  | zero =>
    intro ms
    exact Tot.t_pure (Ext.e_refl _)
  | succ n ih =>
    intro ms
    unfold close_parens
    refine Tot.t_need_bind (by decide) (by decide) (fun t => ?_) ?_
    · exact Tot.t_mono (ih _) fun _ ms' h => Ext.e_trans (Ext.e_cons _ (Ext.e_refl _)) h
    · exact ih _

theorem Tot_sizeof_levels (k : Nat) :
    ∀ (fuel : Nat) (ms : List (Option token_t)) (levels : Nat), k < fuel + reals ms →
      Tot k (sizeof_levels fuel levels) ms (fun _ ms' => Ext ms ms') := by
  intro fuel
  induction fuel with
  | zero =>
    intro ms levels hf
    exact Tot.t_absurd (by omega)
  | succ n ih =>
    intro ms levels hf
    unfold sizeof_levels
    refine Tot.t_match_bind (by decide) (by decide) (fun t => ?_) ?_
    · refine Tot.t_need_bind (by decide) (by decide) (fun t2 => ?_) ?_
      · refine Tot.t_mono (ih _ _ (by simp; omega)) fun _ ms' h => ?_
        exact Ext.e_trans (Ext.e_cons _ (Ext.e_cons _ (Ext.e_refl _))) h
      · refine Tot.t_mono (ih _ _ (by simp; omega)) fun _ ms' h => ?_
        exact Ext.e_trans (Ext.e_cons _ (Ext.e_refl _)) h
    · exact Tot.t_pure (Ext.e_refl _)

theorem Prog_hier2 (E : Externals) (hE : E.forward) (h14 : P Expr) :
    ∀ (fuel k : Nat), k + 2 ≤ fuel → (∀ k', k = k' + 1 → Prog k' h14) →
      Prog k (hier2 E h14 fuel) := by
  intro fuel
  induction fuel with
  | zero =>
    intro k hf _
    omega
  | succ n ih =>
    intro k hf hh
    have ihn : ∀ k', k = k' + 1 → Prog k' (hier2 E h14 n) :=
      fun k' hk => ih k' (by omega) (nested_below hh k' hk)
    unfold hier2
    refine Tot.t_lex_bind fun tok x hx => ?_
    refine Tot.t_still_bind Still_current_pos fun pos => ?_
    refine Tot.t_ite (fun hb => ?_) fun _ => ?_
    · obtain ⟨t, rfl⟩ := hx (by rcases hb with hb | hb <;> rw [hb] <;> decide)
      refine Tot.t_nested_bind ihn (by simp) fun node extra _ => ?_
      exact Tot.t_pure (by simp)
    refine Tot.t_ite (fun hb => ?_) fun _ => ?_
    · obtain ⟨t, rfl⟩ := hx (by rcases hb with hb | hb | hb <;> rw [hb] <;> decide)
      refine Tot.t_nested_bind ihn (by simp) fun node extra _ => ?_
      exact Tot.t_pure (by simp)
    refine Tot.t_ite (fun hb => ?_) fun _ => ?_
    · obtain ⟨t, rfl⟩ := hx (by rw [hb]; decide)
      have hnew : ∀ ms1, Ext [some t] ms1 → Tot k (do
          let (_, tag) ← liftE (E.parse_new_typename none)
          if (← needtoken TokenKind.ch_lbracket) then
            parse_new_array h14 n pos tag
          else
            return Expr.ErrorExpr : P Expr) ms1 (fun _ ms' => ms' ≠ []) := by
        intro ms1 he
        refine Tot.t_sub_bind (Tot.t_typename k E hE _ _) fun r e1 => ?_
        have he1 : Ext [some t] (e1 ++ ms1) := Ext.e_app _ he
        refine Tot.t_need_bind (by decide) (by decide) (fun t2 => ?_) ?_
        · refine Tot.t_mono (Tot_parse_new_array k h14 hh n pos _ _ (by simp) (by simp; omega))
            fun _ ms' h => ?_
          exact h.e_ne_nil (by simp)
        · exact Tot.t_pure (he1.e_ne_nil (by simp))
      refine Tot.t_matchsym_bind (fun t2 v => ?_) ?_
      · refine Tot.t_match_bind (by decide) (by decide) (fun t3 => ?_) ?_
        · refine Tot.t_still_bind Still_current_pos fun p2 => ?_
          refine Tot.t_mono (Tot_parse_call k h14 hh n pos _ _ _ (by simp) (by simp; omega))
            fun _ ms' h => ?_
          exact h.e_ne_nil (by simp)
        · refine Tot.t_lexpush_bind ?_
          exact hnew _ (Ext.e_refl _)
      · exact hnew _ (Ext.e_refl _)
    refine Tot.t_ite (fun hb => ?_) fun _ => ?_
    · obtain ⟨t, rfl⟩ := hx (by rw [hb]; decide)
      refine Tot.t_still_bind Still_get fun s => ?_
      have htail : Tot k (do
          let expr ← hier2 E h14 n
          return Expr.CastExpr pos tok.id (E.pc_addtag tok.str) expr : P Expr) [some t]
          (fun _ ms' => ms' ≠ []) := by
        refine Tot.t_nested_bind ihn (by simp) fun node extra _ => ?_
        exact Tot.t_pure (by simp)
      cases s.sc_require_newdecls with
      | true =>
        refine Tot.t_still_bind (Still_error _) fun _ => ?_
        exact htail
      | false => exact htail
    refine Tot.t_ite (fun hb => ?_) fun _ => ?_
    · obtain ⟨t, rfl⟩ := hx (by rw [hb]; decide)
      refine Tot.t_sub_bind (Tot_count_matches k _ (by decide) (by decide) n _ 0 (by simp; omega))
        fun parens e1 => ?_
      refine Tot.t_needsym_bind (fun t2 v => ?_) ?_
      · refine Tot.t_sub_bind (Tot_close_parens k parens _) fun _ e2 => ?_
        exact Tot.t_pure (by simp)
      · exact Tot.t_pure (by simp)
    refine Tot.t_ite (fun hb => ?_) fun _ => ?_
    · obtain ⟨t, rfl⟩ := hx (by rw [hb]; decide)
      refine Tot.t_sub_bind (Tot_count_matches k _ (by decide) (by decide) n _ 0 (by simp; omega))
        fun parens e1 => ?_
      have hident : Tot k (do
          if (← matchtoken TokenKind.tTHIS) then return some "this" else needsymbol :
            P (Option String)) (e1 ++ [some t]) (fun _ ms' => Ext (e1 ++ [some t]) ms') := by
        refine Tot.t_match_bind (by decide) (by decide) (fun t2 => ?_) ?_
        · exact Tot.t_pure (Ext.e_cons _ (Ext.e_refl _))
        · refine Tot.t_mono (Tot.t_needsymbol k _) fun r ms' h => ?_
          cases r with
          | some v =>
            obtain ⟨t2, rfl⟩ := h.1 rfl
            exact Ext.e_cons _ (Ext.e_refl _)
          | none =>
            rw [h.2 rfl]
            exact Ext.e_refl _
      refine Tot.t_sub_bind hident fun ident e2 => ?_
      cases ident with
      | none => exact Tot.t_pure (by simp)
      | some ident =>
        refine Tot.t_sub_bind (Tot_sizeof_levels k n _ 0 (by simp; omega)) fun levels e3 => ?_
        refine Tot.t_lex_bind fun token y _ => ?_
        refine Tot.t_ite (fun _ => ?_) fun _ => ?_
        · refine Tot.t_needsym_bind (fun t2 v => ?_) ?_
          · refine Tot.t_sub_bind (Tot_close_parens k parens _) fun _ e4 => ?_
            exact Tot.t_pure (by simp)
          · exact Tot.t_pure (by simp)
        · refine Tot.t_lexpush_bind ?_
          refine Tot.t_sub_bind (Tot_close_parens k parens _) fun _ e4 => ?_
          exact Tot.t_pure (by simp)
    · refine Tot.t_lexpush_bind ?_
      refine Tot.t_call_bind (Prog_hier1 k E hE h14 hh n (by omega)) (by omega)
        fun node extra hne => ?_
      refine Tot.t_match_bind (by decide) (by decide) (fun t => ?_) ?_
      · refine Tot.t_lexpush_bind ?_
        exact Tot.t_pure (by simp [hne])
      · refine Tot.t_any_bind (fun b => ?_) (fun y => Tot.t_pure (by simp))
        cases b with
        | true => exact Tot.t_pure (by simp [hne])
        | false =>
          refine Tot.t_lex_bind fun tok2 y _ => ?_
          refine Tot.t_ite (fun _ => ?_) fun _ => ?_
          · refine Tot.t_still_bind Still_current_pos fun p2 => ?_
            exact Tot.t_pure (by simp)
          · refine Tot.t_lexpush_bind ?_
            exact Tot.t_pure (by simp [hne])

theorem Tot_plnge_loop (k : Nat) (opstr : List TokenKind) (h1 : tTERM ∉ opstr)
    (h2 : tEOF ∉ opstr) (hier : P Expr) (hp : Prog k hier) :
    ∀ (fuel : Nat) (ms : List (Option token_t)) (node : Expr) (opidx : Nat),
      k < fuel + reals ms →
      Tot k (plnge_loop opstr hier fuel node opidx) ms (fun _ ms' => Ext ms ms') := by
  intro fuel
  induction fuel with
  | zero =>
    intro ms node opidx hf
    exact Tot.t_absurd (by omega)
  | succ n ih =>
    intro ms node opidx hf
    unfold plnge_loop
    refine Tot.t_still_bind Still_current_pos fun pos => ?_
    refine Tot.t_call_bind hp (by omega) fun right extra _ => ?_
    have he : Ext ms (extra ++ ms) := Ext.e_app _ (Ext.e_refl _)
    refine Tot.t_nextop_bind h1 h2 (fun t i => ?_) ?_
    · refine Tot.t_mono (ih _ _ _ (by simp; omega)) fun _ ms' h => ?_
      exact Ext.e_trans (Ext.e_cons _ he) h
    · exact Tot.t_pure he

theorem Prog_plnge (k : Nat) (opstr : List TokenKind) (h1 : tTERM ∉ opstr) (h2 : tEOF ∉ opstr)
    (hier : P Expr) (hp : Prog k hier) (fuel : Nat) (hf : k ≤ fuel) :
    Prog k (plnge opstr hier fuel) := by
  unfold plnge
  refine Tot.t_call_bind hp (by omega) fun node extra hne => ?_
  refine Tot.t_nextop_bind h1 h2 (fun t i => ?_) ?_
  · refine Tot.t_mono (Tot_plnge_loop k opstr h1 h2 hier hp fuel _ node i (by simp; omega))
      fun _ ms' h => ?_
    exact h.e_ne_nil (by simp)
  · exact Tot.t_pure (by simp [hne])

theorem Tot_plnge_rel_loop (k : Nat) (opstr : List TokenKind) (h1 : tTERM ∉ opstr)
    (h2 : tEOF ∉ opstr) (hier : P Expr) (hp : Prog k hier) :
    ∀ (fuel : Nat) (ms : List (Option token_t)) (ops : List (token_pos_t × TokenKind × Expr))
      (opidx : Nat), k < fuel + reals ms →
      Tot k (plnge_rel_loop opstr hier fuel ops opidx) ms (fun _ ms' => Ext ms ms') := by
  intro fuel
  induction fuel with
  | zero =>
    intro ms ops opidx hf
    exact Tot.t_absurd (by omega)
  | succ n ih =>
    intro ms ops opidx hf
    unfold plnge_rel_loop
    refine Tot.t_still_bind Still_current_pos fun pos => ?_
    refine Tot.t_call_bind hp (by omega) fun right extra _ => ?_
    have he : Ext ms (extra ++ ms) := Ext.e_app _ (Ext.e_refl _)
    refine Tot.t_nextop_bind h1 h2 (fun t i => ?_) ?_
    · refine Tot.t_mono (ih _ _ _ (by simp; omega)) fun _ ms' h => ?_
      exact Ext.e_trans (Ext.e_cons _ he) h
    · exact Tot.t_pure he

theorem Prog_plnge_rel (k : Nat) (opstr : List TokenKind) (h1 : tTERM ∉ opstr)
    (h2 : tEOF ∉ opstr) (hier : P Expr) (hp : Prog k hier) (fuel : Nat) (hf : k ≤ fuel) :
    Prog k (plnge_rel opstr hier fuel) := by
  unfold plnge_rel
  refine Tot.t_call_bind hp (by omega) fun node extra hne => ?_
  refine Tot.t_nextop_bind h1 h2 (fun t i => ?_) ?_
  · refine Tot.t_still_bind Still_current_pos fun pos => ?_
    refine Tot.t_sub_bind (Tot_plnge_rel_loop k opstr h1 h2 hier hp fuel _ [] i (by simp; omega))
      fun ops e2 => ?_
    exact Tot.t_pure (by simp)
  · exact Tot.t_pure (by simp [hne])

theorem Prog_hier12 (L : OpLists) (hL : ∀ l ∈ L.tables, tTERM ∉ l ∧ tEOF ∉ l) (E : Externals)
    (hE : E.forward) (h14 : P Expr) (fuel k : Nat) (hf : k + 2 ≤ fuel)
    (hh : ∀ k', k = k' + 1 → Prog k' h14) : Prog k (hier12 L E h14 fuel) := by
  have m : ∀ l, l ∈ L.tables → tTERM ∉ l ∧ tEOF ∉ l := hL
  have p2 := Prog_hier2 E hE h14 fuel k hf hh
  have p3 : Prog k (hier3 L E h14 fuel) :=
    Prog_plnge k _ (m _ (by simp [OpLists.tables])).1 (m _ (by simp [OpLists.tables])).2 _ p2 _
      (by omega)
  have p4 : Prog k (hier4 L E h14 fuel) :=
    Prog_plnge k _ (m _ (by simp [OpLists.tables])).1 (m _ (by simp [OpLists.tables])).2 _ p3 _
      (by omega)
  have p5 : Prog k (hier5 L E h14 fuel) :=
    Prog_plnge k _ (m _ (by simp [OpLists.tables])).1 (m _ (by simp [OpLists.tables])).2 _ p4 _
      (by omega)
  have p6 : Prog k (hier6 L E h14 fuel) :=
    Prog_plnge k _ (m _ (by simp [OpLists.tables])).1 (m _ (by simp [OpLists.tables])).2 _ p5 _
      (by omega)
  have p7 : Prog k (hier7 L E h14 fuel) :=
    Prog_plnge k _ (m _ (by simp [OpLists.tables])).1 (m _ (by simp [OpLists.tables])).2 _ p6 _
      (by omega)
  have p8 : Prog k (hier8 L E h14 fuel) :=
    Prog_plnge k _ (m _ (by simp [OpLists.tables])).1 (m _ (by simp [OpLists.tables])).2 _ p7 _
      (by omega)
  have p9 : Prog k (hier9 L E h14 fuel) :=
    Prog_plnge_rel k _ (m _ (by simp [OpLists.tables])).1 (m _ (by simp [OpLists.tables])).2 _ p8
      _ (by omega)
  have p10 : Prog k (hier10 L E h14 fuel) :=
    Prog_plnge k _ (m _ (by simp [OpLists.tables])).1 (m _ (by simp [OpLists.tables])).2 _ p9 _
      (by omega)
  have p11 : Prog k (hier11 L E h14 fuel) :=
    Prog_plnge k _ (m _ (by simp [OpLists.tables])).1 (m _ (by simp [OpLists.tables])).2 _ p10 _
      (by omega)
  exact Prog_plnge k _ (m _ (by simp [OpLists.tables])).1 (m _ (by simp [OpLists.tables])).2 _
    p11 _ (by omega)

theorem Prog_hier13 (L : OpLists) (hL : ∀ l ∈ L.tables, tTERM ∉ l ∧ tEOF ∉ l) (E : Externals)
    (hE : E.forward) (h14 : P Expr) :
    ∀ (fuel k : Nat), k + 3 ≤ fuel → (∀ k', k = k' + 1 → Prog k' h14) →
      Prog k (hier13 L E h14 fuel) := by
  intro fuel
  induction fuel with
  | zero =>
    intro k hf _
    omega
  | succ n ih =>
    intro k hf hh
    have ihn : ∀ k', k = k' + 1 → Prog k' (hier13 L E h14 n) :=
      fun k' hk => ih k' (by omega) (nested_below hh k' hk)
    unfold hier13
    refine Tot.t_call_bind (Prog_hier12 L hL E hE h14 n k (by omega) hh) (by omega)
      fun node extra hne => ?_
    refine Tot.t_match_bind (by decide) (by decide) (fun t => ?_) ?_
    · refine Tot.t_still_bind Still_current_pos fun pos => ?_
      refine Tot.t_sub1_bind (Tot.t_SaveAndSet stream_set_sc_allowtags _
        (Tot.t_call_real ihn (by simp))) fun left e2 _ => ?_
      refine Tot.t_need_bind (by decide) (by decide) (fun t2 => ?_) ?_
      · refine Tot.t_nested_bind ihn (by simp) fun right e3 _ => ?_
        exact Tot.t_pure (by simp)
      · refine Tot.t_nested_bind ihn (by simp; omega) fun right e3 _ => ?_
        exact Tot.t_pure (by simp [hne])
    · exact Tot.t_pure (by simp [hne])

theorem Prog_hier14 (L : OpLists) (hL : ∀ l ∈ L.tables, tTERM ∉ l ∧ tEOF ∉ l) (E : Externals)
    (hE : E.forward) :
    ∀ (fuel k : Nat), k + 4 ≤ fuel → Prog k (hier14 L E fuel) := by
  intro fuel
  induction fuel with
  | zero =>
    intro k hf
    omega
  | succ n ih =>
    intro k hf
    have ihn : ∀ k', k = k' + 1 → Prog k' (hier14 L E n) := fun k' hk => ih k' (by omega)
    unfold hier14
    refine Tot.t_call_bind (Prog_hier13 L hL E hE _ n k (by omega) ihn) (by omega)
      fun node extra hne => ?_
    refine Tot.t_lex_bind fun tok x hx => ?_
    refine Tot.t_still_bind Still_current_pos fun pos => ?_
    refine Tot.t_ite (fun hb => ?_) fun _ => ?_
    · have hne' : tok.id ≠ tEOF := by
        intro hc
        rw [hc] at hb
        simp [assign_ops] at hb
      obtain ⟨t, rfl⟩ := hx hne'
      refine Tot.t_nested_bind ihn (by simp) fun right e3 _ => ?_
      exact Tot.t_pure (by simp)
    refine Tot.t_ite (fun hb => ?_) fun _ => ?_
    · obtain ⟨t, rfl⟩ := hx (by rw [hb]; decide)
      refine Tot.t_still_bind Still_get fun s => ?_
      have htail : Tot k (do
          let right ← hier14 L E n
          return Expr.BinaryExpr pos tok.id node right : P Expr) (some t :: (extra ++ []))
          (fun _ ms' => ms' ≠ []) := by
        refine Tot.t_nested_bind ihn (by simp) fun right e3 _ => ?_
        exact Tot.t_pure (by simp)
      cases s.sc_intest with
      | true =>
        refine Tot.t_still_bind (Still_error _) fun _ => ?_
        exact htail
      | false => exact htail
    · refine Tot.t_lexpush_bind ?_
      exact Tot.t_pure (by simp [hne])

theorem Tot_parse_case_loop (k : Nat) (h14 : P Expr) :
    ∀ (fuel : Nat) (ms : List (Option token_t)) (exprs : List Expr),
      (∀ ms1, Ext ms ms1 → Tot k h14 ms1 (fun _ ms' => Ext1 ms1 ms')) → k < fuel + reals ms →
      Tot k (parse_case_loop h14 fuel exprs) ms (fun _ ms' => Ext ms ms') := by
  intro fuel
  induction fuel with
  | zero =>
    intro ms exprs _ hf
    exact Tot.t_absurd (by omega)
  | succ n ih =>
    intro ms exprs hc hf
    unfold parse_case_loop
    have hlabel : Tot k (SaveAndSet (·.sc_allowtags) set_sc_allowtags false (do
        let expr ← h14
        if (← matchtoken TokenKind.tDBLDOT) then error 1
        return expr)) ms (fun _ ms' => Ext ms ms') := by
      refine Tot.t_SaveAndSet stream_set_sc_allowtags _ ?_
      refine Tot.t_sub1_bind (hc _ (Ext.e_refl _)) fun expr extra _ => ?_
      refine Tot.t_match_bind (by decide) (by decide) (fun t => ?_) ?_
      · refine Tot.t_still_bind (Still_error _) fun _ => ?_
        exact Tot.t_pure (Ext.e_cons _ (Ext.e_app _ (Ext.e_refl _)))
      · exact Tot.t_pure (Ext.e_app _ (Ext.e_refl _))
    refine Tot.t_sub_bind hlabel fun expr extra => ?_
    have he : Ext ms (extra ++ ms) := Ext.e_app _ (Ext.e_refl _)
    refine Tot.t_match_bind (by decide) (by decide) (fun t => ?_) ?_
    · refine Tot.t_mono (ih _ _ (fun ms2 h2 => hc ms2 (Ext.e_trans (Ext.e_cons _ he) h2))
        (by simp; omega)) fun _ ms' h => ?_
      exact Ext.e_trans (Ext.e_cons _ he) h
    · exact Tot.t_pure he

theorem Tot_var_init_loop (k : Nat) (vi : P Expr) :
    ∀ (fuel : Nat) (ms : List (Option token_t)) (exprs : List Expr),
      (∀ ms1, Ext ms ms1 → Tot k vi ms1 (fun _ ms' => Ext1 ms1 ms')) → k < fuel + reals ms →
      Tot k (var_init_loop vi fuel exprs) ms (fun _ ms' => Ext ms ms') := by
  intro fuel
  induction fuel with
  | zero =>
    intro ms exprs _ hf
    exact Tot.t_absurd (by omega)
  | succ n ih =>
    intro ms exprs hc hf
    unfold var_init_loop
    refine Tot.t_still_bind (Still_lexpeek _) fun b => ?_
    cases b with
    | true => exact Tot.t_pure (Ext.e_refl _)
    | false =>
      refine Tot.t_match_bind (by decide) (by decide) (fun t => ?_) ?_
      · exact Tot.t_pure (Ext.e_cons _ (Ext.e_refl _))
      · refine Tot.t_sub1_bind (hc _ (Ext.e_refl _)) fun child extra _ => ?_
        have he : Ext ms (extra ++ ms) := Ext.e_app _ (Ext.e_refl _)
        refine Tot.t_match_bind (by decide) (by decide) (fun t => ?_) ?_
        · refine Tot.t_mono (ih _ _ (fun ms2 h2 => hc ms2 (Ext.e_trans (Ext.e_cons _ he) h2))
            (by simp; omega)) fun _ ms' h => ?_
          exact Ext.e_trans (Ext.e_cons _ he) h
        · exact Tot.t_pure he

theorem Prog_var_init (h14 : P Expr) :
    ∀ (fuel k : Nat), k + 1 ≤ fuel → Prog k h14 → Prog k (var_init h14 fuel) := by
  intro fuel
  induction fuel with
  | zero =>
    intro k hf _
    omega
  | succ n ih =>
    intro k hf hp
    unfold var_init
    refine Tot.t_match_bind (by decide) (by decide) (fun t => ?_) ?_
    · refine Tot.t_still_bind Still_current_pos fun pos => ?_
      have hvi : ∀ ms1, Ext [some t] ms1 →
          Tot k (var_init h14 n) ms1 (fun _ ms' => Ext1 ms1 ms') :=
        nested_call (fun k' hk => ih k' (by omega) (hp.p_mono (by omega))) (by simp)
      refine Tot.t_sub_bind (Tot_var_init_loop k _ n _ [] hvi (by simp; omega)) fun r extra => ?_
      refine Tot.t_need_bind (by decide) (by decide) (fun t2 => ?_) ?_
      · exact Tot.t_pure (by simp)
      · exact Tot.t_pure (by simp)
    · refine Tot.t_match_bind (by decide) (by decide) (fun t => ?_) ?_
      · refine Tot.t_still_bind Still_get fun s => ?_
        exact Tot.t_pure (by simp)
      · exact hp

section run
variable {α : Type}
/-- What total correctness says for a run from a given state. -/
theorem Tot.t_run {k : Nat} {m : P α} {Q : α → List (Option token_t) → Prop}
    (h : Tot k m [] Q) (s : ParserState) (hk : s.rest.length ≤ k) :
    ∃ a s' ms', m s = some (a, s') ∧ Ahead s.stream s'.stream ms' ∧ Q a ms' := by
  obtain ⟨a, s', hm, ms', ha, hq⟩ := h s.stream s.stream hk (Ahead.a_refl _) s rfl
  exact ⟨a, s', ms', hm, ha, hq⟩

theorem Tot.t_returns {k : Nat} {m : P α} {Q : α → List (Option token_t) → Prop}
    (h : Tot k m [] Q) (s : ParserState) (hk : s.rest.length ≤ k) :
    ∃ a s' toks, m s = some (a, s') ∧ s.rest = toks ++ s'.rest := by
  obtain ⟨a, s', ms', hm, ha, _⟩ := h.t_run s hk
  exact ⟨a, s', _, hm, ha.2.1⟩
end run

/-- Marks that were read from a stream not at its end hold a token. -/
theorem Ahead.a_progress {st0 st : Stream} {ms : List (Option token_t)} (h : Ahead st0 st ms)
    (hne : ms ≠ []) (h0 : st0.rest ≠ []) : ms.reduceOption.reverse ≠ [] := by
  intro hc
  have hr : ms.reduceOption = [] := by simpa using hc
  have hall := reduceOption_nil_of_all_none hr
  obtain ⟨x, ms1, rfl⟩ := List.exists_cons_of_ne_nil hne
  have hx : x = none := hall x (List.mem_cons_self _ _)
  have := h.2.2.1 (hx ▸ List.mem_cons_self _ _)
  have h2 := h.2.1
  rw [hr, this] at h2
  exact h0 h2

theorem sample_externals_forward : sample_externals.forward :=
  fun _ _ => ⟨[], Ahead.a_refl _⟩

/-- On a token that starts no constant, `constant` reports error 29, returns an
`ErrorExpr` and leaves the token consumed. -/
theorem constant_error_29 (h14 : P Expr) (fuel : Nat) (s : ParserState)
    (h : s.peekTok.id ∉ [tNULL, tNUMBER, tRATIONAL, tSTRING, ch_lbrace]) :
    constant h14 fuel s = some (Expr.ErrorExpr, s.adv.report 29) := by
  simp only [List.mem_cons, List.mem_singleton, List.not_mem_nil, not_or, or_false] at h
  unfold constant
  refine run_bind (lex_run _) ?_
  refine run_bind (current_pos_run _) ?_
  refine run_ite_neg h.1 ?_
  refine run_ite_neg h.2.1 ?_
  refine run_ite_neg h.2.2.1 ?_
  refine run_ite_neg h.2.2.2.1 ?_
  refine run_ite_neg h.2.2.2.2 ?_
  refine run_bind (error_run _ _) ?_
  rfl

theorem Stream.m_hit {c : List (Option token_t)} {a : token_t} {r : List token_t}
    {b : Bool} {k : TokenKind} (h : a.id = k) :
    Stream.matchtoken k ⟨c, a :: r, b⟩ = (true, ⟨some a :: c, r, b⟩) := by
  unfold Stream.matchtoken
  rw [if_pos (by exact h)]
  rfl

theorem Stream.m_miss {c : List (Option token_t)} {a : token_t} {r : List token_t}
    {b : Bool} {k : TokenKind} (h : a.id ≠ k) (hk : k ≠ tTERM) :
    Stream.matchtoken k ⟨c, a :: r, b⟩ = (false, ⟨c, a :: r, b⟩) := by
  unfold Stream.matchtoken
  rw [if_neg (by exact h), if_neg (fun hc => hk hc.1), if_neg (fun hc => hk hc.1)]

theorem Stream.m_term {c : List (Option token_t)} {a : token_t} {r : List token_t}
    {b : Bool} (h : a.id ∉ [tTERM, ch_semicolon, tENDEXPR]) :
    ∃ bb, Stream.matchtoken tTERM ⟨c, a :: r, b⟩ = (bb, ⟨c, a :: r, b⟩) := by
  simp only [List.mem_cons, List.mem_singleton, List.not_mem_nil, not_or, or_false] at h
  unfold Stream.matchtoken
  rw [if_neg (by exact h.1), if_neg (fun hc => by
    rcases hc.2 with h2 | h2
    · exact h.2.1 h2
    · exact h.2.2 h2)]
  split
  · exact ⟨true, rfl⟩
  · exact ⟨false, rfl⟩

theorem Stream.m_term_miss {c : List (Option token_t)} {a : token_t}
    {r : List token_t} {b : Bool} (h : a.id ∉ [tTERM, ch_semicolon, tENDEXPR])
    (hline : b = true ∨ a.start.line = (Stream.current ⟨c, a :: r, b⟩).start.line) :
    Stream.matchtoken tTERM ⟨c, a :: r, b⟩ = (false, ⟨c, a :: r, b⟩) := by
  simp only [List.mem_cons, List.mem_singleton, List.not_mem_nil, not_or, or_false] at h
  unfold Stream.matchtoken
  rw [if_neg (by exact h.1), if_neg (fun hc => by
    rcases hc.2 with h2 | h2
    · exact h.2.1 h2
    · exact h.2.2 h2), if_neg]
  rintro ⟨_, hb, hl⟩
  rcases hline with hline | hline
  · rw [hline] at hb
    exact Bool.noConfusion hb
  · rcases hl with hl | hl
    · exact Bool.noConfusion hl
    · exact hl hline

section gocps
variable {α β : Type} {c : List (Option token_t)} {a : token_t} {r : List token_t} {b : Bool}
  {Q : β → Stream → Prop}

theorem Go.c_lex {f : token_t → P β} (h : Go (f a) ⟨some a :: c, r, b⟩ Q) :
    Go (lex >>= f) ⟨c, a :: r, b⟩ Q :=
  Go.g_bind (Go.g_lex _) fun _ _ hq => by
    obtain ⟨rfl, rfl⟩ := hq
    exact h

theorem Go.c_lextok {f : token_t → P β} (h : Go (f a) ⟨some a :: c, r, b⟩ Q) :
    Go (lextok >>= f) ⟨c, a :: r, b⟩ Q :=
  Go.c_lex h

theorem Go.c_lexpush {f : Unit → P β} (h : Go (f ()) ⟨c, a :: r, b⟩ Q) :
    Go (lexpush >>= f) ⟨some a :: c, r, b⟩ Q :=
  Go.g_bind (Go.g_lexpush _) fun _ _ hq => by
    subst hq
    exact h

theorem Go.c_hit {k : TokenKind} {f : Bool → P β} (hk : a.id = k)
    (h : Go (f true) ⟨some a :: c, r, b⟩ Q) : Go (matchtoken k >>= f) ⟨c, a :: r, b⟩ Q :=
  Go.g_bind (Go.g_matchtoken k _) fun bb st' hq => by
    rw [Stream.m_hit hk] at hq
    obtain ⟨rfl, rfl⟩ := Prod.mk.inj hq
    exact h

theorem Go.c_miss {k : TokenKind} {f : Bool → P β} (hk : a.id ≠ k) (hk' : k ≠ tTERM)
    (h : Go (f false) ⟨c, a :: r, b⟩ Q) : Go (matchtoken k >>= f) ⟨c, a :: r, b⟩ Q :=
  Go.g_bind (Go.g_matchtoken k _) fun bb st' hq => by
    rw [Stream.m_miss hk hk'] at hq
    obtain ⟨rfl, rfl⟩ := Prod.mk.inj hq
    exact h

theorem Go.c_need {k : TokenKind} {f : Bool → P β} (hk : a.id = k)
    (h : Go (f true) ⟨some a :: c, r, b⟩ Q) : Go (needtoken k >>= f) ⟨c, a :: r, b⟩ Q :=
  Go.g_bind (Go.g_needtoken k _) fun bb st' hq => by
    rw [Stream.m_hit hk] at hq
    obtain ⟨rfl, rfl⟩ := Prod.mk.inj hq
    exact h

theorem Go.c_sym {f : Option String → P β} (hk : a.id = tSYMBOL)
    (h : ∀ v, Go (f (some v)) ⟨some a :: c, r, b⟩ Q) :
    Go (matchsymbol >>= f) ⟨c, a :: r, b⟩ Q :=
  Go.g_bind (Go.g_matchsymbol _) fun v st' hq => by
    rw [Stream.m_hit hk] at hq
    obtain ⟨h1, rfl⟩ := Prod.mk.inj hq
    cases v with
    | none => exact Bool.noConfusion h1
    | some v => exact h v

theorem Go.c_nosym {f : Option String → P β} (hk : a.id ≠ tSYMBOL)
    (h : Go (f none) ⟨c, a :: r, b⟩ Q) : Go (matchsymbol >>= f) ⟨c, a :: r, b⟩ Q :=
  Go.g_bind (Go.g_matchsymbol _) fun v st' hq => by
    rw [Stream.m_miss hk (by decide)] at hq
    obtain ⟨h1, rfl⟩ := Prod.mk.inj hq
    cases v with
    | none => exact h
    | some v => exact Bool.noConfusion h1

theorem Go.c_needsym {f : Option String → P β} (hk : a.id = tSYMBOL)
    (h : ∀ v, Go (f (some v)) ⟨some a :: c, r, b⟩ Q) :
    Go (needsymbol >>= f) ⟨c, a :: r, b⟩ Q :=
  Go.g_bind (Go.g_needsymbol _) fun v st' hq => by
    rw [Stream.m_hit hk] at hq
    obtain ⟨h1, rfl⟩ := Prod.mk.inj hq
    cases v with
    | none => exact Bool.noConfusion h1
    | some v => exact h v

theorem Go.c_term {f : Bool → P β} (hk : a.id ∉ [tTERM, ch_semicolon, tENDEXPR])
    (h : ∀ bb, Go (f bb) ⟨c, a :: r, b⟩ Q) : Go (matchtoken tTERM >>= f) ⟨c, a :: r, b⟩ Q :=
  Go.g_bind (Go.g_matchtoken tTERM _) fun bb st' hq => by
    obtain ⟨b2, hb2⟩ := Stream.m_term (c := c) (r := r) (b := b) hk
    rw [hb2] at hq
    obtain ⟨rfl, rfl⟩ := Prod.mk.inj hq
    exact h _

theorem Go.c_term_miss {f : Bool → P β} (hk : a.id ∉ [tTERM, ch_semicolon, tENDEXPR])
    (hline : b = true ∨ a.start.line = (Stream.current ⟨c, a :: r, b⟩).start.line)
    (h : Go (f false) ⟨c, a :: r, b⟩ Q) : Go (matchtoken tTERM >>= f) ⟨c, a :: r, b⟩ Q :=
  Go.g_bind (Go.g_matchtoken tTERM _) fun bb st' hq => by
    rw [Stream.m_term_miss hk hline] at hq
    obtain ⟨rfl, rfl⟩ := Prod.mk.inj hq
    exact h

theorem Go.c_still {m : P α} {f : α → P β} {st : Stream} (hm : Still m)
    (h : ∀ x, Go (f x) st Q) : Go (m >>= f) st Q :=
  Go.g_bind (hm st) fun x _ hq => hq ▸ h x

theorem Go.c_reads {m : P α} {f : α → P β} {toks : List token_t} {t : token_t}
    {post : List token_t} (hm : Reads b m toks t)
    (h : ∀ x, Go (f x) ⟨toks.reverse.map some ++ c, t :: post, b⟩ Q) :
    Go (m >>= f) ⟨c, toks ++ t :: post, b⟩ Q :=
  Go.g_bind (hm c post) fun x _ hq => hq ▸ h x

theorem Go.c_typespan {E : Externals} {o : Option token_t} {tys post : List token_t}
    {f : Bool × Int → P β} (hm : TypeSpan E o tys)
    (h : ∀ x, Go (f x) ⟨tys.reverse.map some ++ c, post, b⟩ Q) :
    Go (liftE (E.parse_new_typename o) >>= f) ⟨c, tys ++ post, b⟩ Q :=
  Go.g_bind (Go.g_liftE (Q := fun _ st' => st' = ⟨tys.reverse.map some ++ c, post, b⟩)
    fun s hs => by
      have h1 : s.rest = tys ++ post := congrArg Stream.rest hs
      have h2 : s.consumed = c := congrArg Stream.consumed hs
      have h3 : s.sc_needsemicolon = b := congrArg Stream.needsemi hs
      rw [hm s post h1, h2, h3]) fun x _ hq => hq ▸ h x

theorem Go.c_freading {f : Bool → P β} (h : Go (f true) ⟨c, a :: r, b⟩ Q) :
    Go (freading >>= f) ⟨c, a :: r, b⟩ Q :=
  Go.g_bind (Go.g_freading _) fun x _ hq => by
    obtain ⟨rfl, rfl⟩ := hq
    exact h

end gocps

section nextop
variable {β : Type} {c : List (Option token_t)} {a : token_t} {r : List token_t} {b : Bool}
  {Q : β → Stream → Prop}

theorem nextop_from_hit_go (opstr : List TokenKind) (hterm : tTERM ∉ opstr)
    (h : a.id ∈ opstr) : ∀ idx,
    Go (nextop_from idx opstr) ⟨c, a :: r, b⟩
      (fun x st' => (∃ i, x = some i) ∧ st' = ⟨some a :: c, r, b⟩) := by
  induction opstr with
  | nil => simp at h
  | cons op ops ih =>
    intro idx
    unfold nextop_from
    by_cases hop : a.id = op
    · refine Go.c_hit hop ?_
      exact Go.g_pure ⟨⟨_, rfl⟩, rfl⟩
    · refine Go.c_miss hop (fun hc => hterm (hc ▸ List.mem_cons_self _ _)) ?_
      have hmem : a.id ∈ ops := by
        rcases List.mem_cons.mp h with h | h
        · exact absurd h hop
        · exact h
      exact ih (fun hc => hterm (List.mem_cons_of_mem _ hc)) hmem _

theorem nextop_from_miss_go (opstr : List TokenKind) (hterm : tTERM ∉ opstr)
    (h : a.id ∉ opstr) : ∀ idx,
    Go (nextop_from idx opstr) ⟨c, a :: r, b⟩
      (fun x st' => x = none ∧ st' = ⟨c, a :: r, b⟩) := by
  induction opstr with
  | nil =>
    intro idx
    exact Go.g_pure ⟨rfl, rfl⟩
  | cons op ops ih =>
    intro idx
    unfold nextop_from
    refine Go.c_miss (fun hc => h (hc ▸ List.mem_cons_self _ _))
      (fun hc => hterm (hc ▸ List.mem_cons_self _ _)) ?_
    exact ih (fun hc => hterm (List.mem_cons_of_mem _ hc))
      (fun hc => h (List.mem_cons_of_mem _ hc)) _

theorem Go.c_op {opstr : List TokenKind} {f : Option Nat → P β} (hterm : tTERM ∉ opstr)
    (hk : a.id ∈ opstr) (h : ∀ i, Go (f (some i)) ⟨some a :: c, r, b⟩ Q) :
    Go (nextop opstr >>= f) ⟨c, a :: r, b⟩ Q :=
  Go.g_bind (nextop_from_hit_go opstr hterm hk 0) fun x _ hq => by
    obtain ⟨⟨i, rfl⟩, rfl⟩ := hq
    exact h i

theorem Go.c_noop {opstr : List TokenKind} {f : Option Nat → P β} (hterm : tTERM ∉ opstr)
    (hk : a.id ∉ opstr) (h : Go (f none) ⟨c, a :: r, b⟩ Q) :
    Go (nextop opstr >>= f) ⟨c, a :: r, b⟩ Q :=
  Go.g_bind (nextop_from_miss_go opstr hterm hk 0) fun x _ hq => by
    obtain ⟨rfl, rfl⟩ := hq
    exact h

end nextop

theorem getD_mem_of_mem {α : Type} (l : List (List α)) (i : Nat) (x : α)
    (h : x ∈ l.getD i []) : i < l.length ∧ l.getD i [] ∈ l := by
  by_cases hi : i < l.length
  · refine ⟨hi, ?_⟩
    rw [List.getD_eq_getElem _ _ hi]
    exact List.getElem_mem _
  · rw [List.getD_eq_default _ _ (by omega)] at h
    simp at h

theorem OpLists.table_mem (L : OpLists) (k : Nat) (x : TokenKind) (h : x ∈ L.table k) :
    3 ≤ k ∧ k - 3 < L.tables.length ∧ L.table k = L.tables.getD (k - 3) [] ∧
      L.table k ∈ L.tables := by
  unfold OpLists.table at h ⊢
  by_cases hk : k < 3
  · rw [if_pos hk] at h
    simp at h
  · rw [if_neg hk] at h ⊢
    obtain ⟨h1, h2⟩ := getD_mem_of_mem _ _ _ h
    exact ⟨by omega, h1, rfl, h2⟩

theorem OpLists.proper_reserved {L : OpLists} (hL : L.proper) {k : Nat} {x : TokenKind}
    (h : x ∈ L.table k) : x ∉ reserved_kinds :=
  hL.1 _ (L.table_mem k x h).2.2.2 x h

theorem OpLists.proper_tTERM {L : OpLists} (hL : L.proper) (k : Nat) : tTERM ∉ L.table k :=
  fun h => OpLists.proper_reserved hL h (by decide)

theorem pairwise_getD {α : Type} {R : List α → List α → Prop} {l : List (List α)}
    (h : l.Pairwise R) {i j : Nat} (hij : i < j) (hj : j < l.length) :
    R (l.getD i []) (l.getD j []) := by
  rw [List.getD_eq_getElem _ _ (by omega), List.getD_eq_getElem _ _ hj]
  exact List.pairwise_iff_getElem.mp h i j (by omega) hj hij

theorem OpLists.proper_disjoint {L : OpLists} (hL : L.proper) {j k : Nat} (hjk : j ≠ k)
    {x : TokenKind} (hj : x ∈ L.table j) : x ∉ L.table k := by
  intro hk
  obtain ⟨j3, jl, je, _⟩ := L.table_mem j x hj
  obtain ⟨k3, kl, ke, _⟩ := L.table_mem k x hk
  rw [je] at hj
  rw [ke] at hk
  rcases Nat.lt_or_gt_of_ne hjk with h | h
  · exact pairwise_getD hL.2 (show j - 3 < k - 3 by omega) kl x hj hk
  · exact pairwise_getD hL.2 (show k - 3 < j - 3 by omega) jl x hk hj

theorem stopk_closer {L : OpLists} (hL : L.proper) (k : Nat) {t : token_t}
    (h : t.id ∈ [ch_comma, ch_rparen, ch_rbracket, ch_rbrace, ch_colon, ch_question, ch_assign]
      ++ assign_ops) : stopk L k t := by
  have hall : ∀ x ∈ [ch_comma, ch_rparen, ch_rbracket, ch_rbrace, ch_colon, ch_question,
      ch_assign] ++ assign_ops, x ∈ reserved_kinds ∧
      x ∉ [ch_dot, tDBLCOLON, ch_lbracket, ch_lparen, tINC, tDEC, tTERM, tENDEXPR] := by
    decide
  exact ⟨(hall _ h).2, fun j _ _ hj => OpLists.proper_reserved hL hj (hall _ h).1⟩

theorem stop13_closer {L : OpLists} (hL : L.proper) {t : token_t}
    (h : t.id ∈ [ch_comma, ch_rparen, ch_rbracket, ch_rbrace, ch_colon, ch_assign]
      ++ assign_ops) : stop13 L t := by
  have hall : ∀ x ∈ [ch_comma, ch_rparen, ch_rbracket, ch_rbrace, ch_colon, ch_assign]
      ++ assign_ops, x ∈ [ch_comma, ch_rparen, ch_rbracket, ch_rbrace, ch_colon, ch_question,
      ch_assign] ++ assign_ops ∧ x ≠ ch_question := by
    decide
  exact ⟨stopk_closer hL 12 (hall _ h).1, (hall _ h).2⟩

theorem stop14_closer {L : OpLists} (hL : L.proper) {t : token_t}
    (h : t.id ∈ [ch_comma, ch_rparen, ch_rbracket, ch_rbrace, ch_colon]) : stop14 L t := by
  have hall : ∀ x ∈ [ch_comma, ch_rparen, ch_rbracket, ch_rbrace, ch_colon],
      x ∈ [ch_comma, ch_rparen, ch_rbracket, ch_rbrace, ch_colon, ch_assign] ++ assign_ops ∧
      x ∉ assign_ops ∧ x ≠ ch_assign := by
    decide
  exact ⟨stop13_closer hL (hall _ h).1, (hall _ h).2⟩

theorem stopk_op {L : OpLists} (hL : L.proper) {k : Nat} {op : token_t}
    (h : op.id ∈ L.table (k + 1)) : stopk L k op := by
  have hres := OpLists.proper_reserved hL h
  refine ⟨fun hc => hres ?_, fun j _ hjk => OpLists.proper_disjoint hL (by omega) h⟩
  have hsub : ∀ x ∈ [ch_dot, tDBLCOLON, ch_lbracket, ch_lparen, tINC, tDEC, tTERM, tENDEXPR],
      x ∈ reserved_kinds := by
    decide
  exact hsub _ hc

theorem stopk_mono {L : OpLists} {k j : Nat} {t : token_t} (h : stopk L k t) (hj : j ≤ k) :
    stopk L j t :=
  ⟨h.1, fun i h3 hi => h.2 i h3 (by omega)⟩

theorem stopk_table {L : OpLists} {k : Nat} {t : token_t} (h : stopk L k t) :
    t.id ∉ L.table k := by
  by_cases hk : k < 3
  · unfold OpLists.table
    rw [if_pos hk]
    simp
  · exact h.2 k (by omega) (le_refl _)

theorem after_operand_stop1 {t : token_t} (h : after_operand t) : stop1 t := by
  unfold after_operand at h
  unfold stop1
  simp only [List.mem_cons, List.mem_singleton, List.not_mem_nil, not_or, or_false] at h ⊢
  exact ⟨h.1, h.2.1, h.2.2.1, h.2.2.2.1⟩

theorem HeadIn.h_ne_nil {S : List TokenKind} {toks : List token_t} (h : HeadIn S toks) :
    toks ≠ [] := by
  obtain ⟨a, r, rfl, _⟩ := h
  simp

theorem HeadIn.h_length {S : List TokenKind} {toks : List token_t} (h : HeadIn S toks) :
    1 ≤ toks.length := by
  obtain ⟨a, r, rfl, _⟩ := h
  simp

theorem HeadIn.h_append {S : List TokenKind} {toks : List token_t} (h : HeadIn S toks)
    (more : List token_t) : HeadIn S (toks ++ more) := by
  obtain ⟨a, r, rfl, ha⟩ := h
  exact ⟨a, r ++ more, rfl, ha⟩

theorem HeadIn.h_sub {S S' : List TokenKind} {toks : List token_t} (h : HeadIn S toks)
    (hs : ∀ x ∈ S, x ∈ S') : HeadIn S' toks := by
  obtain ⟨a, r, rfl, ha⟩ := h
  exact ⟨a, r, rfl, hs _ ha⟩

theorem Reads.r_SaveAndSet {α : Type} {b : Bool} {m : P α} {toks : List token_t} {t : token_t}
    {getf : ParserState → Bool} {setf : Bool → ParserState → ParserState}
    (hset : ∀ v s, (setf v s).stream = s.stream) (v : Bool) (h : Reads b m toks t) :
    Reads b (SaveAndSet getf setf v m) toks t :=
  fun c post => Go.g_SaveAndSet hset v (h c post)

theorem Reads.r_of_eq {α : Type} {b : Bool} {m m' : P α} {toks : List token_t} {t : token_t}
    (h : m = m') (hr : Reads b m' toks t) : Reads b m toks t := h ▸ hr

theorem atom_ok (L : OpLists) (E : Externals) (b : Bool) (a : token_t)
    (ha : a.id ∈ [tTHIS, tSYMBOL, tNULL, tNUMBER, tRATIONAL, tSTRING]) : PrimOk L E b [a] := by
  refine ⟨⟨a, [], rfl, ?_⟩, fun n f t _ _ c post => ?_⟩
  · revert ha
    generalize a.id = x
    revert x
    decide
  show Go _ ⟨c, a :: t :: post, b⟩ _
  unfold primary
  refine Go.c_miss (fun h => ?_) (by decide) ?_
  · rw [h] at ha
    exact absurd ha (by decide)
  refine Go.c_lex ?_
  refine Go.g_ite (fun _ => ?_) fun h1 => ?_
  · refine Go.c_still Still_current_pos fun pos => ?_
    exact Go.g_pure rfl
  refine Go.g_ite (fun _ => ?_) fun h2 => ?_
  · refine Go.c_still Still_current_pos fun pos => ?_
    exact Go.g_pure rfl
  refine Go.c_lexpush ?_
  unfold constant
  refine Go.c_lex ?_
  refine Go.c_still Still_current_pos fun pos => ?_
  refine Go.g_ite (fun _ => Go.g_pure rfl) fun h3 => ?_
  refine Go.g_ite (fun _ => Go.g_pure rfl) fun h4 => ?_
  refine Go.g_ite (fun _ => Go.g_pure rfl) fun h5 => ?_
  refine Go.g_ite (fun _ => ?_) fun h6 => ?_
  · refine Go.c_still Still_get fun s => ?_
    exact Go.g_pure rfl
  simp only [List.mem_cons, List.mem_singleton, List.not_mem_nil, or_false] at ha
  rcases ha with ha | ha | ha | ha | ha | ha
  · exact absurd ha h1
  · exact absurd ha h2
  · exact absurd ha h3
  · exact absurd ha h4
  · exact absurd ha h5
  · exact absurd ha h6

theorem elems_one_ok (L : OpLists) (E : Externals) (b : Bool) (e : List token_t)
    (he : ExprOk L E b e) : ElemsOk L E b e := by
  refine ⟨he.1, fun n f t acc hn hf ht hc c post => ?_⟩
  obtain ⟨f, rfl⟩ : ∃ f', f = f' + 1 := ⟨f - 1, by have := he.1.h_length; omega⟩
  unfold primary_loop
  refine Go.c_reads (he.2 n t hn ht) fun child => ?_
  refine Go.c_miss hc (by decide) ?_
  exact Go.g_pure rfl

theorem elems_more_ok (L : OpLists) (hL : L.proper) (E : Externals) (b : Bool)
    (e : List token_t) (cm : token_t) (es : List token_t) (he : ExprOk L E b e)
    (hcm : cm.id = ch_comma) (hes : ElemsOk L E b es) : ElemsOk L E b (e ++ cm :: es) := by
  refine ⟨he.1.h_append _, fun n f t acc hn hf ht hc c post => ?_⟩
  simp only [List.length_append, List.length_cons] at hn hf
  obtain ⟨f, rfl⟩ : ∃ f', f = f' + 1 := ⟨f - 1, by omega⟩
  have hrest : (e ++ cm :: es) ++ t :: post = e ++ cm :: (es ++ t :: post) := by simp
  rw [hrest]
  unfold primary_loop
  refine Go.c_reads (he.2 n cm (by omega) (stop14_closer hL (by rw [hcm]; decide)))
    fun child => ?_
  refine Go.c_hit hcm ?_
  refine Go.g_mono (hes.2 n f t _ (by omega) (by omega) ht hc _ _) fun _ st' h => ?_
  rw [h]
  simp

theorem paren_ok (L : OpLists) (hL : L.proper) (E : Externals) (b : Bool) (lp rp : token_t)
    (es : List token_t) (hlp : lp.id = ch_lparen) (hes : ElemsOk L E b es)
    (hrp : rp.id = ch_rparen) : PrimOk L E b (lp :: es ++ [rp]) := by
  refine ⟨⟨lp, es ++ [rp], rfl, by rw [hlp]; decide⟩, fun n f t hn hf c post => ?_⟩
  simp only [List.length_append, List.length_cons, List.length_nil] at hn hf
  have hrest : (lp :: es ++ [rp]) ++ t :: post = lp :: (es ++ rp :: t :: post) := by simp
  rw [hrest]
  unfold primary
  refine Go.c_hit hlp ?_
  refine Go.g_SaveAndSet stream_set_sc_intest _ ?_
  refine Go.g_SaveAndSet stream_set_sc_allowtags _ ?_
  refine Go.c_still Still_current_pos fun pos => ?_
  refine Go.c_reads (hes.2 n f rp [] (by omega) (by omega)
    (stop14_closer hL (by rw [hrp]; decide)) (by rw [hrp]; decide)) fun exprs => ?_
  refine Go.c_need hrp ?_
  refine Go.c_still Still_lexclr_false fun _ => ?_
  exact Go.g_pure (by simp)

theorem arr_ellipsis_ok (L : OpLists) (E : Externals) (b : Bool) (el : token_t)
    (hel : el.id = tELLIPS) : ArrOk L E b [el] := by
  refine ⟨⟨el, [], rfl, by rw [hel]; decide⟩, fun n f t acc hn hf ht hc c post => ?_⟩
  simp only [List.length_cons, List.length_nil] at hf
  obtain ⟨f, rfl⟩ : ∃ f', f = f' + 1 := ⟨f - 1, by omega⟩
  show Go _ ⟨c, el :: t :: post, b⟩ _
  unfold constant_loop
  refine Go.c_hit hel ?_
  exact Go.g_pure rfl

theorem expr_head_not (S : List TokenKind) (hS : ∀ x ∈ S, x ∉ expr_heads) {e : List token_t}
    (he : HeadIn expr_heads e) (rest : List token_t) :
    ∃ a r, e ++ rest = a :: r ∧ ∀ x ∈ S, a.id ≠ x := by
  obtain ⟨a, r, rfl, ha⟩ := he
  exact ⟨a, r ++ rest, rfl, fun x hx h => hS x hx (h ▸ ha)⟩

theorem arr_one_ok (L : OpLists) (E : Externals) (b : Bool) (e : List token_t)
    (he : ExprOk L E b e) : ArrOk L E b e := by
  refine ⟨he.1.h_sub (fun x hx => List.mem_cons_of_mem _ hx),
    fun n f t acc hn hf ht hc c post => ?_⟩
  obtain ⟨f, rfl⟩ : ∃ f', f = f' + 1 := ⟨f - 1, by have := he.1.h_length; omega⟩
  unfold constant_loop
  obtain ⟨a, r, hr, ha⟩ := expr_head_not [tELLIPS] (by decide) he.1 (t :: post)
  rw [hr]
  refine Go.c_miss (ha _ (by decide)) (by decide) ?_
  rw [← hr]
  refine Go.c_reads (he.2 n t hn ht) fun child => ?_
  refine Go.c_miss hc (by decide) ?_
  exact Go.g_pure rfl

theorem arr_more_ok (L : OpLists) (hL : L.proper) (E : Externals) (b : Bool)
    (e : List token_t) (cm : token_t) (body : List token_t) (he : ExprOk L E b e)
    (hcm : cm.id = ch_comma) (hbody : ArrOk L E b body) : ArrOk L E b (e ++ cm :: body) := by
  refine ⟨(he.1.h_sub (fun x hx => List.mem_cons_of_mem _ hx)).h_append _,
    fun n f t acc hn hf ht hc c post => ?_⟩
  simp only [List.length_append, List.length_cons] at hn hf
  obtain ⟨f, rfl⟩ : ∃ f', f = f' + 1 := ⟨f - 1, by omega⟩
  have hrest : (e ++ cm :: body) ++ t :: post = e ++ cm :: (body ++ t :: post) := by simp
  rw [hrest]
  unfold constant_loop
  obtain ⟨a, r, hr, ha⟩ := expr_head_not [tELLIPS] (by decide) he.1
    (cm :: (body ++ t :: post))
  rw [hr]
  refine Go.c_miss (ha _ (by decide)) (by decide) ?_
  rw [← hr]
  refine Go.c_reads (he.2 n cm (by omega) (stop14_closer hL (by rw [hcm]; decide)))
    fun child => ?_
  refine Go.c_hit hcm ?_
  refine Go.g_mono (hbody.2 n f t _ (by omega) (by omega) ht hc _ _) fun _ st' h => ?_
  rw [h]
  simp

theorem array_ok (L : OpLists) (hL : L.proper) (E : Externals) (b : Bool) (lb rb : token_t)
    (body : List token_t) (hlb : lb.id = ch_lbrace) (hbody : ArrOk L E b body)
    (hrb : rb.id = ch_rbrace) : PrimOk L E b (lb :: body ++ [rb]) := by
  refine ⟨⟨lb, body ++ [rb], rfl, by rw [hlb]; decide⟩, fun n f t hn hf c post => ?_⟩
  simp only [List.length_append, List.length_cons, List.length_nil] at hn hf
  have hrest : (lb :: body ++ [rb]) ++ t :: post = lb :: (body ++ rb :: t :: post) := by simp
  rw [hrest]
  unfold primary
  refine Go.c_miss (by rw [hlb]; decide) (by decide) ?_
  refine Go.c_lex ?_
  refine Go.g_ite (fun h => absurd (hlb ▸ h) (by decide)) fun _ => ?_
  refine Go.g_ite (fun h => absurd (hlb ▸ h) (by decide)) fun _ => ?_
  refine Go.c_lexpush ?_
  unfold constant
  refine Go.c_lex ?_
  refine Go.c_still Still_current_pos fun pos => ?_
  refine Go.g_ite (fun h => absurd (hlb ▸ h) (by decide)) fun _ => ?_
  refine Go.g_ite (fun h => absurd (hlb ▸ h) (by decide)) fun _ => ?_
  refine Go.g_ite (fun h => absurd (hlb ▸ h) (by decide)) fun _ => ?_
  refine Go.g_ite (fun h => absurd (hlb ▸ h) (by decide)) fun _ => ?_
  refine Go.g_ite (fun _ => ?_) fun h => absurd hlb h
  refine Go.c_reads (hbody.2 n f rb [] (by omega) (by omega)
    (stop14_closer hL (by rw [hrb]; decide)) (by rw [hrb]; decide)) fun r => ?_
  obtain ⟨exprs, ell⟩ := r
  refine Go.c_need hrb ?_
  exact Go.g_pure (by simp)

theorem base_prim_ok (L : OpLists) (E : Externals) (b : Bool) (p : List token_t)
    (hp : PrimOk L E b p) : BaseOk L E b p := by
  refine ⟨hp.1.h_sub (fun x hx => List.mem_cons_of_mem _ hx), fun n f t hn hf c post => ?_⟩
  unfold hier1_base
  obtain ⟨a, r, rfl, ha⟩ := hp.1
  have hva : a.id ≠ tVIEW_AS := fun h => absurd (h ▸ ha) (by decide)
  have hgo := hp.2 n f t hn hf c post
  rw [List.cons_append] at hgo ⊢
  refine Go.c_miss hva (by decide) ?_
  exact hgo

theorem view_as_ok (L : OpLists) (hL : L.proper) (E : Externals) (b : Bool)
    (va lt ty : token_t) (tys : List token_t) (gt lp : token_t) (e : List token_t)
    (rp : token_t) (hva : va.id = tVIEW_AS) (hlt : lt.id = ch_lt)
    (hty : TypeSpan E (some ty) tys) (hgt : gt.id = ch_gt) (hlp : lp.id = ch_lparen)
    (he : ExprOk L E b e) (hrp : rp.id = ch_rparen) :
    BaseOk L E b (va :: lt :: ty :: tys ++ gt :: lp :: e ++ [rp]) := by
  refine ⟨⟨va, _, rfl, by rw [hva]; decide⟩, fun n f t hn hf c post => ?_⟩
  simp only [List.length_append, List.length_cons, List.length_nil] at hn hf
  have hrest : (va :: lt :: ty :: tys ++ gt :: lp :: e ++ [rp]) ++ t :: post =
      va :: lt :: ty :: (tys ++ gt :: lp :: (e ++ rp :: t :: post)) := by simp
  rw [hrest]
  unfold hier1_base
  refine Go.c_hit hva ?_
  unfold parse_view_as
  refine Go.c_still Still_current_pos fun pos => ?_
  refine Go.c_need hlt ?_
  refine Go.c_lextok ?_
  refine Go.c_typespan hty fun r => ?_
  obtain ⟨ok, tag⟩ := r
  refine Go.c_need hgt ?_
  refine Go.c_need hlp ?_
  refine Go.c_reads (he.2 n rp (by omega) (stop14_closer hL (by rw [hrp]; decide)))
    fun expr => ?_
  refine Go.c_need hrp ?_
  exact Go.g_pure (by simp)

theorem ptail_nil_ok (L : OpLists) (E : Externals) (b : Bool) : PtailOk L E b [] := by
  intro n f t base hn hf ht c post
  simp only [List.length_nil] at hf
  obtain ⟨f, rfl⟩ : ∃ f', f = f' + 1 := ⟨f - 1, by omega⟩
  show Go _ ⟨c, t :: post, b⟩ _
  unfold stop1 at ht
  simp only [List.mem_cons, List.mem_singleton, List.not_mem_nil, not_or, or_false] at ht
  unfold hier1_loop
  refine Go.c_lex ?_
  refine Go.g_ite (fun h => ?_) fun _ => ?_
  · rcases h with h | h
    · exact absurd h ht.1
    · exact absurd h ht.2.1
  refine Go.g_ite (fun h => absurd h ht.2.2.1) fun _ => ?_
  refine Go.g_ite (fun h => absurd h ht.2.2.2) fun _ => ?_
  refine Go.c_lexpush ?_
  exact Go.g_pure rfl

theorem field_ok (L : OpLists) (E : Externals) (b : Bool) (d nm : token_t)
    (tl : List token_t) (hd : d.id = ch_dot ∨ d.id = tDBLCOLON) (hnm : nm.id = tSYMBOL)
    (htl : PtailOk L E b tl) : PtailOk L E b (d :: nm :: tl) := by
  intro n f t base hn hf ht c post
  simp only [List.length_cons] at hn hf
  obtain ⟨f, rfl⟩ : ∃ f', f = f' + 1 := ⟨f - 1, by omega⟩
  have hrest : (d :: nm :: tl) ++ t :: post = d :: nm :: (tl ++ t :: post) := by simp
  rw [hrest]
  unfold hier1_loop
  refine Go.c_lex ?_
  refine Go.g_ite (fun _ => ?_) fun h => absurd hd h
  refine Go.c_still Still_current_pos fun pos => ?_
  refine Go.c_needsym hnm fun v => ?_
  refine Go.g_mono (htl n f t _ (by omega) (by omega) ht _ _) fun _ st' h => ?_
  rw [h]
  simp

theorem index_ok (L : OpLists) (hL : L.proper) (E : Externals) (b : Bool) (lb : token_t)
    (e : List token_t) (rb : token_t) (tl : List token_t) (hlb : lb.id = ch_lbracket)
    (he : ExprOk L E b e) (hrb : rb.id = ch_rbracket) (htl : PtailOk L E b tl) :
    PtailOk L E b (lb :: e ++ rb :: tl) := by
  intro n f t base hn hf ht c post
  simp only [List.length_append, List.length_cons] at hn hf
  obtain ⟨f, rfl⟩ : ∃ f', f = f' + 1 := ⟨f - 1, by omega⟩
  have hrest : (lb :: e ++ rb :: tl) ++ t :: post = lb :: (e ++ rb :: (tl ++ t :: post)) := by
    simp
  rw [hrest]
  unfold hier1_loop
  refine Go.c_lex ?_
  refine Go.g_ite (fun h => ?_) fun _ => ?_
  · rcases h with h | h
    · exact absurd (hlb ▸ h) (by decide)
    · exact absurd (hlb ▸ h) (by decide)
  refine Go.g_ite (fun _ => ?_) fun h => absurd hlb h
  refine Go.c_still Still_current_pos fun pos => ?_
  refine Go.c_reads (he.2 n rb (by omega) (stop14_closer hL (by rw [hrb]; decide)))
    fun inner => ?_
  refine Go.c_need hrb ?_
  refine Go.g_mono (htl n f t _ (by omega) (by omega) ht _ _) fun _ st' h => ?_
  rw [h]
  simp

theorem call_ok (L : OpLists) (E : Externals) (b : Bool) (lp : token_t)
    (as tl : List token_t) (hlp : lp.id = ch_lparen) (has : ArgsOk L E b as)
    (htl : PtailOk L E b tl) : PtailOk L E b (lp :: as ++ tl) := by
  intro n f t base hn hf ht c post
  simp only [List.length_append, List.length_cons] at hn hf
  obtain ⟨f, rfl⟩ : ∃ f', f = f' + 1 := ⟨f - 1, by omega⟩
  have hrest : (lp :: as ++ tl) ++ t :: post = lp :: (as ++ (tl ++ t :: post)) := by simp
  rw [hrest]
  unfold hier1_loop
  refine Go.c_lex ?_
  refine Go.g_ite (fun h => ?_) fun _ => ?_
  · rcases h with h | h
    · exact absurd (hlp ▸ h) (by decide)
    · exact absurd (hlp ▸ h) (by decide)
  refine Go.g_ite (fun h => absurd (hlp ▸ h) (by decide)) fun _ => ?_
  refine Go.g_ite (fun _ => ?_) fun h => absurd hlp h
  refine Go.c_still Still_current_pos fun pos => ?_
  cases htl' : tl with
  | nil =>
    subst htl'
    simp only [List.length_nil] at hn hf
    rw [List.nil_append]
    refine Go.c_reads (has.2 n f t _ _ _ (by omega) (by omega)) fun base2 => ?_
    refine Go.g_mono (htl n f t _ (by simp; omega) (by simp; omega) ht _ _) fun _ st' h => ?_
    rw [h]
    simp
  | cons x tl2 =>
    subst htl'
    simp only [List.length_cons] at hn hf
    rw [List.cons_append]
    refine Go.c_reads (has.2 n f x _ _ _ (by omega) (by omega)) fun base2 => ?_
    have hgo := htl n f t base2 (by simp; omega) (by simp; omega) ht
      (as.reverse.map some ++ (some lp :: c)) post
    rw [List.cons_append] at hgo
    refine Go.g_mono hgo fun _ st' h => ?_
    rw [h]
    simp

theorem post_chain_ok (L : OpLists) (E : Externals) (b : Bool) (bs tl : List token_t)
    (hbs : BaseOk L E b bs) (htl : PtailOk L E b tl) : PostOk L E b (bs ++ tl) := by
  refine ⟨hbs.1.h_append _, fun n f t hn hf ht c post => ?_⟩
  simp only [List.length_append] at hn hf
  have hlen := hbs.1.h_length
  have hh : hier1 E (hier14 L E n) f =
      hier1_base E (hier14 L E n) f >>= hier1_loop (hier14 L E n) f := rfl
  rw [hh]
  cases htl' : tl with
  | nil =>
    subst htl'
    simp only [List.length_nil] at hn hf
    rw [List.append_nil]
    refine Go.c_reads (hbs.2 n f t (by omega) (by omega)) fun base => ?_
    exact htl n f t base (by simp; omega) (by simp; omega) ht _ _
  | cons x tl2 =>
    subst htl'
    simp only [List.length_cons] at hn hf
    have hrest : (bs ++ x :: tl2) ++ t :: post = bs ++ x :: (tl2 ++ t :: post) := by simp
    rw [hrest]
    refine Go.c_reads (hbs.2 n f x (by omega) (by omega)) fun base => ?_
    have hgo := htl n f t base (by simp; omega) (by simp; omega) ht
      (bs.reverse.map some ++ c) post
    rw [List.cons_append] at hgo
    refine Go.g_mono hgo fun _ st' h => ?_
    rw [h]
    simp

theorem args_none_ok (L : OpLists) (E : Externals) (b : Bool) (rp : token_t)
    (hrp : rp.id = ch_rparen) : ArgsOk L E b [rp] := by
  refine ⟨by simp, fun n f t pos tok target hn hf c post => ?_⟩
  show Go _ ⟨c, rp :: t :: post, b⟩ _
  unfold parse_call
  refine Go.c_hit hrp ?_
  exact Go.g_pure rfl

theorem args_some_ok (L : OpLists) (E : Externals) (b : Bool) (al : List token_t)
    (hal : ArglistOk L E b al) : ArgsOk L E b al := by
  refine ⟨hal.1.h_ne_nil, fun n f t pos tok target hn hf c post => ?_⟩
  unfold parse_call
  obtain ⟨a, r, rfl, ha⟩ := hal.1
  have hne : a.id ≠ ch_rparen := fun h => absurd (h ▸ ha) (by decide)
  have hgo := hal.2 n f t false [] hn hf c post
  rw [List.cons_append] at hgo ⊢
  refine Go.c_miss hne (by decide) ?_
  refine Go.g_bind hgo fun args st' h => ?_
  exact Go.g_pure h

theorem parse_call_loop_succ (h14 : P Expr) (fuel : Nat) (named_params : Bool)
    (args : List (Option String × Option Expr)) :
    parse_call_loop h14 (fuel + 1) named_params args = (do
      if (← matchtoken TokenKind.ch_dot) then
        match (← needsymbol) with
        | none => return args
        | some ident =>
          let _ ← needtoken TokenKind.ch_assign
          call_arg_body h14 fuel args true (some ident)
      else
        if named_params then error 44
        call_arg_body h14 fuel args named_params none) := rfl

theorem arg_plain_ok (L : OpLists) (E : Externals) (b : Bool) (v : List token_t)
    (hv : ArgvOk L E b v) : ArglistOk L E b v := by
  refine ⟨hv.1.h_sub (fun x hx => List.mem_cons_of_mem _ hx),
    fun n f t named acc hn hf c post => ?_⟩
  obtain ⟨f, rfl⟩ : ∃ f', f = f' + 1 := ⟨f - 1, by have := hv.1.h_length; omega⟩
  rw [parse_call_loop_succ]
  obtain ⟨a, r, rfl, ha⟩ := hv.1
  have hne : a.id ≠ ch_dot := fun h => absurd (h ▸ ha) (by decide)
  have hgo := hv.2 n f t named acc none hn hf c post
  rw [List.cons_append] at hgo ⊢
  refine Go.c_miss hne (by decide) ?_
  cases named with
  | true =>
    refine Go.c_still (Still_error _) fun _ => ?_
    exact hgo
  | false => exact hgo

theorem arg_named_ok (L : OpLists) (E : Externals) (b : Bool) (d nm eq : token_t)
    (v : List token_t) (hd : d.id = ch_dot) (hnm : nm.id = tSYMBOL) (heq : eq.id = ch_assign)
    (hv : ArgvOk L E b v) : ArglistOk L E b (d :: nm :: eq :: v) := by
  refine ⟨⟨d, _, rfl, by rw [hd]; decide⟩, fun n f t named acc hn hf c post => ?_⟩
  simp only [List.length_cons] at hn hf
  obtain ⟨f, rfl⟩ : ∃ f', f = f' + 1 := ⟨f - 1, by omega⟩
  rw [parse_call_loop_succ]
  have hrest : (d :: nm :: eq :: v) ++ t :: post = d :: nm :: eq :: (v ++ t :: post) := by simp
  rw [hrest]
  refine Go.c_hit hd ?_
  refine Go.c_needsym hnm fun ident => ?_
  refine Go.c_need heq ?_
  refine Go.g_mono (hv.2 n f t true acc (some ident) (by omega) (by omega) _ _) fun _ st' h => ?_
  rw [h]
  simp

theorem argv_skip_last_ok (L : OpLists) (E : Externals) (b : Bool) (us rp : token_t)
    (hus : us.id = ch_underscore) (hrp : rp.id = ch_rparen) : ArgvOk L E b [us, rp] := by
  refine ⟨⟨us, _, rfl, by rw [hus]; decide⟩, fun n f t named acc name hn hf c post => ?_⟩
  show Go _ ⟨c, us :: rp :: t :: post, b⟩ _
  unfold call_arg_body
  have hexpr : Go (do
      if (← matchtoken TokenKind.ch_underscore) then return none
      else return some (← hier14 L E n) : P (Option Expr)) ⟨c, us :: rp :: t :: post, b⟩
      (fun _ st' => st' = ⟨some us :: c, rp :: t :: post, b⟩) := by
    refine Go.c_hit hus ?_
    exact Go.g_pure rfl
  refine Go.g_bind hexpr fun expr st' h => ?_
  subst h
  refine Go.c_hit hrp ?_
  exact Go.g_pure rfl

theorem argv_expr_last_ok (L : OpLists) (hL : L.proper) (E : Externals) (b : Bool)
    (e : List token_t) (rp : token_t) (he : ExprOk L E b e) (hrp : rp.id = ch_rparen) :
    ArgvOk L E b (e ++ [rp]) := by
  refine ⟨(he.1.h_sub (fun x hx => List.mem_cons_of_mem _ hx)).h_append _,
    fun n f t named acc name hn hf c post => ?_⟩
  simp only [List.length_append, List.length_cons, List.length_nil] at hn hf
  have hrest : (e ++ [rp]) ++ t :: post = e ++ rp :: t :: post := by simp
  rw [hrest]
  unfold call_arg_body
  have hexpr : Go (do
      if (← matchtoken TokenKind.ch_underscore) then return none
      else return some (← hier14 L E n) : P (Option Expr)) ⟨c, e ++ rp :: t :: post, b⟩
      (fun _ st' => st' = ⟨e.reverse.map some ++ c, rp :: t :: post, b⟩) := by
    obtain ⟨a, r, hr, ha⟩ := expr_head_not [ch_underscore] (by decide) he.1
      (rp :: t :: post)
    rw [hr]
    refine Go.c_miss (ha _ (by decide)) (by decide) ?_
    rw [← hr]
    refine Go.c_reads (he.2 n rp (by omega) (stop14_closer hL (by rw [hrp]; decide)))
      fun x => ?_
    exact Go.g_pure rfl
  refine Go.g_bind hexpr fun expr st' h => ?_
  subst h
  refine Go.c_hit hrp ?_
  exact Go.g_pure (by simp)

theorem arglist_head {L : OpLists} {E : Externals} {b : Bool} {al : List token_t}
    (hal : ArglistOk L E b al) (rest : List token_t) :
    ∃ a r, al ++ rest = a :: r ∧ a.id ≠ tENDEXPR := by
  obtain ⟨a, r, rfl, ha⟩ := hal.1
  exact ⟨a, r ++ rest, rfl, fun h => absurd (h ▸ ha) (by decide)⟩

theorem argv_skip_more_ok (L : OpLists) (E : Externals) (b : Bool) (us cm : token_t)
    (al : List token_t) (hus : us.id = ch_underscore) (hcm : cm.id = ch_comma)
    (hal : ArglistOk L E b al) : ArgvOk L E b (us :: cm :: al) := by
  refine ⟨⟨us, _, rfl, by rw [hus]; decide⟩, fun n f t named acc name hn hf c post => ?_⟩
  simp only [List.length_cons] at hn hf
  have hrest : (us :: cm :: al) ++ t :: post = us :: cm :: (al ++ t :: post) := by simp
  rw [hrest]
  unfold call_arg_body
  have hexpr : Go (do
      if (← matchtoken TokenKind.ch_underscore) then return none
      else return some (← hier14 L E n) : P (Option Expr))
      ⟨c, us :: cm :: (al ++ t :: post), b⟩
      (fun _ st' => st' = ⟨some us :: c, cm :: (al ++ t :: post), b⟩) := by
    refine Go.c_hit hus ?_
    exact Go.g_pure rfl
  refine Go.g_bind hexpr fun expr st' h => ?_
  subst h
  refine Go.c_miss (by rw [hcm]; decide) (by decide) ?_
  refine Go.c_need hcm ?_
  obtain ⟨a, r, hr, ha⟩ := arglist_head hal (t :: post)
  rw [hr]
  refine Go.c_freading ?_
  refine Go.c_miss ha (by decide) ?_
  rw [← hr]
  refine Go.g_mono (hal.2 n f t named _ (by omega) (by omega) _ _) fun _ st' h => ?_
  rw [h]
  simp

theorem argv_expr_more_ok (L : OpLists) (hL : L.proper) (E : Externals) (b : Bool)
    (e : List token_t) (cm : token_t) (al : List token_t) (he : ExprOk L E b e)
    (hcm : cm.id = ch_comma) (hal : ArglistOk L E b al) : ArgvOk L E b (e ++ cm :: al) := by
  refine ⟨(he.1.h_sub (fun x hx => List.mem_cons_of_mem _ hx)).h_append _,
    fun n f t named acc name hn hf c post => ?_⟩
  simp only [List.length_append, List.length_cons] at hn hf
  have hlen := he.1.h_length
  have hrest : (e ++ cm :: al) ++ t :: post = e ++ cm :: (al ++ t :: post) := by simp
  rw [hrest]
  unfold call_arg_body
  have hexpr : Go (do
      if (← matchtoken TokenKind.ch_underscore) then return none
      else return some (← hier14 L E n) : P (Option Expr))
      ⟨c, e ++ cm :: (al ++ t :: post), b⟩
      (fun _ st' => st' = ⟨e.reverse.map some ++ c, cm :: (al ++ t :: post), b⟩) := by
    obtain ⟨a, r, hr, ha⟩ := expr_head_not [ch_underscore] (by decide) he.1
      (cm :: (al ++ t :: post))
    rw [hr]
    refine Go.c_miss (ha _ (by decide)) (by decide) ?_
    rw [← hr]
    refine Go.c_reads (he.2 n cm (by omega) (stop14_closer hL (by rw [hcm]; decide)))
      fun x => ?_
    exact Go.g_pure rfl
  refine Go.g_bind hexpr fun expr st' h => ?_
  subst h
  refine Go.c_miss (by rw [hcm]; decide) (by decide) ?_
  refine Go.c_need hcm ?_
  obtain ⟨a, r, hr, ha⟩ := arglist_head hal (t :: post)
  rw [hr]
  refine Go.c_freading ?_
  refine Go.c_miss ha (by decide) ?_
  rw [← hr]
  refine Go.g_mono (hal.2 n f t named _ (by omega) (by omega) _ _) fun _ st' h => ?_
  rw [h]
  simp

theorem dims_last_ok (L : OpLists) (hL : L.proper) (E : Externals) (b : Bool)
    (e : List token_t) (rb : token_t) (he : ExprOk L E b e) (hrb : rb.id = ch_rbracket) :
    DimsOk L E b (e ++ [rb]) := by
  refine ⟨he.1.h_append _, fun n f t acc hn hf ht c post => ?_⟩
  simp only [List.length_append, List.length_cons, List.length_nil] at hn hf
  obtain ⟨f, rfl⟩ : ∃ f', f = f' + 1 := ⟨f - 1, by omega⟩
  have hrest : (e ++ [rb]) ++ t :: post = e ++ rb :: t :: post := by simp
  rw [hrest]
  unfold parse_new_array_loop
  refine Go.c_reads (he.2 n rb (by omega) (stop14_closer hL (by rw [hrb]; decide)))
    fun child => ?_
  refine Go.c_need hrb ?_
  refine Go.c_miss ht (by decide) ?_
  exact Go.g_pure (by simp)

theorem dims_more_ok (L : OpLists) (hL : L.proper) (E : Externals) (b : Bool)
    (e : List token_t) (rb lb : token_t) (ds : List token_t) (he : ExprOk L E b e)
    (hrb : rb.id = ch_rbracket) (hlb : lb.id = ch_lbracket) (hds : DimsOk L E b ds) :
    DimsOk L E b (e ++ rb :: lb :: ds) := by
  refine ⟨he.1.h_append _, fun n f t acc hn hf ht c post => ?_⟩
  simp only [List.length_append, List.length_cons] at hn hf
  obtain ⟨f, rfl⟩ : ∃ f', f = f' + 1 := ⟨f - 1, by omega⟩
  have hrest : (e ++ rb :: lb :: ds) ++ t :: post = e ++ rb :: lb :: (ds ++ t :: post) := by
    simp
  rw [hrest]
  unfold parse_new_array_loop
  refine Go.c_reads (he.2 n rb (by omega) (stop14_closer hL (by rw [hrb]; decide)))
    fun child => ?_
  refine Go.c_need hrb ?_
  refine Go.c_hit hlb ?_
  refine Go.g_mono (hds.2 n f t _ (by omega) (by omega) ht _ _) fun _ st' h => ?_
  rw [h]
  simp

theorem count_matches_go (k : TokenKind) (hk : k ≠ tTERM) (x : token_t) (hx : x.id ≠ k)
    (r : List token_t) (b : Bool) :
    ∀ (lps : List token_t), (∀ p ∈ lps, p.id = k) → ∀ (fuel cnt : Nat)
      (c : List (Option token_t)), lps.length < fuel →
      Go (count_matches k fuel cnt) ⟨c, lps ++ x :: r, b⟩
        (fun res st' => res = cnt + lps.length ∧ st' = ⟨lps.reverse.map some ++ c, x :: r, b⟩) := by
  intro lps
  induction lps with
  | nil =>
    intro _ fuel cnt c hf
    obtain ⟨f, rfl⟩ : ∃ f', fuel = f' + 1 := ⟨fuel - 1, by omega⟩
    show Go _ ⟨c, x :: r, b⟩ _
    unfold count_matches
    refine Go.c_miss hx hk ?_
    exact Go.g_pure ⟨rfl, rfl⟩
  | cons p ps ih =>
    intro hall fuel cnt c hf
    simp only [List.length_cons] at hf
    obtain ⟨f, rfl⟩ : ∃ f', fuel = f' + 1 := ⟨fuel - 1, by omega⟩
    rw [List.cons_append]
    unfold count_matches
    refine Go.c_hit (hall p (List.mem_cons_self _ _)) ?_
    refine Go.g_mono (ih (fun q hq => hall q (List.mem_cons_of_mem _ hq)) f (cnt + 1) _
      (by omega)) fun res st' h => ?_
    obtain ⟨h1, h2⟩ := h
    refine ⟨by rw [h1]; simp; omega, ?_⟩
    rw [h2]
    simp

theorem close_parens_go (r : List token_t) (b : Bool) :
    ∀ (rps : List token_t), (∀ p ∈ rps, p.id = ch_rparen) → ∀ (c : List (Option token_t)),
      Go (close_parens rps.length) ⟨c, rps ++ r, b⟩
        (fun _ st' => st' = ⟨rps.reverse.map some ++ c, r, b⟩) := by
  intro rps
  induction rps with
  | nil =>
    intro _ c
    exact Go.g_pure rfl
  | cons p ps ih =>
    intro hall c
    rw [List.cons_append]
    simp only [List.length_cons]
    unfold close_parens
    refine Go.c_need (hall p (List.mem_cons_self _ _)) ?_
    refine Go.g_mono (ih (fun q hq => hall q (List.mem_cons_of_mem _ hq)) _) fun _ st' h => ?_
    rw [h]
    simp

theorem sizeof_levels_go (x : token_t) (hx : x.id ≠ ch_lbracket) (r : List token_t)
    (b : Bool) :
    ∀ (m : Nat) (lvls : List token_t), lvls.length ≤ m → bracket_pairs lvls →
      ∀ (fuel cnt : Nat) (c : List (Option token_t)), lvls.length < fuel →
      Go (sizeof_levels fuel cnt) ⟨c, lvls ++ x :: r, b⟩
        (fun _ st' => st' = ⟨lvls.reverse.map some ++ c, x :: r, b⟩) := by
  intro m
  induction m with
  | zero =>
    intro lvls hm _ fuel cnt c hf
    obtain rfl : lvls = [] := List.length_eq_zero.mp (by omega)
    obtain ⟨f, rfl⟩ : ∃ f', fuel = f' + 1 := ⟨fuel - 1, by omega⟩
    show Go _ ⟨c, x :: r, b⟩ _
    unfold sizeof_levels
    refine Go.c_miss hx (by decide) ?_
    exact Go.g_pure rfl
  | succ m ih =>
    intro lvls hm hbp fuel cnt c hf
    match lvls, hbp with
    | [], _ =>
      obtain ⟨f, rfl⟩ : ∃ f', fuel = f' + 1 := ⟨fuel - 1, by omega⟩
      show Go _ ⟨c, x :: r, b⟩ _
      unfold sizeof_levels
      refine Go.c_miss hx (by decide) ?_
      exact Go.g_pure rfl
    | [_], h => exact absurd h (by simp [bracket_pairs])
    | lb :: rb :: rest, h =>
      simp only [bracket_pairs] at h
      simp only [List.length_cons] at hm hf
      obtain ⟨f, rfl⟩ : ∃ f', fuel = f' + 1 := ⟨fuel - 1, by omega⟩
      have hrest : (lb :: rb :: rest) ++ x :: r = lb :: rb :: (rest ++ x :: r) := by simp
      rw [hrest]
      unfold sizeof_levels
      refine Go.c_hit h.1 ?_
      refine Go.c_need h.2.1 ?_
      refine Go.g_mono (ih rest (by omega) h.2.2 f (cnt + 1) _ (by omega)) fun _ st' h => ?_
      rw [h]
      simp

theorem pre_ok (L : OpLists) (E : Externals) (b : Bool) (op : token_t) (u : List token_t)
    (hop : op.id ∈ [tINC, tDEC, ch_tilde, ch_minus, ch_excl]) (hu : LvlOk L E b 2 u) :
    LvlOk L E b 2 (op :: u) := by
  refine ⟨⟨op, u, rfl, ?_⟩, fun n f t hn hf ht c post => ?_⟩
  · revert hop
    generalize op.id = x
    revert x
    decide
  simp only [List.length_cons] at hn hf
  obtain ⟨f, rfl⟩ : ∃ f', f = f' + 1 := ⟨f - 1, by omega⟩
  rw [List.cons_append]
  show Go (hier2 E (hier14 L E n) (f + 1)) _ _
  unfold hier2
  refine Go.c_lex ?_
  refine Go.c_still Still_current_pos fun pos => ?_
  have hrec := hu.2 n f t (by omega) (by omega) ht (some op :: c) post
  refine Go.g_ite (fun _ => ?_) fun h1 => ?_
  · refine Go.g_bind hrec fun node st' h => ?_
    exact Go.g_pure (by rw [h]; simp)
  refine Go.g_ite (fun _ => ?_) fun h2 => ?_
  · refine Go.g_bind hrec fun node st' h => ?_
    exact Go.g_pure (by rw [h]; simp)
  simp only [List.mem_cons, List.mem_singleton, List.not_mem_nil, or_false] at hop
  rcases hop with h | h | h | h | h
  · exact absurd (Or.inl h) h1
  · exact absurd (Or.inr h) h1
  · exact absurd (Or.inl h) h2
  · exact absurd (Or.inr (Or.inl h)) h2
  · exact absurd (Or.inr (Or.inr h)) h2

theorem cast_ok (L : OpLists) (E : Externals) (b : Bool) (lb : token_t) (u : List token_t)
    (hlb : lb.id = tLABEL) (hu : LvlOk L E b 2 u) : LvlOk L E b 2 (lb :: u) := by
  refine ⟨⟨lb, u, rfl, by rw [hlb]; decide⟩, fun n f t hn hf ht c post => ?_⟩
  simp only [List.length_cons] at hn hf
  obtain ⟨f, rfl⟩ : ∃ f', f = f' + 1 := ⟨f - 1, by omega⟩
  rw [List.cons_append]
  show Go (hier2 E (hier14 L E n) (f + 1)) _ _
  unfold hier2
  refine Go.c_lex ?_
  refine Go.c_still Still_current_pos fun pos => ?_
  have hrec := hu.2 n f t (by omega) (by omega) ht (some lb :: c) post
  refine Go.g_ite (fun h => ?_) fun _ => ?_
  · rcases h with h | h <;> exact absurd (hlb ▸ h) (by decide)
  refine Go.g_ite (fun h => ?_) fun _ => ?_
  · rcases h with h | h | h <;> exact absurd (hlb ▸ h) (by decide)
  refine Go.g_ite (fun h => absurd (hlb ▸ h) (by decide)) fun _ => ?_
  refine Go.g_ite (fun _ => ?_) fun h => absurd hlb h
  refine Go.c_still Still_get fun s => ?_
  have htail : Go (do
      let expr ← hier2 E (hier14 L E n) f
      return Expr.CastExpr pos lb.id (E.pc_addtag lb.str) expr : P Expr)
      ⟨some lb :: c, u ++ t :: post, b⟩
      (fun _ st' => st' = ⟨(lb :: u).reverse.map some ++ c, t :: post, b⟩) := by
    refine Go.g_bind hrec fun node st' h => ?_
    exact Go.g_pure (by rw [h]; simp)
  cases s.sc_require_newdecls with
  | true =>
    refine Go.c_still (Still_error _) fun _ => ?_
    exact htail
  | false => exact htail

theorem new_call_ok (L : OpLists) (E : Externals) (b : Bool) (nw nm lp : token_t)
    (as : List token_t) (hnw : nw.id = tNEW) (hnm : nm.id = tSYMBOL) (hlp : lp.id = ch_lparen)
    (has : ArgsOk L E b as) : LvlOk L E b 2 (nw :: nm :: lp :: as) := by
  refine ⟨⟨nw, _, rfl, by rw [hnw]; decide⟩, fun n f t hn hf ht c post => ?_⟩
  simp only [List.length_cons] at hn hf
  obtain ⟨f, rfl⟩ : ∃ f', f = f' + 1 := ⟨f - 1, by omega⟩
  have hrest : (nw :: nm :: lp :: as) ++ t :: post = nw :: nm :: lp :: (as ++ t :: post) := by
    simp
  rw [hrest]
  show Go (hier2 E (hier14 L E n) (f + 1)) _ _
  unfold hier2
  refine Go.c_lex ?_
  refine Go.c_still Still_current_pos fun pos => ?_
  refine Go.g_ite (fun h => ?_) fun _ => ?_
  · rcases h with h | h <;> exact absurd (hnw ▸ h) (by decide)
  refine Go.g_ite (fun h => ?_) fun _ => ?_
  · rcases h with h | h | h <;> exact absurd (hnw ▸ h) (by decide)
  refine Go.g_ite (fun _ => ?_) fun h => absurd hnw h
  refine Go.c_sym hnm fun v => ?_
  refine Go.c_hit hlp ?_
  refine Go.c_still Still_current_pos fun p2 => ?_
  refine Go.g_mono (has.2 n f t _ _ _ (by omega) (by omega) _ _) fun _ st' h => ?_
  rw [h]
  simp

theorem new_array_ok (L : OpLists) (E : Externals) (b : Bool)
    (nw : token_t) (tys : List token_t) (lb : token_t) (ds : List token_t)
    (hnw : nw.id = tNEW) (hty : TypeSpan E none tys)
    (hcall : ∀ a a2 r, tys = a :: a2 :: r → a.id = tSYMBOL → a2.id ≠ ch_lparen)
    (hlb : lb.id = ch_lbracket) (hds : DimsOk L E b ds) :
    LvlOk L E b 2 (nw :: tys ++ lb :: ds) := by
  refine ⟨⟨nw, _, rfl, by rw [hnw]; decide⟩, fun n f t hn hf ht c post => ?_⟩
  simp only [List.length_append, List.length_cons] at hn hf
  obtain ⟨f, rfl⟩ : ∃ f', f = f' + 1 := ⟨f - 1, by omega⟩
  have hrest : (nw :: tys ++ lb :: ds) ++ t :: post = nw :: (tys ++ lb :: (ds ++ t :: post)) := by
    simp
  rw [hrest]
  have htb : t.id ≠ ch_lbracket := by
    have h1 := ht.1
    unfold after_operand at h1
    simp only [List.mem_cons, List.mem_singleton, List.not_mem_nil, not_or, or_false] at h1
    exact h1.2.2.1
  show Go (hier2 E (hier14 L E n) (f + 1)) _ _
  unfold hier2
  refine Go.c_lex ?_
  refine Go.c_still Still_current_pos fun pos => ?_
  refine Go.g_ite (fun h => ?_) fun _ => ?_
  · rcases h with h | h <;> exact absurd (hnw ▸ h) (by decide)
  refine Go.g_ite (fun h => ?_) fun _ => ?_
  · rcases h with h | h | h <;> exact absurd (hnw ▸ h) (by decide)
  refine Go.g_ite (fun _ => ?_) fun h => absurd hnw h
  have hnew : Go (do
      let (_, tag) ← liftE (E.parse_new_typename none)
      if (← needtoken TokenKind.ch_lbracket) then
        parse_new_array (hier14 L E n) f pos tag
      else
        return Expr.ErrorExpr : P Expr) ⟨some nw :: c, tys ++ lb :: (ds ++ t :: post), b⟩
      (fun _ st' => st' = ⟨(nw :: tys ++ lb :: ds).reverse.map some ++ c, t :: post, b⟩) := by
    refine Go.c_typespan hty fun r => ?_
    obtain ⟨ok, tag⟩ := r
    refine Go.c_need hlb ?_
    unfold parse_new_array
    refine Go.c_reads (hds.2 n f t [] (by omega) (by omega) htb) fun exprs => ?_
    exact Go.g_pure (by simp)
  match tys, hcall, hnew with
  | [], _, hnew =>
    refine Go.c_nosym (by rw [hlb]; decide) ?_
    exact hnew
  | [a], _, hnew =>
    by_cases ha : a.id = tSYMBOL
    · refine Go.c_sym ha fun v => ?_
      refine Go.c_miss (by rw [hlb]; decide) (by decide) ?_
      refine Go.c_lexpush ?_
      exact hnew
    · refine Go.c_nosym ha ?_
      exact hnew
  | a :: a2 :: r, hcall, hnew =>
    by_cases ha : a.id = tSYMBOL
    · refine Go.c_sym ha fun v => ?_
      refine Go.c_miss (hcall a a2 r rfl ha) (by decide) ?_
      refine Go.c_lexpush ?_
      exact hnew
    · refine Go.c_nosym ha ?_
      exact hnew

theorem defined_ok (L : OpLists) (E : Externals) (b : Bool) (df : token_t)
    (lps : List token_t) (nm : token_t) (rps : List token_t) (hdf : df.id = tDEFINED)
    (hlps : ∀ p ∈ lps, p.id = ch_lparen) (hnm : nm.id = tSYMBOL)
    (hrps : ∀ p ∈ rps, p.id = ch_rparen) (hlen : rps.length = lps.length) :
    LvlOk L E b 2 (df :: lps ++ nm :: rps) := by
  refine ⟨⟨df, _, rfl, by rw [hdf]; decide⟩, fun n f t hn hf ht c post => ?_⟩
  simp only [List.length_append, List.length_cons] at hn hf
  obtain ⟨f, rfl⟩ : ∃ f', f = f' + 1 := ⟨f - 1, by omega⟩
  have hrest : (df :: lps ++ nm :: rps) ++ t :: post =
      df :: (lps ++ nm :: (rps ++ t :: post)) := by
    simp
  rw [hrest]
  show Go (hier2 E (hier14 L E n) (f + 1)) _ _
  unfold hier2
  refine Go.c_lex ?_
  refine Go.c_still Still_current_pos fun pos => ?_
  refine Go.g_ite (fun h => ?_) fun _ => ?_
  · rcases h with h | h <;> exact absurd (hdf ▸ h) (by decide)
  refine Go.g_ite (fun h => ?_) fun _ => ?_
  · rcases h with h | h | h <;> exact absurd (hdf ▸ h) (by decide)
  refine Go.g_ite (fun h => absurd (hdf ▸ h) (by decide)) fun _ => ?_
  refine Go.g_ite (fun h => absurd (hdf ▸ h) (by decide)) fun _ => ?_
  refine Go.g_ite (fun _ => ?_) fun h => absurd hdf h
  refine Go.g_bind (count_matches_go ch_lparen (by decide) nm (by rw [hnm]; decide) _ b lps hlps
    f 0 _ (by omega)) fun parens st' h => ?_
  obtain ⟨hp, rfl⟩ := h
  refine Go.c_needsym hnm fun ident => ?_
  have hparens : parens = rps.length := by omega
  rw [hparens]
  refine Go.g_bind (close_parens_go _ b rps hrps _) fun _ st' h => ?_
  exact Go.g_pure (by rw [h]; simp)

theorem closers_head (rps : List token_t) (hrps : ∀ p ∈ rps, p.id = ch_rparen) (t : token_t)
    (ht : after_operand t) (post : List token_t) :
    ∃ x r, rps ++ t :: post = x :: r ∧ x.id ≠ ch_lbracket ∧ x.id ≠ tDBLCOLON ∧ x.id ≠ ch_dot := by
  unfold after_operand at ht
  simp only [List.mem_cons, List.mem_singleton, List.not_mem_nil, not_or, or_false] at ht
  cases rps with
  | nil => exact ⟨t, post, rfl, ht.2.2.1, ht.2.1, ht.1⟩
  | cons p ps =>
    have hp := hrps p (List.mem_cons_self _ _)
    exact ⟨p, ps ++ t :: post, rfl, by rw [hp]; decide, by rw [hp]; decide, by rw [hp]; decide⟩

theorem sizeof_ok (L : OpLists) (E : Externals) (b : Bool) (sz : token_t)
    (lps : List token_t) (nm : token_t) (lvls fld rps : List token_t) (hsz : sz.id = tSIZEOF)
    (hlps : ∀ p ∈ lps, p.id = ch_lparen) (hnm : nm.id = tTHIS ∨ nm.id = tSYMBOL)
    (hlvls : bracket_pairs lvls) (hfld : sizeof_field fld)
    (hrps : ∀ p ∈ rps, p.id = ch_rparen) (hlen : rps.length = lps.length) :
    LvlOk L E b 2 (sz :: lps ++ nm :: lvls ++ fld ++ rps) := by
  refine ⟨⟨sz, _, rfl, by rw [hsz]; decide⟩, fun n f t hn hf ht c post => ?_⟩
  simp only [List.length_append, List.length_cons] at hn hf
  obtain ⟨f, rfl⟩ : ∃ f', f = f' + 1 := ⟨f - 1, by omega⟩
  have hrest : (sz :: lps ++ nm :: lvls ++ fld ++ rps) ++ t :: post =
      sz :: (lps ++ nm :: (lvls ++ (fld ++ (rps ++ t :: post)))) := by
    simp
  rw [hrest]
  show Go (hier2 E (hier14 L E n) (f + 1)) _ _
  unfold hier2
  refine Go.c_lex ?_
  refine Go.c_still Still_current_pos fun pos => ?_
  refine Go.g_ite (fun h => ?_) fun _ => ?_
  · rcases h with h | h <;> exact absurd (hsz ▸ h) (by decide)
  refine Go.g_ite (fun h => ?_) fun _ => ?_
  · rcases h with h | h | h <;> exact absurd (hsz ▸ h) (by decide)
  refine Go.g_ite (fun h => absurd (hsz ▸ h) (by decide)) fun _ => ?_
  refine Go.g_ite (fun h => absurd (hsz ▸ h) (by decide)) fun _ => ?_
  refine Go.g_ite (fun h => absurd (hsz ▸ h) (by decide)) fun _ => ?_
  refine Go.g_ite (fun _ => ?_) fun h => absurd hsz h
  have hnm2 : nm.id ≠ ch_lparen := by
    rcases hnm with h | h <;> rw [h] <;> decide
  refine Go.g_bind (count_matches_go ch_lparen (by decide) nm hnm2 _ b lps hlps
    f 0 _ (by omega)) fun parens st' h => ?_
  obtain ⟨hp, rfl⟩ := h
  have hparens : parens = rps.length := by omega
  rw [hparens]
  have hident : Go (do
      if (← matchtoken TokenKind.tTHIS) then return some "this" else needsymbol :
        P (Option String))
      ⟨lps.reverse.map some ++ (some sz :: c), nm :: (lvls ++ (fld ++ (rps ++ t :: post))), b⟩
      (fun res st' => (∃ v, res = some v) ∧ st' = ⟨some nm :: (lps.reverse.map some ++
        (some sz :: c)), lvls ++ (fld ++ (rps ++ t :: post)), b⟩) := by
    rcases hnm with h | h
    · refine Go.c_hit h ?_
      exact Go.g_pure ⟨⟨_, rfl⟩, rfl⟩
    · refine Go.c_miss (by rw [h]; decide) (by decide) ?_
      refine Go.g_mono (Go.g_needsymbol _) fun v st' hq => ?_
      rw [Stream.m_hit h] at hq
      obtain ⟨h1, rfl⟩ := Prod.mk.inj hq
      cases v with
      | none => exact Bool.noConfusion h1
      | some v => exact ⟨⟨_, rfl⟩, rfl⟩
  refine Go.g_bind hident fun ident st' h => ?_
  obtain ⟨⟨v, rfl⟩, rfl⟩ := h
  rcases hfld with rfl | ⟨d, fn, rfl, hd, hfn⟩
  · obtain ⟨x, r, hr, hx1, hx2, hx3⟩ := closers_head rps hrps t ht.1 post
    rw [List.nil_append, hr]
    refine Go.g_bind (sizeof_levels_go x hx1 r b lvls.length lvls (le_refl _) hlvls f 0 _
      (by omega)) fun levels st' h => ?_
    subst h
    refine Go.c_lex ?_
    refine Go.g_ite (fun h => ?_) fun _ => ?_
    · rcases h with h | h
      · exact absurd h hx2
      · exact absurd h hx3
    refine Go.c_lexpush ?_
    rw [← hr]
    refine Go.g_bind (close_parens_go _ b rps hrps _) fun _ st' h => ?_
    exact Go.g_pure (by rw [h]; simp)
  · have hd2 : d.id ≠ ch_lbracket := by
      rcases hd with h | h <;> rw [h] <;> decide
    have hrest2 : [d, fn] ++ (rps ++ t :: post) = d :: fn :: (rps ++ t :: post) := rfl
    rw [hrest2]
    refine Go.g_bind (sizeof_levels_go d hd2 _ b lvls.length lvls (le_refl _) hlvls f 0 _
      (by simp at hf; omega)) fun levels st' h => ?_
    subst h
    refine Go.c_lex ?_
    refine Go.g_ite (fun _ => ?_) fun h => absurd hd h
    refine Go.c_needsym hfn fun field_name => ?_
    refine Go.g_bind (close_parens_go _ b rps hrps _) fun _ st' h => ?_
    exact Go.g_pure (by rw [h]; simp)

theorem current_after {p : List token_t} {a : token_t} (h : p.getLast? = some a)
    (c : List (Option token_t)) (rest : List token_t) (b : Bool) :
    Stream.current ⟨p.reverse.map some ++ c, rest, b⟩ = a := by
  rcases List.eq_nil_or_concat p with rfl | ⟨q, x, rfl⟩
  · simp at h
  · simp at h
    subst h
    simp [Stream.current]

theorem of_post_ok (L : OpLists) (E : Externals) (b : Bool) (p : List token_t)
    (hp : PostOk L E b p) : LvlOk L E b 2 p := by
  refine ⟨hp.1.h_sub (by decide), fun n f t hn hf ht c post => ?_⟩
  have hlen := hp.1.h_length
  obtain ⟨f, rfl⟩ : ∃ f', f = f' + 1 := ⟨f - 1, by omega⟩
  have ht1 := ht.1
  unfold after_operand at ht1
  simp only [List.mem_cons, List.mem_singleton, List.not_mem_nil, not_or, or_false] at ht1
  have hgo := hp.2 n f t hn (by omega) (after_operand_stop1 ht.1) c post
  show Go (hier2 E (hier14 L E n) (f + 1)) _ _
  unfold hier2
  obtain ⟨a, r, rfl, ha⟩ := hp.1
  rw [List.cons_append] at hgo ⊢
  refine Go.c_lex ?_
  refine Go.c_still Still_current_pos fun pos => ?_
  refine Go.g_ite (fun h => ?_) fun _ => ?_
  · rcases h with h | h <;> exact absurd (h ▸ ha) (by decide)
  refine Go.g_ite (fun h => ?_) fun _ => ?_
  · rcases h with h | h | h <;> exact absurd (h ▸ ha) (by decide)
  refine Go.g_ite (fun h => absurd (h ▸ ha) (by decide)) fun _ => ?_
  refine Go.g_ite (fun h => absurd (h ▸ ha) (by decide)) fun _ => ?_
  refine Go.g_ite (fun h => absurd (h ▸ ha) (by decide)) fun _ => ?_
  refine Go.g_ite (fun h => absurd (h ▸ ha) (by decide)) fun _ => ?_
  refine Go.c_lexpush ?_
  refine Go.g_bind hgo fun node st' h => ?_
  subst h
  by_cases hsemi : t.id = ch_semicolon
  · refine Go.c_hit hsemi ?_
    refine Go.c_lexpush ?_
    exact Go.g_pure rfl
  refine Go.c_miss hsemi (by decide) ?_
  refine Go.c_term (by
    simp only [List.mem_cons, List.mem_singleton, List.not_mem_nil, not_or, or_false]
    exact ⟨ht1.2.2.2.2.2.2.1, hsemi, ht1.2.2.2.2.2.2.2⟩) fun bb => ?_
  cases bb with
  | true => exact Go.g_pure rfl
  | false =>
    refine Go.c_lex ?_
    refine Go.g_ite (fun h => ?_) fun _ => ?_
    · rcases h with h | h
      · exact absurd h ht1.2.2.2.2.1
      · exact absurd h ht1.2.2.2.2.2.1
    refine Go.c_lexpush ?_
    exact Go.g_pure rfl

theorem post_inc_ok (L : OpLists) (E : Externals) (b : Bool) (p : List token_t)
    (op : token_t) (hp : PostOk L E b p) (hop : op.id = tINC ∨ op.id = tDEC)
    (hline : b = true ∨ ∀ a ∈ p.getLast?, op.start.line = a.start.line) :
    LvlOk L E b 2 (p ++ [op]) := by
  refine ⟨(hp.1.h_sub (by decide)).h_append _, fun n f t hn hf ht c post => ?_⟩
  simp only [List.length_append, List.length_cons, List.length_nil] at hn hf
  have hlen := hp.1.h_length
  obtain ⟨f, rfl⟩ : ∃ f', f = f' + 1 := ⟨f - 1, by omega⟩
  have hop1 : stop1 op := by
    unfold stop1
    rcases hop with h | h <;> rw [h] <;> decide
  have hgo := hp.2 n f op (by omega) (by omega) hop1 c (t :: post)
  have hrest : (p ++ [op]) ++ t :: post = p ++ op :: t :: post := by simp
  rw [hrest]
  have hcur : ∃ a, p.getLast? = some a := by
    obtain ⟨a, r, rfl, _⟩ := hp.1
    exact ⟨_, List.getLast?_eq_getLast _ (by simp)⟩
  obtain ⟨last, hlast⟩ := hcur
  show Go (hier2 E (hier14 L E n) (f + 1)) _ _
  unfold hier2
  obtain ⟨a, r, rfl, ha⟩ := hp.1
  rw [List.cons_append] at hgo ⊢
  refine Go.c_lex ?_
  refine Go.c_still Still_current_pos fun pos => ?_
  refine Go.g_ite (fun h => ?_) fun _ => ?_
  · rcases h with h | h <;> exact absurd (h ▸ ha) (by decide)
  refine Go.g_ite (fun h => ?_) fun _ => ?_
  · rcases h with h | h | h <;> exact absurd (h ▸ ha) (by decide)
  refine Go.g_ite (fun h => absurd (h ▸ ha) (by decide)) fun _ => ?_
  refine Go.g_ite (fun h => absurd (h ▸ ha) (by decide)) fun _ => ?_
  refine Go.g_ite (fun h => absurd (h ▸ ha) (by decide)) fun _ => ?_
  refine Go.g_ite (fun h => absurd (h ▸ ha) (by decide)) fun _ => ?_
  refine Go.c_lexpush ?_
  refine Go.g_bind hgo fun node st' h => ?_
  subst h
  refine Go.c_miss (by rcases hop with h | h <;> rw [h] <;> decide) (by decide) ?_
  refine Go.c_term_miss (by rcases hop with h | h <;> rw [h] <;> decide) ?_ ?_
  · rcases hline with h | h
    · exact Or.inl h
    · right
      rw [current_after hlast]
      exact h last hlast
  refine Go.c_lex ?_
  refine Go.g_ite (fun _ => ?_) fun h => absurd hop h
  refine Go.c_still Still_current_pos fun p2 => ?_
  exact Go.g_pure (by simp)

theorem hier_at_succ (L : OpLists) (E : Externals) (h14 : P Expr) (f k : Nat) (h2 : 2 ≤ k)
    (h11 : k ≤ 11) (h8 : k ≠ 8) :
    hier_at L E h14 f (k + 1) = plnge (L.table (k + 1)) (hier_at L E h14 f k) f := by
  interval_cases k
  · rfl
  · rfl
  · rfl
  · rfl
  · rfl
  · rfl
  · exact absurd rfl h8
  · rfl
  · rfl
  · rfl

theorem hier_at_nine (L : OpLists) (E : Externals) (h14 : P Expr) (f : Nat) :
    hier_at L E h14 f 9 = plnge_rel (L.table 9) (hier_at L E h14 f 8) f := rfl

theorem plnge_eq_tail (opstr : List TokenKind) (hier : P Expr) (fuel : Nat) :
    plnge opstr hier fuel = hier >>= plnge_tail opstr hier fuel := rfl

theorem plnge_rel_eq_top (opstr : List TokenKind) (hier : P Expr) (fuel : Nat) :
    plnge_rel opstr hier fuel = hier >>= plnge_rel_top opstr hier fuel := rfl

theorem plnge_loop_succ (opstr : List TokenKind) (hier : P Expr) (fuel : Nat) (node : Expr)
    (opidx : Nat) :
    plnge_loop opstr hier (fuel + 1) node opidx = (do
      let pos ← current_pos
      let right ← hier
      plnge_tail opstr hier fuel
        (if opstr.getD opidx TokenKind.tEOF = TokenKind.tlOR ∨
            opstr.getD opidx TokenKind.tEOF = TokenKind.tlAND then
          Expr.LogicalExpr pos (opstr.getD opidx TokenKind.tEOF) node right
        else
          Expr.BinaryExpr pos (opstr.getD opidx TokenKind.tEOF) node right)) := by
  unfold plnge_loop plnge_tail
  refine congrArg _ (funext fun pos => congrArg _ (funext fun right => ?_))
  show (nextop opstr >>= _) = (nextop opstr >>= _)
  refine congrArg _ (funext fun r => ?_)
  cases r <;> rfl

theorem plnge_rel_loop_succ (opstr : List TokenKind) (hier : P Expr) (fuel : Nat)
    (ops : List (token_pos_t × TokenKind × Expr)) (opidx : Nat) :
    plnge_rel_loop opstr hier (fuel + 1) ops opidx = (do
      let pos ← current_pos
      let right ← hier
      plnge_rel_tail opstr hier fuel
        (ops ++ [(pos, opstr.getD opidx TokenKind.tEOF, right)])) := rfl

theorem ltail_nil_ok (L : OpLists) (hL : L.proper) (E : Externals) (b : Bool) (k : Nat) :
    TailOk L E b k [] := by
  refine ⟨Or.inl rfl, fun n f g t _ _ _ ht => ⟨fun node c post => ?_, fun ops c post => ?_,
    fun first c post => ?_⟩⟩
  · show Go _ ⟨c, t :: post, b⟩ _
    unfold plnge_tail
    refine Go.c_noop (OpLists.proper_tTERM hL k) (stopk_table ht) ?_
    exact Go.g_pure rfl
  · show Go _ ⟨c, t :: post, b⟩ _
    unfold plnge_rel_tail
    refine Go.c_noop (OpLists.proper_tTERM hL k) (stopk_table ht) ?_
    exact Go.g_pure rfl
  · show Go _ ⟨c, t :: post, b⟩ _
    unfold plnge_rel_top
    refine Go.c_noop (OpLists.proper_tTERM hL k) (stopk_table ht) ?_
    exact Go.g_pure rfl

theorem tail_follow {L : OpLists} (hL : L.proper) {k : Nat} {tl : List token_t}
    (h : tl = [] ∨ HeadIn (L.table (k + 1)) tl) {t : token_t} (ht : stopk L (k + 1) t)
    (post : List token_t) : ∃ x r, tl ++ t :: post = x :: r ∧ stopk L k x := by
  rcases h with rfl | ⟨a, r, rfl, ha⟩
  · exact ⟨t, post, rfl, stopk_mono ht (by omega)⟩
  · exact ⟨a, r ++ t :: post, rfl, stopk_op hL ha⟩

theorem ltail_cons_ok (L : OpLists) (hL : L.proper) (E : Externals) (b : Bool) (k : Nat)
    (op : token_t) (d tl : List token_t) (hop : op.id ∈ L.table (k + 1))
    (hd : LvlOk L E b k d) (htl : TailOk L E b (k + 1) tl) :
    TailOk L E b (k + 1) (op :: d ++ tl) := by
  refine ⟨Or.inr ⟨op, _, rfl, hop⟩, fun n f g t hn hf hg ht => ?_⟩
  simp only [List.length_append, List.length_cons] at hn hf hg
  obtain ⟨g, rfl⟩ : ∃ g', g = g' + 1 := ⟨g - 1, by omega⟩
  have hterm := OpLists.proper_tTERM hL (k + 1)
  have hk : k + 1 - 1 = k := by omega
  rw [hk]
  obtain ⟨h1, h2, _⟩ := htl.2 n f g t (by omega) (by omega) (by omega) ht
  rw [hk] at h1 h2
  refine ⟨fun node c post => ?_, fun ops c post => ?_, fun first c post => ?_⟩
  · have hrest : (op :: d ++ tl) ++ t :: post = op :: (d ++ (tl ++ t :: post)) := by simp
    rw [hrest]
    obtain ⟨x, r, hr, hx⟩ := tail_follow hL htl.1 ht post
    unfold plnge_tail
    refine Go.c_op hterm hop fun i => ?_
    show Go (plnge_loop _ _ (g + 1) node i) _ _
    rw [plnge_loop_succ]
    refine Go.c_still Still_current_pos fun pos => ?_
    rw [hr]
    refine Go.c_reads (hd.2 n f x (by omega) (by omega) hx) fun right => ?_
    rw [← hr]
    refine Go.g_mono (h1 _ _ _) fun _ st' h => ?_
    rw [h]
    simp
  · have hrest : (op :: d ++ tl) ++ t :: post = op :: (d ++ (tl ++ t :: post)) := by simp
    rw [hrest]
    obtain ⟨x, r, hr, hx⟩ := tail_follow hL htl.1 ht post
    unfold plnge_rel_tail
    refine Go.c_op hterm hop fun i => ?_
    show Go (plnge_rel_loop _ _ (g + 1) ops i) _ _
    rw [plnge_rel_loop_succ]
    refine Go.c_still Still_current_pos fun pos => ?_
    rw [hr]
    refine Go.c_reads (hd.2 n f x (by omega) (by omega) hx) fun right => ?_
    rw [← hr]
    refine Go.g_mono (h2 _ _ _) fun _ st' h => ?_
    rw [h]
    simp
  · have hrest : (op :: d ++ tl) ++ t :: post = op :: (d ++ (tl ++ t :: post)) := by simp
    rw [hrest]
    obtain ⟨x, r, hr, hx⟩ := tail_follow hL htl.1 ht post
    unfold plnge_rel_top
    refine Go.c_op hterm hop fun i => ?_
    refine Go.c_still Still_current_pos fun chainpos => ?_
    rw [plnge_rel_loop_succ]
    have hloop : Go (do
        let pos ← current_pos
        let right ← hier_at L E (hier14 L E n) f k
        plnge_rel_tail (L.table (k + 1)) (hier_at L E (hier14 L E n) f k) g
          ([] ++ [(pos, (L.table (k + 1)).getD i TokenKind.tEOF, right)]))
        ⟨some op :: c, d ++ (tl ++ t :: post), b⟩
        (fun _ st' => st' = ⟨(op :: d ++ tl).reverse.map some ++ c, t :: post, b⟩) := by
      refine Go.c_still Still_current_pos fun pos => ?_
      rw [hr]
      refine Go.c_reads (hd.2 n f x (by omega) (by omega) hx) fun right => ?_
      rw [← hr]
      refine Go.g_mono (h2 _ _ _) fun _ st' h => ?_
      rw [h]
      simp
    refine Go.g_bind hloop fun ops st' h => ?_
    exact Go.g_pure h

theorem chain_ok (L : OpLists) (hL : L.proper) (E : Externals) (b : Bool) (k : Nat)
    (c tl : List token_t) (h2 : 2 ≤ k) (h11 : k ≤ 11) (hc : LvlOk L E b k c)
    (htl : TailOk L E b (k + 1) tl) : LvlOk L E b (k + 1) (c ++ tl) := by
  refine ⟨hc.1.h_append _, fun n f t hn hf ht cs post => ?_⟩
  simp only [List.length_append] at hn hf
  have hk : k + 1 - 1 = k := by omega
  obtain ⟨t1, _, t3⟩ := htl.2 n f f t (by omega) (by omega) (by omega) ht
  rw [hk] at t1 t3
  have hrest : (c ++ tl) ++ t :: post = c ++ (tl ++ t :: post) := by simp
  rw [hrest]
  obtain ⟨x, r, hr, hx⟩ := tail_follow hL htl.1 ht post
  by_cases h8 : k = 8
  · subst h8
    rw [hier_at_nine, plnge_rel_eq_top, hr]
    refine Go.c_reads (hc.2 n f x (by omega) (by omega) hx) fun first => ?_
    rw [← hr]
    refine Go.g_mono (t3 _ _ _) fun _ st' h => ?_
    rw [h]
    simp
  · rw [hier_at_succ L E _ f k h2 h11 h8, plnge_eq_tail, hr]
    refine Go.c_reads (hc.2 n f x (by omega) (by omega) hx) fun node => ?_
    rw [← hr]
    refine Go.g_mono (t1 _ _ _) fun _ st' h => ?_
    rw [h]
    simp

theorem tern_pass_ok (L : OpLists) (E : Externals) (b : Bool) (c : List token_t)
    (hc : LvlOk L E b 12 c) : TernOk L E b c := by
  refine ⟨hc.1, fun n f t hn hf ht cs post => ?_⟩
  obtain ⟨f, rfl⟩ : ∃ f', f = f' + 1 := ⟨f - 1, by omega⟩
  unfold hier13
  refine Go.c_reads (m := hier12 L E (hier14 L E n) f)
    (hc.2 n f t (by omega) (by omega) ht.1) fun node => ?_
  refine Go.c_miss ht.2 (by decide) ?_
  exact Go.g_pure rfl

theorem tern_cond_ok (L : OpLists) (hL : L.proper) (E : Externals) (b : Bool)
    (c : List token_t) (q : token_t) (a : List token_t) (cl : token_t) (e : List token_t)
    (hc : LvlOk L E b 12 c) (hq : q.id = ch_question) (ha : TernOk L E b a)
    (hcl : cl.id = ch_colon) (he : TernOk L E b e) :
    TernOk L E b (c ++ q :: a ++ cl :: e) := by
  refine ⟨(hc.1.h_append _).h_append _, fun n f t hn hf ht cs post => ?_⟩
  simp only [List.length_append, List.length_cons] at hn hf
  have hlen := hc.1.h_length
  obtain ⟨f, rfl⟩ : ∃ f', f = f' + 1 := ⟨f - 1, by omega⟩
  have hrest : (c ++ q :: a ++ cl :: e) ++ t :: post =
      c ++ q :: (a ++ cl :: (e ++ t :: post)) := by
    simp
  rw [hrest]
  unfold hier13
  refine Go.c_reads (m := hier12 L E (hier14 L E n) f)
    (hc.2 n f q (by omega) (by omega) (stopk_closer hL 12 (by rw [hq]; decide))) fun node => ?_
  refine Go.c_hit hq ?_
  refine Go.c_still Still_current_pos fun pos => ?_
  refine Go.c_reads (Reads.r_SaveAndSet stream_set_sc_allowtags false
    (ha.2 n f cl (by omega) (by omega) (stop13_closer hL (by rw [hcl]; decide)))) fun left => ?_
  refine Go.c_need hcl ?_
  refine Go.g_bind (he.2 n f t (by omega) (by omega) ht _ _) fun right st' h => ?_
  exact Go.g_pure (by rw [h]; simp)

theorem expr_pass_ok (L : OpLists) (E : Externals) (b : Bool) (c : List token_t)
    (hc : TernOk L E b c) : ExprOk L E b c := by
  refine ⟨hc.1, fun n t hn ht cs post => ?_⟩
  obtain ⟨n, rfl⟩ : ∃ n', n = n' + 1 := ⟨n - 1, by omega⟩
  unfold hier14
  refine Go.c_reads (hc.2 n n t (by omega) (by omega) ht.1) fun node => ?_
  refine Go.c_lex ?_
  refine Go.c_still Still_current_pos fun pos => ?_
  refine Go.g_ite (fun h => absurd h ht.2.1) fun _ => ?_
  refine Go.g_ite (fun h => absurd h ht.2.2) fun _ => ?_
  refine Go.c_lexpush ?_
  exact Go.g_pure rfl

theorem assign_ok (L : OpLists) (hL : L.proper) (E : Externals) (b : Bool)
    (c : List token_t) (op : token_t) (r : List token_t) (hc : TernOk L E b c)
    (hop : op.id ∈ assign_ops ∨ op.id = ch_assign) (hr : ExprOk L E b r) :
    ExprOk L E b (c ++ op :: r) := by
  refine ⟨hc.1.h_append _, fun n t hn ht cs post => ?_⟩
  simp only [List.length_append, List.length_cons] at hn
  obtain ⟨n, rfl⟩ : ∃ n', n = n' + 1 := ⟨n - 1, by omega⟩
  have hrest : (c ++ op :: r) ++ t :: post = c ++ op :: (r ++ t :: post) := by simp
  rw [hrest]
  have hstop : stop13 L op := by
    refine stop13_closer hL ?_
    rcases hop with h | h
    · exact List.mem_append_right _ h
    · rw [h]
      decide
  have hright : ∀ (pos : token_pos_t) (node : Expr), Go (do
      let right ← hier14 L E n
      return Expr.BinaryExpr pos op.id node right : P Expr)
      ⟨some op :: (c.reverse.map some ++ cs), r ++ t :: post, b⟩
      (fun _ st' => st' = ⟨(c ++ op :: r).reverse.map some ++ cs, t :: post, b⟩) := by
    intro pos node
    refine Go.g_bind (hr.2 n t (by omega) ht _ _) fun right st' h => ?_
    exact Go.g_pure (by rw [h]; simp)
  unfold hier14
  refine Go.c_reads (hc.2 n n op (by omega) (by omega) hstop) fun node => ?_
  refine Go.c_lex ?_
  refine Go.c_still Still_current_pos fun pos => ?_
  refine Go.g_ite (fun _ => hright pos node) fun h1 => ?_
  refine Go.g_ite (fun _ => ?_) fun h2 => ?_
  · refine Go.c_still Still_get fun s => ?_
    cases s.sc_intest with
    | true =>
      refine Go.c_still (Still_error _) fun _ => ?_
      exact hright pos node
    | false => exact hright pos node
  rcases hop with h | h
  · exact absurd h h1
  · exact absurd h h2

theorem aligned_of_wellFormed (L : OpLists) (hL : L.proper) (E : Externals) (b : Bool)
    (f : Form) (toks : List token_t) (h : WellFormed L E b f toks) : Aligned L E b f toks := by
  induction h with
  | atom a ha => exact atom_ok L E b a ha
  | paren lp rp es hlp _ hrp ih => exact paren_ok L hL E b lp rp es hlp ih hrp
  | array lb rb body hlb _ hrb ih => exact array_ok L hL E b lb rb body hlb ih hrb
  | elems_one e _ ih => exact elems_one_ok L E b e ih
  | elems_more e cm es _ hcm _ ih1 ih2 => exact elems_more_ok L hL E b e cm es ih1 hcm ih2
  | arr_ellipsis el hel => exact arr_ellipsis_ok L E b el hel
  | arr_one e _ ih => exact arr_one_ok L E b e ih
  | arr_more e cm body _ hcm _ ih1 ih2 => exact arr_more_ok L hL E b e cm body ih1 hcm ih2
  | base_prim p _ ih => exact base_prim_ok L E b p ih
  | view_as va lt ty tys gt lp e rp hva hlt hty hgt hlp _ hrp ih =>
    exact view_as_ok L hL E b va lt ty tys gt lp e rp hva hlt hty hgt hlp ih hrp
  | ptail_nil => exact ptail_nil_ok L E b
  | field d nm tl hd hnm _ ih => exact field_ok L E b d nm tl hd hnm ih
  | index lb e rb tl hlb _ hrb _ ih1 ih2 => exact index_ok L hL E b lb e rb tl hlb ih1 hrb ih2
  | call lp as tl hlp _ _ ih1 ih2 => exact call_ok L E b lp as tl hlp ih1 ih2
  | post_chain bs tl _ _ ih1 ih2 => exact post_chain_ok L E b bs tl ih1 ih2
  | args_none rp hrp => exact args_none_ok L E b rp hrp
  | args_some al _ ih => exact args_some_ok L E b al ih
  | arg_plain v _ ih => exact arg_plain_ok L E b v ih
  | arg_named d nm eq v hd hnm heq _ ih => exact arg_named_ok L E b d nm eq v hd hnm heq ih
  | argv_skip_last us rp hus hrp => exact argv_skip_last_ok L E b us rp hus hrp
  | argv_expr_last e rp _ hrp ih => exact argv_expr_last_ok L hL E b e rp ih hrp
  | argv_skip_more us cm al hus hcm _ ih => exact argv_skip_more_ok L E b us cm al hus hcm ih
  | argv_expr_more e cm al _ hcm _ ih1 ih2 =>
    exact argv_expr_more_ok L hL E b e cm al ih1 hcm ih2
  | dims_last e rb _ hrb ih => exact dims_last_ok L hL E b e rb ih hrb
  | dims_more e rb lb ds _ hrb hlb _ ih1 ih2 =>
    exact dims_more_ok L hL E b e rb lb ds ih1 hrb hlb ih2
  | pre op u hop _ ih => exact pre_ok L E b op u hop ih
  | cast lb u hlb _ ih => exact cast_ok L E b lb u hlb ih
  | new_call nw nm lp as hnw hnm hlp _ ih => exact new_call_ok L E b nw nm lp as hnw hnm hlp ih
  | new_array nw tys lb ds hnw hty hcall hlb _ ih =>
    exact new_array_ok L E b nw tys lb ds hnw hty hcall hlb ih
  | defined df lps nm rps hdf hlps hnm hrps hlen =>
    exact defined_ok L E b df lps nm rps hdf hlps hnm hrps hlen
  | sizeof sz lps nm lvls fld rps hsz hlps hnm hlvls hfld hrps hlen =>
    exact sizeof_ok L E b sz lps nm lvls fld rps hsz hlps hnm hlvls hfld hrps hlen
  | of_post p _ ih => exact of_post_ok L E b p ih
  | post_inc p op _ hop hline ih => exact post_inc_ok L E b p op ih hop hline
  | chain k c tl h2 h11 _ _ ih1 ih2 => exact chain_ok L hL E b k c tl h2 h11 ih1 ih2
  | ltail_nil k => exact ltail_nil_ok L hL E b k
  | ltail_cons k op d tl hop _ _ ih1 ih2 => exact ltail_cons_ok L hL E b k op d tl hop ih1 ih2
  | tern_pass c _ ih => exact tern_pass_ok L E b c ih
  | tern_cond c q a cl e _ hq _ hcl _ ih1 ih2 ih3 =>
    exact tern_cond_ok L hL E b c q a cl e ih1 hq ih2 hcl ih3
  | expr_pass c _ ih => exact expr_pass_ok L E b c ih
  | assign c op r _ hop _ ih1 ih2 => exact assign_ok L hL E b c op r ih1 hop ih2

theorem WellFormed.w_raise {L : OpLists} {E : Externals} {b : Bool} {toks : List token_t}
    (j : Nat) (hj : 2 ≤ j) (h : WellFormed L E b (.lvl j) toks) :
    ∀ d, j + d ≤ 12 → WellFormed L E b (.lvl (j + d)) toks := by
  intro d
  induction d with
  | zero => exact fun _ => h
  | succ d ih =>
    intro hd
    have := WellFormed.chain (j + d) toks [] (by omega) (by omega) (ih (by omega))
      (WellFormed.ltail_nil _)
    rwa [List.append_nil] at this

theorem WellFormed.w_tern {L : OpLists} {E : Externals} {b : Bool} {toks : List token_t}
    (j : Nat) (hj : 2 ≤ j) (h12 : j ≤ 12) (h : WellFormed L E b (.lvl j) toks) :
    WellFormed L E b .tern toks := by
  have := WellFormed.w_raise j hj h (12 - j) (by omega)
  rw [show j + (12 - j) = 12 by omega] at this
  exact WellFormed.tern_pass _ this

theorem WellFormed.w_expr {L : OpLists} {E : Externals} {b : Bool} {toks : List token_t}
    (j : Nat) (hj : 2 ≤ j) (h12 : j ≤ 12) (h : WellFormed L E b (.lvl j) toks) :
    WellFormed L E b .expr toks :=
  WellFormed.expr_pass _ (WellFormed.w_tern j hj h12 h)

theorem WellFormed.w_atom {L : OpLists} {E : Externals} {b : Bool} (a : token_t)
    (ha : a.id ∈ [tTHIS, tSYMBOL, tNULL, tNUMBER, tRATIONAL, tSTRING]) :
    WellFormed L E b (.lvl 2) [a] :=
  WellFormed.of_post _ (WellFormed.post_chain [a] [] (WellFormed.base_prim _
    (WellFormed.atom a ha)) WellFormed.ptail_nil)

theorem c31_tokens_wellFormed :
    WellFormed sample_lists sample_externals true Form.expr c31_tokens := by
  have h1 : WellFormed sample_lists sample_externals true .expr [num 1 4] :=
    WellFormed.w_expr 2 (by decide) (by decide) (WellFormed.w_atom _ (by decide))
  have h2 : WellFormed sample_lists sample_externals true .expr [num 2 8] :=
    WellFormed.w_expr 2 (by decide) (by decide) (WellFormed.w_atom _ (by decide))
  have hb : WellFormed sample_lists sample_externals true .expr
      [sym "b" 6, tk ch_lbracket 7, num 2 8, tk ch_rbracket 9] :=
    WellFormed.w_expr 2 (by decide) (by decide) (WellFormed.of_post _
      (WellFormed.post_chain [sym "b" 6] [tk ch_lbracket 7, num 2 8, tk ch_rbracket 9]
        (WellFormed.base_prim _ (WellFormed.atom _ (by decide)))
        (WellFormed.index (tk ch_lbracket 7) [num 2 8] (tk ch_rbracket 9) [] rfl h2 rfl
          WellFormed.ptail_nil)))
  have hargs : WellFormed sample_lists sample_externals true .args
      [num 1 4, tk ch_comma 5, sym "b" 6, tk ch_lbracket 7, num 2 8, tk ch_rbracket 9,
       tk ch_rparen 10] :=
    WellFormed.args_some _ (WellFormed.arg_plain _
      (WellFormed.argv_expr_more [num 1 4] (tk ch_comma 5) _ h1 rfl
        (WellFormed.arg_plain _ (WellFormed.argv_expr_last _ (tk ch_rparen 10) hb rfl))))
  have hf : WellFormed sample_lists sample_externals true (.lvl 2)
      [sym "f" 2, tk ch_lparen 3, num 1 4, tk ch_comma 5, sym "b" 6, tk ch_lbracket 7, num 2 8,
       tk ch_rbracket 9, tk ch_rparen 10] :=
    WellFormed.of_post _ (WellFormed.post_chain [sym "f" 2] _
      (WellFormed.base_prim _ (WellFormed.atom _ (by decide)))
      (WellFormed.call (tk ch_lparen 3) _ [] rfl hargs WellFormed.ptail_nil))
  have hc : WellFormed sample_lists sample_externals true (.lvl 2)
      [tk ch_minus 12, sym "c" 13] :=
    WellFormed.pre _ _ (by decide) (WellFormed.w_atom _ (by decide))
  have hprod : WellFormed sample_lists sample_externals true (.lvl 3)
      [sym "f" 2, tk ch_lparen 3, num 1 4, tk ch_comma 5, sym "b" 6, tk ch_lbracket 7, num 2 8,
       tk ch_rbracket 9, tk ch_rparen 10, tk ch_star 11, tk ch_minus 12, sym "c" 13] :=
    WellFormed.chain 2 _ [tk ch_star 11, tk ch_minus 12, sym "c" 13] (by decide) (by decide) hf
      (WellFormed.ltail_cons 2 (tk ch_star 11) [tk ch_minus 12, sym "c" 13] [] (by decide) hc
        (WellFormed.ltail_nil _))
  have ha : WellFormed sample_lists sample_externals true (.lvl 3) [sym "a" 0] :=
    WellFormed.w_raise 2 (by decide) (WellFormed.w_atom _ (by decide)) 1 (by decide)
  have hsum : WellFormed sample_lists sample_externals true (.lvl 4) c31_tokens :=
    WellFormed.chain 3 [sym "a" 0] _ (by decide) (by decide) ha
      (WellFormed.ltail_cons 3 (tk ch_plus 1) _ [] (by decide) hprod (WellFormed.ltail_nil _))
  exact WellFormed.w_expr 4 (by decide) (by decide) hsum

theorem stream_eq_parts {s : ParserState} {c : List (Option token_t)} {r : List token_t}
    {b : Bool} (h : s.stream = ⟨c, r, b⟩) : s.consumed = c ∧ s.rest = r :=
  ⟨congrArg Stream.consumed h, congrArg Stream.rest h⟩

/-- C31, the claim as stated fails: in `a <end of expression> ;` the identifier
`a` is a well-formed expression and the end-of-expression mark after it cannot
continue it (it is no postfix, binary, ternary or assignment operator), yet
`hier14` consumes the mark: two tokens are consumed and `;` is next. -/
theorem hier14_consumes_end_mark :
    WellFormed sample_lists sample_externals true Form.expr [sym "a" 0] ∧
    tENDEXPR ∉ [ch_dot, tDBLCOLON, ch_lbracket, ch_lparen, tINC, tDEC, ch_question, ch_assign]
      ++ assign_ops ++ sample_lists.tables.flatten ∧
    (hier14 sample_lists sample_externals 8 (init_state c31_end_tokens)).map
        (fun r => (r.1, r.2.consumed, r.2.rest)) =
      some (Expr.SymbolExpr ⟨1, 0⟩ "a", [some (tk tENDEXPR 1), some (sym "a" 0)],
        [tk ch_semicolon 2]) :=
  ⟨WellFormed.w_expr 2 (by decide) (by decide) (WellFormed.w_atom _ (by decide)), by decide,
    by decide!⟩

/-- C31, amended: stream alignment of expressions. For operator tables that hold
binary operators only, each at one level, for every well-formed expression
`toks` followed by a token `t` that cannot continue it and is no terminator
mark (`stop14`: no postfix, binary, ternary or assignment operator, not of the
kinds `tTERM` and `tENDEXPR`), and every fuel from the length of the expression
plus 4 on, `hier14` returns, it has consumed exactly the tokens of the
expression, `t` has not been consumed and `t` is the token the next `lex`
hands out. -/
theorem hier14_stream_alignment (L : OpLists) (hL : L.proper) (E : Externals)
    (s : ParserState) (toks : List token_t) (t : token_t) (post : List token_t)
    (hwf : WellFormed L E s.sc_needsemicolon Form.expr toks) (ht : stop14 L t)
    (hs : s.rest = toks ++ t :: post) (n : Nat) (hn : toks.length + 4 ≤ n) :
    ∃ e s', hier14 L E n s = some (e, s') ∧
      s'.consumed = toks.reverse.map some ++ s.consumed ∧ s'.rest = t :: post ∧
      lex s' = some (t, s'.adv) := by
  have hal : ExprOk L E s.sc_needsemicolon toks :=
    aligned_of_wellFormed L hL E s.sc_needsemicolon Form.expr toks hwf
  obtain ⟨e, s', hrun, hst⟩ := hal.2 n t hn ht s.consumed post s (by
    unfold ParserState.stream
    rw [hs])
  obtain ⟨h1, h2⟩ := stream_eq_parts hst
  refine ⟨e, s', hrun, h1, h2, ?_⟩
  rw [lex_run]
  unfold ParserState.peekTok
  rw [h2]
  rfl

/-- Witness of C31: `a + f ( 1 , b [ 2 ] ) * - c` followed by `)`. -/
theorem hier14_stream_alignment_witness :
    sample_lists.proper ∧
    WellFormed sample_lists sample_externals true Form.expr c31_tokens ∧
    stop14 sample_lists (tk ch_rparen 14) ∧
    ∃ e s', hier14 sample_lists sample_externals 18
        (init_state (c31_tokens ++ [tk ch_rparen 14])) = some (e, s') ∧
      s'.consumed = c31_tokens.reverse.map some ++
        (init_state (c31_tokens ++ [tk ch_rparen 14])).consumed ∧
      s'.rest = [tk ch_rparen 14] ∧ lex s' = some (tk ch_rparen 14, s'.adv) :=
  ⟨by decide, c31_tokens_wellFormed, stop14_closer (by decide) (by decide),
    hier14_stream_alignment sample_lists (by decide) sample_externals
      (init_state (c31_tokens ++ [tk ch_rparen 14])) c31_tokens (tk ch_rparen 14) []
      c31_tokens_wellFormed (stop14_closer (by decide) (by decide)) rfl 18 (by decide)⟩


end SourcePawn
